import Mathlib

/-!
# Linux 0.11 kernel core: a shallow embedding

Machine words are natural numbers: an `unsigned long` is a `Nat` below `2^32`,
an `unsigned char` a `Nat` below `256`; arithmetic that can wrap carries its
modulus explicitly.  Physical memory is a map from byte addresses to bytes and
a `long` is stored little-endian in four consecutive bytes, as on the i386.
-/

namespace Linux

/-! ## mm/memory.c : constants and the physical memory state -/

/-- Macro `#define LOW_MEM 0x100000`. -/
def LOW_MEM : Nat := 0x100000

/-- Macro `#define PAGING_MEMORY (15 * 1024 * 1024)`. -/
def PAGING_MEMORY : Nat := 15 * 1024 * 1024

/-- Macro `#define PAGING_PAGES (PAGING_MEMORY >> 12)`. -/
def PAGING_PAGES : Nat := PAGING_MEMORY >>> 12

/-- Macro `#define USED 100`. -/
def USED : Nat := 100

/-- Subtraction of two `unsigned long` values, wrapping modulo `2^32`. -/
def sub32 (a b : Nat) : Nat := (a + 4294967296 - b % 4294967296) % 4294967296

/-- Macro `#define MAP_NR(addr) (((addr)-LOW_MEM) >> 12)` on `unsigned long`. -/
def MAP_NR (addr : Nat) : Nat := (sub32 addr LOW_MEM) >>> 12

/-- A byte (`unsigned char`): arithmetic on it wraps modulo 256. -/
abbrev Byte : Type := Fin 256

/-- The low byte of a number. -/
def toByte (v : Nat) : Byte := ⟨v % 256, Nat.mod_lt v (by decide)⟩

/-- Store of a 32-bit `long` at byte address `a` (little-endian). -/
def put_long (mem : Nat → Byte) (a v : Nat) : Nat → Byte :=
  fun x =>
    if x = a then toByte v
    else if x = a + 1 then toByte (v / 256)
    else if x = a + 2 then toByte (v / 65536)
    else if x = a + 3 then toByte (v / 16777216)
    else mem x

/-- Load of a 32-bit `long` from byte address `a` (little-endian). -/
def get_long (mem : Nat → Byte) (a : Nat) : Nat :=
  (mem a).val + 256 * (mem (a + 1)).val + 65536 * (mem (a + 2)).val
    + 16777216 * (mem (a + 3)).val

/-- The state `mm/memory.c` works on: physical memory (bytes), the static
array `mem_map` (one `unsigned char` per page; an index at or beyond
`PAGING_PAGES` stands for the byte the C code would touch behind the array),
the static `HIGH_MEMORY`, and the lines handed to `printk`. -/
structure Mm where
  mem : Nat → Byte
  mem_map : Nat → Byte
  HIGH_MEMORY : Nat
  console : List String

/-- The `std ; repne ; scasb` of `get_free_page`, with `al = 0`, `edi` at
`mem_map + ecx - 1`: the bytes are compared from the top downwards while `ecx`
counts down; `some k` is the value left in `ecx` when a zero byte was met (the
byte is `mem_map[k]`), `none` means the scan ended with ZF clear. -/
def scasb (mem_map : Nat → Byte) : Nat → Option Nat
  | 0 => none
  | ecx + 1 => if mem_map ecx = 0 then some ecx else scasb mem_map ecx

/-- The `rep ; stosl` of `get_free_page` with `eax = 0` and the direction flag
set: `ecx` longs are cleared, `edi` moving down by 4 after each store. -/
def stosl (mem : Nat → Byte) (edi : Nat) : Nat → (Nat → Byte)
  | 0 => mem
  | ecx + 1 => stosl (put_long mem edi 0) (edi - 4) ecx

/-- Function `unsigned long get_free_page(void)`: the returned address (0 when no page is
free) and the state left behind. -/
def get_free_page (s : Mm) : Nat × Mm :=
  match scasb s.mem_map PAGING_PAGES with
  | none => (0, s)
  | some ecx =>
    let edx := (ecx <<< 12) + LOW_MEM
    (edx, { s with mem_map := Function.update s.mem_map ecx 1,
                   mem := stosl s.mem (edx + 4092) 1024 })

/-- How a kernel routine ends: it returns a value (`ret`), it halts the kernel
in `panic(msg)` (`panic`), or it leaves through `oom()`, whose `do_exit(SIGSEGV)`
never comes back (`oom`).  Each carries the memory state reached. -/
inductive Result (α : Type) where
  | ret : α → Mm → Result α
  | panic : String → Mm → Result α
  | oom : Mm → Result α

/-- Whether the routine ended in `panic()`. -/
def Result.isPanic {α : Type} : Result α → Bool
  | .panic _ _ => true
  | _ => false

/-- The memory state a routine ended in. -/
def Result.state {α : Type} : Result α → Mm
  | .ret _ s => s
  | .panic _ s => s
  | .oom s => s

/-- Call `printk(fmt, ...)`: the format string is appended to the console log. -/
def printk (s : Mm) (fmt : String) : Mm :=
  { s with console := s.console ++ [fmt] }

/-- Function `void free_page(unsigned long addr)`. -/
def free_page (s : Mm) (addr : Nat) : Result Unit :=
  if addr < LOW_MEM then .ret () s
  else if addr ≥ s.HIGH_MEMORY then .panic "trying to free nonexistent page" s
  else
    let addr := (addr - LOW_MEM) >>> 12
    let old := s.mem_map addr
    let s1 := { s with mem_map := Function.update s.mem_map addr (old - 1) }
    if old ≠ 0 then .ret () s1
    else .panic "trying to free free page"
      { s1 with mem_map := Function.update s1.mem_map addr 0 }

/-- One turn of the inner loop of `copy_page_tables`: the page-table entry at
`from_page_table` is copied to `to_page_table`. -/
def copy_pte (s : Mm) (from_page_table to_page_table : Nat) : Mm :=
  let this_page := get_long s.mem from_page_table
  if 1 &&& this_page = 0 then s
  else
    let this_page := this_page &&& 0xfffffffd
    let s1 := { s with mem := put_long s.mem to_page_table this_page }
    if this_page > LOW_MEM then
      let s2 := { s1 with mem := put_long s1.mem from_page_table this_page }
      let nr := (this_page - LOW_MEM) >>> 12
      { s2 with mem_map := Function.update s2.mem_map nr (s2.mem_map nr + 1) }
    else s1

/-- The inner loop `for (; nr-- > 0; from_page_table++, to_page_table++)`. -/
def copy_ptes (s : Mm) (from_page_table to_page_table : Nat) : Nat → Mm
  | 0 => s
  | nr + 1 => copy_ptes (copy_pte s from_page_table to_page_table)
      (from_page_table + 4) (to_page_table + 4) nr

/-- The outer loop `for (; size-- > 0; from_dir++, to_dir++)` of
`copy_page_tables` and its `return 0`; `src` is the argument `from`. -/
def copy_dirs (src : Nat) (s : Mm) (from_dir to_dir : Nat) : Nat → Result Int
  | 0 => .ret 0 s
  | size + 1 =>
    if 1 &&& get_long s.mem to_dir ≠ 0 then
      .panic "copy_page_tables: already exist" s
    else if 1 &&& get_long s.mem from_dir = 0 then
      copy_dirs src s (from_dir + 4) (to_dir + 4) size
    else
      let from_page_table := 0xfffff000 &&& get_long s.mem from_dir
      let r := get_free_page s
      let to_page_table := r.1
      if to_page_table = 0 then .ret (-1) r.2
      else
        let s2 := { r.2 with mem := put_long r.2.mem to_dir (to_page_table ||| 7) }
        let nr := if src = 0 then 0xA0 else 1024
        copy_dirs src (copy_ptes s2 from_page_table to_page_table nr)
          (from_dir + 4) (to_dir + 4) size

/-- Function `int copy_page_tables(unsigned long from, unsigned long to, long size)`. -/
def copy_page_tables (s : Mm) (src dst size : Nat) : Result Int :=
  if src &&& 0x3fffff ≠ 0 ∨ dst &&& 0x3fffff ≠ 0 then
    .panic "copy_page_tables called with wrong alignment" s
  else
    let from_dir := (src >>> 20) &&& 0xffc
    let to_dir := (dst >>> 20) &&& 0xffc
    let size := ((size + 0x3fffff) % 4294967296) >>> 22
    copy_dirs src s from_dir to_dir size

/-- A page-table entry with the R/W bit cleared: `this_page &= ~2`. -/
def pte_ro (v : Nat) : Nat := v &&& 0xfffffffd

/-- The `mem_map` index `copy_page_tables` computes for an entry above
`LOW_MEM`: `(this_page - LOW_MEM) >> 12`. -/
def pte_nr (v : Nat) : Nat := (pte_ro v - LOW_MEM) >>> 12

/-- The number of entries copied per page table: `(from == 0) ? 0xA0 : 1024`. -/
def nr_of (src : Nat) : Nat := if src = 0 then 0xA0 else 1024

/-- The page table a directory entry at address `a` names:
`0xfffff000 & *dir`. -/
def table_at (s : Mm) (a : Nat) : Nat := 0xfffff000 &&& get_long s.mem a

/-- Entry `j` of the page table that the directory entry at address `a` names. -/
def pte_at (s : Mm) (a j : Nat) : Nat := get_long s.mem (table_at s a + 4 * j)

/-- What one turn of the outer loop of `copy_page_tables` does to the state
when the source directory entry at `from_dir` is present and a free page is
found: the page is taken and cleared, `*to_dir` is set, the entries are
copied. -/
def copy_dir_step (src : Nat) (s : Mm) (from_dir to_dir : Nat) : Mm :=
  copy_ptes
    { (get_free_page s).2 with
      mem := put_long (get_free_page s).2.mem to_dir ((get_free_page s).1 ||| 7) }
    (table_at s from_dir) (get_free_page s).1 (nr_of src)

/-- The directory entries the outer loop of `copy_page_tables` visits: `a` is
the address of the source entry and `b` of the destination entry of one of
its `n` turns. -/
def in_dirs (fd td n a b : Nat) : Prop := ∃ d, d < n ∧ a = fd + 4 * d ∧ b = td + 4 * d

/-- A present source page-table entry that `copy_page_tables` copies: the
source directory entry at address `a` is present, `j` is below the number of
entries copied per table, and entry `j` of that table is present. -/
def pte_copied (src : Nat) (s : Mm) (a j : Nat) : Prop :=
  1 &&& get_long s.mem a ≠ 0 ∧ j < nr_of src ∧ 1 &&& pte_at s a j ≠ 0

instance (src : Nat) (s : Mm) (a j : Nat) : Decidable (pte_copied src s a j) := by
  unfold pte_copied
  infer_instance

/-- The address space `copy_page_tables` is meant for, over the `n` directory
entries from `fd` (source) and `td` (destination): both runs of entries lie in
the page directory (the first page of memory) and do not overlap; the source
page tables lie above the directory, are not free pages and differ from one
another; every copied entry above `LOW_MEM` maps a page with a count from 1 to
254, and no two of them map the same page. -/
def copy_wf (src : Nat) (s : Mm) (fd td n : Nat) : Prop :=
  (fd + 4 * n ≤ 4096 ∧ td + 4 * n ≤ 4096 ∧ (fd + 4 * n ≤ td ∨ td + 4 * n ≤ fd)) ∧
  (∀ a b, in_dirs fd td n a b → 1 &&& get_long s.mem a ≠ 0 →
    4096 ≤ table_at s a ∧
    ∀ k, k < PAGING_PAGES → s.mem_map k = 0 → table_at s a ≠ LOW_MEM + 4096 * k) ∧
  (∀ a b a2 b2, in_dirs fd td n a b → in_dirs fd td n a2 b2 →
    1 &&& get_long s.mem a ≠ 0 → 1 &&& get_long s.mem a2 ≠ 0 → a ≠ a2 →
    table_at s a ≠ table_at s a2) ∧
  (∀ a b j, in_dirs fd td n a b → pte_copied src s a j → pte_ro (pte_at s a j) > LOW_MEM →
    1 ≤ (s.mem_map (pte_nr (pte_at s a j))).val ∧
    (s.mem_map (pte_nr (pte_at s a j))).val ≤ 254 ∧
    ∀ a2 b2 j2, in_dirs fd td n a2 b2 → pte_copied src s a2 j2 →
      pte_ro (pte_at s a2 j2) > LOW_MEM → (a2 ≠ a ∨ j2 ≠ j) →
      pte_nr (pte_at s a2 j2) ≠ pte_nr (pte_at s a j))

/-- The two checks that open `put_page`: each one only calls `printk`. -/
def put_page_warn (s : Mm) (page : Nat) : Mm :=
  let s1 := if page < LOW_MEM ∨ page ≥ s.HIGH_MEMORY
    then printk s "Trying to put page %p at %p\n" else s
  if s1.mem_map ((sub32 page LOW_MEM) >>> 12) ≠ 1
    then printk s1 "mem_map disagrees with %p at %p\n" else s1

/-- Function `unsigned long put_page(unsigned long page, unsigned long address)`. -/
def put_page (s : Mm) (page address : Nat) : Nat × Mm :=
  let s2 := put_page_warn s page
  let page_table := (address >>> 20) &&& 0xffc
  if get_long s2.mem page_table &&& 1 ≠ 0 then
    let page_table := 0xfffff000 &&& get_long s2.mem page_table
    let entry := page_table + 4 * ((address >>> 12) &&& 0x3ff)
    (page, { s2 with mem := put_long s2.mem entry (page ||| 7) })
  else
    let r := get_free_page s2
    let tmp := r.1
    if tmp = 0 then (0, r.2)
    else
      let s3 := { r.2 with mem := put_long r.2.mem page_table (tmp ||| 7) }
      let entry := tmp + 4 * ((address >>> 12) &&& 0x3ff)
      (page, { s3 with mem := put_long s3.mem entry (page ||| 7) })

/-- The `cld ; rep ; movsl` of `copy_page`: `ecx` longs are copied from `esi`
to `edi`, both moving up by 4 after each long. -/
def movsl (mem : Nat → Byte) (esi edi : Nat) : Nat → (Nat → Byte)
  | 0 => mem
  | ecx + 1 => movsl (put_long mem edi (get_long mem esi)) (esi + 4) (edi + 4) ecx

/-- Macro `#define copy_page(from, to)`: 1024 longs. -/
def copy_page (mem : Nat → Byte) (src dst : Nat) : Nat → Byte :=
  movsl mem src dst 1024

/-- Function `void un_wp_page(unsigned long *table_entry)`. -/
def un_wp_page (s : Mm) (table_entry : Nat) : Result Unit :=
  let old_page := 0xfffff000 &&& get_long s.mem table_entry
  if old_page ≥ LOW_MEM ∧ s.mem_map (MAP_NR old_page) = 1 then
    .ret () { s with mem := put_long s.mem table_entry (get_long s.mem table_entry ||| 2) }
  else
    let r := get_free_page s
    let new_page := r.1
    if new_page = 0 then .oom r.2
    else
      let s1 := if old_page ≥ LOW_MEM
        then { r.2 with
          mem_map := Function.update r.2.mem_map (MAP_NR old_page) (r.2.mem_map (MAP_NR old_page) - 1) }
        else r.2
      let s2 := { s1 with mem := put_long s1.mem table_entry (new_page ||| 7) }
      .ret () { s2 with mem := copy_page s2.mem old_page new_page }

/-- A memory state for the examples: 16 MB of memory; the page directory entry
16 (linear addresses from 64 MB) names the page table at 0x2000, whose entry 0
maps the frame `LOW_MEM + 0x3000` and whose entry 1 maps the frame
`LOW_MEM + 0x6000`, both present and read-only; pages 0..5 of the paging area
have count 2, page 6 has count 1, all others are free; every other byte of
memory is 0. -/
def mm0 : Mm where
  mem := fun a =>
    if a = 64 then 7 else if a = 65 then 0x20
    else if a = 0x2000 then 5 else if a = 0x2001 then 0x30 else if a = 0x2002 then 0x10
    else if a = 0x2004 then 5 else if a = 0x2005 then 0x60 else if a = 0x2006 then 0x10
    else 0
  mem_map := fun i => if i < 6 then 2 else if i = 6 then 1 else 0
  HIGH_MEMORY := 0x1000000
  console := []

/-- A memory state for the first `fork`: the page directory entry 0 names the
kernel page table at 0x1000, whose entry 1 maps the frame 0x1000, present,
user and writable (0x1007); the first 3000 pages of the paging area are in
use, the others are free; every other byte of memory is 0. -/
def mm1 : Mm where
  mem := fun a =>
    if a = 0 then 7 else if a = 1 then 0x10
    else if a = 0x1004 then 7 else if a = 0x1005 then 0x10
    else 0
  mem_map := fun i => if i < 3000 then 100 else 0
  HIGH_MEMORY := 0x1000000
  console := []

/-! ## include/linux/sched.h, include/signal.h, include/errno.h : what the C files use -/

/-- Modelled from the spec: `include/linux/sched.h` is not under src/; the
task table has `NR_TASKS` slots, 64 in the spec's data model. -/
def NR_TASKS : Nat := 64

/-- Modelled from the spec: the task states of `include/linux/sched.h` (not
under src/), numbered as in that header: RUNNING 0, INTERRUPTIBLE 1,
UNINTERRUPTIBLE 2, ZOMBIE 3, STOPPED 4. -/
def TASK_RUNNING : Int := 0

/-- Modelled from the spec: see `TASK_RUNNING`. -/
def TASK_INTERRUPTIBLE : Int := 1

/-- Modelled from the spec: see `TASK_RUNNING`. -/
def TASK_UNINTERRUPTIBLE : Int := 2

/-- Modelled from the spec: see `TASK_RUNNING`. -/
def TASK_ZOMBIE : Int := 3

/-- Modelled from the spec: see `TASK_RUNNING`. -/
def TASK_STOPPED : Int := 4

/-- Modelled from the spec: the signal numbers of `include/signal.h` (not under
src/), in the order of the spec's signal set 1..32: SIGHUP 1, ..., SIGKILL 9,
..., SIGPIPE 13, SIGALRM 14, ..., SIGCHLD 17, SIGCONT 18, SIGSTOP 19. -/
def SIGKILL : Nat := 9

/-- Modelled from the spec: see `SIGKILL`. -/
def SIGALRM : Nat := 14

/-- Modelled from the spec: see `SIGKILL`. -/
def SIGCHLD : Nat := 17

/-- Modelled from the spec: see `SIGKILL`. -/
def SIGSTOP : Nat := 19

/-- Modelled from the spec: the disposition flag "SA_NOMASK (reentrant)" of
`include/signal.h` (not under src/), bit 30 in that header. -/
def SA_NOMASK : Nat := 0x40000000

/-- Modelled from the spec: the disposition flag "SA_ONESHOT (reset to default
on delivery)" of `include/signal.h` (not under src/), bit 31 in that header. -/
def SA_ONESHOT : Nat := 0x80000000

/-- Modelled from the spec: the errno values of `include/errno.h` (not under
src/) that `send_sig` returns. -/
def EPERM : Int := 1

/-- Modelled from the spec: see `EPERM`. -/
def EINVAL : Int := 22

/-- Modelled from the spec: `struct sigaction` of `include/signal.h` (not under
src/), a disposition: handler address (0 is SIG_DFL, 1 is SIG_IGN), mask,
flags and restorer address, each a 32-bit word. -/
structure sigaction where
  sa_handler : Nat
  sa_mask : Nat
  sa_flags : Nat
  sa_restorer : Nat
deriving DecidableEq

/-- Modelled from the spec: `struct task_struct` of `include/linux/sched.h` (not
under src/), the task of the spec's data model cut down to the fields the
modelled code reads or writes.  `long` fields that are compared or added are
integers; `signal` and `blocked` are 32-bit sets, bit `n-1` for signal `n`;
`sigaction` is the table of 32 dispositions, entry `n-1` for signal `n`. -/
structure task_struct where
  state : Int
  counter : Int
  priority : Int
  signal : Nat
  sigaction : Nat → sigaction
  blocked : Nat
  exit_code : Int
  pid : Int
  father : Int
  pgrp : Int
  session : Int
  leader : Int
  uid : Nat
  euid : Nat
  alarm : Int
  utime : Int
  stime : Int
  cutime : Int
  cstime : Int

/-- The task table `struct task_struct *task[NR_TASKS]`: `none` is a NULL slot. -/
abbrev TaskTable : Type := Nat → Option task_struct

/-- Bitwise complement of a 32-bit word. -/
def not32 (x : Nat) : Nat := 0xFFFFFFFF ^^^ (x % 4294967296)

/-- A signed 32-bit `long` from the integer an addition gave: it wraps. -/
def wrap_long (x : Int) : Int := (x + 2147483648) % 4294967296 - 2147483648

/-! ## kernel/sched.c -/

/-- Macro `#define _S(nr) (1 << ((nr)-1))`. -/
def _S (nr : Nat) : Nat := 1 <<< (nr - 1)

/-- Macro `#define _BLOCKABLE (~(_S(SIGKILL) | _S(SIGSTOP)))`. -/
def _BLOCKABLE : Nat := not32 (_S SIGKILL ||| _S SIGSTOP)

/-- The body of the first loop of `schedule()` for one task: an alarm in the
past raises SIGALRM, then an interruptible task with a signal outside
`_BLOCKABLE & blocked` is made runnable. -/
def schedule_wake (jiffies : Int) (t : task_struct) : task_struct :=
  let t1 := if t.alarm ≠ 0 ∧ t.alarm < jiffies
    then { t with signal := t.signal ||| (1 <<< (SIGALRM - 1)), alarm := 0 } else t
  if t1.signal &&& not32 (_BLOCKABLE &&& t1.blocked) ≠ 0 ∧ t1.state = TASK_INTERRUPTIBLE
    then { t1 with state := TASK_RUNNING } else t1

/-- The body of the last loop of `schedule()` for one task:
`counter = (counter >> 1) + priority`. -/
def schedule_recount (t : task_struct) : task_struct :=
  { t with counter := wrap_long ((t.counter >>> 1) + t.priority) }

/-- The loop shape `for (p = &LAST_TASK; p > &FIRST_TASK; --p) if (*p) ...`:
`body` is applied to the task of slot `p`, then of slot `p - 1`, down to slot
1; slot 0 is never visited. -/
def for_each_task (body : task_struct → task_struct) (task : TaskTable) : Nat → TaskTable
  | 0 => task
  | p + 1 =>
    match task (p + 1) with
    | none => for_each_task body task p
    | some t => for_each_task body (Function.update task (p + 1) (some (body t))) p

/-- The scan `while (--i) { if (!*--p) continue; if (state == TASK_RUNNING &&
counter > c) c = counter, next = i; }` from slot `i` down to slot 1, started
with the given `c` and `next`. -/
def schedule_scan (task : TaskTable) : Nat → Int → Nat → Int × Nat
  | 0, c, next => (c, next)
  | i + 1, c, next =>
    match task (i + 1) with
    | none => schedule_scan task i c next
    | some t =>
      if t.state = TASK_RUNNING ∧ t.counter > c then schedule_scan task i t.counter (i + 1)
      else schedule_scan task i c next

/-- The `while (1)` of `schedule()`: scan, leave when `c` is not 0, otherwise
recount every task and scan again.  `fuel` bounds the number of scans; `none`
means the bound was reached.  The result is the table and the slot handed to
`switch_to`. -/
def schedule_loop (task : TaskTable) : Nat → Option (TaskTable × Nat)
  | 0 => none
  | fuel + 1 =>
    let r := schedule_scan task (NR_TASKS - 1) (-1) 0
    if r.1 ≠ 0 then some (task, r.2)
    else schedule_loop (for_each_task schedule_recount task (NR_TASKS - 1)) fuel

/-- The first loop of `schedule()`: alarms and signals, slots `NR_TASKS-1` down
to 1. -/
def schedule_signals (jiffies : Int) (task : TaskTable) : TaskTable :=
  for_each_task (schedule_wake jiffies) task (NR_TASKS - 1)

/-- Function `void schedule(void)`: the table left behind and the slot `next` given to
`switch_to(next)`. -/
def schedule (jiffies : Int) (task : TaskTable) (fuel : Nat) : Option (TaskTable × Nat) :=
  schedule_loop (schedule_signals jiffies task) fuel

/-! ## kernel/signal.c -/

/-- Function `int sys_ssetmask(int newmask)` on the current task: the old mask and the
task left behind. -/
def sys_ssetmask (current : task_struct) (newmask : Nat) : Nat × task_struct :=
  (current.blocked, { current with blocked := newmask &&& not32 (1 <<< (SIGKILL - 1)) })

/-- The value of a 32-bit word read as a signed `long`. -/
def to_long (x : Nat) : Int :=
  if x % 4294967296 < 2147483648 then (x % 4294967296 : Nat) else (x % 4294967296 : Nat) - 4294967296

/-- Function `int sys_signal(int signum, long handler, long restorer)` on the current
task. -/
def sys_signal (current : task_struct) (signum : Int) (handler restorer : Nat) :
    Int × task_struct :=
  if signum < 1 ∨ signum > 32 ∨ signum = SIGKILL then (-1, current)
  else
    let tmp : sigaction :=
      { sa_handler := handler, sa_mask := 0, sa_flags := SA_ONESHOT ||| SA_NOMASK,
        sa_restorer := restorer }
    let handler := (current.sigaction (signum - 1).toNat).sa_handler
    (to_long handler,
      { current with sigaction := Function.update current.sigaction (signum - 1).toNat tmp })

/-- Function `int sys_sigaction(int signum, const struct sigaction *action, struct
sigaction *oldaction)` on the current task.  `action` is the structure
`get_new` reads from user space; the third component is what `save_old` writes
to user space, `none` when `oldaction` is NULL. -/
def sys_sigaction (current : task_struct) (signum : Int) (action : sigaction)
    (oldaction : Nat) : Int × task_struct × Option sigaction :=
  if signum < 1 ∨ signum > 32 ∨ signum = SIGKILL then (-1, current, none)
  else
    let tmp := current.sigaction (signum - 1).toNat
    let saved := if oldaction ≠ 0 then some tmp else none
    let sa : sigaction :=
      if action.sa_flags &&& SA_NOMASK ≠ 0 then { action with sa_mask := 0 }
      else { action with sa_mask := action.sa_mask ||| (1 <<< (signum - 1).toNat) }
    (0, { current with sigaction := Function.update current.sigaction (signum - 1).toNat sa },
      saved)

/-- How `do_signal` ends: it returns to the system-call exit path with the
task, the saved `eip` and `esp` and the user memory as it left them, or it
calls `do_exit(code)` and never returns. -/
inductive SignalResult where
  | returned : task_struct → Nat → Nat → (Nat → Byte) → SignalResult
  | exited : Nat → SignalResult

set_option linter.unusedVariables false in
/-- Function `void do_signal(long signr, long eax, long ebx, long ecx, long edx, long fs,
long es, long ds, long eip, long cs, long eflags, unsigned long *esp, long ss)`
on the current task and the user data segment `umem` that `put_fs_long`
writes. `verify_area` leaves the contents of that segment as they are. -/
def do_signal (current : task_struct) (umem : Nat → Byte)
    (signr eax ebx ecx edx fs es ds eip cs eflags esp ss : Nat) : SignalResult :=
  let old_eip := eip
  let sa := current.sigaction (signr - 1)
  let sa_handler := sa.sa_handler
  if sa_handler = 1 then .returned current eip esp umem
  else if sa_handler = 0 then
    if signr = SIGCHLD then .returned current eip esp umem
    else .exited (1 <<< (signr - 1))
  else
    let current := if sa.sa_flags &&& SA_ONESHOT ≠ 0
      then { current with
        sigaction := Function.update current.sigaction (signr - 1) { sa with sa_handler := 0 } }
      else current
    let sa := current.sigaction (signr - 1)
    let eip := sa_handler
    let longs := if sa.sa_flags &&& SA_NOMASK ≠ 0 then 7 else 8
    let esp := sub32 esp (4 * longs)
    let tmp_esp := esp
    let umem := put_long umem tmp_esp sa.sa_restorer
    let tmp_esp := tmp_esp + 4
    let umem := put_long umem tmp_esp signr
    let tmp_esp := tmp_esp + 4
    let r := if sa.sa_flags &&& SA_NOMASK = 0
      then (put_long umem tmp_esp current.blocked, tmp_esp + 4) else (umem, tmp_esp)
    let umem := r.1
    let tmp_esp := r.2
    let umem := put_long umem tmp_esp eax
    let tmp_esp := tmp_esp + 4
    let umem := put_long umem tmp_esp ecx
    let tmp_esp := tmp_esp + 4
    let umem := put_long umem tmp_esp edx
    let tmp_esp := tmp_esp + 4
    let umem := put_long umem tmp_esp eflags
    let tmp_esp := tmp_esp + 4
    let umem := put_long umem tmp_esp old_eip
    .returned { current with blocked := current.blocked ||| sa.sa_mask } eip esp umem

/-! ## kernel/exit.c -/

/-- Function `static inline int send_sig(long sig, struct task_struct *p, int priv)`,
called by the task `current`; `none` is a NULL `p`.  The error code and the
task `p` as it is left.  The macro `suser()` of `include/linux/kernel.h` is
`current->euid == 0`, as the comment in `send_sig` says. -/
def send_sig (current : task_struct) (sig : Int) (p : Option task_struct) (priv : Bool) :
    Int × Option task_struct :=
  match p with
  | none => (-EINVAL, none)
  | some t =>
    if sig < 1 ∨ sig > 32 then (-EINVAL, some t)
    else if priv = true ∨ current.euid = t.euid ∨ current.euid = 0 then
      (0, some { t with signal := t.signal ||| (1 <<< (sig - 1).toNat) })
    else (-EPERM, some t)

/-- The loop `while (--p > &FIRST_TASK) { if (*p && sel(*p)) if (err =
send_sig(sig, *p, priv)) retval = err; }` of `sys_kill`, with `p` at slot
`p + 1` before the first `--p`: slots `p` down to 1. -/
def kill_loop (current : task_struct) (sig : Int) (sel : task_struct → Bool) (priv : Bool)
    (task : TaskTable) : Nat → Int → Int × TaskTable
  | 0, retval => (retval, task)
  | p + 1, retval =>
    match task (p + 1) with
    | none => kill_loop current sig sel priv task p retval
    | some t =>
      if sel t then
        let r := send_sig current sig (some t) priv
        kill_loop current sig sel priv (Function.update task (p + 1) r.2) p
          (if r.1 ≠ 0 then r.1 else retval)
      else kill_loop current sig sel priv task p retval

/-- The statement under `else if (pid == -1)` in `sys_kill`: a `while` whose
body is an `if ... else while ...`; the inner `while` goes on with the same
`p` and leaves it at `&FIRST_TASK`, which also ends the outer one. -/
def kill_all (current : task_struct) (pid sig : Int) (task : TaskTable) :
    Nat → Int → Int × TaskTable
  | 0, retval => (retval, task)
  | p + 1, retval =>
    let r := send_sig current sig (task (p + 1)) false
    if r.1 ≠ 0 then kill_all current pid sig task p r.1
    else
      kill_loop current sig (fun t => decide (t.pgrp = -pid)) false
        (Function.update task (p + 1) r.2) p retval

/-- Function `int sys_kill(int pid, int sig)` called by the task `current`. -/
def sys_kill (current : task_struct) (task : TaskTable) (pid sig : Int) : Int × TaskTable :=
  if pid = 0 then
    kill_loop current sig (fun t => decide (t.pgrp = current.pid)) true task (NR_TASKS - 1) 0
  else if pid > 0 then
    kill_loop current sig (fun t => decide (t.pid = pid)) false task (NR_TASKS - 1) 0
  else if pid = -1 then
    kill_all current pid sig task (NR_TASKS - 1) 0
  else (0, task)

/-- A task with every field 0 and every disposition SIG_DFL, to build examples
from. -/
def task_zero : task_struct where
  state := 0
  counter := 0
  priority := 0
  signal := 0
  sigaction := fun _ => ⟨0, 0, 0, 0⟩
  blocked := 0
  exit_code := 0
  pid := 0
  father := 0
  pgrp := 0
  session := 0
  leader := 0
  uid := 0
  euid := 0
  alarm := 0
  utime := 0
  stime := 0
  cutime := 0
  cstime := 0

/-- A task for the `do_signal` example: signals 1 and 2 blocked, and for signal
2 a handler at 0x1000 with `sa_mask` 4, the flag SA_ONESHOT and the restorer at
0x2000. -/
def task_sig : task_struct :=
  { task_zero with
    blocked := 3
    sigaction := fun n => if n = 1 then ⟨0x1000, 4, SA_ONESHOT, 0x2000⟩ else ⟨0, 0, 0, 0⟩ }

/-- The task of slot 3 of `tasks0`, the caller in the `sys_kill` example. -/
def current0 : task_struct :=
  { task_zero with state := TASK_RUNNING, counter := 7, priority := 15, pid := 3,
                   pgrp := 3, euid := 1000 }

/-- A task table for the examples: the idle task in slot 0; in slot 1 a task
asleep (interruptible) with SIGKILL pending and all 32 signals blocked; in
slots 2 and 3 two runnable tasks with the same counter 7; tasks 1 and 2 are in
process group 5 and have effective uid 1000; all other slots are empty. -/
def tasks0 : TaskTable := fun i =>
  if i = 0 then some { task_zero with counter := 15, priority := 15 }
  else if i = 1 then
    some { task_zero with state := TASK_INTERRUPTIBLE, signal := 256, blocked := 0xFFFFFFFF,
                          counter := 5, priority := 15, pid := 1, pgrp := 5, euid := 1000 }
  else if i = 2 then
    some { task_zero with state := TASK_RUNNING, counter := 7, priority := 15, pid := 2,
                          pgrp := 5, euid := 1000 }
  else if i = 3 then some current0
  else none

/-! ## kernel/exit.c : release and sys_waitpid -/

/-- Modelled from the spec: the errno values of `include/errno.h` (not under
src/) that `sys_waitpid` returns, EINTR for "an interruptible wait was aborted
by a signal" and ECHILD, numbered as in that header. -/
def EINTR : Int := 4

/-- Modelled from the spec: see `EINTR`. -/
def ECHILD : Int := 10

/-- Modelled from the spec: the option bits WNOHANG and WUNTRACED of
`include/sys/wait.h` (not under src/), 1 and 2 in that header. -/
def WNOHANG : Nat := 1

/-- Modelled from the spec: see `WNOHANG`. -/
def WUNTRACED : Nat := 2

/-- How a routine ends that may halt the kernel in `panic(msg)`: it returns
a value (`ok`), it halts (`panic`), or the bound on the number of loop turns
was reached before it did either (`stuck`). -/
inductive Outcome (α : Type) where
  | ok : α → Outcome α
  | panic : String → Outcome α
  | stuck : Outcome α

/-- The 32-bit word that holds a `long`. -/
def of_long (x : Int) : Nat := (x % 4294967296).toNat

/-- The search `for (i = 1; i < NR_TASKS; i++) if (task[i] == p)` of `release`:
the first slot from `i` on, among `n` slots, whose pointer is `p`.  The
pointer in an occupied slot `i` is the address `page i` of the page that
holds the task structure. -/
def release_find (page : Nat → Nat) (task : TaskTable) (p : Nat) : Nat → Nat → Option Nat
  | _, 0 => none
  | i, n + 1 =>
    if (task i).isSome ∧ page i = p then some i else release_find page task p (i + 1) n

/-- Function `void release(struct task_struct *p)`; `p` is an address, 0 for NULL. -/
def release (page : Nat → Nat) (jiffies : Int) (mm : Mm) (task : TaskTable) (p : Nat)
    (fuel : Nat) : Outcome (Mm × TaskTable) :=
  if p = 0 then .ok (mm, task)
  else
    match release_find page task p 1 (NR_TASKS - 1) with
    | some i =>
      let task := Function.update task i none
      match free_page mm p with
      | .ret _ mm =>
        match schedule jiffies task fuel with
        | some r => .ok (mm, r.1)
        | none => .stuck
      | .panic msg _ => .panic msg
      | .oom _ => .stuck
    | none => .panic "trying to release non-existent task"

/-- The tests of the loop of `sys_waitpid` that end in `continue` before the
`switch`: the task of slot `p` is the caller, is not a child of the caller, or
does not match `pid`. -/
def waitpid_skip (cur : Nat) (current : task_struct) (pid : Int) (p : Nat) (t : task_struct) :
    Bool :=
  if p = cur then true
  else if t.father ≠ current.pid then true
  else if pid > 0 then decide (t.pid ≠ pid)
  else if pid = 0 then decide (t.pgrp ≠ current.pgrp)
  else if pid ≠ -1 then decide (t.pgrp ≠ -pid)
  else false

/-- How the loop of `sys_waitpid` ends: at a stopped child, at a zombie child
(with its slot), or at `&FIRST_TASK` with the value of `flag`. -/
inductive WaitScan where
  | stopped : task_struct → WaitScan
  | zombie : Nat → task_struct → WaitScan
  | done : Int → WaitScan

/-- The loop `for (p = &LAST_TASK; p > &FIRST_TASK; --p)` of `sys_waitpid`, from
slot `p` down to slot 1. -/
def waitpid_scan (cur : Nat) (current : task_struct) (task : TaskTable) (pid : Int)
    (options : Nat) : Nat → Int → WaitScan
  | 0, flag => .done flag
  | p + 1, flag =>
    match task (p + 1) with
    | none => waitpid_scan cur current task pid options p flag
    | some t =>
      if waitpid_skip cur current pid (p + 1) t then
        waitpid_scan cur current task pid options p flag
      else if t.state = TASK_STOPPED then
        if options &&& WUNTRACED = 0 then waitpid_scan cur current task pid options p flag
        else .stopped t
      else if t.state = TASK_ZOMBIE then .zombie (p + 1) t
      else waitpid_scan cur current task pid options p 1

/-- The state `sys_waitpid` works on: the page counts, the task table, the
user data segment of the caller, and how many times the caller went to sleep
in the call. -/
structure WaitState where
  mm : Mm
  task : TaskTable
  umem : Nat → Byte
  slept : Nat

/-- Function `int sys_waitpid(pid_t pid, unsigned long *stat_addr, int options)` called
by the task of slot `cur`.  `verify_area` leaves the contents of the user
segment as they are.  `fuel` bounds the number of `goto repeat`, `sfuel` the
scans of each `schedule()`. -/
def sys_waitpid (page : Nat → Nat) (jiffies : Int) (cur : Nat) (pid : Int)
    (stat_addr options : Nat) (sfuel : Nat) : Nat → WaitState → Outcome (Int × WaitState)
  | 0, _ => .stuck
  | fuel + 1, s =>
    match s.task cur with
    | none => .stuck
    | some current =>
      match waitpid_scan cur current s.task pid options (NR_TASKS - 1) 0 with
      | .stopped t => .ok (t.pid, { s with umem := put_long s.umem stat_addr 0x7f })
      | .zombie p t =>
        let current := { current with cutime := wrap_long (current.cutime + t.utime), cstime := wrap_long (current.cstime + t.stime) }
        let task := Function.update s.task cur (some current)
        let flag := t.pid
        let code := t.exit_code
        match release page jiffies s.mm task (page p) sfuel with
        | .ok r => .ok (flag, { s with mm := r.1, task := r.2, umem := put_long s.umem stat_addr (of_long code) })
        | .panic msg => .panic msg
        | .stuck => .stuck
      | .done flag =>
        if flag ≠ 0 then
          if options &&& WNOHANG ≠ 0 then .ok (0, s)
          else
            let task := Function.update s.task cur (some { current with state := TASK_INTERRUPTIBLE })
            match schedule jiffies task sfuel with
            | none => .stuck
            | some r =>
              match r.1 cur with
              | none => .stuck
              | some current =>
                let signal := current.signal &&& not32 (1 <<< (SIGCHLD - 1))
                let task := Function.update r.1 cur (some { current with signal := signal })
                if signal = 0 then
                  sys_waitpid page jiffies cur pid stat_addr options sfuel fuel
                    { s with task := task, slept := s.slept + 1 }
                else .ok (-EINTR, { s with task := task, slept := s.slept + 1 })
        else .ok (-ECHILD, s)

/-- A task table for the `sys_waitpid` examples: the idle task in slot 0; the
caller, pid 1, runnable, in slot 1; in slot 2 a runnable child of it, pid 2;
in slot 3 a zombie child, pid 3, with exit code 0x100 and 5 and 7 ticks of
user and system time; in slot 4 a runnable task, pid 4, that is a child of
task 0.  All are in process group 1. -/
def tasks1 : TaskTable := fun i =>
  if i = 0 then some { task_zero with counter := 15, priority := 15 }
  else if i = 1 then
    some { task_zero with counter := 9, priority := 15, pid := 1, pgrp := 1, cutime := 10, cstime := 20 }
  else if i = 2 then
    some { task_zero with counter := 7, priority := 15, pid := 2, father := 1, pgrp := 1 }
  else if i = 3 then
    some { task_zero with state := TASK_ZOMBIE, counter := 3, priority := 15, pid := 3, father := 1, pgrp := 1, exit_code := 0x100, utime := 5, stime := 7 }
  else if i = 4 then
    some { task_zero with counter := 7, priority := 15, pid := 4, pgrp := 1 }
  else none

/-- The pages of the task structures in the examples: slot `i` lives in page
`i` of the paging area. -/
def page0 (i : Nat) : Nat := LOW_MEM + 4096 * i

/-- What `schedule()` may change in a slot: nothing in an empty slot, and in a
task only `state`, `counter`, `signal` and `alarm`. -/
def sched_same (a b : Option task_struct) : Prop :=
  match a, b with
  | none, none => True
  | some t, some u =>
    u = { t with state := u.state, counter := u.counter, signal := u.signal, alarm := u.alarm }
  | _, _ => False

/-! ## include/linux/fs.h : what the filesystem code uses -/

/-- Modelled from the spec: `include/linux/fs.h` is not under src/; the block
size of the filesystem is 1024 bytes. -/
def BLOCK_SIZE : Nat := 1024

/-- Modelled from the spec: the inode cache has `NR_INODE` entries, 32 in
`include/linux/fs.h` (not under src/). -/
def NR_INODE : Nat := 32

/-- Modelled from the spec: the superblock table has `NR_SUPER` slots, 8 in
`include/linux/fs.h` (not under src/). -/
def NR_SUPER : Nat := 8

/-- Modelled from the spec: the cap `I_MAP_SLOTS` of `include/linux/fs.h` (not
under src/) on the inode-bitmap blocks of a superblock, 8. -/
def I_MAP_SLOTS : Nat := 8

/-- Modelled from the spec: the cap `Z_MAP_SLOTS` of `include/linux/fs.h` (not
under src/) on the zone-bitmap blocks of a superblock, 8. -/
def Z_MAP_SLOTS : Nat := 8

/-- Modelled from the spec: the superblock magic 0x137F, `SUPER_MAGIC` in
`include/linux/fs.h` (not under src/). -/
def SUPER_MAGIC : Nat := 0x137F

/-- Modelled from the spec: a directory entry holds a 14-byte name, `NAME_LEN`
in `include/linux/fs.h` (not under src/). -/
def NAME_LEN : Nat := 14

/-- Modelled from the spec: the root directory is inode 1, `ROOT_INO` in
`include/linux/fs.h` (not under src/). -/
def ROOT_INO : Nat := 1

/-- Modelled from the spec: 32 bytes per disk inode, `INODES_PER_BLOCK` = 32
in `include/linux/fs.h` (not under src/). -/
def INODES_PER_BLOCK : Nat := 32

/-- Modelled from the spec: a directory entry is 16 bytes (2-byte inode number
and 14-byte name), so a block holds 64 of them, `DIR_ENTRIES_PER_BLOCK` in
`include/linux/fs.h` (not under src/). -/
def DIR_ENTRIES_PER_BLOCK : Nat := 64

/-- Modelled from the spec: a page is 4096 bytes, `PAGE_SIZE` in
`include/linux/mm.h` (not under src/). -/
def PAGE_SIZE : Nat := 4096

/-- Modelled from the spec: `struct buffer_head` of `include/linux/fs.h` (not
under src/), cut down to the 1 KiB data, the reference count and the dirty and
uptodate flags; the identity (device, block) is the key under which the
buffer is kept. -/
structure buffer_head where
  b_data : Nat → Byte
  b_count : Nat
  b_dirt : Nat
  b_uptodate : Nat

/-- Modelled from the spec: `struct m_inode` of `include/linux/fs.h` (not under
src/), the in-memory inode of the spec's data model.  `i_zone` has 9 entries
of 16 bits; for a pipe `i_size` is the address of the page and `i_zone[0]`,
`i_zone[1]` are head and tail. -/
structure m_inode where
  i_mode : Nat
  i_uid : Nat
  i_size : Nat
  i_mtime : Nat
  i_gid : Nat
  i_nlinks : Nat
  i_zone : Nat → Nat
  i_atime : Nat
  i_ctime : Nat
  i_dev : Nat
  i_num : Nat
  i_count : Nat
  i_lock : Nat
  i_dirt : Nat
  i_pipe : Nat
  i_mount : Nat

/-- Modelled from the spec: `struct super_block` of `include/linux/fs.h` (not
under src/), the in-memory superblock of the spec's data model.  A pointer to
a bitmap buffer is the key (device, block) of that buffer, `none` for NULL; a
pointer to an inode is its slot in the inode table. -/
structure super_block where
  s_ninodes : Nat
  s_nzones : Nat
  s_imap_blocks : Nat
  s_zmap_blocks : Nat
  s_firstdatazone : Nat
  s_log_zone_size : Nat
  s_max_size : Nat
  s_magic : Nat
  s_imap : Nat → Option (Nat × Nat)
  s_zmap : Nat → Option (Nat × Nat)
  s_dev : Nat
  s_isup : Option Nat
  s_imount : Option Nat
  s_time : Nat
  s_rd_only : Nat
  s_dirt : Nat
  s_lock : Nat

/-- A call the filesystem code made, kept in the order of the calls:
`free_block(dev, block)`, or a `new_block(dev)` with the block it returned. -/
inductive FsCall where
  | free_block : Nat → Nat → FsCall
  | new_block : Nat → Nat → FsCall
deriving DecidableEq

/-- The state of the filesystem code: what the devices hold (`disk`) and which
blocks cannot be read (`io_error`), the buffer cache, the superblock table,
the inode table with the static `last_inode` of `get_empty_inode`, the clock,
the page counts and console, and the list of `free_block` and `new_block`
calls made so far. -/
structure Fs where
  disk : Nat × Nat → Nat → Byte
  io_error : Nat × Nat → Bool
  buffer : Nat × Nat → buffer_head
  super_block : Nat → super_block
  inode_table : Nat → m_inode
  last_inode : Nat
  CURRENT_TIME : Nat
  mm : Mm
  calls : List FsCall

/-! ## fs/buffer.c : the buffer cache as the spec describes it -/

/-- Modelled from the spec: `fs/buffer.c` is not under src/.  `getblk(dev,
block)` returns the buffer of that key with its reference count raised by
one.  A key without a buffer in the hash is kept as a buffer with count 0,
not uptodate and not dirty, which is what a miss hands out before the count
is raised. -/
def getblk (s : Fs) (dev block : Nat) : Fs :=
  let bh := s.buffer (dev, block)
  { s with buffer := Function.update s.buffer (dev, block) { bh with b_count := bh.b_count + 1 } }

/-- Modelled from the spec: `fs/buffer.c` is not under src/.  `brelse(bh)`
decrements the reference count; a NULL pointer is left alone. -/
def brelse (s : Fs) (bh : Option (Nat × Nat)) : Fs :=
  match bh with
  | none => s
  | some key =>
    let b := s.buffer key
    { s with buffer := Function.update s.buffer key { b with b_count := b.b_count - 1 } }

/-- Modelled from the spec: `fs/buffer.c` is not under src/.  `bread(dev,
block)` is `getblk` and, when the buffer is not uptodate, a synchronous read
from the device; on an I/O error the reference is released and NULL
returned. -/
def bread (s : Fs) (dev block : Nat) : Option (Nat × Nat) × Fs :=
  let s1 := getblk s dev block
  let bh := s1.buffer (dev, block)
  if bh.b_uptodate ≠ 0 then (some (dev, block), s1)
  else if s.io_error (dev, block) then (none, brelse s1 (some (dev, block)))
  else
    (some (dev, block),
      { s1 with buffer := Function.update s1.buffer (dev, block) { bh with b_data := s.disk (dev, block), b_uptodate := 1 } })

/-- The 16-bit entry `((unsigned short *) data)[i]`, little-endian. -/
def get_word (data : Nat → Byte) (i : Nat) : Nat :=
  (data (2 * i)).val + 256 * (data (2 * i + 1)).val

/-- The store `((unsigned short *) data)[i] = v`. -/
def put_word (data : Nat → Byte) (i v : Nat) : Nat → Byte :=
  Function.update (Function.update data (2 * i) (toByte v)) (2 * i + 1) (toByte (v / 256))

/-- What `bread` finds in a block: the data of its buffer when that is
uptodate, and what the device holds otherwise. -/
def block_data (s : Fs) (key : Nat × Nat) : Nat → Byte :=
  if (s.buffer key).b_uptodate ≠ 0 then (s.buffer key).b_data else s.disk key

/-! ## fs/super.c : get_super -/

/-- The search `while (s < NR_SUPER + super_block)` of `get_super`: the first
slot from `i` on, among `n` slots, whose `s_dev` is `dev`. -/
def get_super_scan (sb : Nat → super_block) (dev : Nat) : Nat → Nat → Option Nat
  | _, 0 => none
  | i, n + 1 => if (sb i).s_dev = dev then some i else get_super_scan sb dev (i + 1) n

/-- Function `struct super_block *get_super(int dev)`: the slot of the superblock, `none`
for NULL.  `wait_on_super` returns at once on a superblock that is not locked;
on a locked one the caller sleeps until another task unlocks it, which is
`stuck` here. -/
def get_super (s : Fs) (dev : Nat) : Outcome (Option Nat) :=
  if dev = 0 then .ok none
  else
    match get_super_scan s.super_block dev 0 NR_SUPER with
    | none => .ok none
    | some i => if (s.super_block i).s_lock ≠ 0 then .stuck else .ok (some i)

/-! ## fs/bitmap.c -/

/-- The bit at offset `nr` from the start of `data`, as `bt`, `bts` and `btr`
address it: bit `nr % 8` of byte `nr / 8`. -/
def test_bit (data : Nat → Byte) (nr : Nat) : Bool := (data (nr / 8)).val.testBit (nr % 8)

/-- The data after `btsl nr, data` of the macro `set_bit(nr, addr)`, which
returns the old bit. -/
def set_bit (data : Nat → Byte) (nr : Nat) : Nat → Byte :=
  Function.update data (nr / 8) (toByte ((data (nr / 8)).val ||| (1 <<< (nr % 8))))

/-- The data after `btrl nr, data` of the macro `clear_bit(nr, addr)`, which
returns the complement of the old bit. -/
def clear_bit (data : Nat → Byte) (nr : Nat) : Nat → Byte :=
  Function.update data (nr / 8) (toByte ((data (nr / 8)).val &&& (255 ^^^ (1 <<< (nr % 8)))))

/-- The result of `bsfl eax, edx` for `eax` not 0: the index of the lowest set
bit, searched among the bits `i`, `i + 1`, ... `i + n - 1`. -/
def bsfl (eax : Nat) : Nat → Nat → Nat
  | i, 0 => i
  | i, n + 1 => if eax.testBit i then i else bsfl eax (i + 1) n

/-- The loop of the macro `find_first_zero(addr)` with `ecx` bits already
passed and `n` long words left: `lodsl; notl eax; bsfl eax, edx`, then either
`ecx += edx` and out, or `ecx += 32` and on while `ecx < 8192`. -/
def find_first_zero_loop (data : Nat → Byte) : Nat → Nat → Nat
  | ecx, 0 => ecx
  | ecx, n + 1 =>
    let eax := not32 (get_long data (ecx / 8))
    if eax ≠ 0 then ecx + bsfl eax 0 32
    else find_first_zero_loop data (ecx + 32) n

/-- Macro `find_first_zero(addr)`: the offset of the first 0 bit of the block, 8192 when
it has none. -/
def find_first_zero (data : Nat → Byte) : Nat := find_first_zero_loop data 0 256

/-- The loop `for (i = 0; i < 8; i++) if (bh = map[i]) if ((j =
find_first_zero(bh->b_data)) < 8192) break;` of `new_block` and `new_inode`,
from slot `i` with `n` slots left: the values of `i`, `bh` and `j` after it. -/
def bitmap_scan (s : Fs) (map : Nat → Option (Nat × Nat)) :
    Nat → Nat → Option (Nat × Nat) → Nat → Nat × Option (Nat × Nat) × Nat
  | i, 0, bh, j => (i, bh, j)
  | i, n + 1, _, j =>
    match map i with
    | none => bitmap_scan s map (i + 1) n none j
    | some key =>
      let j := find_first_zero (s.buffer key).b_data
      if j < 8192 then (i, some key, j) else bitmap_scan s map (i + 1) n (some key) j

/-- Macro `clear_block(addr)`: `rep stosl` of `BLOCK_SIZE / 4` zero long words. -/
def clear_block (_data : Nat → Byte) : Nat → Byte := fun _ => 0

/-- Modelled from the spec: `fs/buffer.c` is not under src/.
`get_hash_table(dev, block)` is the search of the hash that `getblk` starts
with: on a hit the buffer is returned with its reference count raised by one,
on a miss NULL.  A key has no buffer in the hash when it is kept with count 0,
not uptodate and not dirty. -/
def get_hash_table (s : Fs) (dev block : Nat) : Option (Nat × Nat) × Fs :=
  let bh := s.buffer (dev, block)
  if bh.b_count = 0 ∧ bh.b_uptodate = 0 ∧ bh.b_dirt = 0 then (none, s)
  else (some (dev, block), getblk s dev block)

/-- The end of `free_block`, from `block -= sb->s_firstdatazone - 1` on: the
bit of the block in the zone bitmap is cleared.  A NULL `s_zmap` slot is
dereferenced there, which is `stuck` here. -/
def free_block_bit (s : Fs) (sb : super_block) (block : Nat) : Outcome Fs :=
  let block := block + 1 - sb.s_firstdatazone
  match sb.s_zmap (block / 8192) with
  | none => .stuck
  | some key =>
    let zm := s.buffer key
    if test_bit zm.b_data (block &&& 8191) = false then
      .panic "free_block: bit already cleared"
    else
      .ok { s with buffer := Function.update s.buffer key { zm with b_data := clear_bit zm.b_data (block &&& 8191), b_dirt := 1 } }

/-- Function `void free_block(int dev, int block)`. -/
def free_block (s : Fs) (dev block : Nat) : Outcome Fs :=
  let s := { s with calls := s.calls ++ [FsCall.free_block dev block] }
  match get_super s dev with
  | .panic msg => .panic msg
  | .stuck => .stuck
  | .ok none => .panic "trying to free block on nonexistent device"
  | .ok (some sbi) =>
    let sb := s.super_block sbi
    if block < sb.s_firstdatazone ∨ block ≥ sb.s_nzones then
      .panic "trying to free block not in datazone"
    else
      let r := get_hash_table s dev block
      match r.1 with
      | none => free_block_bit r.2 sb block
      | some key =>
        let bh := r.2.buffer key
        if bh.b_count ≠ 1 then
          .ok { r.2 with mm := printk r.2.mm "trying to free block (%04x:%d), count=%d\n" }
        else
          let s := { r.2 with buffer := Function.update r.2.buffer key { bh with b_dirt := 0, b_uptodate := 0 } }
          free_block_bit (brelse s (some key)) sb block

/-- Function `int new_block(int dev)`.  `getblk` never returns NULL. -/
def new_block (s : Fs) (dev : Nat) : Outcome (Int × Fs) :=
  match get_super s dev with
  | .panic msg => .panic msg
  | .stuck => .stuck
  | .ok none => .panic "trying to get new block from nonexistant device"
  | .ok (some sbi) =>
    let sb := s.super_block sbi
    let r := bitmap_scan s sb.s_zmap 0 8 none 8192
    let i := r.1
    let j := r.2.2
    match r.2.1 with
    | none => .ok (0, s)
    | some key =>
      if i ≥ 8 ∨ j ≥ 8192 then .ok (0, s)
      else
        let zm := s.buffer key
        if test_bit zm.b_data j then .panic "new_block: bit already set"
        else
          let s := { s with buffer := Function.update s.buffer key { zm with b_data := set_bit zm.b_data j, b_dirt := 1 } }
          let j : Int := (j : Int) + (i : Int) * 8192 + (sb.s_firstdatazone : Int) - 1
          if j ≥ (sb.s_nzones : Int) then .ok (0, s)
          else
            let s := getblk s dev (of_long j)
            let bh := s.buffer (dev, of_long j)
            if bh.b_count ≠ 1 then .panic "new block: count is != 1"
            else
              let s := { s with buffer := Function.update s.buffer (dev, of_long j) { bh with b_data := clear_block bh.b_data, b_uptodate := 1, b_dirt := 1 } }
              let s := brelse s (some (dev, of_long j))
              .ok (j, { s with calls := s.calls ++ [FsCall.new_block dev (of_long j)] })

/-! ## fs/inode.c : the block map -/

/-- The inode table with the inode of slot `i` changed by `f`. -/
def set_inode (s : Fs) (i : Nat) (f : m_inode → m_inode) : Fs :=
  { s with inode_table := Function.update s.inode_table i (f (s.inode_table i)) }

/-- The statement `if (create && !z) if (z = new_block(inode->i_dev)) { inode->i_dirt
= 1; inode->i_ctime = CURRENT_TIME; }` of `_bmap`, for the zone `z =
inode->i_zone[k]`; the value is stored in 16 bits. -/
def bmap_zone (s : Fs) (inode k : Nat) (create : Bool) : Outcome Fs :=
  if create = true ∧ (s.inode_table inode).i_zone k = 0 then
    match new_block s (s.inode_table inode).i_dev with
    | .panic msg => .panic msg
    | .stuck => .stuck
    | .ok r =>
      let z := of_long r.1 % 65536
      let s := set_inode r.2 inode fun n => { n with i_zone := Function.update n.i_zone k z }
      if z ≠ 0 then .ok (set_inode s inode fun n => { n with i_ctime := s.CURRENT_TIME, i_dirt := 1 })
      else .ok s
  else .ok s

/-- The statements `i = ((unsigned short *)bh->b_data)[k]; if (create && !i) if (i
= new_block(inode->i_dev)) { ((unsigned short *)bh->b_data)[k] = i; bh->b_dirt
= 1; } brelse(bh);` of `_bmap` on the buffer `bh` that `bread` returned: the
value of `i`. -/
def bmap_entry (s : Fs) (inode : Nat) (bh : Nat × Nat) (k : Nat) (create : Bool) :
    Outcome (Int × Fs) :=
  let i : Int := get_word (s.buffer bh).b_data k
  if create = true ∧ i = 0 then
    match new_block s (s.inode_table inode).i_dev with
    | .panic msg => .panic msg
    | .stuck => .stuck
    | .ok r =>
      if r.1 ≠ 0 then
        let b := r.2.buffer bh
        let s := { r.2 with buffer := Function.update r.2.buffer bh { b with b_data := put_word b.b_data k (of_long r.1), b_dirt := 1 } }
        .ok (r.1, brelse s (some bh))
      else .ok (r.1, brelse r.2 (some bh))
  else .ok (i, brelse s (some bh))

/-- The steps `if (!z) return 0; if (!(bh = bread(inode->i_dev, z))) return 0;`
of `_bmap` and then `bmap_entry` on entry `k`. -/
def bmap_indirect (s : Fs) (inode z k : Nat) (create : Bool) : Outcome (Int × Fs) :=
  if z = 0 then .ok (0, s)
  else
    let r := bread s (s.inode_table inode).i_dev z
    match r.1 with
    | none => .ok (0, r.2)
    | some bh => bmap_entry r.2 inode bh k create

/-- Function `static int _bmap(struct m_inode *inode, int block, int create)`; `inode` is
the slot in the inode table. -/
def _bmap (s : Fs) (inode : Nat) (block : Int) (create : Bool) : Outcome (Int × Fs) :=
  if block < 0 then .panic "_bmap: block<0"
  else if block ≥ 7 + 512 + 512 * 512 then .panic "_bmap: block>big"
  else if block < 7 then
    match bmap_zone s inode block.toNat create with
    | .panic msg => .panic msg
    | .stuck => .stuck
    | .ok s => .ok (((s.inode_table inode).i_zone block.toNat : Nat), s)
  else
    let block := block - 7
    if block < 512 then
      match bmap_zone s inode 7 create with
      | .panic msg => .panic msg
      | .stuck => .stuck
      | .ok s => bmap_indirect s inode ((s.inode_table inode).i_zone 7) block.toNat create
    else
      let block := block - 512
      match bmap_zone s inode 8 create with
      | .panic msg => .panic msg
      | .stuck => .stuck
      | .ok s =>
        match bmap_indirect s inode ((s.inode_table inode).i_zone 8) (block.toNat >>> 9) create with
        | .panic msg => .panic msg
        | .stuck => .stuck
        | .ok r => bmap_indirect r.2 inode (of_long r.1) (block.toNat &&& 511) create

/-- Function `int bmap(struct m_inode *inode, int block)`. -/
def bmap (s : Fs) (inode : Nat) (block : Int) : Outcome (Int × Fs) := _bmap s inode block false

/-- Function `int create_block(struct m_inode *inode, int block)`. -/
def create_block (s : Fs) (inode : Nat) (block : Int) : Outcome (Int × Fs) :=
  _bmap s inode block true

/-- Whether `bread` can return the block: its buffer is uptodate or the device
reads it without error. -/
def readable (s : Fs) (key : Nat × Nat) : Prop :=
  (s.buffer key).b_uptodate ≠ 0 ∨ s.io_error key = false

/-- Two states that differ at most in which buffers have been read in: the
devices, the superblocks, the inodes, the calls made, what every block holds,
and the reference counts and dirty flags of the buffers are the same, and no
buffer has lost its uptodate flag. -/
def same_view (s t : Fs) : Prop :=
  t.disk = s.disk ∧ t.io_error = s.io_error ∧ t.super_block = s.super_block ∧
  t.inode_table = s.inode_table ∧ t.last_inode = s.last_inode ∧
  t.CURRENT_TIME = s.CURRENT_TIME ∧ t.mm = s.mm ∧ t.calls = s.calls ∧
  ∀ key, block_data t key = block_data s key ∧
    (t.buffer key).b_count = (s.buffer key).b_count ∧
    (t.buffer key).b_dirt = (s.buffer key).b_dirt ∧
    ((s.buffer key).b_uptodate ≠ 0 → (t.buffer key).b_uptodate ≠ 0)

/-- The value the specification gives for `bmap(inode, block)`: `i_zone[block]`
for `block < 7`; entry `block - 7` of block `i_zone[7]` for `block < 519`;
otherwise, with `b = block - 519`, entry `b mod 512` of the block whose number
is entry `b div 512` of block `i_zone[8]`; and 0 when a zone number on the
path is 0. -/
def bmap_by_spec (s : Fs) (inode block : Nat) : Nat :=
  let n := s.inode_table inode
  if block < 7 then n.i_zone block
  else if block < 519 then
    if n.i_zone 7 = 0 then 0 else get_word (block_data s (n.i_dev, n.i_zone 7)) (block - 7)
  else
    let b := block - 519
    if n.i_zone 8 = 0 then 0
    else
      let e := get_word (block_data s (n.i_dev, n.i_zone 8)) (b / 512)
      if e = 0 then 0 else get_word (block_data s (n.i_dev, e)) (b % 512)

/-- An inode with every field 0, to build examples from. -/
def inode_zero : m_inode where
  i_mode := 0
  i_uid := 0
  i_size := 0
  i_mtime := 0
  i_gid := 0
  i_nlinks := 0
  i_zone := fun _ => 0
  i_atime := 0
  i_ctime := 0
  i_dev := 0
  i_num := 0
  i_count := 0
  i_lock := 0
  i_dirt := 0
  i_pipe := 0
  i_mount := 0

/-- A superblock with every field 0 and no bitmap buffer, a free slot of the
superblock table. -/
def super_zero : super_block where
  s_ninodes := 0
  s_nzones := 0
  s_imap_blocks := 0
  s_zmap_blocks := 0
  s_firstdatazone := 0
  s_log_zone_size := 0
  s_max_size := 0
  s_magic := 0
  s_imap := fun _ => none
  s_zmap := fun _ => none
  s_dev := 0
  s_isup := none
  s_imount := none
  s_time := 0
  s_rd_only := 0
  s_dirt := 0
  s_lock := 0

/-- A buffer that is in no use: zero data, count 0, not dirty, not uptodate. -/
def buffer_zero : buffer_head where
  b_data := fun _ => 0
  b_count := 0
  b_dirt := 0
  b_uptodate := 0

/-- A filesystem state for the examples: device 0x301 is mounted in superblock
slot 0 with 64 inodes, 1024 zones, one inode-bitmap block (block 2), one
zone-bitmap block (block 3) and first data zone 6.  Inode 1 (slot 0) is the
root directory with its entries in block 6; inode 2 (slot 1) is an empty
regular file; inode 3 (slot 2) is a regular file of 9 blocks, the direct zones
7..13 and the single-indirect block 14 whose entries 0 and 1 are 15 and 16.
The bitmaps are held in uptodate buffers: inodes 0..3 and zones 0..11 (blocks
up to 16) are in use.  Block 14 is not in the cache. -/
def fs0 : Fs where
  disk := fun key a =>
    if key = (0x301, 14) then (if a = 0 then 15 else if a = 2 then 16 else 0)
    else if key = (0x301, 6) then
      (if a = 0 then 1 else if a = 2 then 46 else if a = 16 then 1 else if a = 18 then 46
        else if a = 19 then 46 else 0)
    else 0
  io_error := fun _ => false
  buffer := fun key =>
    if key = (0x301, 2) then
      { b_data := fun a => if a = 0 then 0x0F else 0, b_count := 1, b_dirt := 0, b_uptodate := 1 }
    else if key = (0x301, 3) then
      { b_data := fun a => if a = 0 then 0xFF else if a = 1 then 0x0F else 0, b_count := 1, b_dirt := 0, b_uptodate := 1 }
    else buffer_zero
  super_block := fun i =>
    if i = 0 then
      { super_zero with s_ninodes := 64, s_nzones := 1024, s_imap_blocks := 1, s_zmap_blocks := 1, s_firstdatazone := 6, s_max_size := 268966912, s_magic := 0x137F, s_imap := fun k => if k = 0 then some (0x301, 2) else none, s_zmap := fun k => if k = 0 then some (0x301, 3) else none, s_dev := 0x301, s_isup := some 0 }
    else super_zero
  inode_table := fun i =>
    if i = 0 then
      { inode_zero with i_mode := 0o40755, i_size := 32, i_nlinks := 2, i_zone := fun k => if k = 0 then 6 else 0, i_dev := 0x301, i_num := 1, i_count := 3 }
    else if i = 1 then
      { inode_zero with i_mode := 0o100644, i_nlinks := 1, i_dev := 0x301, i_num := 2, i_count := 1 }
    else if i = 2 then
      { inode_zero with i_mode := 0o100644, i_size := 9216, i_nlinks := 1, i_zone := fun k => if k < 8 then 7 + k else 0, i_dev := 0x301, i_num := 3, i_count := 1 }
    else inode_zero
  last_inode := 0
  CURRENT_TIME := 1000
  mm := mm0
  calls := []

/-! ## fs/file_dev.c -/

/-- Modelled from the spec: `struct file` of `include/linux/fs.h` (not under
src/), the file object of the spec's data model: access mode, flags,
reference count, inode (its slot in the inode table) and position. -/
structure file where
  f_mode : Nat
  f_flags : Nat
  f_count : Nat
  f_inode : Option Nat
  f_pos : Nat

/-- Modelled from the spec: the open flag O_APPEND of `include/fcntl.h` (not
under src/), octal 02000 in that header. -/
def O_APPEND : Nat := 0o2000

/-- The loop `while (c-- > 0) *(p++) = get_fs_byte(buf++);`: `c` bytes of the user
segment from `buf` on are stored in `data` from offset `p` on. -/
def copy_from_fs (umem : Nat → Byte) : (Nat → Byte) → Nat → Nat → Nat → (Nat → Byte)
  | data, _, _, 0 => data
  | data, p, buf, c + 1 => copy_from_fs umem (Function.update data p (umem buf)) (p + 1) (buf + 1) c

/-- The loop `while (i < count)` of `file_write`: the state, `pos` and `i` it
ends with.  Every turn that does not leave the loop adds at least 1 to `i`,
so `count` turns are enough. -/
def file_write_loop (umem : Nat → Byte) (inode count : Nat) :
    Nat → Fs → Nat → Nat → Nat → Outcome (Fs × Nat × Nat)
  | 0, s, pos, i, _ => if i < count then .stuck else .ok (s, pos, i)
  | fuel + 1, s, pos, i, buf =>
    if i < count then
      match create_block s inode ((pos / BLOCK_SIZE : Nat) : Int) with
      | .panic msg => .panic msg
      | .stuck => .stuck
      | .ok r =>
        if r.1 = 0 then .ok (r.2, pos, i)
        else
          let b := bread r.2 (r.2.inode_table inode).i_dev (of_long r.1)
          match b.1 with
          | none => .ok (b.2, pos, i)
          | some bh =>
            let c := pos % BLOCK_SIZE
            let p := c
            let c := BLOCK_SIZE - c
            let c := if c > count - i then count - i else c
            let pos := pos + c
            let s := if pos > (b.2.inode_table inode).i_size then set_inode b.2 inode fun n => { n with i_size := pos, i_dirt := 1 } else b.2
            let i := i + c
            let d := s.buffer bh
            let s := { s with buffer := Function.update s.buffer bh { d with b_data := copy_from_fs umem d.b_data p buf c, b_dirt := 1 } }
            file_write_loop umem inode count fuel (brelse s (some bh)) pos i (buf + c)
    else .ok (s, pos, i)

/-- Function `int file_write(struct m_inode *inode, struct file *filp, char *buf, int
count)` for a `count` that is not negative; `inode` is the slot in the inode
table, `umem` the user data segment. -/
def file_write (umem : Nat → Byte) (s : Fs) (inode : Nat) (filp : file) (buf count : Nat) :
    Outcome (Int × Fs × file) :=
  let pos := if filp.f_flags &&& O_APPEND ≠ 0 then (s.inode_table inode).i_size else filp.f_pos
  match file_write_loop umem inode count count s pos 0 buf with
  | .panic msg => .panic msg
  | .stuck => .stuck
  | .ok r =>
    let s := set_inode r.1 inode fun n => { n with i_mtime := r.1.CURRENT_TIME }
    let i := r.2.2
    if filp.f_flags &&& O_APPEND = 0 then
      .ok (if i ≠ 0 then (i : Int) else -1,
        set_inode s inode fun n => { n with i_ctime := s.CURRENT_TIME }, { filp with f_pos := r.2.1 })
    else .ok (if i ≠ 0 then (i : Int) else -1, s, filp)

/-- The bit of position `b` of the zone bitmap of a superblock, `true` for a
zone in use; positions of a slot without buffer count as in use, as
`new_block` passes them over. -/
def zone_bit (s : Fs) (sb : super_block) (b : Nat) : Bool :=
  match sb.s_zmap (b / 8192) with
  | none => true
  | some key => test_bit (s.buffer key).b_data (b % 8192)

/-- The device `dev` is mounted in superblock slot `sbi` with its zone-bitmap
buffers held, each in a slot of its own, and `L` lists, in rising order, the
lowest positions of the zone bitmap that are free: each of them names a block
`b + s_firstdatazone - 1` that is not 0, lies on the device and has no buffer
in use. -/
def zones_free (s : Fs) (dev sbi : Nat) (L : List Nat) : Prop :=
  get_super s dev = .ok (some sbi) ∧
  (s.super_block sbi).s_nzones ≤ 65536 ∧
  (∀ i key, (s.super_block sbi).s_zmap i = some key → 1 ≤ (s.buffer key).b_count) ∧
  (∀ i j key, (s.super_block sbi).s_zmap i = some key →
    (s.super_block sbi).s_zmap j = some key → i = j) ∧
  L.Pairwise (fun a b => a < b) ∧
  (∀ b, b ∈ L → b < 65536 ∧ zone_bit s (s.super_block sbi) b = false ∧
    2 ≤ b + (s.super_block sbi).s_firstdatazone ∧
    b + (s.super_block sbi).s_firstdatazone - 1 < (s.super_block sbi).s_nzones ∧
    (s.buffer (dev, b + (s.super_block sbi).s_firstdatazone - 1)).b_count = 0) ∧
  (∀ b, b < 65536 → zone_bit s (s.super_block sbi) b = false → b ∉ L → ∀ x, x ∈ L → x < b)

/-- The state a `new_block(dev)` leaves that found the free bit `j` in the
bitmap buffer `key` and hands out the block `blk`, whose buffer was in no use:
the bit is set and the bitmap buffer dirty, the buffer of the block is zeroed,
uptodate, dirty and released, and the call is on the list. -/
def after_new_block (s : Fs) (dev : Nat) (key : Nat × Nat) (j blk : Nat) : Fs :=
  { s with
    buffer := Function.update (Function.update s.buffer key { s.buffer key with b_data := set_bit (s.buffer key).b_data j, b_dirt := 1 }) (dev, blk) ⟨fun _ => 0, 0, 1, 1⟩
    calls := s.calls ++ [FsCall.new_block dev blk] }

/-- The state the indirect step of `create_block` leaves when the buffer of the
indirect block `z` is uptodate and its entry `e` is 0: `bread` takes the
buffer, `new_block` hands out `blk` (free bit `j` of the bitmap buffer `key`),
the entry is stored, the buffer made dirty and released. -/
def after_bmap_entry (s : Fs) (dev z e : Nat) (key : Nat × Nat) (j blk : Nat) : Fs :=
  let s4 := after_new_block (getblk s dev z) dev key j blk
  brelse { s4 with buffer := Function.update s4.buffer (dev, z) { s4.buffer (dev, z) with b_data := put_word (s4.buffer (dev, z)).b_data e blk, b_dirt := 1 } } (some (dev, z))

/-- The state one turn of the loop of `file_write` leaves after `create_block`
returned the block `blk` whose buffer is uptodate: `c` bytes from `buf` are
stored at offset `pos % BLOCK_SIZE`, the buffer is dirty and released, and
`i_size` is raised to `pos + c` when that is greater. -/
def after_write (umem : Nat → Byte) (s : Fs) (inode blk pos c buf : Nat) : Fs :=
  let dev := (s.inode_table inode).i_dev
  let s1 := getblk s dev blk
  let s2 := if pos + c > (s1.inode_table inode).i_size then set_inode s1 inode fun n => { n with i_size := pos + c, i_dirt := 1 } else s1
  let d := s2.buffer (dev, blk)
  brelse { s2 with buffer := Function.update s2.buffer (dev, blk) { d with b_data := copy_from_fs umem d.b_data (pos % BLOCK_SIZE) buf c, b_dirt := 1 } } (some (dev, blk))

/-- The state of `file_write` at the head of its loop, writing from position 0
to the empty file of inode slot `ino` on `dev`, after `i` bytes: `L0` lists
the free zones at the start (state `s0`), `A` those handed out so far and `L`
those left.  The file has the size `i`; the zones of the blocks not yet
written are 0; the single-indirect block exists once more than 7 blocks are
written, it is the eighth zone handed out, its buffer is uptodate and
released and its entries for the blocks not yet written are 0; the calls made
are the `new_block` calls for `A`, and the zone bitmap has gained the bits of
`A`. -/
def fw_inv (s0 : Fs) (L0 : List Nat) (dev sbi ino : Nat) (s : Fs) (i : Nat)
    (A L : List Nat) : Prop :=
  zones_free s dev sbi L ∧ s.super_block = s0.super_block ∧
  (s.inode_table ino).i_dev = dev ∧ (s.inode_table ino).i_size = i ∧
  (∀ j, (i + 1023) / 1024 ≤ j → j < 7 → (s.inode_table ino).i_zone j = 0) ∧
  (i ≤ 7168 → (s.inode_table ino).i_zone 7 = 0) ∧
  (7168 < i → ∃ b7, L0.get? 7 = some b7 ∧
    (s.inode_table ino).i_zone 7 = b7 + (s0.super_block sbi).s_firstdatazone - 1 ∧
    b7 + (s0.super_block sbi).s_firstdatazone - 1 ≠ 0 ∧
    (s.buffer (dev, b7 + (s0.super_block sbi).s_firstdatazone - 1)).b_uptodate ≠ 0 ∧
    (s.buffer (dev, b7 + (s0.super_block sbi).s_firstdatazone - 1)).b_count = 0 ∧
    (∀ e, (i + 1023) / 1024 - 7 ≤ e →
      get_word (s.buffer (dev, b7 + (s0.super_block sbi).s_firstdatazone - 1)).b_data e = 0) ∧
    ∀ x, x ∈ L → b7 < x) ∧
  A ++ L = L0 ∧ A.length = (i + 1023) / 1024 + (if 7168 < i then 1 else 0) ∧
  s.calls = s0.calls ++ A.map (fun b => FsCall.new_block dev (b + (s0.super_block sbi).s_firstdatazone - 1)) ∧
  ∀ x, zone_bit s (s0.super_block sbi) x = (zone_bit s0 (s0.super_block sbi) x || decide (x ∈ A))

/-- The state of `file_write` in the turn for block `i / 1024`, after
`create_block` returned `blk`: as `fw_inv`, with the zone of this block handed
out, the buffer of `blk` zeroed, uptodate and released, and `i_size` still
`i`. -/
def fw_mid (s0 : Fs) (L0 : List Nat) (dev sbi ino : Nat) (s : Fs) (i blk : Nat)
    (A L : List Nat) : Prop :=
  zones_free s dev sbi L ∧ s.super_block = s0.super_block ∧
  (s.inode_table ino).i_dev = dev ∧ (s.inode_table ino).i_size = i ∧
  (∀ j, i / 1024 + 1 ≤ j → j < 7 → (s.inode_table ino).i_zone j = 0) ∧
  (i / 1024 < 7 → (s.inode_table ino).i_zone 7 = 0) ∧
  (7 ≤ i / 1024 → ∃ b7, L0.get? 7 = some b7 ∧
    (s.inode_table ino).i_zone 7 = b7 + (s0.super_block sbi).s_firstdatazone - 1 ∧
    b7 + (s0.super_block sbi).s_firstdatazone - 1 ≠ 0 ∧
    b7 + (s0.super_block sbi).s_firstdatazone - 1 ≠ blk ∧
    (s.buffer (dev, b7 + (s0.super_block sbi).s_firstdatazone - 1)).b_uptodate ≠ 0 ∧
    (s.buffer (dev, b7 + (s0.super_block sbi).s_firstdatazone - 1)).b_count = 0 ∧
    (∀ e, i / 1024 + 1 - 7 ≤ e →
      get_word (s.buffer (dev, b7 + (s0.super_block sbi).s_firstdatazone - 1)).b_data e = 0) ∧
    ∀ x, x ∈ L → b7 < x) ∧
  s.buffer (dev, blk) = ⟨fun _ => 0, 0, 1, 1⟩ ∧ blk ≠ 0 ∧
  (∀ x, x ∈ L → blk ≠ x + (s0.super_block sbi).s_firstdatazone - 1) ∧
  A ++ L = L0 ∧ A.length = i / 1024 + 1 + (if 7 ≤ i / 1024 then 1 else 0) ∧
  s.calls = s0.calls ++ A.map (fun b => FsCall.new_block dev (b + (s0.super_block sbi).s_firstdatazone - 1)) ∧
  ∀ x, zone_bit s (s0.super_block sbi) x = (zone_bit s0 (s0.super_block sbi) x || decide (x ∈ A))

/-- A file object for the examples: inode slot 1 of `fs0` open for writing at
position 0. -/
def file0 : file where
  f_mode := 2
  f_flags := 1
  f_count := 1
  f_inode := some 1
  f_pos := 0

/-! ## fs/truncate.c -/

/-- Modelled from the spec: the file-type macro `S_ISREG` of
`include/sys/stat.h` (not under src/), `(m & S_IFMT) == S_IFREG` with the
octal values 0170000 and 0100000 of that header. -/
def S_ISREG (m : Nat) : Bool := decide (m &&& 0o170000 = 0o100000)

/-- Modelled from the spec: the file-type macro `S_ISDIR` of
`include/sys/stat.h` (not under src/), `(m & S_IFMT) == S_IFDIR` with the
octal values 0170000 and 0040000 of that header. -/
def S_ISDIR (m : Nat) : Bool := decide (m &&& 0o170000 = 0o040000)

/-- The loop `for (i = 0; i < 512; i++, p++) if (*p) free_block(dev, *p);` of
`free_ind` over the entries of the buffer `bh`, from entry `i` with `n`
entries left. -/
def free_ind_loop (dev : Nat) (bh : Nat × Nat) : Nat → Nat → Fs → Outcome Fs
  | _, 0, s => .ok s
  | i, n + 1, s =>
    let p := get_word (s.buffer bh).b_data i
    if p ≠ 0 then
      match free_block s dev p with
      | .ok s => free_ind_loop dev bh (i + 1) n s
      | .panic msg => .panic msg
      | .stuck => .stuck
    else free_ind_loop dev bh (i + 1) n s

/-- Function `static void free_ind(int dev, int block)`. -/
def free_ind (s : Fs) (dev block : Nat) : Outcome Fs :=
  if block = 0 then .ok s
  else
    let r := bread s dev block
    match r.1 with
    | some bh =>
      match free_ind_loop dev bh 0 512 r.2 with
      | .ok s => free_block (brelse s (some bh)) dev block
      | .panic msg => .panic msg
      | .stuck => .stuck
    | none => free_block r.2 dev block

/-- The loop `for (i = 0; i < 512; i++, p++) if (*p) free_ind(dev, *p);` of
`free_dind` over the entries of the buffer `bh`, from entry `i` with `n`
entries left. -/
def free_dind_loop (dev : Nat) (bh : Nat × Nat) : Nat → Nat → Fs → Outcome Fs
  | _, 0, s => .ok s
  | i, n + 1, s =>
    let p := get_word (s.buffer bh).b_data i
    if p ≠ 0 then
      match free_ind s dev p with
      | .ok s => free_dind_loop dev bh (i + 1) n s
      | .panic msg => .panic msg
      | .stuck => .stuck
    else free_dind_loop dev bh (i + 1) n s

/-- Function `static void free_dind(int dev, int block)`. -/
def free_dind (s : Fs) (dev block : Nat) : Outcome Fs :=
  if block = 0 then .ok s
  else
    let r := bread s dev block
    match r.1 with
    | some bh =>
      match free_dind_loop dev bh 0 512 r.2 with
      | .ok s => free_block (brelse s (some bh)) dev block
      | .panic msg => .panic msg
      | .stuck => .stuck
    | none => free_block r.2 dev block

/-- The loop `for (i = 0; i < 7; i++) if (inode->i_zone[i]) { free_block(inode->i_dev,
inode->i_zone[i]); inode->i_zone[i] = 0; }` of `truncate`, from zone `i` with
`n` zones left. -/
def truncate_direct (inode : Nat) : Nat → Nat → Fs → Outcome Fs
  | _, 0, s => .ok s
  | i, n + 1, s =>
    if (s.inode_table inode).i_zone i ≠ 0 then
      match free_block s (s.inode_table inode).i_dev ((s.inode_table inode).i_zone i) with
      | .ok s =>
        truncate_direct inode (i + 1) n
          (set_inode s inode fun m => { m with i_zone := Function.update m.i_zone i 0 })
      | .panic msg => .panic msg
      | .stuck => .stuck
    else truncate_direct inode (i + 1) n s

/-- Function `void truncate(struct m_inode *inode)`; `inode` is the slot in the inode
table. -/
def truncate (s : Fs) (inode : Nat) : Outcome Fs :=
  if ¬ (S_ISREG (s.inode_table inode).i_mode = true ∨ S_ISDIR (s.inode_table inode).i_mode = true) then
    .ok s
  else
    match truncate_direct inode 0 7 s with
    | .panic msg => .panic msg
    | .stuck => .stuck
    | .ok s =>
      match free_ind s (s.inode_table inode).i_dev ((s.inode_table inode).i_zone 7) with
      | .panic msg => .panic msg
      | .stuck => .stuck
      | .ok s =>
        match free_dind s (s.inode_table inode).i_dev ((s.inode_table inode).i_zone 8) with
        | .panic msg => .panic msg
        | .stuck => .stuck
        | .ok s =>
          .ok (set_inode s inode fun m =>
            { m with i_zone := Function.update (Function.update m.i_zone 8 0) 7 0, i_size := 0, i_dirt := 1, i_mtime := s.CURRENT_TIME, i_ctime := s.CURRENT_TIME })

/-- The non-zero entries among the first `n` 16-bit entries of a block. -/
def zone_entries (data : Nat → Byte) (n : Nat) : List Nat :=
  ((List.range n).map (get_word data)).filter (fun z => decide (z ≠ 0))

/-- The zones `free_ind(dev, z)` has to free, in its order: the non-zero
entries of block `z`, then `z`; none when `z` is 0. -/
def zones_ind (s : Fs) (dev z : Nat) : List Nat :=
  if z = 0 then [] else zone_entries (block_data s (dev, z)) 512 ++ [z]

/-- The zones `free_dind(dev, z)` has to free, in its order: for every non-zero
entry of block `z` the zones of that single-indirect block, then `z`. -/
def zones_dind (s : Fs) (dev z : Nat) : List Nat :=
  if z = 0 then []
  else ((zone_entries (block_data s (dev, z)) 512).map (zones_ind s dev)).flatten ++ [z]

/-- The non-zero direct zones `i_zone[0..6]` of an inode. -/
def zone_entries_of_inode (m : m_inode) : List Nat :=
  ((List.range 7).map m.i_zone).filter (fun z => decide (z ≠ 0))

/-- The non-zero zone numbers reachable from an inode, in the order of
`truncate`: the direct zones, the single-indirect tree, the double-indirect
tree. -/
def zones_of (s : Fs) (inode : Nat) : List Nat :=
  zone_entries_of_inode (s.inode_table inode) ++
    zones_ind s (s.inode_table inode).i_dev ((s.inode_table inode).i_zone 7) ++
    zones_dind s (s.inode_table inode).i_dev ((s.inode_table inode).i_zone 8)

/-- The zones of `Z` can be freed on `dev`, mounted in superblock slot `sbi`:
the zone-bitmap buffers sit each in a slot of its own and none of them is the
buffer of a zone of `Z`; every zone of `Z` lies in the data zone of the
device, has its bit set in a bitmap buffer that is there, and can be read;
and no zone occurs twice in `Z`. -/
def tr_wf (s : Fs) (dev sbi : Nat) (Z : List Nat) : Prop :=
  get_super s dev = .ok (some sbi) ∧
  (∀ i j key, (s.super_block sbi).s_zmap i = some key →
    (s.super_block sbi).s_zmap j = some key → i = j) ∧
  (∀ i key, (s.super_block sbi).s_zmap i = some key → ∀ z, z ∈ Z → key ≠ (dev, z)) ∧
  (∀ z, z ∈ Z → (s.super_block sbi).s_firstdatazone ≤ z ∧ z < (s.super_block sbi).s_nzones ∧
    (s.super_block sbi).s_zmap ((z + 1 - (s.super_block sbi).s_firstdatazone) / 8192) ≠ none ∧
    zone_bit s (s.super_block sbi) (z + 1 - (s.super_block sbi).s_firstdatazone) = true ∧
    readable s (dev, z)) ∧
  Z.Nodup

/-- The state `t` is reached from `s` by `free_block` calls for the zones of `F`
on `dev`, in that order, and by reading blocks in: superblocks, devices and
clock are the same, the calls are on the list, every block that is neither a
zone of `F` nor a zone-bitmap block holds what it held and can be read if it
could, and the zone bitmap is the same outside the bits of `F`. -/
def frees (dev sbi : Nat) (s t : Fs) (F : List Nat) : Prop :=
  t.super_block = s.super_block ∧ t.io_error = s.io_error ∧ t.disk = s.disk ∧
  t.CURRENT_TIME = s.CURRENT_TIME ∧
  t.calls = s.calls ++ F.map (FsCall.free_block dev) ∧
  (∀ key, (∀ z, z ∈ F → key ≠ (dev, z)) → (∀ i, (s.super_block sbi).s_zmap i ≠ some key) →
    block_data t key = block_data s key ∧ (readable s key → readable t key)) ∧
  (∀ x, (∀ z, z ∈ F → x ≠ z + 1 - (s.super_block sbi).s_firstdatazone) →
    zone_bit t (s.super_block sbi) x = zone_bit s (s.super_block sbi) x)

/-! ## fs/inode.c : the inode cache, and free_inode of fs/bitmap.c -/

/-- Modelled from the spec: the file-type macro `S_ISBLK` of
`include/sys/stat.h` (not under src/), `(m & S_IFMT) == S_IFBLK` with the
octal values 0170000 and 0060000 of that header. -/
def S_ISBLK (m : Nat) : Bool := decide (m &&& 0o170000 = 0o060000)

/-- Modelled from the spec: `fs/buffer.c` is not under src/.  `sync_dev(dev)`
flushes all dirty buffers of the device: their data goes to the device and
their dirty flag is cleared. -/
def sync_dev (s : Fs) (dev : Nat) : Fs :=
  { s with
    disk := fun key => if key.1 = dev ∧ (s.buffer key).b_dirt ≠ 0 then (s.buffer key).b_data else s.disk key
    buffer := fun key => if key.1 = dev then { s.buffer key with b_dirt := 0 } else s.buffer key }

/-- Modelled from the spec: `struct d_inode` of `include/linux/fs.h` (not under
src/), the 32-byte disk inode: mode (2 bytes), uid (2), size (4), time (4),
gid (1), links (1), zones[0..8] (2 each), little-endian.  The assignment
`*(struct d_inode *)inode = ((struct d_inode *)data)[k]` of `read_inode`. -/
def get_d_inode (data : Nat → Byte) (k : Nat) (m : m_inode) : m_inode :=
  { m with
    i_mode := get_word data (16 * k)
    i_uid := get_word data (16 * k + 1)
    i_size := get_long data (32 * k + 4)
    i_mtime := get_long data (32 * k + 8)
    i_gid := (data (32 * k + 12)).val
    i_nlinks := (data (32 * k + 13)).val
    i_zone := fun j => if j < 9 then get_word data (16 * k + 7 + j) else m.i_zone j }

/-- The stores of the words `i_zone[j]`, `j = n-1, ..., 0`, of a disk inode at
record `k`. -/
def put_d_zones (k : Nat) (m : m_inode) : Nat → (Nat → Byte) → (Nat → Byte)
  | 0, data => data
  | n + 1, data => put_d_zones k m n (put_word data (16 * k + 7 + n) (m.i_zone n))

/-- Modelled from the spec: see `get_d_inode`.  The assignment `((struct d_inode
*)data)[k] = *(struct d_inode *)inode` of `write_inode`. -/
def put_d_inode (data : Nat → Byte) (k : Nat) (m : m_inode) : Nat → Byte :=
  let data := put_word data (16 * k) m.i_mode
  let data := put_word data (16 * k + 1) m.i_uid
  let data := put_long data (32 * k + 4) m.i_size
  let data := put_long data (32 * k + 8) m.i_mtime
  let data := Function.update data (32 * k + 12) (toByte m.i_gid)
  let data := Function.update data (32 * k + 13) (toByte m.i_nlinks)
  put_d_zones k m 9 data

/-- Function `static void read_inode(struct m_inode *inode)`.  `lock_inode` on a locked
inode sleeps until another task unlocks it, which is `stuck` here; for an
inode number 0 the block is that of inode 1 (`-1 / INODES_PER_BLOCK` is 0) and
the record is the one before the block, which is `stuck` too. -/
def read_inode (s : Fs) (inode : Nat) : Outcome Fs :=
  let m := s.inode_table inode
  if m.i_lock ≠ 0 then .stuck
  else
    match get_super s m.i_dev with
    | .panic msg => .panic msg
    | .stuck => .stuck
    | .ok none => .panic "trying to read inode without dev"
    | .ok (some sbi) =>
      let sb := s.super_block sbi
      let block := 2 + sb.s_imap_blocks + sb.s_zmap_blocks + (m.i_num - 1) / INODES_PER_BLOCK
      let r := bread s m.i_dev block
      match r.1 with
      | none => .panic "unable to read i-node block"
      | some bh =>
        if m.i_num = 0 then .stuck
        else
          let s := set_inode r.2 inode fun m =>
            { get_d_inode (r.2.buffer bh).b_data ((m.i_num - 1) % INODES_PER_BLOCK) m with i_lock := 0 }
          .ok (brelse s (some bh))

/-- Function `static void write_inode(struct m_inode *inode)`. -/
def write_inode (s : Fs) (inode : Nat) : Outcome Fs :=
  let m := s.inode_table inode
  if m.i_lock ≠ 0 then .stuck
  else if m.i_dirt = 0 ∨ m.i_dev = 0 then .ok s
  else
    match get_super s m.i_dev with
    | .panic msg => .panic msg
    | .stuck => .stuck
    | .ok none => .panic "trying to write inode without device"
    | .ok (some sbi) =>
      let sb := s.super_block sbi
      let block := 2 + sb.s_imap_blocks + sb.s_zmap_blocks + (m.i_num - 1) / INODES_PER_BLOCK
      let r := bread s m.i_dev block
      match r.1 with
      | none => .panic "unable to read i-node block"
      | some bh =>
        if m.i_num = 0 then .stuck
        else
          let b := r.2.buffer bh
          let s := { r.2 with buffer := Function.update r.2.buffer bh { b with b_data := put_d_inode b.b_data ((m.i_num - 1) % INODES_PER_BLOCK) m, b_dirt := 1 } }
          let s := set_inode s inode fun m => { m with i_dirt := 0 }
          .ok (brelse s (some bh))

/-- Function `void free_inode(struct m_inode *inode)` of `fs/bitmap.c`; `none` is a NULL
pointer. -/
def free_inode (s : Fs) (inode : Option Nat) : Outcome Fs :=
  match inode with
  | none => .ok s
  | some ino =>
    let m := s.inode_table ino
    if m.i_dev = 0 then .ok (set_inode s ino fun _ => inode_zero)
    else if m.i_count > 1 then .panic "free_inode"
    else if m.i_nlinks ≠ 0 then .panic "trying to free inode with links"
    else
      match get_super s m.i_dev with
      | .panic msg => .panic msg
      | .stuck => .stuck
      | .ok none => .panic "trying to free inode on nonexistent device"
      | .ok (some sbi) =>
        let sb := s.super_block sbi
        if m.i_num < 1 ∨ m.i_num > sb.s_ninodes then
          .panic "trying to free inode 0 or nonexistant inode"
        else
          match sb.s_imap (m.i_num >>> 13) with
          | none => .panic "nonexistent imap in superblock"
          | some bh =>
            let b := s.buffer bh
            let s := if test_bit b.b_data (m.i_num &&& 8191) = false
              then { s with mm := printk s.mm "free_inode: bit already cleared.\n\r" } else s
            let s := { s with buffer := Function.update s.buffer bh { b with b_data := clear_bit b.b_data (m.i_num &&& 8191), b_dirt := 1 } }
            .ok (set_inode s ino fun _ => inode_zero)

/-- The loop `for (i = NR_INODE; i; i--)` of `get_empty_inode`, with `i` turns
left: the values of `last_inode` and `inode` after it. -/
def empty_scan (tab : Nat → m_inode) : Nat → Nat → Option Nat → Nat × Option Nat
  | 0, last, inode => (last, inode)
  | i + 1, last, inode =>
    let last := if last + 1 ≥ NR_INODE then 0 else last + 1
    if (tab last).i_count = 0 then
      if (tab last).i_dirt = 0 ∧ (tab last).i_lock = 0 then (last, some last)
      else empty_scan tab i last (some last)
    else empty_scan tab i last inode

/-- The loop `while (inode->i_dirt) { write_inode(inode); wait_on_inode(inode); }` of
`get_empty_inode`; `fuel` bounds its turns. -/
def write_dirty (inode : Nat) : Nat → Fs → Outcome Fs
  | 0, s => if (s.inode_table inode).i_dirt ≠ 0 then .stuck else .ok s
  | fuel + 1, s =>
    if (s.inode_table inode).i_dirt ≠ 0 then
      match write_inode s inode with
      | .panic msg => .panic msg
      | .stuck => .stuck
      | .ok s => if (s.inode_table inode).i_lock ≠ 0 then .stuck else write_dirty inode fuel s
    else .ok s

/-- Function `struct m_inode *get_empty_inode(void)`: the slot it returns.  `fuel`
bounds the turns of its `do ... while (inode->i_count)` and of the inner
`while`. -/
def get_empty_inode : Nat → Fs → Outcome (Nat × Fs)
  | 0, _ => .stuck
  | fuel + 1, s =>
    let r := empty_scan s.inode_table NR_INODE s.last_inode none
    let s := { s with last_inode := r.1 }
    match r.2 with
    | none => .panic "No free inodes in mem"
    | some inode =>
      if (s.inode_table inode).i_lock ≠ 0 then .stuck
      else
        match write_dirty inode fuel s with
        | .panic msg => .panic msg
        | .stuck => .stuck
        | .ok s =>
          if (s.inode_table inode).i_count ≠ 0 then get_empty_inode fuel s
          else .ok (inode, set_inode s inode fun _ => { inode_zero with i_count := 1 })

/-- The part of `iput` from the label `repeat` on; `fuel` bounds the number of
`goto repeat`. -/
def iput_repeat (inode : Nat) : Nat → Fs → Outcome Fs
  | 0, _ => .stuck
  | fuel + 1, s =>
    let m := s.inode_table inode
    if m.i_count > 1 then .ok (set_inode s inode fun m => { m with i_count := m.i_count - 1 })
    else if m.i_nlinks = 0 then
      match truncate s inode with
      | .panic msg => .panic msg
      | .stuck => .stuck
      | .ok s => free_inode s (some inode)
    else if m.i_dirt ≠ 0 then
      match write_inode s inode with
      | .panic msg => .panic msg
      | .stuck => .stuck
      | .ok s => if (s.inode_table inode).i_lock ≠ 0 then .stuck else iput_repeat inode fuel s
    else .ok (set_inode s inode fun m => { m with i_count := (m.i_count + 65535) % 65536 })

/-- Function `void iput(struct m_inode *inode)`; `none` is a NULL pointer. -/
def iput (s : Fs) (inode : Option Nat) (fuel : Nat) : Outcome Fs :=
  match inode with
  | none => .ok s
  | some ino =>
    let m := s.inode_table ino
    if m.i_lock ≠ 0 then .stuck
    else if m.i_count = 0 then .panic "iput: trying to free free inode"
    else if m.i_pipe ≠ 0 then
      if m.i_count - 1 ≠ 0 then .ok (set_inode s ino fun m => { m with i_count := m.i_count - 1 })
      else
        match free_page s.mm m.i_size with
        | .ret _ mm => .ok (set_inode { s with mm := mm } ino fun m => { m with i_count := 0, i_dirt := 0, i_pipe := 0 })
        | .panic msg _ => .panic msg
        | .oom _ => .stuck
    else if m.i_dev = 0 then .ok (set_inode s ino fun m => { m with i_count := m.i_count - 1 })
    else
      let s := if S_ISBLK m.i_mode then sync_dev s (m.i_zone 0) else s
      if (s.inode_table ino).i_lock ≠ 0 then .stuck else iput_repeat ino fuel s

/-- The search `for (i = 0; i < NR_SUPER; i++) if (super_block[i].s_imount == inode)
break;` of `iget`, from slot `i` with `n` slots left: the slot found. -/
def imount_scan (sb : Nat → super_block) (inode : Nat) : Nat → Nat → Option Nat
  | _, 0 => none
  | i, n + 1 => if (sb i).s_imount = some inode then some i else imount_scan sb inode (i + 1) n

/-- The loop `while (inode < NR_INODE + inode_table)` of `iget` with `inode` at
slot `i`, and what follows it; `empty` is the slot `get_empty_inode` gave.
`fuel` bounds the number of turns. -/
def iget_loop (empty : Nat) : Nat → Fs → Nat → Nat → Nat → Outcome (Option Nat × Fs)
  | 0, _, _, _, _ => .stuck
  | fuel + 1, s, dev, nr, i =>
    if i ≥ NR_INODE then
      let s := set_inode s empty fun m => { m with i_dev := dev % 65536, i_num := nr % 65536 }
      match read_inode s empty with
      | .panic msg => .panic msg
      | .stuck => .stuck
      | .ok s => .ok (some empty, s)
    else if (s.inode_table i).i_dev ≠ dev ∨ (s.inode_table i).i_num ≠ nr then
      iget_loop empty fuel s dev nr (i + 1)
    else if (s.inode_table i).i_lock ≠ 0 then .stuck
    else
      let s := set_inode s i fun m => { m with i_count := (m.i_count + 1) % 65536 }
      if (s.inode_table i).i_mount ≠ 0 then
        match imount_scan s.super_block i 0 NR_SUPER with
        | none =>
          match iput { s with mm := printk s.mm "Mounted inode hasn't got sb\n" } (some empty) fuel with
          | .panic msg => .panic msg
          | .stuck => .stuck
          | .ok s => .ok (some i, s)
        | some j =>
          match iput s (some i) fuel with
          | .panic msg => .panic msg
          | .stuck => .stuck
          | .ok s => iget_loop empty fuel s (s.super_block j).s_dev ROOT_INO 0
      else
        match iput s (some empty) fuel with
        | .panic msg => .panic msg
        | .stuck => .stuck
        | .ok s => .ok (some i, s)

/-- Function `struct m_inode *iget(int dev, int nr)`: the slot it returns. -/
def iget (s : Fs) (dev nr : Nat) (fuel : Nat) : Outcome (Option Nat × Fs) :=
  if dev = 0 then .panic "iget with dev==0"
  else
    match get_empty_inode fuel s with
    | .panic msg => .panic msg
    | .stuck => .stuck
    | .ok r => iget_loop r.1 fuel r.2 dev nr 0

/-- No two slots of the inode table hold the same (device, number) with a
device that is not 0. -/
def inode_unique (s : Fs) : Prop :=
  ∀ i j, i < NR_INODE → j < NR_INODE → (s.inode_table i).i_dev ≠ 0 →
    (s.inode_table i).i_dev = (s.inode_table j).i_dev →
    (s.inode_table i).i_num = (s.inode_table j).i_num → i = j

/-- No two slots of the inode table with a positive reference count hold the
same (device, number) with a device that is not 0. -/
def inode_unique_in_use (s : Fs) : Prop :=
  ∀ i j, i < NR_INODE → j < NR_INODE → 0 < (s.inode_table i).i_count →
    0 < (s.inode_table j).i_count → (s.inode_table i).i_dev ≠ 0 →
    (s.inode_table i).i_dev = (s.inode_table j).i_dev →
    (s.inode_table i).i_num = (s.inode_table j).i_num → i = j

/-- The superblock table is the same in `t` as in `s`, and every inode slot
holds in `t` the (device, number) it held in `s` or the device 0. -/
def keeps (s t : Fs) : Prop :=
  t.super_block = s.super_block ∧
  ∀ k, ((t.inode_table k).i_dev = (s.inode_table k).i_dev ∧
      (t.inode_table k).i_num = (s.inode_table k).i_num) ∨ (t.inode_table k).i_dev = 0

/-- The states reached from `s0` by calls of `iget` (for a device and an inode
number that fit in 16 bits), `iput` (for a slot of the table) and
`get_empty_inode` that return. -/
inductive inode_reach (s0 : Fs) : Fs → Prop where
  | start : inode_reach s0 s0
  | iget (s t : Fs) (dev nr fuel : Nat) (r : Option Nat) : inode_reach s0 s →
      dev < 65536 → nr < 65536 → iget s dev nr fuel = .ok (r, t) → inode_reach s0 t
  | iput (s t : Fs) (inode : Option Nat) (fuel : Nat) : inode_reach s0 s →
      iput s inode fuel = .ok t → inode_reach s0 t
  | get_empty_inode (s t : Fs) (fuel r : Nat) : inode_reach s0 s →
      get_empty_inode fuel s = .ok (r, t) → inode_reach s0 t

/-- An inode table with a stale copy: slot 0 holds inode 5 of device 0x301 with
reference count 0, slot 1 holds the same inode with reference count 1; the
other slots are free. -/
def fs_dup : Fs :=
  { fs0 with
    inode_table := fun i =>
      if i = 0 then { inode_zero with i_mode := 0o100644, i_nlinks := 1, i_dev := 0x301, i_num := 5 }
      else if i = 1 then { inode_zero with i_mode := 0o100644, i_nlinks := 1, i_dev := 0x301, i_num := 5, i_count := 1 }
      else inode_zero }

/-! ## fs/super.c : read_super, and new_inode of fs/bitmap.c -/

/-- Modelled from the spec: `fs/buffer.c` is not under src/.
`check_disk_change(dev)` looks whether the medium of a floppy drive was
changed; for every other device, and for a floppy whose medium did not change,
it returns at once, which is the case modelled here. -/
def check_disk_change (s : Fs) (_dev : Nat) : Fs := s

/-- Modelled from the spec: `struct d_super_block` of `include/linux/fs.h` (not
under src/), the disk superblock of block 1: the counts of inodes and zones,
the numbers of inode-bitmap and zone-bitmap blocks, the first data zone, the
log zone size (2 bytes each), the maximal size (4 bytes) and the magic (2
bytes), little-endian.  The assignment `*((struct d_super_block *) s) = *((struct
d_super_block *) bh->b_data)` of `read_super`. -/
def get_d_super_block (data : Nat → Byte) (sb : super_block) : super_block :=
  { sb with
    s_ninodes := get_word data 0
    s_nzones := get_word data 1
    s_imap_blocks := get_word data 2
    s_zmap_blocks := get_word data 3
    s_firstdatazone := get_word data 4
    s_log_zone_size := get_word data 5
    s_max_size := get_long data 12
    s_magic := get_word data 8 }

/-- The superblock table with the superblock of slot `i` changed by `f`. -/
def set_super (s : Fs) (i : Nat) (f : super_block → super_block) : Fs :=
  { s with super_block := Function.update s.super_block i (f (s.super_block i)) }

/-- The search `for (s = 0 + super_block;; s++)` of `read_super` for a slot with
`s_dev == 0`, from slot `i` with `n` slots left; `none` when the table is full. -/
def free_super_scan (sb : Nat → super_block) : Nat → Nat → Option Nat
  | _, 0 => none
  | i, n + 1 => if (sb i).s_dev = 0 then some i else free_super_scan sb (i + 1) n

/-- The loop `for (i = 0; i < blocks; i++) if (map[i] = bread(dev, block)) block++; else
break;` of `read_super`, at index `i` with `n` turns left: the state, the
array and `block` after it.  The array has `slots` entries; the loop itself has
no bound but `blocks`, and a store behind the array is `none` here. -/
def load_maps (dev slots : Nat) :
    Nat → Nat → Fs → (Nat → Option (Nat × Nat)) → Nat → Option (Fs × (Nat → Option (Nat × Nat)) × Nat)
  | _, 0, s, map, block => some (s, map, block)
  | i, n + 1, s, map, block =>
    if i ≥ slots then none
    else
      let r := bread s dev block
      match r.1 with
      | some bh => load_maps dev slots (i + 1) n r.2 (Function.update map i (some bh)) (block + 1)
      | none => some (r.2, Function.update map i none, block)

/-- The loop `for (i = 0; i < slots; i++) brelse(map[i]);` of `read_super`, from
index `i` with `n` turns left. -/
def brelse_maps (map : Nat → Option (Nat × Nat)) : Nat → Nat → Fs → Fs
  | _, 0, s => s
  | i, n + 1, s => brelse_maps map (i + 1) n (brelse s (map i))

/-- The statement `bh->b_data[0] |= 1`. -/
def or_bit0 (s : Fs) (key : Nat × Nat) : Fs :=
  let b := s.buffer key
  { s with buffer := Function.update s.buffer key { b with b_data := Function.update b.b_data 0 (toByte ((b.b_data 0).val ||| 1)) } }

/-- The end of `read_super` for the slot `i`, from the loading of the bitmaps
on: the bitmap blocks are read, their number is checked, bit 0 of the first
block of each bitmap is set and the slot is unlocked.  A store behind `s_imap`
or `s_zmap` and the use of a NULL `s_imap[0]` or `s_zmap[0]` are `stuck` here. -/
def read_super_maps (s : Fs) (dev i : Nat) : Outcome (Option Nat × Fs) :=
  match load_maps dev I_MAP_SLOTS 0 (s.super_block i).s_imap_blocks s (fun _ => none) 2 with
  | none => .stuck
  | some r1 =>
    match load_maps dev Z_MAP_SLOTS 0 (s.super_block i).s_zmap_blocks r1.1 (fun _ => none) r1.2.2 with
    | none => .stuck
    | some r2 =>
      let s := set_super r2.1 i fun sb => { sb with s_imap := r1.2.1, s_zmap := r2.2.1 }
      if r2.2.2 ≠ 2 + (s.super_block i).s_imap_blocks + (s.super_block i).s_zmap_blocks then
        let s := brelse_maps r1.2.1 0 I_MAP_SLOTS s
        let s := brelse_maps r2.2.1 0 Z_MAP_SLOTS s
        .ok (none, set_super s i fun sb => { sb with s_dev := 0, s_lock := 0 })
      else
        match r1.2.1 0 with
        | none => .stuck
        | some ki =>
          match r2.2.1 0 with
          | none => .stuck
          | some kz =>
            .ok (some i, set_super (or_bit0 (or_bit0 s ki) kz) i fun sb => { sb with s_lock := 0 })

/-- Function `static struct super_block *read_super(int dev)`: the slot of the superblock,
`none` for NULL.  `lock_super` on a locked slot sleeps until another task
unlocks it, which is `stuck` here. -/
def read_super (s : Fs) (dev : Nat) : Outcome (Option Nat × Fs) :=
  if dev = 0 then .ok (none, s)
  else
    let s := check_disk_change s dev
    match get_super s dev with
    | .panic msg => .panic msg
    | .stuck => .stuck
    | .ok (some i) => .ok (some i, s)
    | .ok none =>
      match free_super_scan s.super_block 0 NR_SUPER with
      | none => .ok (none, s)
      | some i =>
        let s := set_super s i fun sb => { sb with s_dev := dev % 65536, s_isup := none, s_imount := none, s_time := 0, s_rd_only := 0, s_dirt := 0 }
        if (s.super_block i).s_lock ≠ 0 then .stuck
        else
          let s := set_super s i fun sb => { sb with s_lock := 1 }
          let r := bread s dev 1
          match r.1 with
          | none => .ok (none, set_super r.2 i fun sb => { sb with s_dev := 0, s_lock := 0 })
          | some bh =>
            let s := set_super r.2 i fun sb => get_d_super_block (r.2.buffer bh).b_data sb
            let s := brelse s (some bh)
            if (s.super_block i).s_magic ≠ SUPER_MAGIC then
              .ok (none, set_super s i fun sb => { sb with s_dev := 0, s_lock := 0 })
            else read_super_maps (set_super s i fun sb => { sb with s_imap := fun _ => none, s_zmap := fun _ => none }) dev i

/-- Function `struct m_inode *new_inode(int dev)` of `fs/bitmap.c`: the slot of the new
inode, `none` for NULL.  The arguments `euid` and `egid` are `current->euid` and
`current->egid`. -/
def new_inode (s : Fs) (dev euid egid fuel : Nat) : Outcome (Option Nat × Fs) :=
  match get_empty_inode fuel s with
  | .panic msg => .panic msg
  | .stuck => .stuck
  | .ok e =>
    let inode := e.1
    let s := e.2
    match get_super s dev with
    | .panic msg => .panic msg
    | .stuck => .stuck
    | .ok none => .panic "new_inode with unknown device"
    | .ok (some sbi) =>
      let sb := s.super_block sbi
      let r := bitmap_scan s sb.s_imap 0 8 none 8192
      let i := r.1
      let j := r.2.2
      match r.2.1 with
      | none =>
        match iput s (some inode) fuel with
        | .panic msg => .panic msg
        | .stuck => .stuck
        | .ok s => .ok (none, s)
      | some key =>
        if j ≥ 8192 ∨ j + i * 8192 > sb.s_ninodes then
          match iput s (some inode) fuel with
          | .panic msg => .panic msg
          | .stuck => .stuck
          | .ok s => .ok (none, s)
        else
          let im := s.buffer key
          if test_bit im.b_data j then .panic "new_inode: bit already set"
          else
            let s := { s with buffer := Function.update s.buffer key { im with b_data := set_bit im.b_data j, b_dirt := 1 } }
            .ok (some inode, set_inode s inode fun m =>
              { m with i_count := 1, i_nlinks := 1, i_dev := dev % 65536, i_uid := euid % 65536, i_gid := egid % 256, i_dirt := 1, i_num := (j + i * 8192) % 65536, i_mtime := s.CURRENT_TIME, i_atime := s.CURRENT_TIME, i_ctime := s.CURRENT_TIME })

/-- Bit 0 of the first inode-bitmap block and bit 0 of the first zone-bitmap
block of the superblock in slot `i` are 1. -/
def bit0_set (s : Fs) (i : Nat) : Prop :=
  ∃ ki kz, (s.super_block i).s_imap 0 = some ki ∧ (s.super_block i).s_zmap 0 = some kz ∧
    test_bit (s.buffer ki).b_data 0 = true ∧ test_bit (s.buffer kz).b_data 0 = true

/-- The bitmap pointers of a superblock as `read_super` lays them out: at least
one block of each bitmap, `s_imap[k]` the buffer of block `2 + k` for `k <
s_imap_blocks`, `s_zmap[k]` the buffer of block `2 + s_imap_blocks + k`. -/
def sb_shape (sb : super_block) : Prop :=
  1 ≤ sb.s_imap_blocks ∧ 1 ≤ sb.s_zmap_blocks ∧
  sb.s_imap 0 = some (sb.s_dev, 2) ∧ sb.s_zmap 0 = some (sb.s_dev, 2 + sb.s_imap_blocks) ∧
  (∀ k key, sb.s_imap k = some key → key = (sb.s_dev, 2 + k) ∧ k < sb.s_imap_blocks) ∧
  (∀ k key, sb.s_zmap k = some key → key = (sb.s_dev, 2 + sb.s_imap_blocks + k))

/-- The buffer `key` has bit 0 of its data set and is referenced. -/
def bit0_held (s : Fs) (key : Nat × Nat) : Prop :=
  test_bit (s.buffer key).b_data 0 = true ∧ 1 ≤ (s.buffer key).b_count

/-- The key is that of the first inode-bitmap block or of the first
zone-bitmap block of a superblock in use. -/
def guarded (s : Fs) (key : Nat × Nat) : Prop :=
  ∃ i, i < NR_SUPER ∧ (s.super_block i).s_dev ≠ 0 ∧
    (key = ((s.super_block i).s_dev, 2) ∨
      key = ((s.super_block i).s_dev, 2 + (s.super_block i).s_imap_blocks))

/-- The invariant of the superblock table: no two slots in use hold the same
device, every slot in use has the layout of `sb_shape`, and the first block of
each of its bitmaps is held in the buffer cache with bit 0 set. -/
def sb_ok (s : Fs) : Prop :=
  (∀ i j, i < NR_SUPER → j < NR_SUPER → (s.super_block i).s_dev ≠ 0 →
    (s.super_block i).s_dev = (s.super_block j).s_dev → i = j) ∧
  (∀ i, i < NR_SUPER → (s.super_block i).s_dev ≠ 0 → sb_shape (s.super_block i)) ∧
  ∀ key, guarded s key → bit0_held s key

/-- The state `fs0` before device 0x301 is mounted: the superblock table is
empty and block 1 of the device holds the disk superblock (64 inodes, 1024
zones, one block for each bitmap, first data zone 6, magic 0x137F). -/
def fs_unmounted : Fs :=
  { fs0 with
    super_block := fun _ => super_zero
    disk := fun key a =>
      if key = (0x301, 1) then
        (if a = 0 then 64 else if a = 3 then 4 else if a = 4 then 1 else if a = 6 then 1
          else if a = 8 then 6 else if a = 16 then 0x7F else if a = 17 then 0x13 else 0)
      else fs0.disk key a }

/-! ## fs/namei.c -/

/-- Modelled from the spec: the errno values of `include/errno.h` (not under
src/) that `open_namei` returns beside `EPERM`, numbered as in that header. -/
def ENOENT : Int := 2

/-- Modelled from the spec: see `ENOENT`. -/
def EACCES : Int := 13

/-- Modelled from the spec: see `ENOENT`. -/
def EEXIST : Int := 17

/-- Modelled from the spec: see `ENOENT`. -/
def EISDIR : Int := 21

/-- Modelled from the spec: see `ENOENT`. -/
def ENOSPC : Int := 28

/-- Modelled from the spec: the open flags of `include/fcntl.h` (not under
src/): the mask `O_ACCMODE` of the access mode, with the octal values of that
header. -/
def O_ACCMODE : Nat := 0o3

/-- Modelled from the spec: see `O_ACCMODE`. -/
def O_RDONLY : Nat := 0o0

/-- Modelled from the spec: see `O_ACCMODE`. -/
def O_WRONLY : Nat := 0o1

/-- Modelled from the spec: see `O_ACCMODE`. -/
def O_RDWR : Nat := 0o2

/-- Modelled from the spec: see `O_ACCMODE`. -/
def O_CREAT : Nat := 0o100

/-- Modelled from the spec: see `O_ACCMODE`. -/
def O_EXCL : Nat := 0o200

/-- Modelled from the spec: see `O_ACCMODE`. -/
def O_TRUNC : Nat := 0o1000

/-- Modelled from the spec: the mode bits of a regular file, `I_REGULAR` in
`include/const.h` (not under src/), octal 0100000. -/
def I_REGULAR : Nat := 0o100000

/-- Macro `MAY_EXEC` of `fs/namei.c`. -/
def MAY_EXEC : Nat := 1

/-- Macro `MAY_WRITE` of `fs/namei.c`. -/
def MAY_WRITE : Nat := 2

/-- Macro `MAY_READ` of `fs/namei.c`. -/
def MAY_READ : Nat := 4

/-- Macro `ACC_MODE(x)`, the character `"\004\002\006\377"[x & O_ACCMODE]` as the
32-bit word of the `int` it is passed as; `char` is signed, so the last one,
-1, is 0xFFFFFFFF. -/
def ACC_MODE (x : Nat) : Nat :=
  if x &&& O_ACCMODE = 0 then 4
  else if x &&& O_ACCMODE = 1 then 2
  else if x &&& O_ACCMODE = 2 then 6
  else 0xFFFFFFFF

/-- Modelled from the spec: the fields of `current` (`struct task_struct` of
`include/linux/sched.h`, not under src/) that `fs/namei.c` reads: the
effective user and group, the umask, and the root and working directories
(slots of the inode table, `none` for NULL). -/
structure fs_current where
  euid : Nat
  egid : Nat
  umask : Nat
  root : Option Nat
  pwd : Option Nat

/-- Modelled from the spec: the macro `suser()` of `include/linux/kernel.h` (not
under src/), `current->euid == 0`. -/
def suser (cur : fs_current) : Bool := decide (cur.euid = 0)

/-- Function `static int permission(struct m_inode *inode, int mask)`. -/
def permission (cur : fs_current) (m : m_inode) (mask : Nat) : Bool :=
  if m.i_dev ≠ 0 ∧ m.i_nlinks = 0 then false
  else
    let mode :=
      if cur.euid = m.i_uid then m.i_mode >>> 6
      else if cur.egid = m.i_gid then m.i_mode >>> 3
      else m.i_mode
    decide (mode &&& mask &&& 7 = mask) || suser cur

/-- Modelled from the spec: `struct dir_entry` of `include/linux/fs.h` (not under
src/), 16 bytes: the 2-byte inode number, then the 14-byte name.  The field
`inode` of entry `k` of a block. -/
def de_inode (data : Nat → Byte) (k : Nat) : Nat := get_word data (8 * k)

/-- Modelled from the spec: see `de_inode`.  The byte `name[j]` of entry `k` of a
block. -/
def de_name (data : Nat → Byte) (k j : Nat) : Nat := (data (16 * k + 2 + j)).val

/-- The instructions `fs ; repe ; cmpsb ; setz al` of `match`: whether the `n`
bytes of the user segment from `name` on are those of `name[j..]` of entry `k`. -/
def cmpsb (umem : Nat → Byte) (data : Nat → Byte) (k : Nat) : Nat → Nat → Nat → Bool
  | _, _, 0 => true
  | name, j, n + 1 =>
    if (umem name).val = de_name data k j then cmpsb umem data k (name + 1) (j + 1) n else false

/-- Function `static int match(int len, const char *name, struct dir_entry *de)` for the
entry `k` of a block, which is not a NULL pointer.  `find_entry` never calls
it with `len` 0, where the flags `repe cmpsb` leaves are those of the
instruction before it. -/
def match_entry (umem : Nat → Byte) (len name : Nat) (data : Nat → Byte) (k : Nat) : Bool :=
  if de_inode data k = 0 ∨ len > NAME_LEN then false
  else if len < NAME_LEN ∧ de_name data k len ≠ 0 then false
  else cmpsb umem data k name 0 len

/-- The loop `while (i < entries)` of `find_entry` with `n` turns left: `bh` is
the buffer held, `k` the index in it of the entry `de` points to (64 at the
end of the block), `i` the number of the entry in the directory.  After a
block that is a hole or cannot be read `bh` is NULL and the test on `de` reads
`bh->b_data` through it, which is `stuck` here. -/
def find_entry_loop (umem : Nat → Byte) (dir name namelen entries : Nat) :
    Nat → Fs → Option (Nat × Nat) → Nat → Nat → Outcome (Option ((Nat × Nat) × Nat) × Fs)
  | 0, s, bh, _, i => if i < entries then .stuck else .ok (none, brelse s bh)
  | n + 1, s, bh, k, i =>
    if i ≥ entries then .ok (none, brelse s bh)
    else
      match bh with
      | none => .stuck
      | some key =>
        if k ≥ DIR_ENTRIES_PER_BLOCK then
          let s := brelse s (some key)
          match bmap s dir ((i / DIR_ENTRIES_PER_BLOCK : Nat) : Int) with
          | .panic msg => .panic msg
          | .stuck => .stuck
          | .ok r =>
            if r.1 = 0 then find_entry_loop umem dir name namelen entries n r.2 none k (i + DIR_ENTRIES_PER_BLOCK)
            else
              let b := bread r.2 (r.2.inode_table dir).i_dev (of_long r.1)
              match b.1 with
              | none => find_entry_loop umem dir name namelen entries n b.2 none k (i + DIR_ENTRIES_PER_BLOCK)
              | some key =>
                if match_entry umem namelen name (b.2.buffer key).b_data 0 then .ok (some (key, 0), b.2)
                else find_entry_loop umem dir name namelen entries n b.2 (some key) 1 (i + 1)
        else
          if match_entry umem namelen name (s.buffer key).b_data k then .ok (some (key, k), s)
          else find_entry_loop umem dir name namelen entries n s (some key) (k + 1) (i + 1)

/-- Function `static struct buffer_head *find_entry(struct m_inode **dir, const char *name,
int namelen, struct dir_entry **res_dir)`, with `NO_TRUNCATE` not defined: the buffer
and the index in it of the entry found (`none` for NULL), and `*dir`, which the
function may exchange.  A NULL `sb` is dereferenced for `..` in a root directory
of a device without superblock, which is `stuck` here. -/
def find_entry (cur : fs_current) (umem : Nat → Byte) (s : Fs) (dir name namelen fuel : Nat) :
    Outcome (Option ((Nat × Nat) × Nat) × Nat × Fs) :=
  let namelen := if namelen > NAME_LEN then NAME_LEN else namelen
  let entries := (s.inode_table dir).i_size / 16
  if namelen = 0 then .ok (none, dir, s)
  else
    let magic : Outcome (Nat × Nat × Fs) :=
      if namelen = 2 ∧ (umem name).val = 46 ∧ (umem (name + 1)).val = 46 then
        if some dir = cur.root then .ok (1, dir, s)
        else if (s.inode_table dir).i_num = ROOT_INO then
          match get_super s (s.inode_table dir).i_dev with
          | .panic msg => .panic msg
          | .stuck => .stuck
          | .ok none => .stuck
          | .ok (some sbi) =>
            match (s.super_block sbi).s_imount with
            | none => .ok (namelen, dir, s)
            | some mi =>
              match iput s (some dir) fuel with
              | .panic msg => .panic msg
              | .stuck => .stuck
              | .ok s => .ok (namelen, mi, set_inode s mi fun m => { m with i_count := (m.i_count + 1) % 65536 })
        else .ok (namelen, dir, s)
      else .ok (namelen, dir, s)
    match magic with
    | .panic msg => .panic msg
    | .stuck => .stuck
    | .ok (namelen, dir, s) =>
      let block := (s.inode_table dir).i_zone 0
      if block = 0 then .ok (none, dir, s)
      else
        let b := bread s (s.inode_table dir).i_dev block
        match b.1 with
        | none => .ok (none, dir, b.2)
        | some key =>
          match find_entry_loop umem dir name namelen entries entries b.2 (some key) 0 0 with
          | .panic msg => .panic msg
          | .stuck => .stuck
          | .ok r => .ok (r.1, dir, r.2)

/-- The loop `for (i = 0; i < NAME_LEN; i++) de->name[i] = (i < namelen) ?
get_fs_byte(name + i) : 0;` of `add_entry` on the entry `k` of a block, from
byte `i` with `n` bytes left. -/
def store_name (umem : Nat → Byte) (name namelen k : Nat) : Nat → Nat → (Nat → Byte) → (Nat → Byte)
  | _, 0, data => data
  | i, n + 1, data =>
    store_name umem name namelen k (i + 1) n
      (Function.update data (16 * k + 2 + i) (if i < namelen then umem (name + i) else 0))

/-- The part of a turn of the loop of `add_entry` after `de` has been brought
into a block: the directory is extended when `i` is at its end, and the name
is stored when the entry is free.  The result is the entry taken, or `none`
with the state to go on with. -/
def add_entry_step (umem : Nat → Byte) (dir name namelen : Nat) (s : Fs) (key : Nat × Nat)
    (k i : Nat) : Option ((Nat × Nat) × Nat) × Fs :=
  let s :=
    if i * 16 ≥ (s.inode_table dir).i_size then
      let b := s.buffer key
      let s := { s with buffer := Function.update s.buffer key { b with b_data := put_word b.b_data (8 * k) 0 } }
      set_inode s dir fun m => { m with i_size := (i + 1) * 16, i_dirt := 1, i_ctime := s.CURRENT_TIME }
    else s
  if de_inode (s.buffer key).b_data k = 0 then
    let s := set_inode s dir fun m => { m with i_mtime := s.CURRENT_TIME }
    let b := s.buffer key
    (some (key, k), { s with buffer := Function.update s.buffer key { b with b_data := store_name umem name namelen k 0 NAME_LEN b.b_data, b_dirt := 1 } })
  else (none, s)

/-- The loop `while (1)` of `add_entry`; `fuel` bounds its turns, and `bh`, `k`
and `i` are as in `find_entry_loop`.  After a block that cannot be read `bh`
is NULL and the test on `de` reads `bh->b_data` through it, which is `stuck`
here. -/
def add_entry_loop (umem : Nat → Byte) (dir name namelen : Nat) :
    Nat → Fs → Option (Nat × Nat) → Nat → Nat → Outcome (Option ((Nat × Nat) × Nat) × Fs)
  | 0, _, _, _, _ => .stuck
  | n + 1, s, bh, k, i =>
    match bh with
    | none => .stuck
    | some key =>
      if k ≥ DIR_ENTRIES_PER_BLOCK then
        let s := brelse s (some key)
        match create_block s dir ((i / DIR_ENTRIES_PER_BLOCK : Nat) : Int) with
        | .panic msg => .panic msg
        | .stuck => .stuck
        | .ok r =>
          if r.1 = 0 then .ok (none, r.2)
          else
            let b := bread r.2 (r.2.inode_table dir).i_dev (of_long r.1)
            match b.1 with
            | none => add_entry_loop umem dir name namelen n b.2 none k (i + DIR_ENTRIES_PER_BLOCK)
            | some key =>
              let t := add_entry_step umem dir name namelen b.2 key 0 i
              match t.1 with
              | some e => .ok (some e, t.2)
              | none => add_entry_loop umem dir name namelen n t.2 (some key) 1 (i + 1)
      else
        let t := add_entry_step umem dir name namelen s key k i
        match t.1 with
        | some e => .ok (some e, t.2)
        | none => add_entry_loop umem dir name namelen n t.2 (some key) (k + 1) (i + 1)

/-- Function `static struct buffer_head *add_entry(struct m_inode *dir, const char *name, int
namelen, struct dir_entry **res_dir)`, with `NO_TRUNCATE` not defined: the buffer and
the index in it of the entry taken, `none` for NULL. -/
def add_entry (umem : Nat → Byte) (s : Fs) (dir name namelen fuel : Nat) :
    Outcome (Option ((Nat × Nat) × Nat) × Fs) :=
  let namelen := if namelen > NAME_LEN then NAME_LEN else namelen
  if namelen = 0 then .ok (none, s)
  else
    let block := (s.inode_table dir).i_zone 0
    if block = 0 then .ok (none, s)
    else
      let b := bread s (s.inode_table dir).i_dev block
      match b.1 with
      | none => .ok (none, b.2)
      | some key => add_entry_loop umem dir name namelen fuel b.2 (some key) 0 0

/-- The loop `for (namelen = 0; (c = get_fs_byte(pathname++)) && (c != '/'); namelen++)`
of `get_dir`: `namelen` and `c` after it; `fuel` bounds its turns. -/
def scan_name (umem : Nat → Byte) : Nat → Nat → Nat → Option (Nat × Nat)
  | 0, _, _ => none
  | fuel + 1, pathname, namelen =>
    let c := (umem pathname).val
    if c ≠ 0 ∧ c ≠ 47 then scan_name umem fuel (pathname + 1) (namelen + 1)
    else some (namelen, c)

/-- The loop `while (1)` of `get_dir`; `fuel` bounds its turns and those of the
loops inside. -/
def get_dir_loop (cur : fs_current) (umem : Nat → Byte) :
    Nat → Fs → Nat → Nat → Outcome (Option Nat × Fs)
  | 0, _, _, _ => .stuck
  | fuel + 1, s, inode, pathname =>
    if ¬ (S_ISDIR (s.inode_table inode).i_mode = true) ∨ permission cur (s.inode_table inode) MAY_EXEC = false then
      match iput s (some inode) fuel with
      | .panic msg => .panic msg
      | .stuck => .stuck
      | .ok s => .ok (none, s)
    else
      match scan_name umem fuel pathname 0 with
      | none => .stuck
      | some (namelen, c) =>
        if c = 0 then .ok (some inode, s)
        else
          match find_entry cur umem s inode pathname namelen fuel with
          | .panic msg => .panic msg
          | .stuck => .stuck
          | .ok (none, inode, s) =>
            match iput s (some inode) fuel with
            | .panic msg => .panic msg
            | .stuck => .stuck
            | .ok s => .ok (none, s)
          | .ok (some (bh, k), inode, s) =>
            let inr := de_inode (s.buffer bh).b_data k
            let idev := (s.inode_table inode).i_dev
            let s := brelse s (some bh)
            match iput s (some inode) fuel with
            | .panic msg => .panic msg
            | .stuck => .stuck
            | .ok s =>
              match iget s idev inr fuel with
              | .panic msg => .panic msg
              | .stuck => .stuck
              | .ok (none, s) => .ok (none, s)
              | .ok (some inode, s) => get_dir_loop cur umem fuel s inode (pathname + namelen + 1)

/-- Function `static struct m_inode *get_dir(const char *pathname)`: the slot of the
directory, `none` for NULL. -/
def get_dir (cur : fs_current) (umem : Nat → Byte) (s : Fs) (pathname fuel : Nat) :
    Outcome (Option Nat × Fs) :=
  match cur.root with
  | none => .panic "No root inode"
  | some root =>
    if (s.inode_table root).i_count = 0 then .panic "No root inode"
    else
      match cur.pwd with
      | none => .panic "No cwd inode"
      | some pwd =>
        if (s.inode_table pwd).i_count = 0 then .panic "No cwd inode"
        else
          let c := (umem pathname).val
          if c = 47 then
            get_dir_loop cur umem fuel (set_inode s root fun m => { m with i_count := (m.i_count + 1) % 65536 }) root (pathname + 1)
          else if c ≠ 0 then
            get_dir_loop cur umem fuel (set_inode s pwd fun m => { m with i_count := (m.i_count + 1) % 65536 }) pwd pathname
          else .ok (none, s)

/-- The loop `while (c = get_fs_byte(pathname++)) if (c == '/') basename = pathname;` of
`dir_namei`: `basename` and `pathname` after it; `fuel` bounds its turns. -/
def scan_basename (umem : Nat → Byte) : Nat → Nat → Nat → Option (Nat × Nat)
  | 0, _, _ => none
  | fuel + 1, pathname, basename =>
    let c := (umem pathname).val
    if c ≠ 0 then scan_basename umem fuel (pathname + 1) (if c = 47 then pathname + 1 else basename)
    else some (basename, pathname + 1)

/-- Function `static struct m_inode *dir_namei(const char *pathname, int *namelen, const
char **name)`: the slot of the directory with `*namelen` and `*name`, `none` for
NULL. -/
def dir_namei (cur : fs_current) (umem : Nat → Byte) (s : Fs) (pathname fuel : Nat) :
    Outcome (Option (Nat × Nat × Nat) × Fs) :=
  match get_dir cur umem s pathname fuel with
  | .panic msg => .panic msg
  | .stuck => .stuck
  | .ok (none, s) => .ok (none, s)
  | .ok (some dir, s) =>
    match scan_basename umem fuel pathname pathname with
    | none => .stuck
    | some (basename, pathname) => .ok (some (dir, pathname - basename - 1, basename), s)

/-- Function `int open_namei(const char *pathname, int flag, int mode, struct m_inode
**res_inode)`: the value returned and `*res_inode` (`none` when it is not
assigned). -/
def open_namei (cur : fs_current) (umem : Nat → Byte) (s : Fs) (pathname flag mode fuel : Nat) :
    Outcome (Int × Option Nat × Fs) :=
  let flag := if flag &&& O_TRUNC ≠ 0 ∧ flag &&& O_ACCMODE = 0 then flag ||| O_WRONLY else flag
  let mode := (mode &&& (0o777 &&& not32 cur.umask)) ||| I_REGULAR
  match dir_namei cur umem s pathname fuel with
  | .panic msg => .panic msg
  | .stuck => .stuck
  | .ok (none, s) => .ok (-ENOENT, none, s)
  | .ok (some (dir, namelen, basename), s) =>
    if namelen = 0 then
      if flag &&& (O_ACCMODE ||| O_CREAT ||| O_TRUNC) = 0 then .ok (0, some dir, s)
      else
        match iput s (some dir) fuel with
        | .panic msg => .panic msg
        | .stuck => .stuck
        | .ok s => .ok (-EISDIR, none, s)
    else
      match find_entry cur umem s dir basename namelen fuel with
      | .panic msg => .panic msg
      | .stuck => .stuck
      | .ok (none, dir, s) =>
        if flag &&& O_CREAT = 0 then
          match iput s (some dir) fuel with
          | .panic msg => .panic msg
          | .stuck => .stuck
          | .ok s => .ok (-ENOENT, none, s)
        else if permission cur (s.inode_table dir) MAY_WRITE = false then
          match iput s (some dir) fuel with
          | .panic msg => .panic msg
          | .stuck => .stuck
          | .ok s => .ok (-EACCES, none, s)
        else
          match new_inode s (s.inode_table dir).i_dev cur.euid cur.egid fuel with
          | .panic msg => .panic msg
          | .stuck => .stuck
          | .ok (none, s) =>
            match iput s (some dir) fuel with
            | .panic msg => .panic msg
            | .stuck => .stuck
            | .ok s => .ok (-ENOSPC, none, s)
          | .ok (some inode, s) =>
            let s := set_inode s inode fun m => { m with i_uid := cur.euid % 65536, i_mode := mode % 65536, i_dirt := 1 }
            match add_entry umem s dir basename namelen fuel with
            | .panic msg => .panic msg
            | .stuck => .stuck
            | .ok (none, s) =>
              let s := set_inode s inode fun m => { m with i_nlinks := (m.i_nlinks + 255) % 256 }
              match iput s (some inode) fuel with
              | .panic msg => .panic msg
              | .stuck => .stuck
              | .ok s =>
                match iput s (some dir) fuel with
                | .panic msg => .panic msg
                | .stuck => .stuck
                | .ok s => .ok (-ENOSPC, none, s)
            | .ok (some (bh, k), s) =>
              let b := s.buffer bh
              let s := { s with buffer := Function.update s.buffer bh { b with b_data := put_word b.b_data (8 * k) (s.inode_table inode).i_num, b_dirt := 1 } }
              let s := brelse s (some bh)
              match iput s (some dir) fuel with
              | .panic msg => .panic msg
              | .stuck => .stuck
              | .ok s => .ok (0, some inode, s)
      | .ok (some (bh, k), dir, s) =>
        let inr := de_inode (s.buffer bh).b_data k
        let dev := (s.inode_table dir).i_dev
        let s := brelse s (some bh)
        match iput s (some dir) fuel with
        | .panic msg => .panic msg
        | .stuck => .stuck
        | .ok s =>
          if flag &&& O_EXCL ≠ 0 then .ok (-EEXIST, none, s)
          else
            match iget s dev inr fuel with
            | .panic msg => .panic msg
            | .stuck => .stuck
            | .ok (none, s) => .ok (-EACCES, none, s)
            | .ok (some inode, s) =>
              if (S_ISDIR (s.inode_table inode).i_mode = true ∧ flag &&& O_ACCMODE ≠ 0) ∨ permission cur (s.inode_table inode) (ACC_MODE flag) = false then
                match iput s (some inode) fuel with
                | .panic msg => .panic msg
                | .stuck => .stuck
                | .ok s => .ok (-EPERM, none, s)
              else
                let s := set_inode s inode fun m => { m with i_atime := s.CURRENT_TIME }
                if flag &&& O_TRUNC ≠ 0 then
                  match truncate s inode with
                  | .panic msg => .panic msg
                  | .stuck => .stuck
                  | .ok s => .ok (0, some inode, s)
                else .ok (0, some inode, s)

/-- A task for the examples: the superuser with umask 022, whose root and
working directory are the inode in slot 0. -/
def cur0 : fs_current := { euid := 0, egid := 0, umask := 0o22, root := some 0, pwd := some 0 }

/-- A user segment for the examples that holds the string "/." at address
0x1000 and the string "/" at address 0x2000. -/
def upath : Nat → Byte := fun a =>
  if a = 0x1000 then 47 else if a = 0x1001 then 46 else if a = 0x2000 then 47 else 0

/-- The value a routine returned, `d` when it did not return. -/
def Outcome.get {α : Type} (d : α) : Outcome α → α
  | .ok a => a
  | _ => d

/-- The state `dir_namei` leaves for the path "/." on `fs0`. -/
def fs_dot1 : Fs := (Outcome.get (none, fs0) (dir_namei cur0 upath fs0 0x1000 40)).2

/-- The state `find_entry` leaves for the name "." in the root directory after
`fs_dot1`. -/
def fs_dot2 : Fs := (Outcome.get (none, 0, fs0) (find_entry cur0 upath fs_dot1 0 0x1001 1 40)).2.2

/-- The state after the buffer of the entry and the directory are released. -/
def fs_dot3 : Fs := Outcome.get fs0 (iput (brelse fs_dot2 (some (0x301, 6))) (some 0) 40)

/-- The state `iget(0x301, 1)` leaves after `fs_dot3`. -/
def fs_dot4 : Fs := (Outcome.get (none, fs0) (iget fs_dot3 0x301 1 40)).2

/-- The state after the inode is released again. -/
def fs_dot5 : Fs := Outcome.get fs0 (iput fs_dot4 (some 0) 40)

/-- The state `dir_namei` leaves for the path "/" on `fs0`. -/
def fs_slash1 : Fs := (Outcome.get (none, fs0) (dir_namei cur0 upath fs0 0x2000 40)).2

/-- The state after the directory is released. -/
def fs_slash2 : Fs := Outcome.get fs0 (iput fs_slash1 (some 0) 40)


/-- The buffer key of the block that holds entry `i` of the directory `dir`: block
`i / DIR_ENTRIES_PER_BLOCK` of the file, through the block map (direct,
indirect and double indirect zones). -/
def dir_block (s : Fs) (dir i : Nat) : Nat × Nat :=
  ((s.inode_table dir).i_dev, bmap_by_spec s dir (i / DIR_ENTRIES_PER_BLOCK))

/-- Entry `i` of the directory has a non-zero inode number and its 14 name
bytes are the first `len` bytes of the string at `name`, then NULs. -/
def entry_holds (umem : Nat → Byte) (s : Fs) (dir name len i : Nat) : Prop :=
  de_inode (block_data s (dir_block s dir i)) (i % DIR_ENTRIES_PER_BLOCK) ≠ 0 ∧
  ∀ j, j < NAME_LEN →
    de_name (block_data s (dir_block s dir i)) (i % DIR_ENTRIES_PER_BLOCK) j =
      if j < len then (umem (name + j)).val else 0

/-- A directory in the on-disk format of the specification on a device whose
blocks can be read: it has no more blocks than the block map of a file
reaches, every block of entries is mapped (no hole) with a zone number that
fits in 16 bits, and in every entry in use the name is NUL-padded (after a
NUL byte only NUL bytes follow). -/
def dir_wf (s : Fs) (dir : Nat) : Prop :=
  (s.inode_table dir).i_size / 16 ≤ (7 + 512 + 512 * 512) * DIR_ENTRIES_PER_BLOCK ∧
  (∀ b, readable s ((s.inode_table dir).i_dev, b)) ∧
  (∀ i, i < (s.inode_table dir).i_size / 16 →
    bmap_by_spec s dir (i / DIR_ENTRIES_PER_BLOCK) ≠ 0 ∧
    bmap_by_spec s dir (i / DIR_ENTRIES_PER_BLOCK) < 65536) ∧
  ∀ i, i < (s.inode_table dir).i_size / 16 →
    de_inode (block_data s (dir_block s dir i)) (i % DIR_ENTRIES_PER_BLOCK) ≠ 0 →
    ∀ j1 j2, j1 ≤ j2 → j2 < NAME_LEN →
      de_name (block_data s (dir_block s dir i)) (i % DIR_ENTRIES_PER_BLOCK) j1 = 0 →
      de_name (block_data s (dir_block s dir i)) (i % DIR_ENTRIES_PER_BLOCK) j2 = 0

/-- The name of length `len` at `name` is "..". -/
def is_dotdot (umem : Nat → Byte) (name len : Nat) : Prop :=
  len = 2 ∧ (umem name).val = 46 ∧ (umem (name + 1)).val = 46

/-- Entry `i0` of the directory can be taken by `add_entry` without a new block,
on a device whose blocks can be read: the entry is free (inode number 0) or
lies at or behind the end of the directory, and the blocks of the entries up
to it are mapped, with zone numbers that fit in 16 bits. -/
def dir_room (s : Fs) (dir i0 : Nat) : Prop :=
  i0 / DIR_ENTRIES_PER_BLOCK < 7 + 512 + 512 * 512 ∧
  (∀ b, readable s ((s.inode_table dir).i_dev, b)) ∧
  (∀ j, j ≤ i0 → bmap_by_spec s dir (j / DIR_ENTRIES_PER_BLOCK) ≠ 0 ∧
    bmap_by_spec s dir (j / DIR_ENTRIES_PER_BLOCK) < 65536) ∧
  (i0 * 16 ≥ (s.inode_table dir).i_size ∨
    de_inode (block_data s (dir_block s dir i0)) (i0 % DIR_ENTRIES_PER_BLOCK) = 0)

/-- The block `key` is an indirect block of the file `dir`: the block `i_zone[7]`,
the block `i_zone[8]`, or a block that an entry of block `i_zone[8]` names. -/
def dir_indirect (s : Fs) (dir : Nat) (key : Nat × Nat) : Prop :=
  ((s.inode_table dir).i_zone 7 ≠ 0 ∧
    key = ((s.inode_table dir).i_dev, (s.inode_table dir).i_zone 7)) ∨
  ((s.inode_table dir).i_zone 8 ≠ 0 ∧
    (key = ((s.inode_table dir).i_dev, (s.inode_table dir).i_zone 8) ∨
      ∃ e, get_word (block_data s ((s.inode_table dir).i_dev, (s.inode_table dir).i_zone 8)) e ≠ 0 ∧
        key = ((s.inode_table dir).i_dev,
          get_word (block_data s ((s.inode_table dir).i_dev, (s.inode_table dir).i_zone 8)) e)))

/-- A user segment for the examples that holds the 16-byte name
"abcdefghijklmnop" at address 0x1000, the 15-byte name "abcdefghijklmnX" at
0x1020, the name ".." at 0x1040 and the name "ab" at 0x1050; every other byte
is NUL. -/
def unames : Nat → Byte := fun a =>
  if 0x1000 ≤ a ∧ a < 0x1010 then toByte (97 + (a - 0x1000))
  else if 0x1020 ≤ a ∧ a < 0x102E then toByte (97 + (a - 0x1020))
  else if a = 0x102E then 88
  else if a = 0x1040 ∨ a = 0x1041 then 46
  else if a = 0x1050 then 97
  else if a = 0x1051 then 98
  else 0

/-- A state for the examples: `fs0` with an empty root directory (`i_size` 0,
its block 6 still mapped).  The root directory is the root of the task
`cur0`. -/
def fs_bare : Fs :=
  { fs0 with inode_table := fun i => if i = 0 then { fs0.inode_table 0 with i_size := 0 } else fs0.inode_table i }

/-- The state `add_entry` leaves for the name ".." in the root directory of
`fs_bare`. -/
def fs_bare1 : Fs := (Outcome.get (none, fs_bare) (add_entry unames fs_bare 0 0x1040 2 64)).2

/-- The state after the caller of `add_entry` has stored the inode number 1 in
entry 0 of block 6, which `add_entry` returned on `fs_bare`, and released the
buffer. -/
def fs_bare2 : Fs :=
  brelse { fs_bare1 with buffer := Function.update fs_bare1.buffer (0x301, 6) { fs_bare1.buffer (0x301, 6) with b_data := put_word (fs_bare1.buffer (0x301, 6)).b_data (8 * 0) 1, b_dirt := 1 } } (some (0x301, 6))

/-- A state for the examples: `fs0` with a third entry in the root directory
(`i_size` 48) whose inode number is 5 and whose 14 name bytes are 'a' 'b' NUL
'c' and ten NULs, a name that is not NUL-padded. -/
def fs_pad : Fs :=
  { fs0 with
    disk := fun key a =>
      if key = (0x301, 6) ∧ 32 ≤ a ∧ a < 48 then
        (if a = 32 then 5 else if a = 34 then 97 else if a = 35 then 98 else if a = 37 then 99 else 0)
      else fs0.disk key a
    inode_table := fun i => if i = 0 then { fs0.inode_table 0 with i_size := 48 } else fs0.inode_table i }

/-- A state for the examples: `fs0` with a root directory of three blocks
(`i_size` 3072) whose second block is a hole: `i_zone[0]` is 6, `i_zone[1]` is
0 and `i_zone[2]` is 17. -/
def fs_hole : Fs :=
  { fs0 with inode_table := fun i => if i = 0 then { fs0.inode_table 0 with i_size := 3072, i_zone := fun k => if k = 0 then 6 else if k = 2 then 17 else 0 } else fs0.inode_table i }

/-! ## fs/pipe.c -/

/-- Modelled from the spec: the signal number of SIGPIPE in `include/signal.h`
(not under src/), 13, the thirteenth of the signal set of the specification. -/
def SIGPIPE : Nat := 13

/-- Modelled from the spec: the macro `PIPE_HEAD(inode)` of `include/linux/fs.h`
(not under src/); a pipe inode carries its head cursor in `i_zone[0]`. -/
def PIPE_HEAD (m : m_inode) : Nat := m.i_zone 0

/-- Modelled from the spec: the macro `PIPE_TAIL(inode)` of `include/linux/fs.h`
(not under src/); a pipe inode carries its tail cursor in `i_zone[1]`. -/
def PIPE_TAIL (m : m_inode) : Nat := m.i_zone 1

/-- Modelled from the spec: the macro `PIPE_SIZE(inode)` of `include/linux/fs.h`
(not under src/), `(PIPE_HEAD(inode) - PIPE_TAIL(inode)) & (PAGE_SIZE - 1)`:
the number of bytes in the one-page circular buffer.  The `&` on the `int`
difference is the remainder modulo `PAGE_SIZE`. -/
def PIPE_SIZE (m : m_inode) : Nat :=
  (((PIPE_HEAD m : Int) - (PIPE_TAIL m : Int)) % (PAGE_SIZE : Int)).toNat

/-- What `read_pipe` and `write_pipe` work on: the pipe inode, the kernel
memory that holds its page (at the address in `i_size`), the user segment, and
`current->signal`. -/
structure pipe_state where
  inode : m_inode
  mem : Nat → Byte
  umem : Nat → Byte
  signal : Nat

/-- The loop `while (chars-- > 0) put_fs_byte(((char *)inode->i_size)[size++], buf++);`
of `read_pipe` with `n` bytes left. -/
def pipe_to_user (mem : Nat → Byte) (page : Nat) : (Nat → Byte) → Nat → Nat → Nat → (Nat → Byte)
  | umem, _, _, 0 => umem
  | umem, size, buf, n + 1 =>
    pipe_to_user mem page (Function.update umem buf (mem (page + size))) (size + 1) (buf + 1) n

/-- The loop `while (chars-- > 0) ((char *)inode->i_size)[size++] = get_fs_byte(buf++);`
of `write_pipe` with `n` bytes left. -/
def user_to_pipe (umem : Nat → Byte) (page : Nat) : (Nat → Byte) → Nat → Nat → Nat → (Nat → Byte)
  | mem, _, _, 0 => mem
  | mem, size, buf, n + 1 =>
    user_to_pipe umem page (Function.update mem (page + size) (umem buf)) (size + 1) (buf + 1) n

/-- The loop `while (count > 0)` of `read_pipe`, and the return after it, with
`read` bytes read so far: the value returned, or `none` when the task goes to
sleep in `sleep_on` on the empty pipe.  `wake_up` changes nothing of the state
modelled.  `fuel` bounds the turns. -/
def read_pipe_loop : Nat → pipe_state → Nat → Int → Int → Outcome (Option Int × pipe_state)
  | 0, _, _, _, _ => .stuck
  | fuel + 1, s, buf, count, read =>
    if count > 0 then
      let size := PIPE_SIZE s.inode
      if size = 0 then
        if s.inode.i_count ≠ 2 then .ok (some read, s) else .ok (none, s)
      else
        let chars : Int := (PAGE_SIZE : Int) - (PIPE_TAIL s.inode : Int)
        let chars : Int := if chars > count then count else chars
        let chars : Int := if chars > (size : Int) then (size : Int) else chars
        let tail := PIPE_TAIL s.inode
        let t := ((tail : Int) + chars) % 65536 % (PAGE_SIZE : Int)
        let s := { s with inode := { s.inode with i_zone := Function.update s.inode.i_zone 1 t.toNat }, umem := pipe_to_user s.mem s.inode.i_size s.umem tail buf chars.toNat }
        read_pipe_loop fuel s (buf + chars.toNat) (count - chars) (read + chars)
    else .ok (some read, s)

/-- Function `int read_pipe(struct m_inode *inode, char *buf, int count)`. -/
def read_pipe (s : pipe_state) (buf : Nat) (count : Int) (fuel : Nat) :
    Outcome (Option Int × pipe_state) :=
  read_pipe_loop fuel s buf count 0

/-- The loop `while (count > 0)` of `write_pipe`, and the return after it, with
`written` bytes written so far: the value returned, or `none` when the task
goes to sleep in `sleep_on` on the full pipe.  `fuel` bounds the turns. -/
def write_pipe_loop : Nat → pipe_state → Nat → Int → Int → Outcome (Option Int × pipe_state)
  | 0, _, _, _, _ => .stuck
  | fuel + 1, s, buf, count, written =>
    if count > 0 then
      let size : Int := ((PAGE_SIZE : Int) - 1) - (PIPE_SIZE s.inode : Int)
      if size = 0 then
        if s.inode.i_count ≠ 2 then
          .ok (some (if written ≠ 0 then written else -1), { s with signal := s.signal ||| (1 <<< (SIGPIPE - 1)) })
        else .ok (none, s)
      else
        let chars : Int := (PAGE_SIZE : Int) - (PIPE_HEAD s.inode : Int)
        let chars : Int := if chars > count then count else chars
        let chars : Int := if chars > size then size else chars
        let head := PIPE_HEAD s.inode
        let h := ((head : Int) + chars) % 65536 % (PAGE_SIZE : Int)
        let s := { s with inode := { s.inode with i_zone := Function.update s.inode.i_zone 0 h.toNat }, mem := user_to_pipe s.umem s.inode.i_size s.mem head buf chars.toNat }
        write_pipe_loop fuel s (buf + chars.toNat) (count - chars) (written + chars)
    else .ok (some written, s)

/-- Function `int write_pipe(struct m_inode *inode, char *buf, int count)`. -/
def write_pipe (s : pipe_state) (buf : Nat) (count : Int) (fuel : Nat) :
    Outcome (Option Int × pipe_state) :=
  write_pipe_loop fuel s buf count 0

/-- A pipe inode as `get_pipe_inode` makes it, with its page at `page`: head and
tail 0, reference count 2, the pipe flag set. -/
def fresh_pipe (page : Nat) : m_inode :=
  { inode_zero with i_size := page, i_count := 2, i_pipe := 1 }

/-- A state for the examples: a fresh pipe with its page at 0x100000, and a
user segment whose byte at address `a` is `a mod 251`. -/
def pipe0 : pipe_state :=
  { inode := fresh_pipe 0x100000, mem := fun _ => 0, umem := fun a => toByte (a % 251), signal := 0 }

/-- A state for the examples: the pipe of `pipe0` after its reader has closed
its end (`i_count` 1), still empty. -/
def pipe_no_reader : pipe_state :=
  { pipe0 with inode := { fresh_pipe 0x100000 with i_count := 1 } }

/-- A state for the examples: a pipe whose reader has closed its end
(`i_count` 1) and whose page is full: head 4095, tail 0. -/
def pipe_full_no_reader : pipe_state :=
  { pipe0 with inode := { fresh_pipe 0x100000 with i_count := 1, i_zone := fun i => if i = 0 then 4095 else 0 } }

/-- A state for the examples: `fs0` on a device of 17 blocks (`s_nzones` 17,
blocks 0 to 16) whose zone bitmap is that of `fs0`: bits 0 to 11 set, bit 12
and the bits after it clear, although position 12 names block 17, which the
device does not have. -/
def fs_short : Fs :=
  { fs0 with super_block := fun i => if i = 0 then { fs0.super_block 0 with s_nzones := 17 } else super_zero }

/-- Function `int sys_nice(long increment)` on the current task: the value returned and
the task afterwards. -/
def sys_nice (current : task_struct) (increment : Int) : Int × task_struct :=
  if wrap_long (current.priority - increment) > 0 then
    (0, { current with priority := wrap_long (current.priority - increment) })
  else (0, current)

/-- A task table for the examples: `tasks0` after the task of slot 3, with a
full time slice (counter 15, priority 15), has called `sys_nice(14)`. -/
def tasks_nice : TaskTable :=
  Function.update tasks0 3 (some (sys_nice { current0 with counter := 15 } 14).2)

/-! ## kernel/fork.c : find_empty_process -/

/-- Modelled from the spec: the errno value EAGAIN of `include/errno.h` (not
under src/), "no free task slot", numbered 11 as in that header. -/
def EAGAIN : Int := 11

/-- The statement `if ((++last_pid) < 0) last_pid = 1;` of `find_empty_process`;
`last_pid` is a `long`, whose increment wraps. -/
def next_pid (last_pid : Int) : Int :=
  if wrap_long (last_pid + 1) < 0 then 1 else wrap_long (last_pid + 1)

/-- The loop `for (i = 0; i < NR_TASKS; i++) if (task[i] && task[i]->pid ==
last_pid) goto repeat;` from slot `i` with `n` slots left: `true` when it
leaves by the `goto`. -/
def pid_scan (task : TaskTable) (last_pid : Int) : Nat → Nat → Bool
  | _, 0 => false
  | i, n + 1 =>
    match task i with
    | none => pid_scan task last_pid (i + 1) n
    | some t => if t.pid = last_pid then true else pid_scan task last_pid (i + 1) n

/-- The loop `for (i = 1; i < NR_TASKS; i++) if (!task[i]) return i;` from slot
`i` with `n` slots left: the slot returned, `none` when the loop ends. -/
def empty_slot_scan (task : TaskTable) : Nat → Nat → Option Nat
  | _, 0 => none
  | i, n + 1 =>
    match task i with
    | none => some i
    | some _ => empty_slot_scan task (i + 1) n

/-- Function `int find_empty_process(void)`: the value returned and `last_pid`
afterwards.  `fuel` bounds the number of times the label `repeat` is passed;
`none` means the bound was reached. -/
def find_empty_process (task : TaskTable) : Nat → Int → Option (Int × Int)
  | 0, _ => none
  | fuel + 1, last_pid =>
    let last_pid := next_pid last_pid
    if pid_scan task last_pid 0 NR_TASKS = true then find_empty_process task fuel last_pid
    else
      match empty_slot_scan task 1 (NR_TASKS - 1) with
      | some i => some ((i : Int), last_pid)
      | none => some (-EAGAIN, last_pid)

/-! ## kernel/sched.c : the timer list -/

/-- Macro `#define TIME_REQUESTS 64`. -/
def TIME_REQUESTS : Nat := 64

/-- The `struct timer_list` of `sched.c`: `fn` is the address of the callback, 0 for
NULL; `next` is the index in the array `timer_list` of the next node, `none`
for NULL. -/
structure timer_list where
  jiffies : Int
  fn : Nat
  next : Option Nat

/-- The timer array `timer_list[TIME_REQUESTS]`, the list head `next_timer`, and
the callbacks called so far, in the order of the calls. -/
structure timer_state where
  timer_list : Nat → timer_list
  next_timer : Option Nat
  fired : List Nat

/-- The search `for (p = timer_list; p < timer_list + TIME_REQUESTS; p++) if
(!p->fn) break;` of `add_timer` from slot `p` with `n` slots left: the slot it
stops at, `none` when it runs off the array. -/
def free_timer_scan (tl : Nat → timer_list) : Nat → Nat → Option Nat
  | _, 0 => none
  | p, n + 1 => if (tl p).fn = 0 then some p else free_timer_scan tl (p + 1) n

/-- The loop `while (p->next && p->next->jiffies < p->jiffies)` of `add_timer`:
the delay of `p->next` is taken off that of `p`, the two nodes swap callback
and delay, and `p` moves on.  `fuel` bounds the turns; `none` means the bound
was reached. -/
def add_timer_sort : Nat → (Nat → timer_list) → Nat → Option (Nat → timer_list)
  | 0, _, _ => none
  | fuel + 1, tl, p =>
    match (tl p).next with
    | none => some tl
    | some q =>
      if (tl q).jiffies < (tl p).jiffies then
        let pj := wrap_long ((tl p).jiffies - (tl q).jiffies)
        let tl1 := Function.update tl p { (tl p) with jiffies := (tl q).jiffies, fn := (tl q).fn }
        let tl2 := Function.update tl1 q { (tl1 q) with jiffies := pj, fn := (tl p).fn }
        add_timer_sort fuel tl2 q
      else some tl

/-- Function `void add_timer(long jiffies, void (*fn)(void))`.  The call `(fn)()` is
recorded in `fired`. -/
def add_timer (s : timer_state) (jiffies : Int) (fn : Nat) (fuel : Nat) : Outcome timer_state :=
  if fn = 0 then .ok s
  else if jiffies ≤ 0 then .ok { s with fired := s.fired ++ [fn] }
  else
    match free_timer_scan s.timer_list 0 TIME_REQUESTS with
    | none => .panic "No more time requests free"
    | some p =>
      let tl := Function.update s.timer_list p { jiffies := jiffies, fn := fn, next := s.next_timer }
      match add_timer_sort fuel tl p with
      | none => .stuck
      | some tl => .ok { s with timer_list := tl, next_timer := some p }

/-- The loop `while (next_timer && next_timer->jiffies <= 0)` of `do_timer`: the
head is unlinked, its `fn` set to NULL, and the callback called. -/
def do_timer_fire : Nat → timer_state → Option timer_state
  | 0, _ => none
  | fuel + 1, s =>
    match s.next_timer with
    | none => some s
    | some p =>
      if (s.timer_list p).jiffies ≤ 0 then
        let fn := (s.timer_list p).fn
        do_timer_fire fuel
          { timer_list := Function.update s.timer_list p { (s.timer_list p) with fn := 0 }, next_timer := (s.timer_list p).next, fired := s.fired ++ [fn] }
      else some s

/-- The statements of `void do_timer(long cpl)` on the timer list: `if (next_timer) {
next_timer->jiffies--; while (...) ... }`.  The other statements of `do_timer`
(beep count, `utime` and `stime`, floppy timers, the time slice of `current`)
do not read or write the timer list. -/
def do_timer (s : timer_state) (fuel : Nat) : Option timer_state :=
  match s.next_timer with
  | none => some s
  | some p =>
    do_timer_fire fuel
      { s with timer_list := Function.update s.timer_list p { (s.timer_list p) with jiffies := wrap_long ((s.timer_list p).jiffies - 1) } }

/-- The state after `n` clock ticks, each a `do_timer` with bound `fuel`. -/
def do_timer_ticks (fuel : Nat) : Nat → timer_state → Option timer_state
  | 0, s => some s
  | n + 1, s =>
    match do_timer s fuel with
    | none => none
    | some t => do_timer_ticks fuel n t

/-- The nodes of the timer list from node `p` on, as pairs of delay and
callback, at most `n` of them. -/
def timer_chain (tl : Nat → timer_list) : Nat → Option Nat → List (Int × Nat)
  | 0, _ => []
  | _, none => []
  | n + 1, some p => ((tl p).jiffies, (tl p).fn) :: timer_chain tl n (tl p).next

/-- The timer state at boot: every `fn` NULL, `next_timer` NULL. -/
def timers0 : timer_state :=
  { timer_list := fun _ => { jiffies := 0, fn := 0, next := none }, next_timer := none, fired := [] }

/-- The timer state after `add_timer(10, A)` and then `add_timer(3, B)` on the
empty list, with no clock tick in between; the callbacks `A` and `B` are the
addresses 0xA000 and 0xB000. -/
def timers2 : timer_state :=
  Outcome.get timers0 (add_timer (Outcome.get timers0 (add_timer timers0 10 0xA000 64)) 3 0xB000 64)

/-! ## kernel/blk_drv/ll_rw_blk.c : add_request -/

/-- Modelled from the spec: the commands READ and WRITE of `include/linux/fs.h`
(not under src/), numbered 0 and 1 there, so that READ < WRITE as the spec
orders them. -/
def READ : Int := 0

/-- Modelled from the spec: see `READ`. -/
def WRITE : Int := 1

/-- Modelled from the spec: `struct request` of `kernel/blk_drv/blk.h` (not
under src/), the request of the spec's data model: device (-1 in a free
slot), command, error count, start sector, sector count, data pointer,
buffer head (the key of the buffer, `none` for NULL) and next-pointer (an
index in the array `request`, `none` for NULL).  The waiting-task link is
left out: `add_request` does not touch it. -/
structure request where
  dev : Int
  cmd : Int
  errors : Int
  sector : Nat
  nr_sectors : Nat
  buffer : Nat
  bh : Option (Nat × Nat)
  next : Option Nat

/-- Modelled from the spec: the macro `IN_ORDER(s1, s2)` of
`kernel/blk_drv/blk.h` (not under src/), the elevator order of the spec on
the key (command with READ < WRITE, then device, then sector). -/
def IN_ORDER (s1 s2 : request) : Bool :=
  decide (s1.cmd < s2.cmd ∨ (s1.cmd = s2.cmd ∧
    (s1.dev < s2.dev ∨ (s1.dev = s2.dev ∧ s1.sector < s2.sector))))

/-- Modelled from the spec: `struct blk_dev_struct` of `kernel/blk_drv/blk.h`
(not under src/): the address of the driver's request function and the head
of the device's request queue. -/
structure blk_dev_struct where
  request_fn : Nat
  current_request : Option Nat

/-- What `add_request` works on: the array `request`, the table `blk_dev`,
the buffer heads, and the request functions called so far. -/
structure blk_state where
  request : Nat → request
  blk_dev : Nat → blk_dev_struct
  buffer : Nat × Nat → buffer_head
  called : List Nat

/-- The loop `for (; tmp->next; tmp = tmp->next) if ((IN_ORDER(tmp, req) ||
!IN_ORDER(tmp, tmp->next)) && IN_ORDER(req, tmp->next)) break;` of
`add_request`: the value of `tmp` after it.  `fuel` bounds the turns; `none`
means the bound was reached. -/
def add_request_scan (rq : Nat → request) (req : Nat) : Nat → Nat → Option Nat
  | 0, _ => none
  | fuel + 1, tmp =>
    match (rq tmp).next with
    | none => some tmp
    | some nx =>
      if ((IN_ORDER (rq tmp) (rq req) || !IN_ORDER (rq tmp) (rq nx)) && IN_ORDER (rq req) (rq nx)) = true
      then some tmp
      else add_request_scan rq req fuel nx

/-- Function `static void add_request(struct blk_dev_struct *dev, struct request
*req)`; `dev` is the index in `blk_dev`, `req` the index in `request`.  The
call `(dev->request_fn)()` is recorded in `called`. -/
def add_request (s : blk_state) (dev req fuel : Nat) : Outcome blk_state :=
  let rq := Function.update s.request req { s.request req with next := none }
  let buffer := match (rq req).bh with
    | none => s.buffer
    | some key => Function.update s.buffer key { s.buffer key with b_dirt := 0 }
  match (s.blk_dev dev).current_request with
  | none =>
    .ok { request := rq, blk_dev := Function.update s.blk_dev dev { s.blk_dev dev with current_request := some req }, buffer := buffer, called := s.called ++ [(s.blk_dev dev).request_fn] }
  | some head =>
    match add_request_scan rq req fuel head with
    | none => .stuck
    | some tmp =>
      let rq1 := Function.update rq req { rq req with next := (rq tmp).next }
      let rq2 := Function.update rq1 tmp { rq1 tmp with next := some req }
      .ok { s with request := rq2, buffer := buffer }

/-- The request queue that starts at `head` is the list `L` of request slots,
linked by their next-pointers and ended by NULL. -/
def is_queue (rq : Nat → request) : Option Nat → List Nat → Prop
  | head, [] => head = none
  | head, p :: L => head = some p ∧ is_queue rq (rq p).next L

/-- The request slots from `head` on along the next-pointers, at most `n` of
them. -/
def queue_list (rq : Nat → request) : Nat → Option Nat → List Nat
  | 0, _ => []
  | _, none => []
  | n + 1, some p => p :: queue_list rq n (rq p).next

/-- The place the code gives a new request in a queue, on the list of the
queue: right after the first element `tmp` that has a successor and for
which `(ordered(tmp, req) or not ordered(tmp, tmp.next)) and ordered(req,
tmp.next)`, and at the tail when there is none. -/
def elevator_insert (rq : Nat → request) (req : Nat) : List Nat → List Nat
  | [] => [req]
  | [t] => [t, req]
  | t :: n :: L =>
    if ((IN_ORDER (rq t) (rq req) || !IN_ORDER (rq t) (rq n)) && IN_ORDER (rq req) (rq n)) = true
    then t :: req :: n :: L
    else t :: elevator_insert rq req (n :: L)

/-- A free slot of the array `request`, as `blk_dev_init` leaves it. -/
def request_zero : request :=
  { dev := -1, cmd := 0, errors := 0, sector := 0, nr_sectors := 0, buffer := 0, bh := none, next := none }

/-- A state for the examples: the queue of the hard disk (major 3) holds the
read requests of slot 0 (sector 50) and slot 1 (sector 10) of device 0x301, in
this order, the first being the one the driver works on; slot 2 holds a read
request for sector 5 of the same device, not queued yet. -/
def blk0 : blk_state :=
  { request := fun i =>
      if i = 0 then { request_zero with dev := 0x301, cmd := READ, sector := 50, nr_sectors := 2, next := some 1 }
      else if i = 1 then { request_zero with dev := 0x301, cmd := READ, sector := 10, nr_sectors := 2 }
      else if i = 2 then { request_zero with dev := 0x301, cmd := READ, sector := 5, nr_sectors := 2 }
      else request_zero
    blk_dev := fun i => if i = 3 then { request_fn := 0x3000, current_request := some 0 } else { request_fn := 0, current_request := none }
    buffer := fun _ => buffer_zero
    called := [] }

/-- The place of a new request by the rule "right after the first element
`tmp`, scanning from the head, for which `ordered(tmp, req)` and
`ordered(req, tmp.next)` both hold, and at the tail when no element
qualifies", on the list of the queue. -/
def ordered_insert (rq : Nat → request) (req : Nat) : List Nat → List Nat
  | [] => [req]
  | [t] => [t, req]
  | t :: n :: L =>
    if (IN_ORDER (rq t) (rq req) && IN_ORDER (rq req) (rq n)) = true
    then t :: req :: n :: L
    else t :: ordered_insert rq req (n :: L)

/-! ## kernel/chr_drv/tty_io.c : tty_write -/

/-- Modelled from the spec: the macro `TTY_BUF_SIZE` of `include/linux/tty.h`
(not under src/), the size of the ring of a tty queue, 1024 in that header. -/
def TTY_BUF_SIZE : Nat := 1024

/-- Modelled from the spec: `struct tty_queue` of `include/linux/tty.h` (not
under src/), a ring queue of the spec's tty: the port or line count `data`,
the index `head` where the next character is stored, the index `tail` where
the next one is taken, and the ring `buf`.  The list of waiting tasks is left
out. -/
structure tty_queue where
  data : Nat
  head : Nat
  tail : Nat
  buf : Nat → Byte

/-- Modelled from the spec: the macro `INC(a)` of `include/linux/tty.h` (not
under src/), `((a) = ((a)+1) & (TTY_BUF_SIZE-1))`: the next index of the ring. -/
def INC (a : Nat) : Nat := (a + 1) % TTY_BUF_SIZE

/-- Modelled from the spec: the macro `LEFT(a)` of `include/linux/tty.h` (not
under src/), `(((a).tail-(a).head-1)&(TTY_BUF_SIZE-1))`: the number of free
places of the ring. -/
def LEFT (q : tty_queue) : Nat :=
  (((q.tail : Int) - (q.head : Int) - 1) % (TTY_BUF_SIZE : Int)).toNat

/-- Modelled from the spec: the macro `CHARS(a)` of `include/linux/tty.h` (not
under src/), `(((a).head-(a).tail)&(TTY_BUF_SIZE-1))`: the number of
characters in the ring. -/
def CHARS (q : tty_queue) : Nat :=
  (((q.head : Int) - (q.tail : Int)) % (TTY_BUF_SIZE : Int)).toNat

/-- Modelled from the spec: the macro `FULL(a)` of `include/linux/tty.h` (not
under src/), `(!LEFT(a))`. -/
def FULL (q : tty_queue) : Bool := decide (LEFT q = 0)

/-- Modelled from the spec: the macro `PUTCH(c, queue)` of `include/linux/tty.h`
(not under src/), `(queue).buf[(queue).head] = (c); INC((queue).head)`. -/
def PUTCH (c : Byte) (q : tty_queue) : tty_queue :=
  { q with buf := Function.update q.buf q.head c, head := INC q.head }

/-- Modelled from the spec: the output flag OPOST of `include/termios.h` (not
under src/), octal 1 in that header. -/
def OPOST : Nat := 0o1

/-- Modelled from the spec: the output flag OLCUC of `include/termios.h` (not
under src/), octal 2 in that header. -/
def OLCUC : Nat := 0o2

/-- Modelled from the spec: the output flag ONLCR of `include/termios.h` (not
under src/), octal 4 in that header. -/
def ONLCR : Nat := 0o4

/-- Modelled from the spec: the output flag OCRNL of `include/termios.h` (not
under src/), octal 10 in that header. -/
def OCRNL : Nat := 0o10

/-- Modelled from the spec: the output flag ONLRET of `include/termios.h` (not
under src/), octal 40 in that header. -/
def ONLRET : Nat := 0o40

/-- Modelled from the spec: the macro `toupper(c)` of `include/ctype.h` (not
under src/): a lower-case letter becomes the upper-case one, any other
character stays. -/
def toupper (c : Byte) : Byte := if 97 ≤ c.val ∧ c.val ≤ 122 then toByte (c.val - 32) else c

/-- Modelled from the spec: `struct tty_struct` of `include/linux/tty.h` (not
under src/), cut down to what `tty_write` reads or writes: the output flags
`termios.c_oflag` and the write queue. -/
structure tty_struct where
  c_oflag : Nat
  write_q : tty_queue

/-- What other tasks do to the state `tty_write` works on while the caller is
suspended: `cr_flag` is the value their calls of `tty_write` leave in the
static `cr_flag`, which all callers share; `chars` are the characters they
store in the write queue of the caller's channel; `c_oflag` are the output
flags of that channel after their `ioctl` calls. -/
structure tty_other where
  cr_flag : Int
  chars : List Byte
  c_oflag : Nat

/-- What happens while the caller is suspended in `schedule()` or in
`interruptible_sleep_on()`: other tasks run (`others` is `none` when none of
them calls `tty_write` or changes the flags of the terminal, and tells what
they leave otherwise), the device takes `drain` characters from the write
queue (at most those it holds), and the bits `raise` are set in the pending
signals of the caller. -/
structure tty_event where
  drain : Nat
  raise : Nat
  others : Option tty_other

/-- The state `tty_write` works on: the static `cr_flag`, the table
`tty_table`, the pending signals `current->signal`, for every channel the
characters `PUTCH` has stored in its write queue so far, in order, and the
number of suspensions so far. -/
structure tty_world where
  cr_flag : Int
  tty_table : Nat → tty_struct
  signal : Nat
  put : Nat → List Byte
  clock : Nat

/-- The write queue of a channel replaced. -/
def set_write_q (w : tty_world) (channel : Nat) (q : tty_queue) : tty_world :=
  { w with tty_table := Function.update w.tty_table channel { w.tty_table channel with write_q := q } }

/-- The characters `chars` that `tty_write` calls of other tasks store in the
write queue `q`, as long as it is not full: the queue and the list of the
characters stored in it so far. -/
def tty_others (chars : List Byte) (q : tty_queue) (put : List Byte) : tty_queue × List Byte :=
  match chars with
  | [] => (q, put)
  | c :: l => if FULL q = true then (q, put) else tty_others l (PUTCH c q) (put ++ [c])

/-- A suspension of the caller (`schedule()` or `interruptible_sleep_on()`): the
event `env clock` takes place.  When other tasks call `tty_write` or `ioctl`
meanwhile, the static `cr_flag` and the output flags of the channel are what
they leave and their characters are in the write queue; then the device takes
characters from the queue and signals are raised for the caller. -/
def tty_suspend (env : Nat → tty_event) (channel : Nat) (w : tty_world) : tty_world :=
  let e := env w.clock
  let w :=
    match e.others with
    | none => w
    | some o =>
      let r := tty_others o.chars (w.tty_table channel).write_q (w.put channel)
      { w with
        cr_flag := o.cr_flag
        tty_table := Function.update w.tty_table channel { c_oflag := o.c_oflag, write_q := r.1 }
        put := Function.update w.put channel r.2 }
  let q := (w.tty_table channel).write_q
  let n := min e.drain (CHARS q)
  { set_write_q w channel { q with tail := (q.tail + n) % TTY_BUF_SIZE } with signal := w.signal ||| e.raise, clock := w.clock + 1 }

/-- The call `tty->write(tty)`: for channel 0 it is `con_write`, which takes
`CHARS(tty->write_q)` characters from the queue (their display is not
modelled); for the serial channels it is `rs_write`, which only enables the
transmit interrupt and leaves the queue as it is. -/
def tty_driver_write (channel : Nat) (w : tty_world) : tty_world :=
  if channel = 0 then
    let q := (w.tty_table channel).write_q
    set_write_q w channel { q with tail := (q.tail + CHARS q) % TTY_BUF_SIZE }
  else w

/-- The loop `while (!current->signal && LEFT(*queue) < 128)
interruptible_sleep_on(&queue->proc_list);` of `sleep_if_full`.  `fuel` bounds
the turns; `none` means the bound was reached. -/
def sleep_if_full_loop (env : Nat → tty_event) (channel : Nat) : Nat → tty_world → Option tty_world
  | 0, _ => none
  | fuel + 1, w =>
    if w.signal = 0 ∧ LEFT (w.tty_table channel).write_q < 128 then
      sleep_if_full_loop env channel fuel (tty_suspend env channel w)
    else some w

/-- Function `static void sleep_if_full(struct tty_queue *queue)` on the write queue of
`channel`. -/
def sleep_if_full (env : Nat → tty_event) (channel fuel : Nat) (w : tty_world) : Option tty_world :=
  if FULL (w.tty_table channel).write_q = false then some w
  else sleep_if_full_loop env channel fuel w

/-- The loop `while (nr > 0 && !FULL(tty->write_q))` of `tty_write` on the values of
`cr_flag`, the write queue, the characters stored so far, `b` and `nr`.
`fuel` bounds the turns; `none` means the bound was reached. -/
def tty_write_loop (umem : Nat → Byte) (oflag : Nat) :
    Nat → Int → tty_queue → List Byte → Nat → Int → Option (Int × tty_queue × List Byte × Nat × Int)
  | 0, _, _, _, _, _ => none
  | fuel + 1, cr_flag, q, put, b, nr =>
    if nr > 0 ∧ FULL q = false then
      let c := umem b
      if oflag &&& OPOST ≠ 0 then
        let c : Byte := if c = 13 ∧ oflag &&& OCRNL ≠ 0 then 10
          else if c = 10 ∧ oflag &&& ONLRET ≠ 0 then 13 else c
        if c = 10 ∧ cr_flag = 0 ∧ oflag &&& ONLCR ≠ 0 then
          tty_write_loop umem oflag fuel 1 (PUTCH 13 q) (put ++ [13]) b nr
        else
          let c : Byte := if oflag &&& OLCUC ≠ 0 then toupper c else c
          tty_write_loop umem oflag fuel 0 (PUTCH c q) (put ++ [c]) (b + 1) (nr - 1)
      else tty_write_loop umem oflag fuel 0 (PUTCH c q) (put ++ [c]) (b + 1) (nr - 1)
    else some (cr_flag, q, put, b, nr)

/-- The loop `while (nr > 0)` of `tty_write`: the state and the value of `b` it ends
with.  The inner loop stores at most `TTY_BUF_SIZE - 1` characters before the
queue is full.  `fuel` bounds the turns of this loop and of the loop in
`sleep_if_full`. -/
def tty_write_outer (env : Nat → tty_event) (umem : Nat → Byte) (channel : Nat) :
    Nat → tty_world → Nat → Int → Outcome (tty_world × Nat)
  | 0, _, _, _ => .stuck
  | fuel + 1, w, b, nr =>
    if nr > 0 then
      match sleep_if_full env channel fuel w with
      | none => .stuck
      | some w1 =>
        if w1.signal ≠ 0 then .ok (w1, b)
        else
          match tty_write_loop umem (w1.tty_table channel).c_oflag TTY_BUF_SIZE w1.cr_flag (w1.tty_table channel).write_q (w1.put channel) b nr with
          | none => .stuck
          | some r =>
            let w2 := { set_write_q w1 channel r.2.1 with cr_flag := r.1, put := Function.update w1.put channel r.2.2.1 }
            let w3 := tty_driver_write channel w2
            let w4 := if r.2.2.2.2 > 0 then tty_suspend env channel w3 else w3
            tty_write_outer env umem channel fuel w4 r.2.2.2.1 r.2.2.2.2
    else .ok (w, b)

/-- Function `int tty_write(unsigned channel, char *buf, int nr)`: the value returned and
the state afterwards.  `env` tells what happens during the suspensions of the
caller, `umem` is the user data segment. -/
def tty_write (env : Nat → tty_event) (umem : Nat → Byte) (w : tty_world) (channel buf : Nat)
    (nr : Int) (fuel : Nat) : Outcome (Int × tty_world) :=
  if channel > 2 ∨ nr < 0 then .ok (-1, w)
  else
    match tty_write_outer env umem channel fuel w buf nr with
    | .panic msg => .panic msg
    | .stuck => .stuck
    | .ok r => .ok ((r.2 : Int) - (buf : Int), r.1)

/-- The bytes of a buffer with each '\n' replaced by the two bytes '\r' '\n' and
every other byte unchanged. -/
def nl_expand : List Byte → List Byte
  | [] => []
  | c :: l => if c = 10 then 13 :: 10 :: nl_expand l else c :: nl_expand l

/-- The `n` bytes of the user segment from address `b` on. -/
def user_bytes (umem : Nat → Byte) : Nat → Nat → List Byte
  | _, 0 => []
  | b, n + 1 => umem b :: user_bytes umem (b + 1) n

/-- The state before the first `tty_write`, as `tty_table` and `cr_flag` are
initialised: the write queues are empty, `cr_flag` is 0, the console (channel
0) has `OPOST | ONLCR` and the serial lines have no output flag; no signal is
pending. -/
def tty0 : tty_world :=
  { cr_flag := 0
    tty_table := fun i =>
      if i = 0 then { c_oflag := OPOST ||| ONLCR, write_q := { data := 0, head := 0, tail := 0, buf := fun _ => 0 } }
      else { c_oflag := 0, write_q := { data := if i = 1 then 0x3f8 else 0x2f8, head := 0, tail := 0, buf := fun _ => 0 } }
    signal := 0
    put := fun _ => []
    clock := 0 }

/-- The events of the example: during the first suspension signal 2 (SIGINT)
is raised for the caller; nothing else happens, and no other task calls
`tty_write`. -/
def tty_env0 : Nat → tty_event := fun k => { drain := 0, raise := if k = 0 then 2 else 0, others := none }

/-- A user segment for the examples: a '\n' at address 0x3000, the letter 'A'
everywhere else. -/
def umem_nl : Nat → Byte := fun a => if a = 0x3000 then 10 else 65

/-- The events of the second example: during the first suspension of the
caller another task writes a character to another terminal, which leaves the
static `cr_flag` at 0; the flags of the console stay `OPOST | ONLCR`, and
nothing else happens. -/
def tty_env1 : Nat → tty_event := fun k =>
  { drain := 0, raise := 0, others := if k = 0 then some { cr_flag := 0, chars := [], c_oflag := OPOST ||| ONLCR } else none }

/-- The state the first call of the example leaves: `tty_write(0, buf, 1023)` on
`tty0` for the 1022 letters 'A' at 0x2C02 and the '\n' after them, ended by
the signal after the '\r' was queued. -/
def tty1 : tty_world := (Outcome.get (0, tty0) (tty_write tty_env0 umem_nl tty0 0 0x2C02 1023 8)).2

/-- The '\r' that is in the write queue ahead of its '\n' while `cr_flag` is 1. -/
def cr_pending (cr_flag : Int) : List Byte := if cr_flag = 1 then [13] else []

/-- What a suspension and the driver leave alone: `cr_flag`, the characters
stored so far, and the output flags. -/
def tty_keeps (w w2 : tty_world) : Prop :=
  w2.cr_flag = w.cr_flag ∧ w2.put = w.put ∧
  ∀ ch, (w2.tty_table ch).c_oflag = (w.tty_table ch).c_oflag

/-! ## fs/exec.c -/

/-- Macro `#define MAX_ARG_PAGES 32`. -/
def MAX_ARG_PAGES : Nat := 32

/-- Modelled from the spec: the errno values ENOMEM ("no free page frame") and
ENOEXEC ("bad a.out or missing interpreter") of `include/errno.h` (not under
src/), numbered 12 and 8 in that header. -/
def ENOMEM : Int := 12

/-- Modelled from the spec: see `ENOMEM`. -/
def ENOEXEC : Int := 8

/-- How a routine of `exec.c` ends: it returns a value (`ok`), it halts the
kernel in `panic(msg)` (`panic`), it indexes the array `page[MAX_ARG_PAGES]`
of `do_execve` at an index outside 0..MAX_ARG_PAGES-1 (`outside`, with that
index), or the bound on the number of loop turns was reached (`stuck`). -/
inductive Exec (α : Type) where
  | ok : α → Exec α
  | panic : String → Exec α
  | outside : Nat → Exec α
  | stuck : Exec α

/-- The routine `f` run on the value of a routine that returned. -/
def Exec.bind {α β : Type} (x : Exec α) (f : α → Exec β) : Exec β :=
  match x with
  | .ok a => f a
  | .panic msg => .panic msg
  | .outside i => .outside i
  | .stuck => .stuck

/-- A routine of the file system as a routine of `exec.c`. -/
def Outcome.toExec {α : Type} : Outcome α → Exec α
  | .ok a => .ok a
  | .panic msg => .panic msg
  | .stuck => .stuck

/-- The memory and the array `unsigned long page[MAX_ARG_PAGES]` of `do_execve`,
which `copy_strings` fills. -/
structure arg_pages where
  mm : Mm
  page : Nat → Nat

/-- The store `*(pag + offset) = c` into a page of the argument space. -/
def arg_store (st : arg_pages) (a : Nat) (c : Byte) : arg_pages :=
  { st with mm := { st.mm with mem := Function.update st.mm.mem a c } }

/-- The loop `while (get_fs_long((unsigned long *)(tmp++))) i++;` of `count`.
`fuel` bounds the turns; `none` means the bound was reached. -/
def count_loop (useg : Nat → Byte) : Nat → Nat → Int → Option Int
  | 0, _, _ => none
  | fuel + 1, tmp, i =>
    if get_long useg tmp ≠ 0 then count_loop useg fuel (tmp + 4) (i + 1) else some i

/-- Function `static int count(char **argv)`; `useg` is the user data segment. -/
def count (useg : Nat → Byte) (argv fuel : Nat) : Option Int :=
  if argv ≠ 0 then count_loop useg fuel argv 0 else some 0

/-- The loop `do { len++; } while (get_fs_byte(tmp++));` of `copy_strings`: the values
of `len` and `tmp` after it.  `fuel` bounds the turns; `none` means the bound
was reached. -/
def strlen_loop (str : Nat → Byte) : Nat → Nat → Nat → Option (Nat × Nat)
  | 0, _, _ => none
  | fuel + 1, tmp, len =>
    if str tmp ≠ 0 then strlen_loop str fuel (tmp + 1) (len + 1) else some (len + 1, tmp + 1)

/-- The loop `while (len)` of `copy_strings`, which copies one string downwards
into the argument space: the state and, unless the loop left by `return 0`
after `get_free_page()` found no page, the values of `p`, `offset` and `pag`.
`p` is an `unsigned long`, so `--p` wraps at 0. -/
def copy_string_bytes (str : Nat → Byte) :
    Nat → arg_pages → Nat → Nat → Int → Nat → Exec (arg_pages × Option (Nat × Int × Nat))
  | 0, st, p, _, offset, pag => .ok (st, some (p, offset, pag))
  | len + 1, st, p, tmp, offset, pag =>
    let p := sub32 p 1
    let tmp := tmp - 1
    let offset := offset - 1
    if offset < 0 then
      let offset : Int := ((p % PAGE_SIZE : Nat) : Int)
      if p / PAGE_SIZE ≥ MAX_ARG_PAGES then .outside (p / PAGE_SIZE)
      else if st.page (p / PAGE_SIZE) ≠ 0 then
        let pag := st.page (p / PAGE_SIZE)
        copy_string_bytes str len (arg_store st (pag + offset.toNat) (str tmp)) p tmp offset pag
      else
        let r := get_free_page st.mm
        let st : arg_pages := { mm := r.2, page := Function.update st.page (p / PAGE_SIZE) r.1 }
        if r.1 = 0 then .ok (st, none)
        else copy_string_bytes str len (arg_store st (r.1 + offset.toNat) (str tmp)) p tmp offset r.1
    else copy_string_bytes str len (arg_store st (pag + offset.toNat) (str tmp)) p tmp offset pag

/-- The loop `while (argc-- > 0)` of `copy_strings` with `argc` strings left.
`useg` is the user data segment (`old_fs`), `kseg` the kernel data segment
(`new_fs`); `from_kmem` decides through `set_fs` which of them the pointer and
the string are read from.  The test `p - len < 0` is made on the `unsigned
long` difference. -/
def copy_strings_loop (useg kseg : Nat → Byte) (from_kmem fuel : Nat) :
    Nat → Nat → arg_pages → Nat → Int → Nat → Exec (arg_pages × Nat)
  | 0, _, st, p, _, _ => .ok (st, p)
  | argc + 1, argv, st, p, offset, pag =>
    let tmp := get_long (if from_kmem = 1 ∨ from_kmem = 2 then kseg else useg) (argv + 4 * argc)
    if tmp = 0 then .panic "argc is wrong"
    else
      match strlen_loop (if from_kmem = 2 then kseg else useg) fuel tmp 0 with
      | none => .stuck
      | some r =>
        if ((sub32 p r.1 : Nat) : Int) < 0 then .ok (st, 0)
        else
          match copy_string_bytes (if from_kmem = 2 then kseg else useg) r.1 st p r.2 offset pag with
          | .ok (st, none) => .ok (st, 0)
          | .ok (st, some x) => copy_strings_loop useg kseg from_kmem fuel argc argv st x.1 x.2.1 x.2.2
          | .panic msg => .panic msg
          | .outside i => .outside i
          | .stuck => .stuck

/-- Function `static unsigned long copy_strings(int argc, char **argv, unsigned long
*page, unsigned long p, int from_kmem)`: the state and the value returned. -/
def copy_strings (useg kseg : Nat → Byte) (argc : Int) (argv : Nat) (st : arg_pages) (p : Nat)
    (from_kmem fuel : Nat) : Exec (arg_pages × Nat) :=
  if p = 0 then .ok (st, 0)
  else copy_strings_loop useg kseg from_kmem fuel argc.toNat argv st p 0 0


/-- The number of free page frames among the first `n` entries of `mem_map`. -/
def free_frames (mem_map : Nat → Byte) : Nat → Nat
  | 0 => 0
  | n + 1 => free_frames mem_map n + (if mem_map n = 0 then 1 else 0)

/-- The number of entries of `page` among the first `n` that are still 0. -/
def zero_pages (page : Nat → Nat) : Nat → Nat
  | 0 => 0
  | n + 1 => zero_pages page n + (if page n = 0 then 1 else 0)

/-- The byte at offset `a` of the argument space: byte `a % PAGE_SIZE` of the
page `page[a / PAGE_SIZE]`. -/
def arg_byte (st : arg_pages) (a : Nat) : Byte :=
  st.mm.mem (st.page (a / PAGE_SIZE) + a % PAGE_SIZE)

/-- The pages of the argument space are page frames of the paging area that are
marked used, each page in a frame of its own, and there are at least as many
free frames as pages not yet allocated. -/
def arg_wf (st : arg_pages) : Prop :=
  (∀ i, i < MAX_ARG_PAGES → st.page i ≠ 0 →
    ∃ k, k < PAGING_PAGES ∧ st.page i = LOW_MEM + 4096 * k ∧ st.mm.mem_map k ≠ 0) ∧
  (∀ i j, i < MAX_ARG_PAGES → j < MAX_ARG_PAGES → st.page i ≠ 0 → st.page i = st.page j → i = j) ∧
  zero_pages st.page MAX_ARG_PAGES ≤ free_frames st.mm.mem_map PAGING_PAGES

/-- The values of `offset` and `pag` in `copy_strings` fit the value of `p`: either
`offset` is 0, so that the next byte looks the page up, or `offset` is `p %
PAGE_SIZE` and `pag` the page of `p`. -/
def arg_sync (st : arg_pages) (p : Nat) (offset : Int) (pag : Nat) : Prop :=
  offset = 0 ∨ (offset = ((p % PAGE_SIZE : Nat) : Int) ∧ pag = st.page (p / PAGE_SIZE) ∧ pag ≠ 0)


/-- Modelled from the spec: `struct exec` of `include/a.out.h` (not under
src/), the a.out header of the spec's executable format: eight 32-bit words
at the start of block 0. -/
structure exec where
  a_magic : Nat
  a_text : Nat
  a_data : Nat
  a_bss : Nat
  a_syms : Nat
  a_entry : Nat
  a_trsize : Nat
  a_drsize : Nat

/-- The header `*((struct exec *) bh->b_data)`. -/
def get_exec (data : Nat → Byte) : exec :=
  { a_magic := get_long data 0, a_text := get_long data 4, a_data := get_long data 8, a_bss := get_long data 12, a_syms := get_long data 16, a_entry := get_long data 20, a_trsize := get_long data 24, a_drsize := get_long data 28 }

/-- Modelled from the spec: the magic number ZMAGIC of `include/a.out.h` (not
under src/), octal 0413 in that header. -/
def ZMAGIC : Nat := 0o413

/-- Modelled from the spec: the macro `N_MAGIC(exec)` of `include/a.out.h` (not
under src/), `((exec).a_magic & 0xffff)`. -/
def N_MAGIC (ex : exec) : Nat := ex.a_magic &&& 0xffff

/-- Modelled from the spec: the macro `N_TXTOFF(x)` of `include/a.out.h` (not
under src/): for ZMAGIC the header takes a whole block of 1024 bytes, as the
spec states, otherwise the 32 bytes of `struct exec`. -/
def N_TXTOFF (ex : exec) : Nat := if N_MAGIC ex = ZMAGIC then 1024 else 32

/-- Modelled from the spec: the mode bit S_ISUID of `include/sys/stat.h` (not
under src/), octal 04000 in that header. -/
def S_ISUID : Nat := 0o4000

/-- Modelled from the spec: the mode bit S_ISGID of `include/sys/stat.h` (not
under src/), octal 02000 in that header. -/
def S_ISGID : Nat := 0o2000

/-- Function `struct m_inode *namei(const char *pathname)`; `seg` is the segment `fs`
points to, which the path is read from. -/
def namei (cur : fs_current) (seg : Nat → Byte) (s : Fs) (pathname fuel : Nat) :
    Outcome (Option Nat × Fs) :=
  match dir_namei cur seg s pathname fuel with
  | .panic msg => .panic msg
  | .stuck => .stuck
  | .ok (none, s) => .ok (none, s)
  | .ok (some (dir, namelen, basename), s) =>
    if namelen = 0 then .ok (some dir, s)
    else
      match find_entry cur seg s dir basename namelen fuel with
      | .panic msg => .panic msg
      | .stuck => .stuck
      | .ok (none, dir, s) =>
        match iput s (some dir) fuel with
        | .panic msg => .panic msg
        | .stuck => .stuck
        | .ok s => .ok (none, s)
      | .ok (some (bh, k), dir, s) =>
        let inr := de_inode (s.buffer bh).b_data k
        let dev := (s.inode_table dir).i_dev
        let s := brelse s (some bh)
        match iput s (some dir) fuel with
        | .panic msg => .panic msg
        | .stuck => .stuck
        | .ok s =>
          match iget s dev inr fuel with
          | .panic msg => .panic msg
          | .stuck => .stuck
          | .ok (none, s) => .ok (none, s)
          | .ok (some i, s) =>
            .ok (some i, set_inode s i fun m => { m with i_atime := s.CURRENT_TIME, i_dirt := 1 })

/-- The index of the first NUL of `src` from index `i` on, among `n` places; `i +
n` when there is none. -/
def first_nul (src : Nat → Byte) : Nat → Nat → Nat
  | 0, i => i
  | n + 1, i => if src i = 0 then i else first_nul src n (i + 1)

/-- Modelled from the spec: `strncpy` of `include/string.h` (not under src/), as
the C library defines it: the array `buf` after `strncpy(buf, src, n)` holds
the characters of `src` up to its first NUL, at most `n` of them, and NULs in
the rest of its first `n` places. -/
def strncpy (src : Nat → Byte) (n : Nat) : Nat → Byte := fun k =>
  if k < first_nul src n 0 then src k else 0

/-- Modelled from the spec: `strchr` of `include/string.h` (not under src/), as
the C library defines it: the index of the first `c` in the string that starts
at index `i`, `none` (NULL) when the NUL comes first.  `fuel` bounds the
places looked at. -/
def strchr (buf : Nat → Byte) (c : Byte) : Nat → Nat → Option Nat
  | 0, _ => none
  | fuel + 1, i =>
    if buf i = c then some i else if buf i = 0 then none else strchr buf c fuel (i + 1)

/-- The loop `for (cp = buf; (*cp == ' ') || (*cp == '\t'); cp++);` of `do_execve`: the
index `cp` ends at. -/
def skip_blanks (buf : Nat → Byte) : Nat → Nat → Nat
  | 0, cp => cp
  | fuel + 1, cp => if buf cp = 32 ∨ buf cp = 9 then skip_blanks buf fuel (cp + 1) else cp

/-- The loop `for (; *cp && (*cp != ' ') && (*cp != '\t'); cp++) if (*cp == '/')
i_name = cp + 1;` of `do_execve`: the indices `cp` and `i_name` end at. -/
def scan_interp (buf : Nat → Byte) : Nat → Nat → Nat → Nat × Nat
  | 0, cp, i_name => (cp, i_name)
  | fuel + 1, cp, i_name =>
    if buf cp ≠ 0 ∧ buf cp ≠ 32 ∧ buf cp ≠ 9 then
      scan_interp buf fuel (cp + 1) (if buf cp = 47 then cp + 1 else i_name)
    else (cp, i_name)

/-- The address the model gives the local array `buf` of `do_execve` in the
kernel data segment; the pointer variables `filename`, `i_arg` and `i_name`
are given the addresses 4, 8 and 12. -/
def EXEC_BUF : Nat := 16

/-- The kernel data segment as far as `copy_strings` and `namei` read it for
`do_execve`: the pointer variables `filename`, `i_arg` and `i_name` and the
array `buf`.  The pages of the argument space are taken to lie elsewhere. -/
def exec_frame (filename i_arg i_name : Nat) (buf : Nat → Byte) : Nat → Byte := fun a =>
  if EXEC_BUF ≤ a then buf (a - EXEC_BUF)
  else put_long (put_long (put_long (fun _ => 0) 4 filename) 8 i_arg) 12 i_name a

/-- The local variables of `do_execve` that are live at the label
`restart_interp`, with the state of the file system and the memory. -/
structure exec_state where
  s : Fs
  page : Nat → Nat
  inode : Nat
  argc : Int
  envc : Int
  sh_bang : Nat
  p : Nat

/-- Where a pass of `do_execve` from the label `restart_interp` ends: at `goto
restart_interp`, at `return (retval)`, or at the comment "OK, This is the
point of no return" with the header read and the ids to be set. -/
inductive exec_step where
  | restart : exec_state → exec_step
  | error : Int → Fs → (Nat → Nat) → exec_step
  | load : exec_state → exec → Nat → Nat → exec_step

/-- The loop `for (i = 0; i < MAX_ARG_PAGES; i++) free_page(page[i]);` from index `i`
with `n` turns left. -/
def free_arg_pages (page : Nat → Nat) : Nat → Nat → Mm → Result Unit
  | _, 0, mm => .ret () mm
  | i, n + 1, mm =>
    match free_page mm (page i) with
    | .ret _ mm => free_arg_pages page (i + 1) n mm
    | .panic msg mm => .panic msg mm
    | .oom mm => .oom mm

/-- The exit `exec_error1:` of `do_execve`. -/
def exec_error1 (s : Fs) (page : Nat → Nat) (retval : Int) : Exec exec_step :=
  match free_arg_pages page 0 MAX_ARG_PAGES s.mm with
  | .ret _ mm => .ok (.error retval { s with mm := mm } page)
  | .panic msg _ => .panic msg
  | .oom _ => .stuck

/-- The exit `exec_error2:` of `do_execve`. -/
def exec_error2 (s : Fs) (page : Nat → Nat) (inode : Nat) (retval : Int) (fuel : Nat) :
    Exec exec_step :=
  Exec.bind (iput s (some inode) fuel).toExec fun s => exec_error1 s page retval

/-- The call `p = copy_strings(argc, argv, page, p, from_kmem)` of `do_execve` on the
memory of the file-system state. -/
def exec_copy (useg kseg : Nat → Byte) (argc : Int) (argv : Nat) (s : Fs) (page : Nat → Nat)
    (p from_kmem fuel : Nat) : Exec (Fs × (Nat → Nat) × Nat) :=
  Exec.bind (copy_strings useg kseg argc argv { mm := s.mm, page := page } p from_kmem fuel)
    fun r => .ok ({ s with mm := r.1.mm }, r.1.page, r.2)

/-- The copies of the section of `do_execve` that interprets "#!", from `if
(sh_bang++ == 0)` to the last `argc++`: the state, the array `page`, `p` and
`argc` after them.  `s` is the state after `iput(inode)`, `kseg` the kernel
data segment with the parsed line, `i_arg` the value of that pointer (0 when
the line has no argument). -/
def exec_splice_copy (useg kseg : Nat → Byte) (argv envp : Nat) (st : exec_state) (s : Fs)
    (i_arg fuel : Nat) : Exec ((Fs × (Nat → Nat) × Nat) × Int) :=
  Exec.bind
    (if st.sh_bang = 0 then
      Exec.bind (exec_copy useg kseg st.envc envp s st.page st.p 0 fuel) fun r =>
      Exec.bind (exec_copy useg kseg (st.argc - 1) (argv + 4) r.1 r.2.1 r.2.2 0 fuel) fun r =>
      .ok (r, st.argc - 1)
    else .ok ((s, st.page, st.p), st.argc)) fun x =>
  Exec.bind (exec_copy useg kseg 1 4 x.1.1 x.1.2.1 x.1.2.2 1 fuel) fun r =>
  let argc := x.2 + 1
  Exec.bind
    (if i_arg ≠ 0 then
      Exec.bind (exec_copy useg kseg 1 8 r.1 r.2.1 r.2.2 2 fuel) fun r => .ok (r, argc + 1)
    else .ok (r, argc)) fun y =>
  Exec.bind (exec_copy useg kseg 1 12 y.1.1 y.1.2.1 y.1.2.2 2 fuel) fun r =>
  .ok (r, y.2 + 1)

/-- The second half of the section of `do_execve` that interprets "#!", from `if
(sh_bang++ == 0)` to `goto restart_interp`: the copies of `exec_splice_copy`,
the test `if (!p)` and the lookup `namei(interp)` in the kernel data segment. -/
def exec_splice (cur : fs_current) (useg kseg : Nat → Byte) (argv envp : Nat)
    (st : exec_state) (s : Fs) (interp i_arg fuel : Nat) : Exec exec_step :=
  Exec.bind (exec_splice_copy useg kseg argv envp st s i_arg fuel) fun c =>
  let sh_bang := st.sh_bang + 1
  if c.1.2.2 = 0 then exec_error1 c.1.1 c.1.2.1 (-ENOMEM)
  else
    Exec.bind (namei cur kseg c.1.1 interp fuel).toExec fun n =>
    match n.1 with
    | none => exec_error1 n.2 c.1.2.1 (-ENOENT)
    | some inode =>
      .ok (.restart { s := n.2, page := c.1.2.1, inode := inode, argc := c.2, envc := st.envc, sh_bang := sh_bang, p := c.1.2.2 })

/-- The array `buf` of `do_execve` after the parse of the line: the copy made
by `strncpy(buf, bh->b_data + 2, 1022)`, with `buf[1022] = 0`, the newline at
index `nl` replaced by a NUL, and the character at index `cp`, where the
interpreter path ends, replaced by a NUL when it is not one (`*cp++ = 0`). -/
def script_buf (data : Nat → Byte) (nl cp : Nat) : Nat → Byte :=
  let buf := Function.update (Function.update (strncpy (fun k => data (k + 2)) 1022) 1022 0) nl 0
  if buf cp ≠ 0 then Function.update buf cp 0 else buf

/-- The section of `do_execve` that interprets "#!", from `strncpy` to `goto
restart_interp`; `bh` is the buffer of block 0. -/
def exec_script (cur : fs_current) (useg : Nat → Byte) (filename argv envp : Nat)
    (st : exec_state) (bh : Nat × Nat) (fuel : Nat) : Exec exec_step :=
  let buf := strncpy (fun k => (st.s.buffer bh).b_data (k + 2)) 1022
  let s := brelse st.s (some bh)
  Exec.bind (iput s (some st.inode) fuel).toExec fun s =>
  let buf := Function.update buf 1022 0
  match strchr buf 10 1023 0 with
  | none => exec_error1 s st.page (-ENOEXEC)
  | some nl =>
    let buf := Function.update buf nl 0
    let cp := skip_blanks buf 1023 0
    if buf cp = 0 then exec_error1 s st.page (-ENOEXEC)
    else
      let interp := cp
      let r := scan_interp buf 1023 cp cp
      let cp := r.1
      let i_name := r.2
      let i_arg : Nat := if buf cp ≠ 0 then EXEC_BUF + (cp + 1) else 0
      let buf := script_buf (st.s.buffer bh).b_data nl cp
      let kseg := exec_frame filename i_arg (EXEC_BUF + i_name) buf
      exec_splice cur useg kseg argv envp st s (EXEC_BUF + interp) i_arg fuel

/-- The end of a pass of `do_execve` for a file that is not taken as a script,
after `brelse(bh)`: the checks of the a.out header and, in the first pass, the
copies of the environment and the arguments. -/
def exec_aout (useg : Nat → Byte) (argv envp : Nat) (st : exec_state) (ex : exec)
    (e_uid e_gid fuel : Nat) : Exec exec_step :=
  if N_MAGIC ex ≠ ZMAGIC ∨ ex.a_trsize ≠ 0 ∨ ex.a_drsize ≠ 0 ∨ (ex.a_text + ex.a_data + ex.a_bss) % 4294967296 > 0x3000000 ∨ (st.s.inode_table st.inode).i_size < (ex.a_text + ex.a_data + ex.a_syms + N_TXTOFF ex) % 4294967296 then
    exec_error2 st.s st.page st.inode (-ENOEXEC) fuel
  else if N_TXTOFF ex ≠ BLOCK_SIZE then
    exec_error2 { st.s with mm := printk st.s.mm "%s: N_TXTOFF != BLOCK_SIZE. See a.out.h." } st.page st.inode (-ENOEXEC) fuel
  else if st.sh_bang = 0 then
    Exec.bind (exec_copy useg useg st.envc envp st.s st.page st.p 0 fuel) fun r =>
    Exec.bind (exec_copy useg useg st.argc argv r.1 r.2.1 r.2.2 0 fuel) fun r =>
    if r.2.2 = 0 then exec_error2 r.1 r.2.1 st.inode (-ENOMEM) fuel
    else .ok (.load { st with s := r.1, page := r.2.1, p := r.2.2 } ex e_uid e_gid)
  else .ok (.load st ex e_uid e_gid)

/-- One pass of `do_execve` from the label `restart_interp`. -/
def do_execve_pass (cur : fs_current) (useg : Nat → Byte) (filename argv envp : Nat)
    (st : exec_state) (fuel : Nat) : Exec exec_step :=
  let m := st.s.inode_table st.inode
  if S_ISREG m.i_mode = false then exec_error2 st.s st.page st.inode (-EACCES) fuel
  else
    let i := m.i_mode
    let e_uid := if i &&& S_ISUID ≠ 0 then m.i_uid else cur.euid
    let e_gid := if i &&& S_ISGID ≠ 0 then m.i_gid else cur.egid
    let i := if cur.euid = m.i_uid then i >>> 6 else if cur.egid = m.i_gid then i >>> 3 else i
    if i &&& 1 = 0 ∧ ¬ (m.i_mode &&& 0o111 ≠ 0 ∧ suser cur = true) then
      exec_error2 st.s st.page st.inode (-ENOEXEC) fuel
    else
      let b := bread st.s m.i_dev (m.i_zone 0)
      match b.1 with
      | none => exec_error2 b.2 st.page st.inode (-EACCES) fuel
      | some bh =>
        let data := (b.2.buffer bh).b_data
        if data 0 = 35 ∧ data 1 = 33 ∧ st.sh_bang = 0 then
          exec_script cur useg filename argv envp { st with s := b.2 } bh fuel
        else
          exec_aout useg argv envp { st with s := brelse b.2 (some bh) } (get_exec data) e_uid e_gid fuel

/-- The passes of `do_execve` from `restart_interp` on; `fuel` bounds their number
too. -/
def do_execve_passes (cur : fs_current) (useg : Nat → Byte) (filename argv envp fuel : Nat) :
    Nat → exec_state → Exec exec_step
  | 0, _ => .stuck
  | n + 1, st =>
    Exec.bind (do_execve_pass cur useg filename argv envp st fuel) fun r =>
    match r with
    | .restart st => do_execve_passes cur useg filename argv envp fuel n st
    | r => .ok r

/-- Function `int do_execve(unsigned long *eip, long tmp, char *filename, char **argv,
char **envp)` up to the comment "OK, This is the point of no return": it ends
with `return (retval)` (`error`) or at that point (`load`); what follows there
(release of the old image, `change_ldt`, `create_tables`, the new `eip` and
stack pointer) is not modelled.  `cs` is `eip[1]`, the code segment of the
caller. -/
def do_execve (cur : fs_current) (useg : Nat → Byte) (s : Fs) (cs filename argv envp fuel : Nat) :
    Exec exec_step :=
  if 0xffff &&& cs ≠ 0x000f then .panic "execve called from supervisor mode"
  else
    let page : Nat → Nat := fun _ => 0
    Exec.bind (namei cur useg s filename fuel).toExec fun n =>
    match n.1 with
    | none => .ok (.error (-ENOENT) n.2 page)
    | some inode =>
      match count useg argv fuel, count useg envp fuel with
      | some argc, some envc =>
        do_execve_passes cur useg filename argv envp fuel 3
          { s := n.2, page := page, inode := inode, argc := argc, envc := envc, sh_bang := 0, p := PAGE_SIZE * MAX_ARG_PAGES - 4 }
      | _, _ => .stuck


/-- A file system for the examples: `fs0` with two more files in the root
directory, both regular with mode 0755 and held in the inode table: "sh"
(inode 4, block 17, an a.out header with ZMAGIC and no text, data or bss) and
"go" (inode 5, block 18, the script "#!/sh -x" and a line end). -/
def fs_exec : Fs :=
  { fs0 with
    disk := fun key a =>
      if key = (0x301, 6) then
        (if a = 0 then 1 else if a = 2 then 46 else if a = 16 then 1 else if a = 18 then 46
          else if a = 19 then 46 else if a = 32 then 4 else if a = 34 then 115
          else if a = 35 then 104 else if a = 48 then 5 else if a = 50 then 103
          else if a = 51 then 111 else 0)
      else if key = (0x301, 17) then (if a = 0 then 0x0B else if a = 1 then 0x01 else 0)
      else if key = (0x301, 18) then
        (if a = 0 then 35 else if a = 1 then 33 else if a = 2 then 47 else if a = 3 then 115
          else if a = 4 then 104 else if a = 5 then 32 else if a = 6 then 45 else if a = 7 then 120
          else if a = 8 then 10 else 0)
      else fs0.disk key a
    inode_table := fun i =>
      if i = 0 then { fs0.inode_table 0 with i_size := 64 }
      else if i = 3 then
        { inode_zero with i_mode := 0o100755, i_size := 1024, i_nlinks := 1, i_zone := fun k => if k = 0 then 17 else 0, i_dev := 0x301, i_num := 4, i_count := 1 }
      else if i = 4 then
        { inode_zero with i_mode := 0o100755, i_size := 9, i_nlinks := 1, i_zone := fun k => if k = 0 then 18 else 0, i_dev := 0x301, i_num := 5, i_count := 1 }
      else fs0.inode_table i }

/-- A user segment for the examples: the path "/go" at 0x1000; at 0x2000 the
argument vector of the two strings "go" (at 0x3000) and "ab" (at 0x3010); at
0x2100 the environment of the one string "E" (at 0x3020). -/
def useg_exec : Nat → Byte := fun a =>
  if a = 0x1000 then 47 else if a = 0x1001 then 103 else if a = 0x1002 then 111
  else if a = 0x2001 then 0x30 else if a = 0x2004 then 0x10 else if a = 0x2005 then 0x30
  else if a = 0x2100 then 0x20 else if a = 0x2101 then 0x30
  else if a = 0x3000 then 103 else if a = 0x3001 then 111
  else if a = 0x3010 then 97 else if a = 0x3011 then 98
  else if a = 0x3020 then 69
  else 0



/-- A user segment for the examples: the path "/sh" at 0x1000; at 0x2000 the
argument vector of one string, 131068 letters 'A' at 0x100000 and its NUL,
131069 bytes in all; at 0x2100 the empty environment. -/
def useg_big : Nat → Byte := fun a =>
  if a = 0x1000 then 47 else if a = 0x1001 then 115 else if a = 0x1002 then 104
  else if a = 0x2002 then 0x10
  else if 0x100000 ≤ a ∧ a < 0x100000 + 131068 then 65
  else 0

/-- The state `namei("/sh")` leaves on `fs_exec` in the example. -/
def fs_exec1 : Fs := (Outcome.get (none, fs_exec) (namei cur0 useg_big fs_exec 0x1000 200000)).2

/-- The state `bread` of block 0 of `/sh` leaves after `fs_exec1`. -/
def fs_exec2 : Fs := (bread fs_exec1 0x301 17).2


/-- The bytes of the argument space from offset `p` on are kept in pages that
are allocated, up to offset `top`. -/
def arg_alloc (st : arg_pages) (p top : Nat) : Prop :=
  ∀ a, p ≤ a → a < top → st.page (a / PAGE_SIZE) ≠ 0

/-- The segment `seg` holds at address `a` a string of `n` characters and its
NUL. -/
def is_cstr (seg : Nat → Byte) (a n : Nat) : Prop :=
  (∀ j, j < n → seg (a + j) ≠ 0) ∧ seg (a + n) = 0

/-- The bytes of the strings `i`, `i + 1`, ... (`k` of them) of the pointer
array at `argv`, each with its NUL: string `i` has `len i` characters, and
its address is read from `pseg`, its bytes from `seg`. -/
def argv_bytes (pseg seg : Nat → Byte) (argv : Nat) (len : Nat → Nat) : Nat → Nat → List Byte
  | 0, _ => []
  | k + 1, i =>
    user_bytes seg (get_long pseg (argv + 4 * i)) (len i + 1) ++ argv_bytes pseg seg argv len k (i + 1)

/-- The number of bytes of `argv_bytes`. -/
def argv_size (len : Nat → Nat) : Nat → Nat → Nat
  | 0, _ => 0
  | k + 1, i => len i + 1 + argv_size len k (i + 1)

/-- The bytes `d` of block 0 start with "#!" and a line of `e` characters and
its newline, within the 1022 bytes `do_execve` copies: `b` blanks, an
interpreter path of `n` characters, and, when `b + n < e`, a blank and the
text up to the newline. -/
def script_line (d : Nat → Byte) (b n e : Nat) : Prop :=
  d 0 = 35 ∧ d 1 = 33 ∧ e ≤ 1021 ∧ (∀ j, j < e → d (2 + j) ≠ 0 ∧ d (2 + j) ≠ 10) ∧
  d (2 + e) = 10 ∧ (∀ j, j < b → d (2 + j) = 32 ∨ d (2 + j) = 9) ∧ 1 ≤ n ∧ b + n ≤ e ∧
  (∀ j, j < n → d (2 + b + j) ≠ 32 ∧ d (2 + b + j) ≠ 9) ∧
  (b + n < e → d (2 + b + n) = 32 ∨ d (2 + b + n) = 9)

/-- The path of `n` characters at index `a` of `d` has its last '/' right
before its character `k`; `k` is 0 when the path has no '/'. -/
def name_offset (d : Nat → Byte) (a n k : Nat) : Prop :=
  k ≤ n ∧ (0 < k → d (a + (k - 1)) = 47) ∧ ∀ j, j < n - k → d (a + k + j) ≠ 47

/-- The kernel data segment `do_execve` reads the spliced strings and the
interpreter path from, for a block 0 with the bytes `d` of the layout
`script_line d b n e` and the name of the interpreter at character `k` of its
path: `i_arg` points behind the blank after the path when the line has one,
`i_name` at the name, and `buf` is the parsed line. -/
def script_frame (filename : Nat) (d : Nat → Byte) (b n e k : Nat) : Nat → Byte :=
  exec_frame filename (if b + n < e then EXEC_BUF + (b + n + 1) else 0) (EXEC_BUF + (b + k))
    (script_buf d e (b + n))

/-- The number of bytes `do_execve` splices in and copies for a script: the
name of the interpreter (`n - k` characters), the argument of the line when
there is one, the file name (`flen` characters), the arguments after the
first and the environment, each string with its NUL. -/
def script_size (b n e k flen ac ec : Nat) (alen elen : Nat → Nat) : Nat :=
  n - k + 1 + (if b + n < e then e - (b + n + 1) + 1 else 0) + (flen + 1)
    + argv_size alen (ac - 1) 0 + argv_size elen ec 0

/-- The state `namei("/go")` leaves on `fs_exec` in the example. -/
def fs_go : Fs := (Outcome.get (none, fs_exec) (namei cur0 useg_exec fs_exec 0x1000 1024)).2

/-- The variables of `do_execve` at the label `restart_interp` in the example
`execve("/go", argv, envp)` on `fs_exec` and `useg_exec`: the inode of "/go" in
slot 4, two arguments, one environment string, no page allocated. -/
def exec_go : exec_state :=
  { s := fs_go, page := fun _ => 0, inode := 4, argc := 2, envc := 1, sh_bang := 0, p := PAGE_SIZE * MAX_ARG_PAGES - 4 }

/-- The state `bread` of block 0 of "/go" leaves after `fs_go`. -/
def fs_go2 : Fs := (bread fs_go 0x301 18).2

/-- The state `brelse(bh)` and `iput(inode)` leave after `fs_go2`. -/
def fs_go1 : Fs := Outcome.get fs_go2 (iput (brelse fs_go2 (some (0x301, 18))) (some 4) 1024)

/-- The value a routine of `exec.c` returned, `d` when it did not return. -/
def Exec.get {α : Type} (d : α) : Exec α → α
  | .ok a => a
  | _ => d

/-- The variables of `do_execve` a pass ends with at `goto restart_interp` or at
the point of no return, `d` when it ends otherwise. -/
def exec_step.state (d : exec_state) : exec_step → exec_state
  | .restart st => st
  | .load st _ _ _ => st
  | .error _ _ _ => d

/-- The state, the array `page`, `p` and `argc` after the copies of the "#!"
section in the example `exec_go`. -/
def copy_go : (Fs × (Nat → Nat) × Nat) × Int :=
  Exec.get ((fs_go1, exec_go.page, 0), 0)
    (exec_splice_copy useg_exec (script_frame 0x1000 (fs_go2.buffer (0x301, 18)).b_data 0 3 6 1)
      0x2000 0x2100 exec_go fs_go1 (if 0 + 3 < 6 then EXEC_BUF + (0 + 3 + 1) else 0) 1024)

theorem put_long_other (mem : Nat → Byte) (a v x : Nat) (h : x < a ∨ a + 4 ≤ x) :
    put_long mem a v x = mem x := by
  unfold put_long
  have h0 : x ≠ a := by omega
  have h1 : x ≠ a + 1 := by omega
  have h2 : x ≠ a + 2 := by omega
  have h3 : x ≠ a + 3 := by omega
  simp [h0, h1, h2, h3]

theorem put_long_zero_in (mem : Nat → Byte) (a x : Nat) (h1 : a ≤ x) (h2 : x < a + 4) :
    put_long mem a 0 x = 0 := by
  unfold put_long toByte
  split_ifs <;> first | rfl | omega

theorem get_put_long_same (mem : Nat → Byte) (a v : Nat) :
    get_long (put_long mem a v) a = v % 4294967296 := by
  unfold get_long put_long toByte
  simp
  omega

theorem get_put_long_other (mem : Nat → Byte) (a v b : Nat) (h : b + 4 ≤ a ∨ a + 4 ≤ b) :
    get_long (put_long mem a v) b = get_long mem b := by
  unfold get_long
  rw [put_long_other mem a v b (by omega), put_long_other mem a v (b + 1) (by omega),
    put_long_other mem a v (b + 2) (by omega), put_long_other mem a v (b + 3) (by omega)]

theorem stosl_spec (n : Nat) : ∀ (mem : Nat → Byte) (edi : Nat), 4 * n ≤ edi + 4 →
    (∀ x, edi + 4 - 4 * n ≤ x → x < edi + 4 → stosl mem edi n x = 0) ∧
    (∀ x, (x < edi + 4 - 4 * n ∨ edi + 4 ≤ x) → stosl mem edi n x = mem x) := by
  induction n with
  | zero =>
    intro mem edi _
    exact ⟨fun x h1 h2 => by omega, fun x _ => rfl⟩
  | succ n ih =>
    intro mem edi h
    have hi := ih (put_long mem edi 0) (edi - 4) (by omega)
    constructor
    · intro x h1 h2
      show stosl (put_long mem edi 0) (edi - 4) n x = 0
      by_cases hx : x < edi
      · exact hi.1 x (by omega) (by omega)
      · rw [hi.2 x (by omega)]
        exact put_long_zero_in mem edi x (by omega) (by omega)
    · intro x hx
      show stosl (put_long mem edi 0) (edi - 4) n x = mem x
      rw [hi.2 x (by omega)]
      exact put_long_other mem edi 0 x (by omega)

theorem scasb_some (mm : Nat → Byte) : ∀ (n k : Nat), k < n → mm k = 0 →
    (∀ j, k < j → j < n → mm j ≠ 0) → scasb mm n = some k := by
  intro n
  induction n with
  | zero => intro k hk; omega
  | succ n ih =>
    intro k hk h0 hmax
    unfold scasb
    by_cases hkn : k = n
    · subst hkn; simp [h0]
    · have hn : mm n ≠ 0 := hmax n (by omega) (by omega)
      simp only [hn, if_false]
      exact ih k (by omega) h0 (fun j h1 h2 => hmax j h1 (by omega))

theorem scasb_none (mm : Nat → Byte) : ∀ (n : Nat), (∀ j, j < n → mm j ≠ 0) →
    scasb mm n = none := by
  intro n
  induction n with
  | zero => intro _; rfl
  | succ n ih =>
    intro h
    unfold scasb
    simp only [h n (by omega), if_false]
    exact ih (fun j hj => h j (by omega))

theorem scasb_found (mm : Nat → Byte) : ∀ (n k : Nat), scasb mm n = some k →
    k < n ∧ mm k = 0 ∧ ∀ j, k < j → j < n → mm j ≠ 0 := by
  intro n
  induction n with
  | zero => intro k h; simp [scasb] at h
  | succ n ih =>
    intro k h
    unfold scasb at h
    by_cases h0 : mm n = 0
    · simp only [h0, if_true, Option.some.injEq] at h
      subst h
      exact ⟨by omega, h0, fun j h1 h2 => by omega⟩
    · simp only [h0, if_false] at h
      obtain ⟨h1, h2, h3⟩ := ih k h
      refine ⟨by omega, h2, fun j hj1 hj2 => ?_⟩
      by_cases hjn : j = n
      · subst hjn; exact h0
      · exact h3 j hj1 (by omega)

theorem scasb_not_found (mm : Nat → Byte) : ∀ (n : Nat), scasb mm n = none →
    ∀ j, j < n → mm j ≠ 0 := by
  intro n
  induction n with
  | zero => intro _ j hj; omega
  | succ n ih =>
    intro h j hj
    unfold scasb at h
    by_cases h0 : mm n = 0
    · simp [h0] at h
    · simp only [h0, if_false] at h
      by_cases hjn : j = n
      · subst hjn; exact h0
      · exact ih h j (by omega)

theorem get_free_page_ne_zero (s : Mm) (h : (get_free_page s).1 ≠ 0) :
    ∃ k, k < PAGING_PAGES ∧ s.mem_map k = 0 ∧
      (∀ j, k < j → j < PAGING_PAGES → s.mem_map j ≠ 0) ∧
      (get_free_page s).1 = LOW_MEM + 4096 * k ∧
      (get_free_page s).2.mem_map = Function.update s.mem_map k 1 ∧
      (get_free_page s).2.mem = stosl s.mem (LOW_MEM + 4096 * k + 4092) 1024 ∧
      (get_free_page s).2.HIGH_MEMORY = s.HIGH_MEMORY ∧
      (get_free_page s).2.console = s.console := by
  cases hs : scasb s.mem_map PAGING_PAGES with
  | none => simp [get_free_page, hs] at h
  | some k =>
    obtain ⟨h1, h2, h3⟩ := scasb_found s.mem_map PAGING_PAGES k hs
    have hsh : k <<< 12 = 4096 * k := by rw [Nat.shiftLeft_eq]; omega
    have ha : k <<< 12 + LOW_MEM = LOW_MEM + 4096 * k := by omega
    refine ⟨k, h1, h2, h3, ?_, ?_, ?_, ?_, ?_⟩ <;> simp only [get_free_page, hs, ha]

theorem get_free_page_eq_zero (s : Mm) (h : (get_free_page s).1 = 0) :
    (get_free_page s).2 = s ∧ ∀ j, j < PAGING_PAGES → s.mem_map j ≠ 0 := by
  cases hs : scasb s.mem_map PAGING_PAGES with
  | none =>
    exact ⟨by simp only [get_free_page, hs], scasb_not_found s.mem_map PAGING_PAGES hs⟩
  | some k =>
    have hsh : k <<< 12 = 4096 * k := by rw [Nat.shiftLeft_eq]; omega
    simp only [get_free_page, hs, hsh, LOW_MEM] at h
    omega

theorem get_free_page_congr (s t : Mm) (h1 : s.mem_map = t.mem_map) (h2 : s.mem = t.mem) :
    (get_free_page s).1 = (get_free_page t).1 ∧
    (get_free_page s).2.mem = (get_free_page t).2.mem ∧
    (get_free_page s).2.mem_map = (get_free_page t).2.mem_map := by
  unfold get_free_page
  rw [h1, h2]
  cases scasb t.mem_map PAGING_PAGES <;> simp [h1, h2]

theorem put_page_warn_mem (s : Mm) (page : Nat) :
    (put_page_warn s page).mem = s.mem ∧ (put_page_warn s page).mem_map = s.mem_map := by
  unfold put_page_warn printk
  simp only []
  split_ifs <;> exact ⟨rfl, rfl⟩

theorem and_ffc_le (x : Nat) : x &&& 0xffc ≤ 0xffc := Nat.and_le_right

theorem or_seven_lt (x : Nat) (h : x < 4294967296) : x ||| 7 < 4294967296 := by
  have h7 : 7 < 2 ^ 32 := by norm_num
  have hx : x < 2 ^ 32 := by norm_num; exact h
  have := Nat.or_lt_two_pow hx h7
  norm_num at this
  exact this

theorem get_long_lt (mem : Nat → Byte) (a : Nat) : get_long mem a < 4294967296 := by
  unfold get_long
  have h0 := (mem a).isLt
  have h1 := (mem (a + 1)).isLt
  have h2 := (mem (a + 2)).isLt
  have h3 := (mem (a + 3)).isLt
  omega

theorem testBit_frame_mask (i : Nat) :
    Nat.testBit 0xfffff000 i = (decide (12 ≤ i) && decide (i < 32)) := by
  by_cases h : i < 32
  · interval_cases i <;> rfl
  · have hlt : (0xfffff000 : Nat) < 2 ^ 32 := by norm_num
    have hle : 2 ^ 32 ≤ 2 ^ i := Nat.pow_le_pow_right (by norm_num) (by omega)
    rw [Nat.testBit_lt_two_pow (lt_of_lt_of_le hlt hle)]
    simp [h]

theorem frame_aligned (v : Nat) : (0xfffff000 &&& v) % 4096 = 0 := by
  apply Nat.eq_of_testBit_eq
  intro i
  rw [show (4096 : Nat) = 2 ^ 12 from rfl, Nat.testBit_mod_two_pow, Nat.testBit_and,
    testBit_frame_mask, Nat.zero_testBit]
  by_cases h : i < 12
  · have : ¬ 12 ≤ i := by omega
    simp [this]
  · simp [h]

theorem frame_or_two (v : Nat) : 0xfffff000 &&& (v ||| 2) = 0xfffff000 &&& v := by
  apply Nat.eq_of_testBit_eq
  intro i
  rw [Nat.testBit_and, Nat.testBit_and, Nat.testBit_or, testBit_frame_mask,
    show (2 : Nat) = 2 ^ 1 from rfl, Nat.testBit_two_pow]
  by_cases h : 12 ≤ i
  · have : ¬ 1 = i := by omega
    simp [this]
  · simp [h]

theorem put_get_long_byte (mem : Nat → Byte) (a b i : Nat) (hi : i < 4) :
    put_long mem a (get_long mem b) (a + i) = mem (b + i) := by
  have h0 := (mem b).isLt
  have h1 := (mem (b + 1)).isLt
  have h2 := (mem (b + 2)).isLt
  have h3 := (mem (b + 3)).isLt
  unfold put_long get_long toByte
  interval_cases i
  · simp only [Nat.add_zero, if_true]
    apply Fin.ext
    simp only []
    omega
  · have e1 : ¬ a + 1 = a := by omega
    simp only [e1, if_false, if_true]
    apply Fin.ext
    simp only []
    omega
  · have e1 : ¬ a + 2 = a := by omega
    have e2 : ¬ a + 2 = a + 1 := by omega
    simp only [e1, e2, if_false, if_true]
    apply Fin.ext
    simp only []
    omega
  · have e1 : ¬ a + 3 = a := by omega
    have e2 : ¬ a + 3 = a + 1 := by omega
    have e3 : ¬ a + 3 = a + 2 := by omega
    simp only [e1, e2, e3, if_false, if_true]
    apply Fin.ext
    simp only []
    omega

theorem movsl_spec (n : Nat) : ∀ (mem : Nat → Byte) (esi edi : Nat),
    (esi = edi ∨ esi + 4 * n ≤ edi ∨ edi + 4 * n ≤ esi) →
    (∀ i, i < 4 * n → movsl mem esi edi n (edi + i) = mem (esi + i)) ∧
    (∀ x, (x < edi ∨ edi + 4 * n ≤ x) → movsl mem esi edi n x = mem x) := by
  induction n with
  | zero =>
    intro mem esi edi _
    exact ⟨fun i hi => by omega, fun x _ => rfl⟩
  | succ n ih =>
    intro mem esi edi h
    have hi := ih (put_long mem edi (get_long mem esi)) (esi + 4) (edi + 4) (by omega)
    constructor
    · intro i hlt
      show movsl (put_long mem edi (get_long mem esi)) (esi + 4) (edi + 4) n (edi + i)
        = mem (esi + i)
      by_cases h4 : i < 4
      · rw [hi.2 (edi + i) (by omega)]
        exact put_get_long_byte mem edi esi i h4
      · have e1 : edi + i = edi + 4 + (i - 4) := by omega
        have e2 : esi + i = esi + 4 + (i - 4) := by omega
        rw [e1, hi.1 (i - 4) (by omega), e2]
        exact put_long_other mem edi _ _ (by omega)
    · intro x hx
      show movsl (put_long mem edi (get_long mem esi)) (esi + 4) (edi + 4) n x = mem x
      rw [hi.2 x (by omega)]
      exact put_long_other mem edi _ x (by omega)

theorem get_long_congr (m1 m2 : Nat → Byte) (a : Nat)
    (h : ∀ i, i < 4 → m1 (a + i) = m2 (a + i)) : get_long m1 a = get_long m2 a := by
  unfold get_long
  have h0 := h 0 (by omega)
  simp only [Nat.add_zero] at h0
  rw [h0, h 1 (by omega), h 2 (by omega), h 3 (by omega)]

theorem MAP_NR_eq (a : Nat) (h1 : LOW_MEM ≤ a) (h2 : a < 4294967296) :
    MAP_NR a = (a - LOW_MEM) / 4096 := by
  unfold MAP_NR sub32
  rw [Nat.shiftRight_eq_div_pow]
  simp only [LOW_MEM] at *
  norm_num
  have : (a + 4294967296 - 1048576) % 4294967296 = a - 1048576 := by omega
  rw [this]

theorem byte_pred_val (b : Byte) (h : b ≠ 0) : (b - 1).val + 1 = b.val := by
  have hv : b.val ≠ 0 := fun h0 => h (Fin.ext h0)
  have hlt := b.isLt
  rw [Fin.sub_def]
  simp only [Fin.val_one]
  omega

theorem copy_page_spec (mem : Nat → Byte) (src dst : Nat)
    (h : src = dst ∨ src + 4096 ≤ dst ∨ dst + 4096 ≤ src) :
    (∀ i, i < 4096 → copy_page mem src dst (dst + i) = mem (src + i)) ∧
    (∀ x, (x < dst ∨ dst + 4096 ≤ x) → copy_page mem src dst x = mem x) := by
  have hm := movsl_spec 1024 mem src dst (by omega)
  unfold copy_page
  exact ⟨fun i hi => hm.1 i (by omega), fun x hx => hm.2 x (by omega)⟩

/-! ### Lemmas on the task loops and on signal sets -/

theorem for_each_task_spec (body : task_struct → task_struct) :
    ∀ (n : Nat) (task : TaskTable) (i : Nat),
    for_each_task body task n i = if 1 ≤ i ∧ i ≤ n then (task i).map body else task i := by
  intro n
  induction n with
  | zero =>
    intro task i
    have : ¬ (1 ≤ i ∧ i ≤ 0) := by omega
    simp only [for_each_task, this, if_false]
  | succ n ih =>
    intro task i
    unfold for_each_task
    cases ht : task (n + 1) with
    | none =>
      simp only []
      rw [ih]
      by_cases hi : i = n + 1
      · subst hi
        have h1 : ¬ (1 ≤ n + 1 ∧ n + 1 ≤ n) := by omega
        simp [h1, ht]
      · by_cases h2 : 1 ≤ i ∧ i ≤ n
        · have h3 : 1 ≤ i ∧ i ≤ n + 1 := by omega
          simp [h2, h3]
        · have h3 : ¬ (1 ≤ i ∧ i ≤ n + 1) := by omega
          simp [h2, h3]
    | some t =>
      simp only []
      rw [ih]
      by_cases hi : i = n + 1
      · subst hi
        have h1 : ¬ (1 ≤ n + 1 ∧ n + 1 ≤ n) := by omega
        simp [h1, ht]
      · by_cases h2 : 1 ≤ i ∧ i ≤ n
        · have h3 : 1 ≤ i ∧ i ≤ n + 1 := by omega
          simp [h2, h3, Function.update_noteq hi]
        · have h3 : ¬ (1 ≤ i ∧ i ≤ n + 1) := by omega
          simp [h2, h3, Function.update_noteq hi]

theorem testBit_not32 (x i : Nat) :
    (not32 x).testBit i = (decide (i < 32) && !x.testBit i) := by
  unfold not32
  rw [Nat.testBit_xor, show (0xFFFFFFFF : Nat) = 2 ^ 32 - 1 from rfl,
    Nat.testBit_two_pow_sub_one, show (4294967296 : Nat) = 2 ^ 32 from rfl,
    Nat.testBit_mod_two_pow]
  by_cases h : i < 32 <;> simp [h]

theorem testBit_BLOCKABLE (i : Nat) :
    _BLOCKABLE.testBit i = decide (i < 32 ∧ i ≠ 8 ∧ i ≠ 18) := by
  by_cases h : i < 32
  · interval_cases i <;> rfl
  · have hlt : _BLOCKABLE < 2 ^ 32 := by decide
    have hle : 2 ^ 32 ≤ 2 ^ i := Nat.pow_le_pow_right (by norm_num) (by omega)
    rw [Nat.testBit_lt_two_pow (lt_of_lt_of_le hlt hle)]
    simp [h]

theorem deliverable_iff (signal blocked : Nat) :
    signal &&& not32 (_BLOCKABLE &&& blocked) ≠ 0 ↔
      ∃ n, 1 ≤ n ∧ n ≤ 32 ∧ signal.testBit (n - 1) = true ∧
        (blocked.testBit (n - 1) = false ∨ n = SIGKILL ∨ n = SIGSTOP) := by
  constructor
  · intro h
    obtain ⟨i, hi⟩ := Nat.ne_zero_implies_bit_true h
    rw [Nat.testBit_and, testBit_not32, Nat.testBit_and, testBit_BLOCKABLE] at hi
    simp only [Bool.and_eq_true, decide_eq_true_eq, Bool.not_eq_true'] at hi
    obtain ⟨h1, h2, h3⟩ := hi
    refine ⟨i + 1, by omega, by omega, by simpa using h1, ?_⟩
    simp only [Nat.add_sub_cancel, SIGKILL, SIGSTOP]
    by_cases hb : blocked.testBit i = true
    · right
      simp only [hb, Bool.and_true, decide_eq_false_iff_not] at h3
      omega
    · left
      simpa using hb
  · rintro ⟨n, h1, h2, h3, h4⟩ h0
    have hb : (signal &&& not32 (_BLOCKABLE &&& blocked)).testBit (n - 1) = true := by
      rw [Nat.testBit_and, testBit_not32, Nat.testBit_and, testBit_BLOCKABLE, h3]
      have hlt : n - 1 < 32 := by omega
      rcases h4 with h4 | h4 | h4
      · simp [hlt, h4]
      · subst h4; simp [SIGKILL]
      · subst h4; simp [SIGSTOP]
    rw [h0, Nat.zero_testBit] at hb
    exact Bool.false_ne_true hb

theorem schedule_scan_spec (task : TaskTable) : ∀ (n : Nat) (c0 : Int) (next0 : Nat),
    ((∀ i t, 1 ≤ i → i ≤ n → task i = some t → t.state = TASK_RUNNING → t.counter ≤ c0) ∧
      schedule_scan task n c0 next0 = (c0, next0)) ∨
    (∃ t, 1 ≤ (schedule_scan task n c0 next0).2 ∧ (schedule_scan task n c0 next0).2 ≤ n ∧
      task (schedule_scan task n c0 next0).2 = some t ∧ t.state = TASK_RUNNING ∧
      t.counter = (schedule_scan task n c0 next0).1 ∧ c0 < (schedule_scan task n c0 next0).1 ∧
      ∀ i u, 1 ≤ i → i ≤ n → task i = some u → u.state = TASK_RUNNING →
        u.counter ≤ (schedule_scan task n c0 next0).1 ∧
        (u.counter = (schedule_scan task n c0 next0).1 →
          i ≤ (schedule_scan task n c0 next0).2)) := by
  intro n
  induction n with
  | zero =>
    intro c0 next0
    exact Or.inl ⟨fun i t h1 h2 => by omega, rfl⟩
  | succ n ih =>
    intro c0 next0
    cases htop : task (n + 1) with
    | none =>
      have hstep : schedule_scan task (n + 1) c0 next0 = schedule_scan task n c0 next0 := by
        simp only [schedule_scan, htop]
      rw [hstep]
      rcases ih c0 next0 with ⟨hall, heq⟩ | ⟨t, h1, h2, h3, h4, h5, h6, h7⟩
      · refine Or.inl ⟨fun i u hi1 hi2 hu hr => ?_, heq⟩
        by_cases hin : i = n + 1
        · subst hin; rw [htop] at hu; exact Option.noConfusion hu
        · exact hall i u hi1 (by omega) hu hr
      · refine Or.inr ⟨t, h1, by omega, h3, h4, h5, h6, fun i u hi1 hi2 hu hr => ?_⟩
        by_cases hin : i = n + 1
        · subst hin; rw [htop] at hu; exact Option.noConfusion hu
        · exact h7 i u hi1 (by omega) hu hr
    | some v =>
      by_cases hv : v.state = TASK_RUNNING ∧ v.counter > c0
      · have hstep : schedule_scan task (n + 1) c0 next0
            = schedule_scan task n v.counter (n + 1) := by
          simp only [schedule_scan, htop, hv, and_self, if_true]
        rw [hstep]
        rcases ih v.counter (n + 1) with ⟨hall, heq⟩ | ⟨t, h1, h2, h3, h4, h5, h6, h7⟩
        · rw [heq]
          refine Or.inr ⟨v, by simp, by simp, htop, hv.1, rfl, hv.2, fun i u hi1 hi2 hu hr => ?_⟩
          by_cases hin : i = n + 1
          · subst hin
            rw [htop] at hu
            cases hu
            exact ⟨le_refl _, fun _ => le_refl _⟩
          · exact ⟨hall i u hi1 (by omega) hu hr, fun _ => hi2⟩
        · refine Or.inr ⟨t, h1, by omega, h3, h4, h5, by omega, fun i u hi1 hi2 hu hr => ?_⟩
          by_cases hin : i = n + 1
          · subst hin
            rw [htop] at hu
            cases hu
            exact ⟨by omega, fun h => by omega⟩
          · exact h7 i u hi1 (by omega) hu hr
      · have hstep : schedule_scan task (n + 1) c0 next0 = schedule_scan task n c0 next0 := by
          simp only [schedule_scan, htop, hv, if_false]
        rw [hstep]
        have hvle : v.state = TASK_RUNNING → v.counter ≤ c0 := by
          intro h
          by_contra hc
          exact hv ⟨h, by omega⟩
        rcases ih c0 next0 with ⟨hall, heq⟩ | ⟨t, h1, h2, h3, h4, h5, h6, h7⟩
        · refine Or.inl ⟨fun i u hi1 hi2 hu hr => ?_, heq⟩
          by_cases hin : i = n + 1
          · subst hin
            rw [htop] at hu
            cases hu
            exact hvle hr
          · exact hall i u hi1 (by omega) hu hr
        · refine Or.inr ⟨t, h1, by omega, h3, h4, h5, h6, fun i u hi1 hi2 hu hr => ?_⟩
          by_cases hin : i = n + 1
          · subst hin
            rw [htop] at hu
            cases hu
            have := hvle hr
            exact ⟨by omega, fun h => by omega⟩
          · exact h7 i u hi1 (by omega) hu hr

theorem schedule_wake_keeps (jiffies : Int) (t : task_struct) :
    (schedule_wake jiffies t).counter = t.counter ∧
    (schedule_wake jiffies t).priority = t.priority := by
  unfold schedule_wake
  simp only []
  split_ifs <;> exact ⟨rfl, rfl⟩

theorem wrap_long_id (x : Int) (h1 : -2147483648 ≤ x) (h2 : x < 2147483648) :
    wrap_long x = x := by
  unfold wrap_long
  omega

theorem sub32_eq (a b : Nat) (h1 : b ≤ a) (h2 : a < 4294967296) : sub32 a b = a - b := by
  unfold sub32
  have : b % 4294967296 = b := Nat.mod_eq_of_lt (by omega)
  rw [this]
  omega

/-! ### Lemmas on `copy_page_tables` -/

theorem pte_ro_lt (v : Nat) : pte_ro v < 4294967296 := by
  unfold pte_ro
  have h : (0xfffffffd : Nat) < 2 ^ 32 := by norm_num
  have := Nat.and_lt_two_pow v h
  norm_num at this
  exact this

theorem copy_pte_absent (s : Mm) (f t : Nat) (h : 1 &&& get_long s.mem f = 0) :
    copy_pte s f t = s := by
  unfold copy_pte
  simp only [h, if_true]

theorem copy_pte_present (s : Mm) (f t : Nat) (h : 1 &&& get_long s.mem f ≠ 0) :
    (copy_pte s f t).mem =
      (if pte_ro (get_long s.mem f) > LOW_MEM
        then put_long (put_long s.mem t (pte_ro (get_long s.mem f))) f (pte_ro (get_long s.mem f))
        else put_long s.mem t (pte_ro (get_long s.mem f))) ∧
    (copy_pte s f t).mem_map =
      (if pte_ro (get_long s.mem f) > LOW_MEM
        then Function.update s.mem_map (pte_nr (get_long s.mem f))
          (s.mem_map (pte_nr (get_long s.mem f)) + 1)
        else s.mem_map) := by
  unfold copy_pte
  simp only [h, if_false]
  unfold pte_nr pte_ro
  split_ifs <;> exact ⟨rfl, rfl⟩

theorem copy_pte_fixed (s : Mm) (f t : Nat) :
    (copy_pte s f t).HIGH_MEMORY = s.HIGH_MEMORY ∧ (copy_pte s f t).console = s.console := by
  unfold copy_pte
  simp only []
  split_ifs <;> exact ⟨rfl, rfl⟩

theorem copy_pte_mem_other (s : Mm) (f t x : Nat) (hf : x < f ∨ f + 4 ≤ x)
    (ht : x < t ∨ t + 4 ≤ x) : (copy_pte s f t).mem x = s.mem x := by
  by_cases h : 1 &&& get_long s.mem f = 0
  · rw [copy_pte_absent s f t h]
  · rw [(copy_pte_present s f t h).1]
    split_ifs
    · rw [put_long_other _ _ _ _ hf, put_long_other _ _ _ _ ht]
    · rw [put_long_other _ _ _ _ ht]

theorem copy_pte_mem_low (s : Mm) (f t x : Nat) (ht : x < t ∨ t + 4 ≤ x)
    (hl : ¬ pte_ro (get_long s.mem f) > LOW_MEM) : (copy_pte s f t).mem x = s.mem x := by
  by_cases h : 1 &&& get_long s.mem f = 0
  · rw [copy_pte_absent s f t h]
  · rw [(copy_pte_present s f t h).1, if_neg hl, put_long_other _ _ _ _ ht]

theorem copy_pte_dest (s : Mm) (f t : Nat) (h : 1 &&& get_long s.mem f ≠ 0)
    (hd : t + 4 ≤ f ∨ f + 4 ≤ t) :
    get_long (copy_pte s f t).mem t = pte_ro (get_long s.mem f) := by
  rw [(copy_pte_present s f t h).1]
  split_ifs
  · rw [get_put_long_other _ _ _ _ (by omega), get_put_long_same,
      Nat.mod_eq_of_lt (pte_ro_lt _)]
  · rw [get_put_long_same, Nat.mod_eq_of_lt (pte_ro_lt _)]

theorem copy_pte_source (s : Mm) (f t : Nat) (h : 1 &&& get_long s.mem f ≠ 0)
    (hh : pte_ro (get_long s.mem f) > LOW_MEM) :
    get_long (copy_pte s f t).mem f = pte_ro (get_long s.mem f) := by
  rw [(copy_pte_present s f t h).1, if_pos hh, get_put_long_same,
    Nat.mod_eq_of_lt (pte_ro_lt _)]

theorem copy_pte_map_other (s : Mm) (f t k : Nat)
    (hk : 1 &&& get_long s.mem f ≠ 0 → pte_ro (get_long s.mem f) > LOW_MEM →
      pte_nr (get_long s.mem f) ≠ k) :
    (copy_pte s f t).mem_map k = s.mem_map k := by
  by_cases h : 1 &&& get_long s.mem f = 0
  · rw [copy_pte_absent s f t h]
  · rw [(copy_pte_present s f t h).2]
    split_ifs with hh
    · exact Function.update_noteq (Ne.symm (hk h hh)) _ _
    · rfl

theorem copy_pte_map_same (s : Mm) (f t : Nat) (h : 1 &&& get_long s.mem f ≠ 0)
    (hh : pte_ro (get_long s.mem f) > LOW_MEM) :
    (copy_pte s f t).mem_map (pte_nr (get_long s.mem f))
      = s.mem_map (pte_nr (get_long s.mem f)) + 1 := by
  rw [(copy_pte_present s f t h).2, if_pos hh, Function.update_same]

theorem copy_ptes_snoc (nr : Nat) : ∀ (s : Mm) (F T : Nat),
    copy_ptes s F T (nr + 1) = copy_pte (copy_ptes s F T nr) (F + 4 * nr) (T + 4 * nr) := by
  induction nr with
  | zero => intro s F T; rfl
  | succ n ih =>
    intro s F T
    have h1 : copy_ptes s F T (n + 1 + 1)
        = copy_ptes (copy_pte s F T) (F + 4) (T + 4) (n + 1) := rfl
    have h2 : copy_ptes s F T (n + 1) = copy_ptes (copy_pte s F T) (F + 4) (T + 4) n := rfl
    rw [h1, ih, h2]
    have e1 : F + 4 + 4 * n = F + 4 * (n + 1) := by omega
    have e2 : T + 4 + 4 * n = T + 4 * (n + 1) := by omega
    rw [e1, e2]

theorem copy_ptes_spec (s : Mm) (F T : Nat) : ∀ (nr : Nat),
    (F + 4 * nr ≤ T ∨ T + 4 * nr ≤ F) →
    (∀ x, (x < F ∨ F + 4 * nr ≤ x) → (x < T ∨ T + 4 * nr ≤ x) →
      (copy_ptes s F T nr).mem x = s.mem x) ∧
    (∀ j, j < nr → 1 &&& get_long s.mem (F + 4 * j) = 0 → ∀ i, i < 4 →
      (copy_ptes s F T nr).mem (F + 4 * j + i) = s.mem (F + 4 * j + i) ∧
      (copy_ptes s F T nr).mem (T + 4 * j + i) = s.mem (T + 4 * j + i)) ∧
    (∀ j, j < nr → 1 &&& get_long s.mem (F + 4 * j) ≠ 0 →
      get_long (copy_ptes s F T nr).mem (T + 4 * j) = pte_ro (get_long s.mem (F + 4 * j)) ∧
      (pte_ro (get_long s.mem (F + 4 * j)) > LOW_MEM →
        get_long (copy_ptes s F T nr).mem (F + 4 * j) = pte_ro (get_long s.mem (F + 4 * j))) ∧
      (¬ pte_ro (get_long s.mem (F + 4 * j)) > LOW_MEM → ∀ i, i < 4 →
        (copy_ptes s F T nr).mem (F + 4 * j + i) = s.mem (F + 4 * j + i))) ∧
    (∀ k, (∀ j, j < nr → 1 &&& get_long s.mem (F + 4 * j) ≠ 0 →
        pte_ro (get_long s.mem (F + 4 * j)) > LOW_MEM →
        pte_nr (get_long s.mem (F + 4 * j)) ≠ k) →
      (copy_ptes s F T nr).mem_map k = s.mem_map k) ∧
    (∀ j, j < nr → 1 &&& get_long s.mem (F + 4 * j) ≠ 0 →
      pte_ro (get_long s.mem (F + 4 * j)) > LOW_MEM →
      (∀ j2, j2 < nr → j2 ≠ j → 1 &&& get_long s.mem (F + 4 * j2) ≠ 0 →
        pte_ro (get_long s.mem (F + 4 * j2)) > LOW_MEM →
        pte_nr (get_long s.mem (F + 4 * j2)) ≠ pte_nr (get_long s.mem (F + 4 * j))) →
      (copy_ptes s F T nr).mem_map (pte_nr (get_long s.mem (F + 4 * j)))
        = s.mem_map (pte_nr (get_long s.mem (F + 4 * j))) + 1) ∧
    (copy_ptes s F T nr).HIGH_MEMORY = s.HIGH_MEMORY ∧
    (copy_ptes s F T nr).console = s.console := by
  intro nr
  induction nr with
  | zero =>
    intro _
    refine ⟨fun x _ _ => rfl, fun j hj => by omega, fun j hj => by omega, fun k _ => rfl,
      fun j hj => by omega, rfl, rfl⟩
  | succ n ih =>
    intro hd
    obtain ⟨hA, hB, hC, hD, hE, hH, hCo⟩ := ih (by omega)
    rw [copy_ptes_snoc]
    -- the entry read in this turn is still the one of the initial state
    have hv : get_long (copy_ptes s F T n).mem (F + 4 * n) = get_long s.mem (F + 4 * n) :=
      get_long_congr _ _ _ (fun i hi => hA _ (by omega) (by omega))
    have hfix := copy_pte_fixed (copy_ptes s F T n) (F + 4 * n) (T + 4 * n)
    refine ⟨?_, ?_, ?_, ?_, ?_, by rw [hfix.1, hH], by rw [hfix.2, hCo]⟩
    · intro x hx1 hx2
      rw [copy_pte_mem_other _ _ _ _ (by omega) (by omega)]
      exact hA x (by omega) (by omega)
    · intro j hj hab i hi
      by_cases hjn : j = n
      · subst hjn
        rw [copy_pte_absent _ _ _ (by rw [hv]; exact hab)]
        exact ⟨hA _ (by omega) (by omega), hA _ (by omega) (by omega)⟩
      · have hjl : j < n := by omega
        rw [copy_pte_mem_other _ _ _ _ (by omega) (by omega),
          copy_pte_mem_other _ _ _ _ (by omega) (by omega)]
        exact hB j hjl hab i hi
    · intro j hj hpr
      by_cases hjn : j = n
      · subst hjn
        have hpr2 : 1 &&& get_long (copy_ptes s F T j).mem (F + 4 * j) ≠ 0 := by
          rw [hv]; exact hpr
        refine ⟨?_, ?_, ?_⟩
        · rw [copy_pte_dest _ _ _ hpr2 (by omega), hv]
        · intro hh
          rw [copy_pte_source _ _ _ hpr2 (by rw [hv]; exact hh), hv]
        · intro hl i hi
          rw [copy_pte_mem_low _ _ _ _ (by omega) (by rw [hv]; exact hl)]
          exact hA _ (by omega) (by omega)
      · have hjl : j < n := by omega
        obtain ⟨c1, c2, c3⟩ := hC j hjl hpr
        refine ⟨?_, ?_, ?_⟩
        · rw [← c1]
          exact get_long_congr _ _ _
            (fun i hi => copy_pte_mem_other _ _ _ _ (by omega) (by omega))
        · intro hh
          rw [← c2 hh]
          exact get_long_congr _ _ _
            (fun i hi => copy_pte_mem_other _ _ _ _ (by omega) (by omega))
        · intro hl i hi
          rw [copy_pte_mem_other _ _ _ _ (by omega) (by omega)]
          exact c3 hl i hi
    · intro k hk
      rw [copy_pte_map_other _ _ _ _ (by rw [hv]; exact hk n (by omega))]
      exact hD k (fun j hj => hk j (by omega))
    · intro j hj hpr hh huniq
      by_cases hjn : j = n
      · subst hjn
        have hpr2 : 1 &&& get_long (copy_ptes s F T j).mem (F + 4 * j) ≠ 0 := by
          rw [hv]; exact hpr
        have hm := copy_pte_map_same (copy_ptes s F T j) (F + 4 * j) (T + 4 * j) hpr2
          (by rw [hv]; exact hh)
        rw [hv] at hm
        rw [hm, hD _ (fun j2 hj2 => huniq j2 (by omega) (by omega))]
      · have hjl : j < n := by omega
        rw [copy_pte_map_other _ _ _ _
          (by rw [hv]; exact huniq n (by omega) (fun h => hjn h.symm))]
        exact hE j hjl hpr hh (fun j2 hj2 hne => huniq j2 (by omega) hne)

theorem nr_of_le (src : Nat) : nr_of src ≤ 1024 := by
  unfold nr_of
  split_ifs <;> omega

theorem copy_dirs_succ (src : Nat) (s : Mm) (fd td n : Nat) :
    copy_dirs src s fd td (n + 1) =
      if 1 &&& get_long s.mem td ≠ 0 then .panic "copy_page_tables: already exist" s
      else if 1 &&& get_long s.mem fd = 0 then copy_dirs src s (fd + 4) (td + 4) n
      else if (get_free_page s).1 = 0 then .ret (-1) (get_free_page s).2
      else copy_dirs src (copy_dir_step src s fd td) (fd + 4) (td + 4) n := rfl

theorem byte_succ_val (b : Byte) (h : b.val ≤ 254) : (b + 1).val = b.val + 1 := by
  rw [Fin.val_add]
  simp only [Fin.val_one]
  omega

theorem table_at_aligned (s : Mm) (a : Nat) : table_at s a % 4096 = 0 :=
  frame_aligned _

theorem copy_dir_step_spec (src : Nat) (s : Mm) (fd td k0 : Nat)
    (hN : (get_free_page s).1 = LOW_MEM + 4096 * k0) (hk0 : k0 < PAGING_PAGES)
    (hz : s.mem_map k0 = 0)
    (hmm : (get_free_page s).2.mem_map = Function.update s.mem_map k0 1)
    (hmem : (get_free_page s).2.mem = stosl s.mem (LOW_MEM + 4096 * k0 + 4092) 1024)
    (htd : td + 4 ≤ 4096) (hF1 : 4096 ≤ table_at s fd)
    (hF2 : table_at s fd ≠ LOW_MEM + 4096 * k0)
    (hcnt : ∀ j, j < nr_of src → 1 &&& pte_at s fd j ≠ 0 → pte_ro (pte_at s fd j) > LOW_MEM →
      1 ≤ (s.mem_map (pte_nr (pte_at s fd j))).val ∧
      (s.mem_map (pte_nr (pte_at s fd j))).val ≤ 254 ∧
      ∀ j2, j2 < nr_of src → j2 ≠ j → 1 &&& pte_at s fd j2 ≠ 0 →
        pte_ro (pte_at s fd j2) > LOW_MEM →
        pte_nr (pte_at s fd j2) ≠ pte_nr (pte_at s fd j)) :
    (∀ x, (x < LOW_MEM + 4096 * k0 ∨ LOW_MEM + 4096 * k0 + 4096 ≤ x) →
      (x < td ∨ td + 4 ≤ x) → (x < table_at s fd ∨ table_at s fd + 4096 ≤ x) →
      (copy_dir_step src s fd td).mem x = s.mem x) ∧
    get_long (copy_dir_step src s fd td).mem td = (LOW_MEM + 4096 * k0) ||| 7 ∧
    (∀ j, j < nr_of src → 1 &&& pte_at s fd j ≠ 0 →
      get_long (copy_dir_step src s fd td).mem (LOW_MEM + 4096 * k0 + 4 * j)
        = pte_ro (pte_at s fd j) ∧
      (pte_ro (pte_at s fd j) > LOW_MEM →
        get_long (copy_dir_step src s fd td).mem (table_at s fd + 4 * j)
          = pte_ro (pte_at s fd j) ∧
        ((copy_dir_step src s fd td).mem_map (pte_nr (pte_at s fd j))).val
          = (s.mem_map (pte_nr (pte_at s fd j))).val + 1) ∧
      (¬ pte_ro (pte_at s fd j) > LOW_MEM →
        get_long (copy_dir_step src s fd td).mem (table_at s fd + 4 * j) = pte_at s fd j)) ∧
    (∀ k, k ≠ k0 →
      (∀ j, j < nr_of src → 1 &&& pte_at s fd j ≠ 0 → pte_ro (pte_at s fd j) > LOW_MEM →
        pte_nr (pte_at s fd j) ≠ k) →
      (copy_dir_step src s fd td).mem_map k = s.mem_map k) ∧
    (copy_dir_step src s fd td).mem_map k0 = 1 ∧
    (∀ k, (copy_dir_step src s fd td).mem_map k = 0 → s.mem_map k = 0) := by
  have hlow : LOW_MEM = 1048576 := rfl
  have hnr := nr_of_le src
  have hal := table_at_aligned s fd
  -- the state before the entries are copied
  obtain ⟨sb, hsb⟩ : ∃ sb : Mm, sb = { (get_free_page s).2 with
      mem := put_long (get_free_page s).2.mem td ((get_free_page s).1 ||| 7) } := ⟨_, rfl⟩
  have hsc : copy_dir_step src s fd td
      = copy_ptes sb (table_at s fd) (LOW_MEM + 4096 * k0) (nr_of src) := by
    unfold copy_dir_step
    rw [hsb, hN]
  have hsbmem : sb.mem = put_long (stosl s.mem (LOW_MEM + 4096 * k0 + 4092) 1024) td
      ((LOW_MEM + 4096 * k0) ||| 7) := by
    rw [hsb]
    show put_long (get_free_page s).2.mem td _ = _
    rw [hmem, hN]
  have hsbmm : sb.mem_map = Function.update s.mem_map k0 1 := by
    rw [hsb]; exact hmm
  have hst := stosl_spec 1024 s.mem (LOW_MEM + 4096 * k0 + 4092) (by omega)
  have hsb_other : ∀ x, (x < LOW_MEM + 4096 * k0 ∨ LOW_MEM + 4096 * k0 + 4096 ≤ x) →
      (x < td ∨ td + 4 ≤ x) → sb.mem x = s.mem x := by
    intro x h1 h2
    rw [hsbmem, put_long_other _ _ _ _ h2]
    exact hst.2 x (by omega)
  have hdis : table_at s fd + 4096 ≤ LOW_MEM + 4096 * k0 ∨
      LOW_MEM + 4096 * k0 + 4096 ≤ table_at s fd := by omega
  -- the source entries are the same in `sb` and in `s`
  have hent : ∀ j, j < nr_of src →
      get_long sb.mem (table_at s fd + 4 * j) = pte_at s fd j := by
    intro j hj
    unfold pte_at
    exact get_long_congr _ _ _ (fun i hi => hsb_other _ (by omega) (by omega))
  obtain ⟨hA, -, hC, hD, hE, -, -⟩ :=
    copy_ptes_spec sb (table_at s fd) (LOW_MEM + 4096 * k0) (nr_of src) (by omega)
  -- no copied entry maps the page just taken
  have hne0 : ∀ j, j < nr_of src → 1 &&& pte_at s fd j ≠ 0 →
      pte_ro (pte_at s fd j) > LOW_MEM → pte_nr (pte_at s fd j) ≠ k0 := by
    intro j hj hp hh he
    have := (hcnt j hj hp hh).1
    rw [he, hz] at this
    exact absurd this (by decide)
  have hDk : ∀ k, (∀ j, j < nr_of src → 1 &&& pte_at s fd j ≠ 0 →
      pte_ro (pte_at s fd j) > LOW_MEM → pte_nr (pte_at s fd j) ≠ k) →
      (copy_dir_step src s fd td).mem_map k = sb.mem_map k := by
    intro k hk
    rw [hsc]
    exact hD k (fun j hj hp hh => by
      rw [hent j hj] at hp hh ⊢
      exact hk j hj hp hh)
  have hEj : ∀ j, j < nr_of src → 1 &&& pte_at s fd j ≠ 0 →
      pte_ro (pte_at s fd j) > LOW_MEM →
      (copy_dir_step src s fd td).mem_map (pte_nr (pte_at s fd j))
        = s.mem_map (pte_nr (pte_at s fd j)) + 1 := by
    intro j hj hp hh
    have h := hE j hj (by rw [hent j hj]; exact hp) (by rw [hent j hj]; exact hh)
      (fun j2 hj2 hne hp2 hh2 => by
        rw [hent j2 hj2] at hp2 hh2 ⊢
        rw [hent j hj]
        exact (hcnt j hj hp hh).2.2 j2 hj2 hne hp2 hh2)
    rw [hent j hj] at h
    rw [hsc, h, hsbmm, Function.update_noteq (hne0 j hj hp hh)]
  refine ⟨?_, ?_, ?_, ?_, ?_, ?_⟩
  · intro x h1 h2 h3
    rw [hsc, hA x (by omega) (by omega)]
    exact hsb_other x h1 h2
  · rw [hsc]
    have : get_long (copy_ptes sb (table_at s fd) (LOW_MEM + 4096 * k0) (nr_of src)).mem td
        = get_long sb.mem td :=
      get_long_congr _ _ _ (fun i hi => hA _ (by omega) (by omega))
    rw [this, hsbmem, get_put_long_same]
    exact Nat.mod_eq_of_lt (or_seven_lt _ (by
      have : PAGING_PAGES = 3840 := rfl
      omega))
  · intro j hj hp
    obtain ⟨c1, c2, c3⟩ := hC j hj (by rw [hent j hj]; exact hp)
    rw [hent j hj] at c1 c2 c3
    refine ⟨by rw [hsc]; exact c1, fun hh => ⟨by rw [hsc]; exact c2 hh, ?_⟩, fun hl => ?_⟩
    · rw [hEj j hj hp hh]
      exact byte_succ_val _ (hcnt j hj hp hh).2.1
    · rw [hsc]
      have : get_long (copy_ptes sb (table_at s fd) (LOW_MEM + 4096 * k0) (nr_of src)).mem
          (table_at s fd + 4 * j) = get_long sb.mem (table_at s fd + 4 * j) :=
        get_long_congr _ _ _ (fun i hi => c3 hl i hi)
      rw [this, hent j hj]
  · intro k hk hall
    rw [hDk k hall, hsbmm, Function.update_noteq hk]
  · rw [hDk k0 hne0, hsbmm, Function.update_same]
  · intro k hk
    by_cases hk0e : k = k0
    · rw [hk0e]; exact hz
    · by_cases hex : ∃ j, j < nr_of src ∧ 1 &&& pte_at s fd j ≠ 0 ∧
          pte_ro (pte_at s fd j) > LOW_MEM ∧ pte_nr (pte_at s fd j) = k
      · obtain ⟨j, hj, hp, hh, he⟩ := hex
        have h1 := hEj j hj hp hh
        rw [he] at h1
        have h2 := byte_succ_val (s.mem_map k) (by rw [← he]; exact (hcnt j hj hp hh).2.1)
        rw [← h1, hk] at h2
        simp at h2
      · rw [← hk]
        symm
        rw [hDk k (fun j hj hp hh he => hex ⟨j, hj, hp, hh, he⟩), hsbmm,
          Function.update_noteq hk0e]

theorem in_dirs_succ (fd td n a b : Nat) (h : in_dirs (fd + 4) (td + 4) n a b) :
    in_dirs fd td (n + 1) a b ∧ a ≠ fd := by
  obtain ⟨d, hd, ha, hb⟩ := h
  exact ⟨⟨d + 1, by omega, by omega, by omega⟩, by omega⟩

theorem in_dirs_head (fd td n : Nat) : in_dirs fd td (n + 1) fd td :=
  ⟨0, by omega, by omega, by omega⟩

theorem in_dirs_cases (fd td n a b : Nat) (h : in_dirs fd td (n + 1) a b) :
    (a = fd ∧ b = td) ∨ in_dirs (fd + 4) (td + 4) n a b := by
  obtain ⟨d, hd, ha, hb⟩ := h
  cases d with
  | zero => exact Or.inl ⟨by omega, by omega⟩
  | succ e => exact Or.inr ⟨e, by omega, by omega, by omega⟩

theorem in_dirs_bounds (fd td n a b : Nat) (h : in_dirs fd td n a b) :
    fd ≤ a ∧ a + 4 ≤ fd + 4 * n ∧ td ≤ b ∧ b + 4 ≤ td + 4 * n := by
  obtain ⟨d, hd, ha, hb⟩ := h
  omega

theorem copy_wf_tail (src : Nat) (s : Mm) (fd td n : Nat) (h : copy_wf src s fd td (n + 1)) :
    copy_wf src s (fd + 4) (td + 4) n := by
  obtain ⟨w1, w2, w3, w4⟩ := h
  refine ⟨by omega, ?_, ?_, ?_⟩
  · intro a b hab
    exact w2 a b (in_dirs_succ fd td n a b hab).1
  · intro a b a2 b2 hab hab2
    exact w3 a b a2 b2 (in_dirs_succ fd td n a b hab).1 (in_dirs_succ fd td n a2 b2 hab2).1
  · intro a b j hab hc hh
    obtain ⟨h1, h2, h3⟩ := w4 a b j (in_dirs_succ fd td n a b hab).1 hc hh
    exact ⟨h1, h2, fun a2 b2 j2 hab2 => h3 a2 b2 j2 (in_dirs_succ fd td n a2 b2 hab2).1⟩

theorem copy_dirs_spec (src : Nat) : ∀ (n : Nat) (s : Mm) (fd td : Nat)
    (A : Nat → Prop) (K : Nat → Prop) (s2 : Mm),
    copy_wf src s fd td n →
    (∀ x, A x →
      (∀ a b, in_dirs fd td n a b → x < b ∨ b + 4 ≤ x) ∧
      (∀ a b, in_dirs fd td n a b → 1 &&& get_long s.mem a ≠ 0 →
        x < table_at s a ∨ table_at s a + 4096 ≤ x) ∧
      (∀ k, k < PAGING_PAGES → s.mem_map k = 0 →
        x < LOW_MEM + 4096 * k ∨ LOW_MEM + 4096 * k + 4096 ≤ x)) →
    (∀ k, K k → s.mem_map k ≠ 0 ∧
      ∀ a b j, in_dirs fd td n a b → pte_copied src s a j →
        pte_ro (pte_at s a j) > LOW_MEM → pte_nr (pte_at s a j) ≠ k) →
    copy_dirs src s fd td n = .ret 0 s2 →
    (∀ x, A x → s2.mem x = s.mem x) ∧
    (∀ k, K k → s2.mem_map k = s.mem_map k) ∧
    (∀ a b, in_dirs fd td n a b → 1 &&& get_long s.mem a ≠ 0 →
      ∃ T, get_long s2.mem b = T ||| 7 ∧ LOW_MEM ≤ T ∧ T % 4096 = 0 ∧
        ∀ j, pte_copied src s a j →
          get_long s2.mem (T + 4 * j) = pte_ro (pte_at s a j) ∧
          (pte_ro (pte_at s a j) > LOW_MEM →
            get_long s2.mem (table_at s a + 4 * j) = pte_ro (pte_at s a j) ∧
            (s2.mem_map (pte_nr (pte_at s a j))).val
              = (s.mem_map (pte_nr (pte_at s a j))).val + 1) ∧
          (¬ pte_ro (pte_at s a j) > LOW_MEM →
            get_long s2.mem (table_at s a + 4 * j) = pte_at s a j)) := by
  intro n
  induction n with
  | zero =>
    intro s fd td A K s2 _ _ _ hres
    have hs : s = s2 := by
      have : Result.ret (0 : Int) s = Result.ret 0 s2 := hres
      injection this
    subst hs
    refine ⟨fun x _ => rfl, fun k _ => rfl, fun a b hab => ?_⟩
    obtain ⟨d, hd, -, -⟩ := hab
    omega
  | succ n ih =>
    intro s fd td A K s2 hwf hA hK hres
    have hlow : LOW_MEM = 1048576 := rfl
    have hpp : PAGING_PAGES = 3840 := rfl
    rw [copy_dirs_succ] at hres
    by_cases htdp : 1 &&& get_long s.mem td ≠ 0
    · rw [if_pos htdp] at hres
      exact Result.noConfusion hres
    rw [if_neg htdp] at hres
    by_cases hp0 : 1 &&& get_long s.mem fd = 0
    · -- the source directory entry is absent: nothing happens in this turn
      rw [if_pos hp0] at hres
      obtain ⟨frA, frK, hC⟩ := ih s (fd + 4) (td + 4) A K s2 (copy_wf_tail src s fd td n hwf)
        (fun x hx => ⟨fun a b hab => (hA x hx).1 a b (in_dirs_succ fd td n a b hab).1,
          fun a b hab => (hA x hx).2.1 a b (in_dirs_succ fd td n a b hab).1, (hA x hx).2.2⟩)
        (fun k hk => ⟨(hK k hk).1,
          fun a b j hab => (hK k hk).2 a b j (in_dirs_succ fd td n a b hab).1⟩)
        hres
      refine ⟨frA, frK, fun a b hab hpa => ?_⟩
      rcases in_dirs_cases fd td n a b hab with ⟨ha, -⟩ | hab2
      · rw [ha] at hpa
        exact absurd hp0 hpa
      · exact hC a b hab2 hpa
    rw [if_neg hp0] at hres
    by_cases hN0 : (get_free_page s).1 = 0
    · rw [if_pos hN0] at hres
      have : (-1 : Int) = 0 := by injection hres
      exact absurd this (by decide)
    rw [if_neg hN0] at hres
    -- the source directory entry is present and a page was found
    obtain ⟨k0, hk0, hz, -, hN, hmm, hmem, -, -⟩ := get_free_page_ne_zero s hN0
    obtain ⟨w1, w2, w3, w4⟩ := hwf
    have hhead := in_dirs_head fd td n
    have hF := w2 fd td hhead hp0
    have hF0al := table_at_aligned s fd
    have hcnt : ∀ j, j < nr_of src → 1 &&& pte_at s fd j ≠ 0 →
        pte_ro (pte_at s fd j) > LOW_MEM →
        1 ≤ (s.mem_map (pte_nr (pte_at s fd j))).val ∧
        (s.mem_map (pte_nr (pte_at s fd j))).val ≤ 254 ∧
        ∀ j2, j2 < nr_of src → j2 ≠ j → 1 &&& pte_at s fd j2 ≠ 0 →
          pte_ro (pte_at s fd j2) > LOW_MEM →
          pte_nr (pte_at s fd j2) ≠ pte_nr (pte_at s fd j) := by
      intro j hj hpj hh
      obtain ⟨h1, h2, h3⟩ := w4 fd td j hhead ⟨hp0, hj, hpj⟩ hh
      exact ⟨h1, h2, fun j2 hj2 hne hp2 hh2 =>
        h3 fd td j2 hhead ⟨hp0, hj2, hp2⟩ hh2 (Or.inr hne)⟩
    obtain ⟨c1, c2, c3, c4, c5, c6⟩ := copy_dir_step_spec src s fd td k0 hN hk0 hz hmm hmem
      (by omega) hF.1 (hF.2 k0 hk0 hz) hcnt
    obtain ⟨sc, hsc⟩ : ∃ sc, sc = copy_dir_step src s fd td := ⟨_, rfl⟩
    rw [← hsc] at c1 c2 c3 c4 c5 c6 hres
    have hnr := nr_of_le src
    -- the remaining directory entries and their tables are as in `s`
    have hagree : ∀ a b, in_dirs (fd + 4) (td + 4) n a b →
        get_long sc.mem a = get_long s.mem a ∧
        (1 &&& get_long s.mem a ≠ 0 → ∀ j, j < 1024 →
          get_long sc.mem (table_at s a + 4 * j) = get_long s.mem (table_at s a + 4 * j)) := by
      intro a b hab
      obtain ⟨b1, b2, b3, b4⟩ := in_dirs_bounds _ _ _ _ _ hab
      obtain ⟨hab1, hane⟩ := in_dirs_succ fd td n a b hab
      refine ⟨get_long_congr _ _ _ (fun i hi => c1 _ (by omega) (by omega) (by omega)), ?_⟩
      intro hpa j hj
      have hFa := w2 a b hab1 hpa
      have hne := w3 a b fd td hab1 hhead hpa hp0 hane
      have hNe := hFa.2 k0 hk0 hz
      have hal := table_at_aligned s a
      exact get_long_congr _ _ _ (fun i hi => c1 _ (by omega) (by omega) (by omega))
    have htab : ∀ a b, in_dirs (fd + 4) (td + 4) n a b → table_at sc a = table_at s a := by
      intro a b hab
      unfold table_at
      rw [(hagree a b hab).1]
    have hpte : ∀ a b, in_dirs (fd + 4) (td + 4) n a b → 1 &&& get_long s.mem a ≠ 0 →
        ∀ j, j < 1024 → pte_at sc a j = pte_at s a j := by
      intro a b hab hpa j hj
      unfold pte_at
      rw [htab a b hab]
      exact (hagree a b hab).2 hpa j hj
    have hcop : ∀ a b j, in_dirs (fd + 4) (td + 4) n a b →
        (pte_copied src sc a j ↔ pte_copied src s a j) := by
      intro a b j hab
      unfold pte_copied
      rw [(hagree a b hab).1]
      constructor
      · rintro ⟨h1, h2, h3⟩
        exact ⟨h1, h2, by rw [← hpte a b hab h1 j (by omega)]; exact h3⟩
      · rintro ⟨h1, h2, h3⟩
        exact ⟨h1, h2, by rw [hpte a b hab h1 j (by omega)]; exact h3⟩
    -- the counts of the pages the remaining entries map are as in `s`
    have hmapk : ∀ a b j, in_dirs (fd + 4) (td + 4) n a b → pte_copied src s a j →
        pte_ro (pte_at s a j) > LOW_MEM →
        sc.mem_map (pte_nr (pte_at s a j)) = s.mem_map (pte_nr (pte_at s a j)) := by
      intro a b j hab hc hh
      obtain ⟨hab1, hane⟩ := in_dirs_succ fd td n a b hab
      obtain ⟨h1, h2, h3⟩ := w4 a b j hab1 hc hh
      refine c4 _ ?_ ?_
      · intro he
        rw [he, hz] at h1
        exact absurd h1 (by decide)
      · intro j2 hj2 hp2 hh2
        exact h3 fd td j2 hhead ⟨hp0, hj2, hp2⟩ hh2 (Or.inl (Ne.symm hane))
    have hwf2 : copy_wf src sc (fd + 4) (td + 4) n := by
      refine ⟨by omega, ?_, ?_, ?_⟩
      · intro a b hab hpa
        rw [(hagree a b hab).1] at hpa
        rw [htab a b hab]
        have := w2 a b (in_dirs_succ fd td n a b hab).1 hpa
        exact ⟨this.1, fun k hk hzk => this.2 k hk (c6 k hzk)⟩
      · intro a b a2 b2 hab hab2 hpa hpa2 hne
        rw [(hagree a b hab).1] at hpa
        rw [(hagree a2 b2 hab2).1] at hpa2
        rw [htab a b hab, htab a2 b2 hab2]
        exact w3 a b a2 b2 (in_dirs_succ fd td n a b hab).1
          (in_dirs_succ fd td n a2 b2 hab2).1 hpa hpa2 hne
      · intro a b j hab hc hh
        have hc1 := (hcop a b j hab).1 hc
        have hpe := hpte a b hab hc1.1 j (by have := hc1.2.1; omega)
        rw [hpe] at hh ⊢
        rw [hmapk a b j hab hc1 hh]
        obtain ⟨h1, h2, h3⟩ := w4 a b j (in_dirs_succ fd td n a b hab).1 hc1 hh
        refine ⟨h1, h2, fun a2 b2 j2 hab2 hc2 hh2 hne => ?_⟩
        have hc3 := (hcop a2 b2 j2 hab2).1 hc2
        have hpe2 := hpte a2 b2 hab2 hc3.1 j2 (by have := hc3.2.1; omega)
        rw [hpe2] at hh2 ⊢
        exact h3 a2 b2 j2 (in_dirs_succ fd td n a2 b2 hab2).1 hc3 hh2 hne
    -- what must stay as it is while the remaining entries are copied
    obtain ⟨A2, hA2⟩ : ∃ A2 : Nat → Prop, A2 = fun x => A x ∨ (td ≤ x ∧ x < td + 4) ∨
        (table_at s fd ≤ x ∧ x < table_at s fd + 4096) ∨
        (LOW_MEM + 4096 * k0 ≤ x ∧ x < LOW_MEM + 4096 * k0 + 4096) := ⟨_, rfl⟩
    obtain ⟨K2, hK2⟩ : ∃ K2 : Nat → Prop, K2 = fun k => K k ∨
        ∃ j, j < nr_of src ∧ 1 &&& pte_at s fd j ≠ 0 ∧ pte_ro (pte_at s fd j) > LOW_MEM ∧
          pte_nr (pte_at s fd j) = k := ⟨_, rfl⟩
    have hKsc : ∀ k, K k → sc.mem_map k = s.mem_map k := by
      intro k hk
      refine c4 k ?_ ?_
      · intro he
        exact (hK k hk).1 (by rw [he]; exact hz)
      · intro j hj hpj hh
        exact (hK k hk).2 fd td j hhead ⟨hp0, hj, hpj⟩ hh
    have hsepA : ∀ x, A2 x →
        (∀ a b, in_dirs (fd + 4) (td + 4) n a b → x < b ∨ b + 4 ≤ x) ∧
        (∀ a b, in_dirs (fd + 4) (td + 4) n a b → 1 &&& get_long sc.mem a ≠ 0 →
          x < table_at sc a ∨ table_at sc a + 4096 ≤ x) ∧
        (∀ k, k < PAGING_PAGES → sc.mem_map k = 0 →
          x < LOW_MEM + 4096 * k ∨ LOW_MEM + 4096 * k + 4096 ≤ x) := by
      intro x hx
      rw [hA2] at hx
      refine ⟨?_, ?_, ?_⟩
      · intro a b hab
        obtain ⟨b1, b2, b3, b4⟩ := in_dirs_bounds _ _ _ _ _ hab
        rcases hx with hx | hx | hx | hx
        · exact (hA x hx).1 a b (in_dirs_succ fd td n a b hab).1
        · omega
        · omega
        · omega
      · intro a b hab hpa
        rw [(hagree a b hab).1] at hpa
        rw [htab a b hab]
        obtain ⟨hab1, hane⟩ := in_dirs_succ fd td n a b hab
        have hFa := w2 a b hab1 hpa
        have hne := w3 a b fd td hab1 hhead hpa hp0 hane
        have hNe := hFa.2 k0 hk0 hz
        have hal := table_at_aligned s a
        rcases hx with hx | hx | hx | hx
        · exact (hA x hx).2.1 a b hab1 hpa
        · omega
        · omega
        · omega
      · intro k hk hzk
        have hzs := c6 k hzk
        have hFk := hF.2 k hk hzs
        have hkk : k ≠ k0 := by
          intro he
          rw [he, c5] at hzk
          exact absurd hzk (by decide)
        rcases hx with hx | hx | hx | hx
        · exact (hA x hx).2.2 k hk hzs
        · omega
        · omega
        · omega
    have hsepK : ∀ k, K2 k → sc.mem_map k ≠ 0 ∧
        ∀ a b j, in_dirs (fd + 4) (td + 4) n a b → pte_copied src sc a j →
          pte_ro (pte_at sc a j) > LOW_MEM → pte_nr (pte_at sc a j) ≠ k := by
      intro k hk
      rw [hK2] at hk
      constructor
      · rcases hk with hk | ⟨j, hj, hpj, hh, he⟩
        · rw [hKsc k hk]
          exact (hK k hk).1
        · have := (c3 j hj hpj).2.1 hh
          rw [he] at this
          intro h0
          rw [h0] at this
          simp at this
      · intro a b j hab hc hh
        have hc1 := (hcop a b j hab).1 hc
        have hpe := hpte a b hab hc1.1 j (by have := hc1.2.1; omega)
        rw [hpe] at hh ⊢
        obtain ⟨hab1, hane⟩ := in_dirs_succ fd td n a b hab
        rcases hk with hk | ⟨j0, hj0, hpj0, hh0, he0⟩
        · exact (hK k hk).2 a b j hab1 hc1 hh
        · rw [← he0]
          exact ((w4 fd td j0 hhead ⟨hp0, hj0, hpj0⟩ hh0).2.2 a b j hab1 hc1 hh
            (Or.inl hane))
    obtain ⟨frA, frK, hC⟩ := ih sc (fd + 4) (td + 4) A2 K2 s2 hwf2 hsepA hsepK hres
    have hA2A : ∀ x, A x → A2 x := by
      intro x hx; rw [hA2]; exact Or.inl hx
    have hA2td : ∀ x, td ≤ x → x < td + 4 → A2 x := by
      intro x h1 h2; rw [hA2]; exact Or.inr (Or.inl ⟨h1, h2⟩)
    have hA2F : ∀ x, table_at s fd ≤ x → x < table_at s fd + 4096 → A2 x := by
      intro x h1 h2; rw [hA2]; exact Or.inr (Or.inr (Or.inl ⟨h1, h2⟩))
    have hA2N : ∀ x, LOW_MEM + 4096 * k0 ≤ x → x < LOW_MEM + 4096 * k0 + 4096 → A2 x := by
      intro x h1 h2; rw [hA2]; exact Or.inr (Or.inr (Or.inr ⟨h1, h2⟩))
    refine ⟨?_, ?_, ?_⟩
    · intro x hx
      rw [frA x (hA2A x hx)]
      have h1 := (hA x hx).1 fd td hhead
      have h2 := (hA x hx).2.1 fd td hhead hp0
      have h3 := (hA x hx).2.2 k0 hk0 hz
      exact c1 x h3 h1 h2
    · intro k hk
      rw [frK k (by rw [hK2]; exact Or.inl hk)]
      exact hKsc k hk
    · intro a b hab hpa
      rcases in_dirs_cases fd td n a b hab with ⟨ha, hb⟩ | hab2
      · -- the entry of this turn
        subst ha
        subst hb
        refine ⟨LOW_MEM + 4096 * k0, ?_, by omega, by omega, ?_⟩
        · have : get_long s2.mem b = get_long sc.mem b :=
            get_long_congr _ _ _ (fun i hi => frA _ (hA2td _ (by omega) (by omega)))
          rw [this, c2]
        · intro j hc
          obtain ⟨-, hj, hpj⟩ := hc
          obtain ⟨d1, d2, d3⟩ := c3 j hj hpj
          refine ⟨?_, fun hh => ⟨?_, ?_⟩, fun hl => ?_⟩
          · rw [← d1]
            exact get_long_congr _ _ _ (fun i hi => frA _ (hA2N _ (by omega) (by omega)))
          · rw [← (d2 hh).1]
            exact get_long_congr _ _ _ (fun i hi => frA _ (hA2F _ (by omega) (by omega)))
          · rw [← (d2 hh).2]
            exact congrArg Fin.val
              (frK _ (by rw [hK2]; exact Or.inr ⟨j, hj, hpj, hh, rfl⟩))
          · rw [← d3 hl]
            exact get_long_congr _ _ _ (fun i hi => frA _ (hA2F _ (by omega) (by omega)))
      · -- an entry of a later turn
        have hpa2 : 1 &&& get_long sc.mem a ≠ 0 := by rw [(hagree a b hab2).1]; exact hpa
        obtain ⟨T, t1, t2, t3, t4⟩ := hC a b hab2 hpa2
        refine ⟨T, t1, t2, t3, fun j hc => ?_⟩
        have hc2 := (hcop a b j hab2).2 hc
        have hpe := hpte a b hab2 hpa j (by have := hc.2.1; omega)
        obtain ⟨e1, e2, e3⟩ := t4 j hc2
        rw [hpe] at e1 e2 e3
        rw [htab a b hab2] at e2 e3
        refine ⟨e1, fun hh => ⟨(e2 hh).1, ?_⟩, e3⟩
        rw [(e2 hh).2, hmapk a b j hab2 hc hh]

theorem testBit_ro_mask (i : Nat) :
    Nat.testBit 0xfffffffd i = (decide (i < 32) && decide (i ≠ 1)) := by
  by_cases h : i < 32
  · interval_cases i <;> rfl
  · have hlt : (0xfffffffd : Nat) < 2 ^ 32 := by norm_num
    have hle : 2 ^ 32 ≤ 2 ^ i := Nat.pow_le_pow_right (by norm_num) (by omega)
    rw [Nat.testBit_lt_two_pow (lt_of_lt_of_le hlt hle)]
    simp [h]

theorem testBit_of_lt (v i : Nat) (hv : v < 4294967296) (hi : 32 ≤ i) :
    v.testBit i = false := by
  have hle : 2 ^ 32 ≤ 2 ^ i := Nat.pow_le_pow_right (by norm_num) hi
  exact Nat.testBit_lt_two_pow (lt_of_lt_of_le (by norm_num; exact hv) hle)

theorem pte_ro_bit (v : Nat) : (pte_ro v).testBit 1 = false := by
  unfold pte_ro
  rw [Nat.testBit_and, testBit_ro_mask]
  simp

theorem pte_ro_div (v : Nat) (hv : v < 4294967296) : pte_ro v / 4096 = v / 4096 := by
  have h : pte_ro v >>> 12 = v >>> 12 := by
    apply Nat.eq_of_testBit_eq
    intro i
    unfold pte_ro
    rw [Nat.testBit_shiftRight, Nat.testBit_shiftRight, Nat.testBit_and, testBit_ro_mask]
    by_cases hi : 12 + i < 32
    · have : 12 + i ≠ 1 := by omega
      simp [hi, this]
    · rw [testBit_of_lt v (12 + i) hv (by omega)]
      simp
  rw [Nat.shiftRight_eq_div_pow, Nat.shiftRight_eq_div_pow] at h
  exact h

theorem pte_ro_mod (v : Nat) : pte_ro v % 2 = v % 2 := by
  unfold pte_ro
  rw [← Nat.and_one_is_mod, ← Nat.and_one_is_mod, Nat.and_assoc]
  rfl

theorem frame_eq (v : Nat) (hv : v < 4294967296) : 0xfffff000 &&& v = v / 4096 * 4096 := by
  have h : 0xfffff000 &&& v = (v >>> 12) <<< 12 := by
    apply Nat.eq_of_testBit_eq
    intro i
    rw [Nat.testBit_and, testBit_frame_mask, Nat.testBit_shiftLeft, Nat.testBit_shiftRight]
    by_cases hi : 12 ≤ i
    · have e : 12 + (i - 12) = i := by omega
      rw [e]
      by_cases h32 : i < 32
      · simp [hi, h32]
      · rw [testBit_of_lt v i hv (by omega)]
        simp
    · simp [hi]
  rw [h, Nat.shiftLeft_eq, Nat.shiftRight_eq_div_pow]

theorem pte_high_iff (v : Nat) (hv : v < 4294967296) (hp : 1 &&& v ≠ 0) :
    (pte_ro v > LOW_MEM ↔ LOW_MEM ≤ 0xfffff000 &&& v) ∧
    (pte_ro v > LOW_MEM → pte_nr v = MAP_NR (0xfffff000 &&& v)) := by
  have h1 := pte_ro_div v hv
  have h2 := pte_ro_mod v
  have h3 := frame_eq v hv
  have hodd : v % 2 = 1 := by
    rw [Nat.one_and_eq_mod_two] at hp
    omega
  have hlow : LOW_MEM = 1048576 := rfl
  have hrl := pte_ro_lt v
  constructor
  · rw [h3]
    constructor
    · intro h; omega
    · intro h; omega
  · intro hh
    have hfl : LOW_MEM ≤ 0xfffff000 &&& v := by rw [h3]; omega
    have hflt : 0xfffff000 &&& v < 4294967296 := lt_of_le_of_lt Nat.and_le_right hv
    rw [MAP_NR_eq _ hfl hflt, h3]
    unfold pte_nr
    rw [Nat.shiftRight_eq_div_pow]
    omega

theorem in_dirs_one (fd td a b : Nat) (h : in_dirs fd td 1 a b) : a = fd ∧ b = td := by
  obtain ⟨d, hd, ha, hb⟩ := h
  omega

theorem pte_ro_le (v : Nat) : pte_ro v ≤ v := Nat.and_le_left

theorem mm1_pte_low (j : Nat) : ¬ pte_ro (pte_at mm1 0 j) > LOW_MEM := by
  have ht : table_at mm1 0 = 4096 := by decide
  have h2 : mm1.mem (4096 + 4 * j + 2) = 0 := by
    unfold mm1
    simp only []
    split_ifs <;> first | rfl | (exfalso; assumption) | (exfalso; omega)
  have h3 : mm1.mem (4096 + 4 * j + 3) = 0 := by
    unfold mm1
    simp only []
    split_ifs <;> first | rfl | (exfalso; assumption) | (exfalso; omega)
  have hle := pte_ro_le (pte_at mm1 0 j)
  have hv : pte_at mm1 0 j < LOW_MEM := by
    unfold pte_at get_long
    rw [ht, h2, h3]
    have b0 := (mm1.mem (4096 + 4 * j)).isLt
    have b1 := (mm1.mem (4096 + 4 * j + 1)).isLt
    simp only [LOW_MEM, Fin.val_zero]
    omega
  omega

theorem mm0_pte (j : Nat) :
    pte_at mm0 64 j =
      if j = 0 then LOW_MEM + 0x3005 else if j = 1 then LOW_MEM + 0x6005 else 0 := by
  have ht : table_at mm0 64 = 0x2000 := by decide
  by_cases h0 : j = 0
  · subst h0; decide
  · by_cases h1 : j = 1
    · subst h1; decide
    · rw [if_neg h0, if_neg h1]
      have hb : ∀ x, 0x2008 ≤ x → mm0.mem x = 0 := by
        intro x hx
        unfold mm0
        simp only []
        split_ifs <;> first | rfl | (exfalso; omega)
      unfold pte_at get_long
      rw [ht, hb _ (by omega), hb _ (by omega), hb _ (by omega), hb _ (by omega)]
      rfl

theorem mm0_copy_wf : copy_wf 0x4000000 mm0 64 128 1 := by
  have hlow : LOW_MEM = 1048576 := rfl
  have ht : table_at mm0 64 = 0x2000 := by decide
  refine ⟨by omega, ?_, ?_, ?_⟩
  · intro a b hab _
    obtain ⟨ha, -⟩ := in_dirs_one _ _ _ _ hab
    subst ha
    rw [ht]
    exact ⟨by omega, fun k _ _ => by omega⟩
  · intro a b a2 b2 hab hab2 _ _ hne
    obtain ⟨ha, -⟩ := in_dirs_one _ _ _ _ hab
    obtain ⟨ha2, -⟩ := in_dirs_one _ _ _ _ hab2
    omega
  · intro a b j hab hc hh
    obtain ⟨ha, -⟩ := in_dirs_one _ _ _ _ hab
    subst ha
    have hpj := hc.2.2
    rw [mm0_pte] at hpj hh ⊢
    by_cases h0 : j = 0
    · subst h0
      refine ⟨by decide, by decide, fun a2 b2 j2 hab2 hc2 hh2 hne => ?_⟩
      obtain ⟨ha2, -⟩ := in_dirs_one _ _ _ _ hab2
      subst ha2
      have hpj2 := hc2.2.2
      rw [mm0_pte] at hpj2 hh2 ⊢
      have hj2 : j2 ≠ 0 := by
        rcases hne with h | h
        · exact absurd rfl h
        · exact h
      by_cases h1 : j2 = 1
      · subst h1; decide
      · rw [if_neg hj2, if_neg h1] at hpj2
        exact absurd rfl hpj2
    · by_cases h1 : j = 1
      · subst h1
        refine ⟨by decide, by decide, fun a2 b2 j2 hab2 hc2 hh2 hne => ?_⟩
        obtain ⟨ha2, -⟩ := in_dirs_one _ _ _ _ hab2
        subst ha2
        have hpj2 := hc2.2.2
        rw [mm0_pte] at hpj2 hh2 ⊢
        have hj2 : j2 ≠ 1 := by
          rcases hne with h | h
          · exact absurd rfl h
          · exact h
        by_cases h0 : j2 = 0
        · subst h0; decide
        · rw [if_neg h0, if_neg hj2] at hpj2
          exact absurd rfl hpj2
      · rw [if_neg h0, if_neg h1] at hpj
        exact absurd rfl hpj

/-! ### Lemmas on `release` and `sys_waitpid` -/

theorem sched_same_refl (a : Option task_struct) : sched_same a a := by
  cases a with
  | none => exact True.intro
  | some t => rfl

theorem sched_same_trans (a b c : Option task_struct) (h1 : sched_same a b)
    (h2 : sched_same b c) : sched_same a c := by
  cases a with
  | none =>
    cases b with
    | none => exact h2
    | some u => exact h1.elim
  | some t =>
    cases b with
    | none => exact h1.elim
    | some u =>
      cases c with
      | none => exact h2.elim
      | some v =>
        unfold sched_same at *
        simp only [] at *
        rw [h2, h1]

theorem sched_same_map (body : task_struct → task_struct) (a : Option task_struct)
    (h : ∀ t, sched_same (some t) (some (body t))) : sched_same a (a.map body) := by
  cases a with
  | none => exact True.intro
  | some t => exact h t

theorem sched_same_wake (jiffies : Int) (t : task_struct) :
    sched_same (some t) (some (schedule_wake jiffies t)) := by
  unfold sched_same schedule_wake
  simp only []
  split_ifs <;> rfl

theorem sched_same_recount (t : task_struct) :
    sched_same (some t) (some (schedule_recount t)) := rfl

theorem for_each_task_same (body : task_struct → task_struct)
    (h : ∀ t, sched_same (some t) (some (body t))) (task : TaskTable) (n i : Nat) :
    sched_same (task i) (for_each_task body task n i) := by
  rw [for_each_task_spec]
  split_ifs
  · exact sched_same_map body _ h
  · exact sched_same_refl _

theorem schedule_loop_same : ∀ (fuel : Nat) (task : TaskTable) (r : TaskTable × Nat),
    schedule_loop task fuel = some r → ∀ i, sched_same (task i) (r.1 i) := by
  intro fuel
  induction fuel with
  | zero => intro task r h; exact Option.noConfusion h
  | succ fuel ih =>
    intro task r h i
    unfold schedule_loop at h
    simp only [] at h
    split_ifs at h with hc
    · cases h
      exact sched_same_refl _
    · exact sched_same_trans _ _ _ (for_each_task_same _ sched_same_recount task _ i)
        (ih _ r h i)

theorem schedule_same (jiffies : Int) (task : TaskTable) (fuel : Nat) (r : TaskTable × Nat)
    (h : schedule jiffies task fuel = some r) (i : Nat) : sched_same (task i) (r.1 i) :=
  sched_same_trans _ _ _ (for_each_task_same _ (sched_same_wake jiffies) task _ i)
    (schedule_loop_same fuel _ r h i)

theorem sched_same_isSome (a b : Option task_struct) (h : sched_same a b) :
    b.isSome = a.isSome := by
  cases a <;> cases b <;> first | rfl | exact h.elim

theorem release_find_spec (page : Nat → Nat) (task : TaskTable) (z : Nat)
    (hz : (task z).isSome) : ∀ (n i : Nat), i ≤ z → z < i + n →
    (∀ j, i ≤ j → j < z → (task j).isSome → page j ≠ page z) →
    release_find page task (page z) i n = some z := by
  intro n
  induction n with
  | zero => intro i h1 h2; omega
  | succ n ih =>
    intro i h1 h2 hp
    unfold release_find
    by_cases hi : i = z
    · subst hi
      rw [if_pos ⟨hz, rfl⟩]
    · have : ¬ ((task i).isSome ∧ page i = page z) := fun h =>
        hp i (le_refl _) (by omega) h.1 h.2
      rw [if_neg this]
      exact ih (i + 1) (by omega) (by omega) (fun j g1 g2 => hp j (by omega) g2)

theorem waitpid_scan_none (cur : Nat) (current : task_struct) (task : TaskTable) (pid : Int)
    (options : Nat) : ∀ (n : Nat) (flag : Int),
    (∀ i t, 1 ≤ i → i ≤ n → task i = some t → waitpid_skip cur current pid i t = true) →
    waitpid_scan cur current task pid options n flag = .done flag := by
  intro n
  induction n with
  | zero => intro flag _; rfl
  | succ n ih =>
    intro flag h
    unfold waitpid_scan
    cases ht : task (n + 1) with
    | none => exact ih flag (fun i t h1 h2 => h i t h1 (by omega))
    | some t =>
      simp only []
      rw [if_pos (h (n + 1) t (by omega) (le_refl _) ht)]
      exact ih flag (fun i t h1 h2 => h i t h1 (by omega))

theorem waitpid_scan_zombie (cur : Nat) (current : task_struct) (task : TaskTable) (pid : Int)
    (options z : Nat) (ch : task_struct) (hz : 1 ≤ z) (hch : task z = some ch)
    (hm : waitpid_skip cur current pid z ch = false) (hs : ch.state = TASK_ZOMBIE) :
    ∀ (n : Nat) (flag : Int), z ≤ n →
    (∀ j t, z < j → j ≤ n → task j = some t → waitpid_skip cur current pid j t = false →
      t.state ≠ TASK_ZOMBIE ∧ (t.state = TASK_STOPPED → options &&& WUNTRACED = 0)) →
    waitpid_scan cur current task pid options n flag = .zombie z ch := by
  intro n
  induction n with
  | zero => intro flag h; omega
  | succ n ih =>
    intro flag hn hh
    unfold waitpid_scan
    by_cases hzn : z = n + 1
    · subst hzn
      rw [hch]
      simp only []
      have h43 : ¬ (ch.state = TASK_STOPPED) := by rw [hs]; decide
      rw [hm, if_neg (by decide), if_neg h43, if_pos hs]
    · have hrec : ∀ flag, waitpid_scan cur current task pid options n flag = .zombie z ch :=
        fun flag => ih flag (by omega) (fun j t h1 h2 => hh j t h1 (by omega))
      cases ht : task (n + 1) with
      | none => exact hrec flag
      | some t =>
        simp only []
        by_cases hsk : waitpid_skip cur current pid (n + 1) t = true
        · rw [if_pos hsk]; exact hrec flag
        · rw [if_neg hsk]
          obtain ⟨g1, g2⟩ := hh (n + 1) t (by omega) (le_refl _) ht (by simpa using hsk)
          by_cases hst : t.state = TASK_STOPPED
          · rw [if_pos hst, if_pos (g2 hst)]; exact hrec flag
          · rw [if_neg hst, if_neg g1]; exact hrec 1

theorem free_page_ret (s : Mm) (addr : Nat) (h : (free_page s addr).isPanic = false) :
    free_page s addr = .ret () (free_page s addr).state := by
  unfold free_page at h ⊢
  simp only [] at h ⊢
  split_ifs at h ⊢ <;> first | rfl | exact absurd h (by simp [Result.isPanic])

theorem waitpid_skip_ne (cur : Nat) (current : task_struct) (pid : Int) (p : Nat)
    (t : task_struct) (h : waitpid_skip cur current pid p t = false) : p ≠ cur := by
  intro hp
  unfold waitpid_skip at h
  rw [if_pos hp] at h
  exact Bool.noConfusion h

/-! ### Lemmas on the buffer cache and the block map -/

theorem same_view_refl (s : Fs) : same_view s s :=
  ⟨rfl, rfl, rfl, rfl, rfl, rfl, rfl, rfl, fun _ => ⟨rfl, rfl, rfl, fun h => h⟩⟩

theorem same_view_trans (s t u : Fs) (h1 : same_view s t) (h2 : same_view t u) :
    same_view s u := by
  obtain ⟨a1, a2, a3, a4, a5, a6, a7, a8, a9⟩ := h1
  obtain ⟨b1, b2, b3, b4, b5, b6, b7, b8, b9⟩ := h2
  refine ⟨b1.trans a1, b2.trans a2, b3.trans a3, b4.trans a4, b5.trans a5, b6.trans a6,
    b7.trans a7, b8.trans a8, fun key => ?_⟩
  obtain ⟨c1, c2, c3, c4⟩ := a9 key
  obtain ⟨d1, d2, d3, d4⟩ := b9 key
  exact ⟨d1.trans c1, d2.trans c2, d3.trans c3, fun h => d4 (c4 h)⟩

theorem same_view_readable (s t : Fs) (h : same_view s t) (key : Nat × Nat)
    (hr : readable s key) : readable t key := by
  obtain ⟨-, a2, -, -, -, -, -, -, a9⟩ := h
  rcases hr with hr | hr
  · exact Or.inl ((a9 key).2.2.2 hr)
  · exact Or.inr (by rw [a2]; exact hr)

theorem same_view_buffer (s : Fs) (buf : Nat × Nat → buffer_head)
    (h : ∀ key, (if (buf key).b_uptodate ≠ 0 then (buf key).b_data else s.disk key)
        = block_data s key ∧
      (buf key).b_count = (s.buffer key).b_count ∧
      (buf key).b_dirt = (s.buffer key).b_dirt ∧
      ((s.buffer key).b_uptodate ≠ 0 → (buf key).b_uptodate ≠ 0)) :
    same_view s { s with buffer := buf } :=
  ⟨rfl, rfl, rfl, rfl, rfl, rfl, rfl, rfl, h⟩

theorem bread_spec (s : Fs) (dev block : Nat) (hr : readable s (dev, block)) :
    (bread s dev block).1 = some (dev, block) ∧
    ((bread s dev block).2.buffer (dev, block)).b_data = block_data s (dev, block) ∧
    same_view s (brelse (bread s dev block).2 (some (dev, block))) := by
  by_cases hu : (s.buffer (dev, block)).b_uptodate ≠ 0
  · have hb : bread s dev block = (some (dev, block), getblk s dev block) := by
      unfold bread
      simp only [getblk, Function.update_same]
      rw [if_pos hu]
    rw [hb]
    refine ⟨rfl, ?_, ?_⟩
    · simp only [getblk, Function.update_same, block_data, if_pos hu]
    · apply same_view_buffer
      intro key
      by_cases hk : key = (dev, block)
      · subst hk
        simp [getblk, block_data, hu]
      · simp [getblk, block_data, Function.update_noteq hk]
  · have hio : s.io_error (dev, block) = false := by
      rcases hr with h | h
      · exact absurd h hu
      · exact h
    have hu0 : (s.buffer (dev, block)).b_uptodate = 0 := by simpa using hu
    have hb : bread s dev block = (some (dev, block),
        { getblk s dev block with buffer := Function.update (getblk s dev block).buffer (dev, block) { (getblk s dev block).buffer (dev, block) with b_data := s.disk (dev, block), b_uptodate := 1 } }) := by
      unfold bread
      simp only [getblk, Function.update_same]
      rw [if_neg hu, hio]
      simp
    rw [hb]
    refine ⟨rfl, ?_, ?_⟩
    · simp only [Function.update_same, block_data, if_neg hu]
    · apply same_view_buffer
      intro key
      by_cases hk : key = (dev, block)
      · subst hk
        simp [getblk, block_data, hu0]
      · simp [getblk, block_data, Function.update_noteq hk]

theorem bmap_indirect_read (s : Fs) (inode z k : Nat)
    (hr : readable s ((s.inode_table inode).i_dev, z)) :
    ∃ t, bmap_indirect s inode z k false
        = .ok (((if z = 0 then 0
          else get_word (block_data s ((s.inode_table inode).i_dev, z)) k : Nat) : Int), t) ∧
      same_view s t := by
  unfold bmap_indirect
  by_cases hz : z = 0
  · rw [if_pos hz, if_pos hz]
    exact ⟨s, rfl, same_view_refl s⟩
  · rw [if_neg hz, if_neg hz]
    obtain ⟨h1, h2, h3⟩ := bread_spec s _ z hr
    simp only []
    rw [h1]
    simp only [bmap_entry]
    refine ⟨_, ?_, h3⟩
    rw [if_neg (by simp), h2]

theorem get_word_lt (data : Nat → Byte) (i : Nat) : get_word data i < 65536 := by
  unfold get_word
  have h1 := (data (2 * i)).isLt
  have h2 := (data (2 * i + 1)).isLt
  omega

theorem of_long_natCast (n : Nat) (h : n < 4294967296) : of_long (n : Int) = n := by
  unfold of_long
  omega

theorem bmap_zone_read (s : Fs) (inode k : Nat) : bmap_zone s inode k false = .ok s := by
  unfold bmap_zone
  rw [if_neg (by simp)]

/-! ### Lemmas on the bitmaps -/

theorem testBit_get_long (mem : Nat → Byte) (a k : Nat) (hk : k < 32) :
    (get_long mem a).testBit k = (mem (a + k / 8)).val.testBit (k % 8) := by
  have h0 := (mem a).isLt
  have h1 := (mem (a + 1)).isLt
  have h2 := (mem (a + 2)).isLt
  have h3 := (mem (a + 3)).isLt
  simp only [Nat.testBit_to_div_mod, get_long]
  interval_cases k <;> simp only [Nat.reduceDiv, Nat.reduceMod, Nat.reducePow, Nat.add_zero] <;>
    exact decide_eq_decide.mpr (by omega)

theorem not32_lt (x : Nat) : not32 x < 4294967296 := by
  unfold not32
  exact Nat.xor_lt_two_pow (n := 32) (by decide) (Nat.mod_lt _ (by decide))

theorem bsfl_spec (eax : Nat) : ∀ (n i k : Nat), i ≤ k → k < i + n → eax.testBit k = true →
    i ≤ bsfl eax i n ∧ bsfl eax i n ≤ k ∧ eax.testBit (bsfl eax i n) = true ∧
    ∀ x, i ≤ x → x < bsfl eax i n → eax.testBit x = false := by
  intro n
  induction n with
  | zero => intro i k h1 h2; omega
  | succ n ih =>
    intro i k h1 h2 h3
    unfold bsfl
    by_cases hi : eax.testBit i = true
    · rw [if_pos hi]
      exact ⟨le_refl _, h1, hi, fun x g1 g2 => by omega⟩
    · rw [if_neg hi]
      have hik : i ≠ k := fun h => hi (h ▸ h3)
      obtain ⟨g1, g2, g3, g4⟩ := ih (i + 1) k (by omega) (by omega) h3
      refine ⟨by omega, g2, g3, fun x a1 a2 => ?_⟩
      by_cases hx : x = i
      · subst hx; simpa using hi
      · exact g4 x (by omega) a2

theorem find_first_zero_loop_spec (data : Nat → Byte) : ∀ (n ecx : Nat), ecx % 32 = 0 →
    ecx ≤ find_first_zero_loop data ecx n ∧ find_first_zero_loop data ecx n ≤ ecx + 32 * n ∧
    (∀ b, ecx ≤ b → b < find_first_zero_loop data ecx n → test_bit data b = true) ∧
    (find_first_zero_loop data ecx n < ecx + 32 * n →
      test_bit data (find_first_zero_loop data ecx n) = false) := by
  intro n
  induction n with
  | zero =>
    intro ecx _
    unfold find_first_zero_loop
    exact ⟨le_refl _, by omega, fun b h1 h2 => by omega, fun h => by omega⟩
  | succ n ih =>
    intro ecx hecx
    have hbit : ∀ k, k < 32 → (not32 (get_long data (ecx / 8))).testBit k
        = !test_bit data (ecx + k) := by
      intro k hk
      rw [testBit_not32, testBit_get_long _ _ _ hk]
      unfold test_bit
      have e1 : (ecx + k) / 8 = ecx / 8 + k / 8 := by omega
      have e2 : (ecx + k) % 8 = k % 8 := by omega
      rw [e1, e2]
      simp [hk]
    unfold find_first_zero_loop
    simp only []
    by_cases h0 : not32 (get_long data (ecx / 8)) ≠ 0
    · rw [if_pos h0]
      obtain ⟨k, hk⟩ := Nat.ne_zero_implies_bit_true h0
      have hk32 : k < 32 := by
        by_contra hge
        have := testBit_of_lt (not32 (get_long data (ecx / 8))) k (not32_lt _) (by omega)
        rw [this] at hk
        exact Bool.false_ne_true hk
      obtain ⟨g1, g2, g3, g4⟩ := bsfl_spec _ 32 0 k (by omega) (by omega) hk
      have hr32 : bsfl (not32 (get_long data (ecx / 8))) 0 32 < 32 := by omega
      refine ⟨by omega, by omega, fun b b1 b2 => ?_, fun _ => ?_⟩
      · have := g4 (b - ecx) (by omega) (by omega)
        rw [hbit _ (by omega)] at this
        have e : ecx + (b - ecx) = b := by omega
        rw [e] at this
        simpa using this
      · rw [hbit _ hr32] at g3
        simpa using g3
    · rw [if_neg h0]
      have h00 : not32 (get_long data (ecx / 8)) = 0 := by simpa using h0
      obtain ⟨g1, g2, g3, g4⟩ := ih (ecx + 32) (by omega)
      refine ⟨by omega, by omega, fun b b1 b2 => ?_, fun h => g4 (by omega)⟩
      by_cases hb : b < ecx + 32
      · have := hbit (b - ecx) (by omega)
        rw [h00, Nat.zero_testBit] at this
        have e : ecx + (b - ecx) = b := by omega
        rw [e] at this
        simpa using this.symm
      · exact g3 b (by omega) b2

theorem find_first_zero_spec (data : Nat → Byte) :
    find_first_zero data ≤ 8192 ∧
    (∀ b, b < find_first_zero data → test_bit data b = true) ∧
    (find_first_zero data < 8192 → test_bit data (find_first_zero data) = false) := by
  obtain ⟨-, g2, g3, g4⟩ := find_first_zero_loop_spec data 256 0 rfl
  exact ⟨by unfold find_first_zero; omega, fun b hb => g3 b (Nat.zero_le _) hb,
    fun h => g4 (by unfold find_first_zero at h; omega)⟩

theorem test_bit_set_bit (data : Nat → Byte) (j k : Nat) :
    test_bit (set_bit data j) k = (test_bit data k || decide (k = j)) := by
  unfold test_bit set_bit
  by_cases h8 : k / 8 = j / 8
  · rw [h8, Function.update_same]
    have hm : j % 8 < 8 := Nat.mod_lt _ (by decide)
    have hk : k % 8 < 8 := Nat.mod_lt _ (by decide)
    show (((data (j / 8)).val ||| 1 <<< (j % 8)) % 256).testBit (k % 8) = _
    have e : ∀ x : Nat, (x % 256).testBit (k % 8) = x.testBit (k % 8) := by
      intro x
      have := Nat.testBit_mod_two_pow x 8 (k % 8)
      simpa [hk] using this
    rw [e, Nat.testBit_or, Nat.testBit_shiftLeft]
    by_cases hkj : k = j
    · subst hkj
      simp
    · have hne : k % 8 ≠ j % 8 := by omega
      have e1 : decide (k = j) = false := by simpa using hkj
      rw [e1, Bool.or_false]
      by_cases hle : j % 8 ≤ k % 8
      · have h0 : k % 8 - j % 8 ≠ 0 := by omega
        have h1 : Nat.testBit 1 (k % 8 - j % 8) = false := by
          cases hb : Nat.testBit 1 (k % 8 - j % 8) with
          | false => rfl
          | true => exact absurd (Nat.testBit_one_eq_true_iff_self_eq_zero.mp hb) h0
        simp [h1]
      · simp [hle]
  · rw [Function.update_noteq h8]
    have : k ≠ j := fun h => h8 (by rw [h])
    simp [this]

theorem bitmap_scan_spec (s : Fs) (map : Nat → Option (Nat × Nat)) (b0 : Nat)
    (key0 : Nat × Nat) (hk0 : map (b0 / 8192) = some key0)
    (hclear : test_bit (s.buffer key0).b_data (b0 % 8192) = false)
    (hset : ∀ b, b < b0 → ∀ key, map (b / 8192) = some key →
      test_bit (s.buffer key).b_data (b % 8192) = true) :
    ∀ (n i : Nat) (bh : Option (Nat × Nat)) (j : Nat), 8192 * i ≤ b0 → b0 < 8192 * (i + n) →
    bitmap_scan s map i n bh j = (b0 / 8192, some key0, b0 % 8192) := by
  intro n
  induction n with
  | zero => intro i bh j h1 h2; omega
  | succ n ih =>
    intro i bh j h1 h2
    unfold bitmap_scan
    by_cases hi : b0 / 8192 = i
    · rw [← hi, hk0]
      simp only []
      obtain ⟨f1, f2, f3⟩ := find_first_zero_spec (s.buffer key0).b_data
      have hj : find_first_zero (s.buffer key0).b_data = b0 % 8192 := by
        have hle : find_first_zero (s.buffer key0).b_data ≤ b0 % 8192 := by
          by_contra hgt
          have := f2 (b0 % 8192) (by omega)
          rw [hclear] at this
          exact Bool.false_ne_true this
        by_contra hne
        have hlt : find_first_zero (s.buffer key0).b_data < b0 % 8192 := by omega
        have hm : b0 % 8192 < 8192 := Nat.mod_lt _ (by decide)
        have h3 := f3 (by omega)
        have h4 := hset (8192 * (b0 / 8192) + find_first_zero (s.buffer key0).b_data)
          (by omega) key0 (by
            have : (8192 * (b0 / 8192) + find_first_zero (s.buffer key0).b_data) / 8192
                = b0 / 8192 := by omega
            rw [this, hk0])
        have h5 : (8192 * (b0 / 8192) + find_first_zero (s.buffer key0).b_data) % 8192
            = find_first_zero (s.buffer key0).b_data := by omega
        rw [h5, h3] at h4
        exact Bool.false_ne_true h4
      rw [hj, if_pos (Nat.mod_lt _ (by decide))]
    · have hgt : 8192 * (i + 1) ≤ b0 := by omega
      cases hm : map i with
      | none => exact ih (i + 1) none j hgt (by omega)
      | some key =>
        simp only []
        obtain ⟨f1, f2, f3⟩ := find_first_zero_spec (s.buffer key).b_data
        have hj : ¬ find_first_zero (s.buffer key).b_data < 8192 := by
          intro hlt
          have h3 := f3 hlt
          have h4 := hset (8192 * i + find_first_zero (s.buffer key).b_data) (by omega) key (by
            have : (8192 * i + find_first_zero (s.buffer key).b_data) / 8192 = i := by omega
            rw [this, hm])
          have h5 : (8192 * i + find_first_zero (s.buffer key).b_data) % 8192
              = find_first_zero (s.buffer key).b_data := by omega
          rw [h5, h3] at h4
          exact Bool.false_ne_true h4
        rw [if_neg hj]
        exact ih (i + 1) (some key) _ hgt (by omega)

theorem zone_bit_after (s : Fs) (dev sbi b blk : Nat) (key : Nat × Nat)
    (hk : (s.super_block sbi).s_zmap (b / 8192) = some key)
    (hne : key ≠ (dev, blk))
    (hheld : ∀ i key, (s.super_block sbi).s_zmap i = some key → 1 ≤ (s.buffer key).b_count)
    (hinj : ∀ i j key, (s.super_block sbi).s_zmap i = some key →
      (s.super_block sbi).s_zmap j = some key → i = j)
    (hc : (s.buffer (dev, blk)).b_count = 0) (x : Nat) :
    zone_bit (after_new_block s dev key (b % 8192) blk) (s.super_block sbi) x
      = (zone_bit s (s.super_block sbi) x || decide (x = b)) := by
  unfold zone_bit
  cases hx : (s.super_block sbi).s_zmap (x / 8192) with
  | none => rfl
  | some kx =>
    simp only []
    have hkx : kx ≠ (dev, blk) := by
      intro h
      have := hheld _ _ hx
      rw [h, hc] at this
      omega
    have e1 : (after_new_block s dev key (b % 8192) blk).buffer kx
        = Function.update s.buffer key { s.buffer key with b_data := set_bit (s.buffer key).b_data (b % 8192), b_dirt := 1 } kx := by
      unfold after_new_block
      simp only [Function.update_noteq hkx]
    rw [e1]
    by_cases hkk : kx = key
    · subst hkk
      rw [Function.update_same]
      simp only []
      rw [test_bit_set_bit]
      have hdiv : x / 8192 = b / 8192 := hinj _ _ _ hx hk
      congr 1
      apply decide_eq_decide.mpr
      constructor <;> intro h <;> omega
    · rw [Function.update_noteq hkk]
      have : x ≠ b := by
        intro h
        rw [h, hk] at hx
        exact hkk (Option.some.inj hx).symm
      simp [this]

theorem new_block_spec (s : Fs) (dev sbi b : Nat) (L : List Nat)
    (h : zones_free s dev sbi (b :: L)) :
    ∃ key, (s.super_block sbi).s_zmap (b / 8192) = some key ∧
      key ≠ (dev, b + (s.super_block sbi).s_firstdatazone - 1) ∧
      new_block s dev = .ok (((b + (s.super_block sbi).s_firstdatazone - 1 : Nat) : Int),
        after_new_block s dev key (b % 8192) (b + (s.super_block sbi).s_firstdatazone - 1)) ∧
      zones_free (after_new_block s dev key (b % 8192)
        (b + (s.super_block sbi).s_firstdatazone - 1)) dev sbi L ∧
      ∀ x, zone_bit (after_new_block s dev key (b % 8192)
          (b + (s.super_block sbi).s_firstdatazone - 1)) (s.super_block sbi) x
        = (zone_bit s (s.super_block sbi) x || decide (x = b)) := by
  obtain ⟨hsup, hnz, hheld, hinj, hsort, hfree, hmin⟩ := h
  obtain ⟨hb1, hb2, hb3, hb4, hb5⟩ := hfree b (List.mem_cons_self _ _)
  obtain ⟨key, hk, hclear⟩ : ∃ key, (s.super_block sbi).s_zmap (b / 8192) = some key ∧
      test_bit (s.buffer key).b_data (b % 8192) = false := by
    unfold zone_bit at hb2
    cases hx : (s.super_block sbi).s_zmap (b / 8192) with
    | none => rw [hx] at hb2; exact absurd hb2 (by simp)
    | some key => rw [hx] at hb2; exact ⟨key, rfl, hb2⟩
  have hne : key ≠ (dev, b + (s.super_block sbi).s_firstdatazone - 1) := by
    intro h
    have := hheld _ _ hk
    rw [h, hb5] at this
    omega
  have hset : ∀ x, x < b → ∀ kx, (s.super_block sbi).s_zmap (x / 8192) = some kx →
      test_bit (s.buffer kx).b_data (x % 8192) = true := by
    intro x hx kx hkx
    by_contra hf
    have hzb : zone_bit s (s.super_block sbi) x = false := by
      unfold zone_bit
      rw [hkx]
      simpa using hf
    by_cases hmem : x ∈ b :: L
    · rcases List.mem_cons.mp hmem with h | h
      · omega
      · have := (List.pairwise_cons.mp hsort).1 x h
        omega
    · have := hmin x (by omega) hzb hmem b (List.mem_cons_self _ _)
      omega
  have hscan := bitmap_scan_spec s (s.super_block sbi).s_zmap b key hk hclear hset 8 0 none 8192
    (by omega) (by omega)
  have hzb := zone_bit_after s dev sbi b (b + (s.super_block sbi).s_firstdatazone - 1) key hk hne
    hheld hinj hb5
  refine ⟨key, hk, hne, ?_, ?_, hzb⟩
  · unfold new_block
    rw [hsup]
    simp only []
    rw [hscan]
    simp only []
    have c1 : ¬ (b / 8192 ≥ 8 ∨ b % 8192 ≥ 8192) := by omega
    rw [if_neg c1, hclear]
    simp only [Bool.false_eq_true, if_false]
    have ej : ((b % 8192 : Nat) : Int) + ((b / 8192 : Nat) : Int) * 8192
        + (((s.super_block sbi).s_firstdatazone : Nat) : Int) - 1
        = ((b + (s.super_block sbi).s_firstdatazone - 1 : Nat) : Int) := by omega
    rw [ej]
    have c2 : ¬ (((b + (s.super_block sbi).s_firstdatazone - 1 : Nat) : Int)
        ≥ (((s.super_block sbi).s_nzones : Nat) : Int)) := by omega
    rw [if_neg c2, of_long_natCast _ (by omega)]
    simp only [getblk, brelse, Function.update_same, Function.update_idem,
      Function.update_noteq hne.symm, hb5]
    simp only [Nat.zero_add, ne_eq, not_true_eq_false, if_false]
    rfl
  · refine ⟨hsup, hnz, ?_, hinj, (List.pairwise_cons.mp hsort).2, ?_, ?_⟩
    · intro i kx hkx
      have hkx2 : kx ≠ (dev, b + (s.super_block sbi).s_firstdatazone - 1) := by
        intro h
        have := hheld _ _ hkx
        rw [h, hb5] at this
        omega
      unfold after_new_block
      simp only [Function.update_noteq hkx2]
      by_cases hkk : kx = key
      · subst hkk
        rw [Function.update_same]
        exact hheld _ _ hkx
      · rw [Function.update_noteq hkk]
        exact hheld _ _ hkx
    · intro x hx
      obtain ⟨g1, g2, g3, g4, g5⟩ := hfree x (List.mem_cons_of_mem _ hx)
      have hxb : b < x := (List.pairwise_cons.mp hsort).1 x hx
      refine ⟨g1, ?_, g3, g4, ?_⟩
      · show zone_bit (after_new_block s dev key (b % 8192) _) (s.super_block sbi) x = false
        rw [hzb, g2]
        simp
        omega
      · have hk1 : (dev, x + (s.super_block sbi).s_firstdatazone - 1)
            ≠ (dev, b + (s.super_block sbi).s_firstdatazone - 1) := by
          intro h
          have := (Prod.mk.inj h).2
          omega
        have hk2 : (dev, x + (s.super_block sbi).s_firstdatazone - 1) ≠ key := by
          intro h
          have := hheld _ _ hk
          rw [← h, g5] at this
          omega
        show ((after_new_block s dev key (b % 8192) _).buffer _).b_count = 0
        unfold after_new_block
        simp only [Function.update_noteq hk1, Function.update_noteq hk2]
        exact g5
    · intro x hx hzx hnot y hy
      have hzx2 : zone_bit (after_new_block s dev key (b % 8192) _) (s.super_block sbi) x = false :=
        hzx
      rw [hzb] at hzx2
      have hxs : zone_bit s (s.super_block sbi) x = false := by
        cases hh : zone_bit s (s.super_block sbi) x with
        | false => rfl
        | true => rw [hh] at hzx2; simp at hzx2
      have hxb : x ≠ b := by
        intro hh
        rw [hh] at hzx2
        simp at hzx2
      exact hmin x hx hxs (fun hm => by
        rcases List.mem_cons.mp hm with h | h
        · exact hxb h
        · exact hnot h) y (List.mem_cons_of_mem _ hy)

/-! ### Lemmas on `create_block` and `file_write` -/

theorem zones_free_agree (s t : Fs) (dev sbi : Nat) (L : List Nat)
    (hsb : t.super_block = s.super_block)
    (hag : ∀ key, t.buffer key = s.buffer key ∨ ((s.buffer key).b_count = 0 ∧
      ∀ x, x ∈ L → key ≠ (dev, x + (s.super_block sbi).s_firstdatazone - 1)))
    (h : zones_free s dev sbi L) : zones_free t dev sbi L := by
  obtain ⟨hsup, hnz, hheld, hinj, hsort, hfree, hmin⟩ := h
  have hkey : ∀ i key, (s.super_block sbi).s_zmap i = some key → t.buffer key = s.buffer key := by
    intro i key hk
    rcases hag key with h | ⟨h, -⟩
    · exact h
    · have := hheld i key hk
      omega
  have hzb : ∀ x, zone_bit t (s.super_block sbi) x = zone_bit s (s.super_block sbi) x := by
    intro x
    unfold zone_bit
    cases hx : (s.super_block sbi).s_zmap (x / 8192) with
    | none => rfl
    | some key => simp only [hkey _ _ hx]
  have hsup2 : get_super t dev = .ok (some sbi) := by
    unfold get_super at hsup ⊢
    rw [hsb]
    exact hsup
  refine ⟨hsup2, ?_, ?_, ?_, hsort, ?_, ?_⟩
  · rw [hsb]; exact hnz
  · intro i key hk
    rw [hsb] at hk
    rw [hkey i key hk]
    exact hheld i key hk
  · rw [hsb]; exact hinj
  · intro b hb
    obtain ⟨g1, g2, g3, g4, g5⟩ := hfree b hb
    rw [hsb]
    refine ⟨g1, by rw [hzb]; exact g2, g3, g4, ?_⟩
    rcases hag (dev, b + (s.super_block sbi).s_firstdatazone - 1) with h | ⟨-, h⟩
    · rw [h]; exact g5
    · exact absurd rfl (h b hb)
  · intro b hb hz
    rw [hsb, hzb] at hz
    exact hmin b hb hz

theorem zone_bit_agree (s t : Fs) (dev sbi : Nat) (L : List Nat)
    (hag : ∀ key, t.buffer key = s.buffer key ∨ (s.buffer key).b_count = 0)
    (h : zones_free s dev sbi L) (x : Nat) :
    zone_bit t (s.super_block sbi) x = zone_bit s (s.super_block sbi) x := by
  obtain ⟨-, -, hheld, -, -, -, -⟩ := h
  unfold zone_bit
  cases hx : (s.super_block sbi).s_zmap (x / 8192) with
  | none => rfl
  | some key =>
    simp only []
    rcases hag key with h | h
    · rw [h]
    · have := hheld _ key hx
      omega

theorem bmap_zone_create (s : Fs) (inode dev sbi b k : Nat) (L : List Nat)
    (hfree : zones_free s dev sbi (b :: L)) (hdev : (s.inode_table inode).i_dev = dev)
    (hz : (s.inode_table inode).i_zone k = 0) :
    ∃ key, (s.super_block sbi).s_zmap (b / 8192) = some key ∧
      key ≠ (dev, b + (s.super_block sbi).s_firstdatazone - 1) ∧
      bmap_zone s inode k true = .ok (set_inode (after_new_block s dev key (b % 8192)
        (b + (s.super_block sbi).s_firstdatazone - 1)) inode fun n =>
          { n with i_zone := Function.update n.i_zone k (b + (s.super_block sbi).s_firstdatazone - 1), i_ctime := s.CURRENT_TIME, i_dirt := 1 }) := by
  obtain ⟨key, hk, hne, hnb, -, -⟩ := new_block_spec s dev sbi b L hfree
  obtain ⟨-, hnz, -, -, -, hfr, -⟩ := hfree
  obtain ⟨hb1, hb2, hb3, hb4, hb5⟩ := hfr b (List.mem_cons_self _ _)
  refine ⟨key, hk, hne, ?_⟩
  unfold bmap_zone
  rw [if_pos ⟨rfl, hz⟩, hdev, hnb]
  simp only []
  rw [of_long_natCast _ (by omega)]
  have e1 : (b + (s.super_block sbi).s_firstdatazone - 1) % 65536
      = b + (s.super_block sbi).s_firstdatazone - 1 := Nat.mod_eq_of_lt (by omega)
  rw [e1, if_pos (by omega)]
  simp only [set_inode, Function.update_same, Function.update_idem, after_new_block]

theorem bread_uptodate (s : Fs) (dev block : Nat)
    (hu : (s.buffer (dev, block)).b_uptodate ≠ 0) :
    bread s dev block = (some (dev, block), getblk s dev block) := by
  unfold bread
  simp only [getblk, Function.update_same]
  rw [if_pos hu]

theorem zones_free_getblk (s : Fs) (dev sbi z : Nat) (L : List Nat)
    (hc : (s.buffer (dev, z)).b_count = 0)
    (hzL : ∀ x, x ∈ L → z ≠ x + (s.super_block sbi).s_firstdatazone - 1)
    (h : zones_free s dev sbi L) : zones_free (getblk s dev z) dev sbi L := by
  refine zones_free_agree s (getblk s dev z) dev sbi L rfl ?_ h
  intro key
  by_cases hk : key = (dev, z)
  · subst hk
    exact Or.inr ⟨hc, fun x hx h => hzL x hx (Prod.mk.inj h).2⟩
  · exact Or.inl (by simp only [getblk, Function.update_noteq hk])

theorem bmap_indirect_create (s : Fs) (inode dev sbi b z e : Nat) (L : List Nat)
    (hfree : zones_free s dev sbi (b :: L)) (hdev : (s.inode_table inode).i_dev = dev)
    (hz0 : z ≠ 0) (hup : (s.buffer (dev, z)).b_uptodate ≠ 0)
    (hc : (s.buffer (dev, z)).b_count = 0)
    (he : get_word (s.buffer (dev, z)).b_data e = 0)
    (hzL : ∀ x, x ∈ b :: L → z ≠ x + (s.super_block sbi).s_firstdatazone - 1) :
    ∃ key, (s.super_block sbi).s_zmap (b / 8192) = some key ∧
      key ≠ (dev, b + (s.super_block sbi).s_firstdatazone - 1) ∧ key ≠ (dev, z) ∧
      bmap_indirect s inode z e true
        = .ok (((b + (s.super_block sbi).s_firstdatazone - 1 : Nat) : Int),
          after_bmap_entry s dev z e key (b % 8192)
            (b + (s.super_block sbi).s_firstdatazone - 1)) := by
  have hfree3 := zones_free_getblk s dev sbi z (b :: L) hc hzL hfree
  obtain ⟨key, hk, hne, hnb, -, -⟩ := new_block_spec (getblk s dev z) dev sbi b L hfree3
  have hkz : key ≠ (dev, z) := by
    intro h
    have := hfree.2.2.1 _ key hk
    rw [h, hc] at this
    omega
  obtain ⟨hb1, hb2, hb3, hb4, hb5⟩ := hfree.2.2.2.2.2.1 b (List.mem_cons_self _ _)
  refine ⟨key, hk, hne, hkz, ?_⟩
  unfold bmap_indirect
  rw [if_neg hz0, hdev, bread_uptodate s dev z hup]
  simp only []
  unfold bmap_entry
  have hd : ((getblk s dev z).buffer (dev, z)).b_data = (s.buffer (dev, z)).b_data := by
    simp only [getblk, Function.update_same]
  have hdev3 : ((getblk s dev z).inode_table inode).i_dev = dev := hdev
  rw [hd, he, hdev3]
  simp only [Nat.cast_zero, and_self, if_true]
  rw [hnb]
  simp only []
  have hnz : ((b + ((getblk s dev z).super_block sbi).s_firstdatazone - 1 : Nat) : Int) ≠ 0 := by
    have : (getblk s dev z).super_block sbi = s.super_block sbi := rfl
    rw [this]
    omega
  rw [if_pos hnz]
  rw [of_long_natCast _ (by
    have : (getblk s dev z).super_block sbi = s.super_block sbi := rfl
    rw [this]
    have := hfree.2.1
    omega)]
  rfl

theorem after_bmap_entry_eq (s : Fs) (dev z e : Nat) (key : Nat × Nat) (j blk : Nat)
    (hc : (s.buffer (dev, z)).b_count = 0) (hkz : key ≠ (dev, z)) (hzb : z ≠ blk) :
    after_bmap_entry s dev z e key j blk
      = { after_new_block s dev key j blk with
          buffer := Function.update (after_new_block s dev key j blk).buffer (dev, z) { s.buffer (dev, z) with b_data := put_word (s.buffer (dev, z)).b_data e blk, b_dirt := 1 } } := by
  have hzb2 : (dev, z) ≠ (dev, blk) := fun h => hzb (Prod.mk.inj h).2
  unfold after_bmap_entry after_new_block brelse getblk
  simp only [Function.update_same, Function.update_idem, Function.update_noteq hzb2,
    Function.update_noteq hkz.symm, Function.update_noteq hkz, hc]
  congr 1
  funext k
  by_cases h1 : k = (dev, z)
  · subst h1
    simp only [Function.update_same]
  · simp only [Function.update_noteq h1]
    by_cases h2 : k = (dev, blk)
    · subst h2
      simp only [Function.update_same]
    · simp only [Function.update_noteq h2]
      by_cases h3 : k = key
      · subst h3
        simp only [Function.update_same, Function.update_noteq hkz]
      · simp only [Function.update_noteq h3, Function.update_noteq h1]

theorem after_write_eq (umem : Nat → Byte) (s : Fs) (inode blk pos c buf : Nat)
    (hc : (s.buffer ((s.inode_table inode).i_dev, blk)).b_count = 0) :
    after_write umem s inode blk pos c buf
      = { s with
          inode_table := if pos + c > (s.inode_table inode).i_size
            then Function.update s.inode_table inode { s.inode_table inode with i_size := pos + c, i_dirt := 1 }
            else s.inode_table
          buffer := Function.update s.buffer ((s.inode_table inode).i_dev, blk) { s.buffer ((s.inode_table inode).i_dev, blk) with b_data := copy_from_fs umem (s.buffer ((s.inode_table inode).i_dev, blk)).b_data (pos % BLOCK_SIZE) buf c, b_dirt := 1 } } := by
  unfold after_write
  simp only [getblk, brelse, set_inode]
  by_cases h : pos + c > (s.inode_table inode).i_size
  · simp only [if_pos h, Function.update_same, Function.update_idem, hc]
  · simp only [if_neg h, Function.update_same, Function.update_idem, hc]

theorem file_write_turn (umem : Nat → Byte) (inode count fuel : Nat) (s t : Fs)
    (pos i buf blk : Nat) (hi : i < count) (hb0 : blk ≠ 0) (hb1 : blk < 4294967296)
    (hcb : create_block s inode ((pos / BLOCK_SIZE : Nat) : Int) = .ok ((blk : Int), t))
    (hup : (t.buffer ((t.inode_table inode).i_dev, blk)).b_uptodate ≠ 0) :
    file_write_loop umem inode count (fuel + 1) s pos i buf
      = file_write_loop umem inode count fuel
          (after_write umem t inode blk pos
            (if BLOCK_SIZE - pos % BLOCK_SIZE > count - i then count - i
              else BLOCK_SIZE - pos % BLOCK_SIZE) buf)
          (pos + (if BLOCK_SIZE - pos % BLOCK_SIZE > count - i then count - i
              else BLOCK_SIZE - pos % BLOCK_SIZE))
          (i + (if BLOCK_SIZE - pos % BLOCK_SIZE > count - i then count - i
              else BLOCK_SIZE - pos % BLOCK_SIZE))
          (buf + (if BLOCK_SIZE - pos % BLOCK_SIZE > count - i then count - i
              else BLOCK_SIZE - pos % BLOCK_SIZE)) := by
  rw [file_write_loop, if_pos hi, hcb]
  simp only []
  have : ¬ ((blk : Int) = 0) := by omega
  rw [if_neg this, of_long_natCast _ hb1, bread_uptodate t _ blk hup]
  rfl

theorem fw_mid_write (umem : Nat → Byte) (s0 : Fs) (L0 : List Nat) (dev sbi ino : Nat) (s : Fs)
    (i blk c buf : Nat) (A L : List Nat) (hi : i % 1024 = 0) (hc1 : 1 ≤ c) (hc2 : c ≤ 1024)
    (h : fw_mid s0 L0 dev sbi ino s i blk A L) :
    fw_inv s0 L0 dev sbi ino (after_write umem s ino blk i c buf) (i + c) A L := by
  obtain ⟨h1, h2, h3, h4, h5, h6, h7, h8, h9, h10, h11, h12, h13, h14⟩ := h
  have hcnt : (s.buffer ((s.inode_table ino).i_dev, blk)).b_count = 0 := by rw [h3, h8]
  have hk : (i + c + 1023) / 1024 = i / 1024 + 1 := by omega
  rw [after_write_eq umem s ino blk i c buf hcnt, h3, h4, if_pos (by omega)]
  have hag : ∀ key, Function.update s.buffer (dev, blk) { s.buffer (dev, blk) with b_data := copy_from_fs umem (s.buffer (dev, blk)).b_data (i % BLOCK_SIZE) buf c, b_dirt := 1 } key = s.buffer key
      ∨ ((s.buffer key).b_count = 0 ∧
        ∀ x, x ∈ L → key ≠ (dev, x + (s.super_block sbi).s_firstdatazone - 1)) := by
    intro key
    by_cases hkey : key = (dev, blk)
    · subst hkey
      refine Or.inr ⟨by rw [h8], fun x hx hh => ?_⟩
      rw [h2] at hh
      exact h10 x hx (Prod.mk.inj hh).2
    · exact Or.inl (Function.update_noteq hkey _ _)
  refine ⟨zones_free_agree s _ dev sbi L rfl hag h1, h2, ?_, ?_, ?_, ?_, ?_, h11, ?_, h13, ?_⟩
  · simp only [Function.update_same]; exact h3
  · simp only [Function.update_same]
  · intro j hj1 hj2
    simp only [Function.update_same]
    exact h5 j (by omega) hj2
  · intro hle
    simp only [Function.update_same]
    exact h6 (by omega)
  · intro hgt
    obtain ⟨b7, g1, g2, g3, g4, g5, g6, g7, g8⟩ := h7 (by omega)
    have hne : (dev, b7 + (s0.super_block sbi).s_firstdatazone - 1) ≠ (dev, blk) :=
      fun hh => g4 (Prod.mk.inj hh).2
    refine ⟨b7, g1, ?_, g3, ?_, ?_, ?_, g8⟩
    · simp only [Function.update_same]; exact g2
    · simp only [Function.update_noteq hne]; exact g5
    · simp only [Function.update_noteq hne]; exact g6
    · intro e he
      simp only [Function.update_noteq hne]
      exact g7 e (by omega)
  · rw [h12, hk]
    by_cases h7k : 7 ≤ i / 1024
    · rw [if_pos h7k, if_pos (by omega)]
    · rw [if_neg h7k, if_neg (by omega)]
  · intro x
    rw [← h14 x, ← h2]
    exact zone_bit_agree s _ dev sbi L (fun key => (hag key).imp id (fun hh => hh.1)) h1 x

theorem get_word_put_word_ne (data : Nat → Byte) (e0 v e : Nat) (h : e ≠ e0) :
    get_word (put_word data e0 v) e = get_word data e := by
  unfold get_word put_word
  have h1 : 2 * e ≠ 2 * e0 + 1 := by omega
  have h2 : 2 * e ≠ 2 * e0 := by omega
  have h3 : 2 * e + 1 ≠ 2 * e0 + 1 := by omega
  have h4 : 2 * e + 1 ≠ 2 * e0 := by omega
  simp only [Function.update_noteq h1, Function.update_noteq h2, Function.update_noteq h3,
    Function.update_noteq h4]

theorem fw_entry (s0 : Fs) (L0 : List Nat) (dev sbi ino : Nat) (s : Fs) (i b7 b : Nat)
    (A L : List Nat) (hk7 : 7 ≤ i / 1024)
    (h1 : zones_free s dev sbi (b :: L)) (h2 : s.super_block = s0.super_block)
    (h3 : (s.inode_table ino).i_dev = dev) (h4 : (s.inode_table ino).i_size = i)
    (g1 : L0.get? 7 = some b7)
    (g2 : (s.inode_table ino).i_zone 7 = b7 + (s0.super_block sbi).s_firstdatazone - 1)
    (g3 : b7 + (s0.super_block sbi).s_firstdatazone - 1 ≠ 0)
    (g4 : (s.buffer (dev, b7 + (s0.super_block sbi).s_firstdatazone - 1)).b_uptodate ≠ 0)
    (g5 : (s.buffer (dev, b7 + (s0.super_block sbi).s_firstdatazone - 1)).b_count = 0)
    (g6 : ∀ e, i / 1024 - 7 ≤ e →
      get_word (s.buffer (dev, b7 + (s0.super_block sbi).s_firstdatazone - 1)).b_data e = 0)
    (g7 : ∀ x, x ∈ b :: L → b7 < x)
    (h11 : A ++ b :: L = L0) (h12 : A.length = i / 1024 + 1)
    (h13 : s.calls = s0.calls ++ A.map (fun b => FsCall.new_block dev (b + (s0.super_block sbi).s_firstdatazone - 1)))
    (h14 : ∀ x, zone_bit s (s0.super_block sbi) x
      = (zone_bit s0 (s0.super_block sbi) x || decide (x ∈ A))) :
    ∃ t, bmap_indirect s ino ((s.inode_table ino).i_zone 7) (i / 1024 - 7) true
        = .ok (((b + (s0.super_block sbi).s_firstdatazone - 1 : Nat) : Int), t) ∧
      b + (s0.super_block sbi).s_firstdatazone - 1 < 65536 ∧
      fw_mid s0 L0 dev sbi ino t i (b + (s0.super_block sbi).s_firstdatazone - 1)
        (A ++ [b]) L := by
  have hsb : s.super_block sbi = s0.super_block sbi := by rw [h2]
  obtain ⟨hb1, hb2, hb3, hb4, hb5⟩ := h1.2.2.2.2.2.1 b (List.mem_cons_self _ _)
  rw [hsb] at hb3 hb4 hb5
  have hnz := h1.2.1
  rw [hsb] at hnz
  have hsort := h1.2.2.2.2.1
  have hzL : ∀ x, x ∈ b :: L → b7 + (s0.super_block sbi).s_firstdatazone - 1
      ≠ x + (s.super_block sbi).s_firstdatazone - 1 := by
    intro x hx
    have := g7 x hx
    rw [hsb]
    omega
  obtain ⟨key, k1, k2, k3, k4⟩ := bmap_indirect_create s ino dev sbi b
    (b7 + (s0.super_block sbi).s_firstdatazone - 1) (i / 1024 - 7) L h1 h3 g3 g4 g5
    (g6 _ (le_refl _)) hzL
  obtain ⟨key2, m1, -, -, n4, n5⟩ := new_block_spec s dev sbi b L h1
  have hkk : key2 = key := Option.some.inj (m1.symm.trans k1)
  subst hkk
  rw [hsb] at k1 k2 k4 n4 n5
  have hzb : b7 + (s0.super_block sbi).s_firstdatazone - 1
      ≠ b + (s0.super_block sbi).s_firstdatazone - 1 := by
    have := g7 b (List.mem_cons_self _ _)
    omega
  have hne : (dev, b7 + (s0.super_block sbi).s_firstdatazone - 1)
      ≠ (dev, b + (s0.super_block sbi).s_firstdatazone - 1) := fun hh => hzb (Prod.mk.inj hh).2
  rw [g2, k4, after_bmap_entry_eq s dev _ _ key2 _ _ g5 k3 hzb]
  refine ⟨_, rfl, by omega, ?_⟩
  obtain ⟨N, hN⟩ : ∃ N, N = after_new_block s dev key2 (b % 8192)
      (b + (s0.super_block sbi).s_firstdatazone - 1) := ⟨_, rfl⟩
  rw [← hN] at n4 n5 ⊢
  have hNz : N.buffer (dev, b7 + (s0.super_block sbi).s_firstdatazone - 1)
      = s.buffer (dev, b7 + (s0.super_block sbi).s_firstdatazone - 1) := by
    rw [hN]
    unfold after_new_block
    simp only [Function.update_noteq hne, Function.update_noteq k3.symm]
  have hNb : N.buffer (dev, b + (s0.super_block sbi).s_firstdatazone - 1) = ⟨fun _ => 0, 0, 1, 1⟩ := by
    rw [hN]
    unfold after_new_block
    simp only [Function.update_same]
  have hNsb : N.super_block = s.super_block := by rw [hN]; rfl
  have hNi : N.inode_table = s.inode_table := by rw [hN]; rfl
  have hNc : N.calls = s.calls ++ [FsCall.new_block dev (b + (s0.super_block sbi).s_firstdatazone - 1)] := by
    rw [hN]; rfl
  have hag : ∀ k, Function.update N.buffer (dev, b7 + (s0.super_block sbi).s_firstdatazone - 1) { s.buffer (dev, b7 + (s0.super_block sbi).s_firstdatazone - 1) with b_data := put_word (s.buffer (dev, b7 + (s0.super_block sbi).s_firstdatazone - 1)).b_data (i / 1024 - 7) (b + (s0.super_block sbi).s_firstdatazone - 1), b_dirt := 1 } k = N.buffer k
      ∨ ((N.buffer k).b_count = 0 ∧
        ∀ x, x ∈ L → k ≠ (dev, x + (N.super_block sbi).s_firstdatazone - 1)) := by
    intro k
    by_cases hk : k = (dev, b7 + (s0.super_block sbi).s_firstdatazone - 1)
    · subst hk
      refine Or.inr ⟨by rw [hNz, g5], fun x hx hh => ?_⟩
      have := g7 x (List.mem_cons_of_mem _ hx)
      have h5 := (Prod.mk.inj hh).2
      rw [hNsb, hsb] at h5
      omega
    · exact Or.inl (Function.update_noteq hk _ _)
  refine ⟨zones_free_agree N _ dev sbi L rfl hag n4, hNsb.trans h2, ?_, ?_, ?_, ?_, ?_, ?_, ?_, ?_,
    ?_, ?_, ?_, ?_⟩
  · show (N.inode_table ino).i_dev = dev
    rw [hNi]; exact h3
  · show (N.inode_table ino).i_size = i
    rw [hNi]; exact h4
  · intro j hj1 hj2
    omega
  · intro hlt
    omega
  · intro _
    refine ⟨b7, g1, ?_, g3, hzb, ?_, ?_, ?_, fun x hx => g7 x (List.mem_cons_of_mem _ hx)⟩
    · show (N.inode_table ino).i_zone 7 = _
      rw [hNi]; exact g2
    · simp only [Function.update_same]; exact g4
    · simp only [Function.update_same]; exact g5
    · intro e he
      simp only [Function.update_same]
      rw [get_word_put_word_ne _ _ _ _ (by omega)]
      exact g6 e (by omega)
  · simp only [Function.update_noteq hne.symm]
    exact hNb
  · omega
  · intro x hx
    have := (List.pairwise_cons.mp hsort).1 x hx
    omega
  · rw [← h11]; simp
  · rw [List.length_append, h12, if_pos hk7]; rfl
  · show N.calls = _
    rw [hNc, h13, List.map_append, List.append_assoc]
    rfl
  · intro x
    have e1 := zone_bit_agree N { N with buffer := Function.update N.buffer (dev, b7 + (s0.super_block sbi).s_firstdatazone - 1) { s.buffer (dev, b7 + (s0.super_block sbi).s_firstdatazone - 1) with b_data := put_word (s.buffer (dev, b7 + (s0.super_block sbi).s_firstdatazone - 1)).b_data (i / 1024 - 7) (b + (s0.super_block sbi).s_firstdatazone - 1), b_dirt := 1 } } dev sbi L
      (fun k => (hag k).imp id (fun hh => hh.1)) n4 x
    have e2 : N.super_block sbi = s0.super_block sbi := by rw [hNsb, hsb]
    rw [e2] at e1
    rw [e1, n5, h14]
    simp only [List.mem_append, List.mem_singleton, Bool.decide_or, Bool.or_assoc]

theorem bmap_zone_nonzero (s : Fs) (inode k : Nat) (create : Bool)
    (h : (s.inode_table inode).i_zone k ≠ 0) : bmap_zone s inode k create = .ok s := by
  unfold bmap_zone
  rw [if_neg (fun hh => h hh.2)]

theorem fw_create_direct (s0 : Fs) (L0 : List Nat) (dev sbi ino : Nat) (s : Fs) (i b : Nat)
    (A L : List Nat) (hi : i % 1024 = 0) (hk : i / 1024 < 7)
    (hinv : fw_inv s0 L0 dev sbi ino s i A (b :: L)) :
    ∃ t, create_block s ino ((i / 1024 : Nat) : Int)
        = .ok (((b + (s0.super_block sbi).s_firstdatazone - 1 : Nat) : Int), t) ∧
      b + (s0.super_block sbi).s_firstdatazone - 1 < 65536 ∧
      fw_mid s0 L0 dev sbi ino t i (b + (s0.super_block sbi).s_firstdatazone - 1)
        (A ++ [b]) L := by
  obtain ⟨h1, h2, h3, h4, h5, h6, h7, h11, h12, h13, h14⟩ := hinv
  have hsb : s.super_block sbi = s0.super_block sbi := by rw [h2]
  have hkk : (i + 1023) / 1024 = i / 1024 := by omega
  obtain ⟨hb1, hb2, hb3, hb4, hb5⟩ := h1.2.2.2.2.2.1 b (List.mem_cons_self _ _)
  rw [hsb] at hb3 hb4 hb5
  have hnz := h1.2.1
  rw [hsb] at hnz
  have hsort := h1.2.2.2.2.1
  have hz : (s.inode_table ino).i_zone (i / 1024) = 0 := h5 _ (by omega) hk
  obtain ⟨key, k1, k2, k4⟩ := bmap_zone_create s ino dev sbi b (i / 1024) L h1 h3 hz
  obtain ⟨key2, m1, -, -, n4, n5⟩ := new_block_spec s dev sbi b L h1
  have hkey : key2 = key := Option.some.inj (m1.symm.trans k1)
  subst hkey
  rw [hsb] at k1 k2 k4 n4 n5
  obtain ⟨N, hN⟩ : ∃ N, N = after_new_block s dev key2 (b % 8192)
      (b + (s0.super_block sbi).s_firstdatazone - 1) := ⟨_, rfl⟩
  rw [← hN] at n4 n5 k4
  have hNb : N.buffer (dev, b + (s0.super_block sbi).s_firstdatazone - 1) = ⟨fun _ => 0, 0, 1, 1⟩ := by
    rw [hN]
    unfold after_new_block
    simp only [Function.update_same]
  have hNsb : N.super_block = s.super_block := by rw [hN]; rfl
  have hNi : N.inode_table = s.inode_table := by rw [hN]; rfl
  have hNc : N.calls = s.calls ++ [FsCall.new_block dev (b + (s0.super_block sbi).s_firstdatazone - 1)] := by
    rw [hN]; rfl
  have hcb : create_block s ino ((i / 1024 : Nat) : Int)
      = .ok (((b + (s0.super_block sbi).s_firstdatazone - 1 : Nat) : Int),
          set_inode N ino fun n => { n with i_zone := Function.update n.i_zone (i / 1024) (b + (s0.super_block sbi).s_firstdatazone - 1), i_ctime := s.CURRENT_TIME, i_dirt := 1 }) := by
    unfold create_block _bmap
    rw [if_neg (by omega), if_neg (by omega), if_pos (by omega)]
    simp only [Int.toNat_ofNat]
    rw [k4]
    simp only [set_inode, Function.update_same]
  refine ⟨_, hcb, by omega, ?_⟩
  have hag : ∀ k, N.buffer k = N.buffer k ∨ ((N.buffer k).b_count = 0 ∧
      ∀ x, x ∈ L → k ≠ (dev, x + (N.super_block sbi).s_firstdatazone - 1)) := fun k => Or.inl rfl
  refine ⟨zones_free_agree N _ dev sbi L rfl hag n4, hNsb.trans h2, ?_, ?_, ?_, ?_, ?_, ?_, ?_, ?_,
    ?_, ?_, ?_, ?_⟩
  · simp only [set_inode, Function.update_same, hNi]; exact h3
  · simp only [set_inode, Function.update_same, hNi]; exact h4
  · intro j hj1 hj2
    simp only [set_inode, Function.update_same, hNi]
    rw [Function.update_noteq (by omega)]
    exact h5 j (by omega) hj2
  · intro _
    simp only [set_inode, Function.update_same, hNi]
    rw [Function.update_noteq (by omega)]
    exact h6 (by omega)
  · intro h7k
    omega
  · exact hNb
  · omega
  · intro x hx
    have := (List.pairwise_cons.mp hsort).1 x hx
    omega
  · rw [← h11]; simp
  · rw [List.length_append, h12, hkk, if_neg (by omega), if_neg (by omega)]; rfl
  · show N.calls = _
    rw [hNc, h13, List.map_append, List.append_assoc]
    rfl
  · intro x
    show zone_bit (set_inode N ino _) (s0.super_block sbi) x = _
    have e1 : zone_bit (set_inode N ino fun n => { n with i_zone := Function.update n.i_zone (i / 1024) (b + (s0.super_block sbi).s_firstdatazone - 1), i_ctime := s.CURRENT_TIME, i_dirt := 1 }) (s0.super_block sbi) x
        = zone_bit N (s0.super_block sbi) x := rfl
    rw [e1, n5, h14]
    simp only [List.mem_append, List.mem_singleton, Bool.decide_or, Bool.or_assoc]

theorem get_word_zero (e : Nat) : get_word (fun _ => (0 : Byte)) e = 0 := rfl

theorem fw_create_indirect (s0 : Fs) (L0 : List Nat) (dev sbi ino : Nat) (s : Fs) (i b : Nat)
    (A L : List Nat) (hi : i % 1024 = 0) (hk : 7 < i / 1024) (hk2 : i / 1024 < 519)
    (hinv : fw_inv s0 L0 dev sbi ino s i A (b :: L)) :
    ∃ t, create_block s ino ((i / 1024 : Nat) : Int)
        = .ok (((b + (s0.super_block sbi).s_firstdatazone - 1 : Nat) : Int), t) ∧
      b + (s0.super_block sbi).s_firstdatazone - 1 < 65536 ∧
      fw_mid s0 L0 dev sbi ino t i (b + (s0.super_block sbi).s_firstdatazone - 1)
        (A ++ [b]) L := by
  obtain ⟨h1, h2, h3, h4, h5, h6, h7, h11, h12, h13, h14⟩ := hinv
  have hkk : (i + 1023) / 1024 = i / 1024 := by omega
  obtain ⟨b7, g1, g2, g3, g4, g5, g6, g7⟩ := h7 (by omega)
  rw [hkk] at g6 h12
  rw [if_pos (by omega)] at h12
  obtain ⟨t, ht, hlt, hmid⟩ := fw_entry s0 L0 dev sbi ino s i b7 b A L (by omega) h1 h2 h3 h4
    g1 g2 g3 g4 g5 g6 g7 h11 h12 h13 h14
  refine ⟨t, ?_, hlt, hmid⟩
  unfold create_block _bmap
  rw [if_neg (by omega), if_neg (by omega), if_neg (by omega)]
  simp only []
  rw [if_pos (by omega), bmap_zone_nonzero s ino 7 true (by rw [g2]; exact g3)]
  simp only []
  have e1 : ((i / 1024 : Nat) : Int) - 7 = ((i / 1024 - 7 : Nat) : Int) := by omega
  rw [e1, Int.toNat_ofNat]
  exact ht

theorem fw_create_first_indirect (s0 : Fs) (L0 : List Nat) (dev sbi ino : Nat) (s : Fs)
    (i b7 b : Nat) (A L : List Nat) (hi : i % 1024 = 0) (hk : i / 1024 = 7)
    (hinv : fw_inv s0 L0 dev sbi ino s i A (b7 :: b :: L)) :
    ∃ t, create_block s ino ((i / 1024 : Nat) : Int)
        = .ok (((b + (s0.super_block sbi).s_firstdatazone - 1 : Nat) : Int), t) ∧
      b + (s0.super_block sbi).s_firstdatazone - 1 < 65536 ∧
      fw_mid s0 L0 dev sbi ino t i (b + (s0.super_block sbi).s_firstdatazone - 1)
        (A ++ [b7] ++ [b]) L := by
  obtain ⟨h1, h2, h3, h4, h5, h6, h7, h11, h12, h13, h14⟩ := hinv
  have hsb : s.super_block sbi = s0.super_block sbi := by rw [h2]
  have hkk : (i + 1023) / 1024 = i / 1024 := by omega
  rw [hkk, hk, if_neg (by omega)] at h12
  obtain ⟨hb1, hb2, hb3, hb4, hb5⟩ := h1.2.2.2.2.2.1 b7 (List.mem_cons_self _ _)
  rw [hsb] at hb3 hb4 hb5
  have hnz := h1.2.1
  rw [hsb] at hnz
  have hsort := h1.2.2.2.2.1
  have hz : (s.inode_table ino).i_zone 7 = 0 := h6 (by omega)
  obtain ⟨key, k1, k2, k4⟩ := bmap_zone_create s ino dev sbi b7 7 (b :: L) h1 h3 hz
  obtain ⟨key2, m1, -, -, n4, n5⟩ := new_block_spec s dev sbi b7 (b :: L) h1
  have hkey : key2 = key := Option.some.inj (m1.symm.trans k1)
  subst hkey
  rw [hsb] at k1 k2 k4 n4 n5
  obtain ⟨N, hN⟩ : ∃ N, N = after_new_block s dev key2 (b7 % 8192)
      (b7 + (s0.super_block sbi).s_firstdatazone - 1) := ⟨_, rfl⟩
  rw [← hN] at n4 n5 k4
  have hNb : N.buffer (dev, b7 + (s0.super_block sbi).s_firstdatazone - 1) = ⟨fun _ => 0, 0, 1, 1⟩ := by
    rw [hN]
    unfold after_new_block
    simp only [Function.update_same]
  have hNsb : N.super_block = s.super_block := by rw [hN]; rfl
  have hNi : N.inode_table = s.inode_table := by rw [hN]; rfl
  have hNc : N.calls = s.calls ++ [FsCall.new_block dev (b7 + (s0.super_block sbi).s_firstdatazone - 1)] := by
    rw [hN]; rfl
  obtain ⟨S, hS⟩ : ∃ S, S = set_inode N ino fun n => { n with i_zone := Function.update n.i_zone 7 (b7 + (s0.super_block sbi).s_firstdatazone - 1), i_ctime := s.CURRENT_TIME, i_dirt := 1 } := ⟨_, rfl⟩
  rw [← hS] at k4
  have hSbuf : S.buffer = N.buffer := by rw [hS]; rfl
  have hSsb : S.super_block = N.super_block := by rw [hS]; rfl
  have hSc : S.calls = N.calls := by rw [hS]; rfl
  have hSi : S.inode_table ino = { s.inode_table ino with i_zone := Function.update (s.inode_table ino).i_zone 7 (b7 + (s0.super_block sbi).s_firstdatazone - 1), i_ctime := s.CURRENT_TIME, i_dirt := 1 } := by
    rw [hS]
    simp only [set_inode, Function.update_same, hNi]
  have hSfree : zones_free S dev sbi (b :: L) := by
    refine zones_free_agree N S dev sbi (b :: L) hSsb (fun k => Or.inl ?_) n4
    rw [hSbuf]
  have hget : L0.get? 7 = some b7 := by
    rw [← h11, List.get?_eq_getElem?, List.getElem?_append_right (by omega), h12]
    rfl
  obtain ⟨t, ht, hlt, hmid⟩ := fw_entry s0 L0 dev sbi ino S i b7 b (A ++ [b7]) L (by omega)
    hSfree (hSsb.trans (hNsb.trans h2)) (by rw [hSi]; exact h3) (by rw [hSi]; exact h4) hget
    (by rw [hSi]; simp only [Function.update_same]) (by omega)
    (by rw [hSbuf, hNb]; decide) (by rw [hSbuf, hNb])
    (fun e _ => by rw [hSbuf, hNb]; rfl)
    (fun x hx => (List.pairwise_cons.mp hsort).1 x hx)
    (by rw [← h11]; simp) (by rw [List.length_append, h12, hk]; rfl)
    (by rw [hSc, hNc, h13, List.map_append, List.append_assoc]; rfl)
    (fun x => by
      have e1 : zone_bit S (s0.super_block sbi) x = zone_bit N (s0.super_block sbi) x := by
        unfold zone_bit
        rw [hSbuf]
      rw [e1, n5, h14]
      simp only [List.mem_append, List.mem_singleton, Bool.decide_or, Bool.or_assoc])
  refine ⟨t, ?_, hlt, hmid⟩
  unfold create_block _bmap
  rw [if_neg (by omega), if_neg (by omega), if_neg (by omega)]
  simp only []
  rw [if_pos (by omega), k4]
  simp only []
  have e1 : ((i / 1024 : Nat) : Int) - 7 = ((i / 1024 - 7 : Nat) : Int) := by omega
  rw [e1, Int.toNat_ofNat]
  exact ht

theorem file_write_loop_spec (umem : Nat → Byte) (s0 : Fs) (L0 : List Nat) (dev sbi ino n : Nat)
    (hn : n ≤ 519 * 1024)
    (hlen0 : L0.length = (n + 1023) / 1024 + (if 7168 < n then 1 else 0)) :
    ∀ (fuel : Nat) (s : Fs) (i buf : Nat) (A L : List Nat),
    fw_inv s0 L0 dev sbi ino s i A L → i ≤ n → (i % 1024 = 0 ∨ i = n) → n - i ≤ 1024 * fuel →
    ∃ t A2 L2, file_write_loop umem ino n fuel s i i buf = .ok (t, n, n) ∧
      fw_inv s0 L0 dev sbi ino t n A2 L2 := by
  intro fuel
  induction fuel with
  | zero =>
    intro s i buf A L hinv h1 h2 h3
    have hin : i = n := by omega
    subst hin
    refine ⟨s, A, L, ?_, hinv⟩
    unfold file_write_loop
    rw [if_neg (by omega)]
  | succ fuel ih =>
    intro s i buf A L hinv h1 h2 h3
    by_cases hin : i = n
    · subst hin
      refine ⟨s, A, L, ?_, hinv⟩
      unfold file_write_loop
      rw [if_neg (by omega)]
    · have hi : i % 1024 = 0 := by
        rcases h2 with h | h
        · exact h
        · exact absurd h hin
      have hlt : i < n := by omega
      have hA := hinv.2.2.2.2.2.2.2.2.1
      have hAL := hinv.2.2.2.2.2.2.2.1
      have hlen : A.length + L.length = L0.length := by
        rw [← hAL, List.length_append]
      have hkk : (i + 1023) / 1024 = i / 1024 := by omega
      rw [hkk] at hA
      -- the turn, from what `create_block` gives
      have hturn : ∀ (blk : Nat) (t : Fs) (A2 L2 : List Nat),
          create_block s ino ((i / 1024 : Nat) : Int) = .ok ((blk : Int), t) →
          blk < 65536 → fw_mid s0 L0 dev sbi ino t i blk A2 L2 →
          ∃ t A2 L2, file_write_loop umem ino n (fuel + 1) s i i buf = .ok (t, n, n) ∧
            fw_inv s0 L0 dev sbi ino t n A2 L2 := by
        intro blk t A2 L2 hcb hb hmid
        have hdev : (t.inode_table ino).i_dev = dev := hmid.2.2.1
        have hbuf := hmid.2.2.2.2.2.2.2.1
        have hb0 : blk ≠ 0 := hmid.2.2.2.2.2.2.2.2.1
        have hup : (t.buffer ((t.inode_table ino).i_dev, blk)).b_uptodate ≠ 0 := by
          rw [hdev, hbuf]; decide
        rw [file_write_turn umem ino n fuel s t i i buf blk hlt hb0 (by omega) hcb hup]
        obtain ⟨c, hc⟩ : ∃ c, c = (if BLOCK_SIZE - i % BLOCK_SIZE > n - i then n - i
            else BLOCK_SIZE - i % BLOCK_SIZE) := ⟨_, rfl⟩
        rw [← hc]
        have hB : BLOCK_SIZE = 1024 := rfl
        have hc1 : 1 ≤ c ∧ c ≤ 1024 ∧ i + c ≤ n ∧ (c = 1024 ∨ i + c = n) := by
          rw [hc, hB]
          split_ifs <;> omega
        have hinv2 := fw_mid_write umem s0 L0 dev sbi ino t i blk c buf A2 L2 hi hc1.1 hc1.2.1 hmid
        exact ih _ (i + c) (buf + c) A2 L2 hinv2 hc1.2.2.1 (by omega) (by omega)
      by_cases hk7 : i / 1024 < 7
      · have hL : 1 ≤ L.length := by
          rw [if_neg (by omega)] at hA
          split_ifs at hlen0 <;> omega
        obtain ⟨b, L2, rfl⟩ : ∃ b L2, L = b :: L2 := by
          cases L with
          | nil => simp at hL
          | cons b L2 => exact ⟨b, L2, rfl⟩
        obtain ⟨t, ht, hb, hmid⟩ := fw_create_direct s0 L0 dev sbi ino s i b A L2 hi hk7 hinv
        exact hturn _ t _ _ ht hb hmid
      · by_cases hk8 : i / 1024 = 7
        · have hL : 2 ≤ L.length := by
            rw [if_neg (by omega)] at hA
            rw [if_pos (by omega)] at hlen0
            omega
          obtain ⟨b7, b, L2, rfl⟩ : ∃ b7 b L2, L = b7 :: b :: L2 := by
            cases L with
            | nil => simp at hL
            | cons b7 L1 =>
              cases L1 with
              | nil => simp at hL
              | cons b L2 => exact ⟨b7, b, L2, rfl⟩
          obtain ⟨t, ht, hb, hmid⟩ :=
            fw_create_first_indirect s0 L0 dev sbi ino s i b7 b A L2 hi hk8 hinv
          exact hturn _ t _ _ ht hb hmid
        · have hL : 1 ≤ L.length := by
            rw [if_pos (by omega)] at hA
            rw [if_pos (by omega)] at hlen0
            omega
          obtain ⟨b, L2, rfl⟩ : ∃ b L2, L = b :: L2 := by
            cases L with
            | nil => simp at hL
            | cons b L2 => exact ⟨b, L2, rfl⟩
          obtain ⟨t, ht, hb, hmid⟩ := fw_create_indirect s0 L0 dev sbi ino s i b A L2 hi
            (by omega) (by omega) hinv
          exact hturn _ t _ _ ht hb hmid

theorem fs0_zone_bit (b : Nat) (hb : b < 65536)
    (h : zone_bit fs0 (fs0.super_block 0) b = false) : 12 ≤ b := by
  by_contra hlt
  have hb12 : b < 12 := by omega
  interval_cases b <;> exact absurd h (by decide)

theorem fs0_zones_free :
    zones_free fs0 0x301 0 [12, 13, 14, 15, 16, 17, 18, 19, 20, 21] := by
  refine ⟨rfl, by decide, ?_, ?_, by decide, ?_, ?_⟩
  · intro i key h
    have h2 : (if i = 0 then some ((0x301, 3) : Nat × Nat) else none) = some key := h
    split_ifs at h2
    cases h2
    decide
  · intro i j key h1 h2
    have g1 : (if i = 0 then some ((0x301, 3) : Nat × Nat) else none) = some key := h1
    have g2 : (if j = 0 then some ((0x301, 3) : Nat × Nat) else none) = some key := h2
    split_ifs at g1 g2
    omega
  · intro b hb
    simp only [List.mem_cons, List.mem_singleton, List.not_mem_nil, or_false] at hb
    rcases hb with h | h | h | h | h | h | h | h | h | h <;> subst h <;> decide
  · intro b hb hz hnot x hx
    have h12 := fs0_zone_bit b hb hz
    simp only [List.mem_cons, List.mem_singleton, List.not_mem_nil, or_false] at hnot hx
    omega

/-! ### Lemmas on `free_block` and `truncate` -/

theorem test_bit_clear_bit (data : Nat → Byte) (j k : Nat) :
    test_bit (clear_bit data j) k = (test_bit data k && !decide (k = j)) := by
  unfold test_bit clear_bit
  by_cases h8 : k / 8 = j / 8
  · rw [h8, Function.update_same]
    have hm : j % 8 < 8 := Nat.mod_lt _ (by decide)
    have hk : k % 8 < 8 := Nat.mod_lt _ (by decide)
    show (((data (j / 8)).val &&& (255 ^^^ 1 <<< (j % 8))) % 256).testBit (k % 8) = _
    have e : ∀ x : Nat, (x % 256).testBit (k % 8) = x.testBit (k % 8) := by
      intro x
      have := Nat.testBit_mod_two_pow x 8 (k % 8)
      simpa [hk] using this
    have e255 : Nat.testBit 255 (k % 8) = true := by
      have := Nat.testBit_two_pow_sub_one 8 (k % 8)
      simpa [hk] using this
    rw [e, Nat.testBit_and, Nat.testBit_xor, e255, Nat.testBit_shiftLeft]
    by_cases hkj : k = j
    · subst hkj
      simp
    · have hne : k % 8 ≠ j % 8 := by omega
      have e1 : decide (k = j) = false := by simpa using hkj
      rw [e1]
      by_cases hle : j % 8 ≤ k % 8
      · have h0 : k % 8 - j % 8 ≠ 0 := by omega
        have h1 : Nat.testBit 1 (k % 8 - j % 8) = false := by
          cases hb : Nat.testBit 1 (k % 8 - j % 8) with
          | false => rfl
          | true => exact absurd (Nat.testBit_one_eq_true_iff_self_eq_zero.mp hb) h0
        simp [h1]
      · simp [hle]
  · rw [Function.update_noteq h8]
    have : k ≠ j := fun h => h8 (by rw [h])
    simp [this]

theorem frees_refl (dev sbi : Nat) (s : Fs) : frees dev sbi s s [] :=
  ⟨rfl, rfl, rfl, rfl, by simp, fun _ _ _ => ⟨rfl, fun h => h⟩, fun _ _ => rfl⟩

theorem get_super_congr (s t : Fs) (dev : Nat) (h : t.super_block = s.super_block) :
    get_super t dev = get_super s dev := by
  unfold get_super
  rw [h]

theorem free_block_ok (t : Fs) (dev sbi z : Nat) (key : Nat × Nat)
    (hsup : get_super t dev = .ok (some sbi))
    (h1 : (t.super_block sbi).s_firstdatazone ≤ z) (h2 : z < (t.super_block sbi).s_nzones)
    (hk : (t.super_block sbi).s_zmap ((z + 1 - (t.super_block sbi).s_firstdatazone) / 8192)
      = some key)
    (hb : test_bit (t.buffer key).b_data
      ((z + 1 - (t.super_block sbi).s_firstdatazone) % 8192) = true)
    (hne : key ≠ (dev, z)) :
    ∃ u, free_block t dev z = .ok u ∧ u.super_block = t.super_block ∧
      u.inode_table = t.inode_table ∧ u.disk = t.disk ∧ u.io_error = t.io_error ∧
      u.CURRENT_TIME = t.CURRENT_TIME ∧ u.last_inode = t.last_inode ∧
      u.calls = t.calls ++ [FsCall.free_block dev z] ∧
      (∀ k, k ≠ (dev, z) → k ≠ key → u.buffer k = t.buffer k) ∧
      ((u.buffer key).b_data = (t.buffer key).b_data ∨
        (u.buffer key).b_data = clear_bit (t.buffer key).b_data
          ((z + 1 - (t.super_block sbi).s_firstdatazone) % 8192)) := by
  have hand : (z + 1 - (t.super_block sbi).s_firstdatazone) &&& 8191
      = (z + 1 - (t.super_block sbi).s_firstdatazone) % 8192 :=
    Nat.and_pow_two_sub_one_eq_mod _ 13
  have hbit : ∀ (u : Fs), u.super_block = t.super_block → u.inode_table = t.inode_table →
      u.disk = t.disk → u.io_error = t.io_error → u.CURRENT_TIME = t.CURRENT_TIME →
      u.last_inode = t.last_inode →
      u.calls = t.calls ++ [FsCall.free_block dev z] →
      (∀ k, k ≠ (dev, z) → u.buffer k = t.buffer k) →
      ∃ v, free_block_bit u (t.super_block sbi) z = .ok v ∧ v.super_block = t.super_block ∧
        v.inode_table = t.inode_table ∧ v.disk = t.disk ∧ v.io_error = t.io_error ∧
        v.CURRENT_TIME = t.CURRENT_TIME ∧ v.last_inode = t.last_inode ∧
        v.calls = t.calls ++ [FsCall.free_block dev z] ∧
        (∀ k, k ≠ (dev, z) → k ≠ key → v.buffer k = t.buffer k) ∧
        ((v.buffer key).b_data = (t.buffer key).b_data ∨
          (v.buffer key).b_data = clear_bit (t.buffer key).b_data
            ((z + 1 - (t.super_block sbi).s_firstdatazone) % 8192)) := by
    intro u u1 u2 u3 u4 u5 u6 u7 u8
    unfold free_block_bit
    simp only []
    rw [hk]
    simp only []
    rw [hand, u8 key hne, hb]
    simp only [Bool.true_eq_false, if_false]
    refine ⟨_, rfl, u1, u2, u3, u4, u5, u6, u7, ?_, Or.inr ?_⟩
    · intro k k1 k2
      simp only [Function.update_noteq k2]
      exact u8 k k1
    · simp only [Function.update_same]
  unfold free_block
  simp only []
  have hs2 : get_super { t with calls := t.calls ++ [FsCall.free_block dev z] } dev
      = .ok (some sbi) := by
    exact (get_super_congr _ t dev rfl).trans hsup
  rw [hs2]
  simp only []
  rw [if_neg (by omega)]
  unfold get_hash_table
  simp only []
  by_cases hmiss : (t.buffer (dev, z)).b_count = 0 ∧ (t.buffer (dev, z)).b_uptodate = 0 ∧
      (t.buffer (dev, z)).b_dirt = 0
  · rw [if_pos hmiss]
    simp only []
    refine hbit _ ?_ ?_ ?_ ?_ ?_ ?_ ?_ ?_
    iterate 7 rfl
    exact fun k _ => rfl
  · rw [if_neg hmiss]
    simp only [getblk, Function.update_same]
    by_cases hc : (t.buffer (dev, z)).b_count + 1 ≠ 1
    · rw [if_pos hc]
      refine ⟨_, rfl, rfl, rfl, rfl, rfl, rfl, rfl, rfl, ?_, Or.inl ?_⟩
      · intro k k1 k2
        simp only [Function.update_noteq k1]
      · simp only [Function.update_noteq hne]
    · rw [if_neg hc]
      refine hbit _ ?_ ?_ ?_ ?_ ?_ ?_ ?_ ?_
      iterate 7 rfl
      intro k k1
      simp only [brelse, Function.update_noteq k1]

theorem block_data_congr (s t : Fs) (key : Nat × Nat) (hb : t.buffer key = s.buffer key)
    (hd : t.disk = s.disk) : block_data t key = block_data s key := by
  unfold block_data
  rw [hb, hd]

theorem readable_congr (s t : Fs) (key : Nat × Nat) (hb : t.buffer key = s.buffer key)
    (hd : t.io_error = s.io_error) (h : readable s key) : readable t key := by
  unfold readable at h ⊢
  rw [hb, hd]
  exact h

theorem free_block_step (dev sbi : Nat) (s t : Fs) (Z F : List Nat) (z : Nat)
    (hwf : tr_wf s dev sbi Z) (hfr : frees dev sbi s t F) (hFZ : ∀ x, x ∈ F → x ∈ Z)
    (hz : z ∈ Z) (hzF : z ∉ F) :
    ∃ u, free_block t dev z = .ok u ∧ frees dev sbi s u (F ++ [z]) ∧
      u.inode_table = t.inode_table ∧ u.last_inode = t.last_inode ∧
      ∀ key, key ≠ (dev, z) → (∀ i, (s.super_block sbi).s_zmap i ≠ some key) →
        u.buffer key = t.buffer key := by
  obtain ⟨w1, w2, w3, w4, w5⟩ := hwf
  obtain ⟨f1, f2, f3, f4, f5, f6, f7⟩ := hfr
  obtain ⟨z1, z2, z3, z4, z5⟩ := w4 z hz
  obtain ⟨key, hk⟩ : ∃ key, (s.super_block sbi).s_zmap
      ((z + 1 - (s.super_block sbi).s_firstdatazone) / 8192) = some key := by
    cases h : (s.super_block sbi).s_zmap ((z + 1 - (s.super_block sbi).s_firstdatazone) / 8192) with
    | none => exact absurd h z3
    | some key => exact ⟨key, rfl⟩
  have hne : key ≠ (dev, z) := w3 _ key hk z hz
  have hpos : ∀ x, x ∈ F → z + 1 - (s.super_block sbi).s_firstdatazone
      ≠ x + 1 - (s.super_block sbi).s_firstdatazone := by
    intro x hx
    have := (w4 x (hFZ x hx)).1
    have : x ≠ z := fun h => hzF (h ▸ hx)
    omega
  have hbt : test_bit (t.buffer key).b_data
      ((z + 1 - (s.super_block sbi).s_firstdatazone) % 8192) = true := by
    have := f7 _ hpos
    rw [z4] at this
    unfold zone_bit at this
    rw [hk] at this
    exact this
  have hsbt : t.super_block sbi = s.super_block sbi := by rw [f1]
  obtain ⟨u, u0, u1, u2, u3, u4, u5, u6, u7, u8, u9⟩ := free_block_ok t dev sbi z key
    ((get_super_congr s t dev f1).trans w1) (by rw [hsbt]; exact z1) (by rw [hsbt]; exact z2)
    (by rw [hsbt]; exact hk) (by rw [hsbt]; exact hbt) hne
  rw [hsbt] at u9
  refine ⟨u, u0, ⟨u1.trans f1, u4.trans f2, u3.trans f3, u5.trans f4, ?_, ?_, ?_⟩, u2, u6, ?_⟩
  · rw [u7, f5, List.map_append, List.append_assoc]
    rfl
  · intro k hk1 hk2
    have hkz : k ≠ (dev, z) := hk1 z (List.mem_append_right _ (List.mem_singleton_self z))
    have hkk : k ≠ key := fun h => hk2 _ (h ▸ hk)
    obtain ⟨g1, g2⟩ := f6 k (fun x hx => hk1 x (List.mem_append_left _ hx)) hk2
    have hbuf := u8 k hkz hkk
    exact ⟨(block_data_congr t u k hbuf u3).trans g1,
      fun h => readable_congr t u k hbuf u4 (g2 h)⟩
  · intro x hx
    rw [← f7 x (fun y hy => hx y (List.mem_append_left _ hy))]
    have hxz : x ≠ z + 1 - (s.super_block sbi).s_firstdatazone :=
      hx z (List.mem_append_right _ (List.mem_singleton_self z))
    unfold zone_bit
    cases hxk : (s.super_block sbi).s_zmap (x / 8192) with
    | none => rfl
    | some kx =>
      simp only []
      by_cases hkk : kx = key
      · subst hkk
        rcases u9 with h | h
        · rw [h]
        · rw [h, test_bit_clear_bit]
          have hdiv := w2 _ _ _ hxk hk
          have : x % 8192 ≠ (z + 1 - (s.super_block sbi).s_firstdatazone) % 8192 := by omega
          simp [this]
      · have hkz : kx ≠ (dev, z) := w3 _ kx hxk z hz
        rw [u8 kx hkz hkk]
  · intro k hk1 hk2
    exact u8 k hk1 (fun h => hk2 _ (h ▸ hk))

theorem frees_touch (dev sbi : Nat) (s t u : Fs) (F : List Nat) (K : Nat × Nat)
    (h : frees dev sbi s t F) (e1 : u.super_block = t.super_block)
    (e2 : u.io_error = t.io_error) (e3 : u.disk = t.disk)
    (e4 : u.CURRENT_TIME = t.CURRENT_TIME) (e5 : u.calls = t.calls)
    (hb : ∀ k, k ≠ K → u.buffer k = t.buffer k)
    (hd : block_data u K = block_data t K) (hr : readable t K → readable u K)
    (hK : ∀ i, (s.super_block sbi).s_zmap i ≠ some K) : frees dev sbi s u F := by
  obtain ⟨f1, f2, f3, f4, f5, f6, f7⟩ := h
  refine ⟨e1.trans f1, e2.trans f2, e3.trans f3, e4.trans f4, e5.trans f5, ?_, ?_⟩
  · intro key h1 h2
    obtain ⟨g1, g2⟩ := f6 key h1 h2
    by_cases hk : key = K
    · subst hk
      exact ⟨hd.trans g1, fun h => hr (g2 h)⟩
    · exact ⟨(block_data_congr t u key (hb key hk) e3).trans g1,
        fun h => readable_congr t u key (hb key hk) e2 (g2 h)⟩
  · intro x hx
    rw [← f7 x hx]
    unfold zone_bit
    cases hxk : (s.super_block sbi).s_zmap (x / 8192) with
    | none => rfl
    | some kx =>
      simp only []
      rw [hb kx (fun h => hK _ (h ▸ hxk))]

theorem bread_frame (t : Fs) (dev b : Nat) :
    (bread t dev b).2.super_block = t.super_block ∧
    (bread t dev b).2.inode_table = t.inode_table ∧
    (bread t dev b).2.io_error = t.io_error ∧ (bread t dev b).2.disk = t.disk ∧
    (bread t dev b).2.CURRENT_TIME = t.CURRENT_TIME ∧ (bread t dev b).2.calls = t.calls ∧
    (bread t dev b).2.last_inode = t.last_inode ∧
    (∀ k, k ≠ (dev, b) → (bread t dev b).2.buffer k = t.buffer k) ∧
    block_data (bread t dev b).2 (dev, b) = block_data t (dev, b) ∧
    (readable t (dev, b) → readable (bread t dev b).2 (dev, b)) := by
  unfold bread
  simp only [getblk, Function.update_same]
  by_cases hu : (t.buffer (dev, b)).b_uptodate ≠ 0
  · rw [if_pos hu]
    refine ⟨rfl, rfl, rfl, rfl, rfl, rfl, rfl, fun k hk => ?_, ?_, fun _ => Or.inl ?_⟩
    · simp only [Function.update_noteq hk]
    · simp only [block_data, Function.update_same]
    · simp only [Function.update_same]; exact hu
  · rw [if_neg hu]
    have hu0 : (t.buffer (dev, b)).b_uptodate = 0 := by simpa using hu
    by_cases hio : t.io_error (dev, b) = true
    · rw [if_pos hio]
      refine ⟨rfl, rfl, rfl, rfl, rfl, rfl, rfl, fun k hk => ?_, ?_, fun h => ?_⟩
      · simp only [brelse, Function.update_noteq hk]
      · simp only [block_data, brelse, Function.update_same]
      · rcases h with h | h
        · exact absurd h hu
        · rw [hio] at h; exact absurd h (by decide)
    · rw [if_neg hio]
      refine ⟨rfl, rfl, rfl, rfl, rfl, rfl, rfl, fun k hk => ?_, ?_, fun _ => Or.inl ?_⟩
      · simp only [Function.update_noteq hk]
      · simp [block_data, hu0]
      · simp only [Function.update_same]; decide

theorem frees_bread (dev sbi : Nat) (s t : Fs) (F : List Nat) (b : Nat)
    (h : frees dev sbi s t F) (hK : ∀ i, (s.super_block sbi).s_zmap i ≠ some (dev, b)) :
    frees dev sbi s (bread t dev b).2 F := by
  obtain ⟨b1, b2, b3, b4, b5, b6, b7, b8, b9, b10⟩ := bread_frame t dev b
  exact frees_touch dev sbi s t _ F (dev, b) h b1 b3 b4 b5 b6 b8 b9 b10 hK

theorem frees_brelse (dev sbi : Nat) (s t : Fs) (F : List Nat) (b : Nat)
    (h : frees dev sbi s t F) (hK : ∀ i, (s.super_block sbi).s_zmap i ≠ some (dev, b)) :
    frees dev sbi s (brelse t (some (dev, b))) F := by
  refine frees_touch dev sbi s t _ F (dev, b) h rfl rfl rfl rfl rfl ?_ ?_ ?_ hK
  · intro k hk
    simp only [brelse, Function.update_noteq hk]
  · simp only [block_data, brelse, Function.update_same]
  · intro h
    unfold readable at h ⊢
    simpa [brelse] using h

theorem free_ind_loop_spec (dev sbi : Nat) (s : Fs) (Z : List Nat) (bh : Nat × Nat)
    (D : Nat → Byte) (hwf : tr_wf s dev sbi Z)
    (hbh : ∀ i, (s.super_block sbi).s_zmap i ≠ some bh) :
    ∀ (n i : Nat) (t : Fs) (F : List Nat), frees dev sbi s t F → (t.buffer bh).b_data = D →
    (∀ x, x ∈ F → x ∈ Z) →
    (∀ x, x ∈ ((List.range' i n).map (get_word D)).filter (fun z => decide (z ≠ 0)) →
      x ∈ Z ∧ bh ≠ (dev, x)) →
    (F ++ ((List.range' i n).map (get_word D)).filter (fun z => decide (z ≠ 0))).Nodup →
    ∃ u, free_ind_loop dev bh i n t = .ok u ∧
      frees dev sbi s u
        (F ++ ((List.range' i n).map (get_word D)).filter (fun z => decide (z ≠ 0))) ∧
      u.inode_table = t.inode_table ∧ u.last_inode = t.last_inode ∧
      ∀ key, (∀ z, z ∈ ((List.range' i n).map (get_word D)).filter (fun z => decide (z ≠ 0)) →
          key ≠ (dev, z)) →
        (∀ i, (s.super_block sbi).s_zmap i ≠ some key) → u.buffer key = t.buffer key := by
  intro n
  induction n with
  | zero =>
    intro i t F hfr _ _ _ _
    refine ⟨t, rfl, ?_, rfl, rfl, fun _ _ _ => rfl⟩
    simpa using hfr
  | succ n ih =>
    intro i t F hfr hD hFZ hE hnd
    unfold free_ind_loop
    simp only []
    rw [hD]
    have hr : List.range' i (n + 1) = i :: List.range' (i + 1) n := rfl
    rw [hr, List.map_cons] at hE hnd ⊢
    by_cases hp : get_word D i ≠ 0
    · rw [if_pos hp]
      have hfil : List.filter (fun z => decide (z ≠ 0))
          (get_word D i :: List.map (get_word D) (List.range' (i + 1) n))
          = get_word D i :: List.filter (fun z => decide (z ≠ 0))
            (List.map (get_word D) (List.range' (i + 1) n)) := by
        rw [List.filter_cons_of_pos (by simpa using hp)]
      rw [hfil] at hE hnd ⊢
      obtain ⟨hpZ, hpb⟩ := hE _ (List.mem_cons_self _ _)
      have hpF : get_word D i ∉ F := by
        intro h
        have := (List.nodup_append.mp hnd).2.2
        exact this h (List.mem_cons_self _ _)
      obtain ⟨u1, a1, a2, a3, a4, a5⟩ := free_block_step dev sbi s t Z F (get_word D i) hwf hfr
        hFZ hpZ hpF
      rw [a1]
      simp only []
      have hD1 : (u1.buffer bh).b_data = D := by rw [a5 bh hpb hbh]; exact hD
      have hnd2 : (F ++ [get_word D i] ++ List.filter (fun z => decide (z ≠ 0))
          (List.map (get_word D) (List.range' (i + 1) n))).Nodup := by
        rw [List.append_assoc]; exact hnd
      obtain ⟨u, c1, c2, c3, c4, c5⟩ := ih (i + 1) u1 (F ++ [get_word D i]) a2 hD1
        (fun x hx => by
          rcases List.mem_append.mp hx with h | h
          · exact hFZ x h
          · rw [List.mem_singleton.mp h]; exact hpZ)
        (fun x hx => hE x (List.mem_cons_of_mem _ hx)) hnd2
      refine ⟨u, c1, ?_, c3.trans a3, c4.trans a4, fun key k1 k2 => ?_⟩
      · rw [List.append_assoc] at c2; exact c2
      · rw [c5 key (fun z hz => k1 z (List.mem_cons_of_mem _ hz)) k2]
        exact a5 key (k1 _ (List.mem_cons_self _ _)) k2
    · rw [if_neg hp]
      have hfil : List.filter (fun z => decide (z ≠ 0))
          (get_word D i :: List.map (get_word D) (List.range' (i + 1) n))
          = List.filter (fun z => decide (z ≠ 0))
            (List.map (get_word D) (List.range' (i + 1) n)) := by
        rw [List.filter_cons_of_neg (by simpa using hp)]
      rw [hfil] at hE hnd ⊢
      exact ih (i + 1) t F hfr hD hFZ hE hnd

theorem free_ind_spec (dev sbi : Nat) (s : Fs) (Z : List Nat) (hwf : tr_wf s dev sbi Z)
    (t : Fs) (F : List Nat) (z : Nat) (hfr : frees dev sbi s t F) (hFZ : ∀ x, x ∈ F → x ∈ Z)
    (hzs : ∀ x, x ∈ zones_ind s dev z → x ∈ Z) (hnd : (F ++ zones_ind s dev z).Nodup) :
    ∃ u, free_ind t dev z = .ok u ∧ frees dev sbi s u (F ++ zones_ind s dev z) ∧
      u.inode_table = t.inode_table ∧ u.last_inode = t.last_inode ∧
      ∀ key, (∀ x, x ∈ zones_ind s dev z → key ≠ (dev, x)) →
        (∀ i, (s.super_block sbi).s_zmap i ≠ some key) → u.buffer key = t.buffer key := by
  unfold free_ind
  by_cases hz0 : z = 0
  · rw [if_pos hz0]
    have : zones_ind s dev z = [] := by unfold zones_ind; rw [if_pos hz0]
    rw [this, List.append_nil]
    exact ⟨t, rfl, hfr, rfl, rfl, fun _ _ _ => rfl⟩
  · rw [if_neg hz0]
    have hzi : zones_ind s dev z
        = ((List.range' 0 512).map (get_word (block_data s (dev, z)))).filter
            (fun z => decide (z ≠ 0)) ++ [z] := by
      unfold zones_ind zone_entries
      rw [if_neg hz0, List.range_eq_range']
    rw [hzi] at hzs hnd ⊢
    obtain ⟨E, hE⟩ : ∃ E, E = ((List.range' 0 512).map (get_word (block_data s (dev, z)))).filter
        (fun z => decide (z ≠ 0)) := ⟨_, rfl⟩
    rw [← hE] at hzs hnd ⊢
    have hzZ : z ∈ Z := hzs z (List.mem_append_right _ (List.mem_singleton_self z))
    have hzmap : ∀ i, (s.super_block sbi).s_zmap i ≠ some (dev, z) :=
      fun i h => hwf.2.2.1 i _ h z hzZ rfl
    rw [← List.append_assoc] at hnd
    have hzFE : z ∉ F ++ E := by
      intro h
      exact (List.nodup_append.mp hnd).2.2 h (List.mem_singleton_self z)
    have hndFE : (F ++ E).Nodup := (List.nodup_append.mp hnd).1
    have hzF : ∀ x, x ∈ F → ((dev, z) : Nat × Nat) ≠ (dev, x) := by
      intro x hx h
      exact hzFE (List.mem_append_left _ ((Prod.mk.inj h).2 ▸ hx))
    obtain ⟨v1, v2⟩ := hfr.2.2.2.2.2.1 (dev, z) hzF hzmap
    have hrt : readable t (dev, z) := v2 (hwf.2.2.2.1 z hzZ).2.2.2.2
    obtain ⟨r1, r2, -⟩ := bread_spec t dev z hrt
    obtain ⟨b1, b2, b3, b4, b5, b6, b7, b8, b9, b10⟩ := bread_frame t dev z
    have hfr1 := frees_bread dev sbi s t F z hfr hzmap
    simp only []
    rw [r1]
    simp only []
    obtain ⟨u2, c1, c2, c3, c4, c5⟩ := free_ind_loop_spec dev sbi s Z (dev, z)
      (block_data s (dev, z)) hwf hzmap 512 0 (bread t dev z).2 F hfr1 (by rw [r2, v1]) hFZ
      (fun x hx => by
        rw [← hE] at hx
        refine ⟨hzs x (List.mem_append_left _ hx), fun h => hzFE ?_⟩
        rw [(Prod.mk.inj h).2]
        exact List.mem_append_right _ hx)
      (by rw [← hE]; exact hndFE)
    rw [← hE] at c2 c5
    rw [c1]
    simp only []
    have hfr3 := frees_brelse dev sbi s u2 (F ++ E) z c2 hzmap
    obtain ⟨u4, d1, d2, d3, d4, d5⟩ := free_block_step dev sbi s (brelse u2 (some (dev, z))) Z
      (F ++ E) z hwf hfr3
      (fun x hx => by
        rcases List.mem_append.mp hx with h | h
        · exact hFZ x h
        · exact hzs x (List.mem_append_left _ h))
      hzZ hzFE
    refine ⟨u4, d1, ?_, ?_, ?_, fun key k1 k2 => ?_⟩
    · rw [List.append_assoc] at d2; exact d2
    · rw [d3]; exact c3.trans b2
    · rw [d4]; exact c4.trans b7
    · have hkz : key ≠ (dev, z) := k1 z (List.mem_append_right _ (List.mem_singleton_self z))
      rw [d5 key hkz k2]
      simp only [brelse, Function.update_noteq hkz]
      rw [c5 key (fun x hx => k1 x (List.mem_append_left _ hx)) k2]
      exact b8 key hkz

theorem free_dind_loop_spec (dev sbi : Nat) (s : Fs) (Z : List Nat) (bh : Nat × Nat)
    (D : Nat → Byte) (hwf : tr_wf s dev sbi Z)
    (hbh : ∀ i, (s.super_block sbi).s_zmap i ≠ some bh) :
    ∀ (n i : Nat) (t : Fs) (F : List Nat), frees dev sbi s t F → (t.buffer bh).b_data = D →
    (∀ x, x ∈ F → x ∈ Z) →
    (∀ x, x ∈ ((((List.range' i n).map (get_word D)).filter (fun z => decide (z ≠ 0))).map
        (zones_ind s dev)).flatten → x ∈ Z ∧ bh ≠ (dev, x)) →
    (F ++ ((((List.range' i n).map (get_word D)).filter (fun z => decide (z ≠ 0))).map
        (zones_ind s dev)).flatten).Nodup →
    ∃ u, free_dind_loop dev bh i n t = .ok u ∧
      frees dev sbi s u
        (F ++ ((((List.range' i n).map (get_word D)).filter (fun z => decide (z ≠ 0))).map
          (zones_ind s dev)).flatten) ∧
      u.inode_table = t.inode_table ∧ u.last_inode = t.last_inode ∧
      ∀ key, (∀ z, z ∈ ((((List.range' i n).map (get_word D)).filter
            (fun z => decide (z ≠ 0))).map (zones_ind s dev)).flatten → key ≠ (dev, z)) →
        (∀ i, (s.super_block sbi).s_zmap i ≠ some key) → u.buffer key = t.buffer key := by
  intro n
  induction n with
  | zero =>
    intro i t F hfr _ _ _ _
    refine ⟨t, rfl, ?_, rfl, rfl, fun _ _ _ => rfl⟩
    simpa using hfr
  | succ n ih =>
    intro i t F hfr hD hFZ hE hnd
    unfold free_dind_loop
    simp only []
    rw [hD]
    have hr : List.range' i (n + 1) = i :: List.range' (i + 1) n := rfl
    rw [hr, List.map_cons] at hE hnd ⊢
    by_cases hp : get_word D i ≠ 0
    · rw [if_pos hp]
      have hfil : List.filter (fun z => decide (z ≠ 0))
          (get_word D i :: List.map (get_word D) (List.range' (i + 1) n))
          = get_word D i :: List.filter (fun z => decide (z ≠ 0))
            (List.map (get_word D) (List.range' (i + 1) n)) := by
        rw [List.filter_cons_of_pos (by simpa using hp)]
      rw [hfil, List.map_cons, List.flatten_cons] at hE hnd ⊢
      rw [← List.append_assoc] at hnd
      obtain ⟨u1, a1, a2, a3, a4, a5⟩ := free_ind_spec dev sbi s Z hwf t F (get_word D i) hfr hFZ
        (fun x hx => (hE x (List.mem_append_left _ hx)).1) (List.nodup_append.mp hnd).1
      rw [a1]
      simp only []
      have hD1 : (u1.buffer bh).b_data = D := by
        rw [a5 bh (fun x hx => (hE x (List.mem_append_left _ hx)).2) hbh]; exact hD
      obtain ⟨u, c1, c2, c3, c4, c5⟩ := ih (i + 1) u1 (F ++ zones_ind s dev (get_word D i)) a2 hD1
        (fun x hx => by
          rcases List.mem_append.mp hx with h | h
          · exact hFZ x h
          · exact (hE x (List.mem_append_left _ h)).1)
        (fun x hx => hE x (List.mem_append_right _ hx)) hnd
      refine ⟨u, c1, ?_, c3.trans a3, c4.trans a4, fun key k1 k2 => ?_⟩
      · rw [List.append_assoc] at c2; exact c2
      · rw [c5 key (fun z hz => k1 z (List.mem_append_right _ hz)) k2]
        exact a5 key (fun z hz => k1 z (List.mem_append_left _ hz)) k2
    · rw [if_neg hp]
      have hfil : List.filter (fun z => decide (z ≠ 0))
          (get_word D i :: List.map (get_word D) (List.range' (i + 1) n))
          = List.filter (fun z => decide (z ≠ 0))
            (List.map (get_word D) (List.range' (i + 1) n)) := by
        rw [List.filter_cons_of_neg (by simpa using hp)]
      rw [hfil] at hE hnd ⊢
      exact ih (i + 1) t F hfr hD hFZ hE hnd

theorem free_dind_spec (dev sbi : Nat) (s : Fs) (Z : List Nat) (hwf : tr_wf s dev sbi Z)
    (t : Fs) (F : List Nat) (z : Nat) (hfr : frees dev sbi s t F) (hFZ : ∀ x, x ∈ F → x ∈ Z)
    (hzs : ∀ x, x ∈ zones_dind s dev z → x ∈ Z) (hnd : (F ++ zones_dind s dev z).Nodup) :
    ∃ u, free_dind t dev z = .ok u ∧ frees dev sbi s u (F ++ zones_dind s dev z) ∧
      u.inode_table = t.inode_table ∧ u.last_inode = t.last_inode ∧
      ∀ key, (∀ x, x ∈ zones_dind s dev z → key ≠ (dev, x)) →
        (∀ i, (s.super_block sbi).s_zmap i ≠ some key) → u.buffer key = t.buffer key := by
  unfold free_dind
  by_cases hz0 : z = 0
  · rw [if_pos hz0]
    have : zones_dind s dev z = [] := by unfold zones_dind; rw [if_pos hz0]
    rw [this, List.append_nil]
    exact ⟨t, rfl, hfr, rfl, rfl, fun _ _ _ => rfl⟩
  · rw [if_neg hz0]
    have hzi : zones_dind s dev z
        = ((((List.range' 0 512).map (get_word (block_data s (dev, z)))).filter
            (fun z => decide (z ≠ 0))).map (zones_ind s dev)).flatten ++ [z] := by
      unfold zones_dind zone_entries
      rw [if_neg hz0, List.range_eq_range']
    rw [hzi] at hzs hnd ⊢
    obtain ⟨E, hE⟩ : ∃ E, E = ((((List.range' 0 512).map (get_word (block_data s (dev, z)))).filter
        (fun z => decide (z ≠ 0))).map (zones_ind s dev)).flatten := ⟨_, rfl⟩
    rw [← hE] at hzs hnd ⊢
    have hzZ : z ∈ Z := hzs z (List.mem_append_right _ (List.mem_singleton_self z))
    have hzmap : ∀ i, (s.super_block sbi).s_zmap i ≠ some (dev, z) :=
      fun i h => hwf.2.2.1 i _ h z hzZ rfl
    rw [← List.append_assoc] at hnd
    have hzFE : z ∉ F ++ E := by
      intro h
      exact (List.nodup_append.mp hnd).2.2 h (List.mem_singleton_self z)
    have hndFE : (F ++ E).Nodup := (List.nodup_append.mp hnd).1
    have hzF : ∀ x, x ∈ F → ((dev, z) : Nat × Nat) ≠ (dev, x) := by
      intro x hx h
      exact hzFE (List.mem_append_left _ ((Prod.mk.inj h).2 ▸ hx))
    obtain ⟨v1, v2⟩ := hfr.2.2.2.2.2.1 (dev, z) hzF hzmap
    have hrt : readable t (dev, z) := v2 (hwf.2.2.2.1 z hzZ).2.2.2.2
    obtain ⟨r1, r2, -⟩ := bread_spec t dev z hrt
    obtain ⟨b1, b2, b3, b4, b5, b6, b7, b8, b9, b10⟩ := bread_frame t dev z
    have hfr1 := frees_bread dev sbi s t F z hfr hzmap
    simp only []
    rw [r1]
    simp only []
    obtain ⟨u2, c1, c2, c3, c4, c5⟩ := free_dind_loop_spec dev sbi s Z (dev, z)
      (block_data s (dev, z)) hwf hzmap 512 0 (bread t dev z).2 F hfr1 (by rw [r2, v1]) hFZ
      (fun x hx => by
        rw [← hE] at hx
        refine ⟨hzs x (List.mem_append_left _ hx), fun h => hzFE ?_⟩
        rw [(Prod.mk.inj h).2]
        exact List.mem_append_right _ hx)
      (by rw [← hE]; exact hndFE)
    rw [← hE] at c2 c5
    rw [c1]
    simp only []
    have hfr3 := frees_brelse dev sbi s u2 (F ++ E) z c2 hzmap
    obtain ⟨u4, d1, d2, d3, d4, d5⟩ := free_block_step dev sbi s (brelse u2 (some (dev, z))) Z
      (F ++ E) z hwf hfr3
      (fun x hx => by
        rcases List.mem_append.mp hx with h | h
        · exact hFZ x h
        · exact hzs x (List.mem_append_left _ h))
      hzZ hzFE
    refine ⟨u4, d1, ?_, ?_, ?_, fun key k1 k2 => ?_⟩
    · rw [List.append_assoc] at d2; exact d2
    · rw [d3]; exact c3.trans b2
    · rw [d4]; exact c4.trans b7
    · have hkz : key ≠ (dev, z) := k1 z (List.mem_append_right _ (List.mem_singleton_self z))
      rw [d5 key hkz k2]
      simp only [brelse, Function.update_noteq hkz]
      rw [c5 key (fun x hx => k1 x (List.mem_append_left _ hx)) k2]
      exact b8 key hkz

theorem frees_set_inode (dev sbi : Nat) (s t : Fs) (F : List Nat) (ino : Nat)
    (f : m_inode → m_inode) (h : frees dev sbi s t F) : frees dev sbi s (set_inode t ino f) F := h

theorem truncate_direct_spec (dev sbi : Nat) (s : Fs) (Z : List Nat) (ino : Nat)
    (zone0 : Nat → Nat) (hwf : tr_wf s dev sbi Z) :
    ∀ (n i : Nat) (t : Fs) (F : List Nat), frees dev sbi s t F →
    (t.inode_table ino).i_dev = dev → (∀ j, i ≤ j → (t.inode_table ino).i_zone j = zone0 j) →
    (∀ x, x ∈ F → x ∈ Z) →
    (∀ x, x ∈ ((List.range' i n).map zone0).filter (fun z => decide (z ≠ 0)) → x ∈ Z) →
    (F ++ ((List.range' i n).map zone0).filter (fun z => decide (z ≠ 0))).Nodup →
    ∃ u zn, truncate_direct ino i n t = .ok u ∧
      frees dev sbi s u (F ++ ((List.range' i n).map zone0).filter (fun z => decide (z ≠ 0))) ∧
      u.inode_table = Function.update t.inode_table ino { t.inode_table ino with i_zone := zn } ∧
      (∀ j, i ≤ j → j < i + n → zn j = 0) ∧
      (∀ j, ¬ (i ≤ j ∧ j < i + n) → zn j = (t.inode_table ino).i_zone j) ∧
      u.last_inode = t.last_inode := by
  intro n
  induction n with
  | zero =>
    intro i t F hfr _ _ _ _ _
    refine ⟨t, (t.inode_table ino).i_zone, rfl, ?_, ?_, fun j h1 h2 => by omega, fun _ _ => rfl, rfl⟩
    · simpa using hfr
    · exact (Function.update_eq_self _ _).symm
  | succ n ih =>
    intro i t F hfr hdev hzone hFZ hE hnd
    unfold truncate_direct
    have hr : List.range' i (n + 1) = i :: List.range' (i + 1) n := rfl
    rw [hr, List.map_cons] at hE hnd ⊢
    rw [hzone i (le_refl _), hdev]
    by_cases hp : zone0 i ≠ 0
    · rw [if_pos hp]
      have hfil : List.filter (fun z => decide (z ≠ 0))
          (zone0 i :: List.map zone0 (List.range' (i + 1) n))
          = zone0 i :: List.filter (fun z => decide (z ≠ 0))
            (List.map zone0 (List.range' (i + 1) n)) := by
        rw [List.filter_cons_of_pos (by simpa using hp)]
      rw [hfil] at hE hnd ⊢
      have hpZ := hE _ (List.mem_cons_self _ _)
      have hpF : zone0 i ∉ F := fun h =>
        (List.nodup_append.mp hnd).2.2 h (List.mem_cons_self _ _)
      obtain ⟨u1, a1, a2, a3, a4, a5⟩ := free_block_step dev sbi s t Z F (zone0 i) hwf hfr
        hFZ hpZ hpF
      rw [a1]
      simp only []
      have hnd2 : (F ++ [zone0 i] ++ List.filter (fun z => decide (z ≠ 0))
          (List.map zone0 (List.range' (i + 1) n))).Nodup := by
        rw [List.append_assoc]; exact hnd
      have ht2 : (set_inode u1 ino fun m => { m with i_zone := Function.update m.i_zone i 0 }).inode_table ino
          = { t.inode_table ino with i_zone := Function.update (t.inode_table ino).i_zone i 0 } := by
        simp only [set_inode, Function.update_same, a3]
      obtain ⟨u, zn, c1, c2, c3, c4, c5, c6⟩ := ih (i + 1)
        (set_inode u1 ino fun m => { m with i_zone := Function.update m.i_zone i 0 })
        (F ++ [zone0 i]) (frees_set_inode dev sbi s u1 _ ino _ a2)
        (by rw [ht2]; exact hdev)
        (fun j hj => by
          rw [ht2]
          simp only []
          rw [Function.update_noteq (by omega)]
          exact hzone j (by omega))
        (fun x hx => by
          rcases List.mem_append.mp hx with h | h
          · exact hFZ x h
          · rw [List.mem_singleton.mp h]; exact hpZ)
        (fun x hx => hE x (List.mem_cons_of_mem _ hx)) hnd2
      refine ⟨u, zn, c1, ?_, ?_, ?_, ?_, c6.trans a4⟩
      · rw [List.append_assoc] at c2; exact c2
      · rw [c3, ht2]
        simp only [set_inode, a3, Function.update_idem]
      · intro j h1 h2
        by_cases hji : j = i
        · subst hji
          rw [c5 j (by omega), ht2]
          simp only [Function.update_same]
        · exact c4 j (by omega) (by omega)
      · intro j hj
        rw [c5 j (by omega), ht2]
        simp only []
        rw [Function.update_noteq (by omega)]
    · rw [if_neg hp]
      have hfil : List.filter (fun z => decide (z ≠ 0))
          (zone0 i :: List.map zone0 (List.range' (i + 1) n))
          = List.filter (fun z => decide (z ≠ 0))
            (List.map zone0 (List.range' (i + 1) n)) := by
        rw [List.filter_cons_of_neg (by simpa using hp)]
      rw [hfil] at hE hnd ⊢
      obtain ⟨u, zn, c1, c2, c3, c4, c5, c6⟩ := ih (i + 1) t F hfr hdev
        (fun j hj => hzone j (by omega)) hFZ hE hnd
      refine ⟨u, zn, c1, c2, c3, ?_, ?_, c6⟩
      · intro j h1 h2
        by_cases hji : j = i
        · subst hji
          rw [c5 j (by omega), hzone j (le_refl _)]
          simpa using hp
        · exact c4 j (by omega) (by omega)
      · intro j hj
        exact c5 j (by omega)

set_option maxRecDepth 100000 in
theorem fs0_zones_of : zones_of fs0 2 = [7, 8, 9, 10, 11, 12, 13, 15, 16, 14] := by
  decide

theorem fs0_tr_wf : tr_wf fs0 0x301 0 [7, 8, 9, 10, 11, 12, 13, 15, 16, 14] := by
  refine ⟨rfl, ?_, ?_, ?_, by decide⟩
  · intro i j key h1 h2
    have g1 : (if i = 0 then some ((0x301, 3) : Nat × Nat) else none) = some key := h1
    have g2 : (if j = 0 then some ((0x301, 3) : Nat × Nat) else none) = some key := h2
    split_ifs at g1 g2
    omega
  · intro i key h z hz
    have g1 : (if i = 0 then some ((0x301, 3) : Nat × Nat) else none) = some key := h
    split_ifs at g1
    cases g1
    simp only [List.mem_cons, List.mem_singleton, List.not_mem_nil, or_false] at hz
    intro hh
    have := (Prod.mk.inj hh).2
    omega
  · intro z hz
    simp only [List.mem_cons, List.mem_singleton, List.not_mem_nil, or_false] at hz
    refine ⟨?_, ?_, ?_, ?_, Or.inr rfl⟩
    · rcases hz with h | h | h | h | h | h | h | h | h | h <;> subst h <;> decide
    · rcases hz with h | h | h | h | h | h | h | h | h | h <;> subst h <;> decide
    · rcases hz with h | h | h | h | h | h | h | h | h | h <;> subst h <;> decide
    · rcases hz with h | h | h | h | h | h | h | h | h | h <;> subst h <;> decide

/-! ### Lemmas on the inode cache -/

theorem keeps_refl (s : Fs) : keeps s s := ⟨rfl, fun _ => Or.inl ⟨rfl, rfl⟩⟩

theorem keeps_trans (s t u : Fs) (h1 : keeps s t) (h2 : keeps t u) : keeps s u := by
  refine ⟨h2.1.trans h1.1, fun k => ?_⟩
  rcases h2.2 k with ⟨a, b⟩ | a
  · rcases h1.2 k with ⟨c, d⟩ | c
    · exact Or.inl ⟨a.trans c, b.trans d⟩
    · exact Or.inr (a.trans c)
  · exact Or.inr a

theorem keeps_of_eq (s t : Fs) (h1 : t.super_block = s.super_block)
    (h2 : t.inode_table = s.inode_table) : keeps s t :=
  ⟨h1, fun k => Or.inl ⟨by rw [h2], by rw [h2]⟩⟩

theorem inode_unique_keeps (s t : Fs) (h : inode_unique s) (hk : keeps s t) :
    inode_unique t := by
  intro i j hi hj h0 h1 h2
  rcases hk.2 i with ⟨a, b⟩ | a
  · rcases hk.2 j with ⟨c, d⟩ | c
    · exact h i j hi hj (by rw [← a]; exact h0) (by rw [← a, ← c]; exact h1)
        (by rw [← b, ← d]; exact h2)
    · rw [h1, c] at h0
      exact absurd rfl h0
  · exact absurd a h0

theorem free_block_bit_frame (s u : Fs) (sb : super_block) (z : Nat)
    (h : free_block_bit s sb z = .ok u) :
    u.super_block = s.super_block ∧ u.inode_table = s.inode_table := by
  unfold free_block_bit at h
  simp only [] at h
  split at h
  · exact Outcome.noConfusion h
  · split_ifs at h
    cases h
    exact ⟨rfl, rfl⟩

theorem free_block_frame (s u : Fs) (dev z : Nat) (h : free_block s dev z = .ok u) :
    u.super_block = s.super_block ∧ u.inode_table = s.inode_table := by
  unfold free_block at h
  simp only [] at h
  split at h
  · exact Outcome.noConfusion h
  · exact Outcome.noConfusion h
  · exact Outcome.noConfusion h
  · split_ifs at h
    by_cases hm : (s.buffer (dev, z)).b_count = 0 ∧ (s.buffer (dev, z)).b_uptodate = 0 ∧
        (s.buffer (dev, z)).b_dirt = 0
    · simp only [get_hash_table, hm, and_self, if_true] at h
      have := free_block_bit_frame _ _ _ _ h
      exact this
    · simp only [get_hash_table, hm, if_false] at h
      split_ifs at h
      · cases h
        exact ⟨rfl, rfl⟩
      · have := free_block_bit_frame _ _ _ _ h
        exact this

theorem bread_fr (s : Fs) (dev b : Nat) :
    (bread s dev b).2.super_block = s.super_block ∧
    (bread s dev b).2.inode_table = s.inode_table :=
  ⟨(bread_frame s dev b).1, (bread_frame s dev b).2.1⟩

theorem brelse_fr (s : Fs) (bh : Option (Nat × Nat)) :
    (brelse s bh).super_block = s.super_block ∧ (brelse s bh).inode_table = s.inode_table := by
  cases bh <;> exact ⟨rfl, rfl⟩

theorem free_ind_loop_frame (dev : Nat) (bh : Nat × Nat) : ∀ (n i : Nat) (s u : Fs),
    free_ind_loop dev bh i n s = .ok u →
    u.super_block = s.super_block ∧ u.inode_table = s.inode_table := by
  intro n
  induction n with
  | zero =>
    intro i s u h
    unfold free_ind_loop at h
    cases h
    exact ⟨rfl, rfl⟩
  | succ n ih =>
    intro i s u h
    unfold free_ind_loop at h
    simp only [] at h
    split_ifs at h
    · split at h
      · rename_i s1 h1
        have a := free_block_frame _ _ _ _ h1
        have b := ih _ _ _ h
        exact ⟨b.1.trans a.1, b.2.trans a.2⟩
      · exact Outcome.noConfusion h
      · exact Outcome.noConfusion h
    · exact ih _ _ _ h

theorem free_ind_frame (s u : Fs) (dev z : Nat) (h : free_ind s dev z = .ok u) :
    u.super_block = s.super_block ∧ u.inode_table = s.inode_table := by
  unfold free_ind at h
  simp only [] at h
  split_ifs at h
  · cases h
    exact ⟨rfl, rfl⟩
  · have hb := bread_fr s dev z
    split at h
    · split at h
      · rename_i s1 h1
        have a := free_ind_loop_frame _ _ _ _ _ _ h1
        have b := free_block_frame _ _ _ _ h
        exact ⟨b.1.trans (a.1.trans hb.1), b.2.trans (a.2.trans hb.2)⟩
      · exact Outcome.noConfusion h
      · exact Outcome.noConfusion h
    · have b := free_block_frame _ _ _ _ h
      exact ⟨b.1.trans hb.1, b.2.trans hb.2⟩

theorem free_dind_loop_frame (dev : Nat) (bh : Nat × Nat) : ∀ (n i : Nat) (s u : Fs),
    free_dind_loop dev bh i n s = .ok u →
    u.super_block = s.super_block ∧ u.inode_table = s.inode_table := by
  intro n
  induction n with
  | zero =>
    intro i s u h
    unfold free_dind_loop at h
    cases h
    exact ⟨rfl, rfl⟩
  | succ n ih =>
    intro i s u h
    unfold free_dind_loop at h
    simp only [] at h
    split_ifs at h
    · split at h
      · rename_i s1 h1
        have a := free_ind_frame _ _ _ _ h1
        have b := ih _ _ _ h
        exact ⟨b.1.trans a.1, b.2.trans a.2⟩
      · exact Outcome.noConfusion h
      · exact Outcome.noConfusion h
    · exact ih _ _ _ h

theorem free_dind_frame (s u : Fs) (dev z : Nat) (h : free_dind s dev z = .ok u) :
    u.super_block = s.super_block ∧ u.inode_table = s.inode_table := by
  unfold free_dind at h
  simp only [] at h
  split_ifs at h
  · cases h
    exact ⟨rfl, rfl⟩
  · have hb := bread_fr s dev z
    split at h
    · split at h
      · rename_i s1 h1
        have a := free_dind_loop_frame _ _ _ _ _ _ h1
        have b := free_block_frame _ _ _ _ h
        exact ⟨b.1.trans (a.1.trans hb.1), b.2.trans (a.2.trans hb.2)⟩
      · exact Outcome.noConfusion h
      · exact Outcome.noConfusion h
    · have b := free_block_frame _ _ _ _ h
      exact ⟨b.1.trans hb.1, b.2.trans hb.2⟩

theorem keeps_set_inode (s : Fs) (i : Nat) (f : m_inode → m_inode)
    (h : ((f (s.inode_table i)).i_dev = (s.inode_table i).i_dev ∧
      (f (s.inode_table i)).i_num = (s.inode_table i).i_num) ∨ (f (s.inode_table i)).i_dev = 0) :
    keeps s (set_inode s i f) := by
  refine ⟨rfl, fun k => ?_⟩
  by_cases hk : k = i
  · subst hk
    simp only [set_inode, Function.update_same]
    exact h
  · rw [show (set_inode s i f).inode_table k = s.inode_table k from Function.update_noteq hk _ _]
    exact Or.inl ⟨rfl, rfl⟩

theorem truncate_direct_keeps (inode : Nat) : ∀ (n i : Nat) (s u : Fs),
    truncate_direct inode i n s = .ok u → keeps s u := by
  intro n
  induction n with
  | zero =>
    intro i s u h
    unfold truncate_direct at h
    cases h
    exact keeps_refl _
  | succ n ih =>
    intro i s u h
    unfold truncate_direct at h
    split_ifs at h
    · split at h
      · rename_i s1 h1
        have a := free_block_frame _ _ _ _ h1
        have b := ih _ _ _ h
        exact keeps_trans _ _ _ (keeps_of_eq _ _ a.1 a.2)
          (keeps_trans _ _ _ (keeps_set_inode _ _ _ (Or.inl ⟨rfl, rfl⟩)) b)
      · exact Outcome.noConfusion h
      · exact Outcome.noConfusion h
    · exact ih _ _ _ h

theorem truncate_keeps (s u : Fs) (inode : Nat) (h : truncate s inode = .ok u) : keeps s u := by
  unfold truncate at h
  split_ifs at h
  swap
  · cases h
    exact keeps_refl _
  · split at h
    · exact Outcome.noConfusion h
    · exact Outcome.noConfusion h
    · rename_i s1 h1
      split at h
      · exact Outcome.noConfusion h
      · exact Outcome.noConfusion h
      · rename_i s2 h2
        split at h
        · exact Outcome.noConfusion h
        · exact Outcome.noConfusion h
        · rename_i s3 h3
          cases h
          have a := truncate_direct_keeps _ _ _ _ _ h1
          have b := free_ind_frame _ _ _ _ h2
          have c := free_dind_frame _ _ _ _ h3
          exact keeps_trans _ _ _ a (keeps_trans _ _ _ (keeps_of_eq _ _ b.1 b.2)
            (keeps_trans _ _ _ (keeps_of_eq _ _ c.1 c.2)
              (keeps_set_inode _ _ _ (Or.inl ⟨rfl, rfl⟩))))

theorem write_inode_keeps (s u : Fs) (inode : Nat) (h : write_inode s inode = .ok u) :
    keeps s u := by
  unfold write_inode at h
  simp only [] at h
  by_cases h1 : (s.inode_table inode).i_lock ≠ 0
  · rw [if_pos h1] at h
    exact Outcome.noConfusion h
  rw [if_neg h1] at h
  by_cases h2 : (s.inode_table inode).i_dirt = 0 ∨ (s.inode_table inode).i_dev = 0
  · rw [if_pos h2] at h
    cases h
    exact keeps_refl _
  rw [if_neg h2] at h
  split at h
  · exact Outcome.noConfusion h
  · exact Outcome.noConfusion h
  · exact Outcome.noConfusion h
  · rename_i sbi hsb
    have hb := bread_fr s (s.inode_table inode).i_dev
      (2 + (s.super_block sbi).s_imap_blocks + (s.super_block sbi).s_zmap_blocks +
        ((s.inode_table inode).i_num - 1) / INODES_PER_BLOCK)
    split at h
    · exact Outcome.noConfusion h
    · by_cases h3 : (s.inode_table inode).i_num = 0
      · rw [if_pos h3] at h
        exact Outcome.noConfusion h
      rw [if_neg h3] at h
      cases h
      refine keeps_trans _ _ _ (keeps_of_eq _ _ hb.1 hb.2) ?_
      refine keeps_trans _ _ _ ?_ (keeps_of_eq _ _ (brelse_fr _ _).1 (brelse_fr _ _).2)
      refine keeps_trans _ _ _ ?_ (keeps_set_inode _ _ _ ?_)
      · exact keeps_of_eq _ _ rfl rfl
      · exact Or.inl ⟨rfl, rfl⟩

theorem read_inode_keeps (s u : Fs) (inode : Nat) (h : read_inode s inode = .ok u) :
    keeps s u := by
  unfold read_inode at h
  simp only [] at h
  by_cases h1 : (s.inode_table inode).i_lock ≠ 0
  · rw [if_pos h1] at h
    exact Outcome.noConfusion h
  rw [if_neg h1] at h
  split at h
  · exact Outcome.noConfusion h
  · exact Outcome.noConfusion h
  · exact Outcome.noConfusion h
  · rename_i sbi hsb
    have hb := bread_fr s (s.inode_table inode).i_dev
      (2 + (s.super_block sbi).s_imap_blocks + (s.super_block sbi).s_zmap_blocks +
        ((s.inode_table inode).i_num - 1) / INODES_PER_BLOCK)
    split at h
    · exact Outcome.noConfusion h
    · by_cases h3 : (s.inode_table inode).i_num = 0
      · rw [if_pos h3] at h
        exact Outcome.noConfusion h
      rw [if_neg h3] at h
      cases h
      refine keeps_trans _ _ _ (keeps_of_eq _ _ hb.1 hb.2) ?_
      refine keeps_trans _ _ _ ?_ (keeps_of_eq _ _ (brelse_fr _ _).1 (brelse_fr _ _).2)
      refine keeps_set_inode _ _ _ ?_
      exact Or.inl ⟨rfl, rfl⟩

theorem free_inode_keeps (s u : Fs) (inode : Option Nat) (h : free_inode s inode = .ok u) :
    keeps s u := by
  unfold free_inode at h
  split at h
  · cases h
    exact keeps_refl _
  · rename_i ino
    simp only [] at h
    by_cases h1 : (s.inode_table ino).i_dev = 0
    · rw [if_pos h1] at h
      cases h
      exact keeps_set_inode _ _ _ (Or.inr rfl)
    rw [if_neg h1] at h
    by_cases h2 : (s.inode_table ino).i_count > 1
    · rw [if_pos h2] at h
      exact Outcome.noConfusion h
    rw [if_neg h2] at h
    by_cases h3 : (s.inode_table ino).i_nlinks ≠ 0
    · rw [if_pos h3] at h
      exact Outcome.noConfusion h
    rw [if_neg h3] at h
    split at h
    · exact Outcome.noConfusion h
    · exact Outcome.noConfusion h
    · exact Outcome.noConfusion h
    · rename_i sbi hsb
      by_cases h4 : (s.inode_table ino).i_num < 1 ∨ (s.inode_table ino).i_num > (s.super_block sbi).s_ninodes
      · rw [if_pos h4] at h
        exact Outcome.noConfusion h
      rw [if_neg h4] at h
      split at h
      · exact Outcome.noConfusion h
      · rename_i bh hbh
        cases h
        refine ⟨?_, fun k => ?_⟩
        · simp only [set_inode]
          split_ifs <;> rfl
        · by_cases hk : k = ino
          · right
            rw [hk]
            simp only [set_inode, Function.update_same]
            rfl
          · left
            simp only [set_inode]
            rw [Function.update_noteq hk]
            split_ifs <;> exact ⟨rfl, rfl⟩

theorem write_dirty_keeps (inode : Nat) : ∀ (fuel : Nat) (s u : Fs),
    write_dirty inode fuel s = .ok u → keeps s u := by
  intro fuel
  induction fuel with
  | zero =>
    intro s u h
    unfold write_dirty at h
    split_ifs at h
    cases h
    exact keeps_refl _
  | succ n ih =>
    intro s u h
    unfold write_dirty at h
    by_cases h1 : (s.inode_table inode).i_dirt ≠ 0
    · rw [if_pos h1] at h
      split at h
      · exact Outcome.noConfusion h
      · exact Outcome.noConfusion h
      · rename_i s1 hs1
        split_ifs at h
        exact keeps_trans _ _ _ (write_inode_keeps _ _ _ hs1) (ih _ _ h)
    · rw [if_neg h1] at h
      cases h
      exact keeps_refl _

theorem get_empty_inode_keeps : ∀ (fuel : Nat) (s u : Fs) (r : Nat),
    get_empty_inode fuel s = .ok (r, u) → keeps s u := by
  intro fuel
  induction fuel with
  | zero =>
    intro s u r h
    unfold get_empty_inode at h
    exact Outcome.noConfusion h
  | succ n ih =>
    intro s u r h
    unfold get_empty_inode at h
    simp only [] at h
    split at h
    · exact Outcome.noConfusion h
    · rename_i inode hin
      by_cases h1 : (s.inode_table inode).i_lock ≠ 0
      · rw [if_pos h1] at h
        exact Outcome.noConfusion h
      rw [if_neg h1] at h
      split at h
      · exact Outcome.noConfusion h
      · exact Outcome.noConfusion h
      · rename_i s1 hs1
        have k0 := write_dirty_keeps _ _ _ _ hs1
        have k1 : keeps s s1 := keeps_trans _ _ _ (keeps_of_eq s _ rfl rfl) k0
        by_cases h2 : (s1.inode_table inode).i_count ≠ 0
        · rw [if_pos h2] at h
          exact keeps_trans _ _ _ k1 (ih _ _ _ h)
        · rw [if_neg h2] at h
          cases h
          exact keeps_trans _ _ _ k1 (keeps_set_inode _ _ _ (Or.inr rfl))

theorem iput_repeat_keeps (inode : Nat) : ∀ (fuel : Nat) (s u : Fs),
    iput_repeat inode fuel s = .ok u → keeps s u := by
  intro fuel
  induction fuel with
  | zero =>
    intro s u h
    unfold iput_repeat at h
    exact Outcome.noConfusion h
  | succ n ih =>
    intro s u h
    unfold iput_repeat at h
    simp only [] at h
    by_cases h1 : (s.inode_table inode).i_count > 1
    · rw [if_pos h1] at h
      cases h
      exact keeps_set_inode _ _ _ (Or.inl ⟨rfl, rfl⟩)
    rw [if_neg h1] at h
    by_cases h2 : (s.inode_table inode).i_nlinks = 0
    · rw [if_pos h2] at h
      split at h
      · exact Outcome.noConfusion h
      · exact Outcome.noConfusion h
      · rename_i s1 hs1
        exact keeps_trans _ _ _ (truncate_keeps _ _ _ hs1) (free_inode_keeps _ _ _ h)
    rw [if_neg h2] at h
    by_cases h3 : (s.inode_table inode).i_dirt ≠ 0
    · rw [if_pos h3] at h
      split at h
      · exact Outcome.noConfusion h
      · exact Outcome.noConfusion h
      · rename_i s1 hs1
        split_ifs at h
        exact keeps_trans _ _ _ (write_inode_keeps _ _ _ hs1) (ih _ _ h)
    · rw [if_neg h3] at h
      cases h
      exact keeps_set_inode _ _ _ (Or.inl ⟨rfl, rfl⟩)

theorem iput_keeps (s u : Fs) (inode : Option Nat) (fuel : Nat)
    (h : iput s inode fuel = .ok u) : keeps s u := by
  unfold iput at h
  split at h
  · cases h
    exact keeps_refl _
  · rename_i ino
    simp only [] at h
    by_cases h1 : (s.inode_table ino).i_lock ≠ 0
    · rw [if_pos h1] at h
      exact Outcome.noConfusion h
    rw [if_neg h1] at h
    by_cases h2 : (s.inode_table ino).i_count = 0
    · rw [if_pos h2] at h
      exact Outcome.noConfusion h
    rw [if_neg h2] at h
    by_cases h3 : (s.inode_table ino).i_pipe ≠ 0
    · rw [if_pos h3] at h
      by_cases h4 : (s.inode_table ino).i_count - 1 ≠ 0
      · rw [if_pos h4] at h
        cases h
        exact keeps_set_inode _ _ _ (Or.inl ⟨rfl, rfl⟩)
      · rw [if_neg h4] at h
        split at h
        · cases h
          refine keeps_trans _ _ _ ?_ (keeps_set_inode _ _ _ ?_)
          · exact keeps_of_eq _ _ rfl rfl
          · exact Or.inl ⟨rfl, rfl⟩
        · exact Outcome.noConfusion h
        · exact Outcome.noConfusion h
    rw [if_neg h3] at h
    by_cases h4 : (s.inode_table ino).i_dev = 0
    · rw [if_pos h4] at h
      cases h
      exact keeps_set_inode _ _ _ (Or.inl ⟨rfl, rfl⟩)
    rw [if_neg h4] at h
    split_ifs at h
    · exact keeps_trans _ _ _ (keeps_of_eq s (sync_dev s _) rfl rfl) (iput_repeat_keeps _ _ _ _ h)
    · exact iput_repeat_keeps _ _ _ _ h

theorem iget_loop_unique (empty : Nat) : ∀ (fuel : Nat) (s t : Fs) (dev nr i : Nat)
    (r : Option Nat), inode_unique s → (∀ j, (s.super_block j).s_dev < 65536) →
    dev < 65536 → nr < 65536 →
    (∀ k, k < i → k < NR_INODE →
      ¬ ((s.inode_table k).i_dev = dev ∧ (s.inode_table k).i_num = nr)) →
    iget_loop empty fuel s dev nr i = .ok (r, t) →
    inode_unique t ∧ t.super_block = s.super_block := by
  intro fuel
  induction fuel with
  | zero =>
    intro s t dev nr i r _ _ _ _ _ h
    unfold iget_loop at h
    exact Outcome.noConfusion h
  | succ n ih =>
    intro s t dev nr i r hu hsb hdev hnr hscan h
    unfold iget_loop at h
    by_cases h1 : i ≥ NR_INODE
    · rw [if_pos h1] at h
      simp only [] at h
      split at h
      · exact Outcome.noConfusion h
      · exact Outcome.noConfusion h
      · rename_i s1 hs1
        cases h
        have k1 := read_inode_keeps _ _ _ hs1
        refine ⟨inode_unique_keeps _ _ ?_ k1, k1.1⟩
        intro a b ha hb h0 hd hn
        by_cases hae : a = empty
        · by_cases hbe : b = empty
          · rw [hae, hbe]
          · exfalso
            rw [hae] at hd hn
            simp only [set_inode, Function.update_same, Function.update_noteq hbe,
              Nat.mod_eq_of_lt hdev, Nat.mod_eq_of_lt hnr] at hd hn
            exact hscan b (by omega) hb ⟨hd.symm, hn.symm⟩
        · by_cases hbe : b = empty
          · exfalso
            rw [hbe] at hd hn
            simp only [set_inode, Function.update_same, Function.update_noteq hae,
              Nat.mod_eq_of_lt hdev, Nat.mod_eq_of_lt hnr] at hd hn
            exact hscan a (by omega) ha ⟨hd, hn⟩
          · simp only [set_inode, Function.update_noteq hae, Function.update_noteq hbe]
              at h0 hd hn
            exact hu a b ha hb h0 hd hn
    rw [if_neg h1] at h
    by_cases h2 : (s.inode_table i).i_dev ≠ dev ∨ (s.inode_table i).i_num ≠ nr
    · rw [if_pos h2] at h
      refine ih _ _ _ _ _ _ hu hsb hdev hnr ?_ h
      intro k hk hk2
      by_cases hki : k = i
      · rw [hki]
        intro hc
        rcases h2 with h2 | h2
        · exact h2 hc.1
        · exact h2 hc.2
      · exact hscan k (by omega) hk2
    rw [if_neg h2] at h
    by_cases h3 : (s.inode_table i).i_lock ≠ 0
    · rw [if_pos h3] at h
      exact Outcome.noConfusion h
    rw [if_neg h3] at h
    simp only [] at h
    have k0 : keeps s (set_inode s i fun m => { m with i_count := (m.i_count + 1) % 65536 }) :=
      keeps_set_inode _ _ _ (Or.inl ⟨rfl, rfl⟩)
    split_ifs at h
    · split at h
      · split at h
        · exact Outcome.noConfusion h
        · exact Outcome.noConfusion h
        · rename_i s1 hs1
          cases h
          have k1 := iput_keeps _ _ _ _ hs1
          have k2 := keeps_trans _ _ _ k0 (keeps_trans _ _ _ (keeps_of_eq _ _ rfl rfl) k1)
          exact ⟨inode_unique_keeps _ _ hu k2, k2.1⟩
      · rename_i j hj
        split at h
        · exact Outcome.noConfusion h
        · exact Outcome.noConfusion h
        · rename_i s1 hs1
          have k1 := iput_keeps _ _ _ _ hs1
          have k2 := keeps_trans _ _ _ k0 k1
          have hsb1 : ∀ j, (s1.super_block j).s_dev < 65536 := by
            intro j
            rw [k2.1]
            exact hsb j
          have := ih _ _ _ _ _ _ (inode_unique_keeps _ _ hu k2) hsb1 (hsb1 j)
            (by unfold ROOT_INO; omega) (fun k hk => absurd hk (Nat.not_lt_zero k)) h
          exact ⟨this.1, this.2.trans k2.1⟩
    · split at h
      · exact Outcome.noConfusion h
      · exact Outcome.noConfusion h
      · rename_i s1 hs1
        cases h
        have k1 := iput_keeps _ _ _ _ hs1
        have k2 := keeps_trans _ _ _ k0 k1
        exact ⟨inode_unique_keeps _ _ hu k2, k2.1⟩

theorem iget_unique (s t : Fs) (dev nr fuel : Nat) (r : Option Nat) (hu : inode_unique s)
    (hsb : ∀ j, (s.super_block j).s_dev < 65536) (hdev : dev < 65536) (hnr : nr < 65536)
    (h : iget s dev nr fuel = .ok (r, t)) :
    inode_unique t ∧ t.super_block = s.super_block := by
  unfold iget at h
  split_ifs at h
  split at h
  · exact Outcome.noConfusion h
  · exact Outcome.noConfusion h
  · rename_i p hp
    have k1 := get_empty_inode_keeps _ _ _ _ hp
    have := iget_loop_unique _ _ _ _ _ _ _ _ (inode_unique_keeps _ _ hu k1)
      (by intro j; rw [k1.1]; exact hsb j) hdev hnr
      (fun k hk => absurd hk (Nat.not_lt_zero k)) h
    exact ⟨this.1, this.2.trans k1.1⟩

theorem inode_reach_unique (s0 s : Fs) (hu : inode_unique s0)
    (hsb : ∀ j, (s0.super_block j).s_dev < 65536) (h : inode_reach s0 s) :
    inode_unique s ∧ s.super_block = s0.super_block := by
  induction h with
  | start => exact ⟨hu, rfl⟩
  | iget s t dev nr fuel r _ hdev hnr hc ih =>
    have := iget_unique s t dev nr fuel r ih.1 (by intro j; rw [ih.2]; exact hsb j) hdev hnr hc
    exact ⟨this.1, this.2.trans ih.2⟩
  | iput s t inode fuel _ hc ih =>
    have k := iput_keeps _ _ _ _ hc
    exact ⟨inode_unique_keeps _ _ ih.1 k, k.1.trans ih.2⟩
  | get_empty_inode s t fuel r _ hc ih =>
    have k := get_empty_inode_keeps _ _ _ _ hc
    exact ⟨inode_unique_keeps _ _ ih.1 k, k.1.trans ih.2⟩

theorem inode_unique_weaken (s : Fs) (h : inode_unique s) : inode_unique_in_use s :=
  fun i j hi hj _ _ h0 h1 h2 => h i j hi hj h0 h1 h2

theorem get_empty_inode_clean (s : Fs) (E fuel : Nat)
    (hE : (empty_scan s.inode_table NR_INODE s.last_inode none).2 = some E)
    (hc : (s.inode_table E).i_count = 0) (hd : (s.inode_table E).i_dirt = 0)
    (hl : (s.inode_table E).i_lock = 0) :
    get_empty_inode (fuel + 1) s = .ok (E, set_inode { s with last_inode := (empty_scan s.inode_table NR_INODE s.last_inode none).1 } E fun _ => { inode_zero with i_count := 1 }) := by
  have hw : ∀ (t : Fs), (t.inode_table E).i_dirt = 0 → write_dirty E fuel t = .ok t := by
    intro t ht
    cases fuel with
    | zero => unfold write_dirty; rw [if_neg (not_not.mpr ht)]
    | succ n => unfold write_dirty; rw [if_neg (not_not.mpr ht)]
  unfold get_empty_inode
  simp only [hE]
  have hw2 := hw { s with last_inode := (empty_scan s.inode_table NR_INODE s.last_inode none).1 } hd
  rw [if_neg (not_not.mpr hl), hw2]
  simp only []
  rw [if_neg (not_not.mpr hc)]

theorem iget_loop_scan (E S : Nat) (s : Fs) (dev nr : Nat) (hS : S < NR_INODE)
    (hmiss : ∀ k, k < S → ¬ ((s.inode_table k).i_dev = dev ∧ (s.inode_table k).i_num = nr)) :
    ∀ (d i fuel : Nat), i + d = S → d < fuel →
      iget_loop E fuel s dev nr i = iget_loop E (fuel - d) s dev nr S := by
  intro d
  induction d with
  | zero =>
    intro i fuel hi _
    rw [← hi]
    rfl
  | succ d ih =>
    intro i fuel hi hf
    obtain ⟨f, rfl⟩ : ∃ f, fuel = f + 1 := ⟨fuel - 1, by omega⟩
    conv_lhs => unfold iget_loop
    rw [if_neg (by omega), if_pos]
    · rw [ih (i + 1) f (by omega) (by omega)]
      congr 1
      omega
    · have := hmiss i (by omega)
      by_cases hd : (s.inode_table i).i_dev = dev
      · exact Or.inr fun hn => this ⟨hd, hn⟩
      · exact Or.inl hd

theorem iget_loop_at (E S g : Nat) (s : Fs) (dev nr : Nat) (hS : S < NR_INODE)
    (hSd : (s.inode_table S).i_dev = dev) (hSn : (s.inode_table S).i_num = nr)
    (hSl : (s.inode_table S).i_lock = 0) (hSm : (s.inode_table S).i_mount = 0)
    (hE : s.inode_table E = { inode_zero with i_count := 1 }) (hES : E ≠ S) :
    iget_loop E (g + 1) s dev nr S = .ok (some S,
      { s with inode_table := Function.update (Function.update s.inode_table S { s.inode_table S with i_count := ((s.inode_table S).i_count + 1) % 65536 }) E inode_zero }) := by
  unfold iget_loop
  rw [if_neg (by omega), if_neg (by simp [hSd, hSn]), if_neg (by simp [hSl])]
  simp only []
  rw [if_neg (by simp [set_inode, hSm])]
  have hE2 : (set_inode s S fun m => { m with i_count := (m.i_count + 1) % 65536 }).inode_table E = { inode_zero with i_count := 1 } := by
    simp only [set_inode, Function.update_noteq hES]
    exact hE
  unfold iput
  simp only []
  rw [if_neg (by rw [hE2]; decide), if_neg (by rw [hE2]; decide), if_neg (by rw [hE2]; decide),
    if_pos (by rw [hE2]; rfl)]
  simp only []
  congr 2
  unfold set_inode
  simp only [Function.update_noteq hES, hE]
  rfl

theorem iget_hit (s : Fs) (dev nr E S fuel : Nat) (hu : inode_unique s) (hdev : dev ≠ 0)
    (hE : (empty_scan s.inode_table NR_INODE s.last_inode none).2 = some E)
    (hc : (s.inode_table E).i_count = 0) (hd : (s.inode_table E).i_dirt = 0)
    (hl : (s.inode_table E).i_lock = 0)
    (hS : S < NR_INODE) (hSd : (s.inode_table S).i_dev = dev) (hSn : (s.inode_table S).i_num = nr)
    (hSl : (s.inode_table S).i_lock = 0) (hSm : (s.inode_table S).i_mount = 0)
    (hSc : (s.inode_table S).i_count < 65535) (hES : E ≠ S) (hf : S + 1 < fuel) :
    iget s dev nr fuel = .ok (some S,
      { s with
        last_inode := (empty_scan s.inode_table NR_INODE s.last_inode none).1
        inode_table := Function.update (Function.update s.inode_table E inode_zero) S { s.inode_table S with i_count := (s.inode_table S).i_count + 1 } }) := by
  obtain ⟨f, rfl⟩ : ∃ f, fuel = f + 1 := ⟨fuel - 1, by omega⟩
  unfold iget
  rw [if_neg hdev, get_empty_inode_clean s E f hE hc hd hl]
  simp only []
  obtain ⟨s1, hs1⟩ : ∃ s1, s1 = set_inode { s with last_inode := (empty_scan s.inode_table NR_INODE s.last_inode none).1 } E fun _ => { inode_zero with i_count := 1 } := ⟨_, rfl⟩
  rw [← hs1]
  have e1 : s1.inode_table E = { inode_zero with i_count := 1 } := by
    rw [hs1]
    simp only [set_inode, Function.update_same]
  have e2 : ∀ k, k ≠ E → s1.inode_table k = s.inode_table k := by
    intro k hk
    rw [hs1]
    simp only [set_inode, Function.update_noteq hk]
  have hmiss : ∀ k, k < S →
      ¬ ((s1.inode_table k).i_dev = dev ∧ (s1.inode_table k).i_num = nr) := by
    intro k hk hc2
    by_cases hkE : k = E
    · rw [hkE, e1] at hc2
      exact hdev hc2.1.symm
    · rw [e2 k hkE] at hc2
      have := hu k S (by omega) hS (by rw [hc2.1]; exact hdev) (by rw [hc2.1, hSd])
        (by rw [hc2.2, hSn])
      omega
  rw [iget_loop_scan E S s1 dev nr hS hmiss S 0 (f + 1) (by omega) (by omega)]
  obtain ⟨g, hg⟩ : ∃ g, f + 1 - S = g + 1 := ⟨f - S, by omega⟩
  have e3 := e2 S (Ne.symm hES)
  rw [hg, iget_loop_at E S g s1 dev nr hS (by rw [e3]; exact hSd) (by rw [e3]; exact hSn)
    (by rw [e3]; exact hSl) (by rw [e3]; exact hSm) e1 hES, e3]
  have e4 : s1.inode_table = Function.update s.inode_table E { inode_zero with i_count := 1 } := by
    rw [hs1]
    rfl
  rw [e4, Function.update_comm (Ne.symm hES), Function.update_idem,
    Nat.mod_eq_of_lt (by omega), hs1]
  rfl

theorem fs0_inode_unique : inode_unique fs0 := by
  have h : ∀ i, i < 32 → ∀ j, j < 32 → (fs0.inode_table i).i_dev ≠ 0 →
      (fs0.inode_table i).i_dev = (fs0.inode_table j).i_dev →
      (fs0.inode_table i).i_num = (fs0.inode_table j).i_num → i = j := by
    decide
  exact fun i j hi hj => h i hi j hj

theorem fs_dup_in_use : inode_unique_in_use fs_dup := by
  have h : ∀ i, i < 32 → ∀ j, j < 32 → 0 < (fs_dup.inode_table i).i_count →
      0 < (fs_dup.inode_table j).i_count → i = j := by
    decide
  exact fun i j hi hj hc1 hc2 _ _ _ => h i hi j hj hc1 hc2

theorem fs_dup_iget :
    ∃ t, iget fs_dup 0x301 5 2 = .ok (some 0, t) ∧
      t.inode_table 0 = { fs_dup.inode_table 0 with i_count := 1 } ∧
      t.inode_table 1 = fs_dup.inode_table 1 := by
  unfold iget
  rw [if_neg (by decide), get_empty_inode_clean fs_dup 2 1 (by decide) (by decide) (by decide)
    (by decide)]
  simp only []
  rw [iget_loop_at 2 0 1 _ 0x301 5 (by decide) (by decide) (by decide) (by decide) (by decide)
    (by simp [set_inode]) (by decide)]
  refine ⟨_, rfl, ?_, ?_⟩
  · simp only [set_inode]
    rw [Function.update_noteq (by decide), Function.update_same,
      Function.update_noteq (by decide)]
    rfl
  · simp only [set_inode]
    rw [Function.update_noteq (by decide), Function.update_noteq (by decide),
      Function.update_noteq (by decide)]

theorem fs0_s_dev (j : Nat) : (fs0.super_block j).s_dev < 65536 := by
  have e : fs0.super_block j = if j = 0 then fs0.super_block 0 else super_zero := by
    by_cases h : j = 0
    · rw [if_pos h, h]
    · rw [if_neg h]
      unfold fs0
      simp only [if_neg h]
  rw [e]
  split_ifs <;> decide

/-! ### Lemmas on bit 0 of the bitmaps -/

theorem get_super_scan_some (sb : Nat → super_block) (dev : Nat) : ∀ (n i k : Nat),
    get_super_scan sb dev i n = some k → i ≤ k ∧ k < i + n ∧ (sb k).s_dev = dev := by
  intro n
  induction n with
  | zero =>
    intro i k h
    unfold get_super_scan at h
    exact Option.noConfusion h
  | succ n ih =>
    intro i k h
    unfold get_super_scan at h
    split_ifs at h with hc
    · cases h
      exact ⟨Nat.le_refl _, by omega, hc⟩
    · have := ih _ _ h
      exact ⟨by omega, by omega, this.2.2⟩

theorem get_super_scan_none (sb : Nat → super_block) (dev : Nat) : ∀ (n i : Nat),
    get_super_scan sb dev i n = none → ∀ k, i ≤ k → k < i + n → (sb k).s_dev ≠ dev := by
  intro n
  induction n with
  | zero =>
    intro i _ k h1 h2
    omega
  | succ n ih =>
    intro i h k h1 h2
    unfold get_super_scan at h
    split_ifs at h with hc
    by_cases hk : k = i
    · rw [hk]
      exact hc
    · exact ih _ h k (by omega) (by omega)

theorem get_super_some (s : Fs) (dev i : Nat) (h : get_super s dev = .ok (some i)) :
    i < NR_SUPER ∧ (s.super_block i).s_dev = dev ∧ dev ≠ 0 := by
  unfold get_super at h
  by_cases h0 : dev = 0
  · rw [if_pos h0] at h
    cases h
  rw [if_neg h0] at h
  split at h
  · cases h
  · rename_i k hk
    split_ifs at h
    cases h
    have := get_super_scan_some _ _ _ _ _ hk
    exact ⟨by omega, this.2.2, h0⟩

theorem get_super_none (s : Fs) (dev : Nat) (h0 : dev ≠ 0) (h : get_super s dev = .ok none) :
    ∀ k, k < NR_SUPER → (s.super_block k).s_dev ≠ dev := by
  unfold get_super at h
  rw [if_neg h0] at h
  split at h
  · rename_i hk
    intro k hk2
    exact get_super_scan_none _ _ _ _ hk k (Nat.zero_le _) (by omega)
  · split_ifs at h
    cases h

theorem guarded_congr (s t : Fs) (h : t.super_block = s.super_block) (key : Nat × Nat) :
    guarded t key ↔ guarded s key := by
  unfold guarded
  rw [h]

theorem sb_ok_of_buffers (s t : Fs) (h : sb_ok s) (hsb : t.super_block = s.super_block)
    (hb : ∀ key, guarded s key → bit0_held s key → bit0_held t key) : sb_ok t := by
  obtain ⟨h1, h2, h3⟩ := h
  refine ⟨?_, ?_, ?_⟩
  · rw [hsb]
    exact h1
  · rw [hsb]
    exact h2
  · intro key hg
    have hg2 := (guarded_congr s t hsb key).mp hg
    exact hb key hg2 (h3 key hg2)

theorem guarded_key (s : Fs) (h : sb_ok s) (i dev b : Nat) (hi : i < NR_SUPER)
    (hd : (s.super_block i).s_dev = dev) (hg : guarded s (dev, b)) :
    b = 2 ∨ b = 2 + (s.super_block i).s_imap_blocks := by
  obtain ⟨j, hj, hj0, hk⟩ := hg
  have e : j = i := by
    apply h.1 j i hj hi hj0
    rcases hk with hk | hk
    · rw [hd]
      exact (Prod.mk.inj hk).1.symm
    · rw [hd]
      exact (Prod.mk.inj hk).1.symm
  subst e
  rcases hk with hk | hk
  · exact Or.inl (Prod.mk.inj hk).2
  · exact Or.inr (Prod.mk.inj hk).2

theorem sb_ok_bit0_set (s : Fs) (h : sb_ok s) (i : Nat) (hi : i < NR_SUPER)
    (h0 : (s.super_block i).s_dev ≠ 0) : bit0_set s i := by
  obtain ⟨-, -, e1, e2, -, -⟩ := h.2.1 i hi h0
  exact ⟨_, _, e1, e2, (h.2.2 _ ⟨i, hi, h0, Or.inl rfl⟩).1, (h.2.2 _ ⟨i, hi, h0, Or.inr rfl⟩).1⟩

theorem bit0_held_clear (s t : Fs) (key K : Nat × Nat) (n d : Nat) (hn : key = K → n ≠ 0)
    (ht : t.buffer = Function.update s.buffer K { s.buffer K with b_data := clear_bit (s.buffer K).b_data n, b_dirt := d })
    (h : bit0_held s key) : bit0_held t key := by
  unfold bit0_held at *
  rw [ht]
  by_cases hk : key = K
  · subst hk
    simp only [Function.update_same]
    rw [test_bit_clear_bit]
    have : ¬ (0 = n) := fun e => hn rfl e.symm
    simp [h.1, h.2, this]
  · simp only [Function.update_noteq hk]
    exact h

theorem bit0_held_set (s t : Fs) (key K : Nat × Nat) (n d : Nat)
    (ht : t.buffer = Function.update s.buffer K { s.buffer K with b_data := set_bit (s.buffer K).b_data n, b_dirt := d })
    (h : bit0_held s key) : bit0_held t key := by
  unfold bit0_held at *
  rw [ht]
  by_cases hk : key = K
  · subst hk
    simp only [Function.update_same]
    rw [test_bit_set_bit]
    simp [h.1, h.2]
  · simp only [Function.update_noteq hk]
    exact h

theorem bit0_held_congr (s t : Fs) (key : Nat × Nat) (ht : t.buffer key = s.buffer key)
    (h : bit0_held s key) : bit0_held t key := by
  unfold bit0_held at *
  rw [ht]
  exact h

theorem free_block_bit_sb_ok (s u : Fs) (i z : Nat) (h0 : sb_ok s) (hi : i < NR_SUPER)
    (hd : (s.super_block i).s_dev ≠ 0) (hz : (s.super_block i).s_firstdatazone ≤ z)
    (h : free_block_bit s (s.super_block i) z = .ok u) : sb_ok u := by
  unfold free_block_bit at h
  simp only [] at h
  split at h
  · exact Outcome.noConfusion h
  · rename_i K hK
    split_ifs at h
    cases h
    obtain ⟨a1, a2, a3, a4, a5, a6⟩ := h0.2.1 i hi hd
    have hK2 := a6 _ _ hK
    refine sb_ok_of_buffers s _ h0 rfl ?_
    intro key hg hh
    refine bit0_held_clear s _ key K _ 1 ?_ rfl hh
    intro e
    rw [e, hK2] at hg
    have := guarded_key s h0 i _ _ hi rfl hg
    have hand : (z + 1 - (s.super_block i).s_firstdatazone) &&& 8191
        = (z + 1 - (s.super_block i).s_firstdatazone) % 8192 :=
      Nat.and_pow_two_sub_one_eq_mod _ 13
    rw [hand]
    omega

theorem free_block_sb_ok (s u : Fs) (dev z : Nat) (h0 : sb_ok s)
    (h : free_block s dev z = .ok u) : sb_ok u := by
  unfold free_block at h
  simp only [] at h
  split at h
  · exact Outcome.noConfusion h
  · exact Outcome.noConfusion h
  · exact Outcome.noConfusion h
  · rename_i sbi hsb
    have hs := get_super_some _ _ _ hsb
    split_ifs at h with hr
    have key1 : ∀ (s1 : Fs), free_block_bit s1 (s.super_block sbi) z = .ok u →
        s1.super_block = s.super_block →
        (∀ key, bit0_held s key → bit0_held s1 key) → sb_ok u := by
      intro s1 e3 e1 e2
      have hs1 : sb_ok s1 := sb_ok_of_buffers s s1 h0 e1 fun key _ hh => e2 key hh
      rw [← e1] at e3
      refine free_block_bit_sb_ok s1 u sbi z hs1 hs.1 ?_ ?_ e3
      · rw [e1, hs.2.1]
        exact hs.2.2
      · rw [e1]
        have : ¬ z < (s.super_block sbi).s_firstdatazone := fun hc => hr (Or.inl hc)
        omega
    by_cases hm : (s.buffer (dev, z)).b_count = 0 ∧ (s.buffer (dev, z)).b_uptodate = 0 ∧
        (s.buffer (dev, z)).b_dirt = 0
    · simp only [get_hash_table, hm, and_self, if_true] at h
      exact key1 _ h rfl (fun key hh => hh)
    · simp only [get_hash_table, hm, if_false] at h
      split_ifs at h with hc
      · cases h
        refine sb_ok_of_buffers s _ h0 rfl ?_
        intro key _ hh
        unfold bit0_held at *
        by_cases hk : key = (dev, z)
        · subst hk
          simp only [getblk, Function.update_same]
          exact ⟨hh.1, by omega⟩
        · simp only [getblk, Function.update_noteq hk]
          exact hh
      · refine key1 _ h rfl ?_
        intro key hh
        unfold bit0_held at *
        by_cases hk : key = (dev, z)
        · subst hk
          exfalso
          simp only [getblk, Function.update_same, not_not] at hc
          omega
        · simp only [brelse, getblk, Function.update_noteq hk]
          exact hh

theorem bitmap_scan_key (s : Fs) (map : Nat → Option (Nat × Nat)) : ∀ (n i : Nat)
    (bh : Option (Nat × Nat)) (j : Nat), (bitmap_scan s map i n bh j).1 < i + n →
    map (bitmap_scan s map i n bh j).1 = (bitmap_scan s map i n bh j).2.1 ∧
    (bitmap_scan s map i n bh j).2.2 =
      find_first_zero (s.buffer ((bitmap_scan s map i n bh j).2.1.getD (0, 0))).b_data ∧
    i ≤ (bitmap_scan s map i n bh j).1 := by
  intro n
  induction n with
  | zero =>
    intro i bh j h
    unfold bitmap_scan at h
    simp only [] at h
    omega
  | succ n ih =>
    intro i bh j
    unfold bitmap_scan
    cases hm : map i with
    | none =>
      simp only []
      intro h
      have := ih (i + 1) none j (by omega)
      exact ⟨this.1, this.2.1, by omega⟩
    | some key =>
      simp only []
      by_cases hj : find_first_zero (s.buffer key).b_data < 8192
      · rw [if_pos hj]
        intro _
        exact ⟨hm, rfl, Nat.le_refl _⟩
      · rw [if_neg hj]
        intro h
        have := ih (i + 1) (some key) (find_first_zero (s.buffer key).b_data) (by omega)
        exact ⟨this.1, this.2.1, by omega⟩

theorem new_block_sb_ok (s t : Fs) (dev : Nat) (r : Int) (h0 : sb_ok s)
    (h : new_block s dev = .ok (r, t)) :
    sb_ok t ∧ ∀ sbi, get_super s dev = .ok (some sbi) →
      r ≠ 0 → ((s.super_block sbi).s_firstdatazone : Int) ≤ r := by
  unfold new_block at h
  split at h
  · exact Outcome.noConfusion h
  · exact Outcome.noConfusion h
  · exact Outcome.noConfusion h
  · rename_i sbi hsb
    have hs := get_super_some _ _ _ hsb
    simp only [] at h
    have hscan := bitmap_scan_key s (s.super_block sbi).s_zmap 8 0 none 8192
    obtain ⟨R, hR⟩ : ∃ R, R = bitmap_scan s (s.super_block sbi).s_zmap 0 8 none 8192 := ⟨_, rfl⟩
    rw [← hR] at h hscan
    split at h
    · cases h
      exact ⟨h0, fun _ _ hr => absurd rfl hr⟩
    · rename_i key hkey
      by_cases c1 : R.1 ≥ 8 ∨ R.2.2 ≥ 8192
      · rw [if_pos c1] at h
        cases h
        exact ⟨h0, fun _ _ hr => absurd rfl hr⟩
      rw [if_neg c1] at h
      by_cases c2 : test_bit (s.buffer key).b_data R.2.2 = true
      · rw [if_pos c2] at h
        exact Outcome.noConfusion h
      rw [if_neg c2] at h
      have hk := hscan (by omega)
      rw [hkey] at hk
      have hpos : 1 ≤ R.2.2 + R.1 * 8192 := by
        by_contra hc
        have e1 : R.1 = 0 := by omega
        have e2 : R.2.2 = 0 := by omega
        rw [e1] at hk
        have hd0 : (s.super_block sbi).s_dev ≠ 0 := by
          rw [hs.2.1]
          exact hs.2.2
        obtain ⟨-, -, -, a4, -, -⟩ := h0.2.1 sbi hs.1 hd0
        rw [a4] at hk
        have := (h0.2.2 key ⟨sbi, hs.1, hd0, Or.inr (Option.some.inj hk.1).symm⟩).1
        rw [e2] at c2
        exact c2 this
      obtain ⟨s1, hs1⟩ : ∃ s1 : Fs, s1 = { s with buffer := Function.update s.buffer key { s.buffer key with b_data := set_bit (s.buffer key).b_data R.2.2, b_dirt := 1 } } := ⟨_, rfl⟩
      have ok1 : sb_ok s1 := by
        refine sb_ok_of_buffers s s1 h0 (by rw [hs1]) ?_
        intro k _ hh
        exact bit0_held_set s s1 k key _ 1 (by rw [hs1]) hh
      have hcnt : ∀ k, (s1.buffer k).b_count = (s.buffer k).b_count := by
        intro k
        rw [hs1]
        by_cases hk2 : k = key
        · rw [hk2]
          simp only [Function.update_same]
        · simp only [Function.update_noteq hk2]
      rw [← hs1] at h
      split_ifs at h with c3 c4
      · cases h
        exact ⟨ok1, fun _ _ hr => absurd rfl hr⟩
      · cases h
        refine ⟨?_, ?_⟩
        · refine sb_ok_of_buffers s1 _ ok1 rfl ?_
          intro k _ hh
          by_cases hk2 : k = (dev, of_long ((R.2.2 : Int) + (R.1 : Int) * 8192 + ((s.super_block sbi).s_firstdatazone : Int) - 1))
          · exfalso
            rw [hk2] at hh
            simp only [getblk, Function.update_same, not_not] at c4
            have := hh.2
            omega
          · refine bit0_held_congr s1 _ k ?_ hh
            simp only [brelse, getblk, Function.update_noteq hk2]
        · intro sbi2 hsb2 _
          rw [hsb] at hsb2
          cases hsb2
          omega

theorem sb_ok_congr (s t : Fs) (h : sb_ok s) (hsb : t.super_block = s.super_block)
    (hb : t.buffer = s.buffer) : sb_ok t :=
  sb_ok_of_buffers s t h hsb fun key _ hh => bit0_held_congr s t key (by rw [hb]) hh

theorem free_inode_sb_ok (s u : Fs) (inode : Option Nat) (h0 : sb_ok s)
    (h : free_inode s inode = .ok u) : sb_ok u := by
  unfold free_inode at h
  split at h
  · cases h
    exact h0
  · rename_i ino
    simp only [] at h
    by_cases h1 : (s.inode_table ino).i_dev = 0
    · rw [if_pos h1] at h
      cases h
      exact sb_ok_congr s _ h0 rfl rfl
    rw [if_neg h1] at h
    by_cases h2 : (s.inode_table ino).i_count > 1
    · rw [if_pos h2] at h
      exact Outcome.noConfusion h
    rw [if_neg h2] at h
    by_cases h3 : (s.inode_table ino).i_nlinks ≠ 0
    · rw [if_pos h3] at h
      exact Outcome.noConfusion h
    rw [if_neg h3] at h
    split at h
    · exact Outcome.noConfusion h
    · exact Outcome.noConfusion h
    · exact Outcome.noConfusion h
    · rename_i sbi hsb
      have hs := get_super_some _ _ _ hsb
      by_cases h4 : (s.inode_table ino).i_num < 1 ∨ (s.inode_table ino).i_num > (s.super_block sbi).s_ninodes
      · rw [if_pos h4] at h
        exact Outcome.noConfusion h
      rw [if_neg h4] at h
      split at h
      · exact Outcome.noConfusion h
      · rename_i bh hbh
        cases h
        have hd0 : (s.super_block sbi).s_dev ≠ 0 := by
          rw [hs.2.1]
          exact hs.2.2
        obtain ⟨a1, a2, a3, a4, a5, a6⟩ := h0.2.1 sbi hs.1 hd0
        have hK := a5 _ _ hbh
        refine sb_ok_of_buffers s _ h0 ?_ ?_
        · simp only [set_inode]
          split_ifs <;> rfl
        · intro key hg hh
          refine bit0_held_clear s _ key bh ((s.inode_table ino).i_num &&& 8191) 1 ?_ ?_ hh
          · intro e
            rw [e, hK.1] at hg
            have := guarded_key s h0 sbi _ _ hs.1 rfl hg
            have hand : (s.inode_table ino).i_num &&& 8191 = (s.inode_table ino).i_num % 8192 :=
              Nat.and_pow_two_sub_one_eq_mod _ 13
            have hshift : (s.inode_table ino).i_num >>> 13 = (s.inode_table ino).i_num / 8192 :=
              Nat.shiftRight_eq_div_pow _ 13
            have hlt := hK.2
            rw [hshift] at this hlt
            rw [hand]
            omega
          · simp only [set_inode]
            split_ifs <;> rfl

theorem bread_key (s : Fs) (dev b : Nat) (bh : Nat × Nat) (h : (bread s dev b).1 = some bh) :
    bh = (dev, b) := by
  unfold bread at h
  simp only [] at h
  split_ifs at h
  · exact (Option.some.inj h).symm
  · exact (Option.some.inj h).symm

theorem bitmap_scan_end (s : Fs) (map : Nat → Option (Nat × Nat)) : ∀ (n i : Nat)
    (bh : Option (Nat × Nat)) (j : Nat), 8192 ≤ j → i + n ≤ (bitmap_scan s map i n bh j).1 →
    8192 ≤ (bitmap_scan s map i n bh j).2.2 := by
  intro n
  induction n with
  | zero =>
    intro i bh j hj _
    unfold bitmap_scan
    exact hj
  | succ n ih =>
    intro i bh j hj
    unfold bitmap_scan
    cases hm : map i with
    | none =>
      simp only []
      intro h
      exact ih (i + 1) none j hj (by omega)
    | some key =>
      simp only []
      by_cases hz : find_first_zero (s.buffer key).b_data < 8192
      · rw [if_pos hz]
        intro h
        simp only [] at h
        omega
      · rw [if_neg hz]
        intro h
        exact ih (i + 1) (some key) _ (by omega) (by omega)

theorem write_inode_sb_ok (s u : Fs) (inode : Nat) (h0 : sb_ok s)
    (h : write_inode s inode = .ok u) : sb_ok u := by
  unfold write_inode at h
  simp only [] at h
  by_cases h1 : (s.inode_table inode).i_lock ≠ 0
  · rw [if_pos h1] at h
    exact Outcome.noConfusion h
  rw [if_neg h1] at h
  by_cases h2 : (s.inode_table inode).i_dirt = 0 ∨ (s.inode_table inode).i_dev = 0
  · rw [if_pos h2] at h
    cases h
    exact h0
  rw [if_neg h2] at h
  split at h
  · exact Outcome.noConfusion h
  · exact Outcome.noConfusion h
  · exact Outcome.noConfusion h
  · rename_i sbi hsb
    have hs := get_super_some _ _ _ hsb
    have hb := bread_frame s (s.inode_table inode).i_dev
      (2 + (s.super_block sbi).s_imap_blocks + (s.super_block sbi).s_zmap_blocks +
        ((s.inode_table inode).i_num - 1) / INODES_PER_BLOCK)
    split at h
    · exact Outcome.noConfusion h
    · rename_i bh hbh
      by_cases h3 : (s.inode_table inode).i_num = 0
      · rw [if_pos h3] at h
        exact Outcome.noConfusion h
      rw [if_neg h3] at h
      have hkey : bh = ((s.inode_table inode).i_dev,
          2 + (s.super_block sbi).s_imap_blocks + (s.super_block sbi).s_zmap_blocks +
            ((s.inode_table inode).i_num - 1) / INODES_PER_BLOCK) := by
        exact bread_key s _ _ bh hbh
      cases h
      have hd0 : (s.super_block sbi).s_dev ≠ 0 := by
        rw [hs.2.1]
        exact hs.2.2
      obtain ⟨a1, a2, a3, a4, a5, a6⟩ := h0.2.1 sbi hs.1 hd0
      refine sb_ok_of_buffers s _ h0 ?_ ?_
      · exact hb.1
      · intro key hg hh
        have hne : key ≠ bh := by
          intro e
          rw [e, hkey] at hg
          have := guarded_key s h0 sbi _ _ hs.1 hs.2.1 hg
          generalize ((s.inode_table inode).i_num - 1) / INODES_PER_BLOCK = q at this
          omega
        refine bit0_held_congr s _ key ?_ hh
        simp only [brelse, set_inode, Function.update_noteq hne]
        rw [hkey] at hne
        exact hb.2.2.2.2.2.2.2.1 key hne

theorem write_dirty_sb_ok (inode : Nat) : ∀ (fuel : Nat) (s u : Fs),
    write_dirty inode fuel s = .ok u → sb_ok s → sb_ok u := by
  intro fuel
  induction fuel with
  | zero =>
    intro s u h h0
    unfold write_dirty at h
    split_ifs at h
    cases h
    exact h0
  | succ n ih =>
    intro s u h h0
    unfold write_dirty at h
    by_cases h1 : (s.inode_table inode).i_dirt ≠ 0
    · rw [if_pos h1] at h
      split at h
      · exact Outcome.noConfusion h
      · exact Outcome.noConfusion h
      · rename_i s1 hs1
        split_ifs at h
        exact ih _ _ h (write_inode_sb_ok _ _ _ h0 hs1)
    · rw [if_neg h1] at h
      cases h
      exact h0

theorem get_empty_inode_sb_ok : ∀ (fuel : Nat) (s u : Fs) (r : Nat), sb_ok s →
    get_empty_inode fuel s = .ok (r, u) →
    sb_ok u ∧ u.inode_table r = { inode_zero with i_count := 1 } := by
  intro fuel
  induction fuel with
  | zero =>
    intro s u r _ h
    unfold get_empty_inode at h
    exact Outcome.noConfusion h
  | succ n ih =>
    intro s u r h0 h
    unfold get_empty_inode at h
    simp only [] at h
    split at h
    · exact Outcome.noConfusion h
    · rename_i inode hin
      by_cases h1 : (s.inode_table inode).i_lock ≠ 0
      · rw [if_pos h1] at h
        exact Outcome.noConfusion h
      rw [if_neg h1] at h
      split at h
      · exact Outcome.noConfusion h
      · exact Outcome.noConfusion h
      · rename_i s1 hs1
        have k0 := write_dirty_sb_ok _ _ _ _ hs1 (sb_ok_congr s _ h0 rfl rfl)
        by_cases h2 : (s1.inode_table inode).i_count ≠ 0
        · rw [if_pos h2] at h
          exact ih _ _ _ k0 h
        · rw [if_neg h2] at h
          cases h
          refine ⟨sb_ok_congr s1 _ k0 rfl rfl, ?_⟩
          simp only [set_inode, Function.update_same]

theorem iput_fresh (s : Fs) (e fuel : Nat)
    (h : s.inode_table e = { inode_zero with i_count := 1 }) :
    iput s (some e) fuel = .ok (set_inode s e fun m => { m with i_count := m.i_count - 1 }) := by
  unfold iput
  simp only []
  rw [if_neg (by rw [h]; decide), if_neg (by rw [h]; decide), if_neg (by rw [h]; decide),
    if_pos (by rw [h]; rfl)]

theorem new_inode_sb_ok (s t : Fs) (dev euid egid fuel : Nat) (r : Option Nat) (h0 : sb_ok s)
    (h : new_inode s dev euid egid fuel = .ok (r, t)) :
    sb_ok t ∧ ∀ ino, r = some ino → (t.inode_table ino).i_num ≠ 0 := by
  unfold new_inode at h
  split at h
  · exact Outcome.noConfusion h
  · exact Outcome.noConfusion h
  · rename_i e he
    obtain ⟨k1, k2⟩ := get_empty_inode_sb_ok _ _ _ _ h0 he
    simp only [] at h
    split at h
    · exact Outcome.noConfusion h
    · exact Outcome.noConfusion h
    · exact Outcome.noConfusion h
    · rename_i sbi hsb
      have hs := get_super_some _ _ _ hsb
      have hscan := bitmap_scan_key e.2 (e.2.super_block sbi).s_imap 8 0 none 8192
      obtain ⟨R, hR⟩ : ∃ R, R = bitmap_scan e.2 (e.2.super_block sbi).s_imap 0 8 none 8192 :=
        ⟨_, rfl⟩
      rw [← hR] at h hscan
      have hfail : ∀ (x : Outcome (Option Nat × Fs)),
          x = (match iput e.2 (some e.1) fuel with
            | .panic msg => .panic msg
            | .stuck => .stuck
            | .ok s => .ok (none, s)) → x = .ok (r, t) →
          sb_ok t ∧ ∀ ino, r = some ino → (t.inode_table ino).i_num ≠ 0 := by
        intro x hx hxr
        rw [iput_fresh e.2 e.1 fuel k2] at hx
        rw [hx] at hxr
        cases hxr
        exact ⟨sb_ok_congr e.2 _ k1 rfl rfl, fun _ hc => Option.noConfusion hc⟩
      split at h
      · exact hfail _ rfl h
      · rename_i key hkey
        by_cases c1 : R.2.2 ≥ 8192 ∨ R.2.2 + R.1 * 8192 > (e.2.super_block sbi).s_ninodes
        · rw [if_pos c1] at h
          exact hfail _ rfl h
        rw [if_neg c1] at h
        by_cases c2 : test_bit (e.2.buffer key).b_data R.2.2 = true
        · rw [if_pos c2] at h
          exact Outcome.noConfusion h
        rw [if_neg c2] at h
        cases h
        refine ⟨?_, ?_⟩
        · refine sb_ok_of_buffers e.2 _ k1 rfl ?_
          intro k _ hh
          exact bit0_held_set e.2 _ k key _ 1 rfl hh
        · intro ino hino
          cases hino
          simp only [set_inode, Function.update_same]
          have hd0 : (e.2.super_block sbi).s_dev ≠ 0 := by
            rw [hs.2.1]
            exact hs.2.2
          obtain ⟨-, -, a3, -, a5, -⟩ := k1.2.1 sbi hs.1 hd0
          by_cases hi8 : R.1 < 8
          · have hk := hscan (by omega)
            rw [hkey] at hk
            have hpos : 1 ≤ R.2.2 + R.1 * 8192 := by
              by_contra hc
              have e1 : R.1 = 0 := by omega
              have e2 : R.2.2 = 0 := by omega
              rw [e1, a3] at hk
              have := (k1.2.2 key ⟨sbi, hs.1, hd0, Or.inl (Option.some.inj hk.1).symm⟩).1
              rw [e2] at c2
              exact c2 this
            omega
          · have := bitmap_scan_end e.2 (e.2.super_block sbi).s_imap 8 0 none 8192
              (Nat.le_refl _) (by rw [← hR]; omega)
            rw [← hR] at this
            omega

theorem bread_count (s : Fs) (dev b : Nat) :
    (∀ key, (s.buffer key).b_count ≤ ((bread s dev b).2.buffer key).b_count) ∧
    (∀ bh, (bread s dev b).1 = some bh → 1 ≤ ((bread s dev b).2.buffer (dev, b)).b_count) := by
  unfold bread
  simp only [getblk, Function.update_same]
  split_ifs
  · refine ⟨fun key => ?_, fun _ _ => ?_⟩
    · by_cases hk : key = (dev, b)
      · rw [hk]
        simp only [Function.update_same]
        omega
      · simp only [Function.update_noteq hk]
        exact Nat.le_refl _
    · simp only [Function.update_same]
      omega
  · refine ⟨fun key => ?_, fun _ h => by simp at h⟩
    by_cases hk : key = (dev, b)
    · rw [hk]
      simp only [brelse, Function.update_same]
      omega
    · simp only [brelse, Function.update_noteq hk]
      exact Nat.le_refl _
  · refine ⟨fun key => ?_, fun _ _ => ?_⟩
    · by_cases hk : key = (dev, b)
      · rw [hk]
        simp only [Function.update_same]
        omega
      · simp only [Function.update_noteq hk]
        exact Nat.le_refl _
    · simp only [Function.update_same]
      omega

theorem load_maps_spec (dev slots : Nat) : ∀ (n i : Nat) (s : Fs)
    (map : Nat → Option (Nat × Nat)) (block : Nat) (r : Fs × (Nat → Option (Nat × Nat)) × Nat),
    load_maps dev slots i n s map block = some r →
    r.1.super_block = s.super_block ∧
    (∀ key : Nat × Nat, key.1 ≠ dev → r.1.buffer key = s.buffer key) ∧
    (∀ key, (s.buffer key).b_count ≤ (r.1.buffer key).b_count) ∧
    ∃ c, c ≤ n ∧ r.2.2 = block + c ∧
      (∀ k, k < c → r.2.1 (i + k) = some (dev, block + k) ∧
        1 ≤ (r.1.buffer (dev, block + k)).b_count) ∧
      (∀ k, k < i → r.2.1 k = map k) ∧
      (∀ k, i + c ≤ k → (∀ k2, i ≤ k2 → map k2 = none) → r.2.1 k = none) := by
  intro n
  induction n with
  | zero =>
    intro i s map block r h
    unfold load_maps at h
    cases h
    exact ⟨rfl, fun _ _ => rfl, fun _ => Nat.le_refl _, 0, Nat.le_refl _, rfl,
      fun k hk => absurd hk (Nat.not_lt_zero k), fun _ _ => rfl, fun k hk hm => hm k (by omega)⟩
  | succ n ih =>
    intro i s map block r h
    unfold load_maps at h
    by_cases hs : i ≥ slots
    · rw [if_pos hs] at h
      exact Option.noConfusion h
    rw [if_neg hs] at h
    simp only [] at h
    have hf := bread_frame s dev block
    have hc := bread_count s dev block
    split at h
    · rename_i bh hbh
      have hkey := bread_key s dev block bh hbh
      obtain ⟨g1, g2, g3, c, g4, g5, g6, g7, g8⟩ := ih _ _ _ _ _ h
      refine ⟨g1.trans hf.1, ?_, ?_, c + 1, by omega, by omega, ?_, ?_, ?_⟩
      · intro key hk
        rw [g2 key hk]
        exact hf.2.2.2.2.2.2.2.1 key fun e => hk (by rw [e])
      · intro key
        exact Nat.le_trans (hc.1 key) (g3 key)
      · intro k hk
        cases k with
        | zero =>
          refine ⟨?_, ?_⟩
          · rw [Nat.add_zero, g7 i (by omega), Function.update_same, hkey]
            rfl
          · exact Nat.le_trans (hc.2 bh hbh) (g3 _)
        | succ k =>
          have := g6 k (by omega)
          rw [show i + (k + 1) = i + 1 + k by omega, show block + (k + 1) = block + 1 + k by omega]
          exact this
      · intro k hk
        rw [g7 k (by omega), Function.update_noteq (by omega)]
      · intro k hk hm
        refine g8 k (by omega) ?_
        intro k2 hk2
        rw [Function.update_noteq (by omega)]
        exact hm k2 (by omega)
    · cases h
      refine ⟨hf.1, ?_, hc.1, 0, Nat.zero_le _, rfl, fun k hk => absurd hk (Nat.not_lt_zero k),
        ?_, ?_⟩
      · intro key hk
        exact hf.2.2.2.2.2.2.2.1 key fun e => hk (by rw [e])
      · intro k hk
        simp only []
        rw [Function.update_noteq (by omega)]
      · intro k hk hm
        simp only []
        by_cases hki : k = i
        · rw [hki, Function.update_same]
        · rw [Function.update_noteq hki]
          exact hm k (by omega)

theorem free_super_scan_some (sb : Nat → super_block) : ∀ (n i k : Nat),
    free_super_scan sb i n = some k → i ≤ k ∧ k < i + n ∧ (sb k).s_dev = 0 := by
  intro n
  induction n with
  | zero =>
    intro i k h
    unfold free_super_scan at h
    exact Option.noConfusion h
  | succ n ih =>
    intro i k h
    unfold free_super_scan at h
    split_ifs at h with hc
    · cases h
      exact ⟨Nat.le_refl _, by omega, hc⟩
    · have := ih _ _ h
      exact ⟨by omega, by omega, this.2.2⟩

theorem test_bit_or_bit0 (data : Nat → Byte) :
    test_bit (Function.update data 0 (toByte ((data 0).val ||| 1))) 0 = true := by
  unfold test_bit
  simp only [Nat.zero_div, Function.update_same, Nat.zero_mod]
  show (((data 0).val ||| 1) % 256).testBit 0 = true
  have e : ∀ x : Nat, (x % 256).testBit 0 = x.testBit 0 := by
    intro x
    have := Nat.testBit_mod_two_pow x 8 0
    simpa using this
  rw [e, Nat.testBit_or]
  simp

theorem or_bit0_spec (s : Fs) (K : Nat × Nat) :
    (or_bit0 s K).super_block = s.super_block ∧
    (∀ key, key ≠ K → (or_bit0 s K).buffer key = s.buffer key) ∧
    (∀ key, ((or_bit0 s K).buffer key).b_count = (s.buffer key).b_count) ∧
    test_bit ((or_bit0 s K).buffer K).b_data 0 = true ∧
    (∀ key, test_bit (s.buffer key).b_data 0 = true →
      test_bit ((or_bit0 s K).buffer key).b_data 0 = true) := by
  unfold or_bit0
  refine ⟨rfl, ?_, ?_, ?_, ?_⟩ <;> simp only []
  · intro key hk
    rw [Function.update_noteq hk]
  · intro key
    by_cases hk : key = K
    · rw [hk, Function.update_same]
    · rw [Function.update_noteq hk]
  · rw [Function.update_same]
    exact test_bit_or_bit0 _
  · intro key h
    by_cases hk : key = K
    · rw [hk, Function.update_same]
      exact test_bit_or_bit0 _
    · rw [Function.update_noteq hk]
      exact h

theorem set_super_spec (s : Fs) (i : Nat) (f : super_block → super_block) :
    (set_super s i f).super_block i = f (s.super_block i) ∧
    (∀ j, j ≠ i → (set_super s i f).super_block j = s.super_block j) ∧
    (set_super s i f).buffer = s.buffer := by
  unfold set_super
  refine ⟨?_, ?_, rfl⟩
  · simp only [Function.update_same]
  · intro j hj
    simp only [Function.update_noteq hj]

theorem read_super_maps_spec (s t : Fs) (dev i j : Nat)
    (h : read_super_maps s dev i = .ok (some j, t)) :
    j = i ∧ (∀ k, k ≠ i → t.super_block k = s.super_block k) ∧
    (∃ imap zmap, t.super_block i = { s.super_block i with s_imap := imap, s_zmap := zmap, s_lock := 0 } ∧
      1 ≤ (s.super_block i).s_imap_blocks ∧ 1 ≤ (s.super_block i).s_zmap_blocks ∧
      imap 0 = some (dev, 2) ∧ zmap 0 = some (dev, 2 + (s.super_block i).s_imap_blocks) ∧
      (∀ k key, imap k = some key → key = (dev, 2 + k) ∧ k < (s.super_block i).s_imap_blocks) ∧
      (∀ k key, zmap k = some key → key = (dev, 2 + (s.super_block i).s_imap_blocks + k))) ∧
    bit0_held t (dev, 2) ∧ bit0_held t (dev, 2 + (s.super_block i).s_imap_blocks) ∧
    (∀ key : Nat × Nat, key.1 ≠ dev → t.buffer key = s.buffer key) := by
  unfold read_super_maps at h
  split at h
  · exact Outcome.noConfusion h
  · rename_i r1 h1
    split at h
    · exact Outcome.noConfusion h
    · rename_i r2 h2
      obtain ⟨a1, a2, a3, c1, a4, a5, a6, -, a8⟩ := load_maps_spec _ _ _ _ _ _ _ _ h1
      obtain ⟨b1, b2, b3, c2, b4, b5, b6, -, b8⟩ := load_maps_spec _ _ _ _ _ _ _ _ h2
      simp only [] at h
      have e0 := set_super_spec r2.1 i fun sb => { sb with s_imap := r1.2.1, s_zmap := r2.2.1 }
      have ei : (r2.1.super_block i) = s.super_block i := by rw [b1, a1]
      by_cases hb : r2.2.2 ≠ 2 + ((set_super r2.1 i fun sb => { sb with s_imap := r1.2.1, s_zmap := r2.2.1 }).super_block i).s_imap_blocks + ((set_super r2.1 i fun sb => { sb with s_imap := r1.2.1, s_zmap := r2.2.1 }).super_block i).s_zmap_blocks
      · rw [if_pos hb] at h
        cases h
      rw [if_neg hb] at h
      rw [e0.1, ei] at hb
      simp only [not_not] at hb
      have hc1 : c1 = (s.super_block i).s_imap_blocks := by omega
      have hc2 : c2 = (s.super_block i).s_zmap_blocks := by omega
      split at h
      · exact Outcome.noConfusion h
      · rename_i ki hki
        split at h
        · exact Outcome.noConfusion h
        · rename_i kz hkz
          cases h
          have hn1 : ∀ k, c1 ≤ k → r1.2.1 k = none :=
            fun k hk => a8 k (by omega) fun _ _ => rfl
          have hn2 : ∀ k, c2 ≤ k → r2.2.1 k = none :=
            fun k hk => b8 k (by omega) fun _ _ => rfl
          have p1 : 1 ≤ c1 := by
            by_contra hc
            rw [hn1 0 (by omega)] at hki
            exact Option.noConfusion hki
          have p2 : 1 ≤ c2 := by
            by_contra hc
            rw [hn2 0 (by omega)] at hkz
            exact Option.noConfusion hkz
          have q1 := a6 0 p1
          have q2 := b6 0 p2
          simp only [Nat.zero_add, Nat.add_zero] at q1 q2
          rw [hki] at q1
          rw [hkz] at q2
          have eki : ki = (dev, 2) := Option.some.inj q1.1
          have ekz : kz = (dev, 2 + (s.super_block i).s_imap_blocks) := by
            rw [Option.some.inj q2.1, a5, hc1]
          have o1 := or_bit0_spec (set_super r2.1 i fun sb => { sb with s_imap := r1.2.1, s_zmap := r2.2.1 }) ki
          have o2 := or_bit0_spec (or_bit0 (set_super r2.1 i fun sb => { sb with s_imap := r1.2.1, s_zmap := r2.2.1 }) ki) kz
          have f1 := set_super_spec (or_bit0 (or_bit0 (set_super r2.1 i fun sb => { sb with s_imap := r1.2.1, s_zmap := r2.2.1 }) ki) kz) i fun sb => { sb with s_lock := 0 }
          refine ⟨rfl, ?_, ⟨r1.2.1, r2.2.1, ?_, by omega, by omega, ?_, ?_, ?_, ?_⟩, ?_, ?_, ?_⟩
          · intro k hk
            rw [f1.2.1 k hk, o2.1, o1.1, e0.2.1 k hk, b1, a1]
          · rw [f1.1, o2.1, o1.1, e0.1, ei]
          · rw [hki, eki]
          · rw [hkz, ekz]
          · intro k key hk
            by_cases hkc : k < c1
            · have := (a6 k hkc).1
              rw [Nat.zero_add] at this
              rw [this] at hk
              exact ⟨(Option.some.inj hk).symm, by omega⟩
            · rw [hn1 k (by omega)] at hk
              exact Option.noConfusion hk
          · intro k key hk
            by_cases hkc : k < c2
            · have := (b6 k hkc).1
              rw [Nat.zero_add, a5, hc1] at this
              rw [this] at hk
              exact (Option.some.inj hk).symm
            · rw [hn2 k (by omega)] at hk
              exact Option.noConfusion hk
          · unfold bit0_held
            rw [f1.2.2, ← eki]
            refine ⟨o2.2.2.2.2 ki o1.2.2.2.1, ?_⟩
            rw [o2.2.2.1, o1.2.2.1, e0.2.2, eki]
            exact Nat.le_trans q1.2 (b3 _)
          · unfold bit0_held
            rw [f1.2.2, ← ekz]
            refine ⟨o2.2.2.2.1, ?_⟩
            rw [o2.2.2.1, o1.2.2.1, e0.2.2]
            have := q2.2
            rw [a5, hc1, ← ekz] at this
            exact this
          · intro key hk
            rw [f1.2.2, o2.2.1 key (by rw [ekz]; exact fun e => hk (by rw [e])),
              o1.2.1 key (by rw [eki]; exact fun e => hk (by rw [e])), e0.2.2, b2 key hk,
              a2 key hk]

theorem brelse_buffer (s : Fs) (K key : Nat × Nat) (h : key ≠ K) :
    (brelse s (some K)).buffer key = s.buffer key := by
  simp only [brelse, Function.update_noteq h]

theorem read_super_spec (s t : Fs) (dev i : Nat) (h : read_super s dev = .ok (some i, t)) :
    (get_super s dev = .ok (some i) ∧ t = s) ∨
    (get_super s dev = .ok none ∧ dev ≠ 0 ∧ i < NR_SUPER ∧
      (∀ k, k ≠ i → t.super_block k = s.super_block k) ∧
      (t.super_block i).s_dev = dev % 65536 ∧
      1 ≤ (t.super_block i).s_imap_blocks ∧ 1 ≤ (t.super_block i).s_zmap_blocks ∧
      (t.super_block i).s_imap 0 = some (dev, 2) ∧
      (t.super_block i).s_zmap 0 = some (dev, 2 + (t.super_block i).s_imap_blocks) ∧
      (∀ k key, (t.super_block i).s_imap k = some key →
        key = (dev, 2 + k) ∧ k < (t.super_block i).s_imap_blocks) ∧
      (∀ k key, (t.super_block i).s_zmap k = some key →
        key = (dev, 2 + (t.super_block i).s_imap_blocks + k)) ∧
      bit0_held t (dev, 2) ∧ bit0_held t (dev, 2 + (t.super_block i).s_imap_blocks) ∧
      (∀ key : Nat × Nat, key.1 ≠ dev → t.buffer key = s.buffer key)) := by
  unfold read_super at h
  by_cases h0 : dev = 0
  · rw [if_pos h0] at h
    cases h
  rw [if_neg h0] at h
  simp only [check_disk_change] at h
  split at h
  · exact Outcome.noConfusion h
  · exact Outcome.noConfusion h
  · rename_i j hj
    cases h
    exact Or.inl ⟨hj, rfl⟩
  · rename_i hnone
    right
    split at h
    · cases h
    · rename_i j hj
      have hjs := free_super_scan_some _ _ _ _ hj
      obtain ⟨sA, hsA⟩ : ∃ sA, sA = set_super (set_super s j fun sb => { sb with s_dev := dev % 65536, s_isup := none, s_imount := none, s_time := 0, s_rd_only := 0, s_dirt := 0 }) j fun sb => { sb with s_lock := 1 } := ⟨_, rfl⟩
      have A1 : (sA.super_block j).s_dev = dev % 65536 := by
        rw [hsA, (set_super_spec _ _ _).1, (set_super_spec _ _ _).1]
      have A2 : ∀ k, k ≠ j → sA.super_block k = s.super_block k := by
        intro k hk
        rw [hsA, (set_super_spec _ _ _).2.1 k hk, (set_super_spec _ _ _).2.1 k hk]
      have A3 : sA.buffer = s.buffer := by
        rw [hsA, (set_super_spec _ _ _).2.2, (set_super_spec _ _ _).2.2]
      split_ifs at h with c1
      rw [← hsA] at h
      have hf := bread_frame sA dev 1
      split at h
      · cases h
      · rename_i bh hbh
        have hkey := bread_key sA dev 1 bh hbh
        split_ifs at h with c2
        · cases h
        obtain ⟨sB, hsB⟩ : ∃ sB, sB = set_super (brelse (set_super (bread sA dev 1).2 j fun sb => get_d_super_block ((bread sA dev 1).2.buffer bh).b_data sb) (some bh)) j fun sb => { sb with s_imap := fun _ => none, s_zmap := fun _ => none } := ⟨_, rfl⟩
        rw [← hsB] at h
        have B1 : (sB.super_block j).s_dev = dev % 65536 := by
          rw [hsB, (set_super_spec _ _ _).1, (brelse_fr _ _).1, (set_super_spec _ _ _).1, hf.1]
          exact A1
        have B2 : ∀ k, k ≠ j → sB.super_block k = s.super_block k := by
          intro k hk
          rw [hsB, (set_super_spec _ _ _).2.1 k hk, (brelse_fr _ _).1,
            (set_super_spec _ _ _).2.1 k hk, hf.1]
          exact A2 k hk
        have B3 : ∀ key : Nat × Nat, key.1 ≠ dev → sB.buffer key = s.buffer key := by
          intro key hk
          have hne : key ≠ bh := by
            rw [hkey]
            exact fun e => hk (by rw [e])
          rw [hsB, (set_super_spec _ _ _).2.2, brelse_buffer _ _ _ hne, (set_super_spec _ _ _).2.2,
            hf.2.2.2.2.2.2.2.1 key (by rw [← hkey]; exact hne), A3]
        obtain ⟨m1, m2, ⟨imap, zmap, m3, m4, m5, m6, m7, m8, m9⟩, m10, m11, m12⟩ :=
          read_super_maps_spec sB t dev j i h
        subst m1
        have e1 : (t.super_block i).s_imap_blocks = (sB.super_block i).s_imap_blocks := by
          rw [m3]
        have e2 : (t.super_block i).s_zmap_blocks = (sB.super_block i).s_zmap_blocks := by
          rw [m3]
        have e3 : (t.super_block i).s_imap = imap := by rw [m3]
        have e4 : (t.super_block i).s_zmap = zmap := by rw [m3]
        have e5 : (t.super_block i).s_dev = (sB.super_block i).s_dev := by rw [m3]
        refine ⟨hnone, h0, by omega, ?_, ?_, ?_, ?_, ?_, ?_, ?_, ?_, m10, ?_, ?_⟩
        · intro k hk
          rw [m2 k hk, B2 k hk]
        · rw [e5, B1]
        · rw [e1]
          exact m4
        · rw [e2]
          exact m5
        · rw [e3]
          exact m6
        · rw [e4, e1]
          exact m7
        · rw [e3, e1]
          exact m8
        · rw [e4, e1]
          exact m9
        · rw [e1]
          exact m11
        · intro key hk
          rw [m12 key hk, B3 key hk]

theorem read_super_sb_ok (s t : Fs) (dev i : Nat) (h0 : sb_ok s) (hdev : dev < 65536)
    (h : read_super s dev = .ok (some i, t)) :
    sb_ok t ∧ i < NR_SUPER ∧ (t.super_block i).s_dev = dev ∧ dev ≠ 0 := by
  rcases read_super_spec s t dev i h with ⟨h1, h2⟩ | ⟨n1, n2, n3, n4, n5, n6, n7, n8, n9, n10, n11,
    n12, n13, n14⟩
  · subst h2
    have := get_super_some _ _ _ h1
    exact ⟨h0, this⟩
  · rw [Nat.mod_eq_of_lt hdev] at n5
    have hno := get_super_none s dev n2 n1
    refine ⟨⟨?_, ?_, ?_⟩, n3, n5, n2⟩
    · intro a b ha hb hd he
      by_cases hai : a = i
      · by_cases hbi : b = i
        · rw [hai, hbi]
        · exfalso
          rw [hai, n5, n4 b hbi] at he
          exact hno b hb he.symm
      · by_cases hbi : b = i
        · exfalso
          rw [hbi, n5, n4 a hai] at he
          exact hno a ha he
        · rw [n4 a hai] at hd he
          rw [n4 b hbi] at he
          exact h0.1 a b ha hb hd he
    · intro a ha hd
      by_cases hai : a = i
      · rw [hai]
        unfold sb_shape
        rw [n5]
        exact ⟨n6, n7, n8, n9, n10, n11⟩
      · rw [n4 a hai] at hd ⊢
        exact h0.2.1 a ha hd
    · intro key hg
      obtain ⟨a, ha, hd, hk⟩ := hg
      by_cases hai : a = i
      · rw [hai, n5] at hk
        rcases hk with hk | hk
        · rw [hk]
          exact n12
        · rw [hk]
          exact n13
      · rw [n4 a hai] at hd hk
        have hne : key.1 ≠ dev := by
          rcases hk with hk | hk
          · rw [hk]
            exact hno a ha
          · rw [hk]
            exact hno a ha
        refine bit0_held_congr s t key (n14 key hne) ?_
        exact h0.2.2 key ⟨a, ha, hd, hk⟩

theorem read_super_fresh_bits (s t : Fs) (dev i : Nat) (hg : get_super s dev = .ok none)
    (h : read_super s dev = .ok (some i, t)) : bit0_set t i := by
  rcases read_super_spec s t dev i h with ⟨h1, _⟩ | ⟨n1, n2, n3, n4, n5, n6, n7, n8, n9, n10, n11,
    n12, n13, n14⟩
  · rw [hg] at h1
    cases h1
  · exact ⟨_, _, n8, n9, n12.1, n13.1⟩

theorem fs0_sb_ok : sb_ok fs0 := by
  have hz : ∀ i, i < 8 → (fs0.super_block i).s_dev ≠ 0 → i = 0 := by decide
  have hmap : ∀ (k : Nat) (key : Nat × Nat) (b : Nat),
      (if k = 0 then some ((0x301, b) : Nat × Nat) else none) = some key →
      key = (0x301, b + k) ∧ k < 1 := by
    intro k key b hk
    split_ifs at hk with h
    cases hk
    subst h
    exact ⟨rfl, by decide⟩
  refine ⟨?_, ?_, ?_⟩
  · intro i j hi hj hd he
    have h : ∀ i, i < 8 → ∀ j, j < 8 → (fs0.super_block i).s_dev ≠ 0 →
        (fs0.super_block i).s_dev = (fs0.super_block j).s_dev → i = j := by
      decide
    exact h i hi j hj hd he
  · intro i hi hd
    rw [hz i hi hd]
    refine ⟨by decide, by decide, rfl, rfl, ?_, ?_⟩
    · intro k key hk
      exact hmap k key 2 hk
    · intro k key hk
      exact (hmap k key 3 hk).1
  · intro key hg
    obtain ⟨i, hi, hd, hk⟩ := hg
    rw [hz i hi hd] at hk
    rcases hk with hk | hk
    · rw [hk]
      unfold bit0_held
      decide
    · rw [hk]
      unfold bit0_held
      decide

theorem fs0_new_block : ∃ t, new_block fs0 0x301 = .ok (17, t) := by
  obtain ⟨key, -, -, h, -⟩ := new_block_spec fs0 0x301 0 12 _ fs0_zones_free
  exact ⟨_, h⟩

theorem fs_unmounted_read_super : ∃ t, read_super fs_unmounted 0x301 = .ok (some 0, t) :=
  ⟨(match read_super fs_unmounted 0x301 with
    | .ok r => r.2
    | _ => fs0), by rfl⟩

/-! ### Lemmas on `open_namei` -/

theorem open_namei_found_dir (cur : fs_current) (umem : Nat → Byte) (s : Fs)
    (pathname flag mode fuel dir namelen basename : Nat) (s1 : Fs) (bh : Nat × Nat)
    (k dir2 : Nat) (s2 s3 : Fs) (inode : Nat) (s4 s5 : Fs)
    (hacc : flag &&& O_ACCMODE ≠ 0) (hexcl : flag &&& O_EXCL = 0)
    (h1 : dir_namei cur umem s pathname fuel = .ok (some (dir, namelen, basename), s1))
    (hn : namelen ≠ 0)
    (h2 : find_entry cur umem s1 dir basename namelen fuel = .ok (some (bh, k), dir2, s2))
    (h3 : iput (brelse s2 (some bh)) (some dir2) fuel = .ok s3)
    (h4 : iget s3 (s2.inode_table dir2).i_dev (de_inode (s2.buffer bh).b_data k) fuel
      = .ok (some inode, s4))
    (hdir : S_ISDIR (s4.inode_table inode).i_mode = true)
    (h5 : iput s4 (some inode) fuel = .ok s5) :
    open_namei cur umem s pathname flag mode fuel = .ok (-EPERM, none, s5) := by
  unfold open_namei
  have hflag : (if flag &&& O_TRUNC ≠ 0 ∧ flag &&& O_ACCMODE = 0 then flag ||| O_WRONLY
      else flag) = flag := if_neg fun hc => hacc hc.2
  simp only [hflag, h1]
  rw [if_neg hn]
  simp only [h2, h3]
  rw [if_neg (not_not.mpr hexcl)]
  simp only [h4]
  rw [if_pos (Or.inl ⟨hdir, hacc⟩)]
  simp only [h5]

theorem open_namei_slash (cur : fs_current) (umem : Nat → Byte) (s : Fs)
    (pathname flag mode fuel dir basename : Nat) (s1 s2 : Fs)
    (hacc : flag &&& O_ACCMODE ≠ 0)
    (h1 : dir_namei cur umem s pathname fuel = .ok (some (dir, 0, basename), s1))
    (h2 : iput s1 (some dir) fuel = .ok s2) :
    open_namei cur umem s pathname flag mode fuel = .ok (-EISDIR, none, s2) := by
  unfold open_namei
  have hflag : (if flag &&& O_TRUNC ≠ 0 ∧ flag &&& O_ACCMODE = 0 then flag ||| O_WRONLY
      else flag) = flag := if_neg fun hc => hacc hc.2
  simp only [hflag, h1, if_true]
  rw [if_neg]
  · simp only [h2]
  · intro hc
    apply hacc
    apply Nat.eq_of_testBit_eq
    intro i
    have := congrArg (fun x => Nat.testBit x i) hc
    simp only [Nat.testBit_and, Nat.testBit_or, Nat.zero_testBit] at this ⊢
    cases h : flag.testBit i <;> simp [h] at this ⊢
    simp [this]

theorem fs_dot_chain :
    dir_namei cur0 upath fs0 0x1000 40 = .ok (some (0, 1, 0x1001), fs_dot1) ∧
    find_entry cur0 upath fs_dot1 0 0x1001 1 40 = .ok (some ((0x301, 6), 0), 0, fs_dot2) ∧
    iput (brelse fs_dot2 (some (0x301, 6))) (some 0) 40 = .ok fs_dot3 ∧
    (fs_dot2.inode_table 0).i_dev = 0x301 ∧
    de_inode (fs_dot2.buffer (0x301, 6)).b_data 0 = 1 ∧
    iget fs_dot3 0x301 1 40 = .ok (some 0, fs_dot4) ∧
    S_ISDIR (fs_dot4.inode_table 0).i_mode = true ∧
    iput fs_dot4 (some 0) 40 = .ok fs_dot5 :=
  ⟨by rfl, by rfl, by rfl, by rfl, by rfl, by rfl, by rfl, by rfl⟩

theorem fs_slash_chain :
    dir_namei cur0 upath fs0 0x2000 40 = .ok (some (0, 0, 0x2001), fs_slash1) ∧
    iput fs_slash1 (some 0) 40 = .ok fs_slash2 :=
  ⟨by rfl, by rfl⟩

/-! ### Lemmas on directory entries -/

theorem cmpsb_iff (umem data : Nat → Byte) (k : Nat) : ∀ (n name j : Nat),
    cmpsb umem data k name j n = true ↔
      ∀ x, x < n → (umem (name + x)).val = de_name data k (j + x) := by
  intro n
  induction n with
  | zero =>
    intro name j
    unfold cmpsb
    simp
  | succ n ih =>
    intro name j
    unfold cmpsb
    by_cases h : (umem name).val = de_name data k j
    · rw [if_pos h, ih]
      constructor
      · intro hx x hxn
        cases x with
        | zero => exact h
        | succ x =>
          have := hx x (by omega)
          rw [show name + (x + 1) = name + 1 + x by omega, show j + (x + 1) = j + 1 + x by omega]
          exact this
      · intro hx x hxn
        have := hx (x + 1) (by omega)
        rw [show name + (x + 1) = name + 1 + x by omega, show j + (x + 1) = j + 1 + x by omega]
          at this
        exact this
    · rw [if_neg h]
      constructor
      · intro hc
        cases hc
      · intro hx
        exact absurd (hx 0 (by omega)) h

theorem match_entry_iff (umem data : Nat → Byte) (len name k : Nat) (hlen : len ≤ NAME_LEN)
    (hpad : de_inode data k ≠ 0 → ∀ j1 j2, j1 ≤ j2 → j2 < NAME_LEN →
      de_name data k j1 = 0 → de_name data k j2 = 0) :
    match_entry umem len name data k = true ↔
      (de_inode data k ≠ 0 ∧ ∀ j, j < NAME_LEN →
        de_name data k j = if j < len then (umem (name + j)).val else 0) := by
  unfold match_entry
  by_cases h0 : de_inode data k = 0
  · rw [if_pos (Or.inl h0)]
    constructor
    · intro hc
      cases hc
    · intro hc
      exact absurd h0 hc.1
  rw [if_neg (by intro hc; rcases hc with hc | hc; exact h0 hc; omega)]
  by_cases h1 : len < NAME_LEN ∧ de_name data k len ≠ 0
  · rw [if_pos h1]
    constructor
    · intro hc
      cases hc
    · intro hc
      have := hc.2 len h1.1
      rw [if_neg (Nat.lt_irrefl _)] at this
      exact absurd this h1.2
  rw [if_neg h1, cmpsb_iff]
  constructor
  · intro hc
    refine ⟨h0, fun j hj => ?_⟩
    by_cases hjl : j < len
    · rw [if_pos hjl]
      have := hc j hjl
      rw [Nat.zero_add] at this
      exact this.symm
    · rw [if_neg hjl]
      have hl : len < NAME_LEN := by omega
      have hz : de_name data k len = 0 := by
        by_contra hne
        exact h1 ⟨hl, hne⟩
      exact hpad h0 len j (by omega) hj hz
  · intro hc x hx
    have := hc.2 x (by omega)
    rw [if_pos hx] at this
    rw [Nat.zero_add]
    exact this.symm

theorem store_name_spec (umem : Nat → Byte) (name len k : Nat) : ∀ (n i : Nat)
    (data : Nat → Byte), i + n = NAME_LEN → ∀ j, j < NAME_LEN →
    (store_name umem name len k i n data) (16 * k + 2 + j) =
      if j < i then data (16 * k + 2 + j) else if j < len then umem (name + j) else 0 := by
  intro n
  induction n with
  | zero =>
    intro i data hi j hj
    unfold store_name
    rw [if_pos (by omega)]
  | succ n ih =>
    intro i data hi j hj
    unfold store_name
    rw [ih (i + 1) _ (by omega) j hj]
    by_cases h1 : j < i
    · rw [if_pos h1, if_pos (by omega), Function.update_noteq (by omega)]
    · rw [if_neg h1]
      by_cases h2 : j = i
      · rw [if_pos (by omega), h2, Function.update_same]
      · rw [if_neg (by omega)]

theorem add_entry_step_stored (umem : Nat → Byte) (dir name len : Nat) (s : Fs)
    (key : Nat × Nat) (k i : Nat) (e : (Nat × Nat) × Nat)
    (h : (add_entry_step umem dir name len s key k i).1 = some e) :
    e = (key, k) ∧ ∀ j, j < NAME_LEN →
      de_name ((add_entry_step umem dir name len s key k i).2.buffer key).b_data k j =
        if j < len then (umem (name + j)).val else 0 := by
  unfold add_entry_step at h ⊢
  simp only [] at h ⊢
  generalize (if i * 16 ≥ (s.inode_table dir).i_size then
      set_inode { s with buffer := Function.update s.buffer key { s.buffer key with b_data := put_word (s.buffer key).b_data (8 * k) 0 } } dir fun m => { m with i_size := (i + 1) * 16, i_dirt := 1, i_ctime := s.CURRENT_TIME }
    else s) = s1 at h ⊢
  by_cases c2 : de_inode (s1.buffer key).b_data k = 0
  · rw [if_pos c2] at h ⊢
    refine ⟨(Option.some.inj h).symm, fun j hj => ?_⟩
    simp only [set_inode, Function.update_same]
    unfold de_name
    rw [store_name_spec umem name len k NAME_LEN 0 _ (by omega) j hj, if_neg (by omega)]
    split_ifs <;> rfl
  · rw [if_neg c2] at h
    cases h

theorem add_entry_loop_stored (umem : Nat → Byte) (dir name len : Nat) : ∀ (n : Nat) (s : Fs)
    (bh : Option (Nat × Nat)) (k i : Nat) (e : (Nat × Nat) × Nat) (t : Fs),
    add_entry_loop umem dir name len n s bh k i = .ok (some e, t) →
    ∀ j, j < NAME_LEN →
      de_name (t.buffer e.1).b_data e.2 j = if j < len then (umem (name + j)).val else 0 := by
  intro n
  induction n with
  | zero =>
    intro s bh k i e t h
    unfold add_entry_loop at h
    cases h
  | succ n ih =>
    intro s bh k i e t h
    unfold add_entry_loop at h
    cases bh with
    | none => cases h
    | some key =>
      simp only [] at h
      by_cases hk : k ≥ DIR_ENTRIES_PER_BLOCK
      · rw [if_pos hk] at h
        split at h
        · cases h
        · cases h
        · rename_i r hr
          by_cases h0 : r.1 = 0
          · rw [if_pos h0] at h
            cases h
          rw [if_neg h0] at h
          split at h
          · exact ih _ _ _ _ _ _ h
          · rename_i key2 hkey2
            split at h
            · rename_i e2 he2
              cases h
              have := add_entry_step_stored umem dir name len _ key2 0 _ e he2
              rw [this.1]
              exact this.2
            · exact ih _ _ _ _ _ _ h
      · rw [if_neg hk] at h
        split at h
        · rename_i e2 he2
          cases h
          have := add_entry_step_stored umem dir name len _ key k _ e he2
          rw [this.1]
          exact this.2
        · exact ih _ _ _ _ _ _ h

theorem add_entry_stored (umem : Nat → Byte) (s : Fs) (dir name len fuel : Nat)
    (bh : Nat × Nat) (k : Nat) (t : Fs)
    (h : add_entry umem s dir name len fuel = .ok (some (bh, k), t)) :
    ∀ j, j < NAME_LEN →
      de_name (t.buffer bh).b_data k j =
        if j < min len NAME_LEN then (umem (name + j)).val else 0 := by
  have hLmin : min len NAME_LEN = if len > NAME_LEN then NAME_LEN else len := by
    unfold NAME_LEN
    split_ifs <;> omega
  rw [hLmin]
  unfold add_entry at h
  simp only [] at h
  generalize (if len > NAME_LEN then NAME_LEN else len) = L at h ⊢
  by_cases c1 : L = 0
  · rw [if_pos c1] at h
    cases h
  rw [if_neg c1] at h
  by_cases c2 : (s.inode_table dir).i_zone 0 = 0
  · rw [if_pos c2] at h
    cases h
  rw [if_neg c2] at h
  split at h
  · cases h
  · exact add_entry_loop_stored umem dir name _ _ _ _ _ _ _ _ h

theorem get_word_put_word_zero (data : Nat → Byte) (e : Nat) :
    get_word (put_word data e 0) e = 0 := by
  unfold get_word put_word
  rw [Function.update_noteq (by omega), Function.update_same, Function.update_same]
  rfl

theorem match_entry_congr (umem data : Nat → Byte) (len n1 n2 k : Nat)
    (h : ∀ j, j < len → umem (n1 + j) = umem (n2 + j)) :
    match_entry umem len n1 data k = match_entry umem len n2 data k := by
  unfold match_entry
  have : cmpsb umem data k n1 0 len = cmpsb umem data k n2 0 len := by
    rw [Bool.eq_iff_iff, cmpsb_iff, cmpsb_iff]
    constructor
    · intro hc x hx
      rw [← h x hx]
      exact hc x hx
    · intro hc x hx
      rw [h x hx]
      exact hc x hx
  rw [this]

theorem find_entry_loop_congr (umem : Nat → Byte) (dir n1 n2 len entries : Nat)
    (h : ∀ j, j < len → umem (n1 + j) = umem (n2 + j)) :
    ∀ (n : Nat) (s : Fs) (bh : Option (Nat × Nat)) (k i : Nat),
    find_entry_loop umem dir n1 len entries n s bh k i =
      find_entry_loop umem dir n2 len entries n s bh k i := by
  intro n
  induction n with
  | zero =>
    intro s bh k i
    unfold find_entry_loop
    rfl
  | succ n ih =>
    intro s bh k i
    unfold find_entry_loop
    simp only [match_entry_congr umem _ len n1 n2 _ h, ih]

theorem find_entry_long_names (cur : fs_current) (umem : Nat → Byte) (s : Fs)
    (dir n1 n2 L1 L2 fuel : Nat) (h1 : NAME_LEN < L1) (h2 : NAME_LEN < L2)
    (h : ∀ j, j < NAME_LEN → umem (n1 + j) = umem (n2 + j)) :
    find_entry cur umem s dir n1 L1 fuel = find_entry cur umem s dir n2 L2 fuel := by
  have hne : ¬ NAME_LEN = 0 := by decide
  have hm : ∀ n : Nat, ¬ (NAME_LEN = 2 ∧ (umem n).val = 46 ∧ (umem (n + 1)).val = 46) :=
    fun n hc => absurd hc.1 (by decide)
  have hc := fun E => find_entry_loop_congr umem dir n1 n2 NAME_LEN E h
  unfold find_entry
  simp only [if_pos h1, if_pos h2]
  rw [if_neg hne, if_neg (hm n1), if_neg hne, if_neg (hm n2)]
  simp only [hc]

/-! ### Lemmas on pipes -/

theorem user_to_pipe_spec (umem : Nat → Byte) (page : Nat) : ∀ (n : Nat) (mem : Nat → Byte)
    (size buf x : Nat),
    user_to_pipe umem page mem size buf n x =
      if page + size ≤ x ∧ x < page + size + n then umem (buf + (x - (page + size))) else mem x := by
  intro n
  induction n with
  | zero =>
    intro mem size buf x
    unfold user_to_pipe
    rw [if_neg (by omega)]
  | succ n ih =>
    intro mem size buf x
    unfold user_to_pipe
    rw [ih]
    by_cases h1 : x = page + size
    · rw [if_neg (by omega), if_pos (by omega), h1, Function.update_same]
      congr 1
      omega
    · by_cases h2 : page + (size + 1) ≤ x ∧ x < page + (size + 1) + n
      · rw [if_pos h2, if_pos (by omega)]
        congr 1
        omega
      · rw [if_neg h2, if_neg (by omega), Function.update_noteq h1]

theorem pipe_to_user_spec (mem : Nat → Byte) (page : Nat) : ∀ (n : Nat) (umem : Nat → Byte)
    (size buf x : Nat),
    pipe_to_user mem page umem size buf n x =
      if buf ≤ x ∧ x < buf + n then mem (page + size + (x - buf)) else umem x := by
  intro n
  induction n with
  | zero =>
    intro umem size buf x
    unfold pipe_to_user
    rw [if_neg (by omega)]
  | succ n ih =>
    intro umem size buf x
    unfold pipe_to_user
    rw [ih]
    by_cases h1 : x = buf
    · rw [if_neg (by omega), if_pos (by omega), h1, Function.update_same]
      congr 1
      omega
    · by_cases h2 : buf + 1 ≤ x ∧ x < buf + 1 + n
      · rw [if_pos h2, if_pos (by omega)]
        congr 1
        omega
      · rw [if_neg h2, if_neg (by omega), Function.update_noteq h1]

theorem PIPE_SIZE_eq (m : m_inode) (h t : Nat) (hh : PIPE_HEAD m = h) (ht : PIPE_TAIL m = t)
    (hle : t ≤ h) (hlt : h - t < 4096) : PIPE_SIZE m = h - t := by
  unfold PIPE_SIZE PAGE_SIZE
  rw [hh, ht]
  omega

theorem write_pipe_turn (s : pipe_state) (buf fuel : Nat) (count written : Int) (c : Nat)
    (hh : PIPE_HEAD s.inode = 0) (ht : PIPE_TAIL s.inode = 0) (hc : 0 < c) (hc2 : c ≤ 4095)
    (hcount : (c : Int) = if count > 4095 then 4095 else count) :
    write_pipe_loop (fuel + 1) s buf count written =
      write_pipe_loop fuel
        { s with inode := { s.inode with i_zone := Function.update s.inode.i_zone 0 c }, mem := user_to_pipe s.umem s.inode.i_size s.mem 0 buf c }
        (buf + c) (count - c) (written + c) := by
  have hs : PIPE_SIZE s.inode = 0 := PIPE_SIZE_eq s.inode 0 0 hh ht (Nat.le_refl _) (by omega)
  have hcnt : count > 0 := by
    split_ifs at hcount <;> omega
  conv_lhs => unfold write_pipe_loop
  rw [if_pos hcnt]
  simp only [hs, hh]
  have e1 : ((PAGE_SIZE : Int) - 1 - ((0 : Nat) : Int)) = 4095 := by
    unfold PAGE_SIZE
    omega
  rw [e1, if_neg (by omega)]
  have e2 : (if (if (PAGE_SIZE : Int) - ((0 : Nat) : Int) > count then count
      else (PAGE_SIZE : Int) - ((0 : Nat) : Int)) > 4095 then (4095 : Int)
      else if (PAGE_SIZE : Int) - ((0 : Nat) : Int) > count then count
        else (PAGE_SIZE : Int) - ((0 : Nat) : Int)) = (c : Int) := by
    unfold PAGE_SIZE
    split_ifs at hcount ⊢ <;> omega
  rw [e2]
  have e3 : ((((0 : Nat) : Int) + (c : Int)) % 65536 % (PAGE_SIZE : Int)).toNat = c := by
    unfold PAGE_SIZE
    omega
  rw [e3, Int.toNat_ofNat]

theorem write_pipe_fresh (s : pipe_state) (buf k fuel : Nat)
    (hh : PIPE_HEAD s.inode = 0) (ht : PIPE_TAIL s.inode = 0) (hk : 0 < k) (hk2 : k ≤ 4095)
    (hf : 2 ≤ fuel) :
    write_pipe s buf (k : Int) fuel = .ok (some (k : Int),
      { s with inode := { s.inode with i_zone := Function.update s.inode.i_zone 0 k }, mem := user_to_pipe s.umem s.inode.i_size s.mem 0 buf k }) := by
  obtain ⟨f, rfl⟩ : ∃ f, fuel = f + 2 := ⟨fuel - 2, by omega⟩
  unfold write_pipe
  rw [write_pipe_turn s buf (f + 1) k 0 k hh ht hk hk2 (by split_ifs <;> omega)]
  unfold write_pipe_loop
  rw [if_neg (by omega)]
  simp only [Int.zero_add]

theorem write_pipe_sleeps (s : pipe_state) (buf fuel : Nat) (count written : Int)
    (hs : PIPE_SIZE s.inode = 4095) (hc : s.inode.i_count = 2) (hcount : count > 0) :
    write_pipe_loop (fuel + 1) s buf count written = .ok (none, s) := by
  unfold write_pipe_loop
  rw [if_pos hcount]
  simp only []
  rw [hs, if_pos (by unfold PAGE_SIZE; omega), if_neg (not_not.mpr hc)]

theorem write_pipe_page (s : pipe_state) (buf fuel : Nat)
    (hh : PIPE_HEAD s.inode = 0) (ht : PIPE_TAIL s.inode = 0) (hc : s.inode.i_count = 2)
    (hf : 2 ≤ fuel) :
    write_pipe s buf 4096 fuel = .ok (none,
      { s with inode := { s.inode with i_zone := Function.update s.inode.i_zone 0 4095 }, mem := user_to_pipe s.umem s.inode.i_size s.mem 0 buf 4095 }) := by
  obtain ⟨f, rfl⟩ : ∃ f, fuel = f + 2 := ⟨fuel - 2, by omega⟩
  unfold write_pipe
  rw [write_pipe_turn s buf (f + 1) 4096 0 4095 hh ht (by omega) (by omega) (by decide)]
  apply write_pipe_sleeps
  · apply PIPE_SIZE_eq _ 4095 0
    · unfold PIPE_HEAD
      simp only [Function.update_same]
    · unfold PIPE_TAIL
      simp only []
      rw [Function.update_noteq (by decide)]
      exact ht
    · omega
    · omega
  · exact hc
  · omega

theorem read_pipe_all (s : pipe_state) (buf k fuel : Nat)
    (hh : PIPE_HEAD s.inode = k) (ht : PIPE_TAIL s.inode = 0) (hk : 0 < k) (hk2 : k ≤ 4095)
    (hf : 2 ≤ fuel) :
    read_pipe s buf (k : Int) fuel = .ok (some (k : Int),
      { s with inode := { s.inode with i_zone := Function.update s.inode.i_zone 1 k }, umem := pipe_to_user s.mem s.inode.i_size s.umem 0 buf k }) := by
  obtain ⟨f, rfl⟩ : ∃ f, fuel = f + 2 := ⟨fuel - 2, by omega⟩
  have hs : PIPE_SIZE s.inode = k := by
    have := PIPE_SIZE_eq s.inode k 0 hh ht (Nat.zero_le _) (by omega)
    rw [this]
    omega
  unfold read_pipe read_pipe_loop
  rw [if_pos (by omega)]
  simp only [hs, ht]
  rw [if_neg (by omega)]
  have e2 : (if (if (PAGE_SIZE : Int) - ((0 : Nat) : Int) > (k : Int) then (k : Int)
      else (PAGE_SIZE : Int) - ((0 : Nat) : Int)) > (k : Int) then (k : Int)
      else if (PAGE_SIZE : Int) - ((0 : Nat) : Int) > (k : Int) then (k : Int)
        else (PAGE_SIZE : Int) - ((0 : Nat) : Int)) = (k : Int) := by
    unfold PAGE_SIZE
    split_ifs <;> omega
  rw [e2]
  have e3 : ((((0 : Nat) : Int) + (k : Int)) % 65536 % (PAGE_SIZE : Int)).toNat = k := by
    unfold PAGE_SIZE
    omega
  rw [e3, Int.toNat_ofNat]
  unfold read_pipe_loop
  rw [if_neg (by omega)]
  simp only [Int.zero_add]


theorem put_word_other (data : Nat → Byte) (e v x : Nat) (h1 : x ≠ 2 * e) (h2 : x ≠ 2 * e + 1) :
    put_word data e v x = data x := by
  unfold put_word
  rw [Function.update_noteq h2, Function.update_noteq h1]

theorem get_word_put_word_same (data : Nat → Byte) (e v : Nat) (hv : v < 65536) :
    get_word (put_word data e v) e = v := by
  unfold get_word put_word
  rw [Function.update_noteq (by omega), Function.update_same, Function.update_same]
  show v % 256 + 256 * (v / 256 % 256) = v
  omega

theorem store_name_other (umem : Nat → Byte) (name len k : Nat) : ∀ (n i : Nat)
    (data : Nat → Byte) (x : Nat), (x < 16 * k + 2 + i ∨ 16 * k + 2 + i + n ≤ x) →
    store_name umem name len k i n data x = data x := by
  intro n
  induction n with
  | zero =>
    intro i data x _
    unfold store_name
    rfl
  | succ n ih =>
    intro i data x hx
    unfold store_name
    rw [ih (i + 1) _ x (by omega), Function.update_noteq (by omega)]

theorem bread_some_uptodate (s : Fs) (dev b : Nat) (bh : Nat × Nat)
    (h : (bread s dev b).1 = some bh) :
    ((bread s dev b).2.buffer (dev, b)).b_uptodate ≠ 0 := by
  unfold bread at h ⊢
  simp only [getblk, Function.update_same] at h ⊢
  split_ifs at h ⊢ with h1 h2
  · simp only [Function.update_same]
    exact h1
  · simp only [Function.update_same]
    decide

theorem bmap_by_spec_same_view (s t : Fs) (h : same_view s t) (inode b : Nat) :
    bmap_by_spec t inode b = bmap_by_spec s inode b := by
  obtain ⟨-, -, -, a4, -, -, -, -, a9⟩ := h
  unfold bmap_by_spec
  simp only [a4, (a9 _).1]

theorem bmap_zone_keep (s : Fs) (inode k : Nat) (create : Bool)
    (h : create = true → (s.inode_table inode).i_zone k ≠ 0) :
    bmap_zone s inode k create = .ok s := by
  unfold bmap_zone
  rw [if_neg (fun hc => h hc.1 hc.2)]

theorem bmap_indirect_keep (s : Fs) (inode z k : Nat) (create : Bool)
    (hr : readable s ((s.inode_table inode).i_dev, z))
    (hm : create = true → z ≠ 0 →
      get_word (block_data s ((s.inode_table inode).i_dev, z)) k ≠ 0) :
    ∃ t, bmap_indirect s inode z k create
        = .ok (((if z = 0 then 0
          else get_word (block_data s ((s.inode_table inode).i_dev, z)) k : Nat) : Int), t) ∧
      same_view s t := by
  unfold bmap_indirect
  by_cases hz : z = 0
  · rw [if_pos hz, if_pos hz]
    exact ⟨s, rfl, same_view_refl s⟩
  · rw [if_neg hz, if_neg hz]
    obtain ⟨h1, h2, h3⟩ := bread_spec s _ z hr
    simp only []
    rw [h1]
    simp only [bmap_entry]
    refine ⟨_, ?_, h3⟩
    rw [h2, if_neg]
    intro hc
    exact hm hc.1 hz (by exact_mod_cast hc.2)

theorem _bmap_mapped (s : Fs) (inode b : Nat) (create : Bool) (hb : b < 7 + 512 + 512 * 512)
    (hr : ∀ blk, readable s ((s.inode_table inode).i_dev, blk))
    (hm : create = true → bmap_by_spec s inode b ≠ 0) :
    ∃ t, _bmap s inode ((b : Nat) : Int) create = .ok ((bmap_by_spec s inode b : Nat), t) ∧
      same_view s t := by
  unfold _bmap
  rw [if_neg (by omega), if_neg (by omega)]
  by_cases h7 : b < 7
  · have e0 : bmap_by_spec s inode b = (s.inode_table inode).i_zone b := by
      unfold bmap_by_spec
      simp only [if_pos h7]
    rw [if_pos (by omega)]
    simp only [Int.toNat_ofNat]
    rw [bmap_zone_keep s inode b create (fun hc => by rw [← e0]; exact hm hc), e0]
    exact ⟨s, rfl, same_view_refl s⟩
  · rw [if_neg (by omega)]
    simp only []
    by_cases h519 : b < 519
    · have e0 : bmap_by_spec s inode b = if (s.inode_table inode).i_zone 7 = 0 then 0
          else get_word (block_data s ((s.inode_table inode).i_dev, (s.inode_table inode).i_zone 7)) (b - 7) := by
        unfold bmap_by_spec
        simp only [if_neg h7, if_pos h519]
      have e1 : ((b : Int) - 7).toNat = b - 7 := by omega
      have hz7 : create = true → (s.inode_table inode).i_zone 7 ≠ 0 := by
        intro hc hz
        apply hm hc
        rw [e0, if_pos hz]
      rw [if_pos (by omega), bmap_zone_keep s inode 7 create hz7, e1, e0]
      simp only []
      exact bmap_indirect_keep s inode _ (b - 7) create (hr _) (fun hc hz => by
        have := hm hc
        rw [e0, if_neg hz] at this
        exact this)
    · have hshift : (b - 519) >>> 9 = (b - 519) / 512 := Nat.shiftRight_eq_div_pow _ 9
      have hand : (b - 519) &&& 511 = (b - 519) % 512 := Nat.and_pow_two_sub_one_eq_mod _ 9
      have e0 : bmap_by_spec s inode b = if (s.inode_table inode).i_zone 8 = 0 then 0
          else if get_word (block_data s ((s.inode_table inode).i_dev, (s.inode_table inode).i_zone 8)) ((b - 519) / 512) = 0 then 0
          else get_word (block_data s ((s.inode_table inode).i_dev, get_word (block_data s ((s.inode_table inode).i_dev, (s.inode_table inode).i_zone 8)) ((b - 519) / 512))) ((b - 519) % 512) := by
        unfold bmap_by_spec
        simp only [if_neg h7, if_neg h519]
      have e1 : ((b : Int) - 7 - 512).toNat = b - 519 := by omega
      have hz8 : create = true → (s.inode_table inode).i_zone 8 ≠ 0 := by
        intro hc hz
        apply hm hc
        rw [e0, if_pos hz]
      rw [if_neg (by omega), bmap_zone_keep s inode 8 create hz8, e1, hshift, hand]
      simp only []
      obtain ⟨t, ht, hv⟩ := bmap_indirect_keep s inode ((s.inode_table inode).i_zone 8)
        ((b - 519) / 512) create (hr _) (fun hc hz hg => by
          apply hm hc
          rw [e0, if_neg hz, if_pos hg])
      rw [ht]
      simp only []
      have hinode : t.inode_table = s.inode_table := hv.2.2.2.1
      obtain ⟨E, hE⟩ : ∃ E : Nat, E = if (s.inode_table inode).i_zone 8 = 0 then 0 else get_word (block_data s ((s.inode_table inode).i_dev, (s.inode_table inode).i_zone 8)) ((b - 519) / 512) := ⟨_, rfl⟩
      rw [← hE]
      have hElt : E < 65536 := by
        rw [hE]
        split_ifs
        · omega
        · exact get_word_lt _ _
      rw [of_long_natCast _ (by omega)]
      have hbd : block_data t ((t.inode_table inode).i_dev, E) = block_data s ((s.inode_table inode).i_dev, E) := by
        rw [hinode]
        exact (hv.2.2.2.2.2.2.2.2 _).1
      have hrt : readable t ((t.inode_table inode).i_dev, E) := by
        rw [hinode]
        exact same_view_readable s t hv _ (hr _)
      have e2 : bmap_by_spec s inode b = if E = 0 then 0
          else get_word (block_data s ((s.inode_table inode).i_dev, E)) ((b - 519) % 512) := by
        rw [e0, hE]
        by_cases hz : (s.inode_table inode).i_zone 8 = 0
        · simp only [if_pos hz, if_true]
        · simp only [if_neg hz]
      obtain ⟨u, hu, hw⟩ := bmap_indirect_keep t inode E ((b - 519) % 512) create hrt
        (fun hc hz => by
          have := hm hc
          rw [e2, if_neg hz] at this
          rw [hbd]
          exact this)
      rw [hu, hbd, e2]
      exact ⟨u, rfl, same_view_trans s t u hv hw⟩

theorem find_entry_loop_spec (umem : Nat → Byte) (s0 : Fs) (dir name len : Nat)
    (hwf : dir_wf s0 dir) :
    ∀ (n : Nat) (s : Fs) (key : Nat × Nat) (k i : Nat),
      (s0.inode_table dir).i_size / 16 - i ≤ n → k ≤ DIR_ENTRIES_PER_BLOCK →
      (k < DIR_ENTRIES_PER_BLOCK → i % DIR_ENTRIES_PER_BLOCK = k ∧ key = dir_block s0 dir i ∧
        (s.buffer key).b_data = block_data s0 key) →
      (k = DIR_ENTRIES_PER_BLOCK → i % DIR_ENTRIES_PER_BLOCK = 0) →
      same_view s0 (brelse s (some key)) →
      ∃ r t, find_entry_loop umem dir name len ((s0.inode_table dir).i_size / 16) n s (some key) k i
          = .ok (r, t) ∧
        (r.isSome = true ↔ ∃ j, i ≤ j ∧ j < (s0.inode_table dir).i_size / 16 ∧
          match_entry umem len name (block_data s0 (dir_block s0 dir j))
            (j % DIR_ENTRIES_PER_BLOCK) = true) := by
  intro n
  induction n with
  | zero =>
    intro s key k i hn _ _ _ _
    unfold find_entry_loop
    rw [if_neg (by omega)]
    refine ⟨none, _, rfl, ?_⟩
    constructor
    · intro hc
      cases hc
    · rintro ⟨j, h1, h2, -⟩
      omega
  | succ n ih =>
    intro s key k i hn hk hlt heq hsv
    unfold find_entry_loop
    by_cases hi : i ≥ (s0.inode_table dir).i_size / 16
    · rw [if_pos hi]
      refine ⟨none, _, rfl, ?_⟩
      constructor
      · intro hc
        cases hc
      · rintro ⟨j, h1, h2, -⟩
        omega
    rw [if_neg hi]
    simp only []
    have hstep : ∀ (hit : Bool) (r : Option ((Nat × Nat) × Nat)) (t : Fs) (e : Option ((Nat × Nat) × Nat)),
        hit = match_entry umem len name (block_data s0 (dir_block s0 dir i))
          (i % DIR_ENTRIES_PER_BLOCK) →
        (hit = true → r = e ∧ e.isSome = true) →
        (hit = false → (r.isSome = true ↔ ∃ j, i + 1 ≤ j ∧ j < (s0.inode_table dir).i_size / 16 ∧
          match_entry umem len name (block_data s0 (dir_block s0 dir j))
            (j % DIR_ENTRIES_PER_BLOCK) = true)) →
        (r.isSome = true ↔ ∃ j, i ≤ j ∧ j < (s0.inode_table dir).i_size / 16 ∧
          match_entry umem len name (block_data s0 (dir_block s0 dir j))
            (j % DIR_ENTRIES_PER_BLOCK) = true) := by
      intro hit r t e hh h1 h2
      cases hc : hit with
      | true =>
        rw [(h1 hc).1]
        exact ⟨fun _ => ⟨i, Nat.le_refl _, by omega, by rw [← hh, hc]⟩, fun _ => (h1 hc).2⟩
      | false =>
        rw [h2 hc]
        constructor
        · rintro ⟨j, a, b, c⟩
          exact ⟨j, by omega, b, c⟩
        · rintro ⟨j, a, b, c⟩
          by_cases hji : j = i
          · rw [hji, ← hh, hc] at c
            cases c
          · exact ⟨j, by omega, b, c⟩
    by_cases hk64 : k ≥ DIR_ENTRIES_PER_BLOCK
    · rw [if_pos hk64]
      have hk2 : k = DIR_ENTRIES_PER_BLOCK := by omega
      have hmod := heq hk2
      have hbig : i / DIR_ENTRIES_PER_BLOCK < 7 + 512 + 512 * 512 := by
        have := hwf.1
        unfold DIR_ENTRIES_PER_BLOCK at *
        omega
      obtain ⟨z1, z2⟩ := hwf.2.2.1 i (by omega)
      have etab : (brelse s (some key)).inode_table = s0.inode_table := hsv.2.2.2.1
      have hrd : ∀ blk, readable (brelse s (some key))
          (((brelse s (some key)).inode_table dir).i_dev, blk) := by
        intro blk
        rw [etab]
        exact same_view_readable _ _ hsv _ (hwf.2.1 blk)
      obtain ⟨t1, ht1, hv1⟩ := _bmap_mapped (brelse s (some key)) dir (i / DIR_ENTRIES_PER_BLOCK)
        false hbig hrd (fun hc => by cases hc)
      rw [bmap_by_spec_same_view _ _ hsv] at ht1
      unfold bmap
      rw [ht1]
      simp only []
      have hsv1 := same_view_trans _ _ _ hsv hv1
      have etab1 : t1.inode_table = s0.inode_table := hsv1.2.2.2.1
      rw [etab1]
      rw [if_neg (by
        intro hc
        exact z1 (by exact_mod_cast hc))]
      rw [of_long_natCast _ (by omega)]
      have hr := same_view_readable _ _ hsv1 _ (hwf.2.1 (bmap_by_spec s0 dir (i / DIR_ENTRIES_PER_BLOCK)))
      obtain ⟨b1, b2, b3⟩ := bread_spec t1 (s0.inode_table dir).i_dev
        (bmap_by_spec s0 dir (i / DIR_ENTRIES_PER_BLOCK)) hr
      rw [b1]
      simp only []
      have hdata : ((bread t1 (s0.inode_table dir).i_dev
          (bmap_by_spec s0 dir (i / DIR_ENTRIES_PER_BLOCK))).2.buffer
            ((s0.inode_table dir).i_dev, bmap_by_spec s0 dir (i / DIR_ENTRIES_PER_BLOCK))).b_data
          = block_data s0 (dir_block s0 dir i) := by
        rw [b2]
        exact (hsv1.2.2.2.2.2.2.2.2 _).1
      rw [hdata, ← hmod]
      have hsv2 := same_view_trans _ _ _ hsv1 b3
      cases hm : match_entry umem len name (block_data s0 (dir_block s0 dir i))
          (i % DIR_ENTRIES_PER_BLOCK) with
      | true =>
        simp only [if_true]
        refine ⟨_, _, rfl, ?_⟩
        exact hstep true _ s _ hm.symm (fun _ => ⟨rfl, rfl⟩) (fun hc => by cases hc)
      | false =>
        simp only [Bool.false_eq_true, if_false]
        obtain ⟨r, t, e1, e2⟩ := ih _ ((s0.inode_table dir).i_dev,
          bmap_by_spec s0 dir (i / DIR_ENTRIES_PER_BLOCK)) 1 (i + 1) (by omega)
          (by unfold DIR_ENTRIES_PER_BLOCK; omega)
          (fun _ => ⟨by unfold DIR_ENTRIES_PER_BLOCK at *; omega, by
            unfold dir_block
            rw [show (i + 1) / DIR_ENTRIES_PER_BLOCK = i / DIR_ENTRIES_PER_BLOCK by
              unfold DIR_ENTRIES_PER_BLOCK at *; omega], hdata⟩)
          (fun hc => by unfold DIR_ENTRIES_PER_BLOCK at hc; omega) hsv2
        refine ⟨r, t, e1, ?_⟩
        exact hstep false r s none hm.symm (fun hc => by cases hc) (fun _ => e2)
    · rw [if_neg hk64]
      obtain ⟨q1, q2, q3⟩ := hlt (by omega)
      subst q2
      rw [q3, ← q1]
      cases hm : match_entry umem len name (block_data s0 (dir_block s0 dir i))
          (i % DIR_ENTRIES_PER_BLOCK) with
      | true =>
        simp only [if_true]
        refine ⟨_, _, rfl, ?_⟩
        exact hstep true _ s _ hm.symm (fun _ => ⟨rfl, rfl⟩) (fun hc => by cases hc)
      | false =>
        simp only [Bool.false_eq_true, if_false]
        obtain ⟨r, t, e1, e2⟩ := ih s (dir_block s0 dir i) (i % DIR_ENTRIES_PER_BLOCK + 1) (i + 1)
          (by omega) (by omega)
          (fun hc => ⟨by unfold DIR_ENTRIES_PER_BLOCK at *; omega, by
            unfold dir_block
            rw [show (i + 1) / DIR_ENTRIES_PER_BLOCK = i / DIR_ENTRIES_PER_BLOCK by
              unfold DIR_ENTRIES_PER_BLOCK at *; omega], q3⟩)
          (fun hc => by unfold DIR_ENTRIES_PER_BLOCK at *; omega) hsv
        refine ⟨r, t, e1, ?_⟩
        exact hstep false r s none hm.symm (fun hc => by cases hc) (fun _ => e2)

theorem bmap_by_spec_zero (s : Fs) (dir : Nat) :
    bmap_by_spec s dir 0 = (s.inode_table dir).i_zone 0 := by
  unfold bmap_by_spec
  simp

theorem find_entry_found_iff (cur : fs_current) (umem : Nat → Byte) (s : Fs)
    (dir name len fuel : Nat) (hwf : dir_wf s dir) (hlen : 1 ≤ len)
    (hdd : is_dotdot umem name len →
      some dir ≠ cur.root ∧ (s.inode_table dir).i_num ≠ ROOT_INO) :
    ∃ r t, find_entry cur umem s dir name len fuel = .ok (r, dir, t) ∧
      (r.isSome = true ↔ ∃ i, i < (s.inode_table dir).i_size / 16 ∧
        entry_holds umem s dir name (min len NAME_LEN) i) := by
  obtain ⟨L, hL⟩ : ∃ L, L = if len > NAME_LEN then NAME_LEN else len := ⟨_, rfl⟩
  have hLmin : min len NAME_LEN = L := by
    rw [hL]
    unfold NAME_LEN
    split_ifs <;> omega
  have hL14 : L ≤ NAME_LEN := by
    rw [← hLmin]
    exact Nat.min_le_right _ _
  have hL1 : L ≠ 0 := by
    rw [← hLmin]
    unfold NAME_LEN
    omega
  have hiff : ∀ i, i < (s.inode_table dir).i_size / 16 →
      (match_entry umem L name (block_data s (dir_block s dir i)) (i % DIR_ENTRIES_PER_BLOCK)
        = true ↔ entry_holds umem s dir name L i) := by
    intro i hi
    exact match_entry_iff umem _ L name _ hL14 (hwf.2.2.2 i hi)
  have hex : (∃ j, 0 ≤ j ∧ j < (s.inode_table dir).i_size / 16 ∧
      match_entry umem L name (block_data s (dir_block s dir j)) (j % DIR_ENTRIES_PER_BLOCK)
        = true) ↔ ∃ i, i < (s.inode_table dir).i_size / 16 ∧ entry_holds umem s dir name L i := by
    constructor
    · rintro ⟨j, -, h1, h2⟩
      exact ⟨j, h1, (hiff j h1).mp h2⟩
    · rintro ⟨j, h1, h2⟩
      exact ⟨j, Nat.zero_le _, h1, (hiff j h1).mpr h2⟩
  rw [hLmin]
  unfold find_entry
  simp only []
  rw [← hL, if_neg hL1]
  have hdd2 : (L = 2 ∧ (umem name).val = 46 ∧ (umem (name + 1)).val = 46) →
      some dir ≠ cur.root ∧ (s.inode_table dir).i_num ≠ ROOT_INO := by
    intro hc
    have hlen2 : len = 2 := by
      have := hc.1
      rw [hL] at this
      unfold NAME_LEN at this
      split_ifs at this <;> omega
    exact hdd ⟨hlen2, hc.2⟩
  rcases Classical.em (L = 2 ∧ (umem name).val = 46 ∧ (umem (name + 1)).val = 46) with hc | hc
  all_goals first
    | rw [if_pos hc, if_neg (hdd2 hc).1, if_neg (hdd2 hc).2]
    | rw [if_neg hc]
  all_goals
    simp only []
    by_cases he : (s.inode_table dir).i_size / 16 = 0
    · have hnone : ¬ ∃ i, i < (s.inode_table dir).i_size / 16 ∧ entry_holds umem s dir name L i := by
        rintro ⟨i, hi, -⟩
        omega
      by_cases hz : (s.inode_table dir).i_zone 0 = 0
      · rw [if_pos hz]
        exact ⟨none, s, rfl, ⟨fun hc => (by cases hc), fun hc => absurd hc hnone⟩⟩
      · rw [if_neg hz]
        cases hb : (bread s (s.inode_table dir).i_dev ((s.inode_table dir).i_zone 0)).1 with
        | none => exact ⟨none, _, rfl, ⟨fun hc => (by cases hc), fun hc => absurd hc hnone⟩⟩
        | some key =>
          simp only []
          have hloop : ∀ (E : Nat) (S : Fs), E = 0 →
              find_entry_loop umem dir name L E E S (some key) 0 0 = .ok (none, brelse S (some key)) := by
            intro E S hE
            subst hE
            unfold find_entry_loop
            rw [if_neg (by omega)]
          rw [hloop _ _ he]
          exact ⟨none, _, rfl, ⟨fun hc => (by cases hc), fun hc => absurd hc hnone⟩⟩
    · obtain ⟨z1, z2⟩ := hwf.2.2.1 0 (by omega)
      have hd0 : (0 : Nat) / DIR_ENTRIES_PER_BLOCK = 0 := Nat.zero_div _
      rw [hd0, bmap_by_spec_zero] at z1
      rw [if_neg z1]
      obtain ⟨b1, b2, b3⟩ := bread_spec s _ _ (hwf.2.1 ((s.inode_table dir).i_zone 0))
      rw [b1]
      simp only []
      obtain ⟨r, t, e1, e2⟩ := find_entry_loop_spec umem s dir name L hwf
        ((s.inode_table dir).i_size / 16)
        (bread s (s.inode_table dir).i_dev ((s.inode_table dir).i_zone 0)).2
        ((s.inode_table dir).i_dev, (s.inode_table dir).i_zone 0) 0 0 (by omega)
        (Nat.zero_le _)
        (fun _ => ⟨Nat.zero_mod _, by unfold dir_block; rw [hd0, bmap_by_spec_zero], b2⟩)
        (fun hc => by unfold DIR_ENTRIES_PER_BLOCK at hc; omega) b3
      rw [e1]
      exact ⟨r, t, rfl, e2.trans hex⟩

theorem find_entry_dotdot_root (cur : fs_current) (umem : Nat → Byte) (s : Fs)
    (dir name fuel : Nat) (hd : is_dotdot umem name 2) (hroot : some dir = cur.root) :
    find_entry cur umem s dir name 2 fuel = find_entry cur umem s dir name 1 fuel := by
  have h2 : (if 2 > NAME_LEN then NAME_LEN else 2) = 2 := by decide
  have h1 : (if 1 > NAME_LEN then NAME_LEN else 1) = 1 := by decide
  have hm1 : ¬ ((1 : Nat) = 2 ∧ (umem name).val = 46 ∧ (umem (name + 1)).val = 46) :=
    fun hc => absurd hc.1 (by decide)
  unfold find_entry
  simp only [h2, h1, if_neg hm1, if_pos hroot]
  rw [if_neg (show ¬ (2 : Nat) = 0 by decide), if_neg (show ¬ (1 : Nat) = 0 by decide),
    if_pos (show True ∧ (umem name).val = 46 ∧ (umem (name + 1)).val = 46 from ⟨trivial, hd.2⟩)]

theorem add_entry_step_none (umem : Nat → Byte) (dir name len : Nat) (s : Fs)
    (key : Nat × Nat) (k i : Nat)
    (h : (add_entry_step umem dir name len s key k i).1 = none) :
    (add_entry_step umem dir name len s key k i).2 = s ∧ i * 16 < (s.inode_table dir).i_size ∧
      de_inode (s.buffer key).b_data k ≠ 0 := by
  unfold add_entry_step at h ⊢
  simp only [] at h ⊢
  by_cases c1 : i * 16 ≥ (s.inode_table dir).i_size
  · exfalso
    rw [if_pos c1] at h
    rw [if_pos] at h
    · cases h
    · simp only [set_inode, Function.update_same]
      exact get_word_put_word_zero _ _
  · rw [if_neg c1] at h ⊢
    by_cases c2 : de_inode (s.buffer key).b_data k = 0
    · rw [if_pos c2] at h
      cases h
    · rw [if_neg c2]
      exact ⟨rfl, by omega, c2⟩

theorem add_entry_step_facts (umem : Nat → Byte) (dir name len : Nat) (s : Fs)
    (key : Nat × Nat) (k i : Nat) (e : (Nat × Nat) × Nat)
    (h : (add_entry_step umem dir name len s key k i).1 = some e) :
    ((add_entry_step umem dir name len s key k i).2.inode_table dir).i_dev
      = (s.inode_table dir).i_dev ∧
    ((add_entry_step umem dir name len s key k i).2.inode_table dir).i_zone
      = (s.inode_table dir).i_zone ∧
    ((add_entry_step umem dir name len s key k i).2.inode_table dir).i_num
      = (s.inode_table dir).i_num ∧
    ((i * 16 < (s.inode_table dir).i_size ∧
        ((add_entry_step umem dir name len s key k i).2.inode_table dir).i_size
          = (s.inode_table dir).i_size) ∨
      (i * 16 ≥ (s.inode_table dir).i_size ∧
        ((add_entry_step umem dir name len s key k i).2.inode_table dir).i_size = (i + 1) * 16)) ∧
    ((add_entry_step umem dir name len s key k i).2.buffer key).b_uptodate
      = (s.buffer key).b_uptodate ∧
    (∀ x, (x < 16 * k ∨ 16 * k + 16 ≤ x) →
      ((add_entry_step umem dir name len s key k i).2.buffer key).b_data x
        = (s.buffer key).b_data x) ∧
    (∀ key2, key2 ≠ key →
      (add_entry_step umem dir name len s key k i).2.buffer key2 = s.buffer key2) ∧
    (add_entry_step umem dir name len s key k i).2.disk = s.disk ∧
    (add_entry_step umem dir name len s key k i).2.io_error = s.io_error := by
  unfold add_entry_step at h ⊢
  simp only [] at h ⊢
  by_cases c1 : i * 16 ≥ (s.inode_table dir).i_size
  · rw [if_pos c1] at h ⊢
    have c2 : de_inode ((set_inode { s with buffer := Function.update s.buffer key { s.buffer key with b_data := put_word (s.buffer key).b_data (8 * k) 0 } } dir fun m => { m with i_size := (i + 1) * 16, i_dirt := 1, i_ctime := s.CURRENT_TIME }).buffer key).b_data k = 0 := by
      simp only [set_inode, Function.update_same]
      exact get_word_put_word_zero _ _
    rw [if_pos c2]
    simp only [set_inode, Function.update_same]
    refine ⟨trivial, trivial, trivial, Or.inr ⟨c1, trivial⟩, trivial, fun x hx => ?_,
      fun key2 hk => ?_, trivial, trivial⟩
    · rw [store_name_other umem name len k NAME_LEN 0 _ x (by unfold NAME_LEN; omega),
        put_word_other _ _ _ _ (by omega) (by omega)]
    · rw [Function.update_noteq hk, Function.update_noteq hk]
  · rw [if_neg c1] at h ⊢
    by_cases c2 : de_inode (s.buffer key).b_data k = 0
    · rw [if_pos c2]
      simp only [set_inode, Function.update_same]
      refine ⟨trivial, trivial, trivial, Or.inl ⟨by omega, trivial⟩, trivial, fun x hx => ?_,
        fun key2 hk => ?_, trivial, trivial⟩
      · rw [store_name_other umem name len k NAME_LEN 0 _ x (by unfold NAME_LEN; omega)]
      · rw [Function.update_noteq hk]
    · rw [if_neg c2] at h
      cases h

theorem add_entry_step_takes (umem : Nat → Byte) (dir name len : Nat) (s : Fs)
    (key : Nat × Nat) (k i : Nat)
    (h : i * 16 ≥ (s.inode_table dir).i_size ∨ de_inode (s.buffer key).b_data k = 0) :
    (add_entry_step umem dir name len s key k i).1 = some (key, k) := by
  cases hst : (add_entry_step umem dir name len s key k i).1 with
  | some e => rw [(add_entry_step_stored umem dir name len s key k i e hst).1]
  | none =>
    obtain ⟨-, h2, h3⟩ := add_entry_step_none umem dir name len s key k i hst
    rcases h with h | h
    · omega
    · exact absurd h h3

theorem add_entry_loop_first (umem : Nat → Byte) (s0 : Fs) (dir name len i0 : Nat)
    (hroom : dir_room s0 dir i0) :
    ∀ (n : Nat) (s : Fs) (key : Nat × Nat) (k i : Nat),
      i ≤ i0 → i0 - i < n → k ≤ DIR_ENTRIES_PER_BLOCK →
      (k < DIR_ENTRIES_PER_BLOCK → i % DIR_ENTRIES_PER_BLOCK = k ∧ key = dir_block s0 dir i ∧
        (s.buffer key).b_data = block_data s0 key ∧ (s.buffer key).b_uptodate ≠ 0) →
      (k = DIR_ENTRIES_PER_BLOCK → i % DIR_ENTRIES_PER_BLOCK = 0) →
      same_view s0 (brelse s (some key)) →
      ∃ i1 S, i ≤ i1 ∧ i1 ≤ i0 ∧
        (∀ j, i ≤ j → j < i1 → j * 16 < (s0.inode_table dir).i_size) ∧
        same_view s0 (brelse S (some (dir_block s0 dir i1))) ∧
        (S.buffer (dir_block s0 dir i1)).b_data = block_data s0 (dir_block s0 dir i1) ∧
        (S.buffer (dir_block s0 dir i1)).b_uptodate ≠ 0 ∧
        (add_entry_step umem dir name len S (dir_block s0 dir i1) (i1 % DIR_ENTRIES_PER_BLOCK) i1).1
          = some (dir_block s0 dir i1, i1 % DIR_ENTRIES_PER_BLOCK) ∧
        add_entry_loop umem dir name len n s (some key) k i
          = .ok (some (dir_block s0 dir i1, i1 % DIR_ENTRIES_PER_BLOCK),
            (add_entry_step umem dir name len S (dir_block s0 dir i1)
              (i1 % DIR_ENTRIES_PER_BLOCK) i1).2) := by
  obtain ⟨hbig, hr, hmap, hfree⟩ := hroom
  have hcur : ∀ (S : Fs) (i : Nat), i ≤ i0 →
      same_view s0 (brelse S (some (dir_block s0 dir i))) →
      (S.buffer (dir_block s0 dir i)).b_data = block_data s0 (dir_block s0 dir i) →
      (add_entry_step umem dir name len S (dir_block s0 dir i) (i % DIR_ENTRIES_PER_BLOCK) i).1
        = none →
      (add_entry_step umem dir name len S (dir_block s0 dir i) (i % DIR_ENTRIES_PER_BLOCK) i).2 = S ∧
      i * 16 < (s0.inode_table dir).i_size ∧ i + 1 ≤ i0 := by
    intro S i hi hsv hdata hst
    obtain ⟨h1, h2, h3⟩ := add_entry_step_none umem dir name len S _ _ i hst
    have etab : S.inode_table = s0.inode_table := hsv.2.2.2.1
    rw [etab] at h2
    refine ⟨h1, h2, ?_⟩
    by_contra hc
    have hii : i = i0 := by omega
    subst hii
    rw [hdata] at h3
    rcases hfree with hf | hf
    · omega
    · exact h3 hf
  intro n
  induction n with
  | zero =>
    intro s key k i _ hn
    omega
  | succ n ih =>
    intro s key k i hi hn hk hlt heq hsv
    unfold add_entry_loop
    simp only []
    by_cases hk64 : k ≥ DIR_ENTRIES_PER_BLOCK
    · rw [if_pos hk64]
      have hk2 : k = DIR_ENTRIES_PER_BLOCK := by omega
      have hmod := heq hk2
      have hbig2 : i / DIR_ENTRIES_PER_BLOCK < 7 + 512 + 512 * 512 := by
        have : i / DIR_ENTRIES_PER_BLOCK ≤ i0 / DIR_ENTRIES_PER_BLOCK := Nat.div_le_div_right hi
        omega
      obtain ⟨z1, z2⟩ := hmap i hi
      have etab : (brelse s (some key)).inode_table = s0.inode_table := hsv.2.2.2.1
      have hrd : ∀ blk, readable (brelse s (some key))
          (((brelse s (some key)).inode_table dir).i_dev, blk) := by
        intro blk
        rw [etab]
        exact same_view_readable _ _ hsv _ (hr blk)
      obtain ⟨t1, ht1, hv1⟩ := _bmap_mapped (brelse s (some key)) dir (i / DIR_ENTRIES_PER_BLOCK)
        true hbig2 hrd (fun _ => by rw [bmap_by_spec_same_view _ _ hsv]; exact z1)
      rw [bmap_by_spec_same_view _ _ hsv] at ht1
      unfold create_block
      rw [ht1]
      simp only []
      have hsv1 := same_view_trans _ _ _ hsv hv1
      have etab1 : t1.inode_table = s0.inode_table := hsv1.2.2.2.1
      rw [etab1]
      rw [if_neg (by
        intro hc
        exact z1 (by exact_mod_cast hc))]
      rw [of_long_natCast _ (by omega)]
      have hrb := same_view_readable _ _ hsv1 _ (hr (bmap_by_spec s0 dir (i / DIR_ENTRIES_PER_BLOCK)))
      obtain ⟨b1, b2, b3⟩ := bread_spec t1 (s0.inode_table dir).i_dev
        (bmap_by_spec s0 dir (i / DIR_ENTRIES_PER_BLOCK)) hrb
      have hup := bread_some_uptodate t1 _ _ _ b1
      rw [b1]
      simp only []
      have hkey : ((s0.inode_table dir).i_dev, bmap_by_spec s0 dir (i / DIR_ENTRIES_PER_BLOCK))
          = dir_block s0 dir i := rfl
      rw [hkey] at b2 b3 hup ⊢
      have hdata : ((bread t1 (s0.inode_table dir).i_dev
          (bmap_by_spec s0 dir (i / DIR_ENTRIES_PER_BLOCK))).2.buffer (dir_block s0 dir i)).b_data
          = block_data s0 (dir_block s0 dir i) := by
        rw [b2]
        exact (hsv1.2.2.2.2.2.2.2.2 _).1
      have hsv2 := same_view_trans _ _ _ hsv1 b3
      have hstep0 : ∀ B : Fs, add_entry_step umem dir name len B (dir_block s0 dir i) 0 i
          = add_entry_step umem dir name len B (dir_block s0 dir i)
            (i % DIR_ENTRIES_PER_BLOCK) i := by
        intro B
        rw [hmod]
      rw [hstep0]
      cases hst : (add_entry_step umem dir name len (bread t1 (s0.inode_table dir).i_dev
          (bmap_by_spec s0 dir (i / DIR_ENTRIES_PER_BLOCK))).2 (dir_block s0 dir i)
          (i % DIR_ENTRIES_PER_BLOCK) i).1 with
      | some e =>
        have he := (add_entry_step_stored umem dir name len _ _ _ i e hst).1
        subst he
        exact ⟨i, _, Nat.le_refl _, hi, fun j h1 h2 => by omega, hsv2, hdata, hup, hst, rfl⟩
      | none =>
        simp only []
        obtain ⟨h1, h2, h3⟩ := hcur _ i hi hsv2 hdata hst
        rw [h1]
        have hkey2 : dir_block s0 dir (i + 1) = dir_block s0 dir i := by
          unfold dir_block
          rw [show (i + 1) / DIR_ENTRIES_PER_BLOCK = i / DIR_ENTRIES_PER_BLOCK by
            unfold DIR_ENTRIES_PER_BLOCK at *; omega]
        obtain ⟨i1, S, k1, k2, k3, k4⟩ := ih _ (dir_block s0 dir i) 1 (i + 1) h3 (by omega)
          (by unfold DIR_ENTRIES_PER_BLOCK; omega)
          (fun _ => ⟨by unfold DIR_ENTRIES_PER_BLOCK at *; omega, hkey2.symm, hdata, hup⟩)
          (fun hc => by unfold DIR_ENTRIES_PER_BLOCK at hc; omega) hsv2
        refine ⟨i1, S, by omega, k2, fun j j1 j2 => ?_, k4⟩
        by_cases hji : j = i
        · rw [hji]
          exact h2
        · exact k3 j (by omega) j2
    · rw [if_neg hk64]
      obtain ⟨q1, q2, q3, q4⟩ := hlt (by omega)
      subst q2
      rw [← q1]
      cases hst : (add_entry_step umem dir name len s (dir_block s0 dir i)
          (i % DIR_ENTRIES_PER_BLOCK) i).1 with
      | some e =>
        have he := (add_entry_step_stored umem dir name len _ _ _ i e hst).1
        subst he
        exact ⟨i, _, Nat.le_refl _, hi, fun j h1 h2 => by omega, hsv, q3, q4, hst, rfl⟩
      | none =>
        simp only []
        obtain ⟨h1, h2, h3⟩ := hcur _ i hi hsv q3 hst
        rw [h1]
        by_cases hlast : i % DIR_ENTRIES_PER_BLOCK + 1 < DIR_ENTRIES_PER_BLOCK
        · have hkey2 : dir_block s0 dir (i + 1) = dir_block s0 dir i := by
            unfold dir_block
            rw [show (i + 1) / DIR_ENTRIES_PER_BLOCK = i / DIR_ENTRIES_PER_BLOCK by
              unfold DIR_ENTRIES_PER_BLOCK at *; omega]
          obtain ⟨i1, S, k1, k2, k3, k4⟩ := ih s (dir_block s0 dir i)
            (i % DIR_ENTRIES_PER_BLOCK + 1) (i + 1) h3 (by omega) (by omega)
            (fun _ => ⟨by unfold DIR_ENTRIES_PER_BLOCK at *; omega, hkey2.symm, q3, q4⟩)
            (fun hc => by omega) hsv
          refine ⟨i1, S, by omega, k2, fun j j1 j2 => ?_, k4⟩
          by_cases hji : j = i
          · rw [hji]
            exact h2
          · exact k3 j (by omega) j2
        · obtain ⟨i1, S, k1, k2, k3, k4⟩ := ih s (dir_block s0 dir i)
            (i % DIR_ENTRIES_PER_BLOCK + 1) (i + 1) h3 (by omega) (by omega)
            (fun hc => absurd hc hlast)
            (fun _ => by unfold DIR_ENTRIES_PER_BLOCK at *; omega) hsv
          refine ⟨i1, S, by omega, k2, fun j j1 j2 => ?_, k4⟩
          by_cases hji : j = i
          · rw [hji]
            exact h2
          · exact k3 j (by omega) j2

theorem add_entry_first (umem : Nat → Byte) (s : Fs) (dir name len fuel i0 : Nat)
    (hlen : 1 ≤ len) (hroom : dir_room s dir i0) (hfuel : i0 < fuel) :
    ∃ i1 S, i1 ≤ i0 ∧
      (∀ j, j < i1 → j * 16 < (s.inode_table dir).i_size) ∧
      same_view s (brelse S (some (dir_block s dir i1))) ∧
      (S.buffer (dir_block s dir i1)).b_data = block_data s (dir_block s dir i1) ∧
      (S.buffer (dir_block s dir i1)).b_uptodate ≠ 0 ∧
      (add_entry_step umem dir name (if len > NAME_LEN then NAME_LEN else len) S
        (dir_block s dir i1) (i1 % DIR_ENTRIES_PER_BLOCK) i1).1
        = some (dir_block s dir i1, i1 % DIR_ENTRIES_PER_BLOCK) ∧
      add_entry umem s dir name len fuel
        = .ok (some (dir_block s dir i1, i1 % DIR_ENTRIES_PER_BLOCK),
          (add_entry_step umem dir name (if len > NAME_LEN then NAME_LEN else len) S
            (dir_block s dir i1) (i1 % DIR_ENTRIES_PER_BLOCK) i1).2) := by
  unfold add_entry
  simp only []
  have hL : ¬ (if len > NAME_LEN then NAME_LEN else len) = 0 := by
    intro hc
    unfold NAME_LEN at hc
    split_ifs at hc
    omega
  obtain ⟨z1, -⟩ := hroom.2.2.1 0 (Nat.zero_le _)
  have hd0 : (0 : Nat) / DIR_ENTRIES_PER_BLOCK = 0 := Nat.zero_div _
  rw [hd0, bmap_by_spec_zero] at z1
  rw [if_neg hL, if_neg z1]
  obtain ⟨b1, b2, b3⟩ := bread_spec s _ _ (hroom.2.1 ((s.inode_table dir).i_zone 0))
  have hup := bread_some_uptodate s _ _ _ b1
  rw [b1]
  simp only []
  have hkey : ((s.inode_table dir).i_dev, (s.inode_table dir).i_zone 0) = dir_block s dir 0 := by
    unfold dir_block
    rw [hd0, bmap_by_spec_zero]
  rw [hkey] at b2 b3 hup ⊢
  obtain ⟨i1, S, -, k2, k3, k4, k5, k6, k7, k8⟩ := add_entry_loop_first umem s dir name
    (if len > NAME_LEN then NAME_LEN else len) i0 hroom fuel _ (dir_block s dir 0) 0 0
    (Nat.zero_le _) (by omega) (Nat.zero_le _)
    (fun _ => ⟨Nat.zero_mod _, rfl, b2, hup⟩)
    (fun hc => by unfold DIR_ENTRIES_PER_BLOCK at hc; omega) b3
  exact ⟨i1, S, k2, fun j hj => k3 j (Nat.zero_le _) hj, k4, k5, k6, k7, k8⟩

theorem bmap_by_spec_congr (s u : Fs) (dir : Nat)
    (hdev : (u.inode_table dir).i_dev = (s.inode_table dir).i_dev)
    (hzone : (u.inode_table dir).i_zone = (s.inode_table dir).i_zone)
    (hdata : ∀ key, dir_indirect s dir key → block_data u key = block_data s key) (b : Nat) :
    bmap_by_spec u dir b = bmap_by_spec s dir b := by
  unfold bmap_by_spec
  simp only [hdev, hzone]
  by_cases h7 : b < 7
  · rw [if_pos h7, if_pos h7]
  rw [if_neg h7, if_neg h7]
  by_cases h519 : b < 519
  · rw [if_pos h519, if_pos h519]
    by_cases hz : (s.inode_table dir).i_zone 7 = 0
    · rw [if_pos hz, if_pos hz]
    · rw [if_neg hz, if_neg hz, hdata _ (Or.inl ⟨hz, rfl⟩)]
  · rw [if_neg h519, if_neg h519]
    by_cases hz : (s.inode_table dir).i_zone 8 = 0
    · rw [if_pos hz, if_pos hz]
    · rw [if_neg hz, if_neg hz, hdata _ (Or.inr ⟨hz, Or.inl rfl⟩)]
      by_cases he : get_word (block_data s ((s.inode_table dir).i_dev, (s.inode_table dir).i_zone 8)) ((b - 519) / 512) = 0
      · rw [if_pos he, if_pos he]
      · rw [if_neg he, if_neg he, hdata _ (Or.inr ⟨hz, Or.inr ⟨_, he, rfl⟩⟩)]

theorem block_data_brelse (s : Fs) (bh : Option (Nat × Nat)) (key : Nat × Nat) :
    block_data (brelse s bh) key = block_data s key := by
  cases bh with
  | none => rfl
  | some K =>
    by_cases hk : key = K
    · subst hk
      simp only [block_data, brelse, Function.update_same]
    · exact block_data_congr _ _ _ (brelse_buffer s K key hk) rfl

theorem add_then_find (cur : fs_current) (umem : Nat → Byte) (s : Fs)
    (dir name L fuel ino i0 : Nat) (hL : 1 ≤ L) (hwf : dir_wf s dir)
    (hroom : dir_room s dir i0) (hfuel : i0 < fuel)
    (hmul : (s.inode_table dir).i_size % 16 = 0)
    (hplain : ∀ j, j ≤ i0 → ¬ dir_indirect s dir (dir_block s dir j))
    (hino : 0 < ino) (hino2 : ino < 65536)
    (hstr : ∀ j, j < min L NAME_LEN → (umem (name + j)).val ≠ 0)
    (hdd : is_dotdot umem name L →
      some dir ≠ cur.root ∧ (s.inode_table dir).i_num ≠ ROOT_INO) :
    ∃ bh k t, add_entry umem s dir name L fuel = .ok (some (bh, k), t) ∧
      ∃ r u, find_entry cur umem
        (brelse { t with buffer := Function.update t.buffer bh { t.buffer bh with b_data := put_word (t.buffer bh).b_data (8 * k) ino, b_dirt := 1 } } (some bh))
        dir name L fuel = .ok (some r, dir, u) := by
  obtain ⟨Lc, hLc⟩ : ∃ Lc, Lc = if L > NAME_LEN then NAME_LEN else L := ⟨_, rfl⟩
  have hLmin : min L NAME_LEN = Lc := by
    rw [hLc]
    unfold NAME_LEN
    split_ifs <;> omega
  obtain ⟨i1, S, a1, a2, hsv, a4, hup, a6, hadd⟩ := add_entry_first umem s dir name L fuel i0 hL
    hroom hfuel
  rw [← hLc] at a6 hadd
  obtain ⟨K, hK⟩ : ∃ K, K = dir_block s dir i1 := ⟨_, rfl⟩
  obtain ⟨k, hk⟩ : ∃ k, k = i1 % DIR_ENTRIES_PER_BLOCK := ⟨_, rfl⟩
  have hk64 : k < 64 := by
    rw [hk]
    unfold DIR_ENTRIES_PER_BLOCK
    omega
  rw [← hK] at hsv a4 hup a6 hadd
  rw [← hk] at a6 hadd
  obtain ⟨f1, f2, f3, f4, f5, f6, f7, f8, f9⟩ := add_entry_step_facts umem dir name Lc S K k i1 _ a6
  have f10 := (add_entry_step_stored umem dir name Lc S K k i1 _ a6).2
  obtain ⟨t, ht⟩ : ∃ t, t = (add_entry_step umem dir name Lc S K k i1).2 := ⟨_, rfl⟩
  rw [← ht] at hadd f1 f2 f3 f4 f5 f6 f7 f8 f9 f10
  have htab : S.inode_table = s.inode_table := hsv.2.2.2.1
  rw [htab] at f1 f2 f3 f4
  refine ⟨K, k, t, hadd, ?_⟩
  obtain ⟨u, hu⟩ : ∃ u, u = brelse { t with buffer := Function.update t.buffer K { t.buffer K with b_data := put_word (t.buffer K).b_data (8 * k) ino, b_dirt := 1 } } (some K) := ⟨_, rfl⟩
  rw [← hu]
  have g1 : u.inode_table = t.inode_table := by
    rw [hu]
    rfl
  have gdisk : u.disk = s.disk := by
    have : u.disk = t.disk := by rw [hu]; rfl
    rw [this, f8]
    exact hsv.1
  have gio : u.io_error = s.io_error := by
    have : u.io_error = t.io_error := by rw [hu]; rfl
    rw [this, f9]
    exact hsv.2.1
  have gother : ∀ key, key ≠ K → u.buffer key = (brelse S (some K)).buffer key := by
    intro key hne
    rw [hu, brelse_buffer _ K key hne, brelse_buffer _ K key hne]
    simp only [Function.update_noteq hne]
    exact f7 key hne
  have gbd : ∀ key, key ≠ K → block_data u key = block_data s key := by
    intro key hne
    rw [← (hsv.2.2.2.2.2.2.2.2 key).1]
    exact block_data_congr _ _ _ (gother key hne) (by rw [gdisk]; exact hsv.1.symm)
  have g2 : (u.buffer K).b_data = put_word (t.buffer K).b_data (8 * k) ino := by
    rw [hu]
    simp only [brelse, Function.update_same]
  have g3 : (u.buffer K).b_uptodate ≠ 0 := by
    rw [hu]
    simp only [brelse, Function.update_same]
    rw [f5]
    exact hup
  have hblock : block_data u K = put_word (t.buffer K).b_data (8 * k) ino := by
    unfold block_data
    rw [if_pos g3, g2]
  have gdev : (u.inode_table dir).i_dev = (s.inode_table dir).i_dev := by rw [g1, f1]
  have gzone : (u.inode_table dir).i_zone = (s.inode_table dir).i_zone := by rw [g1, f2]
  have gread : ∀ b, readable u ((u.inode_table dir).i_dev, b) := by
    intro b
    rw [gdev]
    by_cases hb : ((s.inode_table dir).i_dev, b) = K
    · rw [hb]
      exact Or.inl g3
    · have h1 := same_view_readable _ _ hsv _ (hwf.2.1 b)
      exact readable_congr _ _ _ (gother _ hb) (by rw [gio]; exact hsv.2.1.symm) h1
  have hKplain : ¬ dir_indirect s dir K := by
    rw [hK]
    exact hplain i1 a1
  have gmap : ∀ b, bmap_by_spec u dir b = bmap_by_spec s dir b := by
    intro b
    apply bmap_by_spec_congr s u dir gdev gzone
    intro key hkey
    apply gbd
    intro hc
    rw [hc] at hkey
    exact hKplain hkey
  have gdb : ∀ i, dir_block u dir i = dir_block s dir i := by
    intro i
    unfold dir_block
    rw [gdev, gmap]
  have hsize : (u.inode_table dir).i_size / 16 ≤ (7 + 512 + 512 * 512) * DIR_ENTRIES_PER_BLOCK ∧
      i1 < (u.inode_table dir).i_size / 16 ∧
      ∀ i, i < (u.inode_table dir).i_size / 16 → i ≠ i1 → i < (s.inode_table dir).i_size / 16 := by
    rw [g1]
    have hcap := hwf.1
    have hbig := hroom.1
    have hi1 : i1 / DIR_ENTRIES_PER_BLOCK ≤ i0 / DIR_ENTRIES_PER_BLOCK := Nat.div_le_div_right a1
    rcases f4 with ⟨a, b⟩ | ⟨a, b⟩
    · rw [b]
      exact ⟨hcap, by omega, fun i hi _ => hi⟩
    · rw [b]
      refine ⟨by unfold DIR_ENTRIES_PER_BLOCK at *; omega, by omega, fun i hi hik => ?_⟩
      have := a2 i (by omega)
      omega
  have hold : ∀ m, m < 64 → m ≠ k →
      de_inode (block_data u K) m = de_inode (block_data s K) m ∧
      ∀ j, j < NAME_LEN → de_name (block_data u K) m j = de_name (block_data s K) m j := by
    intro m hm hmk
    rw [hblock]
    have hb : ∀ x, (16 * m ≤ x ∧ x < 16 * m + 16) →
        put_word (t.buffer K).b_data (8 * k) ino x = block_data s K x := by
      intro x hx
      rw [put_word_other _ _ _ _ (by omega) (by omega), f6 x (by omega), a4]
    refine ⟨?_, fun j hj => ?_⟩
    · unfold de_inode get_word
      rw [hb _ (by omega), hb _ (by omega)]
    · unfold de_name
      unfold NAME_LEN at hj
      rw [hb _ (by omega)]
  have hnew : de_inode (block_data u K) k = ino ∧
      ∀ j, j < NAME_LEN → de_name (block_data u K) k j =
        if j < Lc then (umem (name + j)).val else 0 := by
    rw [hblock]
    refine ⟨get_word_put_word_same _ _ _ hino2, fun j hj => ?_⟩
    have := f10 j hj
    unfold de_name at this ⊢
    unfold NAME_LEN at hj
    rw [put_word_other _ _ _ _ (by omega) (by omega)]
    exact this
  have hwf2 : dir_wf u dir := by
    refine ⟨hsize.1, gread, ?_, ?_⟩
    · intro i hi
      rw [gmap]
      by_cases hik : i = i1
      · rw [hik]
        exact hroom.2.2.1 i1 a1
      · exact hwf.2.2.1 i (hsize.2.2 i hi hik)
    · intro i hi hne j1 j2 h12 hj2
      rw [gdb] at hne ⊢
      by_cases hcase : dir_block s dir i = K ∧ i % DIR_ENTRIES_PER_BLOCK = k
      · rw [hcase.1, hcase.2, hnew.2 j1 (by omega), hnew.2 j2 hj2]
        intro hz1
        by_cases hj1 : j1 < Lc
        · rw [if_pos hj1] at hz1
          exact absurd hz1 (hstr j1 (by rw [hLmin]; exact hj1))
        · rw [if_neg (by omega)]
      · have hik : i ≠ i1 := by
          intro hc
          apply hcase
          rw [hc, hK, hk]
          exact ⟨rfl, rfl⟩
        have hi_s := hsize.2.2 i hi hik
        have hm64 : i % DIR_ENTRIES_PER_BLOCK < 64 := by
          unfold DIR_ENTRIES_PER_BLOCK
          omega
        by_cases hkey : dir_block s dir i = K
        · have hmk : i % DIR_ENTRIES_PER_BLOCK ≠ k := fun hc => hcase ⟨hkey, hc⟩
          rw [hkey] at hne ⊢
          rw [(hold _ hm64 hmk).2 j1 (by omega), (hold _ hm64 hmk).2 j2 hj2]
          rw [(hold _ hm64 hmk).1] at hne
          have := hwf.2.2.2 i hi_s
          rw [hkey] at this
          exact this hne j1 j2 h12 hj2
        · rw [gbd _ hkey] at hne ⊢
          exact hwf.2.2.2 i hi_s hne j1 j2 h12 hj2
  have hdd2 : is_dotdot umem name L →
      some dir ≠ cur.root ∧ (u.inode_table dir).i_num ≠ ROOT_INO := by
    intro hc
    rw [g1, f3]
    exact hdd hc
  obtain ⟨r, w, e1, e2⟩ := find_entry_found_iff cur umem u dir name L fuel hwf2 hL hdd2
  have hfound : r.isSome = true := by
    rw [e2]
    refine ⟨i1, hsize.2.1, ?_⟩
    unfold entry_holds
    rw [gdb, ← hK, ← hk, hLmin, hnew.1]
    exact ⟨by omega, hnew.2⟩
  cases r with
  | none => cases hfound
  | some e => exact ⟨e, w, e1⟩

theorem fs0_dir_block : ∀ i, i < 64 → dir_block fs0 0 i = (0x301, 6) := by
  intro i hi
  unfold dir_block
  rw [show i / DIR_ENTRIES_PER_BLOCK = 0 by unfold DIR_ENTRIES_PER_BLOCK; omega]
  rfl

theorem fs0_dir_wf : dir_wf fs0 0 := by
  have hm : ∀ i, i < 2 → i % DIR_ENTRIES_PER_BLOCK = i := by decide
  refine ⟨by decide, fun _ => Or.inr rfl, ?_, ?_⟩
  · intro i hi
    have hi2 : i < 2 := hi
    rw [show i / DIR_ENTRIES_PER_BLOCK = 0 by unfold DIR_ENTRIES_PER_BLOCK; omega]
    exact ⟨by decide, by decide⟩
  · intro i hi _ j1 j2 h12 hj2
    have hi2 : i < 2 := hi
    rw [fs0_dir_block i (by omega), hm i hi2]
    have hall : ∀ i, i < 2 → ∀ j1, j1 < 14 → ∀ j2, j2 < 14 → j1 ≤ j2 →
        de_name (block_data fs0 (0x301, 6)) i j1 = 0 →
        de_name (block_data fs0 (0x301, 6)) i j2 = 0 := by
      decide
    exact hall i hi2 j1 (by unfold NAME_LEN at hj2; omega) j2 hj2 h12

theorem fs0_dir_room : dir_room fs0 0 2 := by
  refine ⟨by decide, fun _ => Or.inr rfl, ?_, Or.inl (by decide)⟩
  intro j hj
  rw [show j / DIR_ENTRIES_PER_BLOCK = 0 by unfold DIR_ENTRIES_PER_BLOCK; omega]
  exact ⟨by decide, by decide⟩

theorem fs0_dir_plain : ∀ j, j ≤ 2 → ¬ dir_indirect fs0 0 (dir_block fs0 0 j) := by
  intro j hj hc
  rcases hc with ⟨h, -⟩ | ⟨h, -⟩
  · exact h rfl
  · exact h rfl

theorem fs_bare2_dir_wf : dir_wf fs_bare2 0 := by
  have hdb : dir_block fs_bare2 0 0 = (0x301, 6) := by rfl
  refine ⟨by decide, ?_, ?_, ?_⟩
  · intro b
    by_cases hb : b = 6
    · subst hb
      exact Or.inl (by decide)
    · exact Or.inr rfl
  · intro i hi
    have hi1 : i < 1 := hi
    have hi0 : i = 0 := by omega
    subst hi0
    exact ⟨by decide, by decide⟩
  · intro i hi _ j1 j2 h12 hj2
    have hi1 : i < 1 := hi
    have hi0 : i = 0 := by omega
    subst hi0
    rw [hdb]
    have hall : ∀ j1, j1 < 14 → ∀ j2, j2 < 14 → j1 ≤ j2 →
        de_name (block_data fs_bare2 (0x301, 6)) (0 % DIR_ENTRIES_PER_BLOCK) j1 = 0 →
        de_name (block_data fs_bare2 (0x301, 6)) (0 % DIR_ENTRIES_PER_BLOCK) j2 = 0 := by
      decide
    exact hall j1 (by unfold NAME_LEN at hj2; omega) j2 hj2 h12

theorem write_pipe_full_no_reader (s : pipe_state) (buf fuel : Nat) (count written : Int)
    (hs : PIPE_SIZE s.inode = PAGE_SIZE - 1) (hc : s.inode.i_count ≠ 2) (hcount : count > 0) :
    write_pipe_loop (fuel + 1) s buf count written =
      .ok (some (if written ≠ 0 then written else -1),
        { s with signal := s.signal ||| (1 <<< (SIGPIPE - 1)) }) := by
  unfold write_pipe_loop
  rw [if_pos hcount]
  simp only []
  rw [hs, if_pos (by unfold PAGE_SIZE; omega), if_pos hc]

theorem testBit_or_SIGPIPE (x n : Nat) :
    (x ||| (1 <<< (SIGPIPE - 1))).testBit n = (x.testBit n || decide (n = SIGPIPE - 1)) := by
  rw [Nat.testBit_or, Nat.testBit_shiftLeft]
  by_cases h : n = SIGPIPE - 1
  · subst h
    simp
  · have h2 : SIGPIPE - 1 = 12 := rfl
    rw [h2] at h ⊢
    by_cases h3 : 12 ≤ n
    · have : n - 12 ≠ 0 := by omega
      simp [h, Nat.testBit_one_eq_true_iff_self_eq_zero, this]
    · simp [h, h3]

theorem shr1_eq (c : Int) : c >>> (1 : Int) = c / 2 := by
  cases c with
  | ofNat n =>
    have h := Int.shiftRight_coe_nat n 1
    simp only [Nat.cast_one] at h
    show (n : Int) >>> (1 : Int) = _
    rw [h, Nat.shiftRight_one]
    norm_cast
  | negSucc n =>
    have h := Int.shiftRight_negSucc n 1
    simp only [Nat.cast_one] at h
    rw [h, Nat.shiftRight_one]
    rw [Int.negSucc_eq, Int.negSucc_eq]
    have : ((n / 2 : Nat) : Int) = (n : Int) / 2 := by norm_cast
    rw [this]
    omega

theorem schedule_two_scans (jiffies : Int) (task : TaskTable) (fuel : Nat)
    (hinv : ∀ i t, 1 ≤ i → i < NR_TASKS → task i = some t →
      0 < t.priority ∧ t.priority < 2147483648) :
    schedule jiffies task (fuel + 2) =
      if (schedule_scan (schedule_signals jiffies task) (NR_TASKS - 1) (-1) 0).1 ≠ 0 then
        some (schedule_signals jiffies task,
          (schedule_scan (schedule_signals jiffies task) (NR_TASKS - 1) (-1) 0).2)
      else
        some (for_each_task schedule_recount (schedule_signals jiffies task) (NR_TASKS - 1),
          (schedule_scan (for_each_task schedule_recount (schedule_signals jiffies task)
            (NR_TASKS - 1)) (NR_TASKS - 1) (-1) 0).2) := by
  have hN : NR_TASKS = 64 := rfl
  obtain ⟨T1, hT1⟩ : ∃ T1, T1 = schedule_signals jiffies task := ⟨_, rfl⟩
  have hT1i : ∀ i, T1 i = if 1 ≤ i ∧ i ≤ NR_TASKS - 1
      then (task i).map (schedule_wake jiffies) else task i := by
    intro i
    rw [hT1]
    exact for_each_task_spec _ _ _ _
  have hinv1 : ∀ i t, 1 ≤ i → i < NR_TASKS → T1 i = some t →
      0 < t.priority ∧ t.priority < 2147483648 := by
    intro i t h1 h2 ht
    rw [hT1i, if_pos (by omega)] at ht
    cases h0 : task i with
    | none => rw [h0] at ht; exact Option.noConfusion ht
    | some t0 =>
      rw [h0] at ht
      simp only [Option.map_some', Option.some.injEq] at ht
      subst ht
      obtain ⟨-, hk2⟩ := schedule_wake_keeps jiffies t0
      rw [hk2]
      exact hinv i t0 h1 h2 h0
  unfold schedule
  rw [← hT1]
  obtain ⟨r, hr⟩ : ∃ r, r = schedule_scan T1 (NR_TASKS - 1) (-1) 0 := ⟨_, rfl⟩
  rw [← hr]
  have hloop1 : schedule_loop T1 (fuel + 2) =
      if r.1 ≠ 0 then some (T1, r.2)
      else schedule_loop (for_each_task schedule_recount T1 (NR_TASKS - 1)) (fuel + 1) := by
    rw [hr]; rfl
  rw [hloop1]
  by_cases hc : r.1 ≠ 0
  · rw [if_pos hc, if_pos hc]
  · rw [if_neg hc, if_neg hc]
    have hc0 : r.1 = 0 := by simpa using hc
    rcases schedule_scan_spec T1 (NR_TASKS - 1) (-1) 0 with
      ⟨-, heq⟩ | ⟨t, h1, h2, h3, h4, h5, -, -⟩
    · rw [← hr] at heq
      rw [heq] at hc0
      exact absurd hc0 (by decide)
    · rw [← hr] at h1 h2 h3 h5
      obtain ⟨T2, hT2⟩ : ∃ T2, T2 = for_each_task schedule_recount T1 (NR_TASKS - 1) := ⟨_, rfl⟩
      rw [← hT2]
      have hT2i : ∀ i, T2 i = if 1 ≤ i ∧ i ≤ NR_TASKS - 1
          then (T1 i).map schedule_recount else T1 i := by
        intro i
        rw [hT2]
        exact for_each_task_spec _ _ _ _
      obtain ⟨r2, hr2⟩ : ∃ r2, r2 = schedule_scan T2 (NR_TASKS - 1) (-1) 0 := ⟨_, rfl⟩
      rw [← hr2]
      have hloop2 : schedule_loop T2 (fuel + 1) =
          if r2.1 ≠ 0 then some (T2, r2.2)
          else schedule_loop (for_each_task schedule_recount T2 (NR_TASKS - 1)) fuel := by
        rw [hr2]; rfl
      have ht2 : T2 r.2 = some (schedule_recount t) := by
        rw [hT2i, if_pos ⟨h1, h2⟩, h3]; rfl
      obtain ⟨hp1, hp2⟩ := hinv1 r.2 t h1 (by omega) h3
      have htc : (schedule_recount t).counter = t.priority := by
        show wrap_long ((t.counter >>> 1) + t.priority) = t.priority
        rw [h5, hc0]
        have : ((0 : Int) >>> 1) = 0 := rfl
        rw [this, zero_add]
        exact wrap_long_id _ (by omega) hp2
      have hrun2 : (schedule_recount t).state = TASK_RUNNING := h4
      rcases schedule_scan_spec T2 (NR_TASKS - 1) (-1) 0 with
        ⟨hall, -⟩ | ⟨t2, g1, g2, g3, g4, g5, g6, g7⟩
      · have := hall r.2 _ h1 h2 ht2 hrun2
        omega
      · rw [← hr2] at g1 g2 g3 g5 g6 g7
        have hge := (g7 r.2 _ h1 h2 ht2 hrun2).1
        have hc2 : r2.1 ≠ 0 := by omega
        rw [hloop2, if_pos hc2]

theorem schedule_passes (jiffies : Int) (task : TaskTable) (fuel : Nat)
    (hinv : ∀ i t, 1 ≤ i → i < NR_TASKS → task i = some t →
      0 < t.priority ∧ t.priority < 2147483648) :
    ∃ next, schedule jiffies task (fuel + 2) = some (schedule_signals jiffies task, next) ∨
      schedule jiffies task (fuel + 2) =
        some (for_each_task schedule_recount (schedule_signals jiffies task) (NR_TASKS - 1), next) := by
  rw [schedule_two_scans jiffies task fuel hinv]
  by_cases hc : (schedule_scan (schedule_signals jiffies task) (NR_TASKS - 1) (-1) 0).1 ≠ 0
  · rw [if_pos hc]
    exact ⟨_, Or.inl rfl⟩
  · rw [if_neg hc]
    exact ⟨_, Or.inr rfl⟩

theorem schedule_counters (jiffies : Int) (task : TaskTable) (i : Nat) (t : task_struct)
    (h : task i = some t) :
    (∃ t1, schedule_signals jiffies task i = some t1 ∧ t1.counter = t.counter ∧
      t1.priority = t.priority) ∧
    ∃ t2, for_each_task schedule_recount (schedule_signals jiffies task) (NR_TASKS - 1) i
        = some t2 ∧ t2.priority = t.priority ∧
      (t2.counter = t.counter ∨ t2.counter = wrap_long (t.counter / 2 + t.priority)) := by
  have e1 : schedule_signals jiffies task i = if 1 ≤ i ∧ i ≤ NR_TASKS - 1
      then (task i).map (schedule_wake jiffies) else task i := for_each_task_spec _ _ _ _
  have e2 : for_each_task schedule_recount (schedule_signals jiffies task) (NR_TASKS - 1) i
      = if 1 ≤ i ∧ i ≤ NR_TASKS - 1
        then (schedule_signals jiffies task i).map schedule_recount
        else schedule_signals jiffies task i := for_each_task_spec _ _ _ _
  obtain ⟨hk1, hk2⟩ := schedule_wake_keeps jiffies t
  by_cases hi : 1 ≤ i ∧ i ≤ NR_TASKS - 1
  · rw [e2, e1, if_pos hi, if_pos hi, h]
    refine ⟨⟨_, rfl, hk1, hk2⟩, _, rfl, hk2, Or.inr ?_⟩
    show wrap_long (((schedule_wake jiffies t).counter >>> 1) + (schedule_wake jiffies t).priority) = _
    rw [hk1, hk2, shr1_eq]
  · rw [e2, e1, if_neg hi, if_neg hi, h]
    exact ⟨⟨_, rfl, rfl, rfl⟩, _, rfl, rfl, Or.inl rfl⟩

theorem pid_scan_iff (task : TaskTable) (pid : Int) : ∀ (n i : Nat),
    pid_scan task pid i n = true ↔ ∃ j t, i ≤ j ∧ j < i + n ∧ task j = some t ∧ t.pid = pid := by
  intro n
  induction n with
  | zero =>
    intro i
    simp only [pid_scan, Bool.false_eq_true, false_iff]
    rintro ⟨j, t, h1, h2, -⟩
    omega
  | succ n ih =>
    intro i
    unfold pid_scan
    cases ht : task i with
    | none =>
      simp only []
      rw [ih]
      constructor
      · rintro ⟨j, t, h1, h2, h3, h4⟩
        exact ⟨j, t, by omega, by omega, h3, h4⟩
      · rintro ⟨j, t, h1, h2, h3, h4⟩
        have : j ≠ i := by
          rintro rfl
          rw [ht] at h3
          exact Option.noConfusion h3
        exact ⟨j, t, by omega, by omega, h3, h4⟩
    | some u =>
      simp only []
      by_cases hp : u.pid = pid
      · rw [if_pos hp]
        exact ⟨fun _ => ⟨i, u, le_refl _, by omega, ht, hp⟩, fun _ => rfl⟩
      · rw [if_neg hp, ih]
        constructor
        · rintro ⟨j, t, h1, h2, h3, h4⟩
          exact ⟨j, t, by omega, by omega, h3, h4⟩
        · rintro ⟨j, t, h1, h2, h3, h4⟩
          have : j ≠ i := by
            rintro rfl
            rw [ht] at h3
            cases h3
            exact hp h4
          exact ⟨j, t, by omega, by omega, h3, h4⟩

theorem empty_slot_scan_spec (task : TaskTable) : ∀ (n i : Nat),
    (∃ k, empty_slot_scan task i n = some k ∧ i ≤ k ∧ k < i + n ∧ task k = none ∧
      ∀ j, i ≤ j → j < k → task j ≠ none) ∨
    (empty_slot_scan task i n = none ∧ ∀ j, i ≤ j → j < i + n → task j ≠ none) := by
  intro n
  induction n with
  | zero =>
    intro i
    exact Or.inr ⟨rfl, fun j h1 h2 => by omega⟩
  | succ n ih =>
    intro i
    unfold empty_slot_scan
    cases ht : task i with
    | none =>
      exact Or.inl ⟨i, rfl, le_refl _, by omega, ht, fun j h1 h2 => by omega⟩
    | some u =>
      simp only []
      rcases ih (i + 1) with ⟨k, h1, h2, h3, h4, h5⟩ | ⟨h1, h2⟩
      · refine Or.inl ⟨k, h1, by omega, by omega, h4, fun j g1 g2 => ?_⟩
        by_cases hj : j = i
        · subst hj
          rw [ht]
          exact Option.noConfusion
        · exact h5 j (by omega) g2
      · refine Or.inr ⟨h1, fun j g1 g2 => ?_⟩
        by_cases hj : j = i
        · subst hj
          rw [ht]
          exact Option.noConfusion
        · exact h2 j (by omega) (by omega)

theorem next_pid_eq (p : Int) (h1 : 0 ≤ p) (h2 : p < 2147483648) :
    next_pid p = p % 2147483647 + 1 := by
  unfold next_pid wrap_long
  split_ifs <;> omega

theorem next_pid_iterate (p : Int) (h1 : 0 ≤ p) (h2 : p < 2147483648) : ∀ k : Nat,
    next_pid^[k + 1] p = (p + k) % 2147483647 + 1 := by
  intro k
  induction k with
  | zero => simpa using next_pid_eq p h1 h2
  | succ k ih =>
    rw [Function.iterate_succ_apply', ih, next_pid_eq _ (by omega) (by omega)]
    push_cast
    omega

theorem free_pid_exists (task : TaskTable) (p : Int) (h1 : 0 ≤ p) (h2 : p < 2147483648) :
    ∃ k, k < NR_TASKS + 1 ∧ pid_scan task (next_pid^[k + 1] p) 0 NR_TASKS = false := by
  have hN : NR_TASKS = 64 := rfl
  obtain ⟨U, hU⟩ : ∃ U : Finset Int, U = (Finset.range 64).image
      (fun i => match task i with | some t => t.pid | none => 0) := ⟨_, rfl⟩
  obtain ⟨C, hC⟩ : ∃ C : Finset Int, C = (Finset.range 65).image
      (fun k : Nat => next_pid^[k + 1] p) := ⟨_, rfl⟩
  have hcU : U.card ≤ 64 := by
    rw [hU]
    exact (Finset.card_image_le).trans (by simp)
  have hcC : C.card = 65 := by
    rw [hC, Finset.card_image_of_injOn, Finset.card_range]
    intro a ha b hb hab
    simp only [Finset.coe_range, Set.mem_Iio] at ha hb
    simp only [next_pid_iterate p h1 h2] at hab
    omega
  obtain ⟨e, he, hne⟩ : ∃ e, e ∈ C ∧ e ∉ U := by
    by_contra hall
    have hsub : C ⊆ U := by
      intro e he
      by_contra hne
      exact hall ⟨e, he, hne⟩
    have := Finset.card_le_card hsub
    omega
  rw [hC, Finset.mem_image] at he
  obtain ⟨k, hk, rfl⟩ := he
  refine ⟨k, by simpa [hN] using hk, ?_⟩
  by_contra hcon
  have hcon : pid_scan task (next_pid^[k + 1] p) 0 NR_TASKS = true := by
    cases h : pid_scan task (next_pid^[k + 1] p) 0 NR_TASKS
    · exact absurd h hcon
    · rfl
  obtain ⟨j, t, -, g2, g3, g4⟩ := (pid_scan_iff task _ _ _).mp hcon
  apply hne
  rw [hU, Finset.mem_image]
  refine ⟨j, by simpa [hN] using g2, ?_⟩
  simp only [g3]
  exact g4

theorem find_empty_process_loop (task : TaskTable) : ∀ (k fuel : Nat) (p : Int),
    0 ≤ p → p < 2147483648 → k < fuel →
    pid_scan task (next_pid^[k + 1] p) 0 NR_TASKS = false →
    ∃ lp, find_empty_process task fuel p =
        some (match empty_slot_scan task 1 (NR_TASKS - 1) with
          | some i => ((i : Int), lp)
          | none => (-EAGAIN, lp)) ∧
      0 < lp ∧ lp < 2147483648 ∧ pid_scan task lp 0 NR_TASKS = false := by
  intro k
  induction k with
  | zero =>
    intro fuel p h1 h2 hf hfree
    obtain ⟨f, rfl⟩ : ∃ f, fuel = f + 1 := ⟨fuel - 1, by omega⟩
    simp only [zero_add, Function.iterate_one] at hfree
    refine ⟨next_pid p, ?_, ?_, ?_, hfree⟩
    · unfold find_empty_process
      simp only [hfree, Bool.false_eq_true, if_false]
      cases empty_slot_scan task 1 (NR_TASKS - 1) <;> rfl
    · rw [next_pid_eq p h1 h2]; omega
    · rw [next_pid_eq p h1 h2]; omega
  | succ k ih =>
    intro fuel p h1 h2 hf hfree
    obtain ⟨f, rfl⟩ : ∃ f, fuel = f + 1 := ⟨fuel - 1, by omega⟩
    have hn1 : 0 ≤ next_pid p := by rw [next_pid_eq p h1 h2]; omega
    have hn2 : next_pid p < 2147483648 := by rw [next_pid_eq p h1 h2]; omega
    by_cases hs : pid_scan task (next_pid p) 0 NR_TASKS = true
    · rw [Function.iterate_succ_apply] at hfree
      obtain ⟨lp, g1, g2, g3, g4⟩ := ih f (next_pid p) hn1 hn2 (by omega) hfree
      refine ⟨lp, ?_, g2, g3, g4⟩
      rw [← g1]
      conv_lhs => unfold find_empty_process
      simp only [hs, if_true]
    · have hs2 : pid_scan task (next_pid p) 0 NR_TASKS = false := by
        cases h : pid_scan task (next_pid p) 0 NR_TASKS
        · rfl
        · exact absurd h hs
      refine ⟨next_pid p, ?_, ?_, hn2, hs2⟩
      · unfold find_empty_process
        simp only [hs2, Bool.false_eq_true, if_false]
        cases empty_slot_scan task 1 (NR_TASKS - 1) <;> rfl
      · rw [next_pid_eq p h1 h2]; omega

theorem is_queue_congr (rq rq2 : Nat → request) : ∀ (L : List Nat) (head : Option Nat),
    is_queue rq head L → (∀ p, p ∈ L → (rq2 p).next = (rq p).next) → is_queue rq2 head L := by
  intro L
  induction L with
  | nil => intro head h _; exact h
  | cons p L ih =>
    intro head h hf
    obtain ⟨h1, h2⟩ := h
    refine ⟨h1, ?_⟩
    rw [hf p (List.mem_cons_self _ _)]
    exact ih _ h2 (fun q hq => hf q (List.mem_cons_of_mem _ hq))

theorem queue_list_eq (rq : Nat → request) : ∀ (L : List Nat) (head : Option Nat) (n : Nat),
    is_queue rq head L → L.length ≤ n → queue_list rq n head = L := by
  intro L
  induction L with
  | nil =>
    intro head n h _
    have h : head = none := h
    subst h
    cases n <;> rfl
  | cons p L ih =>
    intro head n h hn
    obtain ⟨h1, h2⟩ := h
    subst h1
    obtain ⟨m, rfl⟩ : ∃ m, n = m + 1 := ⟨n - 1, by simp at hn; omega⟩
    unfold queue_list
    rw [ih _ m h2 (by simp at hn; omega)]

theorem elevator_insert_head (rq : Nat → request) (req t : Nat) (L : List Nat) :
    ∃ M, elevator_insert rq req (t :: L) = t :: M := by
  cases L with
  | nil => exact ⟨_, rfl⟩
  | cons n L =>
    unfold elevator_insert
    split_ifs
    · exact ⟨_, rfl⟩
    · exact ⟨_, rfl⟩

theorem elevator_insert_erase (rq : Nat → request) (req : Nat) : ∀ (L : List Nat),
    req ∉ L → (elevator_insert rq req L).erase req = L ∧
      (elevator_insert rq req L).count req = 1 ∧
      ∀ p, p ∈ elevator_insert rq req L ↔ p = req ∨ p ∈ L := by
  intro L
  induction L with
  | nil =>
    intro _
    simp [elevator_insert]
  | cons t L ih =>
    intro hreq
    have ht : t ≠ req := fun h => hreq (by simp [h])
    have hL : req ∉ L := fun h => hreq (List.mem_cons_of_mem _ h)
    cases L with
    | nil =>
      simp [elevator_insert, ht, List.erase_cons]
      intro p
      tauto
    | cons n L =>
      unfold elevator_insert
      split_ifs
      · refine ⟨?_, ?_, ?_⟩
        · rw [List.erase_cons_tail (by simpa using ht), List.erase_cons_head]
        · rw [List.count_cons_of_ne ht.symm, List.count_cons_self, List.count_eq_zero_of_not_mem hL]
        · intro p
          simp only [List.mem_cons]
          tauto
      · obtain ⟨i1, i2, i3⟩ := ih hL
        refine ⟨?_, ?_, ?_⟩
        · rw [List.erase_cons_tail (by simpa using ht), i1]
        · rw [List.count_cons_of_ne ht.symm, i2]
        · intro p
          rw [List.mem_cons, i3 p]
          simp only [List.mem_cons]
          tauto

theorem request_link_facts (rq : Nat → request) (req k : Nat) (hk : k ≠ req) :
    ((Function.update (Function.update rq req { rq req with next := (rq k).next }) k
        { (Function.update rq req { rq req with next := (rq k).next }) k with next := some req }) k).next
      = some req ∧
    ((Function.update (Function.update rq req { rq req with next := (rq k).next }) k
        { (Function.update rq req { rq req with next := (rq k).next }) k with next := some req }) req).next
      = (rq k).next ∧
    ∀ p, p ≠ k → p ≠ req →
      (Function.update (Function.update rq req { rq req with next := (rq k).next }) k
        { (Function.update rq req { rq req with next := (rq k).next }) k with next := some req }) p
      = rq p := by
  refine ⟨?_, ?_, ?_⟩
  · rw [Function.update_same]
  · rw [Function.update_noteq hk.symm, Function.update_same]
  · intro p h1 h2
    rw [Function.update_noteq h1, Function.update_noteq h2]

theorem add_request_scan_spec (rq : Nat → request) (req : Nat) : ∀ (L : List Nat) (t fuel : Nat),
    is_queue rq (some t) (t :: L) → (t :: L).Nodup → req ∉ t :: L → L.length < fuel →
    ∃ k, add_request_scan rq req fuel t = some k ∧ k ∈ t :: L ∧
      is_queue
        (Function.update (Function.update rq req { rq req with next := (rq k).next }) k
          { (Function.update rq req { rq req with next := (rq k).next }) k with next := some req })
        (some t) (elevator_insert rq req (t :: L)) := by
  intro L
  induction L with
  | nil =>
    intro t fuel hq _ hreq hf
    obtain ⟨f, rfl⟩ : ∃ f, fuel = f + 1 := ⟨fuel - 1, by omega⟩
    obtain ⟨-, hq2⟩ := hq
    have hq2 : (rq t).next = none := hq2
    have ht : t ≠ req := fun h => hreq (by simp [h])
    refine ⟨t, ?_, List.mem_cons_self _ _, ?_⟩
    · unfold add_request_scan
      rw [hq2]
    · obtain ⟨f1, f2, -⟩ := request_link_facts rq req t ht
      generalize (Function.update (Function.update rq req { rq req with next := (rq t).next }) t
          { (Function.update rq req { rq req with next := (rq t).next }) t with next := some req })
        = R at f1 f2 ⊢
      exact ⟨rfl, f1, f2.trans hq2⟩
  | cons n L ih =>
    intro t fuel hq hnd hreq hf
    obtain ⟨f, rfl⟩ : ∃ f, fuel = f + 1 := ⟨fuel - 1, by omega⟩
    obtain ⟨-, hq2⟩ := hq
    obtain ⟨hq3, hq4⟩ := hq2
    have hq2 : is_queue rq (some n) (n :: L) := ⟨rfl, hq4⟩
    have ht : t ≠ req := fun h => hreq (by simp [h])
    have htn : t ∉ n :: L := (List.nodup_cons.mp hnd).1
    have hnd2 : (n :: L).Nodup := (List.nodup_cons.mp hnd).2
    have hreq2 : req ∉ n :: L := fun h => hreq (List.mem_cons_of_mem _ h)
    by_cases hc : ((IN_ORDER (rq t) (rq req) || !IN_ORDER (rq t) (rq n)) && IN_ORDER (rq req) (rq n)) = true
    · refine ⟨t, ?_, List.mem_cons_self _ _, ?_⟩
      · unfold add_request_scan
        rw [hq3]
        simp only []
        rw [if_pos hc]
      · unfold elevator_insert
        rw [if_pos hc]
        obtain ⟨f1, f2, f3⟩ := request_link_facts rq req t ht
        generalize (Function.update (Function.update rq req { rq req with next := (rq t).next }) t
            { (Function.update rq req { rq req with next := (rq t).next }) t with next := some req })
          = R at f1 f2 f3 ⊢
        refine ⟨rfl, ?_⟩
        rw [f1]
        refine ⟨rfl, ?_⟩
        rw [f2, hq3]
        apply is_queue_congr rq R (n :: L) _ hq2
        intro p hp
        have h1 : p ≠ t := fun h => htn (h ▸ hp)
        have h2 : p ≠ req := fun h => hreq2 (h ▸ hp)
        rw [f3 p h1 h2]
    · obtain ⟨k, g1, g2, g3⟩ := ih n f hq2 hnd2 hreq2 (by simp at hf; omega)
      refine ⟨k, ?_, List.mem_cons_of_mem _ g2, ?_⟩
      · conv_lhs => unfold add_request_scan
        rw [hq3]
        simp only []
        rw [if_neg hc]
        exact g1
      · have hkt : t ≠ k := fun h => htn (h ▸ g2)
        have hkr : k ≠ req := fun h => hreq2 (h ▸ g2)
        unfold elevator_insert
        rw [if_neg hc]
        obtain ⟨-, -, f3⟩ := request_link_facts rq req k hkr
        generalize (Function.update (Function.update rq req { rq req with next := (rq k).next }) k
            { (Function.update rq req { rq req with next := (rq k).next }) k with next := some req })
          = R at f3 g3 ⊢
        refine ⟨rfl, ?_⟩
        rw [f3 t hkt ht, hq3]
        exact g3

theorem elevator_insert_congr (rq rq2 : Nat → request) (req : Nat)
    (h : ∀ a b, IN_ORDER (rq2 a) (rq2 b) = IN_ORDER (rq a) (rq b)) : ∀ (L : List Nat),
    elevator_insert rq2 req L = elevator_insert rq req L := by
  intro L
  induction L with
  | nil => rfl
  | cons t L ih =>
    cases L with
    | nil => rfl
    | cons n L =>
      unfold elevator_insert
      rw [h, h, h, ih]

theorem IN_ORDER_unlink (rq : Nat → request) (req a b : Nat) :
    IN_ORDER (Function.update rq req { rq req with next := none } a)
      (Function.update rq req { rq req with next := none } b) = IN_ORDER (rq a) (rq b) := by
  have key : ∀ p, (Function.update rq req { rq req with next := none } p).cmd = (rq p).cmd ∧
      (Function.update rq req { rq req with next := none } p).dev = (rq p).dev ∧
      (Function.update rq req { rq req with next := none } p).sector = (rq p).sector := by
    intro p
    by_cases hp : p = req
    · subst hp
      rw [Function.update_same]
      exact ⟨rfl, rfl, rfl⟩
    · rw [Function.update_noteq hp]
      exact ⟨rfl, rfl, rfl⟩
  unfold IN_ORDER
  rw [(key a).1, (key a).2.1, (key a).2.2, (key b).1, (key b).2.1, (key b).2.2]

theorem add_request_queued (s : blk_state) (dev req fuel head : Nat) (L : List Nat)
    (hcur : (s.blk_dev dev).current_request = some head)
    (hq : is_queue s.request (some head) (head :: L)) (hnd : (head :: L).Nodup)
    (hreq : req ∉ head :: L) (hf : L.length < fuel) :
    ∃ t, add_request s dev req fuel = .ok t ∧ t.blk_dev = s.blk_dev ∧ t.called = s.called ∧
      is_queue t.request (some head) (elevator_insert s.request req (head :: L)) ∧
      ∀ p, (t.request p).dev = (s.request p).dev ∧ (t.request p).cmd = (s.request p).cmd ∧
        (t.request p).sector = (s.request p).sector := by
  obtain ⟨rq, hrq⟩ : ∃ rq, rq = Function.update s.request req { s.request req with next := none } :=
    ⟨_, rfl⟩
  have hq1 : is_queue rq (some head) (head :: L) := by
    apply is_queue_congr s.request rq _ _ hq
    intro p hp
    have : p ≠ req := fun h => hreq (h ▸ hp)
    rw [hrq, Function.update_noteq this]
  obtain ⟨k, g1, g2, g3⟩ := add_request_scan_spec rq req L head fuel hq1 hnd hreq hf
  have hkr : k ≠ req := fun h => hreq (h ▸ g2)
  have hins : elevator_insert rq req (head :: L) = elevator_insert s.request req (head :: L) := by
    apply elevator_insert_congr
    intro a b
    rw [hrq]
    exact IN_ORDER_unlink s.request req a b
  rw [hins] at g3
  refine ⟨{ s with request := Function.update (Function.update rq req { rq req with next := (rq k).next }) k { (Function.update rq req { rq req with next := (rq k).next }) k with next := some req }, buffer := match (rq req).bh with | none => s.buffer | some key => Function.update s.buffer key { s.buffer key with b_dirt := 0 } }, ?_, rfl, rfl, g3, ?_⟩
  · unfold add_request
    simp only [hcur]
    rw [← hrq, g1]
  · intro p
    simp only []
    by_cases hpk : p = k
    · subst hpk
      rw [Function.update_same, Function.update_noteq hkr, hrq, Function.update_noteq hkr]
      exact ⟨rfl, rfl, rfl⟩
    · rw [Function.update_noteq hpk]
      by_cases hpr : p = req
      · subst hpr
        rw [Function.update_same, hrq, Function.update_same]
        exact ⟨rfl, rfl, rfl⟩
      · rw [Function.update_noteq hpr, hrq, Function.update_noteq hpr]
        exact ⟨rfl, rfl, rfl⟩

theorem nl_expand_append (l1 l2 : List Byte) :
    nl_expand (l1 ++ l2) = nl_expand l1 ++ nl_expand l2 := by
  induction l1 with
  | nil => rfl
  | cons c l ih =>
    by_cases hc : c = 10
    · simp [nl_expand, hc, ih]
    · simp [nl_expand, hc, ih]

theorem user_bytes_add (umem : Nat → Byte) : ∀ (k1 k2 b : Nat),
    user_bytes umem b (k1 + k2) = user_bytes umem b k1 ++ user_bytes umem (b + k1) k2 := by
  intro k1
  induction k1 with
  | zero =>
    intro k2 b
    simp [user_bytes]
  | succ k ih =>
    intro k2 b
    have : k + 1 + k2 = (k + k2) + 1 := by omega
    rw [this]
    simp only [user_bytes, List.cons_append]
    rw [ih k2 (b + 1)]
    have : b + 1 + k = b + (k + 1) := by omega
    rw [this]

theorem tty_keeps_refl (w : tty_world) : tty_keeps w w := ⟨rfl, rfl, fun _ => rfl⟩

theorem tty_keeps_trans (a b c : tty_world) (h1 : tty_keeps a b) (h2 : tty_keeps b c) :
    tty_keeps a c :=
  ⟨h2.1.trans h1.1, h2.2.1.trans h1.2.1, fun ch => (h2.2.2 ch).trans (h1.2.2 ch)⟩

theorem set_write_q_keeps (w : tty_world) (channel : Nat) (q : tty_queue) :
    tty_keeps w (set_write_q w channel q) := by
  refine ⟨rfl, rfl, fun ch => ?_⟩
  unfold set_write_q
  simp only []
  by_cases h : ch = channel
  · subst h
    rw [Function.update_same]
  · rw [Function.update_noteq h]

theorem tty_suspend_keeps (env : Nat → tty_event) (channel : Nat) (w : tty_world)
    (hq : (env w.clock).others = none) :
    tty_keeps w (tty_suspend env channel w) := by
  obtain ⟨h1, h2, h3⟩ := set_write_q_keeps w channel
    { (w.tty_table channel).write_q with tail := ((w.tty_table channel).write_q.tail + min (env w.clock).drain (CHARS (w.tty_table channel).write_q)) % TTY_BUF_SIZE }
  unfold tty_suspend
  simp only [hq]
  exact ⟨h1, h2, h3⟩

theorem tty_driver_write_keeps (channel : Nat) (w : tty_world) :
    tty_keeps w (tty_driver_write channel w) := by
  unfold tty_driver_write
  split_ifs
  · exact set_write_q_keeps _ _ _
  · exact tty_keeps_refl w

theorem sleep_if_full_loop_keeps (env : Nat → tty_event) (channel : Nat)
    (hq : ∀ k, (env k).others = none) :
    ∀ (fuel : Nat) (w w1 : tty_world), sleep_if_full_loop env channel fuel w = some w1 →
      tty_keeps w w1 := by
  intro fuel
  induction fuel with
  | zero => intro w w1 h; exact Option.noConfusion h
  | succ f ih =>
    intro w w1 h
    unfold sleep_if_full_loop at h
    split_ifs at h
    · exact tty_keeps_trans _ _ _ (tty_suspend_keeps env channel w (hq _)) (ih _ _ h)
    · cases h
      exact tty_keeps_refl w

theorem sleep_if_full_keeps (env : Nat → tty_event) (channel fuel : Nat) (w w1 : tty_world)
    (hq : ∀ k, (env k).others = none)
    (h : sleep_if_full env channel fuel w = some w1) : tty_keeps w w1 := by
  unfold sleep_if_full at h
  split_ifs at h
  · cases h
    exact tty_keeps_refl w
  · exact sleep_if_full_loop_keeps env channel hq fuel w w1 h

theorem tty_write_loop_spec (umem : Nat → Byte) (oflag : Nat)
    (h1 : oflag &&& OPOST ≠ 0) (h2 : oflag &&& ONLCR ≠ 0) (h3 : oflag &&& OCRNL = 0)
    (h4 : oflag &&& ONLRET = 0) (h5 : oflag &&& OLCUC = 0) :
    ∀ (fuel : Nat) (cr : Int) (q : tty_queue) (put : List Byte) (b : Nat) (nr : Int)
      (r : Int × tty_queue × List Byte × Nat × Int) (P : List Byte),
      tty_write_loop umem oflag fuel cr q put b nr = some r →
      (cr = 0 ∨ cr = 1) → (cr = 1 → nr > 0 ∧ umem b = 10) → put = P ++ cr_pending cr →
      ∃ k : Nat, r.2.2.2.1 = b + k ∧ r.2.2.2.2 = nr - k ∧ (0 < nr → (k : Int) ≤ nr) ∧
        (nr ≤ 0 → k = 0) ∧ (r.1 = 0 ∨ r.1 = 1) ∧
        (r.1 = 1 → r.2.2.2.2 > 0 ∧ umem (b + k) = 10) ∧
        r.2.2.1 = P ++ nl_expand (user_bytes umem b k) ++ cr_pending r.1 := by
  intro fuel
  induction fuel with
  | zero => intro cr q put b nr r P h; exact Option.noConfusion h
  | succ f ih =>
    intro cr q put b nr r P h hcr hnl hput
    unfold tty_write_loop at h
    by_cases hgo : nr > 0 ∧ FULL q = false
    · rw [if_pos hgo] at h
      simp only [h1, h3, h4, h5, ne_eq, not_true_eq_false, not_false_eq_true, and_false,
        if_true, if_false] at h
      by_cases hc : umem b = 10 ∧ cr = 0 ∧ ¬ oflag &&& ONLCR = 0
      · rw [if_pos hc] at h
        have hput1 : put ++ [13] = P ++ cr_pending 1 := by
          rw [hput, hc.2.1]
          simp [cr_pending]
        obtain ⟨k, g1, g2, g3, g4, g5, g6, g7⟩ :=
          ih 1 (PUTCH 13 q) (put ++ [13]) b nr r P h (Or.inr rfl) (fun _ => ⟨hgo.1, hc.1⟩) hput1
        exact ⟨k, g1, g2, g3, g4, g5, g6, g7⟩
      · rw [if_neg hc] at h
        have hput1 : put ++ [umem b] = (P ++ nl_expand [umem b]) ++ cr_pending 0 := by
          rcases hcr with hcr | hcr
          · have hne : umem b ≠ 10 := fun hh => hc ⟨hh, hcr, h2⟩
            rw [hput, hcr]
            simp [cr_pending, nl_expand, hne]
          · have he := (hnl hcr).2
            rw [hput, hcr, he]
            simp [cr_pending, nl_expand]
        obtain ⟨k, g1, g2, g3, g4, g5, g6, g7⟩ :=
          ih 0 (PUTCH (umem b) q) (put ++ [umem b]) (b + 1) (nr - 1) r _ h (Or.inl rfl)
            (fun hh => absurd hh (by decide)) hput1
        refine ⟨k + 1, by omega, by omega, fun _ => ?_, fun hh => absurd hh (by omega), g5, ?_, ?_⟩
        · by_cases hn1 : 0 < nr - 1
          · have := g3 hn1
            omega
          · have := g4 (by omega)
            omega
        · intro hh
          have := g6 hh
          have e : b + (k + 1) = b + 1 + k := by omega
          rw [e]
          exact this
        · rw [g7]
          have e : user_bytes umem b (k + 1) = [umem b] ++ user_bytes umem (b + 1) k := rfl
          rw [e, nl_expand_append]
          simp only [List.append_assoc]
    · rw [if_neg hgo] at h
      cases h
      refine ⟨0, rfl, by simp, fun _ => by omega, fun _ => rfl, hcr, ?_, ?_⟩
      · intro hh
        exact hnl hh
      · simp [user_bytes, nl_expand, hput]

theorem tty_write_outer_spec (env : Nat → tty_event) (umem : Nat → Byte) (channel : Nat)
    (hq : ∀ k, (env k).others = none) :
    ∀ (fuel : Nat) (w : tty_world) (b : Nat) (nr : Int) (w' : tty_world) (b' : Nat)
      (P : List Byte),
      tty_write_outer env umem channel fuel w b nr = .ok (w', b') →
      (w.tty_table channel).c_oflag &&& OPOST ≠ 0 → (w.tty_table channel).c_oflag &&& ONLCR ≠ 0 →
      (w.tty_table channel).c_oflag &&& OCRNL = 0 → (w.tty_table channel).c_oflag &&& ONLRET = 0 →
      (w.tty_table channel).c_oflag &&& OLCUC = 0 →
      (w.cr_flag = 0 ∨ w.cr_flag = 1) → (w.cr_flag = 1 → nr > 0 ∧ umem b = 10) →
      w.put channel = P ++ cr_pending w.cr_flag →
      ∃ k : Nat, b' = b + k ∧ (0 < nr → (k : Int) ≤ nr) ∧ (nr ≤ 0 → k = 0) ∧
        (w'.cr_flag = 0 ∨ w'.cr_flag = 1) ∧
        (w'.cr_flag = 1 → (k : Int) < nr ∧ umem (b + k) = 10) ∧
        w'.put channel = P ++ nl_expand (user_bytes umem b k) ++ cr_pending w'.cr_flag ∧
        (∀ ch, ch ≠ channel → w'.put ch = w.put ch) := by
  intro fuel
  induction fuel with
  | zero => intro w b nr w' b' P h; exact Outcome.noConfusion h
  | succ f ih =>
    intro w b nr w' b' P h h1 h2 h3 h4 h5 hcr hnl hput
    unfold tty_write_outer at h
    by_cases hnr : nr > 0
    · rw [if_pos hnr] at h
      cases hs : sleep_if_full env channel f w with
      | none => rw [hs] at h; exact Outcome.noConfusion h
      | some w1 =>
        rw [hs] at h
        simp only [] at h
        obtain ⟨k1, k2, k3⟩ := sleep_if_full_keeps env channel f w w1 hq hs
        by_cases hsig : w1.signal ≠ 0
        · rw [if_pos hsig] at h
          cases h
          refine ⟨0, rfl, fun _ => by omega, fun _ => rfl, by rw [k1]; exact hcr, ?_, ?_, ?_⟩
          · intro hh
            rw [k1] at hh
            exact ⟨by simpa using hnr, (hnl hh).2⟩
          · rw [k1, k2, hput]
            simp [user_bytes, nl_expand]
          · intro ch _
            rw [k2]
        · rw [if_neg hsig] at h
          cases hl : tty_write_loop umem (w1.tty_table channel).c_oflag TTY_BUF_SIZE w1.cr_flag
              (w1.tty_table channel).write_q (w1.put channel) b nr with
          | none => rw [hl] at h; exact Outcome.noConfusion h
          | some r =>
            rw [hl] at h
            simp only [] at h
            rw [k3 channel, k1, k2] at hl
            obtain ⟨j, g1, g2, g3, g4, g5, g6, g7⟩ :=
              tty_write_loop_spec umem _ h1 h2 h3 h4 h5 _ _ _ _ _ _ r P hl hcr hnl hput
            obtain ⟨W2, hW2⟩ : ∃ W2, W2 = { set_write_q w1 channel r.2.1 with cr_flag := r.1, put := Function.update w1.put channel r.2.2.1 } := ⟨_, rfl⟩
            rw [← hW2] at h
            have hW2c : W2.cr_flag = r.1 := by rw [hW2]
            have hW2p : W2.put = Function.update w1.put channel r.2.2.1 := by rw [hW2]
            have hW2o : ∀ ch, (W2.tty_table ch).c_oflag = (w.tty_table ch).c_oflag := by
              intro ch
              rw [hW2, ← k3 ch]
              exact (set_write_q_keeps w1 channel r.2.1).2.2 ch
            obtain ⟨W4, hW4⟩ : ∃ W4, W4 = (if r.2.2.2.2 > 0
                then tty_suspend env channel (tty_driver_write channel W2)
                else tty_driver_write channel W2) := ⟨_, rfl⟩
            rw [← hW4] at h
            have hk4 : tty_keeps W2 W4 := by
              rw [hW4]
              split_ifs
              · exact tty_keeps_trans _ _ _ (tty_driver_write_keeps channel W2)
                  (tty_suspend_keeps env channel _ (hq _))
              · exact tty_driver_write_keeps channel W2
            obtain ⟨m1, m2, m3⟩ := hk4
            have hput4 : W4.put channel
                = (P ++ nl_expand (user_bytes umem b j)) ++ cr_pending W4.cr_flag := by
              rw [m2, hW2p, Function.update_same, m1, hW2c, g7]
            obtain ⟨i, e1, e2, e3, e4, e5, e6, e7⟩ := ih W4 _ _ w' b' _ h
              (by rw [m3, hW2o]; exact h1) (by rw [m3, hW2o]; exact h2)
              (by rw [m3, hW2o]; exact h3) (by rw [m3, hW2o]; exact h4)
              (by rw [m3, hW2o]; exact h5) (by rw [m1, hW2c]; exact g5)
              (by
                intro hh
                rw [m1, hW2c] at hh
                have := g6 hh
                rw [g1]
                exact this) hput4
            have hj := g3 hnr
            refine ⟨j + i, by rw [e1, g1]; omega, fun _ => ?_, fun hh => absurd hh (by omega),
              e4, ?_, ?_, ?_⟩
            · by_cases hn1 : 0 < r.2.2.2.2
              · have := e2 hn1
                push_cast
                omega
              · have := e3 (by omega)
                push_cast
                omega
            · intro hh
              obtain ⟨q1, q2⟩ := e5 hh
              rw [g1] at q2
              refine ⟨by push_cast; omega, ?_⟩
              have e : b + (j + i) = b + j + i := by omega
              rw [e]
              exact q2
            · rw [e6, user_bytes_add, nl_expand_append, g1]
              simp only [List.append_assoc]
            · intro ch hch
              rw [e7 ch hch, m2, hW2p, Function.update_noteq hch, k2]
    · rw [if_neg hnr] at h
      cases h
      refine ⟨0, rfl, fun hh => absurd hh hnr, fun _ => rfl, hcr, ?_, ?_, fun _ _ => rfl⟩
      · intro hh
        exact absurd (hnl hh).1 hnr
      · rw [hput]
        simp [user_bytes, nl_expand]

theorem LEFT_PUTCH (c : Byte) (q : tty_queue) (h : 1 ≤ LEFT q) :
    LEFT (PUTCH c q) = LEFT q - 1 := by
  unfold LEFT PUTCH INC TTY_BUF_SIZE at *
  simp only []
  push_cast
  omega

theorem tty_write_loop_returns (umem : Nat → Byte) (oflag : Nat) :
    ∀ (fuel : Nat) (cr : Int) (q : tty_queue) (put : List Byte) (b : Nat) (nr : Int),
      (cr = 0 ∨ cr = 1) → 0 ≤ nr → (cr = 1 → 0 < nr) → 2 * nr - cr ≤ (LEFT q : Int) →
      2 * nr - cr < (fuel : Int) →
      ∃ r, tty_write_loop umem oflag fuel cr q put b nr = some r ∧ r.2.2.2.2 = 0 := by
  intro fuel
  induction fuel with
  | zero =>
    intro cr q put b nr hcr h0 h1 h2 h3
    exfalso
    rcases hcr with hcr | hcr
    · omega
    · have := h1 hcr
      omega
  | succ f ih =>
    intro cr q put b nr hcr h0 h1 h2 h3
    unfold tty_write_loop
    by_cases hnr : nr > 0
    · have hL : 1 ≤ LEFT q := by
        rcases hcr with hcr | hcr <;> omega
      have hfull : FULL q = false := by
        unfold FULL
        simp only [decide_eq_false_iff_not]
        omega
      rw [if_pos ⟨hnr, hfull⟩]
      have hA : ∀ (c : Byte) (p2 : List Byte), cr = 0 →
          ∃ r, tty_write_loop umem oflag f 1 (PUTCH c q) p2 b nr = some r ∧ r.2.2.2.2 = 0 := by
        intro c p2 hc0
        apply ih 1 _ _ _ _ (Or.inr rfl) h0 (fun _ => hnr)
        · rw [LEFT_PUTCH c q hL]
          omega
        · push_cast at h3
          omega
      have hB : ∀ (c : Byte) (p2 : List Byte),
          ∃ r, tty_write_loop umem oflag f 0 (PUTCH c q) p2 (b + 1) (nr - 1) = some r ∧
            r.2.2.2.2 = 0 := by
        intro c p2
        apply ih 0 _ _ _ _ (Or.inl rfl) (by omega) (fun hh => absurd hh (by decide))
        · rw [LEFT_PUTCH c q hL]
          rcases hcr with hcr | hcr <;> omega
        · push_cast at h3
          rcases hcr with hcr | hcr <;> omega
      simp only []
      split_ifs with c1 c2 c3 c4 c5 c6
      all_goals first
        | exact hB _ _
        | exact hA _ _ (by tauto)
    · have : ¬ (nr > 0 ∧ FULL q = false) := fun hh => hnr hh.1
      rw [if_neg this]
      exact ⟨_, rfl, by simp only []; omega⟩

theorem tty_write_returns (env : Nat → tty_event) (umem : Nat → Byte) (w : tty_world)
    (channel buf : Nat) (nr : Int) (fuel : Nat) (hch : channel ≤ 2) (hnr : 0 ≤ nr)
    (hsig : w.signal = 0) (hcr : w.cr_flag = 0)
    (hroom : 2 * nr ≤ (LEFT (w.tty_table channel).write_q : Int)) (hf : 2 ≤ fuel)
    (h1 : (w.tty_table channel).c_oflag &&& OPOST ≠ 0)
    (h2 : (w.tty_table channel).c_oflag &&& ONLCR ≠ 0)
    (h3 : (w.tty_table channel).c_oflag &&& OCRNL = 0)
    (h4 : (w.tty_table channel).c_oflag &&& ONLRET = 0)
    (h5 : (w.tty_table channel).c_oflag &&& OLCUC = 0) :
    ∃ w', tty_write env umem w channel buf nr fuel = .ok (nr, w') := by
  obtain ⟨f, rfl⟩ : ∃ f, fuel = f + 2 := ⟨fuel - 2, by omega⟩
  have hLlt : LEFT (w.tty_table channel).write_q < 1024 := by
    unfold LEFT TTY_BUF_SIZE
    omega
  unfold tty_write
  rw [if_neg (by omega)]
  unfold tty_write_outer
  by_cases hpos : nr > 0
  · rw [if_pos hpos]
    have hfull : FULL (w.tty_table channel).write_q = false := by
      unfold FULL
      simp only [decide_eq_false_iff_not]
      omega
    have hs : sleep_if_full env channel (f + 1) w = some w := by
      unfold sleep_if_full
      rw [if_pos hfull]
    rw [hs]
    simp only []
    rw [if_neg (not_not.mpr hsig)]
    obtain ⟨r, hr, hr0⟩ := tty_write_loop_returns umem (w.tty_table channel).c_oflag TTY_BUF_SIZE
      w.cr_flag (w.tty_table channel).write_q (w.put channel) buf nr (Or.inl hcr) hnr
      (fun hh => hpos) (by rw [hcr]; omega) (by rw [hcr]; unfold TTY_BUF_SIZE; omega)
    obtain ⟨j, g1, g2, g3, -⟩ := tty_write_loop_spec umem _ h1 h2 h3 h4 h5 _ _ _ _ _ _ r
      (w.put channel) hr (Or.inl hcr) (fun hh => absurd hh (by rw [hcr]; decide))
      (by rw [hcr]; simp [cr_pending])
    rw [hr]
    simp only []
    rw [hr0, if_neg (by decide)]
    unfold tty_write_outer
    rw [if_neg (by decide)]
    simp only []
    have hb : ((r.2.2.2.1 : Nat) : Int) - (buf : Int) = nr := by
      rw [g1]
      push_cast
      omega
    rw [hb]
    exact ⟨_, rfl⟩
  · rw [if_neg hpos]
    simp only []
    have hb : (buf : Int) - (buf : Int) = nr := by omega
    rw [hb]
    exact ⟨_, rfl⟩

theorem free_frames_zero (mm : Nat → Byte) : ∀ n, (∀ j, j < n → mm j ≠ 0) →
    free_frames mm n = 0 := by
  intro n
  induction n with
  | zero => intro _; rfl
  | succ n ih =>
    intro h
    unfold free_frames
    rw [ih (fun j hj => h j (by omega)), if_neg (h n (by omega))]

theorem free_frames_update (mm : Nat → Byte) (k : Nat) : ∀ n, k < n → mm k = 0 →
    free_frames (Function.update mm k 1) n + 1 = free_frames mm n := by
  intro n
  induction n with
  | zero => intro h; omega
  | succ n ih =>
    intro hk h0
    unfold free_frames
    by_cases hkn : k = n
    · subst hkn
      rw [Function.update_same, if_neg (by decide), if_pos h0]
      have : ∀ m, m ≤ k → free_frames (Function.update mm k 1) m = free_frames mm m := by
        intro m
        induction m with
        | zero => intro _; rfl
        | succ m ihm =>
          intro hm
          unfold free_frames
          rw [ihm (by omega), Function.update_noteq (by omega)]
      rw [this k (le_refl _)]
    · rw [Function.update_noteq (Ne.symm hkn)]
      have := ih (by omega) h0
      omega

theorem zero_pages_update (page : Nat → Nat) (i v : Nat) (hv : v ≠ 0) : ∀ n, i < n → page i = 0 →
    zero_pages (Function.update page i v) n + 1 = zero_pages page n := by
  intro n
  induction n with
  | zero => intro h; omega
  | succ n ih =>
    intro hk h0
    unfold zero_pages
    by_cases hkn : i = n
    · subst hkn
      rw [Function.update_same, if_neg hv, if_pos h0]
      have : ∀ m, m ≤ i → zero_pages (Function.update page i v) m = zero_pages page m := by
        intro m
        induction m with
        | zero => intro _; rfl
        | succ m ihm =>
          intro hm
          unfold zero_pages
          rw [ihm (by omega), Function.update_noteq (by omega)]
      rw [this i (le_refl _)]
    · rw [Function.update_noteq (Ne.symm hkn)]
      have := ih (by omega) h0
      omega

theorem arg_store_wf (st : arg_pages) (a : Nat) (c : Byte) (h : arg_wf st) :
    arg_wf (arg_store st a c) := h

theorem get_free_page_arg (st : arg_pages) (i : Nat) (hi : i < MAX_ARG_PAGES) (h : arg_wf st)
    (h0 : st.page i = 0) :
    ∃ k, k < PAGING_PAGES ∧ st.mm.mem_map k = 0 ∧
      (get_free_page st.mm).1 = LOW_MEM + 4096 * k ∧
      (get_free_page st.mm).2.mem_map = Function.update st.mm.mem_map k 1 ∧
      (get_free_page st.mm).2.mem = stosl st.mm.mem (LOW_MEM + 4096 * k + 4092) 1024 ∧
      arg_wf { mm := (get_free_page st.mm).2, page := Function.update st.page i (get_free_page st.mm).1 } := by
  obtain ⟨w1, w2, w3⟩ := h
  have hz : 1 ≤ zero_pages st.page MAX_ARG_PAGES := by
    have := zero_pages_update st.page i 1 (by decide) MAX_ARG_PAGES hi h0
    omega
  have hne : (get_free_page st.mm).1 ≠ 0 := by
    intro h1
    have := (get_free_page_eq_zero st.mm h1).2
    have := free_frames_zero st.mm.mem_map PAGING_PAGES this
    omega
  obtain ⟨k, k1, k2, -, k4, k5, k6, -, -⟩ := get_free_page_ne_zero st.mm hne
  refine ⟨k, k1, k2, k4, k5, k6, ?_, ?_, ?_⟩
  · intro j hj hpj
    simp only [] at hpj ⊢
    by_cases hji : j = i
    · subst hji
      rw [Function.update_same, k5]
      exact ⟨k, k1, k4, by rw [Function.update_same]; decide⟩
    · rw [Function.update_noteq hji] at hpj ⊢
      obtain ⟨k', a1, a2, a3⟩ := w1 j hj hpj
      refine ⟨k', a1, a2, ?_⟩
      rw [k5]
      by_cases hkk : k' = k
      · subst hkk
        exact absurd k2 a3
      · rw [Function.update_noteq hkk]
        exact a3
  · intro a b ha hb hpa hab
    simp only [] at hpa hab
    by_cases hai : a = i
    · by_cases hbi : b = i
      · rw [hai, hbi]
      · exfalso
        rw [hai, Function.update_same, Function.update_noteq hbi, k4] at hab
        have hpb : st.page b ≠ 0 := by rw [← hab]; unfold LOW_MEM; omega
        obtain ⟨k', a1, a2, a3⟩ := w1 b hb hpb
        rw [a2] at hab
        have : k' = k := by omega
        subst this
        exact a3 k2
    · rw [Function.update_noteq hai] at hpa hab
      by_cases hbi : b = i
      · exfalso
        rw [hbi, Function.update_same, k4] at hab
        obtain ⟨k', a1, a2, a3⟩ := w1 a ha hpa
        rw [a2] at hab
        have : k' = k := by omega
        subst this
        exact a3 k2
      · rw [Function.update_noteq hbi] at hab
        exact w2 a b ha hb hpa hab
  · simp only []
    rw [k5]
    have e1 := free_frames_update st.mm.mem_map k PAGING_PAGES k1 k2
    have e2 := zero_pages_update st.page i (get_free_page st.mm).1 hne MAX_ARG_PAGES hi h0
    omega

theorem arg_frame_other (st : arg_pages) (h : arg_wf st) (a b : Nat)
    (ha : a < PAGE_SIZE * MAX_ARG_PAGES) (hb : b < PAGE_SIZE * MAX_ARG_PAGES)
    (hpa : st.page (a / PAGE_SIZE) ≠ 0) (hpb : st.page (b / PAGE_SIZE) ≠ 0) (hab : a ≠ b) :
    st.page (a / PAGE_SIZE) + a % PAGE_SIZE ≠ st.page (b / PAGE_SIZE) + b % PAGE_SIZE := by
  obtain ⟨w1, w2, -⟩ := h
  have hP : PAGE_SIZE = 4096 := rfl
  have hM : MAX_ARG_PAGES = 32 := rfl
  rw [hP, hM] at ha hb
  rw [hP] at hpa hpb ⊢
  have hia : a / 4096 < MAX_ARG_PAGES := by rw [hM]; omega
  have hib : b / 4096 < MAX_ARG_PAGES := by rw [hM]; omega
  obtain ⟨ka, -, ea, -⟩ := w1 _ hia hpa
  obtain ⟨kb, -, eb, -⟩ := w1 _ hib hpb
  intro heq
  have hk : ka = kb := by
    rw [ea, eb] at heq
    omega
  have hpg : st.page (a / 4096) = st.page (b / 4096) := by rw [ea, eb, hk]
  have hi := w2 _ _ hia hib hpa hpg
  rw [hpg] at heq
  omega

theorem arg_store_spec (st : arg_pages) (h : arg_wf st) (q : Nat) (c : Byte)
    (hq : q < PAGE_SIZE * MAX_ARG_PAGES) (hp : st.page (q / PAGE_SIZE) ≠ 0) :
    arg_byte (arg_store st (st.page (q / PAGE_SIZE) + q % PAGE_SIZE) c) q = c ∧
    ∀ a, a < PAGE_SIZE * MAX_ARG_PAGES → a ≠ q → st.page (a / PAGE_SIZE) ≠ 0 →
      arg_byte (arg_store st (st.page (q / PAGE_SIZE) + q % PAGE_SIZE) c) a = arg_byte st a := by
  constructor
  · unfold arg_byte arg_store
    simp only [Function.update_same]
  · intro a ha hne hpa
    unfold arg_byte arg_store
    simp only []
    rw [Function.update_noteq (arg_frame_other st h a q ha hq hpa hp hne)]

theorem copy_string_step (str : Nat → Byte) (len : Nat) (st : arg_pages) (p tmp : Nat)
    (offset : Int) (pag : Nat) (hp1 : 1 ≤ p) (hp2 : p ≤ PAGE_SIZE * MAX_ARG_PAGES)
    (hw : arg_wf st) (hs : arg_sync st p offset pag) :
    ∃ st1, copy_string_bytes str (len + 1) st p tmp offset pag =
        copy_string_bytes str len
          (arg_store st1 (st1.page ((p - 1) / PAGE_SIZE) + (p - 1) % PAGE_SIZE) (str (tmp - 1)))
          (p - 1) (tmp - 1) ((((p - 1) % PAGE_SIZE : Nat) : Int)) (st1.page ((p - 1) / PAGE_SIZE)) ∧
      arg_wf st1 ∧ st1.page ((p - 1) / PAGE_SIZE) ≠ 0 ∧
      (∀ i, i < MAX_ARG_PAGES → st.page i ≠ 0 → st1.page i = st.page i) ∧
      (∀ a, a < PAGE_SIZE * MAX_ARG_PAGES → st.page (a / PAGE_SIZE) ≠ 0 →
        arg_byte st1 a = arg_byte st a) := by
  have hP : PAGE_SIZE = 4096 := rfl
  have hM : MAX_ARG_PAGES = 32 := rfl
  have hsub : sub32 p 1 = p - 1 := by
    unfold sub32
    rw [hP, hM] at hp2
    omega
  have hidx : ¬ ((p - 1) / PAGE_SIZE ≥ MAX_ARG_PAGES) := by
    rw [hP, hM] at hp2 ⊢
    omega
  have hto : ((((p - 1) % PAGE_SIZE : Nat) : Int)).toNat = (p - 1) % PAGE_SIZE := Int.toNat_ofNat _
  by_cases hoff : offset - 1 < 0
  · -- the page is looked up
    by_cases hpg : st.page ((p - 1) / PAGE_SIZE) ≠ 0
    · refine ⟨st, ?_, hw, hpg, fun _ _ _ => rfl, fun _ _ _ => rfl⟩
      conv_lhs => unfold copy_string_bytes
      simp only [hsub]
      rw [if_pos hoff, if_neg hidx, if_pos hpg, hto]
    · have hpg0 : st.page ((p - 1) / PAGE_SIZE) = 0 := not_not.mp hpg
      obtain ⟨k, k1, k2, k4, k5, k6, k7⟩ :=
        get_free_page_arg st ((p - 1) / PAGE_SIZE) (by omega) hw hpg0
      have hne : (get_free_page st.mm).1 ≠ 0 := by rw [k4]; unfold LOW_MEM; omega
      refine ⟨{ mm := (get_free_page st.mm).2, page := Function.update st.page ((p - 1) / PAGE_SIZE) (get_free_page st.mm).1 }, ?_, k7, ?_, ?_, ?_⟩
      · conv_lhs => unfold copy_string_bytes
        simp only [hsub]
        rw [if_pos hoff, if_neg hidx, if_neg hpg, if_neg hne, hto]
        simp only [Function.update_same]
      · simp only [Function.update_same]
        exact hne
      · intro i _ hi
        have : i ≠ (p - 1) / PAGE_SIZE := fun h => hi (h ▸ hpg0)
        simp only []
        rw [Function.update_noteq this]
      · intro a ha hpa
        have hia : a / PAGE_SIZE ≠ (p - 1) / PAGE_SIZE := fun h => hpa (h ▸ hpg0)
        unfold arg_byte
        simp only []
        rw [Function.update_noteq hia, k6]
        obtain ⟨w1, -, -⟩ := hw
        obtain ⟨k', a1, a2, a3⟩ := w1 (a / PAGE_SIZE) (by rw [hP, hM] at ha ⊢; omega) hpa
        have hkk : k' ≠ k := fun h => a3 (h ▸ k2)
        rw [a2]
        apply (stosl_spec 1024 st.mm.mem (LOW_MEM + 4096 * k + 4092) (by omega)).2
        have : a % PAGE_SIZE < 4096 := by rw [hP]; omega
        omega
  · -- the page of the byte before is still the one
    rcases hs with hs | ⟨hs1, hs2, hs3⟩
    · exfalso
      rw [hs] at hoff
      exact hoff (by decide)
    · have hmod : 1 ≤ p % PAGE_SIZE := by
        rw [hs1] at hoff
        omega
      have hdiv : (p - 1) / PAGE_SIZE = p / PAGE_SIZE := by
        rw [hP] at hmod ⊢
        omega
      have hmod2 : (p - 1) % PAGE_SIZE = p % PAGE_SIZE - 1 := by
        rw [hP] at hmod ⊢
        omega
      have hoff2 : offset - 1 = (((p - 1) % PAGE_SIZE : Nat) : Int) := by
        rw [hs1, hmod2]
        omega
      refine ⟨st, ?_, hw, by rw [hdiv, ← hs2]; exact hs3, fun _ _ _ => rfl, fun _ _ _ => rfl⟩
      conv_lhs => unfold copy_string_bytes
      simp only [hsub]
      rw [if_neg hoff, hoff2, hto, hdiv, ← hs2]

theorem copy_string_bytes_spec (str : Nat → Byte) : ∀ (len : Nat) (st : arg_pages) (p tmp : Nat)
    (offset : Int) (pag : Nat),
    len ≤ p → p ≤ PAGE_SIZE * MAX_ARG_PAGES → arg_wf st → arg_sync st p offset pag →
    ∃ st' offset' pag',
      copy_string_bytes str len st p tmp offset pag = .ok (st', some (p - len, offset', pag')) ∧
      arg_wf st' ∧ arg_sync st' (p - len) offset' pag' ∧
      (∀ a, p - len ≤ a → a < p →
        arg_byte st' a = str (tmp - (p - a)) ∧ st'.page (a / PAGE_SIZE) ≠ 0) ∧
      (∀ a, a < PAGE_SIZE * MAX_ARG_PAGES → p ≤ a → st.page (a / PAGE_SIZE) ≠ 0 →
        arg_byte st' a = arg_byte st a) ∧
      (∀ i, i < MAX_ARG_PAGES → st.page i ≠ 0 → st'.page i = st.page i) := by
  intro len
  induction len with
  | zero =>
    intro st p tmp offset pag _ _ hw hs
    refine ⟨st, offset, pag, rfl, hw, hs, fun a h1 h2 => by omega, fun _ _ _ _ => rfl,
      fun _ _ _ => rfl⟩
  | succ len ih =>
    intro st p tmp offset pag hlen hp hw hs
    have hP : PAGE_SIZE = 4096 := rfl
    have hM : MAX_ARG_PAGES = 32 := rfl
    obtain ⟨st1, e1, w1, q1, f1, g1⟩ :=
      copy_string_step str len st p tmp offset pag (by omega) hp hw hs
    have hq : p - 1 < PAGE_SIZE * MAX_ARG_PAGES := by omega
    obtain ⟨b1, b2⟩ := arg_store_spec st1 w1 (p - 1) (str (tmp - 1)) hq q1
    obtain ⟨st2, hst2⟩ : ∃ st2, st2 = arg_store st1
        (st1.page ((p - 1) / PAGE_SIZE) + (p - 1) % PAGE_SIZE) (str (tmp - 1)) := ⟨_, rfl⟩
    rw [← hst2] at e1 b1 b2
    have hpage2 : st2.page = st1.page := by rw [hst2]; rfl
    have w2 : arg_wf st2 := by rw [hst2]; exact arg_store_wf _ _ _ w1
    have hs2 : arg_sync st2 (p - 1) ((((p - 1) % PAGE_SIZE : Nat) : Int))
        (st1.page ((p - 1) / PAGE_SIZE)) := Or.inr ⟨rfl, by rw [hpage2], q1⟩
    obtain ⟨st', offset', pag', i1, i2, i3, i4, i5, i6⟩ :=
      ih st2 (p - 1) (tmp - 1) _ _ (by omega) (by omega) w2 hs2
    have hpl : p - 1 - len = p - (len + 1) := by omega
    rw [hpl] at i1 i3 i4
    refine ⟨st', offset', pag', e1.trans i1, i2, i3, ?_, ?_, ?_⟩
    · intro a h1 h2
      by_cases ha : a = p - 1
      · subst ha
        have hpg : st2.page ((p - 1) / PAGE_SIZE) ≠ 0 := by rw [hpage2]; exact q1
        refine ⟨?_, ?_⟩
        · rw [i5 (p - 1) hq (le_refl _) hpg, b1]
          congr 1
          omega
        · rw [i6 _ (by rw [hP, hM] at hq ⊢; omega) hpg]
          exact hpg
      · obtain ⟨j1, j2⟩ := i4 a h1 (by omega)
        refine ⟨?_, j2⟩
        rw [j1]
        congr 1
        omega
    · intro a ha hpa hpg
      have hpg1 : st1.page (a / PAGE_SIZE) ≠ 0 := by
        rw [f1 _ (by rw [hP, hM] at ha ⊢; omega) hpg]
        exact hpg
      rw [i5 a ha (by omega) (by rw [hpage2]; exact hpg1), b2 a ha (by omega) hpg1, g1 a ha hpg]
    · intro i hi hpg
      have hpg1 : st1.page i ≠ 0 := by rw [f1 i hi hpg]; exact hpg
      rw [i6 i hi (by rw [hpage2]; exact hpg1), hpage2, f1 i hi hpg]

theorem copy_string_bytes_wraps (str : Nat → Byte) : ∀ (len : Nat) (st : arg_pages) (p tmp : Nat)
    (offset : Int) (pag : Nat),
    p < len → p ≤ PAGE_SIZE * MAX_ARG_PAGES → arg_wf st → arg_sync st p offset pag →
    copy_string_bytes str len st p tmp offset pag = .outside 1048575 := by
  intro len
  induction len with
  | zero => intro st p tmp offset pag h; omega
  | succ len ih =>
    intro st p tmp offset pag hlen hp hw hs
    have hP : PAGE_SIZE = 4096 := rfl
    have hM : MAX_ARG_PAGES = 32 := rfl
    by_cases hp0 : p = 0
    · subst hp0
      have hoff : offset - 1 < 0 := by
        rcases hs with hs | ⟨hs, -, -⟩
        · rw [hs]; decide
        · rw [hs]; decide
      unfold copy_string_bytes
      have hsub : sub32 0 1 = 4294967295 := by decide
      simp only [hsub]
      rw [if_pos hoff, if_pos (by decide)]
      rfl
    · obtain ⟨st1, e1, w1, q1, -, -⟩ :=
        copy_string_step str len st p tmp offset pag (by omega) hp hw hs
      rw [e1]
      apply ih _ _ _ _ _ (by omega) (by omega) (arg_store_wf _ _ _ w1)
      exact Or.inr ⟨rfl, rfl, q1⟩

theorem strlen_loop_spec (str : Nat → Byte) : ∀ (n fuel tmp len : Nat),
    (∀ j, j < n → str (tmp + j) ≠ 0) → str (tmp + n) = 0 → n < fuel →
    strlen_loop str fuel tmp len = some (len + n + 1, tmp + n + 1) := by
  intro n
  induction n with
  | zero =>
    intro fuel tmp len _ h0 hf
    obtain ⟨f, rfl⟩ : ∃ f, fuel = f + 1 := ⟨fuel - 1, by omega⟩
    have h0' : str tmp = 0 := h0
    unfold strlen_loop
    rw [if_neg (not_not.mpr h0')]
  | succ n ih =>
    intro fuel tmp len hne h0 hf
    obtain ⟨f, rfl⟩ : ∃ f, fuel = f + 1 := ⟨fuel - 1, by omega⟩
    have hne0 : str tmp ≠ 0 := hne 0 (by omega)
    unfold strlen_loop
    rw [if_pos hne0, ih f (tmp + 1) (len + 1)
      (fun j hj => by have := hne (j + 1) (by omega); rwa [show tmp + 1 + j = tmp + (j + 1) by omega])
      (by rwa [show tmp + 1 + n = tmp + (n + 1) by omega]) (by omega)]
    congr 2 <;> omega

theorem free_frames_ge (mm : Nat → Byte) (a m : Nat) (h : ∀ j, a ≤ j → j < a + m → mm j = 0) :
    ∀ n, a + m ≤ n → m ≤ free_frames mm n := by
  intro n
  induction n with
  | zero => intro h1; omega
  | succ n ih =>
    intro h1
    unfold free_frames
    by_cases h2 : a + m ≤ n
    · have := ih h2
      omega
    · have h3 : a + m = n + 1 := by omega
      by_cases hm : m = 0
      · omega
      · rw [if_pos (h n (by omega) (by omega))]
        have hind : ∀ k, k ≤ m → a + k ≤ n + 1 → k ≤ free_frames mm (a + k) := by
          intro k
          induction k with
          | zero => intro _ _; omega
          | succ k ihk =>
            intro hk1 hk2
            have := ihk (by omega) (by omega)
            have e : a + (k + 1) = (a + k) + 1 := by omega
            rw [e]
            unfold free_frames
            rw [if_pos (h (a + k) (by omega) (by omega))]
            omega
        have := hind (m - 1) (by omega) (by omega)
        have e : a + (m - 1) = n := by omega
        rw [e] at this
        omega

theorem zero_pages_le (page : Nat → Nat) : ∀ n, zero_pages page n ≤ n := by
  intro n
  induction n with
  | zero => exact Nat.le_refl _
  | succ n ih =>
    unfold zero_pages
    split_ifs <;> omega

theorem copy_strings_one_wraps (useg kseg : Nat → Byte) (argv p n fuel : Nat) (st : arg_pages)
    (hp0 : p ≠ 0) (hp : p ≤ PAGE_SIZE * MAX_ARG_PAGES) (hptr : get_long useg argv ≠ 0)
    (hstr : ∀ j, j < n → useg (get_long useg argv + j) ≠ 0)
    (hnul : useg (get_long useg argv + n) = 0) (hlen : p < n + 1) (hf : n < fuel)
    (hw : arg_wf st) :
    copy_strings useg kseg 1 argv st p 0 fuel = .outside 1048575 := by
  unfold copy_strings
  rw [if_neg hp0]
  have h1 : (1 : Int).toNat = 1 := rfl
  rw [h1]
  unfold copy_strings_loop
  simp only [Nat.mul_zero, Nat.add_zero]
  have e1 : (if (0 : Nat) = 1 ∨ (0 : Nat) = 2 then kseg else useg) = useg := if_neg (by decide)
  have e2 : (if (0 : Nat) = 2 then kseg else useg) = useg := if_neg (by decide)
  rw [e1, e2, if_neg hptr, strlen_loop_spec useg n fuel _ 0 hstr hnul hf]
  show (if ((sub32 p (0 + n + 1) : Nat) : Int) < 0 then _ else _) = _
  rw [if_neg (by omega)]
  rw [copy_string_bytes_wraps useg _ st p _ 0 0 (by omega) hp hw (Or.inl rfl)]

theorem do_execve_pass_aout (cur : fs_current) (useg : Nat → Byte) (filename argv envp : Nat)
    (st : exec_state) (fuel : Nat) (bh : Nat × Nat) (s2 : Fs)
    (h1 : S_ISREG (st.s.inode_table st.inode).i_mode = true)
    (h2 : ¬ ((if cur.euid = (st.s.inode_table st.inode).i_uid
          then (st.s.inode_table st.inode).i_mode >>> 6
          else if cur.egid = (st.s.inode_table st.inode).i_gid
            then (st.s.inode_table st.inode).i_mode >>> 3
            else (st.s.inode_table st.inode).i_mode) &&& 1 = 0 ∧
        ¬ ((st.s.inode_table st.inode).i_mode &&& 0o111 ≠ 0 ∧ suser cur = true)))
    (h3 : bread st.s (st.s.inode_table st.inode).i_dev
        ((st.s.inode_table st.inode).i_zone 0) = (some bh, s2))
    (h4 : ¬ ((s2.buffer bh).b_data 0 = 35 ∧ (s2.buffer bh).b_data 1 = 33 ∧ st.sh_bang = 0)) :
    do_execve_pass cur useg filename argv envp st fuel =
      exec_aout useg argv envp { st with s := brelse s2 (some bh) }
        (get_exec (s2.buffer bh).b_data)
        (if (st.s.inode_table st.inode).i_mode &&& S_ISUID ≠ 0
          then (st.s.inode_table st.inode).i_uid else cur.euid)
        (if (st.s.inode_table st.inode).i_mode &&& S_ISGID ≠ 0
          then (st.s.inode_table st.inode).i_gid else cur.egid) fuel := by
  unfold do_execve_pass
  simp only []
  rw [if_neg (by rw [h1]; decide), if_neg h2]
  rw [h3]
  simp only []
  rw [if_neg h4]

theorem exec_aout_copy (useg : Nat → Byte) (argv envp : Nat) (st : exec_state) (ex : exec)
    (e_uid e_gid fuel : Nat)
    (h5 : ¬ (N_MAGIC ex ≠ ZMAGIC ∨ ex.a_trsize ≠ 0 ∨ ex.a_drsize ≠ 0 ∨
      (ex.a_text + ex.a_data + ex.a_bss) % 4294967296 > 0x3000000 ∨
      (st.s.inode_table st.inode).i_size
        < (ex.a_text + ex.a_data + ex.a_syms + N_TXTOFF ex) % 4294967296))
    (h6 : N_TXTOFF ex = BLOCK_SIZE) (h7 : st.sh_bang = 0) :
    exec_aout useg argv envp st ex e_uid e_gid fuel =
      Exec.bind (exec_copy useg useg st.envc envp st.s st.page st.p 0 fuel) fun r =>
      Exec.bind (exec_copy useg useg st.argc argv r.1 r.2.1 r.2.2 0 fuel) fun r =>
      if r.2.2 = 0 then exec_error2 r.1 r.2.1 st.inode (-ENOMEM) fuel
      else .ok (.load { st with s := r.1, page := r.2.1, p := r.2.2 } ex e_uid e_gid) := by
  unfold exec_aout
  rw [if_neg h5, if_neg (not_not.mpr h6), if_pos h7]

theorem do_execve_first_pass (cur : fs_current) (useg : Nat → Byte) (s s1 : Fs)
    (cs filename argv envp fuel inode : Nat) (argc envc : Int)
    (hcs : 0xffff &&& cs = 0x000f)
    (hn : namei cur useg s filename fuel = .ok (some inode, s1))
    (ha : count useg argv fuel = some argc) (he : count useg envp fuel = some envc) :
    do_execve cur useg s cs filename argv envp fuel =
      do_execve_passes cur useg filename argv envp fuel 3
        { s := s1, page := fun _ => 0, inode := inode, argc := argc, envc := envc, sh_bang := 0, p := PAGE_SIZE * MAX_ARG_PAGES - 4 } := by
  unfold do_execve
  rw [if_neg (not_not.mpr hcs), hn, ha, he]
  rfl

theorem exec_copy_none (useg kseg : Nat → Byte) (argv : Nat) (s : Fs) (page : Nat → Nat)
    (p from_kmem fuel : Nat) (hp : p ≠ 0) :
    exec_copy useg kseg 0 argv s page p from_kmem fuel = .ok (s, page, p) := by
  unfold exec_copy copy_strings
  rw [if_neg hp]
  rfl

theorem exec_copy_outside (useg kseg : Nat → Byte) (argc : Int) (argv : Nat) (s : Fs)
    (page : Nat → Nat) (p from_kmem fuel i : Nat)
    (h : copy_strings useg kseg argc argv { mm := s.mm, page := page } p from_kmem fuel
      = .outside i) :
    exec_copy useg kseg argc argv s page p from_kmem fuel = .outside i := by
  unfold exec_copy
  rw [h]
  rfl

theorem exec_aout_outside (useg : Nat → Byte) (argv envp : Nat) (st : exec_state) (ex : exec)
    (e_uid e_gid fuel i : Nat) (s1 : Fs) (page1 : Nat → Nat) (p1 : Nat)
    (h5 : ¬ (N_MAGIC ex ≠ ZMAGIC ∨ ex.a_trsize ≠ 0 ∨ ex.a_drsize ≠ 0 ∨
      (ex.a_text + ex.a_data + ex.a_bss) % 4294967296 > 0x3000000 ∨
      (st.s.inode_table st.inode).i_size
        < (ex.a_text + ex.a_data + ex.a_syms + N_TXTOFF ex) % 4294967296))
    (h6 : N_TXTOFF ex = BLOCK_SIZE) (h7 : st.sh_bang = 0)
    (h8 : exec_copy useg useg st.envc envp st.s st.page st.p 0 fuel = .ok (s1, page1, p1))
    (h9 : exec_copy useg useg st.argc argv s1 page1 p1 0 fuel = .outside i) :
    exec_aout useg argv envp st ex e_uid e_gid fuel = .outside i := by
  rw [exec_aout_copy useg argv envp st ex e_uid e_gid fuel h5 h6 h7, h8]
  show Exec.bind (exec_copy useg useg st.argc argv s1 page1 p1 0 fuel) _ = _
  rw [h9]
  rfl

theorem do_execve_passes_outside (cur : fs_current) (useg : Nat → Byte)
    (filename argv envp fuel n i : Nat) (st : exec_state)
    (h : do_execve_pass cur useg filename argv envp st fuel = .outside i) :
    do_execve_passes cur useg filename argv envp fuel (n + 1) st = .outside i := by
  unfold do_execve_passes
  rw [h]
  rfl

theorem user_bytes_length (f : Nat → Byte) : ∀ (n a : Nat), (user_bytes f a n).length = n := by
  intro n
  induction n with
  | zero => intro a; rfl
  | succ n ih => intro a; simp [user_bytes, ih]

theorem user_bytes_congr (f g : Nat → Byte) : ∀ (n a b : Nat),
    (∀ j, j < n → f (a + j) = g (b + j)) → user_bytes f a n = user_bytes g b n := by
  intro n
  induction n with
  | zero => intro a b _; rfl
  | succ n ih =>
    intro a b h
    unfold user_bytes
    rw [ih (a + 1) (b + 1) (fun j hj => by
      have := h (j + 1) (by omega)
      rwa [show a + 1 + j = a + (j + 1) by omega, show b + 1 + j = b + (j + 1) by omega])]
    have := h 0 (by omega)
    rw [Nat.add_zero, Nat.add_zero] at this
    rw [this]

theorem argv_bytes_length (pseg seg : Nat → Byte) (argv : Nat) (len : Nat → Nat) :
    ∀ (k i : Nat), (argv_bytes pseg seg argv len k i).length = argv_size len k i := by
  intro k
  induction k with
  | zero => intro i; rfl
  | succ k ih =>
    intro i
    simp only [argv_bytes, argv_size, List.length_append, user_bytes_length, ih]

theorem argv_bytes_snoc (pseg seg : Nat → Byte) (argv : Nat) (len : Nat → Nat) :
    ∀ (k i : Nat), argv_bytes pseg seg argv len (k + 1) i =
      argv_bytes pseg seg argv len k i ++
        user_bytes seg (get_long pseg (argv + 4 * (i + k))) (len (i + k) + 1) := by
  intro k
  induction k with
  | zero =>
    intro i
    simp [argv_bytes]
  | succ k ih =>
    intro i
    conv_lhs => unfold argv_bytes
    rw [ih (i + 1)]
    conv_rhs => unfold argv_bytes
    rw [List.append_assoc]
    have e : i + 1 + k = i + (k + 1) := by omega
    rw [e]

theorem argv_size_snoc (len : Nat → Nat) : ∀ (k i : Nat),
    argv_size len (k + 1) i = argv_size len k i + (len (i + k) + 1) := by
  intro k
  induction k with
  | zero => intro i; simp [argv_size]
  | succ k ih =>
    intro i
    conv_lhs => unfold argv_size
    rw [ih (i + 1)]
    conv_rhs => unfold argv_size
    have e : i + 1 + k = i + (k + 1) := by omega
    rw [e]
    omega

theorem copy_one_string (seg : Nat → Byte) (st : arg_pages) (p a n top : Nat) (offset : Int)
    (pag : Nat) (hw : arg_wf st) (hs : arg_sync st p offset pag) (hal : arg_alloc st p top)
    (htop : top ≤ PAGE_SIZE * MAX_ARG_PAGES) (hp : p ≤ top) (hn : n + 1 ≤ p) :
    ∃ st' offset' pag',
      copy_string_bytes seg (n + 1) st p (a + n + 1) offset pag
        = .ok (st', some (p - (n + 1), offset', pag')) ∧
      arg_wf st' ∧ arg_sync st' (p - (n + 1)) offset' pag' ∧ arg_alloc st' (p - (n + 1)) top ∧
      user_bytes (arg_byte st') (p - (n + 1)) (top - (p - (n + 1)))
        = user_bytes seg a (n + 1) ++ user_bytes (arg_byte st) p (top - p) := by
  have hP : PAGE_SIZE = 4096 := rfl
  have hM : MAX_ARG_PAGES = 32 := rfl
  obtain ⟨st', offset', pag', h1, h2, h3, h4, h5, h6⟩ :=
    copy_string_bytes_spec seg (n + 1) st p (a + n + 1) offset pag hn (by omega) hw hs
  refine ⟨st', offset', pag', h1, h2, h3, ?_, ?_⟩
  · intro x hx1 hx2
    by_cases hxp : x < p
    · exact (h4 x hx1 hxp).2
    · have := hal x (by omega) hx2
      rw [h6 _ (by rw [hP, hM] at htop ⊢; omega) this]
      exact this
  · have e : top - (p - (n + 1)) = (n + 1) + (top - p) := by omega
    rw [e, user_bytes_add]
    congr 1
    · apply user_bytes_congr
      intro j hj
      rw [(h4 (p - (n + 1) + j) (by omega) (by omega)).1]
      congr 1
      omega
    · have e2 : p - (n + 1) + (n + 1) = p := by omega
      rw [e2]
      apply user_bytes_congr
      intro j hj
      exact h5 (p + j) (by omega) (by omega) (hal (p + j) (by omega) (by omega))

theorem copy_strings_loop_spec (useg kseg pseg seg : Nat → Byte) (from_kmem fuel argv top : Nat)
    (len : Nat → Nat)
    (hps : (if from_kmem = 1 ∨ from_kmem = 2 then kseg else useg) = pseg)
    (hss : (if from_kmem = 2 then kseg else useg) = seg)
    (htop : top ≤ PAGE_SIZE * MAX_ARG_PAGES) :
    ∀ (k : Nat) (st : arg_pages) (p : Nat) (offset : Int) (pag : Nat),
      (∀ i, i < k → get_long pseg (argv + 4 * i) ≠ 0 ∧
        is_cstr seg (get_long pseg (argv + 4 * i)) (len i) ∧ len i < fuel) →
      arg_wf st → arg_sync st p offset pag → arg_alloc st p top → p ≤ top →
      argv_size len k 0 ≤ p →
      ∃ st', copy_strings_loop useg kseg from_kmem fuel k argv st p offset pag
          = .ok (st', p - argv_size len k 0) ∧
        arg_wf st' ∧ arg_alloc st' (p - argv_size len k 0) top ∧
        user_bytes (arg_byte st') (p - argv_size len k 0) (top - (p - argv_size len k 0))
          = argv_bytes pseg seg argv len k 0 ++ user_bytes (arg_byte st) p (top - p) := by
  intro k
  induction k with
  | zero =>
    intro st p offset pag _ hw _ hal _ _
    exact ⟨st, rfl, hw, hal, rfl⟩
  | succ k ih =>
    intro st p offset pag hstr hw hs hal hp hsize
    obtain ⟨g1, g2, g3⟩ := hstr k (by omega)
    rw [argv_size_snoc, Nat.zero_add] at hsize ⊢
    obtain ⟨st1, off1, pag1, c1, c2, c3, c4, c5⟩ :=
      copy_one_string seg st p (get_long pseg (argv + 4 * k)) (len k) top offset pag hw hs hal
        htop hp (by omega)
    obtain ⟨st', i1, i2, i3, i4⟩ := ih st1 (p - (len k + 1)) off1 pag1
      (fun i hi => hstr i (by omega)) c2 c3 c4 (by omega) (by omega)
    have e : p - (len k + 1) - argv_size len k 0 = p - (argv_size len k 0 + (len k + 1)) := by
      omega
    rw [e] at i1 i3 i4
    refine ⟨st', ?_, i2, i3, ?_⟩
    · conv_lhs => unfold copy_strings_loop
      rw [hps, hss, if_neg g1, strlen_loop_spec seg (len k) fuel _ 0 g2.1 g2.2 g3]
      show (if ((sub32 p (0 + len k + 1) : Nat) : Int) < 0 then _ else _) = _
      rw [if_neg (by omega)]
      have e2 : 0 + len k + 1 = len k + 1 := by omega
      rw [e2, c1]
      exact i1
    · rw [i4, c5, argv_bytes_snoc, Nat.zero_add, List.append_assoc]

theorem copy_strings_spec (useg kseg pseg seg : Nat → Byte) (from_kmem fuel argv top : Nat)
    (len : Nat → Nat) (k : Nat) (st : arg_pages) (p : Nat)
    (hps : (if from_kmem = 1 ∨ from_kmem = 2 then kseg else useg) = pseg)
    (hss : (if from_kmem = 2 then kseg else useg) = seg)
    (htop : top ≤ PAGE_SIZE * MAX_ARG_PAGES)
    (hstr : ∀ i, i < k → get_long pseg (argv + 4 * i) ≠ 0 ∧
      is_cstr seg (get_long pseg (argv + 4 * i)) (len i) ∧ len i < fuel)
    (hw : arg_wf st) (hal : arg_alloc st p top) (hp : p ≤ top) (hsize : argv_size len k 0 < p) :
    ∃ st', copy_strings useg kseg (k : Int) argv st p from_kmem fuel
        = .ok (st', p - argv_size len k 0) ∧
      arg_wf st' ∧ arg_alloc st' (p - argv_size len k 0) top ∧
      user_bytes (arg_byte st') (p - argv_size len k 0) (top - (p - argv_size len k 0))
        = argv_bytes pseg seg argv len k 0 ++ user_bytes (arg_byte st) p (top - p) := by
  unfold copy_strings
  rw [if_neg (by omega), Int.toNat_ofNat]
  exact copy_strings_loop_spec useg kseg pseg seg from_kmem fuel argv top len hps hss htop k st p
    0 0 hstr hw (Or.inl rfl) hal hp (by omega)

theorem first_nul_le (src : Nat → Byte) : ∀ (n i : Nat), i ≤ first_nul src n i := by
  intro n
  induction n with
  | zero => intro i; exact Nat.le_refl i
  | succ n ih =>
    intro i
    unfold first_nul
    by_cases h : src i = 0
    · rw [if_pos h]
    · rw [if_neg h]
      exact Nat.le_of_succ_le (ih (i + 1))

theorem first_nul_ge (src : Nat → Byte) : ∀ (m n i : Nat), m ≤ n →
    (∀ j, j < m → src (i + j) ≠ 0) → i + m ≤ first_nul src n i := by
  intro m
  induction m with
  | zero => intro n i _ _; exact first_nul_le src n i
  | succ m ih =>
    intro n i hn h
    obtain ⟨n, rfl⟩ : ∃ n', n = n' + 1 := ⟨n - 1, by omega⟩
    unfold first_nul
    have h0 := h 0 (by omega)
    rw [Nat.add_zero] at h0
    rw [if_neg h0]
    have := ih n (i + 1) (by omega) (fun j hj => by
      have := h (j + 1) (by omega)
      rwa [show i + 1 + j = i + (j + 1) by omega])
    omega

theorem strchr_spec (buf : Nat → Byte) (c : Byte) : ∀ (m fuel i : Nat), m < fuel →
    (∀ j, j < m → buf (i + j) ≠ c ∧ buf (i + j) ≠ 0) → buf (i + m) = c →
    strchr buf c fuel i = some (i + m) := by
  intro m
  induction m with
  | zero =>
    intro fuel i hf _ hc
    obtain ⟨fuel, rfl⟩ : ∃ f, fuel = f + 1 := ⟨fuel - 1, by omega⟩
    rw [Nat.add_zero] at hc
    unfold strchr
    rw [if_pos hc]
    rfl
  | succ m ih =>
    intro fuel i hf h hc
    obtain ⟨fuel, rfl⟩ : ∃ f, fuel = f + 1 := ⟨fuel - 1, by omega⟩
    unfold strchr
    have h0 := h 0 (by omega)
    rw [Nat.add_zero] at h0
    rw [if_neg h0.1, if_neg h0.2, ih fuel (i + 1) (by omega) (fun j hj => by
      have := h (j + 1) (by omega)
      rwa [show i + 1 + j = i + (j + 1) by omega]) (by
      rwa [show i + 1 + m = i + (m + 1) by omega])]
    rw [show i + 1 + m = i + (m + 1) by omega]

theorem skip_blanks_spec (buf : Nat → Byte) : ∀ (m fuel i : Nat), m < fuel →
    (∀ j, j < m → buf (i + j) = 32 ∨ buf (i + j) = 9) →
    ¬ (buf (i + m) = 32 ∨ buf (i + m) = 9) → skip_blanks buf fuel i = i + m := by
  intro m
  induction m with
  | zero =>
    intro fuel i hf _ hc
    obtain ⟨fuel, rfl⟩ : ∃ f, fuel = f + 1 := ⟨fuel - 1, by omega⟩
    rw [Nat.add_zero] at hc
    unfold skip_blanks
    rw [if_neg hc]
    rfl
  | succ m ih =>
    intro fuel i hf h hc
    obtain ⟨fuel, rfl⟩ : ∃ f, fuel = f + 1 := ⟨fuel - 1, by omega⟩
    unfold skip_blanks
    have h0 := h 0 (by omega)
    rw [Nat.add_zero] at h0
    rw [if_pos h0, ih fuel (i + 1) (by omega) (fun j hj => by
      have := h (j + 1) (by omega)
      rwa [show i + 1 + j = i + (j + 1) by omega]) (by
      rwa [show i + 1 + m = i + (m + 1) by omega])]
    omega

theorem scan_interp_spec (buf : Nat → Byte) (K : Nat) : ∀ (m fuel i nm : Nat), m < fuel →
    (∀ j, j < m → buf (i + j) ≠ 0 ∧ buf (i + j) ≠ 32 ∧ buf (i + j) ≠ 9) →
    ¬ (buf (i + m) ≠ 0 ∧ buf (i + m) ≠ 32 ∧ buf (i + m) ≠ 9) →
    ((K = nm ∧ ∀ j, j < m → buf (i + j) ≠ 47) ∨
      (∃ s, i ≤ s ∧ s < i + m ∧ buf s = 47 ∧ K = s + 1 ∧
        ∀ j, s < j → j < i + m → buf j ≠ 47)) →
    scan_interp buf fuel i nm = (i + m, K) := by
  intro m
  induction m with
  | zero =>
    intro fuel i nm hf _ hc hk
    obtain ⟨fuel, rfl⟩ : ∃ f, fuel = f + 1 := ⟨fuel - 1, by omega⟩
    rw [Nat.add_zero] at hc
    unfold scan_interp
    rw [if_neg hc]
    rcases hk with ⟨hk, _⟩ | ⟨s, h1, h2, _⟩
    · rw [hk]; rfl
    · omega
  | succ m ih =>
    intro fuel i nm hf h hc hk
    obtain ⟨fuel, rfl⟩ : ∃ f, fuel = f + 1 := ⟨fuel - 1, by omega⟩
    unfold scan_interp
    have h0 := h 0 (by omega)
    rw [Nat.add_zero] at h0
    rw [if_pos h0]
    rw [ih fuel (i + 1) _ (by omega) (fun j hj => by
      have := h (j + 1) (by omega)
      rwa [show i + 1 + j = i + (j + 1) by omega]) (by
      rwa [show i + 1 + m = i + (m + 1) by omega])]
    · rw [show i + 1 + m = i + (m + 1) by omega]
    · rcases hk with ⟨hk, hno⟩ | ⟨s, h1, h2, h3, h4, h5⟩
      · left
        have := hno 0 (by omega)
        rw [Nat.add_zero] at this
        rw [if_neg this]
        refine ⟨hk, fun j hj => ?_⟩
        have := hno (j + 1) (by omega)
        rwa [show i + 1 + j = i + (j + 1) by omega]
      · by_cases hs : s = i
        · left
          subst hs
          rw [if_pos h3]
          refine ⟨h4, fun j hj => ?_⟩
          exact h5 (s + 1 + j) (by omega) (by omega)
        · right
          exact ⟨s, by omega, by omega, h3, h4, fun j hj1 hj2 => h5 j hj1 (by omega)⟩

theorem script_buf1 (d : Nat → Byte) (b n e : Nat) (hl : script_line d b n e) (j : Nat)
    (hj : j ≤ e) :
    Function.update (strncpy (fun k => d (k + 2)) 1022) 1022 0 j = d (2 + j) := by
  obtain ⟨_, _, he, hnz, hnl, _⟩ := hl
  rw [Function.update_noteq (by omega)]
  unfold strncpy
  have hge := first_nul_ge (fun k => d (k + 2)) (e + 1) 1022 0 (by omega) (fun i hi => by
    show d (0 + i + 2) ≠ 0
    rw [show 0 + i + 2 = 2 + i by omega]
    by_cases h : i < e
    · exact (hnz i h).1
    · have : i = e := by omega
      rw [this, hnl]
      decide)
  rw [if_pos (by omega)]
  show d (j + 2) = d (2 + j)
  rw [Nat.add_comm]

theorem script_buf2 (d : Nat → Byte) (b n e : Nat) (hl : script_line d b n e) (j : Nat)
    (hj : j < e) :
    Function.update (Function.update (strncpy (fun k => d (k + 2)) 1022) 1022 0) e 0 j
      = d (2 + j) := by
  rw [Function.update_noteq (by omega)]
  exact script_buf1 d b n e hl j (by omega)

theorem script_strchr (d : Nat → Byte) (b n e : Nat) (hl : script_line d b n e) :
    strchr (Function.update (strncpy (fun k => d (k + 2)) 1022) 1022 0) 10 1023 0 = some e := by
  have h := strchr_spec (Function.update (strncpy (fun k => d (k + 2)) 1022) 1022 0) 10 e 1023 0
    (by have := hl.2.2.1; omega) (fun j hj => by
      rw [Nat.zero_add, script_buf1 d b n e hl j (by omega)]
      exact ⟨(hl.2.2.2.1 j hj).2, (hl.2.2.2.1 j hj).1⟩) (by
      rw [Nat.zero_add, script_buf1 d b n e hl e (Nat.le_refl e)]
      exact hl.2.2.2.2.1)
  rw [h, Nat.zero_add]

theorem script_skip_blanks (d : Nat → Byte) (b n e : Nat) (hl : script_line d b n e) :
    skip_blanks (Function.update (Function.update (strncpy (fun k => d (k + 2)) 1022) 1022 0) e 0)
      1023 0 = b := by
  obtain ⟨h0, h1, he, hnz, hnl, hb, hn, hbn, hP, hA⟩ := id hl
  have h := skip_blanks_spec
    (Function.update (Function.update (strncpy (fun k => d (k + 2)) 1022) 1022 0) e 0) b 1023 0
    (by omega) (fun j hj => by
      rw [Nat.zero_add, script_buf2 d b n e hl j (by omega)]
      exact hb j hj) (by
      rw [Nat.zero_add, script_buf2 d b n e hl b (by omega)]
      have := hP 0 (by omega)
      rw [Nat.add_zero] at this
      exact fun h => h.elim this.1 this.2)
  rw [h, Nat.zero_add]

theorem script_scan_interp (d : Nat → Byte) (b n e k : Nat) (hl : script_line d b n e)
    (hk : name_offset d (2 + b) n k) :
    scan_interp (Function.update (Function.update (strncpy (fun k => d (k + 2)) 1022) 1022 0) e 0)
      1023 b b = (b + n, b + k) := by
  obtain ⟨h0, h1, he, hnz, hnl, hb, hn, hbn, hP, hA⟩ := id hl
  obtain ⟨hk1, hk2, hk3⟩ := hk
  apply scan_interp_spec _ (b + k) n 1023 b b (by omega)
  · intro j hj
    rw [script_buf2 d b n e hl (b + j) (by omega), ← Nat.add_assoc]
    have h3 := (hnz (b + j) (by omega)).1
    rw [← Nat.add_assoc] at h3
    exact ⟨h3, (hP j hj).1, (hP j hj).2⟩
  · intro h
    by_cases hlt : b + n < e
    · rw [script_buf2 d b n e hl (b + n) hlt, ← Nat.add_assoc] at h
      exact (hA hlt).elim h.2.1 h.2.2
    · have : b + n = e := by omega
      rw [this, Function.update_same] at h
      exact h.1 rfl
  · by_cases hz : k = 0
    · left
      subst hz
      refine ⟨rfl, fun j hj => ?_⟩
      rw [script_buf2 d b n e hl (b + j) (by omega), ← Nat.add_assoc]
      have := hk3 j (by omega)
      rwa [Nat.add_zero] at this
    · right
      refine ⟨b + (k - 1), by omega, by omega, ?_, by omega, fun j hj1 hj2 => ?_⟩
      · rw [script_buf2 d b n e hl (b + (k - 1)) (by omega), ← Nat.add_assoc]
        exact hk2 (by omega)
      · rw [script_buf2 d b n e hl j (by omega)]
        have := hk3 (j - (b + k)) (by omega)
        rwa [show 2 + b + k + (j - (b + k)) = 2 + j by omega] at this

theorem script_buf_nonzero (d : Nat → Byte) (b n e : Nat) (hl : script_line d b n e) :
    Function.update (Function.update (strncpy (fun k => d (k + 2)) 1022) 1022 0) e 0 (b + n) ≠ 0
      ↔ b + n < e := by
  obtain ⟨h0, h1, he, hnz, hnl, hb, hn, hbn, hP, hA⟩ := id hl
  constructor
  · intro h
    by_contra hlt
    have : b + n = e := by omega
    rw [this, Function.update_same] at h
    exact h rfl
  · intro hlt
    rw [script_buf2 d b n e hl (b + n) hlt]
    exact (hnz (b + n) hlt).1

theorem script_buf_spec (d : Nat → Byte) (b n e : Nat) (hl : script_line d b n e) :
    (∀ j, j < e → j ≠ b + n → script_buf d e (b + n) j = d (2 + j)) ∧
    script_buf d e (b + n) e = 0 ∧ script_buf d e (b + n) (b + n) = 0 := by
  have hbn : b + n ≤ e := hl.2.2.2.2.2.2.2.1
  have hnz := script_buf_nonzero d b n e hl
  by_cases hlt : b + n < e
  · have e1 : script_buf d e (b + n) = Function.update
        (Function.update (Function.update (strncpy (fun k => d (k + 2)) 1022) 1022 0) e 0)
        (b + n) 0 := if_pos (hnz.2 hlt)
    rw [e1]
    refine ⟨fun j hj hne => ?_, ?_, ?_⟩
    · rw [Function.update_noteq hne]
      exact script_buf2 d b n e hl j hj
    · rw [Function.update_noteq (by omega), Function.update_same]
    · rw [Function.update_same]
  · have e1 : script_buf d e (b + n) =
        Function.update (Function.update (strncpy (fun k => d (k + 2)) 1022) 1022 0) e 0 :=
      if_neg (fun h => hlt (hnz.1 h))
    rw [e1]
    have e2 : b + n = e := by omega
    refine ⟨fun j hj hne => script_buf2 d b n e hl j hj, ?_, ?_⟩
    · rw [Function.update_same]
    · rw [e2, Function.update_same]

theorem exec_frame_buf (filename i_arg i_name : Nat) (buf : Nat → Byte) (j : Nat) :
    exec_frame filename i_arg i_name buf (EXEC_BUF + j) = buf j := by
  unfold exec_frame
  rw [if_pos (Nat.le_add_right _ _), Nat.add_sub_cancel_left]

theorem exec_frame_long (filename i_arg i_name : Nat) (buf : Nat → Byte) (a : Nat) (ha : a + 4 ≤ 16) :
    get_long (exec_frame filename i_arg i_name buf) a
      = get_long (put_long (put_long (put_long (fun _ => 0) 4 filename) 8 i_arg) 12 i_name) a := by
  apply get_long_congr
  intro i hi
  unfold exec_frame
  rw [if_neg (by unfold EXEC_BUF; omega)]

theorem exec_frame_pointers (filename i_arg i_name : Nat) (buf : Nat → Byte)
    (h1 : filename < 4294967296) (h2 : i_arg < 4294967296) (h3 : i_name < 4294967296) :
    get_long (exec_frame filename i_arg i_name buf) 4 = filename ∧
    get_long (exec_frame filename i_arg i_name buf) 8 = i_arg ∧
    get_long (exec_frame filename i_arg i_name buf) 12 = i_name := by
  refine ⟨?_, ?_, ?_⟩
  · rw [exec_frame_long _ _ _ _ 4 (by omega), get_put_long_other _ _ _ _ (by omega),
      get_put_long_other _ _ _ _ (by omega), get_put_long_same, Nat.mod_eq_of_lt h1]
  · rw [exec_frame_long _ _ _ _ 8 (by omega), get_put_long_other _ _ _ _ (by omega),
      get_put_long_same, Nat.mod_eq_of_lt h2]
  · rw [exec_frame_long _ _ _ _ 12 (by omega), get_put_long_same, Nat.mod_eq_of_lt h3]

theorem exec_script_eq (cur : fs_current) (useg : Nat → Byte) (filename argv envp : Nat)
    (st : exec_state) (bh : Nat × Nat) (fuel : Nat) (s1 : Fs) (b n e k : Nat)
    (hl : script_line (st.s.buffer bh).b_data b n e)
    (hk : name_offset (st.s.buffer bh).b_data (2 + b) n k)
    (hiput : iput (brelse st.s (some bh)) (some st.inode) fuel = .ok s1) :
    exec_script cur useg filename argv envp st bh fuel =
      exec_splice cur useg
        (exec_frame filename (if b + n < e then EXEC_BUF + (b + n + 1) else 0)
          (EXEC_BUF + (b + k)) (script_buf (st.s.buffer bh).b_data e (b + n)))
        argv envp st s1 (EXEC_BUF + b) (if b + n < e then EXEC_BUF + (b + n + 1) else 0) fuel := by
  have hb0 : Function.update (Function.update
      (strncpy (fun k => (st.s.buffer bh).b_data (k + 2)) 1022) 1022 0) e 0 b ≠ 0 := by
    obtain ⟨h0, h1, he, hnz, hnl, hb, hn, hbn, hP, hA⟩ := id hl
    rw [script_buf2 _ b n e hl b (by omega)]
    exact (hnz b (by omega)).1
  have hia : (if Function.update (Function.update
      (strncpy (fun k => (st.s.buffer bh).b_data (k + 2)) 1022) 1022 0) e 0 (b + n) ≠ 0
      then EXEC_BUF + (b + n + 1) else 0) = (if b + n < e then EXEC_BUF + (b + n + 1) else 0) := by
    by_cases hlt : b + n < e
    · rw [if_pos ((script_buf_nonzero _ b n e hl).2 hlt), if_pos hlt]
    · rw [if_neg (fun h => hlt ((script_buf_nonzero _ b n e hl).1 h)), if_neg hlt]
  unfold exec_script
  simp only [hiput, Outcome.toExec, Exec.bind, script_strchr _ b n e hl]
  rw [script_skip_blanks _ b n e hl, script_scan_interp _ b n e k hl hk, if_neg hb0, hia]

theorem exec_copy_spec (useg kseg pseg seg : Nat → Byte) (from_kmem fuel argv top : Nat)
    (len : Nat → Nat) (k : Nat) (argc : Int) (s : Fs) (page : Nat → Nat) (p : Nat)
    (hk : argc.toNat = k)
    (hps : (if from_kmem = 1 ∨ from_kmem = 2 then kseg else useg) = pseg)
    (hss : (if from_kmem = 2 then kseg else useg) = seg)
    (htop : top ≤ PAGE_SIZE * MAX_ARG_PAGES)
    (hstr : ∀ i, i < k → get_long pseg (argv + 4 * i) ≠ 0 ∧
      is_cstr seg (get_long pseg (argv + 4 * i)) (len i) ∧ len i < fuel)
    (hw : arg_wf { mm := s.mm, page := page }) (hal : arg_alloc { mm := s.mm, page := page } p top)
    (hp : p ≤ top) (hsize : argv_size len k 0 < p) :
    ∃ mm' page', exec_copy useg kseg argc argv s page p from_kmem fuel
        = .ok ({ s with mm := mm' }, page', p - argv_size len k 0) ∧
      arg_wf { mm := mm', page := page' } ∧
      arg_alloc { mm := mm', page := page' } (p - argv_size len k 0) top ∧
      user_bytes (arg_byte { mm := mm', page := page' }) (p - argv_size len k 0)
          (top - (p - argv_size len k 0))
        = argv_bytes pseg seg argv len k 0 ++
          user_bytes (arg_byte { mm := s.mm, page := page }) p (top - p) := by
  have e : copy_strings useg kseg argc argv { mm := s.mm, page := page } p from_kmem fuel
      = copy_strings useg kseg (k : Int) argv { mm := s.mm, page := page } p from_kmem fuel := by
    unfold copy_strings
    rw [hk, Int.toNat_ofNat]
  obtain ⟨st', h1, h2, h3, h4⟩ := copy_strings_spec useg kseg pseg seg from_kmem fuel argv top
    len k { mm := s.mm, page := page } p hps hss htop hstr hw hal hp hsize
  refine ⟨st'.mm, st'.page, ?_, h2, h3, h4⟩
  unfold exec_copy
  rw [e, h1]
  rfl

theorem exec_copy_one (useg kseg pseg seg : Nat → Byte) (from_kmem fuel argv top a n : Nat)
    (s : Fs) (page : Nat → Nat) (p : Nat)
    (hps : (if from_kmem = 1 ∨ from_kmem = 2 then kseg else useg) = pseg)
    (hss : (if from_kmem = 2 then kseg else useg) = seg)
    (htop : top ≤ PAGE_SIZE * MAX_ARG_PAGES)
    (hptr : get_long pseg argv = a) (ha0 : a ≠ 0) (hstr : is_cstr seg a n) (hn : n < fuel)
    (hw : arg_wf { mm := s.mm, page := page }) (hal : arg_alloc { mm := s.mm, page := page } p top)
    (hp : p ≤ top) (hsize : n + 1 < p) :
    ∃ mm' page', exec_copy useg kseg 1 argv s page p from_kmem fuel
        = .ok ({ s with mm := mm' }, page', p - (n + 1)) ∧
      arg_wf { mm := mm', page := page' } ∧
      arg_alloc { mm := mm', page := page' } (p - (n + 1)) top ∧
      user_bytes (arg_byte { mm := mm', page := page' }) (p - (n + 1)) (top - (p - (n + 1)))
        = user_bytes seg a (n + 1) ++
          user_bytes (arg_byte { mm := s.mm, page := page }) p (top - p) := by
  have hptr0 : get_long pseg (argv + 4 * 0) = a := hptr
  obtain ⟨mm', page', h1, h2, h3, h4⟩ := exec_copy_spec useg kseg pseg seg from_kmem fuel argv top
    (fun _ => n) 1 1 s page p rfl hps hss htop (fun i hi => by
      have : i = 0 := by omega
      subst this
      rw [hptr0]
      exact ⟨ha0, hstr, hn⟩) hw hal hp (by
      show n + 1 + 0 < p
      omega)
  have e1 : argv_size (fun _ => n) 1 0 = n + 1 := rfl
  have e2 : argv_bytes pseg seg argv (fun _ => n) 1 0 = user_bytes seg a (n + 1) := by
    show user_bytes seg (get_long pseg (argv + 4 * 0)) (n + 1) ++ [] = _
    rw [hptr0, List.append_nil]
  rw [e1] at h1 h3 h4
  rw [e2] at h4
  exact ⟨mm', page', h1, h2, h3, h4⟩

theorem exec_splice_copy_spec (useg kseg : Nat → Byte) (argv envp : Nat)
    (st : exec_state) (s : Fs) (i_arg fuel filename i_name flen nlen glen ac ec : Nat)
    (alen elen : Nat → Nat)
    (hsh : st.sh_bang = 0) (hac : st.argc = (ac : Int)) (hec : st.envc = (ec : Int))
    (hp4 : get_long kseg 4 = filename) (hp8 : get_long kseg 8 = i_arg)
    (hp12 : get_long kseg 12 = i_name) (hf0 : filename ≠ 0) (hn0 : i_name ≠ 0)
    (hfs : is_cstr useg filename flen) (hfl : flen < fuel)
    (hns : is_cstr kseg i_name nlen) (hnl : nlen < fuel)
    (hgs : i_arg ≠ 0 → is_cstr kseg i_arg glen ∧ glen < fuel)
    (hargv : ∀ i, i < ac - 1 → get_long useg (argv + 4 + 4 * i) ≠ 0 ∧
      is_cstr useg (get_long useg (argv + 4 + 4 * i)) (alen i) ∧ alen i < fuel)
    (henvp : ∀ i, i < ec → get_long useg (envp + 4 * i) ≠ 0 ∧
      is_cstr useg (get_long useg (envp + 4 * i)) (elen i) ∧ elen i < fuel)
    (hw : arg_wf { mm := s.mm, page := st.page }) (htop : st.p ≤ PAGE_SIZE * MAX_ARG_PAGES)
    (hsize : nlen + 1 + (if i_arg ≠ 0 then glen + 1 else 0) + (flen + 1)
      + argv_size alen (ac - 1) 0 + argv_size elen ec 0 < st.p) :
    ∃ mm5 page5,
      arg_wf { mm := mm5, page := page5 } ∧
      user_bytes (arg_byte { mm := mm5, page := page5 })
          (st.p - (nlen + 1 + (if i_arg ≠ 0 then glen + 1 else 0) + (flen + 1)
            + argv_size alen (ac - 1) 0 + argv_size elen ec 0))
          (nlen + 1 + (if i_arg ≠ 0 then glen + 1 else 0) + (flen + 1)
            + argv_size alen (ac - 1) 0 + argv_size elen ec 0)
        = user_bytes kseg i_name (nlen + 1) ++
          ((if i_arg ≠ 0 then user_bytes kseg i_arg (glen + 1) else []) ++
          (user_bytes useg filename (flen + 1) ++
          (argv_bytes useg useg (argv + 4) alen (ac - 1) 0 ++
          argv_bytes useg useg envp elen ec 0))) ∧
      exec_splice_copy useg kseg argv envp st s i_arg fuel =
        .ok (({ s with mm := mm5 }, page5, st.p - (nlen + 1 + (if i_arg ≠ 0 then glen + 1 else 0) + (flen + 1) + argv_size alen (ac - 1) 0 + argv_size elen ec 0)), (ac : Int) + 1 + (if i_arg ≠ 0 then 1 else 0)) := by
  have eu : (if (0 : Nat) = 1 ∨ (0 : Nat) = 2 then kseg else useg) = useg := if_neg (by decide)
  have eu2 : (if (0 : Nat) = 2 then kseg else useg) = useg := if_neg (by decide)
  have ek1 : (if (1 : Nat) = 1 ∨ (1 : Nat) = 2 then kseg else useg) = kseg := if_pos (by decide)
  have ek1b : (if (1 : Nat) = 2 then kseg else useg) = useg := if_neg (by decide)
  have ek2 : (if (2 : Nat) = 1 ∨ (2 : Nat) = 2 then kseg else useg) = kseg := if_pos (by decide)
  have ek2b : (if (2 : Nat) = 2 then kseg else useg) = kseg := if_pos (by decide)
  generalize hE : argv_size elen ec 0 = E at hsize
  generalize hA : argv_size alen (ac - 1) 0 = A at hsize
  -- the environment
  obtain ⟨mm1, page1, c1, w1, a1, b1⟩ := exec_copy_spec useg kseg useg useg 0 fuel envp st.p
    elen ec st.envc s st.page st.p (by rw [hec]; rfl) eu eu2 htop henvp hw
    (fun a h1 h2 => absurd h2 (by omega)) (Nat.le_refl _) (by rw [hE]; omega)
  rw [hE] at c1 a1 b1
  -- the arguments after the first
  obtain ⟨mm2, page2, c2, w2, a2, b2⟩ := exec_copy_spec useg kseg useg useg 0 fuel (argv + 4) st.p
    alen (ac - 1) (st.argc - 1) { s with mm := mm1 } page1 (st.p - E) (by rw [hac]; omega)
    eu eu2 htop hargv w1 a1 (by omega) (by rw [hA]; omega)
  rw [hA] at c2 a2 b2
  -- the file name
  obtain ⟨mm3, page3, c3, w3, a3, b3⟩ := exec_copy_one useg kseg kseg useg 1 fuel 4 st.p
    filename flen { s with mm := mm2 } page2 (st.p - E - A) ek1 ek1b htop hp4 hf0 hfs hfl
    w2 a2 (by omega) (by omega)
  have e0 : user_bytes (arg_byte { mm := s.mm, page := st.page }) st.p (st.p - st.p) = [] := by
    rw [Nat.sub_self]
    rfl
  rw [e0, List.append_nil] at b1
  have hb2 : user_bytes (arg_byte { mm := mm1, page := page1 }) (st.p - E) (st.p - (st.p - E))
      = argv_bytes useg useg envp elen ec 0 := b1
  have hb3 : user_bytes (arg_byte { mm := mm2, page := page2 }) (st.p - E - A)
      (st.p - (st.p - E - A))
      = argv_bytes useg useg (argv + 4) alen (ac - 1) 0 ++ argv_bytes useg useg envp elen ec 0 := by
    rw [← hb2]
    exact b2
  have hb4 : user_bytes (arg_byte { mm := mm3, page := page3 }) (st.p - E - A - (flen + 1))
      (st.p - (st.p - E - A - (flen + 1)))
      = user_bytes useg filename (flen + 1) ++ (argv_bytes useg useg (argv + 4) alen (ac - 1) 0 ++
        argv_bytes useg useg envp elen ec 0) := by
    rw [← hb3]
    exact b3
  have hc1 : exec_copy useg kseg st.envc envp s st.page st.p 0 fuel
      = .ok ({ s with mm := mm1 }, page1, st.p - E) := c1
  have hc2 : exec_copy useg kseg (st.argc - 1) (argv + 4) { s with mm := mm1 } page1 (st.p - E) 0 fuel
      = .ok ({ s with mm := mm2 }, page2, st.p - E - A) := c2
  have hc3 : exec_copy useg kseg 1 4 { s with mm := mm2 } page2 (st.p - E - A) 1 fuel
      = .ok ({ s with mm := mm3 }, page3, st.p - E - A - (flen + 1)) := c3
  by_cases hi : i_arg ≠ 0
  · rw [if_pos hi] at hsize
    obtain ⟨hg1, hg2⟩ := hgs hi
    obtain ⟨mm4, page4, c4, w4, a4, b4⟩ := exec_copy_one useg kseg kseg kseg 2 fuel 8 st.p
      i_arg glen { s with mm := mm3 } page3 (st.p - E - A - (flen + 1)) ek2 ek2b htop hp8 hi hg1 hg2
      w3 a3 (by omega) (by omega)
    obtain ⟨mm5, page5, c5, w5, a5, b5⟩ := exec_copy_one useg kseg kseg kseg 2 fuel 12 st.p
      i_name nlen { s with mm := mm4 } page4 (st.p - E - A - (flen + 1) - (glen + 1)) ek2 ek2b htop
      hp12 hn0 hns hnl w4 a4 (by omega) (by omega)
    have hc4 : exec_copy useg kseg 1 8 { s with mm := mm3 } page3 (st.p - E - A - (flen + 1)) 2 fuel
        = .ok ({ s with mm := mm4 }, page4, st.p - E - A - (flen + 1) - (glen + 1)) := c4
    have hc5 : exec_copy useg kseg 1 12 { s with mm := mm4 } page4
        (st.p - E - A - (flen + 1) - (glen + 1)) 2 fuel
        = .ok ({ s with mm := mm5 }, page5,
          st.p - E - A - (flen + 1) - (glen + 1) - (nlen + 1)) := c5
    have hp5 : st.p - E - A - (flen + 1) - (glen + 1) - (nlen + 1)
        = st.p - (nlen + 1 + (glen + 1) + (flen + 1) + A + E) := by omega
    have hT : st.p - (st.p - (nlen + 1 + (glen + 1) + (flen + 1) + A + E))
        = nlen + 1 + (glen + 1) + (flen + 1) + A + E := by omega
    rw [hp5] at hc5 b5
    rw [hT] at b5
    refine ⟨mm5, page5, w5, ?_, ?_⟩
    · rw [if_pos hi, if_pos hi, b5]
      have hb5 : user_bytes (arg_byte { mm := mm4, page := page4 })
          (st.p - E - A - (flen + 1) - (glen + 1))
          (st.p - (st.p - E - A - (flen + 1) - (glen + 1)))
          = user_bytes kseg i_arg (glen + 1) ++ (user_bytes useg filename (flen + 1) ++
            (argv_bytes useg useg (argv + 4) alen (ac - 1) 0 ++
            argv_bytes useg useg envp elen ec 0)) := by
        rw [← hb4]
        exact b4
      exact congrArg _ hb5
    · unfold exec_splice_copy
      rw [if_pos hsh, hc1]
      simp only [Exec.bind]
      rw [hc2]
      simp only [Exec.bind]
      rw [hc3]
      simp only [Exec.bind]
      rw [if_pos hi, hc4]
      simp only [Exec.bind]
      rw [hc5]
      simp only [Exec.bind]
      rw [if_pos hi, if_pos hi, hac]
      have harg : (ac : Int) - 1 + 1 + 1 + 1 = (ac : Int) + 1 + 1 := by omega
      rw [harg]
  · rw [if_neg hi] at hsize
    obtain ⟨mm5, page5, c5, w5, a5, b5⟩ := exec_copy_one useg kseg kseg kseg 2 fuel 12 st.p
      i_name nlen { s with mm := mm3 } page3 (st.p - E - A - (flen + 1)) ek2 ek2b htop
      hp12 hn0 hns hnl w3 a3 (by omega) (by omega)
    have hc5 : exec_copy useg kseg 1 12 { s with mm := mm3 } page3
        (st.p - E - A - (flen + 1)) 2 fuel
        = .ok ({ s with mm := mm5 }, page5, st.p - E - A - (flen + 1) - (nlen + 1)) := c5
    have hp5 : st.p - E - A - (flen + 1) - (nlen + 1)
        = st.p - (nlen + 1 + 0 + (flen + 1) + A + E) := by omega
    have hT : st.p - (st.p - (nlen + 1 + 0 + (flen + 1) + A + E))
        = nlen + 1 + 0 + (flen + 1) + A + E := by omega
    rw [hp5] at hc5 b5
    rw [hT] at b5
    refine ⟨mm5, page5, w5, ?_, ?_⟩
    · rw [if_neg hi, if_neg hi, b5, List.nil_append]
      exact congrArg _ hb4
    · unfold exec_splice_copy
      rw [if_pos hsh, hc1]
      simp only [Exec.bind]
      rw [hc2]
      simp only [Exec.bind]
      rw [hc3]
      simp only [Exec.bind]
      rw [if_neg hi]
      simp only [Exec.bind]
      rw [hc5]
      simp only [Exec.bind]
      rw [if_neg hi, if_neg hi, hac]
      have harg : (ac : Int) - 1 + 1 + 1 = (ac : Int) + 1 + 0 := by omega
      rw [harg]

theorem script_frame_str (filename : Nat) (d : Nat → Byte) (b n e k : Nat)
    (hl : script_line d b n e) (lo hi : Nat) (h1 : lo ≤ hi) (h2 : hi = e ∨ hi = b + n)
    (h3 : ∀ j, lo ≤ j → j < hi → j ≠ b + n) :
    is_cstr (script_frame filename d b n e k) (EXEC_BUF + lo) (hi - lo) ∧
    user_bytes (script_frame filename d b n e k) (EXEC_BUF + lo) (hi - lo + 1)
      = user_bytes d (2 + lo) (hi - lo) ++ [0] := by
  have hbn : b + n ≤ e := hl.2.2.2.2.2.2.2.1
  have hnz := hl.2.2.2.1
  obtain ⟨hs1, hs2, hs3⟩ := script_buf_spec d b n e hl
  have hin : ∀ j, j < hi - lo → script_frame filename d b n e k (EXEC_BUF + lo + j) = d (2 + lo + j) := by
    intro j hj
    unfold script_frame
    rw [Nat.add_assoc EXEC_BUF, exec_frame_buf, hs1 (lo + j) (by omega) (h3 (lo + j) (by omega) (by omega)),
      Nat.add_assoc]
  have hend : script_frame filename d b n e k (EXEC_BUF + lo + (hi - lo)) = 0 := by
    unfold script_frame
    rw [Nat.add_assoc EXEC_BUF, exec_frame_buf, show lo + (hi - lo) = hi by omega]
    rcases h2 with h2 | h2
    · rw [h2]; exact hs2
    · rw [h2]; exact hs3
  refine ⟨⟨fun j hj => ?_, hend⟩, ?_⟩
  · rw [hin j hj, Nat.add_assoc]
    exact (hnz (lo + j) (by omega)).1
  · rw [user_bytes_add, user_bytes_congr _ d (hi - lo) (EXEC_BUF + lo) (2 + lo) hin]
    show _ ++ [script_frame filename d b n e k (EXEC_BUF + lo + (hi - lo))] = _
    rw [hend]

theorem do_execve_pass_script (cur : fs_current) (useg : Nat → Byte) (filename argv envp : Nat)
    (st : exec_state) (fuel : Nat) (bh : Nat × Nat) (s2 : Fs)
    (h1 : S_ISREG (st.s.inode_table st.inode).i_mode = true)
    (h2 : ¬ ((if cur.euid = (st.s.inode_table st.inode).i_uid
          then (st.s.inode_table st.inode).i_mode >>> 6
          else if cur.egid = (st.s.inode_table st.inode).i_gid
            then (st.s.inode_table st.inode).i_mode >>> 3
            else (st.s.inode_table st.inode).i_mode) &&& 1 = 0 ∧
        ¬ ((st.s.inode_table st.inode).i_mode &&& 0o111 ≠ 0 ∧ suser cur = true)))
    (h3 : bread st.s (st.s.inode_table st.inode).i_dev
        ((st.s.inode_table st.inode).i_zone 0) = (some bh, s2))
    (h4 : (s2.buffer bh).b_data 0 = 35 ∧ (s2.buffer bh).b_data 1 = 33 ∧ st.sh_bang = 0) :
    do_execve_pass cur useg filename argv envp st fuel =
      exec_script cur useg filename argv envp { st with s := s2 } bh fuel := by
  unfold do_execve_pass
  simp only []
  rw [if_neg (by rw [h1]; decide), if_neg h2]
  rw [h3]
  simp only []
  rw [if_pos h4]

theorem exec_splice_restart (cur : fs_current) (useg kseg : Nat → Byte) (argv envp : Nat)
    (st : exec_state) (s : Fs) (interp i_arg fuel : Nat) (c : (Fs × (Nat → Nat) × Nat) × Int)
    (inode : Nat) (s6 : Fs)
    (hc : exec_splice_copy useg kseg argv envp st s i_arg fuel = .ok c) (hp : c.1.2.2 ≠ 0)
    (hn : namei cur kseg c.1.1 interp fuel = .ok (some inode, s6)) :
    exec_splice cur useg kseg argv envp st s interp i_arg fuel =
      .ok (.restart { s := s6, page := c.1.2.1, inode := inode, argc := c.2, envc := st.envc, sh_bang := st.sh_bang + 1, p := c.1.2.2 }) := by
  unfold exec_splice
  rw [hc]
  simp only [Exec.bind]
  rw [if_neg hp, hn]
  rfl

/-! ## Claims -/

/-- C2 fails as stated: in `mm1` the kernel page table at 0x1000 has the
present, writable entry 1 (0x1007) for the frame 0x1000 below `LOW_MEM`;
`copy_page_tables(0, 64 MB, 640 KB)`, the copy of the first `fork`, returns 0
having copied that entry, and the source entry still has its writable bit set. -/
theorem copy_page_tables_low_source_stays_writable :
    ∃ s2, copy_page_tables mm1 0 0x4000000 0xA0000 = .ret 0 s2 ∧
      pte_copied 0 mm1 0 1 ∧ pte_at mm1 0 1 = 0x1007 ∧
      (get_long s2.mem (table_at mm1 0 + 4 * 1)).testBit 1 = true := by
  have hN0 : (get_free_page mm1).1 ≠ 0 := by decide
  obtain ⟨k0, hk0, hz, -, hN, hmm, hmem, -, -⟩ := get_free_page_ne_zero mm1 hN0
  have ht : table_at mm1 0 = 4096 := by decide
  have hlow : LOW_MEM = 1048576 := rfl
  obtain ⟨-, -, c3, -, -, -⟩ := copy_dir_step_spec 0 mm1 0 64 k0 hN hk0 hz hmm hmem
    (by omega) (by omega) (by omega)
    (fun j _ _ hh => absurd hh (mm1_pte_low j))
  refine ⟨copy_dir_step 0 mm1 0 64, rfl, by decide, by decide, ?_⟩
  rw [(c3 1 (by decide) (by decide)).2.2 (mm1_pte_low 1)]
  decide

/-- C2, amended: on an address space as `copy_wf` describes it, after a
successful `copy_page_tables(from, to, size)` every present source directory
entry has a destination table `T`, and for every present source page-table
entry that was copied: the destination entry is the source entry with the
writable bit (bit 1) cleared; when the frame is at or above `LOW_MEM` the
source entry has its writable bit cleared as well and the `mem_map` count of
the frame is exactly one more than before the call; when the frame is below
`LOW_MEM` the source entry is left as it was, writable bit included. -/
theorem copy_page_tables_spec (s s2 : Mm) (src dst size fd td n : Nat)
    (hfd : fd = (src >>> 20) &&& 0xffc) (htd : td = (dst >>> 20) &&& 0xffc)
    (hn : n = ((size + 0x3fffff) % 4294967296) >>> 22)
    (hwf : copy_wf src s fd td n)
    (hres : copy_page_tables s src dst size = .ret 0 s2) :
    ∀ a b, in_dirs fd td n a b → 1 &&& get_long s.mem a ≠ 0 →
      ∃ T, get_long s2.mem b = T ||| 7 ∧ LOW_MEM ≤ T ∧ T % 4096 = 0 ∧
        ∀ j, pte_copied src s a j →
          get_long s2.mem (T + 4 * j) = pte_ro (pte_at s a j) ∧
          (get_long s2.mem (T + 4 * j)).testBit 1 = false ∧
          (LOW_MEM ≤ 0xfffff000 &&& pte_at s a j →
            get_long s2.mem (table_at s a + 4 * j) = pte_ro (pte_at s a j) ∧
            (get_long s2.mem (table_at s a + 4 * j)).testBit 1 = false ∧
            (s2.mem_map (MAP_NR (0xfffff000 &&& pte_at s a j))).val
              = (s.mem_map (MAP_NR (0xfffff000 &&& pte_at s a j))).val + 1) ∧
          (0xfffff000 &&& pte_at s a j < LOW_MEM →
            get_long s2.mem (table_at s a + 4 * j) = pte_at s a j) := by
  have hrun : copy_dirs src s fd td n = .ret 0 s2 := by
    unfold copy_page_tables at hres
    by_cases hal : src &&& 0x3fffff ≠ 0 ∨ dst &&& 0x3fffff ≠ 0
    · rw [if_pos hal] at hres
      exact Result.noConfusion hres
    · rw [if_neg hal] at hres
      rw [hfd, htd, hn]
      exact hres
  obtain ⟨-, -, hC⟩ := copy_dirs_spec src n s fd td (fun _ => False) (fun _ => False) s2 hwf
    (fun x hx => False.elim hx) (fun k hk => False.elim hk) hrun
  intro a b hab hpa
  obtain ⟨T, t1, t2, t3, t4⟩ := hC a b hab hpa
  refine ⟨T, t1, t2, t3, fun j hc => ?_⟩
  obtain ⟨e1, e2, e3⟩ := t4 j hc
  have hv : pte_at s a j < 4294967296 := get_long_lt _ _
  obtain ⟨hiff, hnr⟩ := pte_high_iff (pte_at s a j) hv hc.2.2
  refine ⟨e1, by rw [e1]; exact pte_ro_bit _, fun hh => ?_, fun hl => ?_⟩
  · obtain ⟨g1, g2⟩ := e2 (hiff.2 hh)
    rw [← hnr (hiff.2 hh)]
    exact ⟨g1, by rw [g1]; exact pte_ro_bit _, g2⟩
  · exact e3 (fun h => by have := hiff.1 h; omega)

/-- Witness for `copy_page_tables_spec`: in `mm0` the 4 MB at linear address
64 MB are copied to 128 MB; entry 0 of the source table maps the frame
`LOW_MEM + 0x3000`, whose count goes from 2 to 3, and both copies of the entry
end up read-only. -/
theorem copy_page_tables_spec_witness :
    ∃ s2 T, copy_page_tables mm0 0x4000000 0x8000000 0x400000 = .ret 0 s2 ∧
      get_long s2.mem 128 = T ||| 7 ∧
      (get_long s2.mem (T + 4 * 0)).testBit 1 = false ∧
      (get_long s2.mem (table_at mm0 64 + 4 * 0)).testBit 1 = false ∧
      (s2.mem_map (MAP_NR (0xfffff000 &&& pte_at mm0 64 0))).val = 3 := by
  have hres : copy_page_tables mm0 0x4000000 0x8000000 0x400000
      = .ret 0 (copy_dir_step 0x4000000 mm0 64 128) := rfl
  obtain ⟨T, t1, -, -, t4⟩ := copy_page_tables_spec mm0 _ 0x4000000 0x8000000 0x400000
    64 128 1 (by decide) (by decide) (by decide) mm0_copy_wf hres 64 128
    ⟨0, by decide, by decide, by decide⟩ (by decide)
  obtain ⟨-, e2, e3, -⟩ := t4 0 (by decide)
  obtain ⟨-, g2, g3⟩ := e3 (by decide)
  exact ⟨_, T, hres, t1, e2, g2, by rw [g3]; decide⟩

/-- C3: when some `mem_map` byte is 0, `get_free_page` returns
`LOW_MEM + 4096*k` for the largest index `k` with `mem_map[k] == 0`, sets that
byte to 1, leaves every other `mem_map` byte alone and hands back a frame whose
4096 bytes are all zero; when no byte is 0 it returns 0 and changes nothing. -/
theorem get_free_page_spec (s : Mm) :
    (∀ k, k < PAGING_PAGES → s.mem_map k = 0 →
        (∀ j, k < j → j < PAGING_PAGES → s.mem_map j ≠ 0) →
        (get_free_page s).1 = LOW_MEM + 4096 * k ∧
        (get_free_page s).2.mem_map k = 1 ∧
        (∀ j, j ≠ k → (get_free_page s).2.mem_map j = s.mem_map j) ∧
        (∀ a, LOW_MEM + 4096 * k ≤ a → a < LOW_MEM + 4096 * k + 4096 →
          (get_free_page s).2.mem a = 0)) ∧
    ((∀ k, k < PAGING_PAGES → s.mem_map k ≠ 0) →
        (get_free_page s).1 = 0 ∧ (get_free_page s).2 = s) := by
  constructor
  · intro k hk h0 hmax
    have hs := scasb_some s.mem_map PAGING_PAGES k hk h0 hmax
    have hsh : k <<< 12 = 4096 * k := by rw [Nat.shiftLeft_eq]; omega
    unfold get_free_page
    rw [hs]
    refine ⟨by simp only [hsh]; omega, by simp, fun j hj => by simp [Function.update, hj], ?_⟩
    intro a ha1 ha2
    have hz := (stosl_spec 1024 s.mem (4096 * k + LOW_MEM + 4092) (by omega)).1 a
      (by omega) (by omega)
    simp only [hsh]
    exact hz
  · intro hnone
    have hs := scasb_none s.mem_map PAGING_PAGES hnone
    unfold get_free_page
    rw [hs]
    exact ⟨rfl, rfl⟩

/-- Witness for `get_free_page_spec`: the highest free page of `mm0` is page
3839, the last of the paging area. -/
theorem get_free_page_spec_witness :
    (get_free_page mm0).1 = LOW_MEM + 4096 * 3839 ∧
    (get_free_page mm0).2.mem_map 3839 = 1 ∧
    (∀ j, j ≠ 3839 → (get_free_page mm0).2.mem_map j = mm0.mem_map j) ∧
    (∀ a, LOW_MEM + 4096 * 3839 ≤ a → a < LOW_MEM + 4096 * 3839 + 4096 →
      (get_free_page mm0).2.mem a = 0) :=
  (get_free_page_spec mm0).1 3839 (by decide) (by decide)
    (fun j h1 h2 => by
      have : PAGING_PAGES = 3840 := rfl
      omega)

/-- C4 fails as stated: `free_page(0)`, an address below `LOW_MEM`, returns
without a panic. -/
theorem free_page_below_LOW_MEM_no_panic :
    0 < LOW_MEM ∧ (free_page mm0 0).isPanic = false := by
  decide

/-- C4, amended: inside `[LOW_MEM, HIGH_MEMORY)` a non-zero `mem_map` byte is
decremented by one and nothing else changes; a zero byte gives a panic with
the byte left at zero; an address at or above both `LOW_MEM` and `HIGH_MEMORY`
gives a panic; an address below `LOW_MEM` is ignored: plain return, nothing
changed. -/
theorem free_page_spec (s : Mm) (addr : Nat) :
    (addr < LOW_MEM → free_page s addr = .ret () s) ∧
    (LOW_MEM ≤ addr → s.HIGH_MEMORY ≤ addr →
      free_page s addr = .panic "trying to free nonexistent page" s) ∧
    (LOW_MEM ≤ addr → addr < s.HIGH_MEMORY → s.mem_map ((addr - LOW_MEM) >>> 12) ≠ 0 →
      ∃ s2, free_page s addr = .ret () s2 ∧
        (s2.mem_map ((addr - LOW_MEM) >>> 12)).val + 1
          = (s.mem_map ((addr - LOW_MEM) >>> 12)).val ∧
        (∀ j, j ≠ (addr - LOW_MEM) >>> 12 → s2.mem_map j = s.mem_map j) ∧
        s2.mem = s.mem ∧ s2.HIGH_MEMORY = s.HIGH_MEMORY) ∧
    (LOW_MEM ≤ addr → addr < s.HIGH_MEMORY → s.mem_map ((addr - LOW_MEM) >>> 12) = 0 →
      ∃ s2, free_page s addr = .panic "trying to free free page" s2 ∧
        s2.mem_map = s.mem_map ∧ s2.mem = s.mem) := by
  refine ⟨fun h => by simp [free_page, h], fun h1 h2 => ?_, fun h1 h2 h3 => ?_,
    fun h1 h2 h3 => ?_⟩
  · have : ¬ addr < LOW_MEM := by omega
    simp [free_page, this, h2]
  · have hl : ¬ addr < LOW_MEM := by omega
    have hh : ¬ addr ≥ s.HIGH_MEMORY := by omega
    have hv : (s.mem_map ((addr - LOW_MEM) >>> 12)).val ≠ 0 := fun h => h3 (Fin.ext h)
    have hlt := (s.mem_map ((addr - LOW_MEM) >>> 12)).isLt
    refine ⟨Mm.mk s.mem (Function.update s.mem_map ((addr - LOW_MEM) >>> 12)
      (s.mem_map ((addr - LOW_MEM) >>> 12) - 1)) s.HIGH_MEMORY s.console,
      by simp only [free_page, hl, hh, if_false, ne_eq, h3, not_false_eq_true, if_true],
      ?_, ?_, rfl, rfl⟩
    · simp only [Function.update_same]
      rw [Fin.sub_def]
      simp only [Fin.val_one]
      omega
    · intro j hj
      simp [Function.update, hj]
  · have hl : ¬ addr < LOW_MEM := by omega
    have hh : ¬ addr ≥ s.HIGH_MEMORY := by omega
    refine ⟨Mm.mk s.mem (Function.update (Function.update s.mem_map ((addr - LOW_MEM) >>> 12)
      (s.mem_map ((addr - LOW_MEM) >>> 12) - 1)) ((addr - LOW_MEM) >>> 12) 0)
      s.HIGH_MEMORY s.console,
      by simp only [free_page, hl, hh, if_false, ne_eq, h3, not_true_eq_false], ?_, rfl⟩
    simp only [Function.update_idem]
    rw [← h3]
    exact Function.update_eq_self _ _

/-- Witness for `free_page_spec`: page 0 of the paging area of `mm0` has count
2, and `free_page(LOW_MEM)` brings it to 1. -/
theorem free_page_spec_witness :
    ∃ s2, free_page mm0 LOW_MEM = .ret () s2 ∧
        (s2.mem_map ((LOW_MEM - LOW_MEM) >>> 12)).val + 1
          = (mm0.mem_map ((LOW_MEM - LOW_MEM) >>> 12)).val ∧
        (∀ j, j ≠ (LOW_MEM - LOW_MEM) >>> 12 → s2.mem_map j = mm0.mem_map j) ∧
        s2.mem = mm0.mem ∧ s2.HIGH_MEMORY = mm0.HIGH_MEMORY :=
  (free_page_spec mm0 LOW_MEM).2.2.1 (by decide) (by decide) (by decide)

/-- C5 fails as stated: page `LOW_MEM` of `mm0` has count 2, not 1, yet
`put_page(LOW_MEM, 64 MB + 0x2000)` returns the page and writes `page | 7` into
entry 2 of the page table at 0x2000, which held 0 before. -/
theorem put_page_maps_despite_warning :
    mm0.mem_map (MAP_NR LOW_MEM) ≠ 1 ∧
    (put_page mm0 LOW_MEM 0x4002000).1 = LOW_MEM ∧
    get_long mm0.mem 0x2008 = 0 ∧
    get_long (put_page mm0 LOW_MEM 0x4002000).2.mem 0x2008 = LOW_MEM ||| 7 := by
  decide

/-- C5, amended: a page outside `[LOW_MEM, HIGH_MEMORY)` or with a count other
than 1 only draws a `printk`; in every case `put_page` goes on.  With the
directory entry of `address` present it returns `page` after storing
`page | 7` in the entry of `address` in that page table; with the entry absent
and a free page `tmp` it sets the directory entry to `tmp | 7`, stores
`page | 7` in the entry of `address` in `tmp` and returns `page`; with the
entry absent and no free page it returns 0 and memory and `mem_map` are as
before. -/
theorem put_page_spec (s : Mm) (page address : Nat) (hp : page < 4294967296) :
    (get_long s.mem ((address >>> 20) &&& 0xffc) &&& 1 ≠ 0 →
      (put_page s page address).1 = page ∧
      get_long (put_page s page address).2.mem
        ((0xfffff000 &&& get_long s.mem ((address >>> 20) &&& 0xffc))
          + 4 * ((address >>> 12) &&& 0x3ff)) = page ||| 7 ∧
      (put_page s page address).2.mem_map = s.mem_map) ∧
    (get_long s.mem ((address >>> 20) &&& 0xffc) &&& 1 = 0 → (get_free_page s).1 ≠ 0 →
      (put_page s page address).1 = page ∧
      get_long (put_page s page address).2.mem ((address >>> 20) &&& 0xffc)
        = (get_free_page s).1 ||| 7 ∧
      get_long (put_page s page address).2.mem
        ((get_free_page s).1 + 4 * ((address >>> 12) &&& 0x3ff)) = page ||| 7 ∧
      (put_page s page address).2.mem_map = (get_free_page s).2.mem_map) ∧
    (get_long s.mem ((address >>> 20) &&& 0xffc) &&& 1 = 0 → (get_free_page s).1 = 0 →
      (put_page s page address).1 = 0 ∧
      (put_page s page address).2.mem = s.mem ∧
      (put_page s page address).2.mem_map = s.mem_map) := by
  obtain ⟨hwm, hwmm⟩ := put_page_warn_mem s page
  obtain ⟨hg1, hg2, hg3⟩ := get_free_page_congr (put_page_warn s page) s hwmm hwm
  have hv := Nat.mod_eq_of_lt (or_seven_lt page hp)
  refine ⟨fun h => ?_, fun h hf => ?_, fun h hf => ?_⟩
  · have h2 : get_long (put_page_warn s page).mem ((address >>> 20) &&& 0xffc) &&& 1 ≠ 0 := by
      rw [hwm]; exact h
    simp only [put_page, h2, if_true, ne_eq, not_false_eq_true]
    refine ⟨trivial, ?_, hwmm⟩
    rw [hwm, get_put_long_same, hv]
  · have h2 : ¬ (get_long (put_page_warn s page).mem ((address >>> 20) &&& 0xffc) &&& 1 ≠ 0) := by
      rw [hwm]; simpa using h
    have hf2 : ¬ ((get_free_page (put_page_warn s page)).1 = 0) := by rw [hg1]; exact hf
    obtain ⟨k, hk, -, -, hk1, -⟩ := get_free_page_ne_zero s hf
    have hd := and_ffc_le (address >>> 20)
    have hlow : LOW_MEM = 1048576 := rfl
    have hpp : PAGING_PAGES = 3840 := rfl
    simp only [put_page, h2, hf2, if_false]
    refine ⟨trivial, ?_, ?_, hg3⟩
    · rw [hg1, get_put_long_other _ _ _ _ (by omega), get_put_long_same]
      exact Nat.mod_eq_of_lt (or_seven_lt _ (by omega))
    · rw [hg1, get_put_long_same, hv]
  · have h2 : ¬ (get_long (put_page_warn s page).mem ((address >>> 20) &&& 0xffc) &&& 1 ≠ 0) := by
      rw [hwm]; simpa using h
    have hf2 : (get_free_page (put_page_warn s page)).1 = 0 := by rw [hg1]; exact hf
    have hz := (get_free_page_eq_zero s hf).1
    simp only [put_page, h2, hf2, if_false, if_true]
    refine ⟨trivial, ?_, ?_⟩
    · rw [hg2, hz]
    · rw [hg3, hz]

/-- Witness for `put_page_spec`: in `mm0` the directory entry of linear address
64 MB + 0x2000 is present, so the first case applies to page `LOW_MEM + 0x6000`. -/
theorem put_page_spec_witness :
    (put_page mm0 (LOW_MEM + 0x6000) 0x4002000).1 = LOW_MEM + 0x6000 ∧
    get_long (put_page mm0 (LOW_MEM + 0x6000) 0x4002000).2.mem
      ((0xfffff000 &&& get_long mm0.mem ((0x4002000 >>> 20) &&& 0xffc))
        + 4 * ((0x4002000 >>> 12) &&& 0x3ff)) = (LOW_MEM + 0x6000) ||| 7 ∧
    (put_page mm0 (LOW_MEM + 0x6000) 0x4002000).2.mem_map = mm0.mem_map :=
  (put_page_spec mm0 (LOW_MEM + 0x6000) 0x4002000 (by decide)).1 (by decide)

/-- C1: for a page-table entry at `table_entry` whose frame `old` is at or
above `LOW_MEM`: with `mem_map[MAP_NR(old)] == 1`, `un_wp_page` returns having
only set bit 1 of the entry (frame address, every other byte of memory and
`mem_map` as before); otherwise, with the frame in use (count not 0, as for
every mapped frame), the entry not lying in a free frame and `get_free_page`
handing out `new`, it returns with `mem_map[MAP_NR(old)]` lowered by exactly
one, the entry holding `new | 7`, `mem_map[MAP_NR(new)] == 1`, and the 4096
bytes of `new` equal to the 4096 bytes of `old`. -/
theorem un_wp_page_spec (s : Mm) (table_entry old new : Nat)
    (hold : old = 0xfffff000 &&& get_long s.mem table_entry)
    (hnew : new = (get_free_page s).1)
    (hhigh : LOW_MEM ≤ old) :
    (s.mem_map (MAP_NR old) = 1 →
      ∃ s2, un_wp_page s table_entry = .ret () s2 ∧
        get_long s2.mem table_entry = get_long s.mem table_entry ||| 2 ∧
        0xfffff000 &&& get_long s2.mem table_entry = old ∧
        (∀ x, (x < table_entry ∨ table_entry + 4 ≤ x) → s2.mem x = s.mem x) ∧
        s2.mem_map = s.mem_map) ∧
    (s.mem_map (MAP_NR old) ≠ 1 → s.mem_map (MAP_NR old) ≠ 0 → new ≠ 0 →
      (∀ k, k < PAGING_PAGES → s.mem_map k = 0 →
        table_entry + 4 ≤ LOW_MEM + 4096 * k ∨ LOW_MEM + 4096 * k + 4096 ≤ table_entry) →
      ∃ s2, un_wp_page s table_entry = .ret () s2 ∧
        (s2.mem_map (MAP_NR old)).val + 1 = (s.mem_map (MAP_NR old)).val ∧
        get_long s2.mem table_entry = new ||| 7 ∧
        s2.mem_map (MAP_NR new) = 1 ∧
        (∀ j, j ≠ MAP_NR old → j ≠ MAP_NR new → s2.mem_map j = s.mem_map j) ∧
        (∀ i, i < 4096 → s2.mem (new + i) = s2.mem (old + i))) := by
  have hvlt := get_long_lt s.mem table_entry
  have holdlt : old < 4294967296 := by
    rw [hold]; exact lt_of_le_of_lt Nat.and_le_right hvlt
  have hal : old % 4096 = 0 := by rw [hold]; exact frame_aligned _
  have hlow : LOW_MEM = 1048576 := rfl
  have hpp : PAGING_PAGES = 3840 := rfl
  constructor
  · intro h1
    have hc : old ≥ LOW_MEM ∧ s.mem_map (MAP_NR old) = 1 := ⟨hhigh, h1⟩
    rw [hold] at hc
    refine ⟨Mm.mk (put_long s.mem table_entry (get_long s.mem table_entry ||| 2)) s.mem_map
      s.HIGH_MEMORY s.console, by simp only [un_wp_page, hc, and_self, if_true], ?_, ?_,
      fun x hx => put_long_other _ _ _ _ hx, rfl⟩
    · show get_long (put_long s.mem table_entry _) table_entry = _
      rw [get_put_long_same]
      apply Nat.mod_eq_of_lt
      have h2 : (2 : Nat) < 2 ^ 32 := by norm_num
      have hx : get_long s.mem table_entry < 2 ^ 32 := by norm_num; exact hvlt
      have := Nat.or_lt_two_pow hx h2
      norm_num at this
      exact this
    · show 0xfffff000 &&& get_long (put_long s.mem table_entry _) table_entry = old
      rw [get_put_long_same, Nat.mod_eq_of_lt, frame_or_two, hold]
      have h2 : (2 : Nat) < 2 ^ 32 := by norm_num
      have hx : get_long s.mem table_entry < 2 ^ 32 := by norm_num; exact hvlt
      have := Nat.or_lt_two_pow hx h2
      norm_num at this
      exact this
  · intro h1 h0 hn hE
    rw [hnew] at hn
    obtain ⟨k, hk, hk0, -, hk1, hkmm, hkmem, hkH, hkc⟩ := get_free_page_ne_zero s hn
    have hnewk : new = LOW_MEM + 4096 * k := by rw [hnew, hk1]
    have hoi := MAP_NR_eq old hhigh holdlt
    have hni : MAP_NR new = k := by
      rw [MAP_NR_eq new (by omega) (by omega), hnewk]
      omega
    have hne : MAP_NR old ≠ k := fun h => h0 (h ▸ hk0)
    have hdis : old + 4096 ≤ new ∨ new + 4096 ≤ old := by
      rw [hoi] at hne
      omega
    have hc : ¬ (old ≥ LOW_MEM ∧ s.mem_map (MAP_NR old) = 1) := fun h => h1 h.2
    have hge : old ≥ LOW_MEM := hhigh
    have hn2 : ¬ new = 0 := by rw [hnew]; exact hn
    have hEk := hE k hk hk0
    have hmv := copy_page_spec (put_long (get_free_page s).2.mem table_entry (new ||| 7))
      old new (by omega)
    refine ⟨Mm.mk (copy_page (put_long (get_free_page s).2.mem table_entry (new ||| 7)) old new)
      (Function.update (get_free_page s).2.mem_map (MAP_NR old)
        ((get_free_page s).2.mem_map (MAP_NR old) - 1))
      (get_free_page s).2.HIGH_MEMORY (get_free_page s).2.console, ?_, ?_, ?_, ?_, ?_, ?_⟩
    · simp only [un_wp_page, ← hold, ← hnew]
      simp only [h1, and_false, hn2, hge, if_false, if_true]
    · dsimp only
      rw [Function.update_same, hkmm, Function.update_noteq hne]
      exact byte_pred_val _ h0
    · dsimp only
      have hcg : get_long (copy_page (put_long (get_free_page s).2.mem table_entry (new ||| 7))
          old new) table_entry
          = get_long (put_long (get_free_page s).2.mem table_entry (new ||| 7)) table_entry :=
        get_long_congr _ _ _ (fun i hi => hmv.2 _ (by omega))
      rw [hcg, get_put_long_same]
      exact Nat.mod_eq_of_lt (or_seven_lt _ (by omega))
    · dsimp only
      rw [hni, Function.update_noteq (Ne.symm hne), hkmm, Function.update_same]
    · intro j hj1 hj2
      dsimp only
      rw [Function.update_noteq hj1, hkmm, Function.update_noteq (by rw [← hni]; exact hj2)]
    · intro i hi
      dsimp only
      rw [hmv.1 i hi, hmv.2 (old + i) (by omega)]

/-- Witness for `un_wp_page_spec`: entry 0 of the page table at 0x2000 of `mm0`
maps the frame `LOW_MEM + 0x3000`, whose count is 2, and the table lies below
`LOW_MEM`; the copy goes to the highest free page. -/
theorem un_wp_page_spec_witness :
    ∃ s2, un_wp_page mm0 0x2000 = .ret () s2 ∧
      (s2.mem_map (MAP_NR (LOW_MEM + 0x3000))).val + 1 = 2 ∧
      get_long s2.mem 0x2000 = (LOW_MEM + 4096 * 3839) ||| 7 ∧
      s2.mem_map (MAP_NR (LOW_MEM + 4096 * 3839)) = 1 := by
  obtain ⟨s2, h1, h2, h3, h4, -, -⟩ :=
    (un_wp_page_spec mm0 0x2000 (LOW_MEM + 0x3000) (LOW_MEM + 4096 * 3839)
      (by decide) (by decide) (by decide)).2 (by decide) (by decide) (by decide)
      (fun k _ _ => Or.inl (by simp only [LOW_MEM]; omega))
  exact ⟨s2, h1, h2, h3, h4⟩

/-- C7: after the first loop of `schedule()`, a task of a slot 1..NR_TASKS-1
that was INTERRUPTIBLE and has a pending signal (in `signal` as the loop leaves
it, which holds every signal pending before plus SIGALRM when its alarm had run
out) that is not blocked, or is SIGKILL or SIGSTOP whatever the blocked mask,
is RUNNING; an INTERRUPTIBLE task all of whose pending signals are blocked and
are neither SIGKILL nor SIGSTOP stays INTERRUPTIBLE; a task in any other state
keeps its state. -/
theorem schedule_signals_spec (jiffies : Int) (task : TaskTable) (i : Nat) (t : task_struct)
    (hi1 : 1 ≤ i) (hi2 : i < NR_TASKS) (ht : task i = some t) :
    ∃ t1, schedule_signals jiffies task i = some t1 ∧
      t1.signal = (if t.alarm ≠ 0 ∧ t.alarm < jiffies
        then t.signal ||| (1 <<< (SIGALRM - 1)) else t.signal) ∧
      (∀ n, t.signal.testBit n = true → t1.signal.testBit n = true) ∧
      t1.blocked = t.blocked ∧
      (t.state = TASK_INTERRUPTIBLE →
        (∃ n, 1 ≤ n ∧ n ≤ 32 ∧ t1.signal.testBit (n - 1) = true ∧
          (t.blocked.testBit (n - 1) = false ∨ n = SIGKILL ∨ n = SIGSTOP)) →
        t1.state = TASK_RUNNING) ∧
      (t.state = TASK_INTERRUPTIBLE →
        (∀ n, 1 ≤ n → n ≤ 32 → t1.signal.testBit (n - 1) = true →
          t.blocked.testBit (n - 1) = true ∧ n ≠ SIGKILL ∧ n ≠ SIGSTOP) →
        t1.state = TASK_INTERRUPTIBLE) ∧
      (t.state ≠ TASK_INTERRUPTIBLE → t1.state = t.state) := by
  have hin : 1 ≤ i ∧ i ≤ NR_TASKS - 1 := by
    have : NR_TASKS = 64 := rfl
    omega
  have hsome : schedule_signals jiffies task i = some (schedule_wake jiffies t) := by
    unfold schedule_signals
    rw [for_each_task_spec, if_pos hin, ht]
    rfl
  refine ⟨schedule_wake jiffies t, hsome, ?_⟩
  -- the task after the alarm step
  obtain ⟨t1, ht1, hs1, hb1, hst1⟩ : ∃ t1 : task_struct,
      t1 = (if t.alarm ≠ 0 ∧ t.alarm < jiffies
        then { t with signal := t.signal ||| (1 <<< (SIGALRM - 1)), alarm := 0 } else t) ∧
      t1.signal = (if t.alarm ≠ 0 ∧ t.alarm < jiffies
        then t.signal ||| (1 <<< (SIGALRM - 1)) else t.signal) ∧
      t1.blocked = t.blocked ∧ t1.state = t.state := by
    refine ⟨_, rfl, ?_, ?_, ?_⟩ <;> split_ifs <;> rfl
  have hw : schedule_wake jiffies t =
      if t1.signal &&& not32 (_BLOCKABLE &&& t1.blocked) ≠ 0 ∧ t1.state = TASK_INTERRUPTIBLE
        then { t1 with state := TASK_RUNNING } else t1 := by
    unfold schedule_wake
    rw [ht1]
  have hsig : (schedule_wake jiffies t).signal = t1.signal := by
    rw [hw]; split_ifs <;> rfl
  have hblk : (schedule_wake jiffies t).blocked = t1.blocked := by
    rw [hw]; split_ifs <;> rfl
  refine ⟨by rw [hsig, hs1], ?_, by rw [hblk, hb1], ?_, ?_, ?_⟩
  · intro n hn
    rw [hsig, hs1]
    split_ifs
    · rw [Nat.testBit_or, hn]; rfl
    · exact hn
  · intro hst hex
    rw [hsig] at hex
    rw [← hb1] at hex
    have hd := (deliverable_iff t1.signal t1.blocked).2 hex
    rw [hw, if_pos ⟨hd, by rw [hst1]; exact hst⟩]
  · intro hst hall
    rw [hsig, ← hb1] at hall
    have hd : ¬ (t1.signal &&& not32 (_BLOCKABLE &&& t1.blocked) ≠ 0) := by
      intro h
      obtain ⟨n, h1, h2, h3, h4⟩ := (deliverable_iff t1.signal t1.blocked).1 h
      obtain ⟨h5, h6, h7⟩ := hall n h1 h2 h3
      rcases h4 with h4 | h4 | h4
      · rw [h5] at h4; exact Bool.noConfusion h4
      · exact h6 h4
      · exact h7 h4
    rw [hw, if_neg (fun h => hd h.1), hst1, hst]
  · intro hst
    rw [hw, if_neg (fun h => hst (by rw [← hst1]; exact h.2)), hst1]

/-- Witness for `schedule_signals_spec`: task 1 of `tasks0` sleeps with SIGKILL
pending and every signal blocked; the first loop makes it RUNNING. -/
theorem schedule_signals_spec_witness :
    ∃ t1, schedule_signals 0 tasks0 1 = some t1 ∧ t1.state = TASK_RUNNING := by
  obtain ⟨t1, h1, h2, -, -, h5, -, -⟩ := schedule_signals_spec 0 tasks0 1
    { task_zero with state := TASK_INTERRUPTIBLE, signal := 256, blocked := 0xFFFFFFFF,
                     counter := 5, priority := 15, pid := 1, pgrp := 5, euid := 1000 }
    (by decide) (by decide) rfl
  refine ⟨t1, h1, h5 rfl ⟨SIGKILL, by decide, by decide, ?_, Or.inr (Or.inl rfl)⟩⟩
  rw [h2]
  decide

/-- C8 fails as stated for SIGSTOP: `sys_ssetmask` with the SIGSTOP bit in
`newmask` leaves that bit set in `blocked`, and `sys_signal` and
`sys_sigaction` with `signum == SIGSTOP` do not return -1 but install the
handler. -/
theorem SIGSTOP_blocked_and_caught :
    (sys_ssetmask task_zero (_S SIGSTOP)).2.blocked.testBit (SIGSTOP - 1) = true ∧
    (sys_signal task_zero SIGSTOP 0x1000 0).1 ≠ -1 ∧
    ((sys_signal task_zero SIGSTOP 0x1000 0).2.sigaction (SIGSTOP - 1)).sa_handler = 0x1000 ∧
    (sys_sigaction task_zero SIGSTOP ⟨0x1000, 0, 0, 0⟩ 0).1 ≠ -1 ∧
    ((sys_sigaction task_zero SIGSTOP ⟨0x1000, 0, 0, 0⟩ 0).2.1.sigaction (SIGSTOP - 1)).sa_handler
      = 0x1000 := by
  decide

/-- C8, amended to SIGKILL: for every task and every argument, after
`sys_ssetmask(newmask)` the SIGKILL bit is clear in `blocked`, and
`sys_signal` and `sys_sigaction` with `signum == SIGKILL` return -1 and leave
the task, its disposition table included, as it was. -/
theorem SIGKILL_not_blocked_nor_caught (current : task_struct) (newmask handler restorer : Nat)
    (action : sigaction) (oldaction : Nat) :
    (sys_ssetmask current newmask).2.blocked.testBit (SIGKILL - 1) = false ∧
    sys_signal current SIGKILL handler restorer = (-1, current) ∧
    sys_sigaction current SIGKILL action oldaction = (-1, current, none) := by
  refine ⟨?_, ?_, ?_⟩
  · show (newmask &&& not32 (1 <<< (SIGKILL - 1))).testBit (SIGKILL - 1) = false
    rw [Nat.testBit_and, testBit_not32]
    have : (1 <<< (SIGKILL - 1)).testBit (SIGKILL - 1) = true := by decide
    rw [this]
    simp
  · simp [sys_signal]
  · simp [sys_sigaction]

/-- C10 fails on the code: in `tasks0` the runnable task of slot 2 is in
process group 5 and shares the caller's effective uid, yet
`sys_kill(-5, SIGKILL)` returns 0 with the pending-signal word of that task
(and of every other task) as before, bit `SIGKILL-1` clear. -/
theorem sys_kill_group_signals_nobody :
    (tasks0 2).map (fun t => (t.pgrp, t.euid)) = some (5, current0.euid) ∧
    (sys_kill current0 tasks0 (-5) 9).1 = 0 ∧
    ((sys_kill current0 tasks0 (-5) 9).2 2).map (fun t => t.signal.testBit 8) = some false ∧
    (sys_kill current0 tasks0 (-5) 9).2 = tasks0 := by
  refine ⟨by decide, by decide, by decide, rfl⟩

/-- C9: for a signal whose handler is neither SIG_DFL (0) nor SIG_IGN (1),
`do_signal` returns with the user stack pointer lowered by 7 longs when
SA_NOMASK is set and by 8 otherwise; from the new stack pointer upwards the
stack holds `sa_restorer`, `signr`, the old blocked mask (only when SA_NOMASK
is clear), `eax`, `ecx`, `edx`, `eflags` and the original `eip`, and nothing
else was written; the return `eip` is the handler; `sa_mask` is ORed into
`blocked`; `sa_handler` is reset to 0 exactly when SA_ONESHOT is set and the
rest of the disposition table is as before.  With the handler SIG_IGN, or
SIG_DFL and `signr == SIGCHLD`, it returns with the task, `eip`, `esp` and
the stack unchanged. -/
theorem do_signal_spec (current : task_struct) (umem : Nat → Byte)
    (signr eax ebx ecx edx fs es ds eip cs eflags esp ss : Nat) (sa : sigaction)
    (hsa : sa = current.sigaction (signr - 1)) :
    (sa.sa_handler ≠ 0 → sa.sa_handler ≠ 1 → 32 ≤ esp → esp < 4294967296 →
      ∃ t2 esp2 umem2,
        do_signal current umem signr eax ebx ecx edx fs es ds eip cs eflags esp ss
          = .returned t2 sa.sa_handler esp2 umem2 ∧
        esp2 = esp - 4 * (if sa.sa_flags &&& SA_NOMASK ≠ 0 then 7 else 8) ∧
        get_long umem2 esp2 = sa.sa_restorer % 4294967296 ∧
        get_long umem2 (esp2 + 4) = signr % 4294967296 ∧
        (sa.sa_flags &&& SA_NOMASK ≠ 0 →
          get_long umem2 (esp2 + 8) = eax % 4294967296 ∧
          get_long umem2 (esp2 + 12) = ecx % 4294967296 ∧
          get_long umem2 (esp2 + 16) = edx % 4294967296 ∧
          get_long umem2 (esp2 + 20) = eflags % 4294967296 ∧
          get_long umem2 (esp2 + 24) = eip % 4294967296) ∧
        (sa.sa_flags &&& SA_NOMASK = 0 →
          get_long umem2 (esp2 + 8) = current.blocked % 4294967296 ∧
          get_long umem2 (esp2 + 12) = eax % 4294967296 ∧
          get_long umem2 (esp2 + 16) = ecx % 4294967296 ∧
          get_long umem2 (esp2 + 20) = edx % 4294967296 ∧
          get_long umem2 (esp2 + 24) = eflags % 4294967296 ∧
          get_long umem2 (esp2 + 28) = eip % 4294967296) ∧
        (∀ x, (x < esp2 ∨ esp ≤ x) → umem2 x = umem x) ∧
        t2.blocked = current.blocked ||| sa.sa_mask ∧
        t2.signal = current.signal ∧
        t2.sigaction (signr - 1) =
          { sa with sa_handler := if sa.sa_flags &&& SA_ONESHOT ≠ 0 then 0 else sa.sa_handler } ∧
        (∀ n, n ≠ signr - 1 → t2.sigaction n = current.sigaction n)) ∧
    ((sa.sa_handler = 1 ∨ (sa.sa_handler = 0 ∧ signr = SIGCHLD)) →
      do_signal current umem signr eax ebx ecx edx fs es ds eip cs eflags esp ss
        = .returned current eip esp umem) := by
  constructor
  · intro h0 h1 he1 he2
    rw [hsa] at h0 h1
    -- the task after the SA_ONESHOT step, and its disposition for `signr`
    obtain ⟨c1, hc1⟩ : ∃ c1 : task_struct, c1 = (if sa.sa_flags &&& SA_ONESHOT ≠ 0
        then { current with
          sigaction := Function.update current.sigaction (signr - 1) { sa with sa_handler := 0 } }
        else current) := ⟨_, rfl⟩
    have hc1b : c1.blocked = current.blocked := by rw [hc1]; split_ifs <;> rfl
    have hc1s : c1.signal = current.signal := by rw [hc1]; split_ifs <;> rfl
    have hc1a : c1.sigaction (signr - 1) =
        { sa with sa_handler := if sa.sa_flags &&& SA_ONESHOT ≠ 0 then 0 else sa.sa_handler } := by
      rw [hc1]
      split_ifs
      · simp
      · rw [hsa]
    have hc1o : ∀ n, n ≠ signr - 1 → c1.sigaction n = current.sigaction n := by
      intro n hn
      rw [hc1]
      split_ifs
      · simp [Function.update_noteq hn]
      · rfl
    have hfl : (c1.sigaction (signr - 1)).sa_flags = sa.sa_flags := by rw [hc1a]
    have hm : (c1.sigaction (signr - 1)).sa_mask = sa.sa_mask := by rw [hc1a]
    have hre : (c1.sigaction (signr - 1)).sa_restorer = sa.sa_restorer := by rw [hc1a]
    have hunf : do_signal current umem signr eax ebx ecx edx fs es ds eip cs eflags esp ss =
        (let sa2 := c1.sigaction (signr - 1)
         let longs := if sa2.sa_flags &&& SA_NOMASK ≠ 0 then 7 else 8
         let esp2 := sub32 esp (4 * longs)
         let m1 := put_long umem esp2 sa2.sa_restorer
         let m2 := put_long m1 (esp2 + 4) signr
         let r := if sa2.sa_flags &&& SA_NOMASK = 0
           then (put_long m2 (esp2 + 4 + 4) c1.blocked, esp2 + 4 + 4 + 4) else (m2, esp2 + 4 + 4)
         let m3 := put_long r.1 r.2 eax
         let m4 := put_long m3 (r.2 + 4) ecx
         let m5 := put_long m4 (r.2 + 4 + 4) edx
         let m6 := put_long m5 (r.2 + 4 + 4 + 4) eflags
         let m7 := put_long m6 (r.2 + 4 + 4 + 4 + 4) eip
         SignalResult.returned { c1 with blocked := c1.blocked ||| sa2.sa_mask }
           (current.sigaction (signr - 1)).sa_handler esp2 m7) := by
      unfold do_signal
      simp only [h0, h1, if_false]
      rw [hc1, hsa]
    by_cases hnm : sa.sa_flags &&& SA_NOMASK ≠ 0
    · have hnm2 : ¬ (sa.sa_flags &&& SA_NOMASK = 0) := hnm
      have hs : sub32 esp (4 * 7) = esp - 28 := sub32_eq _ _ (by omega) he2
      have hl : (if sa.sa_flags &&& SA_NOMASK ≠ 0 then 7 else 8) = 7 := if_pos hnm
      rw [hl]
      refine ⟨?t2, ?e2, ?m2, ?heq, ?_, ?_, ?_, fun _ => ⟨?_, ?_, ?_, ?_, ?_⟩,
        fun h => absurd h hnm2, ?_, ?_, ?_, ?_, ?_⟩
      case heq =>
        rw [hunf]
        simp only [hfl, hm, hre, hc1b, hnm, hnm2, if_true, if_false, hs, ne_eq,
          not_false_eq_true, ← hsa]
        exact rfl
      · rfl
      · repeat rw [get_put_long_other _ _ _ _ (by omega)]
        rw [get_put_long_same]
      · repeat rw [get_put_long_other _ _ _ _ (by omega)]
        rw [get_put_long_same]
      · repeat rw [get_put_long_other _ _ _ _ (by omega)]
        rw [get_put_long_same]
      · repeat rw [get_put_long_other _ _ _ _ (by omega)]
        rw [get_put_long_same]
      · repeat rw [get_put_long_other _ _ _ _ (by omega)]
        rw [get_put_long_same]
      · repeat rw [get_put_long_other _ _ _ _ (by omega)]
        rw [get_put_long_same]
      · rw [get_put_long_same]
      · intro x hx
        repeat rw [put_long_other _ _ _ _ (by omega)]
      · rfl
      · exact hc1s
      · simpa [hnm] using hc1a
      · exact hc1o
    · have hnm2 : sa.sa_flags &&& SA_NOMASK = 0 := by simpa using hnm
      have hs : sub32 esp (4 * 8) = esp - 32 := sub32_eq _ _ (by omega) he2
      have hl : (if sa.sa_flags &&& SA_NOMASK ≠ 0 then 7 else 8) = 8 := if_neg hnm
      rw [hl]
      refine ⟨?t3, ?e3, ?m3, ?heq3, ?_, ?_, ?_, fun h => absurd hnm2 h,
        fun _ => ⟨?_, ?_, ?_, ?_, ?_, ?_⟩, ?_, ?_, ?_, ?_, ?_⟩
      case heq3 =>
        rw [hunf]
        simp only [hfl, hm, hre, hc1b, hnm2, if_true, if_false, hs, ne_eq,
          not_true_eq_false, ← hsa]
        exact rfl
      · rfl
      · repeat rw [get_put_long_other _ _ _ _ (by omega)]
        rw [get_put_long_same]
      · repeat rw [get_put_long_other _ _ _ _ (by omega)]
        rw [get_put_long_same]
      · repeat rw [get_put_long_other _ _ _ _ (by omega)]
        rw [get_put_long_same]
      · repeat rw [get_put_long_other _ _ _ _ (by omega)]
        rw [get_put_long_same]
      · repeat rw [get_put_long_other _ _ _ _ (by omega)]
        rw [get_put_long_same]
      · repeat rw [get_put_long_other _ _ _ _ (by omega)]
        rw [get_put_long_same]
      · repeat rw [get_put_long_other _ _ _ _ (by omega)]
        rw [get_put_long_same]
      · rw [get_put_long_same]
      · intro x hx
        repeat rw [put_long_other _ _ _ _ (by omega)]
      · rfl
      · exact hc1s
      · simpa [hnm2] using hc1a
      · exact hc1o
  · intro h
    rw [hsa] at h
    unfold do_signal
    rcases h with h | ⟨h1, h2⟩
    · simp only [h, if_true]
    · have hn1 : ¬ ((current.sigaction (signr - 1)).sa_handler = 1) := by rw [h1]; decide
      rw [if_neg hn1, if_pos h1, if_pos h2]

/-- Witness for `do_signal_spec`: signal 2 is delivered to `task_sig` with the
user stack pointer at 0x3000000; SA_NOMASK is clear, so 8 longs are pushed and
the third is the old blocked mask 3; the mask becomes 7 and the one-shot
handler is reset. -/
theorem do_signal_spec_witness :
    ∃ t2 umem2,
      do_signal task_sig (fun _ => 0) 2 1 2 3 4 0 0 0 0x500 0 0x200 0x3000000 0
        = .returned t2 0x1000 (0x3000000 - 32) umem2 ∧
      get_long umem2 (0x3000000 - 32 + 8) = 3 ∧ t2.blocked = 7 ∧
      (t2.sigaction 1).sa_handler = 0 := by
  obtain ⟨t2, esp2, umem2, h1, h2, -, -, -, h6, -, h8, -, h10, -⟩ :=
    (do_signal_spec task_sig (fun _ => 0) 2 1 2 3 4 0 0 0 0x500 0 0x200 0x3000000 0
      ⟨0x1000, 4, SA_ONESHOT, 0x2000⟩ rfl).1 (by decide) (by decide) (by decide) (by decide)
  have he : esp2 = 0x3000000 - 32 := by rw [h2]; decide
  subst he
  refine ⟨t2, umem2, h1, (h6 (by decide)).1, by rw [h8]; decide, ?_⟩
  have : t2.sigaction (2 - 1) = ⟨0, 4, SA_ONESHOT, 0x2000⟩ := by rw [h10]; decide
  exact congrArg sigaction.sa_handler this

/-- C11: when the caller (slot `cur`) has a ZOMBIE child in slot `z` that
matches the pid/group rule, and no matching child in a higher slot is ZOMBIE
or is STOPPED with WUNTRACED requested, `sys_waitpid` returns the pid of that
child without sleeping, with its exit code stored at `stat_addr`, the page of
its task structure given back by `free_page`, slot `z` empty, every other slot
occupied exactly when it was before, the caller's `cutime` and `cstime`
raised by the child's `utime` and `stime`, and in every other task nothing
changed but what the `schedule()` inside `release` sets (`state`, `counter`,
`signal`, `alarm`).  The pointers in the task table are distinct and not
NULL, `free_page` finds the page in use, and the priorities are positive, as
`sys_nice` keeps them, so that the `schedule()` inside `release` returns;
nothing is assumed of the counters. -/
theorem sys_waitpid_zombie (page : Nat → Nat) (jiffies : Int) (cur : Nat) (pid : Int)
    (stat_addr options sfuel fuel : Nat) (s : WaitState) (c ch : task_struct) (z : Nat)
    (hcur : s.task cur = some c) (hz1 : 1 ≤ z) (hz2 : z < NR_TASKS)
    (hch : s.task z = some ch) (hm : waitpid_skip cur c pid z ch = false)
    (hs : ch.state = TASK_ZOMBIE)
    (hhigh : ∀ j t, z < j → j < NR_TASKS → s.task j = some t →
      waitpid_skip cur c pid j t = false →
      t.state ≠ TASK_ZOMBIE ∧ (t.state = TASK_STOPPED → options &&& WUNTRACED = 0))
    (hpage : ∀ j, 1 ≤ j → j < z → (s.task j).isSome → page j ≠ page z)
    (hnz : page z ≠ 0)
    (hfree : (free_page s.mm (page z)).isPanic = false)
    (hinv : ∀ i t, 1 ≤ i → i < NR_TASKS → s.task i = some t →
      0 < t.priority ∧ t.priority < 2147483648) :
    ∃ task2, sys_waitpid page jiffies cur pid stat_addr options (sfuel + 2) (fuel + 1) s
        = .ok (ch.pid, { mm := (free_page s.mm (page z)).state, task := task2, umem := put_long s.umem stat_addr (of_long ch.exit_code), slept := s.slept }) ∧
      task2 z = none ∧
      (∀ i, i ≠ z → (task2 i).isSome = (s.task i).isSome) ∧
      (task2 cur).map (fun t => (t.cutime, t.cstime))
        = some (wrap_long (c.cutime + ch.utime), wrap_long (c.cstime + ch.stime)) ∧
      (∀ i, i ≠ z → i ≠ cur → sched_same (s.task i) (task2 i)) := by
  have hN : NR_TASKS = 64 := rfl
  have hzc : z ≠ cur := waitpid_skip_ne cur c pid z ch hm
  obtain ⟨c2, hc2⟩ : ∃ c2, c2 = ({ c with cutime := wrap_long (c.cutime + ch.utime), cstime := wrap_long (c.cstime + ch.stime) } : task_struct) := ⟨_, rfl⟩
  obtain ⟨T1, hT1⟩ : ∃ T1, T1 = Function.update s.task cur (some c2) := ⟨_, rfl⟩
  obtain ⟨T2, hT2⟩ : ∃ T2, T2 = Function.update T1 z none := ⟨_, rfl⟩
  have hT2i : ∀ i t, 1 ≤ i → i < NR_TASKS → T2 i = some t →
      0 < t.priority ∧ t.priority < 2147483648 := by
    intro i t h1 h2 ht
    rw [hT2] at ht
    by_cases hiz : i = z
    · subst hiz
      rw [Function.update_same] at ht
      exact Option.noConfusion ht
    · rw [Function.update_noteq hiz, hT1] at ht
      by_cases hic : i = cur
      · subst hic
        rw [Function.update_same] at ht
        cases ht
        rw [hc2]
        exact hinv i c h1 h2 hcur
      · rw [Function.update_noteq hic] at ht
        exact hinv i t h1 h2 ht
  obtain ⟨r, hr⟩ : ∃ r, schedule jiffies T2 (sfuel + 2) = some r := by
    obtain ⟨next, h | h⟩ := schedule_passes jiffies T2 sfuel hT2i
    · exact ⟨_, h⟩
    · exact ⟨_, h⟩
  have hfind : release_find page T1 (page z) 1 (NR_TASKS - 1) = some z := by
    apply release_find_spec page T1 z _ _ _ hz1 (by omega)
    · intro j h1 h2 h3
      apply hpage j h1 h2
      rw [hT1] at h3
      by_cases hjc : j = cur
      · subst hjc; rw [hcur]; rfl
      · rw [Function.update_noteq hjc] at h3; exact h3
    · rw [hT1, Function.update_noteq hzc, hch]; rfl
  have hscan := waitpid_scan_zombie cur c s.task pid options z ch hz1 hch hm hs
    (NR_TASKS - 1) 0 (by omega) (fun j t h1 h2 => hhigh j t h1 (by omega))
  have hrel : release page jiffies s.mm T1 (page z) (sfuel + 2)
      = .ok ((free_page s.mm (page z)).state, r.1) := by
    unfold release
    rw [if_neg hnz, hfind]
    simp only []
    rw [free_page_ret s.mm (page z) hfree]
    simp only []
    rw [← hT2, hr]
    rfl
  have hsame := schedule_same jiffies T2 (sfuel + 2) r hr
  refine ⟨r.1, ?_, ?_, ?_, ?_, ?_⟩
  · unfold sys_waitpid
    rw [hcur]
    simp only []
    rw [hscan]
    simp only []
    rw [← hc2, ← hT1, hrel]
  · have := hsame z
    rw [hT2, Function.update_same] at this
    cases h : r.1 z with
    | none => rfl
    | some u => rw [h] at this; exact this.elim
  · intro i hi
    rw [sched_same_isSome _ _ (hsame i), hT2, Function.update_noteq hi, hT1]
    by_cases hic : i = cur
    · subst hic; rw [Function.update_same, hcur]; rfl
    · rw [Function.update_noteq hic]
  · have := hsame cur
    rw [hT2, Function.update_noteq (Ne.symm hzc), hT1, Function.update_same] at this
    cases h : r.1 cur with
    | none => rw [h] at this; exact this.elim
    | some u =>
      rw [h] at this
      unfold sched_same at this
      simp only [] at this
      rw [this, hc2]
      rfl
  · intro i hi hic
    have := hsame i
    rw [hT2, Function.update_noteq hi, hT1, Function.update_noteq hic] at this
    exact this

/-- Witness for `sys_waitpid_zombie`: in `tasks1` the caller of slot 1 waits
for any child; the zombie child of slot 3 is reaped. -/
theorem sys_waitpid_zombie_witness :
    ∃ task2, sys_waitpid page0 0 1 (-1) 0x5000 0 2 1 ⟨mm0, tasks1, fun _ => 0, 0⟩
        = .ok (3, { mm := (free_page mm0 (page0 3)).state, task := task2, umem := put_long (fun _ => 0) 0x5000 (of_long 0x100), slept := 0 }) ∧
      task2 3 = none ∧
      (∀ i, i ≠ 3 → (task2 i).isSome = (tasks1 i).isSome) ∧
      (task2 1).map (fun t => (t.cutime, t.cstime)) = some (15, 27) := by
  obtain ⟨task2, h1, h2, h3, h4, -⟩ := sys_waitpid_zombie page0 0 1 (-1) 0x5000 0 0 0
    ⟨mm0, tasks1, fun _ => 0, 0⟩
    { task_zero with counter := 9, priority := 15, pid := 1, pgrp := 1, cutime := 10, cstime := 20 }
    { task_zero with state := TASK_ZOMBIE, counter := 3, priority := 15, pid := 3, father := 1, pgrp := 1, exit_code := 0x100, utime := 5, stime := 7 }
    3 rfl (by decide) (by decide) rfl (by decide) rfl
    (fun j t h1 h2 ht => by
      have ht : tasks1 j = some t := ht
      unfold tasks1 at ht
      split_ifs at ht <;> first
        | exact Option.noConfusion ht
        | omega
        | (cases ht; intro _; exact ⟨by decide, by decide⟩))
    (fun j h1 h2 _ => by unfold page0; omega)
    (by decide) (by decide)
    (fun i t _ _ ht => by
      have ht : tasks1 i = some t := ht
      unfold tasks1 at ht
      split_ifs at ht <;> first
        | exact Option.noConfusion ht
        | (cases ht; decide))
  exact ⟨task2, h1, h2, h3, h4⟩

/-- C12 fails as stated: in `tasks1` no task is a child of the task of slot 4,
and `sys_waitpid(-1, stat_addr, WNOHANG)` called by that task returns -ECHILD,
not 0. -/
theorem sys_waitpid_no_child_ECHILD :
    (∀ i t, tasks1 i = some t → t.father ≠ 4) ∧
    sys_waitpid page0 0 4 (-1) 0x5000 WNOHANG 2 1 ⟨mm0, tasks1, fun _ => 0, 0⟩
      = .ok (-ECHILD, ⟨mm0, tasks1, fun _ => 0, 0⟩) := by
  refine ⟨fun i t ht => ?_, rfl⟩
  unfold tasks1 at ht
  split_ifs at ht <;> first
    | exact Option.noConfusion ht
    | (cases ht; decide)

set_option linter.unusedVariables false in
/-- C12 amended: when no task of slots 1..NR_TASKS-1 other than the caller is
a child of the caller that matches the pid/group rule, `sys_waitpid` with
WNOHANG set returns -ECHILD without sleeping and leaves the task table, the
page counts and the user memory as they were. -/
theorem sys_waitpid_no_child (page : Nat → Nat) (jiffies : Int) (cur : Nat) (pid : Int)
    (stat_addr options sfuel fuel : Nat) (s : WaitState) (c : task_struct)
    (hcur : s.task cur = some c)
    (hno : ∀ i t, 1 ≤ i → i < NR_TASKS → s.task i = some t →
      waitpid_skip cur c pid i t = true)
    (hopt : options &&& WNOHANG ≠ 0) :
    sys_waitpid page jiffies cur pid stat_addr options sfuel (fuel + 1) s
      = .ok (-ECHILD, s) := by
  have hN : NR_TASKS = 64 := rfl
  unfold sys_waitpid
  rw [hcur]
  simp only []
  rw [waitpid_scan_none cur c s.task pid options (NR_TASKS - 1) 0
    (fun i t h1 h2 => hno i t h1 (by omega))]
  simp

/-- Witness for `sys_waitpid_no_child`: the task of slot 4 of `tasks1` has no
child. -/
theorem sys_waitpid_no_child_witness :
    sys_waitpid page0 0 4 (-1) 0x5000 WNOHANG 2 1 ⟨mm0, tasks1, fun _ => 0, 0⟩
      = .ok (-ECHILD, ⟨mm0, tasks1, fun _ => 0, 0⟩) :=
  sys_waitpid_no_child page0 0 4 (-1) 0x5000 WNOHANG 2 0 ⟨mm0, tasks1, fun _ => 0, 0⟩
    { task_zero with counter := 7, priority := 15, pid := 4, pgrp := 1 } rfl
    (fun i t _ _ ht => by
      have ht : tasks1 i = some t := ht
      unfold tasks1 at ht
      split_ifs at ht <;> first
        | exact Option.noConfusion ht
        | (cases ht; subst_vars; decide))
    (by decide)

/-- C13: for `0 <= block < 7 + 512 + 512*512`, on a device whose blocks can be
read, `bmap(inode, block)` returns `i_zone[block]` for `block < 7`, entry
`block - 7` of block `i_zone[7]` for `block < 519`, and otherwise, with `b =
block - 519`, entry `b mod 512` of the block whose number is entry `b div 512`
of block `i_zone[8]`; it returns 0 when a zone number on that path is 0.  The
state it leaves differs from the one before at most in which buffers have
been read in: the inode table, the devices, the contents of every block (the
zone bitmap among them), the superblocks and the reference counts are as
before, and no block was allocated or freed. -/
theorem bmap_spec (s : Fs) (inode : Nat) (block : Int) (h0 : 0 ≤ block)
    (h1 : block < 7 + 512 + 512 * 512)
    (hr : ∀ b, readable s ((s.inode_table inode).i_dev, b)) :
    ∃ t, bmap s inode block = .ok ((bmap_by_spec s inode block.toNat : Nat), t) ∧
      same_view s t := by
  obtain ⟨b, rfl⟩ := Int.eq_ofNat_of_zero_le h0
  have hb : b < 7 + 512 + 512 * 512 := by omega
  simp only [Int.toNat_ofNat]
  unfold bmap _bmap bmap_by_spec
  rw [if_neg (by omega), if_neg (by omega)]
  by_cases h7 : b < 7
  · rw [if_pos (by omega), bmap_zone_read, if_pos h7]
    simp only [Int.toNat_ofNat]
    exact ⟨s, rfl, same_view_refl s⟩
  · rw [if_neg (by omega)]
    simp only [if_neg h7]
    by_cases h519 : b < 519
    · have e1 : ((b : Int) - 7).toNat = b - 7 := by omega
      rw [if_pos (by omega), bmap_zone_read, if_pos h519, e1]
      simp only []
      obtain ⟨t, ht, hv⟩ := bmap_indirect_read s inode ((s.inode_table inode).i_zone 7) (b - 7)
        (hr _)
      exact ⟨t, ht, hv⟩
    · have e1 : ((b : Int) - 7 - 512).toNat = b - 519 := by omega
      rw [if_neg (by omega), bmap_zone_read, if_neg h519, e1]
      simp only []
      obtain ⟨t, ht, hv⟩ := bmap_indirect_read s inode ((s.inode_table inode).i_zone 8)
        ((b - 519) >>> 9) (hr _)
      rw [ht]
      simp only []
      have hinode : t.inode_table = s.inode_table := hv.2.2.2.1
      have hrt : readable t ((t.inode_table inode).i_dev, of_long ((if (s.inode_table inode).i_zone 8 = 0 then 0 else get_word (block_data s ((s.inode_table inode).i_dev, (s.inode_table inode).i_zone 8)) ((b - 519) >>> 9) : Nat) : Int)) := by
        rw [hinode]
        exact same_view_readable s t hv _ (hr _)
      obtain ⟨u, hu, hw⟩ := bmap_indirect_read t inode _ ((b - 519) &&& 511) hrt
      rw [hu]
      refine ⟨u, ?_, same_view_trans s t u hv hw⟩
      have hshift : (b - 519) >>> 9 = (b - 519) / 512 := Nat.shiftRight_eq_div_pow _ 9
      have hand : (b - 519) &&& 511 = (b - 519) % 512 := Nat.and_pow_two_sub_one_eq_mod _ 9
      rw [hshift, hand, hinode]
      by_cases hz : (s.inode_table inode).i_zone 8 = 0
      · simp [hz, of_long]
      · simp only [if_neg hz]
        rw [of_long_natCast _ (by have := get_word_lt (block_data s ((s.inode_table inode).i_dev, (s.inode_table inode).i_zone 8)) ((b - 519) / 512); omega)]
        rw [(hv.2.2.2.2.2.2.2.2 _).1]

/-- Witness for `bmap_spec`: block 8 of the file of inode slot 2 of `fs0` is
entry 1 of the single-indirect block 14, which is 16. -/
theorem bmap_spec_witness :
    ∃ t, bmap fs0 2 8 = .ok (16, t) ∧ same_view fs0 t :=
  bmap_spec fs0 2 8 (by decide) (by decide) (fun _ => Or.inr rfl)

/-- C14: `file_write` of `n` bytes (`0 < n <= 519*1024`) at position 0 to an
empty file (all zones 0, size 0) of a mounted device whose lowest free zones
are those of `L`, as many as `ceil(n/1024)` plus one when `n > 7*1024`,
returns `n` and leaves `i_size == n`.  It makes exactly the `new_block` calls
that hand out the zones of `L`, in order (and no `free_block` call): one per
data block, and as the eighth one the single-indirect block, which exists
(`i_zone[7]` not 0) exactly when `n > 7*1024`.  The zone bitmap afterwards is
the one before with exactly the bits of `L` added.  For `n = 7168` this gives
7 allocations and `i_zone[7] == 0`, for `n = 7169` it gives 9 and `i_zone[7]`
not 0, for `n = 9000` it gives 10 allocations and 10 new bits. -/
theorem file_write_spec (umem : Nat → Byte) (s : Fs) (ino : Nat) (filp : file)
    (buf n dev sbi : Nat) (L : List Nat) (hn0 : 0 < n) (hn1 : n ≤ 519 * 1024)
    (hdev : (s.inode_table ino).i_dev = dev)
    (hz : ∀ j, j < 9 → (s.inode_table ino).i_zone j = 0)
    (hsize : (s.inode_table ino).i_size = 0) (hpos : filp.f_pos = 0)
    (hfree : zones_free s dev sbi L)
    (hlen : L.length = (n + 1023) / 1024 + (if 7 * 1024 < n then 1 else 0)) :
    ∃ t f, file_write umem s ino filp buf n = .ok ((n : Int), t, f) ∧
      (t.inode_table ino).i_size = n ∧
      t.calls = s.calls ++ L.map (fun b =>
        FsCall.new_block dev (b + (s.super_block sbi).s_firstdatazone - 1)) ∧
      ((t.inode_table ino).i_zone 7 = 0 ↔ n ≤ 7 * 1024) ∧
      (7 * 1024 < n → ∃ b7, L.get? 7 = some b7 ∧
        (t.inode_table ino).i_zone 7 = b7 + (s.super_block sbi).s_firstdatazone - 1) ∧
      (∀ x, zone_bit t (s.super_block sbi) x
        = (zone_bit s (s.super_block sbi) x || decide (x ∈ L))) := by
  have hinit : fw_inv s L dev sbi ino s 0 [] L := by
    refine ⟨hfree, rfl, hdev, hsize, fun j _ hj => hz j (by omega), fun _ => hz 7 (by omega),
      fun h => by omega, rfl, rfl, by simp, fun x => by simp⟩
  obtain ⟨t, A2, L2, hloop, hfin⟩ := file_write_loop_spec umem s L dev sbi ino n hn1 hlen
    n s 0 buf [] L hinit (by omega) (Or.inl rfl) (by omega)
  obtain ⟨h1, h2, h3, h4, h5, h6, h7, h11, h12, h13, h14⟩ := hfin
  have hA : A2 = L := by
    have hl : A2.length = L.length := by rw [h12, hlen]
    have hl2 : L2.length = 0 := by
      have := congrArg List.length h11
      rw [List.length_append] at this
      omega
    rw [List.length_eq_zero] at hl2
    rw [hl2, List.append_nil] at h11
    exact h11
  subst hA
  have hpos0 : (if filp.f_flags &&& O_APPEND ≠ 0 then (s.inode_table ino).i_size else filp.f_pos)
      = 0 := by
    split_ifs
    · exact hsize
    · exact hpos
  have hz7 : (t.inode_table ino).i_zone 7 = 0 ↔ n ≤ 7 * 1024 := by
    constructor
    · intro h0
      by_contra hgt
      obtain ⟨b7, -, g2, g3, -⟩ := h7 (by omega)
      rw [g2] at h0
      exact g3 h0
    · intro hle
      exact h6 (by omega)
  have hb7 : 7 * 1024 < n → ∃ b7, A2.get? 7 = some b7 ∧
      (t.inode_table ino).i_zone 7 = b7 + (s.super_block sbi).s_firstdatazone - 1 := by
    intro hgt
    obtain ⟨b7, g1, g2, -⟩ := h7 (by omega)
    exact ⟨b7, g1, g2⟩
  have hnn : ((if n ≠ 0 then (n : Int) else -1) : Int) = n := by
    rw [if_pos (by omega)]
  unfold file_write
  simp only []
  rw [hpos0, hloop]
  simp only []
  by_cases hap : filp.f_flags &&& O_APPEND = 0
  · rw [if_pos hap, hnn]
    refine ⟨_, _, rfl, ?_, h13, ?_, ?_, h14⟩
    · simp only [set_inode, Function.update_same]; exact h4
    · simp only [set_inode, Function.update_same]; exact hz7
    · simp only [set_inode, Function.update_same]; exact hb7
  · rw [if_neg hap, hnn]
    refine ⟨_, _, rfl, ?_, h13, ?_, ?_, h14⟩
    · simp only [set_inode, Function.update_same]; exact h4
    · simp only [set_inode, Function.update_same]; exact hz7
    · simp only [set_inode, Function.update_same]; exact hb7

/-- Witness for `file_write_spec`: 9000 bytes written to the empty file of
inode slot 1 of `fs0`, whose lowest free zones are the bitmap positions
12..21, take the blocks 17..26 in 10 `new_block` calls, the eighth of them
(block 24) for the single-indirect block. -/
theorem file_write_spec_witness :
    ∃ t f, file_write (fun _ => 65) fs0 1 file0 0 9000 = .ok (9000, t, f) ∧
      (t.inode_table 1).i_size = 9000 ∧
      t.calls = [FsCall.new_block 0x301 17, FsCall.new_block 0x301 18,
        FsCall.new_block 0x301 19, FsCall.new_block 0x301 20, FsCall.new_block 0x301 21,
        FsCall.new_block 0x301 22, FsCall.new_block 0x301 23, FsCall.new_block 0x301 24,
        FsCall.new_block 0x301 25, FsCall.new_block 0x301 26] ∧
      (t.inode_table 1).i_zone 7 = 24 := by
  obtain ⟨t, f, h1, h2, h3, -, h5, -⟩ := file_write_spec (fun _ => 65) fs0 1 file0 0 9000 0x301 0
    [12, 13, 14, 15, 16, 17, 18, 19, 20, 21] (by decide) (by decide) rfl (fun _ _ => rfl) rfl rfl
    fs0_zones_free rfl
  obtain ⟨b7, g1, g2⟩ := h5 (by decide)
  cases g1
  exact ⟨t, f, h1, h2, h3, g2⟩

/-- C15: on an inode that is neither a regular file nor a directory `truncate`
returns with the state as it was.  On a regular file or directory whose
reachable zones can be freed (`tr_wf`: the device is mounted, every reachable
non-zero zone number lies in the data zone, has its bitmap bit set, can be
read and occurs once), `truncate` returns, and the `free_block` calls it made
are exactly one for every non-zero zone of `zones_of`, in this order: the
direct zones, the non-zero entries of the single-indirect block and that
block, for every non-zero entry of the double-indirect block the non-zero
entries of that second-level block and the block itself, and the
double-indirect block.  Afterwards `i_zone[0..8]` are 0, `i_size` is 0 and
`i_dirt` is 1; mode, device, number, link and reference count of the inode
and all other inodes are as before. -/
theorem truncate_spec (s : Fs) (ino dev sbi : Nat) (hdev : (s.inode_table ino).i_dev = dev) :
    (¬ (S_ISREG (s.inode_table ino).i_mode = true ∨ S_ISDIR (s.inode_table ino).i_mode = true) →
      truncate s ino = .ok s) ∧
    ((S_ISREG (s.inode_table ino).i_mode = true ∨ S_ISDIR (s.inode_table ino).i_mode = true) →
      tr_wf s dev sbi (zones_of s ino) →
      ∃ t, truncate s ino = .ok t ∧
        t.calls = s.calls ++ (zones_of s ino).map (FsCall.free_block dev) ∧
        (∀ j, j < 9 → (t.inode_table ino).i_zone j = 0) ∧
        (t.inode_table ino).i_size = 0 ∧ (t.inode_table ino).i_dirt = 1 ∧
        (t.inode_table ino).i_mode = (s.inode_table ino).i_mode ∧
        (t.inode_table ino).i_dev = (s.inode_table ino).i_dev ∧
        (t.inode_table ino).i_num = (s.inode_table ino).i_num ∧
        (t.inode_table ino).i_nlinks = (s.inode_table ino).i_nlinks ∧
        (t.inode_table ino).i_count = (s.inode_table ino).i_count ∧
        ∀ k, k ≠ ino → t.inode_table k = s.inode_table k) := by
  constructor
  · intro h
    unfold truncate
    rw [if_pos h]
  · intro htype hwf
    have hZ : zones_of s ino
        = ((List.range' 0 7).map (s.inode_table ino).i_zone).filter (fun z => decide (z ≠ 0))
          ++ zones_ind s dev ((s.inode_table ino).i_zone 7)
          ++ zones_dind s dev ((s.inode_table ino).i_zone 8) := by
      unfold zones_of zone_entries_of_inode
      rw [hdev, List.range_eq_range']
    obtain ⟨E1, hE1⟩ : ∃ E1, E1 = ((List.range' 0 7).map (s.inode_table ino).i_zone).filter
        (fun z => decide (z ≠ 0)) := ⟨_, rfl⟩
    rw [← hE1] at hZ
    have hnd : (E1 ++ zones_ind s dev ((s.inode_table ino).i_zone 7)
        ++ zones_dind s dev ((s.inode_table ino).i_zone 8)).Nodup := by
      rw [← hZ]; exact hwf.2.2.2.2
    have hmem : ∀ x, x ∈ E1 ++ zones_ind s dev ((s.inode_table ino).i_zone 7)
        ++ zones_dind s dev ((s.inode_table ino).i_zone 8) → x ∈ zones_of s ino := by
      intro x hx; rw [hZ]; exact hx
    have hnd1 : (E1 ++ zones_ind s dev ((s.inode_table ino).i_zone 7)).Nodup :=
      (List.nodup_append.mp hnd).1
    obtain ⟨u1, zn, a1, a2, a3, a4, a5, a6⟩ := truncate_direct_spec dev sbi s (zones_of s ino) ino
      (s.inode_table ino).i_zone hwf 7 0 s [] (frees_refl dev sbi s) hdev (fun _ _ => rfl)
      (fun x hx => by simp at hx)
      (fun x hx => hmem x (List.mem_append_left _ (List.mem_append_left _ (hE1 ▸ hx))))
      (by rw [List.nil_append, ← hE1]; exact (List.nodup_append.mp hnd1).1)
    rw [List.nil_append, ← hE1] at a2
    have hu1 : u1.inode_table ino = { s.inode_table ino with i_zone := zn } := by
      rw [a3, Function.update_same]
    obtain ⟨u2, b1, b2, b3, b4, b5⟩ := free_ind_spec dev sbi s (zones_of s ino) hwf u1 E1
      ((s.inode_table ino).i_zone 7) a2
      (fun x hx => hmem x (List.mem_append_left _ (List.mem_append_left _ hx)))
      (fun x hx => hmem x (List.mem_append_left _ (List.mem_append_right _ hx))) hnd1
    obtain ⟨u3, c1, c2, c3, c4, c5⟩ := free_dind_spec dev sbi s (zones_of s ino) hwf u2
      (E1 ++ zones_ind s dev ((s.inode_table ino).i_zone 7))
      ((s.inode_table ino).i_zone 8) b2
      (fun x hx => hmem x (List.mem_append_left _ hx))
      (fun x hx => hmem x (List.mem_append_right _ hx)) hnd
    have hu3 : u3.inode_table = u1.inode_table := c3.trans b3
    obtain ⟨T, hT⟩ : ∃ T, T = set_inode u3 ino fun m =>
        { m with i_zone := Function.update (Function.update m.i_zone 8 0) 7 0, i_size := 0, i_dirt := 1, i_mtime := u3.CURRENT_TIME, i_ctime := u3.CURRENT_TIME } := ⟨_, rfl⟩
    refine ⟨T, ?_, ?_, ?_, ?_, ?_, ?_, ?_, ?_, ?_, ?_, ?_⟩ <;> rw [hT]
    · unfold truncate
      rw [if_neg (not_not.mpr htype), a1]
      simp only []
      rw [hu1]
      simp only []
      rw [hdev, a5 7 (by omega), b1]
      simp only []
      rw [b3, hu1]
      simp only []
      rw [hdev, a5 8 (by omega), c1]
    · show u3.calls = _
      rw [c2.2.2.2.2.1, hZ]
    · intro j hj
      simp only [set_inode, Function.update_same, hu3, hu1]
      by_cases h7 : j = 7
      · subst h7; simp
      · rw [Function.update_noteq h7]
        by_cases h8 : j = 8
        · subst h8; simp
        · rw [Function.update_noteq h8]
          exact a4 j (by omega) (by omega)
    · simp only [set_inode, Function.update_same]
    · simp only [set_inode, Function.update_same]
    · simp only [set_inode, Function.update_same, hu3, hu1]
    · simp only [set_inode, Function.update_same, hu3, hu1]
    · simp only [set_inode, Function.update_same, hu3, hu1]
    · simp only [set_inode, Function.update_same, hu3, hu1]
    · simp only [set_inode, Function.update_same, hu3, hu1]
    · intro k hk
      simp only [set_inode, Function.update_noteq hk, hu3, a3]

/-- Witness for `truncate_spec`: the file of inode slot 2 of `fs0` has the
direct zones 7..13 and the single-indirect block 14 with the entries 15 and
16; `truncate` frees 7..13, then 15, 16 and 14. -/
theorem truncate_spec_witness :
    ∃ t, truncate fs0 2 = .ok t ∧
      t.calls = [FsCall.free_block 0x301 7, FsCall.free_block 0x301 8,
        FsCall.free_block 0x301 9, FsCall.free_block 0x301 10, FsCall.free_block 0x301 11,
        FsCall.free_block 0x301 12, FsCall.free_block 0x301 13, FsCall.free_block 0x301 15,
        FsCall.free_block 0x301 16, FsCall.free_block 0x301 14] ∧
      (∀ j, j < 9 → (t.inode_table 2).i_zone j = 0) ∧
      (t.inode_table 2).i_size = 0 ∧ (t.inode_table 2).i_dirt = 1 := by
  obtain ⟨t, h1, h2, h3, h4, h5, -⟩ := (truncate_spec fs0 2 0x301 0 rfl).2 (Or.inl (by decide))
    (by rw [fs0_zones_of]; exact fs0_tr_wf)
  rw [fs0_zones_of] at h2
  exact ⟨t, h1, h2, h3, h4, h5⟩


/-- C16 fails as stated: in `fs_dup` no two slots with a positive reference
count hold the same (device, number) - slot 0 holds inode 5 of device 0x301
with count 0, slot 1 holds it with count 1 - yet `iget(0x301, 5)` returns slot
0, and in the state it leaves, which is reachable by `iget`, slots 0 and 1 both
hold that pair with a positive count. -/
theorem iget_revives_stale_copy :
    inode_unique_in_use fs_dup ∧
    ∃ t, iget fs_dup 0x301 5 2 = .ok (some 0, t) ∧ inode_reach fs_dup t ∧
      ¬ inode_unique_in_use t := by
  refine ⟨fs_dup_in_use, ?_⟩
  obtain ⟨t, h, h0, h1⟩ := fs_dup_iget
  refine ⟨t, h, inode_reach.iget fs_dup t 0x301 5 2 (some 0) inode_reach.start (by decide)
    (by decide) h, fun hc => ?_⟩
  have := hc 0 1 (by decide) (by decide) (by rw [h0]; decide) (by rw [h1]; decide)
    (by rw [h0]; decide) (by rw [h0, h1]; decide) (by rw [h0, h1]; decide)
  exact absurd this (by decide)

/-- C16 (amended): in every state reachable by `iget` (for a device and an
inode number that fit in 16 bits), `iput` and `get_empty_inode` from an inode
table in which no two slots hold the same (i_dev, i_num) with i_dev != 0 (the
device numbers of the superblock table fitting in 16 bits), no two slots hold
such a pair, so no two slots with positive i_count do; in particular
`iget(dev, nr)`, when `get_empty_inode` hands out a clean, unlocked slot `E`
and another slot `S` with (i_dev, i_num) == (dev, nr), not locked, without
mount flag and with i_count below 65535 exists, returns with enough fuel the
slot `S` with i_count one higher than before and leaves slot `E` free and all
other slots as they were: it fills the fresh slot only when no other slot holds
(dev, nr). -/
theorem iget_unique_spec (s0 s : Fs) (hu : inode_unique s0)
    (hsb : ∀ j, (s0.super_block j).s_dev < 65536) (hr : inode_reach s0 s) :
    inode_unique s ∧ inode_unique_in_use s ∧
    ∀ dev nr E S fuel, dev ≠ 0 →
      (empty_scan s.inode_table NR_INODE s.last_inode none).2 = some E →
      (s.inode_table E).i_count = 0 → (s.inode_table E).i_dirt = 0 →
      (s.inode_table E).i_lock = 0 → S < NR_INODE →
      (s.inode_table S).i_dev = dev → (s.inode_table S).i_num = nr →
      (s.inode_table S).i_lock = 0 → (s.inode_table S).i_mount = 0 →
      (s.inode_table S).i_count < 65535 → E ≠ S → S + 1 < fuel →
      iget s dev nr fuel = .ok (some S,
        { s with
          last_inode := (empty_scan s.inode_table NR_INODE s.last_inode none).1
          inode_table := Function.update (Function.update s.inode_table E inode_zero) S { s.inode_table S with i_count := (s.inode_table S).i_count + 1 } }) := by
  have h := inode_reach_unique s0 s hu hsb hr
  refine ⟨h.1, inode_unique_weaken s h.1, ?_⟩
  intro dev nr E S fuel hdev hE hc hd hl hS hSd hSn hSl hSm hSc hES hf
  exact iget_hit s dev nr E S fuel h.1 hdev hE hc hd hl hS hSd hSn hSl hSm hSc hES hf

/-- C16 witness: from `fs0`, whose slots 0, 1 and 2 hold the inodes 1, 2 and 3
of device 0x301, `iget(0x301, 2)` returns slot 1 with its count raised from 1
to 2 and leaves the slot 3 that `get_empty_inode` handed out free. -/
theorem iget_unique_spec_witness :
    inode_unique fs0 ∧ inode_unique_in_use fs0 ∧
    iget fs0 0x301 2 3 = .ok (some 1,
      { fs0 with
        last_inode := (empty_scan fs0.inode_table NR_INODE fs0.last_inode none).1
        inode_table := Function.update (Function.update fs0.inode_table 3 inode_zero) 1 { fs0.inode_table 1 with i_count := (fs0.inode_table 1).i_count + 1 } }) :=
  have h := iget_unique_spec fs0 fs0 fs0_inode_unique fs0_s_dev inode_reach.start
  ⟨h.1, h.2.1, h.2.2 0x301 2 3 1 3 (by decide) (by decide) (by decide) (by decide) (by decide)
    (by decide) (by decide) (by decide) (by decide) (by decide) (by decide) (by decide)
    (by decide)⟩


/-- C17: in a state whose superblock table is as `read_super` leaves it
(`sb_ok`: distinct devices, the bitmap pointers laid out from block 2 on, the
first block of each bitmap held in the cache with bit 0 set), bit 0 of the
first inode-bitmap block and of the first zone-bitmap block of every superblock
in use is 1; a `read_super` that returns a superblock leaves the table so, with
both bits of that superblock set (and sets them on any state when it loads the
superblock from the device); `new_block`, `free_block`, `new_inode` and
`free_inode`, when they return, leave the table so; `new_block` returns no
block number other than 0 below `s_firstdatazone`, and `new_inode` returns no
inode with `i_num == 0`. -/
theorem bitmap_bit0_spec (s : Fs) (h : sb_ok s) :
    (∀ i, i < NR_SUPER → (s.super_block i).s_dev ≠ 0 → bit0_set s i) ∧
    (∀ dev i t, dev < 65536 → read_super s dev = .ok (some i, t) → sb_ok t ∧ bit0_set t i) ∧
    (∀ (u : Fs) dev i t, get_super u dev = .ok none → read_super u dev = .ok (some i, t) →
      bit0_set t i) ∧
    (∀ dev r t, new_block s dev = .ok (r, t) →
      sb_ok t ∧ ∀ sbi, get_super s dev = .ok (some sbi) → r ≠ 0 →
        ((s.super_block sbi).s_firstdatazone : Int) ≤ r) ∧
    (∀ dev b t, free_block s dev b = .ok t → sb_ok t) ∧
    (∀ dev euid egid fuel r t, new_inode s dev euid egid fuel = .ok (r, t) →
      sb_ok t ∧ ∀ ino, r = some ino → (t.inode_table ino).i_num ≠ 0) ∧
    (∀ inode t, free_inode s inode = .ok t → sb_ok t) := by
  refine ⟨fun i hi hd => sb_ok_bit0_set s h i hi hd, ?_, ?_, ?_, ?_, ?_, ?_⟩
  · intro dev i t hdev hr
    obtain ⟨k1, k2, k3, k4⟩ := read_super_sb_ok s t dev i h hdev hr
    exact ⟨k1, sb_ok_bit0_set t k1 i k2 (by rw [k3]; exact k4)⟩
  · intro u dev i t hg hr
    exact read_super_fresh_bits u t dev i hg hr
  · intro dev r t hr
    exact new_block_sb_ok s t dev r h hr
  · intro dev b t hr
    exact free_block_sb_ok s t dev b h hr
  · intro dev euid egid fuel r t hr
    exact new_inode_sb_ok s t dev euid egid fuel r h hr
  · intro inode t hr
    exact free_inode_sb_ok s t inode h hr

/-- C17 witness: `read_super(0x301)` on `fs_unmounted` loads the superblock
into slot 0 and leaves both bits set; `fs0`, with device 0x301 in slot 0, has
both bits set, and `new_block(0x301)` returns on it the block 17, not below the
first data zone 6, and leaves the table as `read_super` leaves it. -/
theorem bitmap_bit0_spec_witness :
    (∃ t, read_super fs_unmounted 0x301 = .ok (some 0, t) ∧ bit0_set t 0) ∧
    sb_ok fs0 ∧ bit0_set fs0 0 ∧
    ∃ t, new_block fs0 0x301 = .ok (17, t) ∧ sb_ok t ∧
      ((fs0.super_block 0).s_firstdatazone : Int) ≤ 17 := by
  obtain ⟨t, ht⟩ := fs0_new_block
  obtain ⟨u, hu⟩ := fs_unmounted_read_super
  have h := bitmap_bit0_spec fs0 fs0_sb_ok
  exact ⟨⟨u, hu, h.2.2.1 fs_unmounted 0x301 0 u rfl hu⟩, fs0_sb_ok,
    h.1 0 (by decide) (by decide), t, ht, (h.2.2.2.1 0x301 17 t ht).1,
    (h.2.2.2.1 0x301 17 t ht).2 0 rfl (by decide)⟩


/-- C18 fails as stated: on `fs0` the last component of the path "/." names the
root directory (entry 0 of block 6 holds inode 1, a directory), the flag is
`O_WRONLY` with `O_EXCL` clear, and `open_namei` returns `-EPERM`, which is not
`-EISDIR`. -/
theorem open_namei_directory_returns_EPERM :
    find_entry cur0 upath fs_dot1 0 0x1001 1 40 = .ok (some ((0x301, 6), 0), 0, fs_dot2) ∧
    de_inode (fs_dot2.buffer (0x301, 6)).b_data 0 = 1 ∧
    iget fs_dot3 0x301 1 40 = .ok (some 0, fs_dot4) ∧
    S_ISDIR (fs_dot4.inode_table 0).i_mode = true ∧
    O_WRONLY &&& O_ACCMODE = O_WRONLY ∧ O_WRONLY &&& O_EXCL = 0 ∧
    open_namei cur0 upath fs0 0x1000 O_WRONLY 0 40 = .ok (-EPERM, none, fs_dot5) ∧
    -EPERM ≠ -EISDIR := by
  obtain ⟨h1, h2, h3, h4, h5, h6, h7, h8⟩ := fs_dot_chain
  refine ⟨h2, h5, h6, h7, by decide, by decide, ?_, by decide⟩
  exact open_namei_found_dir cur0 upath fs0 0x1000 O_WRONLY 0 40 0 1 0x1001 fs_dot1 (0x301, 6) 0 0
    fs_dot2 fs_dot3 0 fs_dot4 fs_dot5 (by decide) (by decide) h1 (by decide) h2 h3
    (by rw [h4, h5]; exact h6) h7 h8

/-- C18 (amended): for a flag whose access mode is `O_WRONLY` or `O_RDWR` with
`O_EXCL` clear and a path that `dir_namei` resolves to a directory and a last
component: when the last component is empty (the path ends in '/')
`open_namei` releases the directory and returns `-EISDIR`; when `find_entry`
finds the last component and `iget` returns for it an inode that is a
directory, `open_namei` releases it and returns `-EPERM`; in both cases no
inode is handed back. -/
theorem open_namei_dir_spec (cur : fs_current) (umem : Nat → Byte) (s : Fs)
    (pathname flag mode fuel dir namelen basename : Nat) (s1 : Fs)
    (hacc : flag &&& O_ACCMODE = O_WRONLY ∨ flag &&& O_ACCMODE = O_RDWR)
    (hexcl : flag &&& O_EXCL = 0)
    (h1 : dir_namei cur umem s pathname fuel = .ok (some (dir, namelen, basename), s1)) :
    (namelen = 0 → ∀ s2, iput s1 (some dir) fuel = .ok s2 →
      open_namei cur umem s pathname flag mode fuel = .ok (-EISDIR, none, s2)) ∧
    (namelen ≠ 0 → ∀ (bh : Nat × Nat) (k dir2 : Nat) (s2 s3 : Fs) (inode : Nat) (s4 s5 : Fs),
      find_entry cur umem s1 dir basename namelen fuel = .ok (some (bh, k), dir2, s2) →
      iput (brelse s2 (some bh)) (some dir2) fuel = .ok s3 →
      iget s3 (s2.inode_table dir2).i_dev (de_inode (s2.buffer bh).b_data k) fuel
        = .ok (some inode, s4) →
      S_ISDIR (s4.inode_table inode).i_mode = true →
      iput s4 (some inode) fuel = .ok s5 →
      open_namei cur umem s pathname flag mode fuel = .ok (-EPERM, none, s5)) := by
  have hacc2 : flag &&& O_ACCMODE ≠ 0 := by
    rcases hacc with h | h <;> rw [h] <;> decide
  refine ⟨?_, ?_⟩
  · intro hn s2 h2
    subst hn
    exact open_namei_slash cur umem s pathname flag mode fuel dir basename s1 s2 hacc2 h1 h2
  · intro hn bh k dir2 s2 s3 inode s4 s5 h2 h3 h4 hdir h5
    exact open_namei_found_dir cur umem s pathname flag mode fuel dir namelen basename s1 bh k
      dir2 s2 s3 inode s4 s5 hacc2 hexcl h1 hn h2 h3 h4 hdir h5

/-- C18 witness: on `fs0`, `open_namei("/.", O_WRONLY)` returns `-EPERM` and
`open_namei("/", O_RDWR)` returns `-EISDIR`, both without an inode. -/
theorem open_namei_dir_spec_witness :
    open_namei cur0 upath fs0 0x1000 O_WRONLY 0 40 = .ok (-EPERM, none, fs_dot5) ∧
    open_namei cur0 upath fs0 0x2000 O_RDWR 0 40 = .ok (-EISDIR, none, fs_slash2) :=
  ⟨(open_namei_dir_spec cur0 upath fs0 0x1000 O_WRONLY 0 40 0 1 0x1001 fs_dot1
      (Or.inl (by decide)) (by decide) fs_dot_chain.1).2 (by decide) (0x301, 6) 0 0 fs_dot2
      fs_dot3 0 fs_dot4 fs_dot5 fs_dot_chain.2.1 fs_dot_chain.2.2.1
      (by rw [fs_dot_chain.2.2.2.1, fs_dot_chain.2.2.2.2.1]; exact fs_dot_chain.2.2.2.2.2.1)
      fs_dot_chain.2.2.2.2.2.2.1 fs_dot_chain.2.2.2.2.2.2.2,
    (open_namei_dir_spec cur0 upath fs0 0x2000 O_RDWR 0 40 0 0 0x2001 fs_slash1
      (Or.inr (by decide)) (by decide) fs_slash_chain.1).1 rfl fs_slash2 fs_slash_chain.2⟩


/-- C19 fails as stated, in three ways.  (1) The name "..": in the empty root
directory of `fs_bare`, which is the root of the task, `add_entry` for ".."
returns entry 0 of block 6, and after the caller has stored the inode number
1 in it (state `fs_bare2`, a well-formed directory of one entry) that entry
holds ".." followed only by NULs; yet
`find_entry` for ".." returns NULL, because in the root of the task it looks
for "." instead.  On `fs0`, whose root directory holds "." and "..",
`find_entry` for ".." returns entry 0, which is ".".  (2) A name that is not
NUL-padded: in `fs_pad` no entry holds "ab" followed only by NULs, but
`find_entry` for "ab" returns entry 2, whose name bytes are 'a' 'b' NUL 'c':
`match` tests only the byte after the name.  (3) A hole: in `fs_hole` the
second of the three blocks of the directory is not mapped, and `find_entry`
for "ab" does not return: after the hole it tests `de` against `bh->b_data`
with `bh` NULL. -/
theorem find_entry_misses_dotdot :
    (add_entry unames fs_bare 0 0x1040 2 64 = .ok (some ((0x301, 6), 0), fs_bare1) ∧
      (fs_bare2.inode_table 0).i_size = 16 ∧ dir_wf fs_bare2 0 ∧
      entry_holds unames fs_bare2 0 0x1040 2 0 ∧
      (∃ u, find_entry cur0 unames fs_bare2 0 0x1040 2 64 = .ok (none, 0, u)) ∧
      ∃ u, find_entry cur0 unames fs0 0 0x1040 2 64 = .ok (some ((0x301, 6), 0), 0, u)) ∧
    ((∃ u, find_entry cur0 unames fs_pad 0 0x1050 2 64 = .ok (some ((0x301, 6), 2), 0, u)) ∧
      de_name (block_data fs_pad (0x301, 6)) 2 3 = 99 ∧
      ∀ i, i < (fs_pad.inode_table 0).i_size / 16 → ¬ entry_holds unames fs_pad 0 0x1050 2 i) ∧
    (bmap_by_spec fs_hole 0 1 = 0 ∧ (fs_hole.inode_table 0).i_size / 16 = 192 ∧
      find_entry cur0 unames fs_hole 0 0x1050 2 64 = .stuck) := by
  refine ⟨⟨by rfl, by rfl, fs_bare2_dir_wf, ⟨by decide, ?_⟩,
    ⟨(Outcome.get (none, 0, fs0) (find_entry cur0 unames fs_bare2 0 0x1040 2 64)).2.2, by rfl⟩,
    ⟨(Outcome.get (none, 0, fs0) (find_entry cur0 unames fs0 0 0x1040 2 64)).2.2, by rfl⟩⟩,
    ⟨⟨(Outcome.get (none, 0, fs0) (find_entry cur0 unames fs_pad 0 0x1050 2 64)).2.2, by rfl⟩,
      by rfl, ?_⟩, by rfl, by rfl, by rfl⟩
  · have h : ∀ j, j < 14 →
        de_name (block_data fs_bare2 (dir_block fs_bare2 0 0)) (0 % DIR_ENTRIES_PER_BLOCK) j =
          if j < 2 then (unames (0x1040 + j)).val else 0 := by
      decide
    exact h
  · intro i hi h
    have hi3 : i < 3 := hi
    have h3 := h.2 3 (by decide)
    have h0 := h.2 0 (by decide)
    have hall : ∀ i, i < 3 →
        de_name (block_data fs_pad (dir_block fs_pad 0 i)) (i % DIR_ENTRIES_PER_BLOCK) 3
          = (if 3 < 2 then (unames (0x1050 + 3)).val else 0) →
        de_name (block_data fs_pad (dir_block fs_pad 0 i)) (i % DIR_ENTRIES_PER_BLOCK) 0
          = (if 0 < 2 then (unames (0x1050 + 0)).val else 0) → False := by
      decide
    exact hall i hi3 h3 h0

/-- C19 (amended): with `NO_TRUNCATE` not defined, for a name of length `L >= 1`.
Whenever `add_entry` returns an entry, the 14 name bytes of that entry are the
first `min(L, 14)` bytes of the name, then NULs; and it does return an entry
when the blocks of the device can be read and some entry `i0` in a mapped
block of the directory is free or lies at or behind its end (`dir_room`).  On
a directory whose blocks of entries are mapped and can be read and whose
names are NUL-padded (`dir_wf`), `find_entry` for a name of length `L2 >= 1`
returns, and finds an entry exactly when an entry with non-zero inode number
holds the first `min(L2, 14)` bytes of that name followed only by NULs, so a
14-byte name is compared on all its bytes; this for every name but ".." in the
root of the task or in the root directory of a file system, and ".." in the
root of the task is looked up as ".".  Two names longer than 14 bytes that
agree on their first 14 bytes give the same result of `find_entry` in every
state.  And once the caller has stored an inode number in the entry
`add_entry` returned and released the buffer, `find_entry` on the same
directory finds the name (for a directory of whole entries whose blocks of
entries are not also indirect blocks of it, and a name without NUL bytes). -/
theorem dir_entry_name_spec (cur : fs_current) (umem : Nat → Byte) (dir name L : Nat)
    (hL : 1 ≤ L) :
    (∀ (s : Fs) (fuel : Nat) (bh : Nat × Nat) (k : Nat) (t : Fs),
      add_entry umem s dir name L fuel = .ok (some (bh, k), t) →
      ∀ j, j < NAME_LEN → de_name (t.buffer bh).b_data k j =
        if j < min L NAME_LEN then (umem (name + j)).val else 0) ∧
    (∀ (s : Fs) (fuel i0 : Nat), dir_room s dir i0 → i0 < fuel →
      ∃ bh k t, add_entry umem s dir name L fuel = .ok (some (bh, k), t)) ∧
    (∀ (s : Fs) (name2 L2 fuel : Nat), 1 ≤ L2 → dir_wf s dir →
      (is_dotdot umem name2 L2 →
        some dir ≠ cur.root ∧ (s.inode_table dir).i_num ≠ ROOT_INO) →
      ∃ r t, find_entry cur umem s dir name2 L2 fuel = .ok (r, dir, t) ∧
        (r.isSome = true ↔ ∃ i, i < (s.inode_table dir).i_size / 16 ∧
          entry_holds umem s dir name2 (min L2 NAME_LEN) i)) ∧
    (∀ (s : Fs) (name2 fuel : Nat), is_dotdot umem name2 2 → some dir = cur.root →
      find_entry cur umem s dir name2 2 fuel = find_entry cur umem s dir name2 1 fuel) ∧
    (∀ (s : Fs) (name2 L2 fuel : Nat), NAME_LEN < L → NAME_LEN < L2 →
      (∀ j, j < NAME_LEN → umem (name2 + j) = umem (name + j)) →
      find_entry cur umem s dir name2 L2 fuel = find_entry cur umem s dir name L fuel) ∧
    (∀ (s : Fs) (fuel i0 ino : Nat), dir_wf s dir → dir_room s dir i0 → i0 < fuel →
      (s.inode_table dir).i_size % 16 = 0 →
      (∀ j, j ≤ i0 → ¬ dir_indirect s dir (dir_block s dir j)) →
      0 < ino → ino < 65536 →
      (∀ j, j < min L NAME_LEN → (umem (name + j)).val ≠ 0) →
      (is_dotdot umem name L →
        some dir ≠ cur.root ∧ (s.inode_table dir).i_num ≠ ROOT_INO) →
      ∃ bh k t, add_entry umem s dir name L fuel = .ok (some (bh, k), t) ∧
        ∃ r u, find_entry cur umem
          (brelse { t with buffer := Function.update t.buffer bh { t.buffer bh with b_data := put_word (t.buffer bh).b_data (8 * k) ino, b_dirt := 1 } } (some bh))
          dir name L fuel = .ok (some r, dir, u)) := by
  refine ⟨?_, ?_, ?_, ?_, ?_, ?_⟩
  · intro s fuel bh k t h
    exact add_entry_stored umem s dir name L fuel bh k t h
  · intro s fuel i0 hroom hf
    obtain ⟨i1, S, -, -, -, -, -, -, h⟩ := add_entry_first umem s dir name L fuel i0 hL hroom hf
    exact ⟨_, _, _, h⟩
  · intro s name2 L2 fuel h1 hwf hdd
    exact find_entry_found_iff cur umem s dir name2 L2 fuel hwf h1 hdd
  · intro s name2 fuel hd hroot
    exact find_entry_dotdot_root cur umem s dir name2 fuel hd hroot
  · intro s name2 L2 fuel h1 h2 h
    exact find_entry_long_names cur umem s dir name2 name L2 L fuel h2 h1 h
  · intro s fuel i0 ino hwf hroom hf hmul hplain h1 h2 hstr hdd
    exact add_then_find cur umem s dir name L fuel ino i0 hL hwf hroom hf hmul hplain h1 h2
      hstr hdd

/-- C19 witness: for the 16-byte name "abcdefghijklmnop" and the root directory
of `fs0` (entries "." and ".."): `add_entry` returns an entry that holds the
first 14 bytes, "abcdefghijklmn"; `find_entry` for the name returns, and finds
an entry exactly when one of the two entries holds those 14 bytes; the
15-byte name "abcdefghijklmnX" gives the same result of `find_entry`; and
after `add_entry` and the store of the inode number 7 in the entry,
`find_entry` finds the name. -/
theorem dir_entry_name_spec_witness :
    (∃ bh k t, add_entry unames fs0 0 0x1000 16 64 = .ok (some (bh, k), t) ∧
      ∀ j, j < NAME_LEN → de_name (t.buffer bh).b_data k j =
        if j < min 16 NAME_LEN then (unames (0x1000 + j)).val else 0) ∧
    (∃ r t, find_entry cur0 unames fs0 0 0x1000 16 64 = .ok (r, 0, t) ∧
      (r.isSome = true ↔ ∃ i, i < (fs0.inode_table 0).i_size / 16 ∧
        entry_holds unames fs0 0 0x1000 (min 16 NAME_LEN) i)) ∧
    find_entry cur0 unames fs0 0 0x1020 15 64 = find_entry cur0 unames fs0 0 0x1000 16 64 ∧
    ∃ bh k t, add_entry unames fs0 0 0x1000 16 64 = .ok (some (bh, k), t) ∧
      ∃ r u, find_entry cur0 unames
        (brelse { t with buffer := Function.update t.buffer bh { t.buffer bh with b_data := put_word (t.buffer bh).b_data (8 * k) 7, b_dirt := 1 } } (some bh))
        0 0x1000 16 64 = .ok (some r, 0, u) := by
  have h := dir_entry_name_spec cur0 unames 0 0x1000 16 (by decide)
  have hnd : ¬ is_dotdot unames 0x1000 16 := fun hc => absurd hc.1 (by decide)
  refine ⟨?_, h.2.2.1 fs0 0x1000 16 64 (by decide) fs0_dir_wf (fun hc => absurd hc hnd),
    h.2.2.2.2.1 fs0 0x1020 15 64 (by decide) (by decide) (by decide),
    h.2.2.2.2.2 fs0 64 2 7 fs0_dir_wf fs0_dir_room (by decide) (by decide) fs0_dir_plain
      (by decide) (by decide) (by decide) (fun hc => absurd hc hnd)⟩
  obtain ⟨bh, k, t, ht⟩ := h.2.1 fs0 64 2 fs0_dir_room (by decide)
  exact ⟨bh, k, t, ht, h.1 fs0 64 bh k t ht⟩


/-- C20 fails as stated for k = 4096: on the fresh pipe `pipe0` (head == tail ==
0, i_count == 2) `write_pipe` with count 4096 stores 4095 bytes - the pipe
then holds `PAGE_SIZE - 1` bytes and has no room left - and goes to sleep in
`sleep_on` with one byte still to write, whatever the bound on the turns. -/
theorem write_pipe_page_sleeps :
    PIPE_HEAD pipe0.inode = 0 ∧ PIPE_TAIL pipe0.inode = 0 ∧ pipe0.inode.i_count = 2 ∧
    ∀ fuel, 2 ≤ fuel → ∃ t, write_pipe pipe0 0x2000 4096 fuel = .ok (none, t) ∧
      PIPE_SIZE t.inode = 4095 := by
  refine ⟨rfl, rfl, rfl, fun fuel hf => ⟨_, write_pipe_page pipe0 0x2000 fuel rfl rfl rfl hf, ?_⟩⟩
  apply PIPE_SIZE_eq _ 4095 0
  · rfl
  · rfl
  · omega
  · omega

/-- C20 (amended): on a freshly created pipe inode (head == tail == 0, i_count
== 2), for every k with 0 < k <= 4095 and every byte string x of length k in
the user segment, `write_pipe(inode, x, k)` returns k without sleeping, and a
following `read_pipe(inode, y, k)` returns k with y equal to x byte for byte
and leaves the pipe empty. -/
theorem pipe_round_trip (s : pipe_state) (x y k fuel : Nat)
    (hh : PIPE_HEAD s.inode = 0) (ht : PIPE_TAIL s.inode = 0) (hc : s.inode.i_count = 2)
    (hk : 0 < k) (hk2 : k ≤ 4095) (hf : 2 ≤ fuel) :
    ∃ s1 s2, write_pipe s x (k : Int) fuel = .ok (some (k : Int), s1) ∧
      read_pipe s1 y (k : Int) fuel = .ok (some (k : Int), s2) ∧
      (∀ j, j < k → s2.umem (y + j) = s.umem (x + j)) ∧ PIPE_SIZE s2.inode = 0 := by
  have _ := hc
  have h1 : PIPE_HEAD ({ s with inode := { s.inode with i_zone := Function.update s.inode.i_zone 0 k }, mem := user_to_pipe s.umem s.inode.i_size s.mem 0 x k } : pipe_state).inode = k := by
    unfold PIPE_HEAD
    simp only [Function.update_same]
  have h2 : PIPE_TAIL ({ s with inode := { s.inode with i_zone := Function.update s.inode.i_zone 0 k }, mem := user_to_pipe s.umem s.inode.i_size s.mem 0 x k } : pipe_state).inode = 0 := by
    unfold PIPE_TAIL
    simp only []
    rw [Function.update_noteq (by decide)]
    exact ht
  refine ⟨_, _, write_pipe_fresh s x k fuel hh ht hk hk2 hf,
    read_pipe_all _ y k fuel h1 h2 hk hk2 hf, ?_, ?_⟩
  · intro j hj
    simp only []
    rw [pipe_to_user_spec, if_pos (by omega), user_to_pipe_spec, if_pos (by omega)]
    congr 1
    omega
  · refine (PIPE_SIZE_eq _ k k ?_ ?_ (Nat.le_refl _) (by omega)).trans (Nat.sub_self k)
    · unfold PIPE_HEAD
      simp only []
      rw [Function.update_noteq (by decide), Function.update_same]
    · unfold PIPE_TAIL
      simp only [Function.update_same]

/-- C20 witness: on `pipe0`, 4095 bytes written from address 0x2000 come back at
address 0x3000 and the pipe is empty again. -/
theorem pipe_round_trip_witness :
    ∃ s1 s2, write_pipe pipe0 0x2000 ((4095 : Nat) : Int) 2 = .ok (some ((4095 : Nat) : Int), s1) ∧
      read_pipe s1 0x3000 ((4095 : Nat) : Int) 2 = .ok (some ((4095 : Nat) : Int), s2) ∧
      (∀ j, j < 4095 → s2.umem (0x3000 + j) = pipe0.umem (0x2000 + j)) ∧
      PIPE_SIZE s2.inode = 0 :=
  pipe_round_trip pipe0 0x2000 0x3000 4095 2 rfl rfl rfl (by decide) (by decide) (by decide)

/-- C21 fails as stated: on the empty pipe `pipe_no_reader`, whose reader has
gone (`i_count` 1), `write_pipe` of one byte returns 1, not -1, stores the
byte in the pipe page, advances the head cursor to 1 and leaves the pending
signals without SIGPIPE. -/
theorem write_pipe_no_reader_writes :
    ∃ t, write_pipe pipe_no_reader 0x2000 1 2 = .ok (some 1, t) ∧
      pipe_no_reader.inode.i_count ≠ 2 ∧ t.signal = 0 ∧ PIPE_HEAD t.inode = 1 ∧
      t.mem 0x100000 = pipe_no_reader.umem 0x2000 ∧ t.mem 0x100000 ≠ pipe_no_reader.mem 0x100000 := by
  refine ⟨_, write_pipe_fresh pipe_no_reader 0x2000 1 2 rfl rfl (by decide) (by decide)
    (by decide), by decide, rfl, ?_, ?_, ?_⟩
  · unfold PIPE_HEAD
    simp only [Function.update_same]
  · rfl
  · decide

/-- C21 (amended): for every pipe inode whose reader has gone (`i_count != 2`)
and whose page is full (`PIPE_SIZE` is `PAGE_SIZE - 1`), and every count > 0,
`write_pipe` returns -1, sets the SIGPIPE bit in the pending signals and no
other, and leaves the pipe page, the inode (head cursor included) and the user
segment as they were, so that no byte is stored and the head cursor is
unchanged.  In addition, on a pipe that is empty (head and tail 0) the reader
is not looked at: for `0 < k <= 4095`, `write_pipe` stores the `k` bytes,
moves the head to `k`, returns `k` and raises no signal. -/
theorem write_pipe_no_reader_spec (s : pipe_state) (buf fuel : Nat) (count : Int)
    (hr : s.inode.i_count ≠ 2) (hcount : 0 < count)
    (hfull : PIPE_SIZE s.inode = PAGE_SIZE - 1) (hf : 1 ≤ fuel) :
    (∃ t, write_pipe s buf count fuel = .ok (some (-1), t) ∧
      t.signal.testBit (SIGPIPE - 1) = true ∧
      (∀ n, n ≠ SIGPIPE - 1 → t.signal.testBit n = s.signal.testBit n) ∧
      t.mem = s.mem ∧ t.inode = s.inode ∧ t.umem = s.umem) ∧
    (∀ (s1 : pipe_state) (k : Nat), PIPE_HEAD s1.inode = 0 → PIPE_TAIL s1.inode = 0 →
      0 < k → k ≤ 4095 →
      ∃ t, write_pipe s1 buf (k : Int) (fuel + 1) = .ok (some (k : Int), t) ∧
        t.signal = s1.signal ∧ PIPE_HEAD t.inode = k ∧
        ∀ j, j < k → t.mem (s1.inode.i_size + j) = s1.umem (buf + j)) := by
  constructor
  · obtain ⟨f, rfl⟩ : ∃ f, fuel = f + 1 := ⟨fuel - 1, by omega⟩
    refine ⟨{ s with signal := s.signal ||| (1 <<< (SIGPIPE - 1)) }, ?_, ?_, ?_, rfl, rfl, rfl⟩
    · unfold write_pipe
      rw [write_pipe_full_no_reader s buf f count 0 hfull hr hcount]
      rfl
    · simp only [testBit_or_SIGPIPE]
      simp
    · intro n hn
      simp only [testBit_or_SIGPIPE]
      simp [hn]
  · intro s1 k hh ht hk hk2
    refine ⟨_, write_pipe_fresh s1 buf k (fuel + 1) hh ht hk hk2 (by omega), rfl, ?_, ?_⟩
    · unfold PIPE_HEAD
      simp only [Function.update_same]
    · intro j hj
      simp only []
      rw [user_to_pipe_spec, if_pos (by omega)]
      congr 1
      omega

/-- C21 witness: on the full pipe `pipe_full_no_reader` (head 4095, tail 0,
`i_count` 1) a write of 3 bytes returns -1 with SIGPIPE pending; on the empty
pipe without reader a write of 3 bytes returns 3. -/
theorem write_pipe_no_reader_spec_witness :
    (∃ t, write_pipe pipe_full_no_reader 0x2000 3 1 = .ok (some (-1), t) ∧
      t.signal.testBit (SIGPIPE - 1) = true ∧ t.mem = pipe_full_no_reader.mem ∧
      t.inode = pipe_full_no_reader.inode) ∧
    ∃ t, write_pipe pipe_no_reader 0x2000 (3 : Nat) 2 = .ok (some ((3 : Nat) : Int), t) ∧
      t.signal = pipe_no_reader.signal :=
  have h := write_pipe_no_reader_spec pipe_full_no_reader 0x2000 1 3 (by decide) (by decide)
    (by decide) (by decide)
  ⟨by
    obtain ⟨t, h1, h2, -, h4, h5, -⟩ := h.1
    exact ⟨t, h1, h2, h4, h5⟩,
   by
    obtain ⟨t, h1, h2, -, -⟩ := h.2 pipe_no_reader 3 rfl rfl (by decide) (by decide)
    exact ⟨t, h1, h2⟩⟩

/-- C30 fails on the code: on `fs_short` (17 blocks, first clear bit of the zone
bitmap at position 12, which names block 17) `new_block` returns 0 and leaves
bit 12 of the zone bitmap set, with the bitmap buffer marked dirty: the test
`j >= sb->s_nzones` comes after `set_bit`, and nothing clears the bit again. -/
theorem new_block_zero_keeps_bit_set :
    ∃ t, new_block fs_short 0x301 = .ok (0, t) ∧
      (fs_short.super_block 0).s_zmap 0 = some (0x301, 3) ∧
      test_bit (fs_short.buffer (0x301, 3)).b_data 12 = false ∧
      test_bit (t.buffer (0x301, 3)).b_data 12 = true ∧
      (t.buffer (0x301, 3)).b_dirt = 1 :=
  ⟨(Outcome.get (0, fs_short) (new_block fs_short 0x301)).2, by rfl, by rfl, by rfl, by rfl, by rfl⟩

/-- C25 fails as stated: in `tasks_nice` the runnable task of slot 3 has counter
15 and, after its `sys_nice(14)`, priority 1; `schedule()` finds a positive
counter in its first scan, recounts nothing, and the task keeps counter 15,
which is more than 1 + 15 / 2 = 8. -/
theorem schedule_keeps_counter_above_bound :
    (tasks_nice 3).map (fun t => (t.counter, t.priority)) = some (15, 1) ∧
    (schedule 0 tasks_nice 2).map (fun r => (r.1 3).map (fun t => t.counter)) = some (some 15) ∧
    ¬ ((15 : Int) ≤ 1 + 15 / 2) := by
  refine ⟨by rfl, by rfl, by decide⟩

/-- C25 (amended): on a task table whose tasks of slots 1..NR_TASKS-1 have a
positive priority, `schedule()` returns, and every task of the table keeps its
priority and has afterwards either the counter it had or the recounted one,
`(counter >> 1) + priority` as a 32-bit `long`; so a task whose counter was at
most twice its priority has afterwards a counter of at most its priority plus
half its counter before (rounded down, as `>> 1` does; the counter is a `long`,
at least -2^31). -/
theorem schedule_counter_bound (jiffies : Int) (task : TaskTable) (fuel : Nat)
    (hinv : ∀ i t, 1 ≤ i → i < NR_TASKS → task i = some t →
      0 < t.priority ∧ t.priority < 2147483648) :
    ∃ task2 next, schedule jiffies task (fuel + 2) = some (task2, next) ∧
      ∀ i t, i < NR_TASKS → task i = some t →
        ∃ t2, task2 i = some t2 ∧ t2.priority = t.priority ∧
          (t2.counter = t.counter ∨ t2.counter = wrap_long (t.counter / 2 + t.priority)) ∧
          (t.counter ≤ 2 * t.priority → -2147483648 ≤ t.counter →
            t2.counter ≤ t.priority + t.counter / 2) := by
  obtain ⟨next, h | h⟩ := schedule_passes jiffies task fuel hinv
  · refine ⟨_, next, h, fun i t _ ht => ?_⟩
    obtain ⟨⟨t1, h1, h2, h3⟩, -⟩ := schedule_counters jiffies task i t ht
    exact ⟨t1, h1, h3, Or.inl h2, fun hb _ => by rw [h2]; omega⟩
  · refine ⟨_, next, h, fun i t hi ht => ?_⟩
    obtain ⟨-, t2, h1, h2, h3⟩ := schedule_counters jiffies task i t ht
    refine ⟨t2, h1, h2, h3, fun hb hlo => ?_⟩
    rcases h3 with h3 | h3
    · rw [h3]; omega
    · rw [h3]
      unfold wrap_long
      omega

/-- C25 witness: on `tasks0`, where every counter is at most twice the
priority, `schedule()` returns and the task of slot 2 (counter 7, priority 15)
has afterwards a counter of at most 15 + 7 / 2. -/
theorem schedule_counter_bound_witness :
    ∃ task2 next, schedule 0 tasks0 2 = some (task2, next) ∧
      ∃ t2, task2 2 = some t2 ∧ t2.counter ≤ 15 + 7 / 2 := by
  obtain ⟨task2, next, h1, h2⟩ := schedule_counter_bound 0 tasks0 0 (by
    intro i t h1 h2 ht
    have hN : NR_TASKS = 64 := rfl
    unfold tasks0 at ht
    split_ifs at ht <;> (cases ht; exact ⟨by decide, by decide⟩))
  obtain ⟨t2, g1, -, -, g4⟩ := h2 2 _ (by decide) rfl
  exact ⟨task2, next, h1, t2, g1, g4 (by decide) (by decide)⟩

/-- C29: on every task table whose tasks of slots 1..NR_TASKS-1 have a positive
priority (a `long`, so below 2^31), `schedule()` reaches `switch_to(next)`
within two scans of the table, whatever the counters are: it hands over
either the table its first loop (alarms and signals) left, after one scan, or
that table recounted once, after the second scan.  The bound on the scans is
the fuel 2; more fuel gives the same result. -/
theorem schedule_terminates (jiffies : Int) (task : TaskTable) (fuel : Nat)
    (hinv : ∀ i t, 1 ≤ i → i < NR_TASKS → task i = some t →
      0 < t.priority ∧ t.priority < 2147483648) :
    ∃ next, (schedule jiffies task 2 = some (schedule_signals jiffies task, next) ∨
        schedule jiffies task 2 = some
          (for_each_task schedule_recount (schedule_signals jiffies task) (NR_TASKS - 1), next)) ∧
      schedule jiffies task (fuel + 2) = schedule jiffies task 2 := by
  have h0 := schedule_two_scans jiffies task 0 hinv
  have h1 := schedule_two_scans jiffies task fuel hinv
  obtain ⟨next, h⟩ := schedule_passes jiffies task 0 hinv
  exact ⟨next, h, h1.trans h0.symm⟩

/-- C29 witness: on `tasks0`, whose tasks have priority 15, `schedule()` is
through after at most two scans. -/
theorem schedule_terminates_witness :
    ∃ next, (schedule 0 tasks0 2 = some (schedule_signals 0 tasks0, next) ∨
        schedule 0 tasks0 2 = some
          (for_each_task schedule_recount (schedule_signals 0 tasks0) (NR_TASKS - 1), next)) ∧
      schedule 0 tasks0 (5 + 2) = schedule 0 tasks0 2 :=
  schedule_terminates 0 tasks0 5 (by
    intro i t h1 h2 ht
    unfold tasks0 at ht
    split_ifs at ht <;> (cases ht; exact ⟨by decide, by decide⟩))

/-- C28: for every task table with a task in slot 0 and every `last_pid` the
function can meet (a `long` that is not negative: it starts at 0 and this
function, its only writer, leaves it positive), `find_empty_process` returns
after passing `repeat` at most NR_TASKS + 1 times; `last_pid` is then positive
and differs from the pid of every task of the table, and the value returned is
the lowest index in 1..NR_TASKS-1 of an empty slot, or -EAGAIN when every slot
of the table is occupied. -/
theorem find_empty_process_spec (task : TaskTable) (last_pid : Int) (fuel : Nat)
    (h0 : task 0 ≠ none) (hl1 : 0 ≤ last_pid) (hl2 : last_pid < 2147483648)
    (hf : NR_TASKS + 1 ≤ fuel) :
    ∃ r lp, find_empty_process task fuel last_pid = some (r, lp) ∧
      0 < lp ∧ lp < 2147483648 ∧
      (∀ i t, i < NR_TASKS → task i = some t → t.pid ≠ lp) ∧
      ((∃ i, 1 ≤ i ∧ i < NR_TASKS ∧ task i = none ∧ (∀ j, 1 ≤ j → j < i → task j ≠ none) ∧
          r = (i : Int)) ∨
        ((∀ i, i < NR_TASKS → task i ≠ none) ∧ r = -EAGAIN)) := by
  have hN : NR_TASKS = 64 := rfl
  obtain ⟨k, hk, hfree⟩ := free_pid_exists task last_pid hl1 hl2
  obtain ⟨lp, g1, g2, g3, g4⟩ :=
    find_empty_process_loop task k fuel last_pid hl1 hl2 (by omega) hfree
  have hpid : ∀ i t, i < NR_TASKS → task i = some t → t.pid ≠ lp := by
    intro i t hi ht hp
    have : pid_scan task lp 0 NR_TASKS = true :=
      (pid_scan_iff task lp NR_TASKS 0).mpr ⟨i, t, Nat.zero_le _, by omega, ht, hp⟩
    rw [g4] at this
    exact Bool.noConfusion this
  rcases empty_slot_scan_spec task (NR_TASKS - 1) 1 with ⟨i, e1, e2, e3, e4, e5⟩ | ⟨e1, e2⟩
  · rw [e1] at g1
    exact ⟨(i : Int), lp, g1, g2, g3, hpid, Or.inl ⟨i, e2, by omega, e4, e5, rfl⟩⟩
  · rw [e1] at g1
    refine ⟨-EAGAIN, lp, g1, g2, g3, hpid, Or.inr ⟨fun i hi => ?_, rfl⟩⟩
    by_cases hi0 : i = 0
    · subst hi0
      exact h0
    · exact e2 i (by omega) (by omega)

/-- C28 witness: on `tasks0` (tasks with pids 0 to 3 in slots 0 to 3) with
`last_pid` 0, `find_empty_process` returns slot 4 and leaves `last_pid` 4. -/
theorem find_empty_process_spec_witness :
    find_empty_process tasks0 65 0 = some (4, 4) ∧
    ∃ r lp, find_empty_process tasks0 65 0 = some (r, lp) ∧
      0 < lp ∧ lp < 2147483648 ∧
      (∀ i t, i < NR_TASKS → tasks0 i = some t → t.pid ≠ lp) ∧
      ((∃ i, 1 ≤ i ∧ i < NR_TASKS ∧ tasks0 i = none ∧ (∀ j, 1 ≤ j → j < i → tasks0 j ≠ none) ∧
          r = (i : Int)) ∨
        ((∀ i, i < NR_TASKS → tasks0 i ≠ none) ∧ r = -EAGAIN)) :=
  ⟨by rfl, find_empty_process_spec tasks0 0 65 (fun h => Option.noConfusion h) (by decide)
    (by decide) (by decide)⟩

/-- C26 fails on the code: after `add_timer(10, A)` and `add_timer(3, B)` on the
empty list, with no tick in between, both calls return and the list is B with
delay 3 followed by A with delay 10: the delays up to and including A add up
to 13, not to the 10 that A was added with.  Accordingly `do_timer` has called
only B after 10 ticks (and after 12), and calls A with the 13th tick. -/
theorem add_timer_delays_successor :
    add_timer timers0 10 0xA000 64 =
      .ok (Outcome.get timers0 (add_timer timers0 10 0xA000 64)) ∧
    add_timer (Outcome.get timers0 (add_timer timers0 10 0xA000 64)) 3 0xB000 64 = .ok timers2 ∧
    timer_chain timers2.timer_list 64 timers2.next_timer = [(3, 0xB000), (10, 0xA000)] ∧
    (do_timer_ticks 64 10 timers2).map (fun s => s.fired) = some [0xB000] ∧
    (do_timer_ticks 64 12 timers2).map (fun s => s.fired) = some [0xB000] ∧
    (do_timer_ticks 64 13 timers2).map (fun s => s.fired) = some [0xB000, 0xA000] := by
  refine ⟨by rfl, by rfl, by rfl, by rfl, by rfl, by rfl⟩

/-- C27 fails as stated: in `blk0` the queue is slot 0 (sector 50) then slot 1
(sector 10), and the new request of slot 2 is for sector 5.  `ordered(tmp,
req)` holds for neither queued request, so the rule of the claim puts the
new request at the tail; `add_request` links it right after the head, before
slot 1, because the head and its successor are out of order (a sweep
boundary) and the new request is in order before that successor. -/
theorem add_request_breaks_at_sweep_boundary :
    ∃ t, add_request blk0 3 2 32 = .ok t ∧
      queue_list blk0.request 32 (blk0.blk_dev 3).current_request = [0, 1] ∧
      queue_list t.request 32 (t.blk_dev 3).current_request = [0, 2, 1] ∧
      ordered_insert blk0.request 2 [0, 1] = [0, 1, 2] ∧
      IN_ORDER (blk0.request 0) (blk0.request 2) = false ∧
      IN_ORDER (blk0.request 1) (blk0.request 2) = false :=
  ⟨Outcome.get blk0 (add_request blk0 3 2 32), by rfl, by rfl, by rfl, by rfl, by rfl, by rfl⟩

/-- C27 (amended): on a device queue that is not empty (the list `head :: L` of
distinct request slots, `req` not among them) `add_request` returns and links
`req` immediately after the first queue element `tmp`, scanning from the
head, that has a successor and for which `(ordered(tmp, req) or not
ordered(tmp, tmp.next)) and ordered(req, tmp.next)` holds, and at the tail
when no element qualifies (`elevator_insert`).  The head of the queue stays
the head, so `req` is never placed before it; the requests already queued keep
their relative order (taking `req` out of the new queue gives the old one);
`req` is in the queue once; and device, command and sector of every request
are unchanged. -/
theorem add_request_spec (s : blk_state) (dev req fuel head : Nat) (L : List Nat)
    (hcur : (s.blk_dev dev).current_request = some head)
    (hq : is_queue s.request (some head) (head :: L)) (hnd : (head :: L).Nodup)
    (hreq : req ∉ head :: L) (hf : L.length < fuel) :
    ∃ t, add_request s dev req fuel = .ok t ∧
      (t.blk_dev dev).current_request = some head ∧
      is_queue t.request (some head) (elevator_insert s.request req (head :: L)) ∧
      (∃ M, elevator_insert s.request req (head :: L) = head :: M) ∧
      (elevator_insert s.request req (head :: L)).erase req = head :: L ∧
      (elevator_insert s.request req (head :: L)).count req = 1 ∧
      ∀ p, (t.request p).dev = (s.request p).dev ∧ (t.request p).cmd = (s.request p).cmd ∧
        (t.request p).sector = (s.request p).sector := by
  obtain ⟨t, h1, h2, -, h4, h5⟩ := add_request_queued s dev req fuel head L hcur hq hnd hreq hf
  obtain ⟨e1, e2, -⟩ := elevator_insert_erase s.request req (head :: L) hreq
  exact ⟨t, h1, by rw [h2]; exact hcur, h4, elevator_insert_head s.request req head L, e1, e2, h5⟩

/-- C27 witness: on `blk0` the request of slot 2 is linked into the queue of
slots 0 and 1, which becomes the list `elevator_insert` gives: 0, 2, 1. -/
theorem add_request_spec_witness :
    elevator_insert blk0.request 2 [0, 1] = [0, 2, 1] ∧
    ∃ t, add_request blk0 3 2 32 = .ok t ∧
      (t.blk_dev 3).current_request = some 0 ∧
      is_queue t.request (some 0) (elevator_insert blk0.request 2 [0, 1]) ∧
      (elevator_insert blk0.request 2 [0, 1]).erase 2 = [0, 1] := by
  obtain ⟨t, h1, h2, h3, -, h5, -⟩ := add_request_spec blk0 3 2 32 0 [1] rfl
    ⟨rfl, rfl, rfl⟩ (by decide) (by decide) (by decide)
  exact ⟨by rfl, t, h1, h2, h3, h5⟩

set_option maxRecDepth 100000 in
/-- C24 fails as stated, from the state `tty0` in which the kernel starts:
`tty_write(0, buf, 1023)` on the console, for 1022 letters and a '\n', stores
the letters and the '\r', which fill the write queue, so the '\n' is not
taken; `con_write` empties the queue, and a signal raised while the caller is
in `schedule()` ends the call: it returns 1022 and leaves the static `cr_flag`
at 1 (state `tty1`).  In that state, with the signal handled, `tty_write(0,
"\n", 1)` on the console, whose flags are `OPOST | ONLCR`, returns 1 = nr and
has appended the single byte '\n' to the write queue, not '\r' '\n'.  And
when, instead of the signal, another task writes a character to another
terminal while the caller is in `schedule()`, which clears `cr_flag`, the
call `tty_write(0, buf, 1024)` on `tty0` for the same letters, the '\n' and
one more letter returns 1024 = nr and has appended '\r' '\r' '\n' for the
'\n'. -/
theorem tty_write_newline_without_cr :
    tty_write tty_env0 umem_nl tty0 0 0x2C02 1023 8 = .ok (1022, tty1) ∧
    tty1.cr_flag = 1 ∧ (tty1.tty_table 0).c_oflag = OPOST ||| ONLCR ∧
    CHARS (tty1.tty_table 0).write_q = 0 ∧
    (∃ t, tty_write tty_env0 umem_nl { tty1 with signal := 0 } 0 0x3000 1 8 = .ok (1, t) ∧
      t.put 0 = tty1.put 0 ++ [10] ∧ nl_expand (user_bytes umem_nl 0x3000 1) = [13, 10]) ∧
    ∃ t, tty_write tty_env1 umem_nl tty0 0 0x2C02 1024 8 = .ok (1024, t) ∧
      t.put 0 = tty0.put 0 ++ nl_expand (user_bytes umem_nl 0x2C02 1022) ++ [13, 13, 10, 65] ∧
      nl_expand (user_bytes umem_nl 0x2C02 1024)
        = nl_expand (user_bytes umem_nl 0x2C02 1022) ++ [13, 10, 65] ∧
      t.put 0 ≠ tty0.put 0 ++ nl_expand (user_bytes umem_nl 0x2C02 1024) := by
  have ho : tty_write_outer tty_env0 umem_nl 0 8 tty0 0x2C02 1023 = .ok (tty1, 0x2C02 + 1022) := by
    rfl
  have hc1 : tty1.cr_flag = 1 := by rfl
  have hp1 : tty1.put 0 = nl_expand (user_bytes umem_nl 0x2C02 1022) ++ [13] := by
    obtain ⟨k, e1, -, -, -, -, e6, -⟩ := tty_write_outer_spec tty_env0 umem_nl 0 (fun _ => rfl) 8
      tty0 0x2C02 1023 tty1 (0x2C02 + 1022) [] ho (by decide) (by decide) (by decide) (by decide)
      (by decide) (Or.inl rfl) (fun h => absurd h (by decide)) (by rfl)
    have hk : k = 1022 := by omega
    subst hk
    rw [e6, hc1]
    rfl
  have hp2 : (Outcome.get (0, tty0) (tty_write tty_env1 umem_nl tty0 0 0x2C02 1024 8)).2.put 0
      = tty1.put 0 ++ [13] ++ [10] ++ [65] := by rfl
  have hn : nl_expand (user_bytes umem_nl 0x2C02 1024)
      = nl_expand (user_bytes umem_nl 0x2C02 1022) ++ [13, 10, 65] := by
    rw [show (1024 : Nat) = 1022 + 2 from rfl, user_bytes_add, nl_expand_append]
    rfl
  have hp3 : (Outcome.get (0, tty0) (tty_write tty_env1 umem_nl tty0 0 0x2C02 1024 8)).2.put 0
      = tty0.put 0 ++ nl_expand (user_bytes umem_nl 0x2C02 1022) ++ [13, 13, 10, 65] := by
    rw [hp2, hp1]
    simp [tty0]
  refine ⟨by rfl, hc1, by rfl, by rfl,
    ⟨(Outcome.get (0, tty0) (tty_write tty_env0 umem_nl { tty1 with signal := 0 } 0 0x3000 1 8)).2,
      by rfl, by rfl, by rfl⟩,
    (Outcome.get (0, tty0) (tty_write tty_env1 umem_nl tty0 0 0x2C02 1024 8)).2,
    by rfl, hp3, hn, ?_⟩
  rw [hp3, hn]
  simp [tty0]

/-- C24 (amended): with OPOST and ONLCR set and OCRNL, ONLRET and OLCUC clear,
and `cr_flag` clear at the call (as every earlier `tty_write` leaves it that
did not stop between the '\r' and the '\n' of a line end), when no other task
calls `tty_write` or changes the flags of the terminal while the caller is
suspended, whatever the device takes from the queue and whatever signals are
raised meanwhile: a call
`tty_write(channel, buf, nr)` that returns `nr` has appended to the write queue of the channel exactly the
bytes of `buf` in order with each '\n' replaced by '\r' '\n', leaves `cr_flag`
clear and appends nothing to another channel.  A call that returns any `r`
has appended the bytes for the first `r` bytes of `buf`, plus a '\r' when it
leaves `cr_flag` set, which it does only in front of a '\n' it has not
counted.  And the call does return `nr` when no signal is pending and the
queue has `2 * nr` free places. -/
theorem tty_write_spec (env : Nat → tty_event) (umem : Nat → Byte) (w : tty_world)
    (channel buf : Nat) (nr : Int) (fuel : Nat)
    (h1 : (w.tty_table channel).c_oflag &&& OPOST ≠ 0)
    (h2 : (w.tty_table channel).c_oflag &&& ONLCR ≠ 0)
    (h3 : (w.tty_table channel).c_oflag &&& OCRNL = 0)
    (h4 : (w.tty_table channel).c_oflag &&& ONLRET = 0)
    (h5 : (w.tty_table channel).c_oflag &&& OLCUC = 0)
    (hcr : w.cr_flag = 0)
    (hquiet : ∀ k, (env k).others = none) :
    (∀ r w', tty_write env umem w channel buf nr fuel = .ok (r, w') → r = nr →
      w'.put channel = w.put channel ++ nl_expand (user_bytes umem buf nr.toNat) ∧
      w'.cr_flag = 0 ∧ ∀ ch, ch ≠ channel → w'.put ch = w.put ch) ∧
    (∀ r w', tty_write env umem w channel buf nr fuel = .ok (r, w') → channel ≤ 2 → 0 ≤ nr →
      0 ≤ r ∧ r ≤ nr ∧
      w'.put channel = w.put channel ++ nl_expand (user_bytes umem buf r.toNat)
        ++ cr_pending w'.cr_flag ∧
      (w'.cr_flag = 0 ∨ w'.cr_flag = 1) ∧
      (w'.cr_flag = 1 → r < nr ∧ umem (buf + r.toNat) = 10)) ∧
    (channel ≤ 2 → 0 ≤ nr → w.signal = 0 →
      2 * nr ≤ (LEFT (w.tty_table channel).write_q : Int) → 2 ≤ fuel →
      ∃ w', tty_write env umem w channel buf nr fuel = .ok (nr, w')) := by
  have key : ∀ r w', tty_write env umem w channel buf nr fuel = .ok (r, w') → channel ≤ 2 →
      0 ≤ nr → ∃ k : Nat, r = (k : Int) ∧ (k : Int) ≤ nr ∧
        (w'.cr_flag = 0 ∨ w'.cr_flag = 1) ∧
        (w'.cr_flag = 1 → (k : Int) < nr ∧ umem (buf + k) = 10) ∧
        w'.put channel = w.put channel ++ nl_expand (user_bytes umem buf k)
          ++ cr_pending w'.cr_flag ∧
        (∀ ch, ch ≠ channel → w'.put ch = w.put ch) := by
    intro r w' h hch hnr
    unfold tty_write at h
    rw [if_neg (by omega)] at h
    cases ho : tty_write_outer env umem channel fuel w buf nr with
    | panic msg => rw [ho] at h; exact Outcome.noConfusion h
    | stuck => rw [ho] at h; exact Outcome.noConfusion h
    | ok x =>
      rw [ho] at h
      simp only [Outcome.ok.injEq, Prod.mk.injEq] at h
      obtain ⟨hr, hw⟩ := h
      subst hw
      obtain ⟨k, e1, e2, e3, e4, e5, e6, e7⟩ := tty_write_outer_spec env umem channel hquiet fuel w buf nr
        x.1 x.2 (w.put channel) ho h1 h2 h3 h4 h5 (Or.inl hcr)
        (fun hh => absurd hh (by rw [hcr]; decide)) (by rw [hcr]; simp [cr_pending])
      refine ⟨k, ?_, ?_, e4, e5, e6, e7⟩
      · rw [← hr, e1]
        push_cast
        omega
      · by_cases hp : 0 < nr
        · exact e2 hp
        · have := e3 (by omega)
          omega
  refine ⟨?_, ?_, ?_⟩
  · intro r w' h hr
    by_cases hbad : channel > 2 ∨ nr < 0
    · have h' := h
      unfold tty_write at h'
      rw [if_pos hbad] at h'
      simp only [Outcome.ok.injEq, Prod.mk.injEq] at h'
      obtain ⟨hr1, hw⟩ := h'
      subst hw
      have hn : nr.toNat = 0 := by omega
      rw [hn]
      exact ⟨by simp [user_bytes, nl_expand], hcr, fun _ _ => rfl⟩
    · obtain ⟨k, e1, e2, e3, e4, e5, e6⟩ := key r w' h (by omega) (by omega)
      have hk : nr.toNat = k := by omega
      have hc0 : w'.cr_flag = 0 := by
        rcases e3 with e3 | e3
        · exact e3
        · have := (e4 e3).1
          omega
      rw [hk]
      refine ⟨?_, hc0, e6⟩
      rw [e5, hc0]
      simp [cr_pending]
  · intro r w' h hch hnr
    obtain ⟨k, e1, e2, e3, e4, e5, e6⟩ := key r w' h hch hnr
    have hk : r.toNat = k := by omega
    rw [hk]
    refine ⟨by omega, by omega, e5, e3, fun hh => ?_⟩
    obtain ⟨q1, q2⟩ := e4 hh
    exact ⟨by omega, q2⟩
  · intro hch hnr hsig hroom hf
    exact tty_write_returns env umem w channel buf nr fuel hch hnr hsig hcr hroom hf h1 h2 h3 h4 h5

/-- C24 witness: on the empty write queue of the console of `tty0`,
`tty_write(0, "A\nA", 3)` returns 3 and has appended 'A' '\r' '\n' 'A'. -/
theorem tty_write_spec_witness :
    ∃ w', tty_write tty_env0 umem_nl tty0 0 0x2FFF 3 8 = .ok (3, w') ∧
      w'.put 0 = tty0.put 0 ++ nl_expand (user_bytes umem_nl 0x2FFF 3) ∧
      nl_expand (user_bytes umem_nl 0x2FFF 3) = [65, 13, 10, 65] := by
  have h := tty_write_spec tty_env0 umem_nl tty0 0 0x2FFF 3 8 (by decide) (by decide) (by decide)
    (by decide) (by decide) rfl (fun _ => rfl)
  obtain ⟨w', hw⟩ := h.2.2 (by decide) (by decide) rfl (by decide) (by decide)
  exact ⟨w', hw, (h.1 3 w' hw rfl).1, by rfl⟩

/-- C22 fails on the code: `execve("/sh", argv, envp)` from user mode on
`fs_exec`, with the one argument of 131068 letters and its NUL (131069 bytes,
one more than `PAGE_SIZE * MAX_ARG_PAGES - 4`) and an empty environment.
The file `/sh` is found, is a regular file the caller may execute and has a
good a.out header, so `copy_strings` is reached with `p` = 131068; its test
`p - len < 0` is made on an `unsigned long` and never holds, the 131068
letters fill the 32 pages, `--p` wraps from 0 to 2^32 - 1, and `page[p /
PAGE_SIZE]` is indexed at 1048575: `do_execve` does not return -ENOMEM. -/
theorem do_execve_indexes_page_outside :
    do_execve cur0 useg_big fs_exec 0xf 0x1000 0x2000 0x2100 200000 = .outside 1048575 := by
  have hn : namei cur0 useg_big fs_exec 0x1000 200000 = .ok (some 3, fs_exec1) := by rfl
  have hw : arg_wf { mm := fs_exec1.mm, page := fun _ => 0 } := by
    refine ⟨fun i _ h => absurd rfl h, fun i j _ _ h => absurd rfl h, ?_⟩
    have h1 : zero_pages (fun _ => 0) MAX_ARG_PAGES ≤ 32 := zero_pages_le _ _
    have h2 : 32 ≤ free_frames fs_exec1.mm.mem_map PAGING_PAGES := by
      apply free_frames_ge _ 7 32 _ _ (by decide)
      intro j hj1 hj2
      have e : fs_exec1.mm.mem_map = mm0.mem_map := by rfl
      rw [e]
      show (if j < 6 then (2 : Byte) else if j = 6 then 1 else 0) = 0
      rw [if_neg (by omega), if_neg (by omega)]
    exact h1.trans h2
  have hptr : get_long useg_big 0x2000 = 0x100000 := by rfl
  have hcopy : copy_strings useg_big useg_big 1 0x2000
      { mm := fs_exec1.mm, page := fun _ => 0 } (PAGE_SIZE * MAX_ARG_PAGES - 4) 0 200000
      = .outside 1048575 := by
    apply copy_strings_one_wraps useg_big useg_big 0x2000 _ 131068 200000 _ (by decide) (by decide)
    · rw [hptr]; decide
    · intro j hj
      rw [hptr]
      show (if 0x100000 + j = 0x1000 then (47 : Byte) else if 0x100000 + j = 0x1001 then 115
        else if 0x100000 + j = 0x1002 then 104 else if 0x100000 + j = 0x2002 then 0x10
        else if 0x100000 ≤ 0x100000 + j ∧ 0x100000 + j < 0x100000 + 131068 then 65 else 0) ≠ 0
      rw [if_neg (by omega), if_neg (by omega), if_neg (by omega), if_neg (by omega),
        if_pos (by omega)]
      decide
    · rw [hptr]; rfl
    · decide
    · decide
    · exact hw
  rw [do_execve_first_pass cur0 useg_big fs_exec fs_exec1 0xf 0x1000 0x2000 0x2100 200000 3 1 0
    (by decide) hn (by rfl) (by rfl)]
  apply do_execve_passes_outside
  rw [do_execve_pass_aout cur0 useg_big 0x1000 0x2000 0x2100 _ 200000 (0x301, 17) fs_exec2
    (by rfl) (by decide) (by rfl) (by decide)]
  apply exec_aout_outside useg_big 0x2000 0x2100 _ _ _ _ 200000 1048575
    (brelse fs_exec2 (some (0x301, 17))) (fun _ => 0) (PAGE_SIZE * MAX_ARG_PAGES - 4)
    (by decide) (by rfl) rfl (exec_copy_none _ _ _ _ _ _ _ _ (by decide))
  apply exec_copy_outside
  exact hcopy

/-- C23 fails as stated: `execve("/go", argv, envp)` from user mode on `fs_exec`,
with argv = ["go", "ab"] and envp = ["E"].  Block 0 of "/go" holds "#!/sh -x"
and a newline: no blanks, the interpreter path P = "/sh" (bytes 47, 115, 104), a
blank and the text A = "-x".  The first pass ends at `goto restart_interp` with
the inode of "/sh" (slot 3) and `argc` = 4, and `do_execve` reaches the point of
no return with the argument space holding "sh", "-x", "/go", "ab" and "E": the
first string of the argument vector is "sh" (bytes 115, 104, 0), the name
after the last '/' of P, and not P = "/sh". -/
theorem do_execve_script_argv0_is_name :
    script_line (fs_go2.buffer (0x301, 18)).b_data 0 3 6 ∧
    user_bytes (fs_go2.buffer (0x301, 18)).b_data 2 3 = [47, 115, 104] ∧
    (∃ st', do_execve_pass cur0 useg_exec 0x1000 0x2000 0x2100 exec_go 1024
        = .ok (.restart st') ∧
      st'.inode = 3 ∧ st'.argc = 4 ∧ st'.p = PAGE_SIZE * MAX_ARG_PAGES - 4 - 15 ∧
      user_bytes (arg_byte { mm := st'.s.mm, page := st'.page }) st'.p 15
        = [115, 104, 0, 45, 120, 0, 47, 103, 111, 0, 97, 98, 0, 69, 0]) ∧
    ∃ st ex e_uid e_gid, do_execve cur0 useg_exec fs_exec 0xf 0x1000 0x2000 0x2100 1024
        = .ok (.load st ex e_uid e_gid) ∧
      st.inode = 3 ∧ st.argc = 4 ∧
      user_bytes (arg_byte { mm := st.s.mm, page := st.page }) st.p 15
        = [115, 104, 0, 45, 120, 0, 47, 103, 111, 0, 97, 98, 0, 69, 0] :=
  ⟨by unfold script_line; decide, by rfl,
    ⟨exec_step.state exec_go (Exec.get (.restart exec_go)
      (do_execve_pass cur0 useg_exec 0x1000 0x2000 0x2100 exec_go 1024)),
      by rfl, by rfl, by rfl, by rfl, by rfl⟩,
    exec_step.state exec_go (Exec.get (.restart exec_go)
      (do_execve cur0 useg_exec fs_exec 0xf 0x1000 0x2000 0x2100 1024)),
    get_exec (fs_exec.disk (0x301, 17)), 0, 0, by rfl, by rfl, by rfl, by rfl⟩

/-- C23 (amended): a pass of `do_execve` on a regular file the caller may
execute, whose block 0 starts with "#!" and a line of `b` blanks, an
interpreter path P of `n` characters and, when the line goes on (`b + n < e`),
a blank and the text A up to the newline, the newline within the 1022 bytes
`do_execve` copies.  When the file name, the arguments after the first and
the environment strings are NUL-terminated strings that fit in the free part
of the argument space, and the lookup of P after the copies finds an inode,
the pass ends at `goto restart_interp` with that inode, with `sh_bang` = 1 and
`argc` = the original `argc` + 1 without A and + 2 with A, and the argument
space holds from the new `p` on: the name of the interpreter, which is the
part of P after its last '/' and not P itself; A when present; the file name;
the original argv[1], ..., argv[argc-1]; and then the environment, each
string with its NUL. -/
theorem do_execve_script_spec (cur : fs_current) (useg : Nat → Byte) (filename argv envp : Nat)
    (st : exec_state) (fuel : Nat) (bh : Nat × Nat) (s2 s1 : Fs) (b n e k flen ac ec : Nat)
    (alen elen : Nat → Nat)
    (hreg : S_ISREG (st.s.inode_table st.inode).i_mode = true)
    (hperm : ¬ ((if cur.euid = (st.s.inode_table st.inode).i_uid
          then (st.s.inode_table st.inode).i_mode >>> 6
          else if cur.egid = (st.s.inode_table st.inode).i_gid
            then (st.s.inode_table st.inode).i_mode >>> 3
            else (st.s.inode_table st.inode).i_mode) &&& 1 = 0 ∧
        ¬ ((st.s.inode_table st.inode).i_mode &&& 0o111 ≠ 0 ∧ suser cur = true)))
    (hbread : bread st.s (st.s.inode_table st.inode).i_dev
        ((st.s.inode_table st.inode).i_zone 0) = (some bh, s2))
    (hline : script_line (s2.buffer bh).b_data b n e)
    (hname : name_offset (s2.buffer bh).b_data (2 + b) n k)
    (hsh : st.sh_bang = 0)
    (hiput : iput (brelse s2 (some bh)) (some st.inode) fuel = .ok s1)
    (hac : st.argc = (ac : Int)) (hec : st.envc = (ec : Int))
    (hf0 : filename ≠ 0) (hf1 : filename < 4294967296)
    (hfs : is_cstr useg filename flen) (hfl : flen < fuel) (hfuel : 1022 ≤ fuel)
    (hargv : ∀ i, i < ac - 1 → get_long useg (argv + 4 + 4 * i) ≠ 0 ∧
      is_cstr useg (get_long useg (argv + 4 + 4 * i)) (alen i) ∧ alen i < fuel)
    (henvp : ∀ i, i < ec → get_long useg (envp + 4 * i) ≠ 0 ∧
      is_cstr useg (get_long useg (envp + 4 * i)) (elen i) ∧ elen i < fuel)
    (hw : arg_wf { mm := s1.mm, page := st.page }) (htop : st.p ≤ PAGE_SIZE * MAX_ARG_PAGES)
    (hsize : script_size b n e k flen ac ec alen elen < st.p)
    (hnamei : ∀ c, exec_splice_copy useg (script_frame filename (s2.buffer bh).b_data b n e k)
        argv envp st s1 (if b + n < e then EXEC_BUF + (b + n + 1) else 0) fuel = .ok c →
      ∃ inode2 s6, namei cur (script_frame filename (s2.buffer bh).b_data b n e k) c.1.1
        (EXEC_BUF + b) fuel = .ok (some inode2, s6)) :
    ∃ st' s5,
      do_execve_pass cur useg filename argv envp st fuel = .ok (.restart st') ∧
      namei cur (script_frame filename (s2.buffer bh).b_data b n e k) s5 (EXEC_BUF + b) fuel
        = .ok (some st'.inode, st'.s) ∧
      user_bytes (script_frame filename (s2.buffer bh).b_data b n e k) (EXEC_BUF + b) (n + 1)
        = user_bytes (s2.buffer bh).b_data (2 + b) n ++ [0] ∧
      st'.argc = (ac : Int) + 1 + (if b + n < e then 1 else 0) ∧ st'.envc = (ec : Int) ∧
      st'.sh_bang = 1 ∧ st'.p = st.p - script_size b n e k flen ac ec alen elen ∧
      user_bytes (arg_byte { mm := s5.mm, page := st'.page }) st'.p
          (script_size b n e k flen ac ec alen elen)
        = (user_bytes (s2.buffer bh).b_data (2 + (b + k)) (n - k) ++ [0]) ++
          ((if b + n < e
            then user_bytes (s2.buffer bh).b_data (2 + (b + n + 1)) (e - (b + n + 1)) ++ [0]
            else []) ++
          (user_bytes useg filename (flen + 1) ++
          (argv_bytes useg useg (argv + 4) alen (ac - 1) 0 ++
          argv_bytes useg useg envp elen ec 0))) := by
  obtain ⟨h0, h1, he, hnz, hnl, hb, hn, hbn, hP, hA⟩ := id hline
  obtain ⟨hk1, hk2, hk3⟩ := id hname
  have hE : EXEC_BUF = 16 := rfl
  -- the strings of the kernel data segment
  obtain ⟨hns, hnb⟩ := script_frame_str filename _ b n e k hline (b + k) (b + n) (by omega)
    (Or.inr rfl) (fun j _ hj => by omega)
  obtain ⟨-, hpb⟩ := script_frame_str filename _ b n e k hline b (b + n) (by omega)
    (Or.inr rfl) (fun j _ hj => by omega)
  rw [show b + n - (b + k) = n - k by omega] at hns hnb
  rw [show b + n - b = n by omega] at hpb
  obtain ⟨hp4, hp8, hp12⟩ := exec_frame_pointers filename
    (if b + n < e then EXEC_BUF + (b + n + 1) else 0) (EXEC_BUF + (b + k))
    (script_buf (s2.buffer bh).b_data e (b + n)) hf1
    (by split_ifs <;> omega) (by omega)
  have hia : (if b + n < e then EXEC_BUF + (b + n + 1) else 0) ≠ 0 ↔ b + n < e := by
    by_cases hlt : b + n < e
    · rw [if_pos hlt]
      exact ⟨fun _ => hlt, fun _ => by omega⟩
    · rw [if_neg hlt]
      exact ⟨fun h => absurd rfl h, fun h => absurd h hlt⟩
  have hif : ∀ {α : Type} (x y : α),
      (if (if b + n < e then EXEC_BUF + (b + n + 1) else 0) ≠ 0 then x else y)
        = (if b + n < e then x else y) := by
    intro α x y
    by_cases hlt : b + n < e
    · rw [if_pos (hia.2 hlt), if_pos hlt]
    · rw [if_neg (fun h => hlt (hia.1 h)), if_neg hlt]
  obtain ⟨mm5, page5, w5, hbytes, hcopy⟩ := exec_splice_copy_spec useg
    (script_frame filename (s2.buffer bh).b_data b n e k) argv envp st s1
    (if b + n < e then EXEC_BUF + (b + n + 1) else 0) fuel filename (EXEC_BUF + (b + k)) flen
    (n - k) (e - (b + n + 1)) ac ec alen elen hsh hac hec hp4 hp8 hp12 hf0 (by omega) hfs hfl
    hns (by omega) (fun hi => by
      have hlt := hia.1 hi
      rw [if_pos hlt]
      exact ⟨(script_frame_str filename _ b n e k hline (b + n + 1) e (by omega) (Or.inl rfl)
        (fun j hj _ => by omega)).1, by omega⟩) hargv henvp hw htop (by
      rw [hif]
      exact hsize)
  rw [hif, hif] at hbytes
  rw [hif, hif] at hcopy
  obtain ⟨inode2, s6, hn6⟩ := hnamei _ hcopy
  have hgb : (if b + n < e then
        user_bytes (script_frame filename (s2.buffer bh).b_data b n e k)
          (if b + n < e then EXEC_BUF + (b + n + 1) else 0) (e - (b + n + 1) + 1)
      else [])
      = (if b + n < e
          then user_bytes (s2.buffer bh).b_data (2 + (b + n + 1)) (e - (b + n + 1)) ++ [0]
          else []) := by
    by_cases hlt : b + n < e
    · rw [if_pos hlt, if_pos hlt, if_pos hlt]
      exact (script_frame_str filename _ b n e k hline (b + n + 1) e (by omega) (Or.inl rfl)
        (fun j hj _ => by omega)).2
    · rw [if_neg hlt, if_neg hlt]
  rw [hgb, hnb] at hbytes
  refine ⟨{ s := s6, page := page5, inode := inode2, argc := (ac : Int) + 1 + (if b + n < e then 1 else 0), envc := (ec : Int), sh_bang := 1, p := st.p - script_size b n e k flen ac ec alen elen },
    { s1 with mm := mm5 }, ?_, hn6, hpb, rfl, rfl, rfl, rfl, hbytes⟩
  rw [do_execve_pass_script cur useg filename argv envp st fuel bh s2 hreg hperm hbread
    ⟨h0, h1, hsh⟩]
  rw [exec_script_eq cur useg filename argv envp { st with s := s2 } bh fuel s1 b n e k hline
    hname hiput]
  have hcopy2 : exec_splice_copy useg (script_frame filename (s2.buffer bh).b_data b n e k)
      argv envp { st with s := s2 } s1 (if b + n < e then EXEC_BUF + (b + n + 1) else 0) fuel
      = .ok (({ s1 with mm := mm5 }, page5, st.p - script_size b n e k flen ac ec alen elen),
        (ac : Int) + 1 + (if b + n < e then 1 else 0)) := hcopy
  have hrs := exec_splice_restart cur useg (script_frame filename (s2.buffer bh).b_data b n e k)
    argv envp { st with s := s2 } s1 (EXEC_BUF + b)
    (if b + n < e then EXEC_BUF + (b + n + 1) else 0) fuel _ inode2 s6 hcopy2 (by
      show st.p - script_size b n e k flen ac ec alen elen ≠ 0
      omega) hn6
  refine hrs.trans ?_
  show Exec.ok (exec_step.restart { s := s6, page := page5, inode := inode2, argc := (ac : Int) + 1 + (if b + n < e then 1 else 0), envc := st.envc, sh_bang := st.sh_bang + 1, p := st.p - script_size b n e k flen ac ec alen elen }) = _
  rw [hsh, hec]

/-- C23 witness: the example `exec_go`, the script "/go" with the line "/sh -x"
(`b` = 0, `n` = 3, `e` = 6, the name at character 1 of the path), called with
the file name "/go" (3 characters), two arguments, the second of 2 characters,
and one environment string of 1 character. -/
theorem do_execve_script_spec_witness :
    ∃ st' s5,
      do_execve_pass cur0 useg_exec 0x1000 0x2000 0x2100 exec_go 1024 = .ok (.restart st') ∧
      namei cur0 (script_frame 0x1000 (fs_go2.buffer (0x301, 18)).b_data 0 3 6 1) s5
        (EXEC_BUF + 0) 1024 = .ok (some st'.inode, st'.s) ∧
      user_bytes (script_frame 0x1000 (fs_go2.buffer (0x301, 18)).b_data 0 3 6 1)
        (EXEC_BUF + 0) (3 + 1) = user_bytes (fs_go2.buffer (0x301, 18)).b_data (2 + 0) 3 ++ [0] ∧
      st'.argc = ((2 : Nat) : Int) + 1 + (if 0 + 3 < 6 then 1 else 0) ∧
      st'.envc = ((1 : Nat) : Int) ∧ st'.sh_bang = 1 ∧
      st'.p = exec_go.p - script_size 0 3 6 1 3 2 1 (fun _ => 2) (fun _ => 1) ∧
      user_bytes (arg_byte { mm := s5.mm, page := st'.page }) st'.p
          (script_size 0 3 6 1 3 2 1 (fun _ => 2) (fun _ => 1))
        = (user_bytes (fs_go2.buffer (0x301, 18)).b_data (2 + (0 + 1)) (3 - 1) ++ [0]) ++
          ((if 0 + 3 < 6
            then user_bytes (fs_go2.buffer (0x301, 18)).b_data (2 + (0 + 3 + 1)) (6 - (0 + 3 + 1))
              ++ [0]
            else []) ++
          (user_bytes useg_exec 0x1000 (3 + 1) ++
          (argv_bytes useg_exec useg_exec (0x2000 + 4) (fun _ => 2) (2 - 1) 0 ++
          argv_bytes useg_exec useg_exec 0x2100 (fun _ => 1) 1 0))) :=
  do_execve_script_spec cur0 useg_exec 0x1000 0x2000 0x2100 exec_go 1024 (0x301, 18) fs_go2 fs_go1
    0 3 6 1 3 2 1 (fun _ => 2) (fun _ => 1) (by rfl) (by decide) (by rfl)
    (by unfold script_line; decide) (by unfold name_offset; decide) (by rfl) (by rfl) (by rfl)
    (by rfl) (by decide) (by decide) ⟨by decide, by decide⟩ (by decide) (by decide)
    (fun i hi => by
      have h : i = 0 := by omega
      subst h
      exact ⟨by decide, ⟨by decide, by decide⟩, by decide⟩)
    (fun i hi => by
      have h : i = 0 := by omega
      subst h
      exact ⟨by decide, ⟨by decide, by decide⟩, by decide⟩)
    (by
      refine ⟨fun i _ h => absurd rfl h, fun i j _ _ h => absurd rfl h, ?_⟩
      have h1 : zero_pages (fun _ => 0) MAX_ARG_PAGES ≤ 32 := zero_pages_le _ _
      have h2 : 32 ≤ free_frames fs_go1.mm.mem_map PAGING_PAGES := by
        apply free_frames_ge _ 7 32 _ _ (by decide)
        intro j hj1 hj2
        have e : fs_go1.mm.mem_map = mm0.mem_map := by rfl
        rw [e]
        show (if j < 6 then (2 : Byte) else if j = 6 then 1 else 0) = 0
        rw [if_neg (by omega), if_neg (by omega)]
      exact h1.trans h2)
    (by decide) (by decide)
    (fun c hc => by
      have h0 : exec_splice_copy useg_exec
          (script_frame 0x1000 (fs_go2.buffer (0x301, 18)).b_data 0 3 6 1) 0x2000 0x2100 exec_go
          fs_go1 (if 0 + 3 < 6 then EXEC_BUF + (0 + 3 + 1) else 0) 1024 = .ok copy_go := by rfl
      rw [h0] at hc
      injection hc with hc
      subst hc
      exact ⟨3, (Outcome.get (none, fs_go1) (namei cur0
        (script_frame 0x1000 (fs_go2.buffer (0x301, 18)).b_data 0 3 6 1) copy_go.1.1
        (EXEC_BUF + 0) 1024)).2, by rfl⟩)

end Linux
